import Mathlib

/-!
# CPE dictionary codec (`src/CPE/cpedict_priv.c`)

A shallow embedding of the streaming parser (`cpe_*_parse`) and of the
serializer (`cpe_*_export`) of the CPE dictionary, together with the
properties of the two that the specification states.

* The token cursor (libxml2 `xmlTextReader`) is a list of nodes with a current
  node; the writer (libxml2 `xmlTextWriter`) is the list of the calls made on it.
* Every `while` loop of the source is a function recursing on a fuel argument;
  `Res.timeout` is the answer of a loop that has not ended when the fuel is
  used up, so a loop that never ends answers `Res.timeout` for every fuel.
* A pointer that may be `NULL` is an `Option`.
* `render` gives the nodes that the cursor reads from the document that a
  sequence of writer calls produces, so that what the serializer writes can be
  parsed again; it answers none for the calls whose document the model does
  not read back.
-/

namespace CpeDict

/-! ## Token cursor -/

/-- Node types of the `xmlTextReader` API (`xmlReaderTypes`). -/
inductive xmlReaderTypes where
  | XML_READER_TYPE_NONE
  | XML_READER_TYPE_ELEMENT
  | XML_READER_TYPE_TEXT
  | XML_READER_TYPE_CDATA
  | XML_READER_TYPE_COMMENT
  | XML_READER_TYPE_WHITESPACE
  | XML_READER_TYPE_END_ELEMENT
  | XML_READER_TYPE_PROCESSING_INSTRUCTION
  | XML_READER_TYPE_DOCUMENT_TYPE
  deriving DecidableEq, Repr

open xmlReaderTypes

/-- One node of the token stream, with what the cursor reports on it: node type,
local name, namespace prefix, the `xml:lang` in scope, the attributes in the
order the cursor enumerates them (qualified name, value), the text of a text
node, and whether an element is an empty element (`<a/>`, no end tag follows). -/
structure xmlNode where
  type : xmlReaderTypes
  localName : String
  nspace : Option String
  lang : Option String
  attrs : List (String × String)
  value : String
  isEmpty : Bool
  deriving DecidableEq, Repr

/-- The cursor: the current node (absent before the first read and after the
end of the stream) and the nodes not read yet. -/
structure xmlTextReader where
  cur : Option xmlNode
  rest : List xmlNode
  deriving DecidableEq, Repr

/-- The nodes at and after the cursor. -/
def xmlTextReader.nodes (r : xmlTextReader) : List xmlNode :=
  (match r.cur with | some n => [n] | none => []) ++ r.rest

/-- The `xmlTextReaderRead` call: 1 and the next node, or 0 at the end of the stream. -/
def xmlTextReaderRead (r : xmlTextReader) : Int × xmlTextReader :=
  match r.rest with
  | [] => (0, { cur := none, rest := [] })
  | n :: ns => (1, { cur := some n, rest := ns })

def xmlTextReaderNodeType (r : xmlTextReader) : xmlReaderTypes :=
  match r.cur with
  | some n => n.type
  | none => XML_READER_TYPE_NONE

def xmlTextReaderConstLocalName (r : xmlTextReader) : Option String :=
  r.cur.map (fun n => n.localName)

def xmlTextReaderPrefix (r : xmlTextReader) : Option String :=
  r.cur.bind (fun n => n.nspace)

def xmlTextReaderConstXmlLang (r : xmlTextReader) : Option String :=
  r.cur.bind (fun n => n.lang)

/-- The value of the attribute of a node with the given qualified name. -/
def xmlNode.attribute (n : xmlNode) (name : String) : Option String :=
  (n.attrs.find? (fun a => a.1 == name)).map (fun a => a.2)

/-- Lookup of an attribute of the current node by qualified name. -/
def xmlTextReaderGetAttribute (r : xmlTextReader) (name : String) : Option String :=
  r.cur.bind (fun n => n.attribute name)

/-- Text of the text nodes below an element whose start tag has just been
read: `depth` counts the elements opened since. -/
def collectText : Nat → List xmlNode → String
  | _, [] => ""
  | depth, n :: ns =>
    match n.type with
    | XML_READER_TYPE_ELEMENT =>
      if n.isEmpty then collectText depth ns else collectText (depth + 1) ns
    | XML_READER_TYPE_END_ELEMENT =>
      match depth with
      | 0 => ""
      | d + 1 => collectText d ns
    | XML_READER_TYPE_TEXT => n.value ++ collectText depth ns
    | XML_READER_TYPE_CDATA => n.value ++ collectText depth ns
    | XML_READER_TYPE_WHITESPACE => n.value ++ collectText depth ns
    | _ => collectText depth ns

/-- The `xmlTextReaderReadString` call: the text of a text node, the
concatenated text below an element (absent when the element has no child);
the cursor does not move. -/
def xmlTextReaderReadString (r : xmlTextReader) : Option String :=
  match r.cur with
  | none => none
  | some n =>
    match n.type with
    | XML_READER_TYPE_TEXT => some n.value
    | XML_READER_TYPE_CDATA => some n.value
    | XML_READER_TYPE_WHITESPACE => some n.value
    | XML_READER_TYPE_ELEMENT =>
      if n.isEmpty then none
      else
        match r.rest with
        | [] => none
        | m :: _ =>
          if m.type = XML_READER_TYPE_END_ELEMENT then none
          else some (collectText 0 r.rest)
    | _ => none

/-- The value `xmlStrcmp(s1, s2) != 0`: the two strings differ (an absent `s1`
differs from every string). -/
def xmlStrcmp (s1 : Option String) (s2 : String) : Bool :=
  decide (s1 ≠ some s2)

/-- The loop of `xmlTextReaderNextElement` over the nodes not read yet. -/
def xmlTextReaderNextElement_loop : List xmlNode → Int × xmlTextReader
  | [] => (0, { cur := none, rest := [] })
  | n :: ns =>
    if n.type ≠ XML_READER_TYPE_ELEMENT then xmlTextReaderNextElement_loop ns
    else (1, { cur := some n, rest := ns })

/-- Function that jumps to the next XML starting element. -/
def xmlTextReaderNextElement (r : xmlTextReader) : Int × xmlTextReader :=
  xmlTextReaderNextElement_loop r.rest

def xmlTextReaderNextNode (r : xmlTextReader) : Int × xmlTextReader :=
  xmlTextReaderRead r

/-! ## Results of loops -/

/-- Outcome of a function that contains a loop or dereferences a pointer. -/
inductive Res (α : Type) where
  | timeout : Res α
  | crash : Res α
  | done : α → Res α
  deriving DecidableEq, Repr

def Res.bind {α β : Type} (x : Res α) (f : α → Res β) : Res β :=
  match x with
  | .timeout => .timeout
  | .crash => .crash
  | .done a => f a

/-! ## Domain model -/

structure xml_metadata where
  lang : Option String
  nspace : Option String
  URI : Option String
  deriving DecidableEq, Repr

/-- Component type of a CPE name (`cpe_part_t`). -/
inductive cpe_part_t where
  | CPE_PART_NONE
  | CPE_PART_HW
  | CPE_PART_OS
  | CPE_PART_APP
  deriving DecidableEq, Repr

open cpe_part_t

/-- A parsed CPE name; the codec that builds and formats it is `cpe_codec`. -/
structure cpe_name where
  uri : String
  deriving DecidableEq, Repr

/-- The identifier codec (`cpeuri.h`, an external collaborator): `cpe_name_new`
answers no name for a text it rejects. -/
structure cpe_codec where
  cpe_name_new : String → Option cpe_name
  cpe_name_get_uri : cpe_name → String

structure oscap_title where
  xml : xml_metadata
  content : Option String
  deriving DecidableEq, Repr

structure cpe_item_metadata where
  xml : xml_metadata
  modification_date : Option String
  status : Option String
  nvd_id : Option String
  deprecated_by_nvd_id : Option String
  deriving DecidableEq, Repr

structure cpe_check where
  xml : xml_metadata
  system : Option String
  href : Option String
  identifier : Option String
  deriving DecidableEq, Repr

structure cpe_reference where
  xml : xml_metadata
  href : Option String
  content : Option String
  deriving DecidableEq, Repr

structure cpe_item where
  xml : xml_metadata
  name : Option cpe_name
  titles : List oscap_title
  deprecated : Option cpe_name
  deprecation_date : Option String
  references : List cpe_reference
  checks : List cpe_check
  notes : List oscap_title
  metadata : Option cpe_item_metadata
  deriving DecidableEq, Repr

structure cpe_generator where
  xml : xml_metadata
  product_name : Option String
  product_version : Option String
  schema_version : Option String
  timestamp : Option String
  deriving DecidableEq, Repr

structure cpe_language where
  xml : xml_metadata
  value : Option String
  deriving DecidableEq, Repr

structure cpe_edition where
  xml : xml_metadata
  value : Option String
  languages : List cpe_language
  deriving DecidableEq, Repr

structure cpe_update where
  xml : xml_metadata
  value : Option String
  editions : List cpe_edition
  deriving DecidableEq, Repr

structure cpe_version where
  xml : xml_metadata
  value : Option String
  updates : List cpe_update
  deriving DecidableEq, Repr

structure cpe_product where
  xml : xml_metadata
  value : Option String
  part : cpe_part_t
  versions : List cpe_version
  deriving DecidableEq, Repr

structure cpe_vendor where
  xml : xml_metadata
  value : Option String
  titles : List oscap_title
  products : List cpe_product
  deriving DecidableEq, Repr

structure cpe_dict_model where
  xmlns : List xml_metadata
  xml : xml_metadata
  items : List cpe_item
  vendors : List cpe_vendor
  generator : Option cpe_generator
  deriving DecidableEq, Repr

/-! ## Constructors -/

def xml_metadata_new : xml_metadata := { lang := none, nspace := none, URI := none }

def cpe_dict_model_new : cpe_dict_model :=
  { xmlns := [], xml := xml_metadata_new, items := [], vendors := [], generator := none }

def cpe_item_metadata_new : cpe_item_metadata :=
  { xml := xml_metadata_new, modification_date := none, status := none, nvd_id := none,
    deprecated_by_nvd_id := none }

def cpe_item_new : cpe_item :=
  { xml := xml_metadata_new, name := none, titles := [], deprecated := none,
    deprecation_date := none, references := [], checks := [], notes := [], metadata := none }

def cpe_check_new : cpe_check :=
  { xml := xml_metadata_new, system := none, href := none, identifier := none }

def cpe_reference_new : cpe_reference :=
  { xml := xml_metadata_new, href := none, content := none }

def cpe_generator_new : cpe_generator :=
  { xml := xml_metadata_new, product_name := none, product_version := none,
    schema_version := none, timestamp := none }

def cpe_vendor_new : cpe_vendor :=
  { xml := xml_metadata_new, value := none, titles := [], products := [] }

def cpe_product_new : cpe_product :=
  { xml := xml_metadata_new, value := none, part := CPE_PART_NONE, versions := [] }

def cpe_version_new : cpe_version :=
  { xml := xml_metadata_new, value := none, updates := [] }

def cpe_update_new : cpe_update :=
  { xml := xml_metadata_new, value := none, editions := [] }

def cpe_edition_new : cpe_edition :=
  { xml := xml_metadata_new, value := none, languages := [] }

def cpe_language_new : cpe_language :=
  { xml := xml_metadata_new, value := none }

/-! ## Helpers of the common library -/

/-- The C `isspace` test. -/
def isspace (c : Char) : Bool :=
  c.toNat = 32 || (9 ≤ c.toNat && c.toNat ≤ 13)

/-- Modelled from the spec: `oscap_trim` (common/util.c, not among the sources)
removes the white space around a text and maps an absent text to an absent text. -/
def oscap_trim (str : Option String) : Option String :=
  str.map (fun s => String.mk ((s.data.dropWhile isspace).reverse.dropWhile isspace).reverse)

/-- Modelled from the spec: `oscap_title_parse` (common/elements.c, not among the
sources) reads a title or note, "locale tag + free-text content", at the
cursor; like `cpe_reference_parse` it answers nothing when the current node does
not have the given name and it does not move the cursor. -/
def oscap_title_parse (reader : xmlTextReader) (name : String) : Option oscap_title :=
  if xmlStrcmp (xmlTextReaderConstLocalName reader) name then none
  else
    some { xml := { lang := xmlTextReaderConstXmlLang reader,
                    nspace := xmlTextReaderPrefix reader, URI := none },
           content := oscap_trim (xmlTextReaderReadString reader) }

/-- The C `tolower` on one character. -/
def tolower (c : Char) : Char :=
  if 65 ≤ c.toNat && c.toNat ≤ 90 then Char.ofNat (c.toNat + 32) else c

/-- The value `strcasecmp(s1, s2) == 0`. -/
def strcasecmp (s1 s2 : String) : Bool :=
  decide (s1.data.map tolower = s2.data.map tolower)

/-! ## XML strings -/

def TAG_CHECK_STR : String := "check"
def TAG_NOTES_STR : String := "notes"
def TAG_REFERENCES_STR : String := "references"
def ATTR_DEP_BY_NVDID_STR : String := "deprecated-by-nvd-id"
def ATTR_NVD_ID_STR : String := "nvd-id"
def ATTR_STATUS_STR : String := "status"
def ATTR_MODIFICATION_DATE_STR : String := "modification-date"
def TAG_ITEM_METADATA_STR : String := "item-metadata"
def TAG_REFERENCE_STR : String := "reference"
def TAG_NOTE_STR : String := "note"
def TAG_TITLE_STR : String := "title"
def TAG_CPE_ITEM_STR : String := "cpe-item"
def ATTR_DEPRECATION_DATE_STR : String := "deprecation_date"
def ATTR_DEPRECATED_BY_STR : String := "deprecated_by"
def ATTR_DEPRECATED_STR : String := "deprecated"
def ATTR_NAME_STR : String := "name"
def TAG_GENERATOR_STR : String := "generator"
def TAG_PRODUCT_STR : String := "product"
def TAG_PRODUCT_NAME_STR : String := "product_name"
def TAG_PRODUCT_VERSION_STR : String := "product_version"
def TAG_SCHEMA_VERSION_STR : String := "schema_version"
def TAG_TIMESTAMP_STR : String := "timestamp"
def TAG_COMPONENT_TREE_STR : String := "component-tree"
def TAG_VENDOR_STR : String := "vendor"
def TAG_CPE_LIST_STR : String := "cpe-list"
def TAG_VERSION_STR : String := "version"
def TAG_UPDATE_STR : String := "update"
def TAG_EDITION_STR : String := "edition"
def TAG_LANGUAGE_STR : String := "language"
def ATTR_VALUE_STR : String := "value"
def ATTR_PART_STR : String := "part"
def ATTR_SYSTEM_STR : String := "system"
def ATTR_HREF_STR : String := "href"
def NS_META_STR : String := "meta"
def ATTR_XML_LANG_STR : String := "xml:lang"
def VAL_TRUE_STR : String := "true"

def PART_TO_CHAR : cpe_part_t → Option String
  | CPE_PART_NONE => none
  | CPE_PART_HW => some "h"
  | CPE_PART_OS => some "o"
  | CPE_PART_APP => some "a"

def ERR_UNKNOWN_ELEMENT : String := "Unknown XML element in CPE dictionary"
def ERR_UNKNOWN_GENERATOR_ELEMENT : String := "Unknown XML element in CPE dictionary generator"

/-! ## Parser -/

/-- What the parser threads along: the cursor and the diagnostics recorded with
`oscap_seterr`, oldest first. -/
structure parser_state where
  reader : xmlTextReader
  errors : List String
  deriving DecidableEq, Repr

def parser_state.next_element (st : parser_state) : Int × parser_state :=
  ((xmlTextReaderNextElement st.reader).1, { st with reader := (xmlTextReaderNextElement st.reader).2 })

def parser_state.next_node (st : parser_state) : Int × parser_state :=
  ((xmlTextReaderNextNode st.reader).1, { st with reader := (xmlTextReaderNextNode st.reader).2 })

def oscap_seterr (st : parser_state) (msg : String) : parser_state :=
  { st with errors := st.errors ++ [msg] }

/-- Add item to dictionary. Function that just checks both variables on NULL value. -/
def cpe_dict_model_add_item (dict : Option cpe_dict_model) (item : Option cpe_item) :
    Bool × Option cpe_dict_model :=
  match dict, item with
  | some d, some i => (true, some { d with items := d.items ++ [i] })
  | d, _ => (false, d)

/-- One pass of the `while` loop of `cpe_generator_parse`, without the final
`xmlTextReaderNextNode`. -/
def cpe_generator_parse_body (st : parser_state) (ret : cpe_generator) :
    parser_state × cpe_generator :=
  let reader := st.reader
  if !xmlStrcmp (xmlTextReaderConstLocalName reader) TAG_PRODUCT_NAME_STR
      && xmlTextReaderNodeType reader = XML_READER_TYPE_ELEMENT then
    (st, { ret with product_name := xmlTextReaderReadString reader })
  else if !xmlStrcmp (xmlTextReaderConstLocalName reader) TAG_PRODUCT_VERSION_STR
      && xmlTextReaderNodeType reader = XML_READER_TYPE_ELEMENT then
    (st, { ret with product_version := xmlTextReaderReadString reader })
  else if !xmlStrcmp (xmlTextReaderConstLocalName reader) TAG_SCHEMA_VERSION_STR
      && xmlTextReaderNodeType reader = XML_READER_TYPE_ELEMENT then
    (st, { ret with schema_version := xmlTextReaderReadString reader })
  else if !xmlStrcmp (xmlTextReaderConstLocalName reader) TAG_TIMESTAMP_STR
      && xmlTextReaderNodeType reader = XML_READER_TYPE_ELEMENT then
    (st, { ret with timestamp := xmlTextReaderReadString reader })
  else if xmlTextReaderNodeType reader = XML_READER_TYPE_ELEMENT then
    (oscap_seterr st ERR_UNKNOWN_GENERATOR_ELEMENT, ret)
  else (st, ret)

/-- The `while` loop of `cpe_generator_parse`. -/
def cpe_generator_parse_loop : Nat → parser_state → cpe_generator →
    Res (parser_state × cpe_generator)
  | 0, _, _ => .timeout
  | fuel + 1, st, ret =>
    if xmlStrcmp (xmlTextReaderConstLocalName st.reader) TAG_GENERATOR_STR then
      let step := cpe_generator_parse_body st ret
      cpe_generator_parse_loop fuel step.1.next_node.2 step.2
    else .done (st, ret)

def cpe_generator_parse (fuel : Nat) (st : parser_state) :
    Res (parser_state × Option cpe_generator) :=
  let reader := st.reader
  if !xmlStrcmp (xmlTextReaderConstLocalName reader) TAG_GENERATOR_STR
      && xmlTextReaderNodeType reader = XML_READER_TYPE_ELEMENT then
    let ret := { cpe_generator_new with
      xml := { lang := xmlTextReaderConstXmlLang reader, nspace := xmlTextReaderPrefix reader,
               URI := none } }
    (cpe_generator_parse_loop fuel st.next_element.2 ret).bind
      (fun out => .done (out.1, some out.2))
  else .done (st, none)

def cpe_check_parse (reader : xmlTextReader) : Option cpe_check :=
  if xmlStrcmp (xmlTextReaderConstLocalName reader) TAG_CHECK_STR then none
  else
    some { xml := { lang := xmlTextReaderConstXmlLang reader,
                    nspace := xmlTextReaderPrefix reader, URI := none },
           system := xmlTextReaderGetAttribute reader ATTR_SYSTEM_STR,
           href := xmlTextReaderGetAttribute reader ATTR_HREF_STR,
           identifier := oscap_trim (xmlTextReaderReadString reader) }

def cpe_reference_parse (reader : xmlTextReader) : Option cpe_reference :=
  if xmlStrcmp (xmlTextReaderConstLocalName reader) TAG_REFERENCE_STR then none
  else
    some { xml := { lang := xmlTextReaderConstXmlLang reader,
                    nspace := xmlTextReaderPrefix reader, URI := none },
           href := xmlTextReaderGetAttribute reader ATTR_HREF_STR,
           content := oscap_trim (xmlTextReaderReadString reader) }

/-- The `item-metadata` branch of `cpe_item_parse`: no metadata when the
`modification-date` attribute is missing. -/
def cpe_item_metadata_parse (reader : xmlTextReader) : Option cpe_item_metadata :=
  match xmlTextReaderGetAttribute reader ATTR_MODIFICATION_DATE_STR with
  | none => none
  | some data =>
    some { xml := { lang := xmlTextReaderConstXmlLang reader,
                    nspace := xmlTextReaderPrefix reader, URI := none },
           modification_date := some data,
           status := xmlTextReaderGetAttribute reader ATTR_STATUS_STR,
           nvd_id := xmlTextReaderGetAttribute reader ATTR_NVD_ID_STR,
           deprecated_by_nvd_id := xmlTextReaderGetAttribute reader ATTR_DEP_BY_NVDID_STR }

/-- How one pass of the `while` loop of `cpe_item_parse` ends. -/
inductive item_step where
  | next_node : cpe_item → item_step
  | next_element : cpe_item → item_step
  | return_null : item_step
  | return_ret : cpe_item → item_step
  deriving DecidableEq

/-- One pass of the `while` loop of `cpe_item_parse`, up to the move of the cursor. -/
def cpe_item_parse_body (reader : xmlTextReader) (ret : cpe_item) : item_step :=
  if xmlTextReaderNodeType reader ≠ XML_READER_TYPE_ELEMENT then .next_node ret
  else if !xmlStrcmp (xmlTextReaderConstLocalName reader) TAG_TITLE_STR then
    match oscap_title_parse reader TAG_TITLE_STR with
    | some title => .next_element { ret with titles := ret.titles ++ [title] }
    | none => .next_element ret
  else if !xmlStrcmp (xmlTextReaderConstLocalName reader) TAG_NOTE_STR then
    match oscap_title_parse reader TAG_NOTE_STR with
    | some title => .next_element { ret with notes := ret.notes ++ [title] }
    | none => .next_element ret
  else if !xmlStrcmp (xmlTextReaderConstLocalName reader) TAG_CHECK_STR then
    match cpe_check_parse reader with
    | some check => .next_element { ret with checks := ret.checks ++ [check] }
    | none => .next_element ret
  else if !xmlStrcmp (xmlTextReaderConstLocalName reader) TAG_REFERENCE_STR then
    match cpe_reference_parse reader with
    | some ref => .next_element { ret with references := ret.references ++ [ref] }
    | none => .next_element ret
  else if !xmlStrcmp (xmlTextReaderConstLocalName reader) TAG_ITEM_METADATA_STR then
    match cpe_item_metadata_parse reader with
    | none => .return_null
    | some metadata => .next_element { ret with metadata := some metadata }
  else if !xmlStrcmp (xmlTextReaderConstLocalName reader) TAG_REFERENCES_STR
      || !xmlStrcmp (xmlTextReaderConstLocalName reader) TAG_NOTES_STR then
    .next_element ret
  else .return_ret ret

/-- The `while` loop of `cpe_item_parse`. -/
def cpe_item_parse_loop : Nat → parser_state → cpe_item →
    Res (parser_state × Option cpe_item)
  | 0, _, _ => .timeout
  | fuel + 1, st, ret =>
    if xmlStrcmp (xmlTextReaderConstLocalName st.reader) TAG_CPE_ITEM_STR then
      match cpe_item_parse_body st.reader ret with
      | .next_node ret1 => cpe_item_parse_loop fuel st.next_node.2 ret1
      | .next_element ret1 => cpe_item_parse_loop fuel st.next_element.2 ret1
      | .return_null => .done (st, none)
      | .return_ret ret1 => .done (st, some ret1)
    else .done (st, some ret)

/-- The reading of the attributes of the `cpe-item` start tag in
`cpe_item_parse`: the entry before its children are read, or nothing when the
deprecation attributes are incomplete. -/
def cpe_item_parse_attrs (codec : cpe_codec) (reader : xmlTextReader) : Option cpe_item :=
  let ret := { cpe_item_new with
    xml := { lang := xmlTextReaderConstXmlLang reader, nspace := xmlTextReaderPrefix reader,
             URI := none } }
  let ret :=
    match xmlTextReaderGetAttribute reader ATTR_NAME_STR with
    | some data => { ret with name := codec.cpe_name_new data }
    | none => ret
  match xmlTextReaderGetAttribute reader ATTR_DEPRECATED_STR with
  | some _ =>
    match (xmlTextReaderGetAttribute reader ATTR_DEPRECATED_BY_STR).bind codec.cpe_name_new with
    | none => none
    | some deprecated =>
      match xmlTextReaderGetAttribute reader ATTR_DEPRECATION_DATE_STR with
      | none => none
      | some data =>
        some { ret with deprecated := some deprecated, deprecation_date := some data }
  | none => some ret

def cpe_item_parse (codec : cpe_codec) (fuel : Nat) (st : parser_state) :
    Res (parser_state × Option cpe_item) :=
  let reader := st.reader
  if !xmlStrcmp (xmlTextReaderConstLocalName reader) TAG_CPE_ITEM_STR
      && xmlTextReaderNodeType reader = XML_READER_TYPE_ELEMENT then
    match cpe_item_parse_attrs codec reader with
    | none => .done (st, none)
    | some ret => cpe_item_parse_loop fuel st.next_element.2 ret
  else .done (st, none)

/-! ### Vendor tree -/

/-- Change of the element at a position of a list (none past the end). -/
def list_modify {α : Type} (f : α → α) : Nat → List α → List α
  | _, [] => []
  | 0, x :: xs => f x :: xs
  | n + 1, x :: xs => x :: list_modify f n xs

/-- The local variables of `cpe_vendor_parse`. The pointers `product`,
`version`, `update` and `edition` point into the tree under `ret`: each is the
position of its node in the lists that lead to it, or absent while `NULL`. -/
structure vendor_locals where
  ret : cpe_vendor
  product : Option Nat
  version : Option (Nat × Nat)
  update : Option (Nat × Nat × Nat)
  edition : Option (Nat × Nat × Nat × Nat)
  deriving DecidableEq, Repr

def vendor_version_count (ret : cpe_vendor) (i : Nat) : Nat :=
  match ret.products.get? i with
  | some p => p.versions.length
  | none => 0

def vendor_update_count (ret : cpe_vendor) (i j : Nat) : Nat :=
  match (ret.products.get? i).bind (fun p => p.versions.get? j) with
  | some v => v.updates.length
  | none => 0

def vendor_edition_count (ret : cpe_vendor) (i j k : Nat) : Nat :=
  match ((ret.products.get? i).bind (fun p => p.versions.get? j)).bind
      (fun v => v.updates.get? k) with
  | some u => u.editions.length
  | none => 0

/-- The call `oscap_list_add(product->versions, version)` for the product at position `i`. -/
def vendor_add_version (ret : cpe_vendor) (i : Nat) (version : cpe_version) : cpe_vendor :=
  { ret with products :=
      list_modify (fun p => { p with versions := p.versions ++ [version] }) i ret.products }

def product_add_update (p : cpe_product) (j : Nat) (update : cpe_update) : cpe_product :=
  { p with versions :=
      list_modify (fun v => { v with updates := v.updates ++ [update] }) j p.versions }

/-- The call `oscap_list_add(version->updates, update)`. -/
def vendor_add_update (ret : cpe_vendor) (i j : Nat) (update : cpe_update) : cpe_vendor :=
  { ret with products := list_modify (fun p => product_add_update p j update) i ret.products }

def version_add_edition (v : cpe_version) (k : Nat) (edition : cpe_edition) : cpe_version :=
  { v with updates :=
      list_modify (fun u => { u with editions := u.editions ++ [edition] }) k v.updates }

def product_add_edition (p : cpe_product) (j k : Nat) (edition : cpe_edition) : cpe_product :=
  { p with versions := list_modify (fun v => version_add_edition v k edition) j p.versions }

/-- The call `oscap_list_add(update->editions, edition)`. -/
def vendor_add_edition (ret : cpe_vendor) (i j k : Nat) (edition : cpe_edition) : cpe_vendor :=
  { ret with products := list_modify (fun p => product_add_edition p j k edition) i ret.products }

def update_add_language (u : cpe_update) (l : Nat) (language : cpe_language) : cpe_update :=
  { u with editions :=
      list_modify (fun e => { e with languages := e.languages ++ [language] }) l u.editions }

def version_add_language (v : cpe_version) (k l : Nat) (language : cpe_language) : cpe_version :=
  { v with updates := list_modify (fun u => update_add_language u l language) k v.updates }

def product_add_language (p : cpe_product) (j k l : Nat) (language : cpe_language) :
    cpe_product :=
  { p with versions := list_modify (fun v => version_add_language v k l language) j p.versions }

/-- The call `oscap_list_add(edition->languages, language)`. -/
def vendor_add_language (ret : cpe_vendor) (i j k l : Nat) (language : cpe_language) :
    cpe_vendor :=
  { ret with products :=
      list_modify (fun p => product_add_language p j k l language) i ret.products }

/-- How one pass of the `while` loop of `cpe_vendor_parse` ends. -/
inductive vendor_step where
  | next_node : vendor_locals → vendor_step
  | return_null : vendor_step
  | null_deref : vendor_step
  deriving DecidableEq

/-- The `part` attribute of a product as `cpe_vendor_parse` reads it; the outer
`none` is the failure on a value that is none of "h", "o", "a". -/
def cpe_product_parse_part (data : Option String) : Option cpe_part_t :=
  match data with
  | some data =>
    if strcasecmp data "h" then some CPE_PART_HW
    else if strcasecmp data "o" then some CPE_PART_OS
    else if strcasecmp data "a" then some CPE_PART_APP
    else none
  | none => some CPE_PART_NONE

/-- One pass of the `while` loop of `cpe_vendor_parse`, up to the final
`xmlTextReaderNextNode`. -/
def cpe_vendor_parse_body (reader : xmlTextReader) (loc : vendor_locals) : vendor_step :=
  let xml : xml_metadata :=
    { lang := xmlTextReaderConstXmlLang reader, nspace := xmlTextReaderPrefix reader,
      URI := none }
  let value := xmlTextReaderGetAttribute reader ATTR_VALUE_STR
  if xmlTextReaderNodeType reader ≠ XML_READER_TYPE_ELEMENT then .next_node loc
  else if !xmlStrcmp (xmlTextReaderConstLocalName reader) TAG_TITLE_STR then
    match oscap_title_parse reader TAG_TITLE_STR with
    | some title =>
      .next_node { loc with ret := { loc.ret with titles := loc.ret.titles ++ [title] } }
    | none => .next_node loc
  else if !xmlStrcmp (xmlTextReaderConstLocalName reader) TAG_PRODUCT_STR then
    match cpe_product_parse_part (xmlTextReaderGetAttribute reader ATTR_PART_STR) with
    | none => .return_null
    | some part =>
      let product : cpe_product := { cpe_product_new with xml := xml, value := value, part := part }
      .next_node { loc with
        ret := { loc.ret with products := loc.ret.products ++ [product] },
        product := some loc.ret.products.length }
  else if !xmlStrcmp (xmlTextReaderConstLocalName reader) TAG_VERSION_STR then
    let version : cpe_version := { cpe_version_new with xml := xml, value := value }
    match loc.product with
    | none => .null_deref
    | some i =>
      .next_node { loc with
        ret := vendor_add_version loc.ret i version,
        version := some (i, vendor_version_count loc.ret i) }
  else if !xmlStrcmp (xmlTextReaderConstLocalName reader) TAG_UPDATE_STR then
    let update : cpe_update := { cpe_update_new with xml := xml, value := value }
    match loc.version with
    | none => .null_deref
    | some (i, j) =>
      .next_node { loc with
        ret := vendor_add_update loc.ret i j update,
        update := some (i, j, vendor_update_count loc.ret i j) }
  else if !xmlStrcmp (xmlTextReaderConstLocalName reader) TAG_EDITION_STR then
    let edition : cpe_edition := { cpe_edition_new with xml := xml, value := value }
    match loc.update with
    | none => .null_deref
    | some (i, j, k) =>
      .next_node { loc with
        ret := vendor_add_edition loc.ret i j k edition,
        edition := some (i, j, k, vendor_edition_count loc.ret i j k) }
  else if !xmlStrcmp (xmlTextReaderConstLocalName reader) TAG_LANGUAGE_STR then
    let language : cpe_language := { cpe_language_new with xml := xml, value := value }
    match loc.edition with
    | none => .null_deref
    | some (i, j, k, l) =>
      .next_node { loc with ret := vendor_add_language loc.ret i j k l language }
  else .next_node loc

/-- The `while` loop of `cpe_vendor_parse`. -/
def cpe_vendor_parse_loop : Nat → parser_state → vendor_locals →
    Res (parser_state × Option cpe_vendor)
  | 0, _, _ => .timeout
  | fuel + 1, st, loc =>
    if xmlStrcmp (xmlTextReaderConstLocalName st.reader) TAG_VENDOR_STR then
      match cpe_vendor_parse_body st.reader loc with
      | .next_node loc1 => cpe_vendor_parse_loop fuel st.next_node.2 loc1
      | .return_null => .done (st, none)
      | .null_deref => .crash
    else .done (st, some loc.ret)

def cpe_vendor_parse (fuel : Nat) (st : parser_state) :
    Res (parser_state × Option cpe_vendor) :=
  let reader := st.reader
  if xmlStrcmp (xmlTextReaderConstLocalName reader) TAG_VENDOR_STR then .done (st, none)
  else
    let ret := { cpe_vendor_new with
      xml := { lang := none, nspace := xmlTextReaderPrefix reader, URI := none },
      value := xmlTextReaderGetAttribute reader ATTR_VALUE_STR }
    cpe_vendor_parse_loop fuel st.next_element.2
      { ret := ret, product := none, version := none, update := none, edition := none }

/-! ### Dictionary -/

/-- The first loop of `cpe_dict_model_parse`: the search of the `cpe-list`
element. The flag answered is false when the end of the stream came first
(the `return NULL` inside the loop). -/
def cpe_dict_model_parse_find : Nat → parser_state → Int → Res (parser_state × Bool)
  | 0, _, _ => .timeout
  | fuel + 1, st, next_ret =>
    if xmlStrcmp (xmlTextReaderConstLocalName st.reader) TAG_CPE_LIST_STR && next_ret == 1 then
      let next := st.next_element
      if next.1 == 0 then .done (next.2, false)
      else cpe_dict_model_parse_find fuel next.2 next.1
    else .done (st, true)

/-- Reading XML namespaces: one pair per attribute of the current node. -/
def cpe_dict_model_parse_xmlns (reader : xmlTextReader) : List xml_metadata :=
  match reader.cur with
  | some n => n.attrs.map (fun a => { lang := none, nspace := some a.1, URI := some a.2 })
  | none => []

/-- The main loop of `cpe_dict_model_parse`: go through elements and switch
through actions till end of file. -/
def cpe_dict_model_parse_loop (codec : cpe_codec) : Nat → parser_state → cpe_dict_model → Int →
    Res (parser_state × Option cpe_dict_model)
  | 0, _, _, _ => .timeout
  | fuel + 1, st, ret, next_ret =>
    if next_ret != 0 then
      if !xmlStrcmp (xmlTextReaderConstLocalName st.reader) TAG_GENERATOR_STR then
        (cpe_generator_parse fuel st).bind (fun out =>
          cpe_dict_model_parse_loop codec fuel out.1.next_element.2
            { ret with generator := out.2 } out.1.next_element.1)
      else if !xmlStrcmp (xmlTextReaderConstLocalName st.reader) TAG_CPE_ITEM_STR then
        (cpe_item_parse codec fuel st).bind (fun out =>
          match out.2 with
          | none =>
            cpe_dict_model_parse_loop codec fuel out.1.next_element.2 ret out.1.next_element.1
          | some item =>
            match cpe_dict_model_add_item (some ret) (some item) with
            | (true, some ret1) => cpe_dict_model_parse_loop codec fuel out.1 ret1 next_ret
            | _ => .done (out.1, none))
      else if !xmlStrcmp (xmlTextReaderConstLocalName st.reader) TAG_VENDOR_STR then
        (cpe_vendor_parse fuel st).bind (fun out =>
          let ret1 :=
            match out.2 with
            | some vendor => { ret with vendors := ret.vendors ++ [vendor] }
            | none => ret
          cpe_dict_model_parse_loop codec fuel out.1.next_element.2 ret1 out.1.next_element.1)
      else if !xmlStrcmp (xmlTextReaderConstLocalName st.reader) TAG_COMPONENT_TREE_STR then
        cpe_dict_model_parse_loop codec fuel st.next_element.2 ret st.next_element.1
      else if xmlTextReaderNodeType st.reader = XML_READER_TYPE_ELEMENT then
        cpe_dict_model_parse_loop codec fuel (oscap_seterr st ERR_UNKNOWN_ELEMENT).next_element.2
          ret st.next_element.1
      else cpe_dict_model_parse_loop codec fuel st.next_element.2 ret st.next_element.1
    else .done (st, some ret)

def cpe_dict_model_parse (codec : cpe_codec) (fuel : Nat) (st : parser_state) :
    Res (parser_state × Option cpe_dict_model) :=
  (cpe_dict_model_parse_find fuel st 1).bind (fun found =>
    if found.2 then
      let ret := { cpe_dict_model_new with xmlns := cpe_dict_model_parse_xmlns found.1.reader }
      cpe_dict_model_parse_loop codec fuel found.1.next_element.2 ret found.1.next_element.1
    else .done (found.1, none))

/-- The state in which `cpe_dict_model_parse_xml` calls `cpe_dict_model_parse`
on a document: a fresh cursor moved to the first node, no diagnostics. -/
def parser_state.start (document : List xmlNode) : parser_state :=
  { reader := (xmlTextReaderNextNode { cur := none, rest := document }).2, errors := [] }

/-! ## Serializer -/

/-- The calls made on the `xmlTextWriter`, with their arguments. -/
inductive xmlTextWriterCall where
  | StartElementNS (nspace : Option String) (name : String)
  | WriteAttribute (name : Option String) (content : Option String)
  | WriteString (content : String)
  | EndElement
  deriving DecidableEq, Repr

open xmlTextWriterCall

/-- The text-valued child element of a generator, written when the field is present. -/
def cpe_generator_export_field (nspace : Option String) (tag : String) (field : Option String) :
    List xmlTextWriterCall :=
  match field with
  | some text => [StartElementNS nspace tag, WriteString text, EndElement]
  | none => []

def cpe_generator_export (generator : cpe_generator) : List xmlTextWriterCall :=
  [StartElementNS generator.xml.nspace TAG_GENERATOR_STR]
  ++ cpe_generator_export_field generator.xml.nspace TAG_PRODUCT_NAME_STR generator.product_name
  ++ cpe_generator_export_field generator.xml.nspace TAG_PRODUCT_VERSION_STR generator.product_version
  ++ cpe_generator_export_field generator.xml.nspace TAG_SCHEMA_VERSION_STR generator.schema_version
  ++ cpe_generator_export_field generator.xml.nspace TAG_TIMESTAMP_STR generator.timestamp
  ++ [EndElement]

/-- The call `xmlTextWriterWriteAttribute(writer, name, field)` under `if (field != NULL)`. -/
def write_attribute_if (name : String) (field : Option String) : List xmlTextWriterCall :=
  match field with
  | some text => [WriteAttribute (some name) (some text)]
  | none => []

/-- The call `xmlTextWriterWriteString(writer, field)` under `if (field != NULL)`. -/
def write_string_if (field : Option String) : List xmlTextWriterCall :=
  match field with
  | some text => [WriteString text]
  | none => []

/-- Modelled from the spec: `oscap_title_export` (common/elements.c, not among
the sources) writes a title, "locale tag + free-text content", the way
`cpe_note_export` writes a note, under the tag `title`. -/
def oscap_title_export (title : oscap_title) : List xmlTextWriterCall :=
  [StartElementNS title.xml.nspace TAG_TITLE_STR]
  ++ write_attribute_if ATTR_XML_LANG_STR title.xml.lang
  ++ write_string_if title.content
  ++ [EndElement]

def cpe_note_export (title : oscap_title) : List xmlTextWriterCall :=
  [StartElementNS title.xml.nspace TAG_NOTE_STR]
  ++ write_attribute_if ATTR_XML_LANG_STR title.xml.lang
  ++ write_string_if title.content
  ++ [EndElement]

def cpe_check_export (check : cpe_check) : List xmlTextWriterCall :=
  [StartElementNS check.xml.nspace TAG_CHECK_STR]
  ++ write_attribute_if ATTR_SYSTEM_STR check.system
  ++ write_attribute_if ATTR_HREF_STR check.href
  ++ write_string_if check.identifier
  ++ [EndElement]

def cpe_reference_export (ref : cpe_reference) : List xmlTextWriterCall :=
  [StartElementNS ref.xml.nspace TAG_REFERENCE_STR]
  ++ write_attribute_if ATTR_HREF_STR ref.href
  ++ write_string_if ref.content
  ++ write_attribute_if ATTR_XML_LANG_STR ref.xml.lang
  ++ [EndElement]

def cpe_item_metadata_export (metadata : cpe_item_metadata) : List xmlTextWriterCall :=
  [StartElementNS metadata.xml.nspace TAG_ITEM_METADATA_STR]
  ++ write_attribute_if ATTR_MODIFICATION_DATE_STR metadata.modification_date
  ++ write_attribute_if ATTR_STATUS_STR metadata.status
  ++ write_attribute_if ATTR_NVD_ID_STR metadata.nvd_id
  ++ write_attribute_if ATTR_DEP_BY_NVDID_STR metadata.deprecated_by_nvd_id
  ++ [EndElement]

/-- The attributes that `cpe_item_export` writes on the `cpe-item` start tag:
the name when present, the three deprecation attributes when the deprecated
identifier is present. -/
def cpe_item_export_attributes (codec : cpe_codec) (item : cpe_item) : List xmlTextWriterCall :=
  (match item.name with
   | some name => [WriteAttribute (some ATTR_NAME_STR) (some (codec.cpe_name_get_uri name))]
   | none => [])
  ++ (match item.deprecated with
      | some deprecated =>
        [WriteAttribute (some ATTR_DEPRECATED_STR) (some VAL_TRUE_STR),
         WriteAttribute (some ATTR_DEPRECATION_DATE_STR) item.deprecation_date,
         WriteAttribute (some ATTR_DEPRECATED_BY_STR) (some (codec.cpe_name_get_uri deprecated))]
      | none => [])

/-- The `item-metadata` element that `cpe_item_export` writes when metadata is present. -/
def cpe_item_export_metadata (item : cpe_item) : List xmlTextWriterCall :=
  match item.metadata with
  | some metadata => cpe_item_metadata_export metadata
  | none => []

/-- The `references` element that `cpe_item_export` writes when there is a reference. -/
def cpe_item_export_references (item : cpe_item) : List xmlTextWriterCall :=
  if item.references ≠ [] then
    [StartElementNS none TAG_REFERENCES_STR]
    ++ (item.references.map cpe_reference_export).flatten ++ [EndElement]
  else []

/-- The `notes` element that `cpe_item_export` writes when there is a note. -/
def cpe_item_export_notes (item : cpe_item) : List xmlTextWriterCall :=
  if item.notes ≠ [] then
    [StartElementNS none TAG_NOTES_STR]
    ++ (item.notes.map cpe_note_export).flatten ++ [EndElement]
  else []

def cpe_item_export (codec : cpe_codec) (item : cpe_item) : List xmlTextWriterCall :=
  [StartElementNS item.xml.nspace TAG_CPE_ITEM_STR]
  ++ cpe_item_export_attributes codec item
  ++ (item.titles.map oscap_title_export).flatten
  ++ cpe_item_export_metadata item
  ++ cpe_item_export_references item
  ++ cpe_item_export_notes item
  ++ (item.checks.map cpe_check_export).flatten
  ++ [EndElement]

def cpe_language_export (language : cpe_language) : List xmlTextWriterCall :=
  [StartElementNS language.xml.nspace TAG_LANGUAGE_STR]
  ++ write_attribute_if ATTR_VALUE_STR language.value
  ++ write_attribute_if ATTR_XML_LANG_STR language.xml.lang
  ++ [EndElement]

def cpe_edition_export (edition : cpe_edition) : List xmlTextWriterCall :=
  [StartElementNS edition.xml.nspace TAG_EDITION_STR]
  ++ write_attribute_if ATTR_VALUE_STR edition.value
  ++ (edition.languages.map cpe_language_export).flatten
  ++ [EndElement]

def cpe_update_export (update : cpe_update) : List xmlTextWriterCall :=
  [StartElementNS update.xml.nspace TAG_UPDATE_STR]
  ++ write_attribute_if ATTR_VALUE_STR update.value
  ++ (update.editions.map cpe_edition_export).flatten
  ++ [EndElement]

def cpe_version_export (version : cpe_version) : List xmlTextWriterCall :=
  [StartElementNS version.xml.nspace TAG_VERSION_STR]
  ++ write_attribute_if ATTR_VALUE_STR version.value
  ++ (version.updates.map cpe_update_export).flatten
  ++ [EndElement]

/-- The `part` attribute that `cpe_product_export` writes unless the part is unspecified. -/
def cpe_product_export_part (product : cpe_product) : List xmlTextWriterCall :=
  if product.part ≠ CPE_PART_NONE then
    [WriteAttribute (some ATTR_PART_STR) (PART_TO_CHAR product.part)]
  else []

def cpe_product_export (product : cpe_product) : List xmlTextWriterCall :=
  [StartElementNS product.xml.nspace TAG_PRODUCT_STR]
  ++ write_attribute_if ATTR_VALUE_STR product.value
  ++ cpe_product_export_part product
  ++ (product.versions.map cpe_version_export).flatten
  ++ [EndElement]

def cpe_vendor_export (vendor : cpe_vendor) : List xmlTextWriterCall :=
  [StartElementNS vendor.xml.nspace TAG_VENDOR_STR]
  ++ write_attribute_if ATTR_VALUE_STR vendor.value
  ++ (vendor.titles.map oscap_title_export).flatten
  ++ (vendor.products.map cpe_product_export).flatten
  ++ [EndElement]

/-- The attribute that `cpe_dict_export` writes for a stored namespace pair
whose value is present. -/
def cpe_dict_export_xmlns (xml : xml_metadata) : List xmlTextWriterCall :=
  match xml.URI with
  | some uri => [WriteAttribute xml.nspace (some uri)]
  | none => []

/-- The generator block that `cpe_dict_export` writes when a generator is present. -/
def cpe_dict_export_generator (dict : cpe_dict_model) : List xmlTextWriterCall :=
  match dict.generator with
  | some generator => cpe_generator_export generator
  | none => []

def cpe_dict_export (codec : cpe_codec) (dict : cpe_dict_model) : List xmlTextWriterCall :=
  [StartElementNS dict.xml.nspace TAG_CPE_LIST_STR]
  ++ (dict.xmlns.map cpe_dict_export_xmlns).flatten
  ++ cpe_dict_export_generator dict
  ++ (dict.items.map (cpe_item_export codec)).flatten
  ++ [StartElementNS (some NS_META_STR) TAG_COMPONENT_TREE_STR]
  ++ (dict.vendors.map cpe_vendor_export).flatten
  ++ [EndElement]
  ++ [EndElement]

/-! ## Auxiliary definitions of the proofs -/

/-- The fields of an entry that one pass of the loop of `cpe_item_parse` leaves alone. -/
def item_step.keeps (ret : cpe_item) : item_step → Prop
  | .next_node r => r.name = ret.name ∧ r.deprecated = ret.deprecated
      ∧ r.deprecation_date = ret.deprecation_date ∧ r.xml = ret.xml
  | .next_element r => r.name = ret.name ∧ r.deprecated = ret.deprecated
      ∧ r.deprecation_date = ret.deprecation_date ∧ r.xml = ret.xml
  | .return_null => True
  | .return_ret r => r.name = ret.name ∧ r.deprecated = ret.deprecated
      ∧ r.deprecation_date = ret.deprecation_date ∧ r.xml = ret.xml


/-- The part classification that the specification gives to the "part"
attribute of a product: "h", "o", "a" map to hardware, operating system,
application, in either case of the letter; absence maps to unspecified; no
classification for any other value. -/
def part_code_spec (attr : Option String) : Option cpe_part_t :=
  match attr with
  | none => some CPE_PART_NONE
  | some s =>
    if s = "h" ∨ s = "H" then some CPE_PART_HW
    else if s = "o" ∨ s = "O" then some CPE_PART_OS
    else if s = "a" ∨ s = "A" then some CPE_PART_APP
    else none

/-- The start tags named "product" that the loop of `cpe_vendor_parse` passes
when it starts on the first of the given nodes: those before the first node
named "vendor". -/
def vendor_product_tags (nodes : List xmlNode) : List xmlNode :=
  (nodes.takeWhile (fun n => n.localName != TAG_VENDOR_STR)).filter
    (fun n => n.type = XML_READER_TYPE_ELEMENT && n.localName == TAG_PRODUCT_STR)

/-- No version, update, edition or language start tag among the nodes comes
before a start tag of its parent level (product, version, update, edition);
the flags tell which levels have been opened before the nodes. -/
def levels_ordered : Bool → Bool → Bool → Bool → List xmlNode → Bool
  | _, _, _, _, [] => true
  | p, v, u, e, n :: ns =>
    if n.type ≠ XML_READER_TYPE_ELEMENT then levels_ordered p v u e ns
    else if n.localName = TAG_TITLE_STR then levels_ordered p v u e ns
    else if n.localName = TAG_PRODUCT_STR then levels_ordered true v u e ns
    else if n.localName = TAG_VERSION_STR then p && levels_ordered p true u e ns
    else if n.localName = TAG_UPDATE_STR then v && levels_ordered p v true e ns
    else if n.localName = TAG_EDITION_STR then u && levels_ordered p v u true ns
    else if n.localName = TAG_LANGUAGE_STR then e && levels_ordered p v u e ns
    else levels_ordered p v u e ns

/-- The pointers of `cpe_vendor_parse` are set on the levels that the flags tell
open. -/
def vendor_locals.opened (loc : vendor_locals) (p v u e : Bool) : Prop :=
  (p = true → loc.product.isSome) ∧ (v = true → loc.version.isSome)
    ∧ (u = true → loc.update.isSome) ∧ (e = true → loc.edition.isSome)

/-- Order on outcomes: more fuel can only turn a timeout into another outcome. -/
def Res.le {α : Type} (a b : Res α) : Prop :=
  a = .timeout ∨ a = b

/-- The names of the child elements that the loop of `cpe_item_parse` knows. -/
def item_child_tag (name : String) : Bool :=
  name == TAG_TITLE_STR || name == TAG_NOTE_STR || name == TAG_CHECK_STR
    || name == TAG_REFERENCE_STR || name == TAG_ITEM_METADATA_STR
    || name == TAG_REFERENCES_STR || name == TAG_NOTES_STR

/-- A start tag that the loop of `cpe_item_parse` reads as a child of the entry
and passes: it has one of the known names and, when it is an `item-metadata`,
it has a `modification-date`. Nodes that are not start tags are passed anyway. -/
def item_child_ok (n : xmlNode) : Bool :=
  n.type != XML_READER_TYPE_ELEMENT
    || (item_child_tag n.localName
        && (n.localName != TAG_ITEM_METADATA_STR
            || (n.attribute ATTR_MODIFICATION_DATE_STR).isSome))

/-! ## Sample documents -/

/-- A start tag without namespace prefix and language. -/
def start_tag (name : String) (attrs : List (String × String)) : xmlNode :=
  { type := XML_READER_TYPE_ELEMENT, localName := name, nspace := none, lang := none,
    attrs := attrs, value := "", isEmpty := false }

/-- An empty element (`<name/>`). -/
def empty_tag (name : String) (attrs : List (String × String)) : xmlNode :=
  { type := XML_READER_TYPE_ELEMENT, localName := name, nspace := none, lang := none,
    attrs := attrs, value := "", isEmpty := true }

def end_tag (name : String) : xmlNode :=
  { type := XML_READER_TYPE_END_ELEMENT, localName := name, nspace := none, lang := none,
    attrs := [], value := "", isEmpty := false }

def text_node (value : String) : xmlNode :=
  { type := XML_READER_TYPE_TEXT, localName := "#text", nspace := none, lang := none,
    attrs := [], value := value, isEmpty := false }

/-- A codec for the sample documents: it accepts the texts that start with
"cpe:/" and formats a name as the text it was built from. -/
def sample_codec : cpe_codec :=
  { cpe_name_new := fun s => if "cpe:/".data.isPrefixOf s.data then some { uri := s } else none,
    cpe_name_get_uri := fun n => n.uri }

/-- The cursor on a node with the given nodes after it, no diagnostics. -/
def state_at (n : xmlNode) (rest : List xmlNode) : parser_state :=
  { reader := { cur := some n, rest := rest }, errors := [] }

/-- The cursor on the start tag of a vendor with four products. -/
def sample_vendor_state : parser_state :=
  state_at (start_tag "vendor" [("value", "v")])
    [empty_tag "product" [("value", "p1"), ("part", "H")],
     empty_tag "product" [("value", "p2"), ("part", "o")],
     empty_tag "product" [("value", "p3"), ("part", "A")],
     empty_tag "product" [("value", "p4")],
     end_tag "vendor"]

def sample_vendor : cpe_vendor :=
  { xml := xml_metadata_new, value := some "v", titles := [],
    products :=
      [{ xml := xml_metadata_new, value := some "p1", part := CPE_PART_HW, versions := [] },
       { xml := xml_metadata_new, value := some "p2", part := CPE_PART_OS, versions := [] },
       { xml := xml_metadata_new, value := some "p3", part := CPE_PART_APP, versions := [] },
       { xml := xml_metadata_new, value := some "p4", part := CPE_PART_NONE, versions := [] }] }

/-- The cursor on the start tag of a vendor whose second product has the part code "x". -/
def sample_bad_vendor_state : parser_state :=
  state_at (start_tag "vendor" [("value", "v")])
    ([start_tag "product" [("value", "p1"), ("part", "a")],
      empty_tag "version" [("value", "1.0")],
      end_tag "product"]
     ++ empty_tag "product" [("value", "p2"), ("part", "x")]
     :: [end_tag "vendor", start_tag "vendor" [], empty_tag "product" [], end_tag "vendor"])

/-- The scenario document of the specification: a root with one generator
(product_name "Tool", product_version "1.0") and one entry named
"cpe:/a:vendor:product:1.0" with one title "Example", then the closing tags. -/
def scenario_document : List xmlNode :=
  [start_tag "cpe-list" [],
   start_tag "generator" [],
   start_tag "product_name" [], text_node "Tool", end_tag "product_name",
   start_tag "product_version" [], text_node "1.0", end_tag "product_version",
   end_tag "generator",
   start_tag "cpe-item" [("name", "cpe:/a:vendor:product:1.0")],
   start_tag "title" [], text_node "Example", end_tag "title",
   end_tag "cpe-item",
   end_tag "cpe-list"]

/-- The cursor on the start tag of a deprecated entry with a title and a
check, followed by a second entry. -/
def sample_deprecated_state : parser_state :=
  state_at (start_tag "cpe-item" [("name", "cpe:/a:b:c:1"), ("deprecated", "true"),
      ("deprecated_by", "cpe:/a:b:c:2"), ("deprecation_date", "2010-01-01")])
    ([start_tag "title" [], text_node "One", end_tag "title",
      start_tag "check" [("system", "s")], text_node "id", end_tag "check",
      end_tag "cpe-item"]
     ++ empty_tag "cpe-item" [("name", "cpe:/a:b:c:2")] :: [end_tag "cpe-list"])

/-- The cursor on the start tag of a deprecated entry whose only child is an
`item-metadata` without `modification-date`, followed by a second entry. -/
def sample_deprecated_metadata_state : parser_state :=
  state_at (start_tag "cpe-item" [("name", "cpe:/a:b:c:1"), ("deprecated", "true"),
      ("deprecated_by", "cpe:/a:b:c:2"), ("deprecation_date", "2010-01-01")])
    [empty_tag "item-metadata" [("status", "DRAFT")], end_tag "cpe-item",
     empty_tag "cpe-item" [("name", "cpe:/a:b:c:2")], end_tag "cpe-list"]

/-- The elements whose order the specification follows from the document to
the serialized dictionary, each with what identifies it: an entry (the text of
its name), a title or a note of an entry (language and text), a check (system,
href, text), a reference (href, text), a vendor (value). -/
inductive order_event where
  | item (name : Option String)
  | title (lang text : Option String)
  | note (lang text : Option String)
  | check (system href text : Option String)
  | reference (href text : Option String)
  | vendor (value : Option String)
  deriving DecidableEq, Repr

/-- The kinds of elements followed: the titles, notes, checks and references
of the entries, and the vendors. -/
inductive order_kind where
  | title
  | note
  | check
  | reference
  | vendor
  deriving DecidableEq, Repr

/-- The events of one kind; the start of each entry is kept along with its
titles (notes, checks, references), so that they stay grouped by entry. -/
def order_event.keep : order_kind → order_event → Bool
  | .title, .item _ => true
  | .title, .title _ _ => true
  | .note, .item _ => true
  | .note, .note _ _ => true
  | .check, .item _ => true
  | .check, .check _ _ _ => true
  | .reference, .item _ => true
  | .reference, .reference _ _ => true
  | .vendor, .vendor _ => true
  | _, _ => false

/-- The name of an entry as the serializer writes it back. -/
def item_name_text (codec : cpe_codec) (name : Option cpe_name) : Option String :=
  name.map codec.cpe_name_get_uri

/-- The event of a start tag of the document, read with the nodes after it. -/
def node_events (codec : cpe_codec) (n : xmlNode) (rest : List xmlNode) : List order_event :=
  if n.type = XML_READER_TYPE_ELEMENT then
    if n.localName = TAG_CPE_ITEM_STR then
      [.item (item_name_text codec ((n.attribute ATTR_NAME_STR).bind codec.cpe_name_new))]
    else if n.localName = TAG_TITLE_STR then
      [.title n.lang (oscap_trim (xmlTextReaderReadString { cur := some n, rest := rest }))]
    else if n.localName = TAG_NOTE_STR then
      [.note n.lang (oscap_trim (xmlTextReaderReadString { cur := some n, rest := rest }))]
    else if n.localName = TAG_CHECK_STR then
      [.check (n.attribute ATTR_SYSTEM_STR) (n.attribute ATTR_HREF_STR)
        (oscap_trim (xmlTextReaderReadString { cur := some n, rest := rest }))]
    else if n.localName = TAG_REFERENCE_STR then
      [.reference (n.attribute ATTR_HREF_STR)
        (oscap_trim (xmlTextReaderReadString { cur := some n, rest := rest }))]
    else if n.localName = TAG_VENDOR_STR then [.vendor (n.attribute ATTR_VALUE_STR)]
    else []
  else []

/-- The followed elements of a document, in document order. -/
def document_events (codec : cpe_codec) : List xmlNode → List order_event
  | [] => []
  | n :: rest => node_events codec n rest ++ document_events codec rest

/-- The attributes that the writer adds to the start tag it has just opened:
those of the calls made before any other call. A call without name fails and
writes nothing; a call without content leaves the attribute empty. -/
def leading_attributes : List xmlTextWriterCall → List (String × String)
  | WriteAttribute (some name) (some content) :: rest => (name, content) :: leading_attributes rest
  | WriteAttribute (some name) none :: rest => (name, "") :: leading_attributes rest
  | WriteAttribute none _ :: rest => leading_attributes rest
  | _ => []

/-- The text written right after the start tag and its attributes. -/
def leading_text : List xmlTextWriterCall → Option String
  | WriteAttribute _ _ :: rest => leading_text rest
  | WriteString content :: _ => some content
  | _ => none

def attribute_of (attrs : List (String × String)) (name : String) : Option String :=
  (attrs.find? (fun a => a.1 == name)).map (fun a => a.2)

/-- The event of a written element, from the name of its parent, its name, its
attributes and its text; a title counts when it is the child of an entry. -/
def written_events (parent : Option String) (name : String) (attrs : List (String × String))
    (text : Option String) : List order_event :=
  if name = TAG_CPE_ITEM_STR then [.item (attribute_of attrs ATTR_NAME_STR)]
  else if name = TAG_TITLE_STR then
    if parent = some TAG_CPE_ITEM_STR then [.title (attribute_of attrs ATTR_XML_LANG_STR) text]
    else []
  else if name = TAG_NOTE_STR then [.note (attribute_of attrs ATTR_XML_LANG_STR) text]
  else if name = TAG_CHECK_STR then
    [.check (attribute_of attrs ATTR_SYSTEM_STR) (attribute_of attrs ATTR_HREF_STR) text]
  else if name = TAG_REFERENCE_STR then [.reference (attribute_of attrs ATTR_HREF_STR) text]
  else if name = TAG_VENDOR_STR then [.vendor (attribute_of attrs ATTR_VALUE_STR)]
  else []

/-- The followed elements that a sequence of writer calls emits, in emission
order; `stack` holds the names of the elements open before the calls. -/
def emitted_events : List String → List xmlTextWriterCall → List order_event
  | _, [] => []
  | stack, StartElementNS _ name :: rest =>
    written_events stack.head? name (leading_attributes rest) (leading_text rest)
      ++ emitted_events (name :: stack) rest
  | stack, EndElement :: rest => emitted_events stack.tail rest
  | stack, WriteAttribute _ _ :: rest => emitted_events stack rest
  | stack, WriteString _ :: rest => emitted_events stack rest

def oscap_title.title_event (t : oscap_title) : order_event := .title t.xml.lang t.content

def oscap_title.note_event (t : oscap_title) : order_event := .note t.xml.lang t.content

def cpe_check.event (c : cpe_check) : order_event := .check c.system c.href c.identifier

def cpe_reference.event (r : cpe_reference) : order_event := .reference r.href r.content

def cpe_vendor.event (v : cpe_vendor) : order_event := .vendor v.value

/-- The cursor is on a start tag or at the end of the stream (as after
`xmlTextReaderNextElement`). -/
def xmlTextReader.at_element (r : xmlTextReader) : Prop :=
  (∀ n, r.cur = some n → n.type = XML_READER_TYPE_ELEMENT) ∧ (r.cur = none → r.rest = [])

/-- The events of one kind among the children of an entry. -/
def cpe_item.kind_events (item : cpe_item) : order_kind → List order_event
  | .title => item.titles.map oscap_title.title_event
  | .note => item.notes.map oscap_title.note_event
  | .check => item.checks.map cpe_check.event
  | .reference => item.references.map cpe_reference.event
  | .vendor => []

/-- The events of one kind of an entry, with the start of the entry. -/
def cpe_item.start_kind_events (codec : cpe_codec) (item : cpe_item) :
    order_kind → List order_event
  | .vendor => []
  | kind => .item (item_name_text codec item.name) :: item.kind_events kind

/-- The events of one kind of a dictionary. -/
def cpe_dict_model.kind_events (codec : cpe_codec) (dict : cpe_dict_model) :
    order_kind → List order_event
  | .vendor => dict.vendors.map cpe_vendor.event
  | kind => (dict.items.map (fun item => item.start_kind_events codec kind)).flatten

/-! ## The document that the writer produces -/

/-- An element that the writer has open, as the cursor reports it: its name,
its prefix, the `xml:lang` in scope in it and the namespace prefixes declared
in scope in it. -/
structure open_element where
  name : String
  nspace : Option String
  lang : Option String
  declared : List String
  deriving DecidableEq, Repr

/-- What the writer has begun and not yet closed: nothing, a start tag (name,
prefix, the attributes so far, and whether the last attribute is still open
after a call without content), or a text. -/
inductive writer_pending where
  | nothing
  | tag (name : String) (nspace : Option String) (attrs : List (String × String))
      (attribute_open : Bool)
  | text (content : String)
  deriving DecidableEq, Repr

/-- The `xml:lang` in scope in the innermost open element. -/
def scope_lang : List open_element → Option String
  | e :: _ => e.lang
  | [] => none

/-- The `xml:lang` in scope in an element with the given attributes. -/
def element_lang (stack : List open_element) (attrs : List (String × String)) : Option String :=
  match attribute_of attrs ATTR_XML_LANG_STR with
  | some lang => some lang
  | none => scope_lang stack

/-- The prefixes that the attributes of a start tag declare (`xmlns:p`). -/
def declared_prefixes (attrs : List (String × String)) : List String :=
  attrs.filterMap (fun a =>
    if "xmlns:".data.isPrefixOf a.1.data then some (String.mk (a.1.data.drop 6)) else none)

/-- The prefixes declared in scope in the innermost open element. -/
def scope_declared : List open_element → List String
  | e :: _ => e.declared
  | [] => []

/-- The prefixes declared in scope in an element with the given attributes. -/
def element_declared (stack : List open_element) (attrs : List (String × String)) :
    List String :=
  declared_prefixes attrs ++ scope_declared stack

/-- The prefix is absent, declared, or the prefix `xml`. -/
def prefix_declared (declared : List String) (nspace : Option String) : Bool :=
  match nspace with
  | some p => declared.contains p || p == "xml"
  | none => true

/-- The local name that the cursor reports for an element: a prefix that is
not declared stays in the name. -/
def resolved_name (declared : List String) (nspace : Option String) (name : String) : String :=
  match nspace with
  | some p => if prefix_declared declared nspace then name else p ++ ":" ++ name
  | none => name

/-- The prefix that the cursor reports for an element: none for a prefix that
is not declared. -/
def resolved_nspace (declared : List String) (nspace : Option String) : Option String :=
  if prefix_declared declared nspace then nspace else none

def xml_element (name : String) (nspace lang : Option String) (attrs : List (String × String))
    (isEmpty : Bool) : xmlNode :=
  { type := XML_READER_TYPE_ELEMENT, localName := name, nspace := nspace, lang := lang,
    attrs := attrs, value := "", isEmpty := isEmpty }

def xml_end (name : String) (nspace lang : Option String) : xmlNode :=
  { type := XML_READER_TYPE_END_ELEMENT, localName := name, nspace := nspace, lang := lang,
    attrs := [], value := "", isEmpty := false }

/-- The node type of a text: white space when it has no other character. -/
def text_type (content : String) : xmlReaderTypes :=
  if content.data.all isspace then XML_READER_TYPE_WHITESPACE else XML_READER_TYPE_TEXT

/-- The node of a text, none for the empty text. -/
def text_nodes (lang : Option String) (content : String) : List xmlNode :=
  if content = "" then []
  else [{ type := text_type content, localName := "#text", nspace := none, lang := lang,
          attrs := [], value := content, isEmpty := false }]

/-- The nodes and the open elements once what the writer has begun is
followed by something else: a start tag becomes the start of an element with
content, a text becomes a text node. -/
def writer_flush (stack : List open_element) (pending : writer_pending) :
    List xmlNode × List open_element :=
  match pending with
  | .nothing => ([], stack)
  | .tag name nspace attrs _ =>
    ([xml_element (resolved_name (element_declared stack attrs) nspace name)
        (resolved_nspace (element_declared stack attrs) nspace) (element_lang stack attrs)
        attrs false],
     { name := resolved_name (element_declared stack attrs) nspace name,
       nspace := resolved_nspace (element_declared stack attrs) nspace,
       lang := element_lang stack attrs,
       declared := element_declared stack attrs } :: stack)
  | .text content => (text_nodes (scope_lang stack) content, stack)

/-- The value of the last attribute extended by a text. -/
def extend_last_attribute (attrs : List (String × String)) (content : String) :
    List (String × String) :=
  match attrs.reverse with
  | (name, value) :: before => (before.reverse ++ [(name, value ++ content)])
  | [] => []

/-- The nodes of the document that a sequence of calls on the writer (libxml2
`xmlTextWriter`) produces, in the order written and with the attributes of a
start tag in the order of the calls; `render` turns them into what the cursor
reads. An attribute call counts in a start tag only, fails without a name, and
without content leaves the attribute open, so that a text written next goes
into its value; an element ended right after its start tag is an empty
element; texts written in a row make one text node; a prefix counts as such
where an `xmlns:` attribute declares it. -/
def render_go : List open_element → writer_pending → List xmlTextWriterCall → List xmlNode
  | stack, pending, [] => (writer_flush stack pending).1
  | stack, pending, StartElementNS nspace name :: calls =>
    (writer_flush stack pending).1
      ++ render_go (writer_flush stack pending).2 (.tag name nspace [] false) calls
  | stack, pending, WriteAttribute name content :: calls =>
    match pending, name, content with
    | .tag n p attrs _, some name, some content =>
      render_go stack (.tag n p (attrs ++ [(name, content)]) false) calls
    | .tag n p attrs _, some name, none =>
      render_go stack (.tag n p (attrs ++ [(name, "")]) true) calls
    | _, _, _ => render_go stack pending calls
  | stack, pending, WriteString content :: calls =>
    match pending with
    | .text before => render_go stack (.text (before ++ content)) calls
    | .tag n p attrs true =>
      render_go stack (.tag n p (extend_last_attribute attrs content) true) calls
    | _ =>
      (writer_flush stack pending).1
        ++ render_go (writer_flush stack pending).2 (.text content) calls
  | stack, pending, EndElement :: calls =>
    match pending with
    | .tag n p attrs _ =>
      xml_element (resolved_name (element_declared stack attrs) p n)
          (resolved_nspace (element_declared stack attrs) p) (element_lang stack attrs) attrs true
        :: render_go stack .nothing calls
    | _ =>
      (writer_flush stack pending).1
        ++ (match stack with
            | e :: below => xml_end e.name e.nspace e.lang :: render_go below .nothing calls
            | [] => render_go [] .nothing calls)

/-- The attribute is a namespace declaration (`xmlns` or `xmlns:p`). -/
def is_namespace_declaration (name : String) : Bool :=
  name == "xmlns" || "xmlns:".data.isPrefixOf name.data

/-- The order in which the cursor enumerates the attributes that a start tag
carries in the given document order: libxml2 keeps the namespace declarations
of an element apart from its other attributes and
`xmlTextReaderMoveToFirstAttribute`, `xmlTextReaderMoveToNextAttribute` go
through the namespace declarations first, then through the other attributes,
each group in document order. -/
def cursor_attributes (attrs : List (String × String)) : List (String × String) :=
  attrs.filter (fun a => is_namespace_declaration a.1)
    ++ attrs.filter (fun a => !is_namespace_declaration a.1)

/-- The node as the cursor reports it: with its attributes in the order in
which the cursor enumerates them. -/
def cursor_node (n : xmlNode) : xmlNode :=
  { n with attrs := cursor_attributes n.attrs }

/-- A character that a document may hold (production `Char` of XML 1.0): tab,
line feed, carriage return, and the characters from U+0020 on other than the
surrogates, U+FFFE and U+FFFF. The writer escapes the markup characters, and
writes any other character as it is. -/
def xml_char (c : Char) : Bool :=
  c.toNat = 9 || c.toNat = 10 || c.toNat = 13 || (32 ≤ c.toNat && c.toNat ≤ 55295)
    || (57344 ≤ c.toNat && c.toNat ≤ 65533) || (65536 ≤ c.toNat && c.toNat ≤ 1114111)

/-- A text that a document may hold. -/
def xml_text (s : String) : Bool :=
  s.data.all xml_char

/-- An ASCII letter. -/
def ascii_letter (c : Char) : Bool :=
  (65 ≤ c.toNat && c.toNat ≤ 90) || (97 ≤ c.toNat && c.toNat ≤ 122)

/-- A name without colon that every XML parser accepts: ASCII letters, digits,
".", "-" and "_", the first character a letter or "_". The names with other
characters (XML allows many) are left out of the model. -/
def xml_ncname (s : String) : Bool :=
  match s.data with
  | [] => false
  | c :: cs =>
    (ascii_letter c || c == '_')
      && cs.all (fun x => ascii_letter x || (48 ≤ x.toNat && x.toNat ≤ 57) || x == '_'
          || x == '-' || x == '.')

/-- The namespace names that XML reserves, which no declaration may bind. -/
def reserved_namespace (uri : String) : Bool :=
  uri == "http://www.w3.org/XML/1998/namespace" || uri == "http://www.w3.org/2000/xmlns/"

/-- The part of a qualified name before its first colon, and the part after it. -/
def split_name (name : String) : String × String :=
  (String.mk (name.data.takeWhile (fun c => c != ':')),
   String.mk ((name.data.dropWhile (fun c => c != ':')).drop 1))

/-- An attribute of a start tag that the cursor reads back as written, where
`declared` holds the prefixes declared in scope: its value is a text of the
document, and its name is `xmlns` (with a namespace name that is not
reserved), or `xmlns:p` for a name `p` other than `xml` and `xmlns` (with a
namespace name that is not empty and not reserved), or `xml:lang`, or a name
without colon, or `p:name` for a declared prefix `p`. -/
def readable_attribute (declared : List String) (a : String × String) : Bool :=
  xml_text a.2
    && (if a.1 == "xmlns" then !reserved_namespace a.2
        else if (split_name a.1).1 == "xmlns" then
          xml_ncname (split_name a.1).2 && (split_name a.1).2 != "xml"
            && (split_name a.1).2 != "xmlns" && a.2 != "" && !reserved_namespace a.2
        else if a.1 == "xml:lang" then true
        else if a.1.data.contains ':' then
          xml_ncname (split_name a.1).1 && xml_ncname (split_name a.1).2
            && declared.contains (split_name a.1).1
        else xml_ncname a.1)

/-- The local name of an attribute with a prefix other than `xmlns`, none for
the other attributes. -/
def prefixed_local (name : String) : Option String :=
  if name.data.contains ':' && (split_name name).1 != "xmlns" then some (split_name name).2
  else none

/-- A start tag that the cursor reads back as written: its name is a name
without colon (a prefix that is not declared stays in the name, with its
colon), its prefix too, its attributes are readable and have distinct names,
and no two attributes with a prefix share a local name. -/
def readable_element (declared : List String) (n : xmlNode) : Bool :=
  xml_ncname n.localName
    && (match n.nspace with
        | some p => xml_ncname p
        | none => true)
    && n.attrs.all (readable_attribute declared)
    && decide ((n.attrs.map (fun a => a.1)).Nodup)
    && decide ((n.attrs.filterMap (fun a => prefixed_local a.1)).Nodup)

/-- The nodes are those of a document that the cursor reads back as written:
one root element, every start tag readable where it stands, every end tag
closing an open element, every text inside the root and made of characters of
the document. `scopes` holds, for each open element, the prefixes declared in
scope in it, and `rooted` tells whether the root has been met. -/
def cursor_reads : List (List String) → Bool → List xmlNode → Bool
  | scopes, rooted, [] => scopes.isEmpty && rooted
  | scopes, rooted, n :: nodes =>
    if n.type = XML_READER_TYPE_ELEMENT then
      readable_element (declared_prefixes n.attrs ++ scopes.headD []) n
        && !(scopes.isEmpty && rooted)
        && (if n.isEmpty then cursor_reads scopes true nodes
            else cursor_reads ((declared_prefixes n.attrs ++ scopes.headD []) :: scopes) true
              nodes)
    else if n.type = XML_READER_TYPE_END_ELEMENT then
      match scopes with
      | [] => false
      | _ :: below => cursor_reads below rooted nodes
    else !scopes.isEmpty && xml_text n.value && cursor_reads scopes rooted nodes

/-- The document that a sequence of writer calls produces, as the cursor
(libxml2 `xmlTextReader`) reads it: the nodes written, each start tag with its
attributes in the order in which the cursor enumerates them. The answer is
none for the calls whose document the model does not read back: those that do
not make one root element, and those with a name or a text outside of
`readable_element` and `xml_text` (a control character, a name that is no XML
name, an attribute written twice, a namespace declaration with an empty or
reserved name, a prefix that is not declared), on which libxml2 fails,
reports a namespace error or reads something else than was written. -/
def render (calls : List xmlTextWriterCall) : Option (List xmlNode) :=
  if cursor_reads [] false (render_go [] .nothing calls) then
    some ((render_go [] .nothing calls).map cursor_node)
  else none

/-! ## Children of the root -/

/-- An element that the parser does not know, without child elements: prefix,
name, attributes and text. -/
structure unknown_element where
  nspace : Option String
  name : String
  attrs : List (String × String)
  text : Option String
  deriving DecidableEq, Repr

def unknown_element.export (u : unknown_element) : List xmlTextWriterCall :=
  [StartElementNS u.nspace u.name]
  ++ u.attrs.map (fun a => WriteAttribute (some a.1) (some a.2))
  ++ write_string_if u.text
  ++ [EndElement]

/-- The `meta:component-tree` element that `cpe_dict_export` writes around the vendors. -/
def component_tree_export (vendors : List cpe_vendor) : List xmlTextWriterCall :=
  [StartElementNS (some NS_META_STR) TAG_COMPONENT_TREE_STR]
  ++ (vendors.map cpe_vendor_export).flatten
  ++ [EndElement]

/-- A child element of the root of a document. -/
inductive root_child where
  | generator (generator : cpe_generator)
  | item (item : cpe_item)
  | component_tree (vendors : List cpe_vendor)
  | unknown (element : unknown_element)
  deriving DecidableEq, Repr

/-- The calls that write a child of the root: those of the serializer for a
generator, an entry and a component tree. -/
def root_child.export (codec : cpe_codec) : root_child → List xmlTextWriterCall
  | .generator g => cpe_generator_export g
  | .item it => cpe_item_export codec it
  | .component_tree vs => component_tree_export vs
  | .unknown u => u.export

/-- The calls that write a `cpe-list` root with the given namespace
declarations around the given children. -/
def root_export (codec : cpe_codec) (nspace : Option String) (xmlns : List xml_metadata)
    (children : List root_child) : List xmlTextWriterCall :=
  [StartElementNS nspace TAG_CPE_LIST_STR]
  ++ (xmlns.map cpe_dict_export_xmlns).flatten
  ++ (children.map (root_child.export codec)).flatten
  ++ [EndElement]

/-- The children of the root that `cpe_dict_export` writes for a dictionary. -/
def cpe_dict_model.children (dict : cpe_dict_model) : List root_child :=
  (match dict.generator with
   | some generator => [.generator generator]
   | none => [])
  ++ dict.items.map .item ++ [.component_tree dict.vendors]

/-- What the main loop of `cpe_dict_model_parse` makes of a child of the root. -/
def root_child.add (ret : cpe_dict_model) : root_child → cpe_dict_model
  | .generator g => { ret with generator := some g }
  | .item it => { ret with items := ret.items ++ [it] }
  | .component_tree vs => { ret with vendors := ret.vendors ++ vs }
  | .unknown _ => ret

def root_child.is_item : root_child → Bool
  | .item _ => true
  | _ => false

def root_child.is_unknown : root_child → Bool
  | .unknown _ => true
  | _ => false

/-! ## Data in the form the parser stores it -/

/-- A text content as the parser stores it: absent, or not empty and without
white space at its ends. -/
def stored_text (text : Option String) : Bool :=
  match text with
  | none => true
  | some s =>
    match s.data.head?, s.data.getLast? with
    | some a, some b => !isspace a && !isspace b
    | _, _ => false

/-- An identifier that the codec reads back from its own text. -/
def stored_name (codec : cpe_codec) (name : Option cpe_name) : Bool :=
  match name with
  | some n => decide (codec.cpe_name_new (codec.cpe_name_get_uri n) = some n)
  | none => true

def oscap_title.canonical (t : oscap_title) : Bool :=
  decide (t.xml.URI = none) && stored_text t.content

def cpe_check.canonical (c : cpe_check) : Bool :=
  decide (c.xml.lang = none) && decide (c.xml.URI = none) && stored_text c.identifier

/-- A reference as the parser stores it; the serializer writes its language
after its text, where no attribute can go, so the language is absent unless
the text is. -/
def cpe_reference.canonical (r : cpe_reference) : Bool :=
  decide (r.xml.URI = none) && stored_text r.content
    && (decide (r.xml.lang = none) || decide (r.content = none))

def cpe_item_metadata.canonical (m : cpe_item_metadata) : Bool :=
  decide (m.xml.lang = none) && decide (m.xml.URI = none) && m.modification_date.isSome

def cpe_item.canonical (codec : cpe_codec) (item : cpe_item) : Bool :=
  decide (item.xml.lang = none) && decide (item.xml.URI = none)
    && stored_name codec item.name && stored_name codec item.deprecated
    && (item.deprecated.isSome == item.deprecation_date.isSome)
    && item.titles.all oscap_title.canonical
    && (match item.metadata with
        | some m => m.canonical
        | none => true)
    && item.references.all cpe_reference.canonical
    && item.notes.all oscap_title.canonical
    && item.checks.all cpe_check.canonical

/-- A generator as the parser stores it: at least one field, none empty. -/
def cpe_generator.canonical (g : cpe_generator) : Bool :=
  decide (g.xml.lang = none) && decide (g.xml.URI = none)
    && decide (g.product_name ≠ some "") && decide (g.product_version ≠ some "")
    && decide (g.schema_version ≠ some "") && decide (g.timestamp ≠ some "")
    && (g.product_name.isSome || g.product_version.isSome || g.schema_version.isSome
        || g.timestamp.isSome)

def cpe_language.canonical (l : cpe_language) : Bool :=
  decide (l.xml.URI = none)

def cpe_edition.canonical (e : cpe_edition) : Bool :=
  decide (e.xml.lang = none) && decide (e.xml.URI = none)
    && e.languages.all cpe_language.canonical

def cpe_update.canonical (u : cpe_update) : Bool :=
  decide (u.xml.lang = none) && decide (u.xml.URI = none)
    && u.editions.all cpe_edition.canonical

def cpe_version.canonical (v : cpe_version) : Bool :=
  decide (v.xml.lang = none) && decide (v.xml.URI = none)
    && v.updates.all cpe_update.canonical

def cpe_product.canonical (p : cpe_product) : Bool :=
  decide (p.xml.lang = none) && decide (p.xml.URI = none)
    && p.versions.all cpe_version.canonical

/-- A vendor as the parser stores it: at least one title or product. -/
def cpe_vendor.canonical (v : cpe_vendor) : Bool :=
  decide (v.xml.lang = none) && decide (v.xml.URI = none)
    && (!v.titles.isEmpty || !v.products.isEmpty)
    && v.titles.all oscap_title.canonical
    && v.products.all cpe_product.canonical

/-- An unknown element whose name is none of those that the main loop and the
loop of `cpe_item_parse` know. -/
def unknown_element.canonical (u : unknown_element) : Bool :=
  u.name != TAG_GENERATOR_STR && u.name != TAG_CPE_ITEM_STR && u.name != TAG_VENDOR_STR
    && u.name != TAG_COMPONENT_TREE_STR && !item_child_tag u.name

def root_child.canonical (codec : cpe_codec) : root_child → Bool
  | .generator g => g.canonical
  | .item it => it.canonical codec
  | .component_tree vs => vs.all cpe_vendor.canonical
  | .unknown u => u.canonical

/-- A namespace pair as `cpe_dict_model_parse` stores it, other than a
declaration of language. -/
def xml_metadata.canonical (xml : xml_metadata) : Bool :=
  decide (xml.lang = none) && xml.URI.isSome
    && (match xml.nspace with
        | some name => name != ATTR_XML_LANG_STR
        | none => false)

/-- The attributes that the namespace pairs of a dictionary stand for. -/
def xmlns_attributes (xmlns : List xml_metadata) : List (String × String) :=
  xmlns.filterMap (fun xml =>
    match xml.nspace, xml.URI with
    | some name, some uri => some (name, uri)
    | _, _ => none)

/-- The namespace pairs of a root as `cpe_dict_model_parse` stores them: no
name comes twice, as no attribute comes twice on a start tag. -/
def xmlns_canonical (xmlns : List xml_metadata) : Bool :=
  xmlns.all xml_metadata.canonical && decide ((xmlns_attributes xmlns).map Prod.fst).Nodup

/-! ## Prefixes declared by the root -/

def oscap_title.declared_in (declared : List String) (t : oscap_title) : Bool :=
  prefix_declared declared t.xml.nspace

def cpe_item.declared_in (declared : List String) (item : cpe_item) : Bool :=
  prefix_declared declared item.xml.nspace
    && item.titles.all (oscap_title.declared_in declared)
    && (match item.metadata with
        | some m => prefix_declared declared m.xml.nspace
        | none => true)
    && item.references.all (fun r => prefix_declared declared r.xml.nspace)
    && item.notes.all (oscap_title.declared_in declared)
    && item.checks.all (fun c => prefix_declared declared c.xml.nspace)

def cpe_edition.declared_in (declared : List String) (e : cpe_edition) : Bool :=
  prefix_declared declared e.xml.nspace
    && e.languages.all (fun l => prefix_declared declared l.xml.nspace)

def cpe_update.declared_in (declared : List String) (u : cpe_update) : Bool :=
  prefix_declared declared u.xml.nspace && u.editions.all (cpe_edition.declared_in declared)

def cpe_version.declared_in (declared : List String) (v : cpe_version) : Bool :=
  prefix_declared declared v.xml.nspace && v.updates.all (cpe_update.declared_in declared)

def cpe_product.declared_in (declared : List String) (p : cpe_product) : Bool :=
  prefix_declared declared p.xml.nspace && p.versions.all (cpe_version.declared_in declared)

def cpe_vendor.declared_in (declared : List String) (v : cpe_vendor) : Bool :=
  prefix_declared declared v.xml.nspace
    && v.titles.all (oscap_title.declared_in declared)
    && v.products.all (cpe_product.declared_in declared)

/-- Every prefix that the serializer writes in a child of the root is among the
declared ones; a component tree is written with the prefix `meta`. -/
def root_child.declared_in (declared : List String) : root_child → Bool
  | .generator g => prefix_declared declared g.xml.nspace
  | .item it => it.declared_in declared
  | .component_tree vs =>
    prefix_declared declared (some NS_META_STR) && vs.all (cpe_vendor.declared_in declared)
  | .unknown u => prefix_declared declared u.nspace

/-- The root declares every prefix that the serializer writes in the document. -/
def root_declares (nspace : Option String) (xmlns : List xml_metadata)
    (children : List root_child) : Bool :=
  prefix_declared (declared_prefixes (xmlns_attributes xmlns)) nspace
    && children.all (root_child.declared_in (declared_prefixes (xmlns_attributes xmlns)))

/-- A dictionary in the form the parser stores it, whose namespace pairs
declare the prefixes of its elements. -/
def cpe_dict_model.canonical (codec : cpe_codec) (dict : cpe_dict_model) : Bool :=
  decide (dict.xml = xml_metadata_new) && xmlns_canonical dict.xmlns
    && dict.children.all (root_child.canonical codec)
    && root_declares dict.xml.nspace dict.xmlns dict.children

/-- The scope of the children of the root: no language, and the given
prefixes declared. -/
def scope_ok (declared : List String) (stack : List open_element) : Prop :=
  scope_lang stack = none ∧ ∀ p ∈ declared, p ∈ scope_declared stack

/-! ## Nodes of the written elements -/

def lang_attribute (lang : Option String) : List (String × String) :=
  match lang with
  | some l => [(ATTR_XML_LANG_STR, l)]
  | none => []

def optional_attribute (name : String) (value : Option String) : List (String × String) :=
  match value with
  | some v => [(name, v)]
  | none => []

/-- The nodes of an element with the given children: an empty element when
there is none. -/
def element_nodes (name : String) (nspace lang : Option String)
    (attrs : List (String × String)) (children : List xmlNode) : List xmlNode :=
  match children with
  | [] => [xml_element name nspace lang attrs true]
  | _ => xml_element name nspace lang attrs false :: children ++ [xml_end name nspace lang]

/-- The nodes of an element with at most a text. -/
def text_element_nodes (name : String) (nspace lang : Option String)
    (attrs : List (String × String)) (text : Option String) : List xmlNode :=
  match text with
  | none => [xml_element name nspace lang attrs true]
  | some s =>
    xml_element name nspace lang attrs false :: text_nodes lang s ++ [xml_end name nspace lang]

def oscap_title.nodes (name : String) (t : oscap_title) : List xmlNode :=
  text_element_nodes name t.xml.nspace t.xml.lang (lang_attribute t.xml.lang) t.content

def cpe_check.nodes (c : cpe_check) : List xmlNode :=
  text_element_nodes TAG_CHECK_STR c.xml.nspace none
    (optional_attribute ATTR_SYSTEM_STR c.system ++ optional_attribute ATTR_HREF_STR c.href)
    c.identifier

def cpe_reference.nodes (r : cpe_reference) : List xmlNode :=
  text_element_nodes TAG_REFERENCE_STR r.xml.nspace r.xml.lang
    (optional_attribute ATTR_HREF_STR r.href ++ lang_attribute r.xml.lang) r.content

def cpe_item_metadata.nodes (m : cpe_item_metadata) : List xmlNode :=
  [xml_element TAG_ITEM_METADATA_STR m.xml.nspace none
    (optional_attribute ATTR_MODIFICATION_DATE_STR m.modification_date
      ++ optional_attribute ATTR_STATUS_STR m.status
      ++ optional_attribute ATTR_NVD_ID_STR m.nvd_id
      ++ optional_attribute ATTR_DEP_BY_NVDID_STR m.deprecated_by_nvd_id) true]

/-- The attributes of the start tag of an entry. -/
def cpe_item.attributes (codec : cpe_codec) (item : cpe_item) : List (String × String) :=
  optional_attribute ATTR_NAME_STR (item.name.map codec.cpe_name_get_uri)
  ++ (match item.deprecated, item.deprecation_date with
      | some deprecated, some date =>
        [(ATTR_DEPRECATED_STR, VAL_TRUE_STR), (ATTR_DEPRECATION_DATE_STR, date),
         (ATTR_DEPRECATED_BY_STR, codec.cpe_name_get_uri deprecated)]
      | _, _ => [])

/-- The nodes of a list of elements under an element without attributes,
nothing for the empty list. -/
def wrapped_nodes (name : String) (children : List xmlNode) : List xmlNode :=
  match children with
  | [] => []
  | _ => xml_element name none none [] false :: children ++ [xml_end name none none]

def cpe_item.child_nodes (item : cpe_item) : List xmlNode :=
  (item.titles.map (oscap_title.nodes TAG_TITLE_STR)).flatten
  ++ (match item.metadata with
      | some m => m.nodes
      | none => [])
  ++ wrapped_nodes TAG_REFERENCES_STR (item.references.map cpe_reference.nodes).flatten
  ++ wrapped_nodes TAG_NOTES_STR (item.notes.map (oscap_title.nodes TAG_NOTE_STR)).flatten
  ++ (item.checks.map cpe_check.nodes).flatten

def cpe_item.nodes (codec : cpe_codec) (item : cpe_item) : List xmlNode :=
  element_nodes TAG_CPE_ITEM_STR item.xml.nspace none (item.attributes codec) item.child_nodes

def generator_field_nodes (nspace : Option String) (name : String) (field : Option String) :
    List xmlNode :=
  match field with
  | some s => xml_element name nspace none [] false :: text_nodes none s ++ [xml_end name nspace none]
  | none => []

def cpe_generator.child_nodes (g : cpe_generator) : List xmlNode :=
  generator_field_nodes g.xml.nspace TAG_PRODUCT_NAME_STR g.product_name
  ++ generator_field_nodes g.xml.nspace TAG_PRODUCT_VERSION_STR g.product_version
  ++ generator_field_nodes g.xml.nspace TAG_SCHEMA_VERSION_STR g.schema_version
  ++ generator_field_nodes g.xml.nspace TAG_TIMESTAMP_STR g.timestamp

def cpe_generator.nodes (g : cpe_generator) : List xmlNode :=
  element_nodes TAG_GENERATOR_STR g.xml.nspace none [] g.child_nodes

def cpe_language.nodes (l : cpe_language) : List xmlNode :=
  [xml_element TAG_LANGUAGE_STR l.xml.nspace l.xml.lang
    (optional_attribute ATTR_VALUE_STR l.value ++ lang_attribute l.xml.lang) true]

def cpe_edition.nodes (e : cpe_edition) : List xmlNode :=
  element_nodes TAG_EDITION_STR e.xml.nspace none (optional_attribute ATTR_VALUE_STR e.value)
    (e.languages.map cpe_language.nodes).flatten

def cpe_update.nodes (u : cpe_update) : List xmlNode :=
  element_nodes TAG_UPDATE_STR u.xml.nspace none (optional_attribute ATTR_VALUE_STR u.value)
    (u.editions.map cpe_edition.nodes).flatten

def cpe_version.nodes (v : cpe_version) : List xmlNode :=
  element_nodes TAG_VERSION_STR v.xml.nspace none (optional_attribute ATTR_VALUE_STR v.value)
    (v.updates.map cpe_update.nodes).flatten

def cpe_product.nodes (p : cpe_product) : List xmlNode :=
  element_nodes TAG_PRODUCT_STR p.xml.nspace none
    (optional_attribute ATTR_VALUE_STR p.value ++ optional_attribute ATTR_PART_STR (PART_TO_CHAR p.part))
    (p.versions.map cpe_version.nodes).flatten

def cpe_vendor.nodes (v : cpe_vendor) : List xmlNode :=
  element_nodes TAG_VENDOR_STR v.xml.nspace none (optional_attribute ATTR_VALUE_STR v.value)
    ((v.titles.map (oscap_title.nodes TAG_TITLE_STR)).flatten
      ++ (v.products.map cpe_product.nodes).flatten)

def unknown_element.nodes (u : unknown_element) : List xmlNode :=
  text_element_nodes u.name u.nspace (element_lang [] u.attrs) u.attrs u.text

def root_child.nodes (codec : cpe_codec) : root_child → List xmlNode
  | .generator g => g.nodes
  | .item it => it.nodes codec
  | .component_tree vs =>
    element_nodes TAG_COMPONENT_TREE_STR (some NS_META_STR) none []
      (vs.map cpe_vendor.nodes).flatten
  | .unknown u => u.nodes

/-- The nodes of a document with the given root attributes and children of the root. -/
def document_nodes (codec : cpe_codec) (nspace : Option String) (attrs : List (String × String))
    (children : List root_child) : List xmlNode :=
  xml_element TAG_CPE_LIST_STR nspace none attrs false
    :: (children.map (root_child.nodes codec)).flatten ++ [xml_end TAG_CPE_LIST_STR nspace none]

/-! ## States of the cursor in the proofs -/

/-- The parser on the first of the given nodes. -/
def on_nodes (errors : List String) (nodes : List xmlNode) : parser_state :=
  { reader := (xmlTextReaderRead { cur := none, rest := nodes }).2, errors := errors }

/-- The parser on the first start tag among the given nodes. -/
def on_element (errors : List String) (nodes : List xmlNode) : parser_state :=
  { reader := (xmlTextReaderNextElement_loop nodes).2, errors := errors }

/-- The diagnostics that the main loop of `cpe_dict_model_parse` records on a
child of the root. -/
def root_child.errors : root_child → List String
  | .unknown _ => [ERR_UNKNOWN_ELEMENT]
  | _ => []

/-- The last child of the root is not an entry. -/
def ends_without_item : List root_child → Bool
  | [] => true
  | [c] => !c.is_item
  | _ :: cs => ends_without_item cs

/-- The calls are none or begin with the start of an element. -/
def starts_element : List xmlTextWriterCall → Bool
  | [] => true
  | StartElementNS _ _ :: _ => true
  | _ => false

/-! ## Sample documents and dictionaries of the round trip -/

/-- The document with an empty root that declares the prefix `meta`. -/
def empty_root_document : List xmlNode :=
  [empty_tag "cpe-list" [("xmlns:meta", "http://scap.nist.gov/schema/cpe-dictionary-metadata/0.2")]]

/-- The dictionary that the parser answers on `empty_root_document`. -/
def empty_root_dict : cpe_dict_model :=
  { cpe_dict_model_new with
    xmlns := [{ lang := none, nspace := some "xmlns:meta",
                URI := some "http://scap.nist.gov/schema/cpe-dictionary-metadata/0.2" }] }

/-- A generator with two fields. -/
def sample_generator : cpe_generator :=
  { xml := xml_metadata_new, product_name := some "Tool", product_version := some "1.0",
    schema_version := none, timestamp := none }

/-- An entry with a title, metadata, a reference, a note and a check. -/
def sample_item : cpe_item :=
  { xml := xml_metadata_new, name := some { uri := "cpe:/a:vendor:product:1.0" },
    titles := [{ xml := { lang := some "en-US", nspace := none, URI := none },
                 content := some "Example" }],
    deprecated := some { uri := "cpe:/a:vendor:product:2.0" },
    deprecation_date := some "2010-01-01",
    references := [{ xml := xml_metadata_new, href := some "http://example.org",
                     content := some "Home" }],
    checks := [{ xml := xml_metadata_new, system := some "oval", href := some "checks.xml",
                 identifier := some "oval:1" }],
    notes := [{ xml := xml_metadata_new, content := some "A note" }],
    metadata := some { xml := { lang := none, nspace := some "meta", URI := none },
                       modification_date := some "2010-01-02", status := some "FINAL",
                       nvd_id := none, deprecated_by_nvd_id := none } }

/-- A vendor with a title and a product tree down to a language. -/
def sample_tree_vendor : cpe_vendor :=
  { xml := { lang := none, nspace := some "meta", URI := none }, value := some "vendor",
    titles := [{ xml := xml_metadata_new, content := some "Vendor" }],
    products :=
      [{ xml := xml_metadata_new, value := some "product", part := CPE_PART_APP,
         versions :=
           [{ xml := xml_metadata_new, value := some "1.0",
              updates :=
                [{ xml := xml_metadata_new, value := some "sp1",
                   editions :=
                     [{ xml := xml_metadata_new, value := some "pro",
                        languages :=
                          [{ xml := { lang := some "en", nspace := none, URI := none },
                             value := some "english" }] }] }] }] }] }

/-- A dictionary with a namespace declaration, a generator, an entry and a vendor. -/
def sample_dict : cpe_dict_model :=
  { xmlns := [{ lang := none, nspace := some "xmlns",
                URI := some "http://cpe.mitre.org/dictionary/2.0" },
              { lang := none, nspace := some "xmlns:meta",
                URI := some "http://scap.nist.gov/schema/cpe-dictionary-metadata/0.2" }],
    xml := xml_metadata_new,
    items := [sample_item],
    vendors := [sample_tree_vendor],
    generator := some sample_generator }

/-- An unknown element with an attribute and a text. -/
def sample_unknown : unknown_element :=
  { nspace := none, name := "foo", attrs := [("id", "1")], text := some "bar" }

/-- The children of a root before and after an unknown element. -/
def sample_before : List root_child :=
  [root_child.generator sample_generator, root_child.item sample_item]

def sample_after : List root_child :=
  [root_child.component_tree [sample_tree_vendor]]

/-! ## Elements of a sequence of writer calls -/

/-- The elements that a sequence of writer calls is made of, one after the
other, each with the calls from its start to the end that closes it; none when
the calls are not such a sequence. `depth` counts the elements open and
`current` holds the calls of the element being read. -/
def written_elements_go : Nat → List xmlTextWriterCall → List xmlTextWriterCall →
    Option (List (List xmlTextWriterCall))
  | depth, _, [] => if depth = 0 then some [] else none
  | depth, current, StartElementNS p n :: calls =>
    written_elements_go (depth + 1) (current ++ [StartElementNS p n]) calls
  | depth, current, EndElement :: calls =>
    if depth = 0 then none
    else if depth = 1 then
      (written_elements_go 0 [] calls).map (fun es => (current ++ [EndElement]) :: es)
    else written_elements_go (depth - 1) (current ++ [EndElement]) calls
  | depth, current, WriteAttribute name content :: calls =>
    if depth = 0 then none
    else written_elements_go depth (current ++ [WriteAttribute name content]) calls
  | depth, current, WriteString content :: calls =>
    if depth = 0 then none
    else written_elements_go depth (current ++ [WriteString content]) calls

/-- The elements that a sequence of writer calls is made of. -/
def written_elements (calls : List xmlTextWriterCall) : Option (List (List xmlTextWriterCall)) :=
  written_elements_go 0 [] calls

/-- The calls stay inside the element they are written in: with `opened`
elements of their own open before them, they end no other element and leave
none of their own open. -/
def inner_calls : Nat → List xmlTextWriterCall → Bool
  | opened, [] => opened == 0
  | opened, StartElementNS _ _ :: calls => inner_calls (opened + 1) calls
  | opened, EndElement :: calls => opened != 0 && inner_calls (opened - 1) calls
  | opened, WriteAttribute _ _ :: calls => inner_calls opened calls
  | opened, WriteString _ :: calls => inner_calls opened calls

/-- The calls are those of one element: a start, calls that stay inside, an end. -/
def one_element (calls : List xmlTextWriterCall) : Prop :=
  ∃ p n body, calls = StartElementNS p n :: body ++ [EndElement] ∧ inner_calls 0 body = true

/-- An element without prefix around the given elements. -/
def wrapper_calls (name : String) (elements : List (List xmlTextWriterCall)) :
    List xmlTextWriterCall :=
  StartElementNS none name :: elements.flatten ++ [EndElement]

/-- The attribute call is one that names an attribute and gives it no content:
the writer then leaves the attribute empty. -/
def xmlTextWriterCall.without_content : xmlTextWriterCall → Bool
  | WriteAttribute (some _) none => true
  | _ => false

/-- No call of the sequence names an attribute without giving it a content. -/
def with_content (calls : List xmlTextWriterCall) : Bool :=
  calls.all (fun c => !c.without_content)

/-- An entry with a deprecated identifier and no deprecation date. -/
def undated_item : cpe_item :=
  { cpe_item_new with
    name := some { uri := "cpe:/a:b:c:1" }, deprecated := some { uri := "cpe:/a:b:c:2" } }

/-- A dictionary with one entry, `undated_item`. -/
def undated_dict : cpe_dict_model :=
  { cpe_dict_model_new with items := [undated_item] }

/-! ## Children of an entry -/

/-- The metadata block holds what the `item-metadata` start tag carries: its
`modification-date`, which is present, and its `status`, `nvd-id` and
`deprecated-by-nvd-id`, each present when the attribute is. -/
def cpe_item_metadata.read_from (m : cpe_item_metadata) (n : xmlNode) : Prop :=
  n.type = XML_READER_TYPE_ELEMENT ∧ n.localName = TAG_ITEM_METADATA_STR
    ∧ m.modification_date.isSome
    ∧ m.modification_date = n.attribute ATTR_MODIFICATION_DATE_STR
    ∧ m.status = n.attribute ATTR_STATUS_STR
    ∧ m.nvd_id = n.attribute ATTR_NVD_ID_STR
    ∧ m.deprecated_by_nvd_id = n.attribute ATTR_DEP_BY_NVDID_STR

/-- What one pass of the loop of `cpe_item_parse` does to the metadata block:
it leaves it alone or reads it from the start tag under the cursor. -/
def item_step.reads_metadata (reader : xmlTextReader) (ret : cpe_item) : item_step → Prop
  | .next_node r => r.metadata = ret.metadata
  | .next_element r => r.metadata = ret.metadata
      ∨ ∃ n m, reader.cur = some n ∧ r.metadata = some m ∧ m.read_from n
  | .return_null => True
  | .return_ret r => r.metadata = ret.metadata

/-- The events of the first nodes of a stream, each read with the nodes after
it: those of `children`, with `tail` after them. -/
def leading_events (codec : cpe_codec) : List xmlNode → List xmlNode → List order_event
  | [], _ => []
  | n :: children, tail =>
    node_events codec n (children ++ tail) ++ leading_events codec children tail

/-- The cursor on the start tag of an entry whose first child is an unknown
element `foo`, followed by an `item-metadata` without `modification-date`; a
second entry follows. -/
def unknown_child_metadata_state : parser_state :=
  state_at (start_tag "cpe-item" [("name", "cpe:/a:b:c:1")])
    [empty_tag "foo" [], empty_tag "item-metadata" [("status", "DRAFT")], end_tag "cpe-item",
     empty_tag "cpe-item" [("name", "cpe:/a:b:c:2")], end_tag "cpe-list"]

/-- The cursor on the start tag of an entry with a title and an
`item-metadata` without `modification-date`; a second entry follows. -/
def missing_date_state : parser_state :=
  state_at (start_tag "cpe-item" [("name", "cpe:/a:b:c:1")])
    [start_tag "title" [], text_node "One", end_tag "title",
     empty_tag "item-metadata" [("status", "DRAFT")], end_tag "cpe-item",
     empty_tag "cpe-item" [("name", "cpe:/a:b:c:2")], end_tag "cpe-list"]

/-- The cursor on the start tag of an entry without a name whose first child
is an unknown element `foo`, followed by a title; a second entry follows. -/
def unknown_child_state : parser_state :=
  state_at (start_tag "cpe-item" [])
    [empty_tag "foo" [], start_tag "title" [], text_node "One", end_tag "title",
     end_tag "cpe-item", empty_tag "cpe-item" [("name", "cpe:/a:b:c:2")], end_tag "cpe-list"]

/-- The cursor on the start tag of an entry without a name, with a title, a
check and a note; a second entry follows. -/
def nameless_state : parser_state :=
  state_at (start_tag "cpe-item" [])
    [start_tag "title" [], text_node "One", end_tag "title",
     start_tag "check" [("system", "s")], text_node "id", end_tag "check",
     start_tag "notes" [], start_tag "note" [], text_node "N", end_tag "note", end_tag "notes",
     end_tag "cpe-item", empty_tag "cpe-item" [("name", "cpe:/a:b:c:2")], end_tag "cpe-list"]

/-! ## Documents on which the parser does not return -/

/-- A document whose root has one child, an entry. -/
def last_entry_document : List xmlNode :=
  [start_tag "cpe-list" [], empty_tag "cpe-item" [("name", "cpe:/a:b:c:1")],
   end_tag "cpe-list"]

/-- A document whose root has one child, a generator without child. -/
def empty_generator_document : List xmlNode :=
  [start_tag "cpe-list" [], empty_tag "generator" [], end_tag "cpe-list"]

/-- A document with two entries: the first has an incomplete deprecation
(no "deprecated_by", no "deprecation_date"), the second is the last child of
the root. -/
def failed_entry_document : List xmlNode :=
  [start_tag "cpe-list" [],
   start_tag "cpe-item" [("name", "cpe:/a:b:c:1"), ("deprecated", "true")],
   start_tag "title" [], text_node "One", end_tag "title",
   end_tag "cpe-item",
   start_tag "cpe-item" [("name", "cpe:/a:b:c:2")],
   start_tag "title" [], text_node "Two", end_tag "title",
   end_tag "cpe-item",
   end_tag "cpe-list"]

/-- A document with a vendor whose product has the part code "x", followed by
an entry, the last child of the root. -/
def failed_vendor_document : List xmlNode :=
  [start_tag "cpe-list" [],
   start_tag "component-tree" [],
   start_tag "vendor" [("value", "v")],
   empty_tag "product" [("value", "p"), ("part", "x")],
   end_tag "vendor",
   end_tag "component-tree",
   empty_tag "cpe-item" [("name", "cpe:/a:b:c:1")],
   end_tag "cpe-list"]

/-- A document with two generators, followed by an entry, the last child of
the root. -/
def two_generators_document : List xmlNode :=
  [start_tag "cpe-list" [],
   start_tag "generator" [],
   start_tag "product_name" [], text_node "Tool", end_tag "product_name",
   end_tag "generator",
   start_tag "generator" [],
   start_tag "product_version" [], text_node "2.0", end_tag "product_version",
   end_tag "generator",
   empty_tag "cpe-item" [("name", "cpe:/a:b:c:1")],
   end_tag "cpe-list"]

/-! ## Recovery of the main loop -/

/-- Nodes that the main loop of `cpe_dict_model_parse` passes without reading
an element of the dictionary: none of their start tags is named "generator",
"cpe-item" or "vendor". -/
def passed_nodes (nodes : List xmlNode) : Bool :=
  nodes.all (fun n => n.type != XML_READER_TYPE_ELEMENT
    || (n.localName != TAG_GENERATOR_STR && n.localName != TAG_CPE_ITEM_STR
        && n.localName != TAG_VENDOR_STR))

/-- The diagnostics that the main loop records on such nodes: one for each
start tag that is not named "component-tree". -/
def passed_errors (nodes : List xmlNode) : List String :=
  (nodes.filter (fun n => n.type == XML_READER_TYPE_ELEMENT
    && n.localName != TAG_COMPONENT_TREE_STR)).map (fun _ => ERR_UNKNOWN_ELEMENT)

/-- The number of start tags among the nodes. -/
def start_tags (nodes : List xmlNode) : Nat :=
  (nodes.filter (fun n => n.type == XML_READER_TYPE_ELEMENT)).length

/-- An entry on which `cpe_item_parse` fails, given by its start tag and the
nodes after it that `cpe_item_parse` reads before it fails: none when the
deprecation attributes of the start tag are incomplete; otherwise known
children and then an `item-metadata` start tag without `modification-date`. -/
def failed_entry (codec : cpe_codec) (start : xmlNode) (consumed : List xmlNode) : Prop :=
  start.type = XML_READER_TYPE_ELEMENT ∧ start.localName = TAG_CPE_ITEM_STR
    ∧ ((cpe_item_parse_attrs codec { cur := some start, rest := [] } = none ∧ consumed = [])
      ∨ ((cpe_item_parse_attrs codec { cur := some start, rest := [] }).isSome
        ∧ ∃ pre bad, consumed = pre ++ [bad] ∧ (∀ n ∈ pre, item_child_ok n = true)
          ∧ bad.type = XML_READER_TYPE_ELEMENT ∧ bad.localName = TAG_ITEM_METADATA_STR
          ∧ bad.attribute ATTR_MODIFICATION_DATE_STR = none))

/-- A node of a vendor that is not a product start tag with a part code that
`cpe_vendor_parse` rejects. -/
def product_ok (n : xmlNode) : Bool :=
  n.type != XML_READER_TYPE_ELEMENT || n.localName != TAG_PRODUCT_STR
    || (cpe_product_parse_part (n.attribute ATTR_PART_STR)).isSome

/-- A vendor on which `cpe_vendor_parse` fails, given by its start tag and the
nodes after it that `cpe_vendor_parse` reads before it fails: well-nested
content of the vendor, and then a product start tag whose part code is
rejected. -/
def failed_vendor (start : xmlNode) (consumed : List xmlNode) : Prop :=
  start.type = XML_READER_TYPE_ELEMENT ∧ start.localName = TAG_VENDOR_STR
    ∧ ∃ pre bad, consumed = pre ++ [bad] ∧ (∀ n ∈ pre, n.localName ≠ TAG_VENDOR_STR)
      ∧ levels_ordered false false false false pre = true
      ∧ (∀ n ∈ pre, product_ok n = true)
      ∧ bad.type = XML_READER_TYPE_ELEMENT ∧ bad.localName = TAG_PRODUCT_STR
      ∧ cpe_product_parse_part (bad.attribute ATTR_PART_STR) = none

/-- The generator that the main loop holds after the given children of the
root: the last generator among them, or the one it held before. -/
def last_generator (held : Option cpe_generator) : List root_child → Option cpe_generator
  | [] => held
  | .generator g :: children => last_generator (some g) children
  | _ :: children => last_generator held children

/-! ## Elements of the written dictionary -/

/-- The child elements of an entry as `cpe_item_export` writes them. -/
def cpe_item.child_elements (item : cpe_item) : List (List xmlTextWriterCall) :=
  item.titles.map oscap_title_export
  ++ (match item.metadata with
      | some metadata => [cpe_item_metadata_export metadata]
      | none => [])
  ++ (if item.references = [] then []
      else [wrapper_calls TAG_REFERENCES_STR (item.references.map cpe_reference_export)])
  ++ (if item.notes = [] then []
      else [wrapper_calls TAG_NOTES_STR (item.notes.map cpe_note_export)])
  ++ item.checks.map cpe_check_export

/-! ## Streams of an entry -/

/-- The cursor on the start tag of an entry with one title, the last child of
the root: the end of the stream comes after its closing tags. -/
def last_child_state : parser_state :=
  state_at (start_tag "cpe-item" [("name", "cpe:/a:b:c:1")])
    [start_tag "title" [], text_node "One", end_tag "title", end_tag "cpe-item",
     end_tag "cpe-list"]

/-- The cursor on the start tag of an entry with one title, followed by white
space and by a second entry. -/
def sibling_state : parser_state :=
  state_at (start_tag "cpe-item" [("name", "cpe:/a:b:c:1")])
    [start_tag "title" [], text_node "One", end_tag "title", end_tag "cpe-item",
     start_tag "cpe-item" [("name", "cpe:/a:b:c:2")],
     start_tag "title" [], text_node "Two", end_tag "title", end_tag "cpe-item",
     end_tag "cpe-list"]

/-- The cursor on the start tag of an entry with a title, an `item-metadata`
without `modification-date` and then an unknown element `foo`; a second entry
follows. -/
def metadata_unknown_child_state : parser_state :=
  state_at (start_tag "cpe-item" [("name", "cpe:/a:b:c:1")])
    [start_tag "title" [], text_node "One", end_tag "title",
     empty_tag "item-metadata" [("status", "DRAFT")], empty_tag "foo" [],
     end_tag "cpe-item", empty_tag "cpe-item" [("name", "cpe:/a:b:c:2")], end_tag "cpe-list"]

/-- The cursor on the start tag of an entry with a title, an `item-metadata`,
a check, an unknown element `foo` and a second title; a second entry follows. -/
def partial_entry_state : parser_state :=
  state_at (start_tag "cpe-item" [("name", "cpe:/a:b:c:1")])
    [start_tag "title" [], text_node "One", end_tag "title",
     empty_tag "item-metadata" [("modification-date", "2010-01-02"), ("status", "DRAFT")],
     start_tag "check" [("system", "s")], text_node "id", end_tag "check",
     empty_tag "foo" [],
     start_tag "title" [], text_node "Late", end_tag "title",
     end_tag "cpe-item", empty_tag "cpe-item" [("name", "cpe:/a:b:c:2")], end_tag "cpe-list"]

/-- The cursor on the start tag of an entry whose check has no "system"
attribute; a second entry follows. -/
def check_without_system_state : parser_state :=
  state_at (start_tag "cpe-item" [("name", "cpe:/a:b:c:1")])
    [start_tag "check" [("href", "checks.xml")], text_node " id ", end_tag "check",
     end_tag "cpe-item", empty_tag "cpe-item" [("name", "cpe:/a:b:c:2")], end_tag "cpe-list"]

/-- The metadata block that the `item-metadata` branch of `cpe_item_parse`
reads from a start tag. -/
def item_metadata_of (n : xmlNode) : Option cpe_item_metadata :=
  cpe_item_metadata_parse { cur := some n, rest := [] }

/-- The metadata block of an entry after the given nodes: that of the last
`item-metadata` start tag among them, or the one held before. -/
def leading_metadata (held : Option cpe_item_metadata) : List xmlNode → Option cpe_item_metadata
  | [] => held
  | n :: ns =>
    if n.type = XML_READER_TYPE_ELEMENT ∧ n.localName = TAG_ITEM_METADATA_STR then
      leading_metadata (item_metadata_of n) ns
    else leading_metadata held ns

/-! ## Streams of vendors -/

/-- A document with two vendors under `component-tree`: the first has no
child (self-closed), the second has a product. -/
def childless_vendor_document : List xmlNode :=
  [start_tag "cpe-list" [],
   start_tag "component-tree" [],
   empty_tag "vendor" [("value", "a")],
   start_tag "vendor" [("value", "b")],
   empty_tag "product" [("value", "p")],
   end_tag "vendor",
   end_tag "component-tree",
   end_tag "cpe-list"]

/-- The cursor of `childless_vendor_document` on the start tag of the first vendor. -/
def childless_vendor_state : parser_state :=
  state_at (empty_tag "vendor" [("value", "a")])
    [start_tag "vendor" [("value", "b")],
     empty_tag "product" [("value", "p")],
     end_tag "vendor",
     end_tag "component-tree",
     end_tag "cpe-list"]

/-! ## Dictionaries written and read back -/

/-- A dictionary that declares the prefix `meta` and has one entry, whose
check has an identifier with white space around it. -/
def untrimmed_dict : cpe_dict_model :=
  { cpe_dict_model_new with
    xmlns := [{ lang := none, nspace := some "xmlns:meta",
                URI := some "http://scap.nist.gov/schema/cpe-dictionary-metadata/0.2" }],
    items := [{ cpe_item_new with
      name := some { uri := "cpe:/a:b:c:1" },
      checks := [{ xml := xml_metadata_new, system := some "s", href := none,
                   identifier := some " id " }] }] }

/-- A dictionary with a generator, an entry without children, the entry
`sample_item` and a vendor tree. -/
def childless_entry_dict : cpe_dict_model :=
  { xmlns := [{ lang := none, nspace := some "xmlns",
                URI := some "http://cpe.mitre.org/dictionary/2.0" },
              { lang := none, nspace := some "xmlns:meta",
                URI := some "http://scap.nist.gov/schema/cpe-dictionary-metadata/0.2" }],
    xml := xml_metadata_new,
    items := [{ cpe_item_new with name := some { uri := "cpe:/a:b:c:1" } }, sample_item],
    vendors := [sample_tree_vendor],
    generator := some sample_generator }

/-! ## The vendor tree by the latest node of each level -/

/-- The node is a start tag with the given name. -/
def xmlNode.starts (n : xmlNode) (name : String) : Bool :=
  decide (n.type = XML_READER_TYPE_ELEMENT) && decide (n.localName = name)

/-- The language that the loop of `cpe_vendor_parse` makes of a start tag. -/
def language_of (n : xmlNode) : cpe_language :=
  { xml := { lang := n.lang, nspace := n.nspace, URI := none },
    value := n.attribute ATTR_VALUE_STR }

/-- The edition that stands for a start tag, with the given languages. -/
def edition_of (n : xmlNode) (languages : List cpe_language) : cpe_edition :=
  { xml := { lang := n.lang, nspace := n.nspace, URI := none },
    value := n.attribute ATTR_VALUE_STR, languages := languages }

/-- The update that stands for a start tag, with the given editions. -/
def update_of (n : xmlNode) (editions : List cpe_edition) : cpe_update :=
  { xml := { lang := n.lang, nspace := n.nspace, URI := none },
    value := n.attribute ATTR_VALUE_STR, editions := editions }

/-- The version that stands for a start tag, with the given updates. -/
def version_of (n : xmlNode) (updates : List cpe_update) : cpe_version :=
  { xml := { lang := n.lang, nspace := n.nspace, URI := none },
    value := n.attribute ATTR_VALUE_STR, updates := updates }

/-- The product that stands for a start tag, with the given versions; its
part classification is the one its "part" attribute stands for. -/
def product_of (n : xmlNode) (versions : List cpe_version) : cpe_product :=
  { xml := { lang := n.lang, nspace := n.nspace, URI := none },
    value := n.attribute ATTR_VALUE_STR,
    part := (cpe_product_parse_part (n.attribute ATTR_PART_STR)).getD CPE_PART_NONE,
    versions := versions }

/-- The languages attached to the edition whose start tag comes right before
the given nodes: those of the language start tags up to the next edition start
tag, which is the latest edition from there on. -/
def attached_languages : List xmlNode → List cpe_language
  | [] => []
  | n :: rest =>
    if n.starts TAG_EDITION_STR then []
    else if n.starts TAG_LANGUAGE_STR then language_of n :: attached_languages rest
    else attached_languages rest

/-- The editions attached to the update whose start tag comes right before the
given nodes: those of the edition start tags up to the next update start tag,
each with the languages attached to it. -/
def attached_editions : List xmlNode → List cpe_edition
  | [] => []
  | n :: rest =>
    if n.starts TAG_UPDATE_STR then []
    else if n.starts TAG_EDITION_STR then
      edition_of n (attached_languages rest) :: attached_editions rest
    else attached_editions rest

/-- The updates attached to the version whose start tag comes right before the
given nodes: those of the update start tags up to the next version start tag. -/
def attached_updates : List xmlNode → List cpe_update
  | [] => []
  | n :: rest =>
    if n.starts TAG_VERSION_STR then []
    else if n.starts TAG_UPDATE_STR then
      update_of n (attached_editions rest) :: attached_updates rest
    else attached_updates rest

/-- The versions attached to the product whose start tag comes right before
the given nodes: those of the version start tags up to the next product start
tag. -/
def attached_versions : List xmlNode → List cpe_version
  | [] => []
  | n :: rest =>
    if n.starts TAG_PRODUCT_STR then []
    else if n.starts TAG_VERSION_STR then
      version_of n (attached_updates rest) :: attached_versions rest
    else attached_versions rest

/-- The products of a vendor whose content is the given nodes, every node
attached to the latest node of its parent level: the products of the product
start tags, each with the versions attached to it. -/
def attached_products : List xmlNode → List cpe_product
  | [] => []
  | n :: rest =>
    if n.starts TAG_PRODUCT_STR then
      product_of n (attached_versions rest) :: attached_products rest
    else attached_products rest

/-- The size at a position of a list, none past the end. -/
def count_at {α : Type} (m : α → Nat) (i : Nat) (xs : List α) : Nat :=
  match xs.get? i with
  | some x => m x
  | none => 0

/-- The pointers of `cpe_vendor_parse` that are set point to nodes of the tree. -/
def vendor_locals.valid (loc : vendor_locals) : Prop :=
  (∀ i, loc.product = some i → i < loc.ret.products.length)
  ∧ (∀ i j, loc.version = some (i, j) → j < vendor_version_count loc.ret i)
  ∧ (∀ i j k, loc.update = some (i, j, k) → k < vendor_update_count loc.ret i j)
  ∧ (∀ i j k l, loc.edition = some (i, j, k, l) → l < vendor_edition_count loc.ret i j k)

/-- The languages added, one after the other, to the edition that the pointer
`edition` is on. -/
def pending_languages (ret : cpe_vendor) (edition : Option (Nat × Nat × Nat × Nat))
    (languages : List cpe_language) : cpe_vendor :=
  match edition with
  | some (i, j, k, l) => languages.foldl (fun r x => vendor_add_language r i j k l x) ret
  | none => ret

/-- The editions added, one after the other, to the update that the pointer
`update` is on. -/
def pending_editions (ret : cpe_vendor) (update : Option (Nat × Nat × Nat))
    (editions : List cpe_edition) : cpe_vendor :=
  match update with
  | some (i, j, k) => editions.foldl (fun r x => vendor_add_edition r i j k x) ret
  | none => ret

/-- The updates added, one after the other, to the version that the pointer
`version` is on. -/
def pending_updates (ret : cpe_vendor) (version : Option (Nat × Nat))
    (updates : List cpe_update) : cpe_vendor :=
  match version with
  | some (i, j) => updates.foldl (fun r x => vendor_add_update r i j x) ret
  | none => ret

/-- The versions added, one after the other, to the product that the pointer
`product` is on. -/
def pending_versions (ret : cpe_vendor) (product : Option Nat)
    (versions : List cpe_version) : cpe_vendor :=
  match product with
  | some i => versions.foldl (fun r x => vendor_add_version r i x) ret
  | none => ret

/-- The vendor that the loop of `cpe_vendor_parse` holds once it has passed
the given nodes: the one it holds before them, with the nodes attached to the
nodes that the pointers are on, and the products of the nodes after them. -/
def vendor_locals.pending (loc : vendor_locals) (body : List xmlNode) : cpe_vendor :=
  { pending_versions
      (pending_updates
        (pending_editions
          (pending_languages loc.ret loc.edition (attached_languages body))
          loc.update (attached_editions body))
        loc.version (attached_updates body))
      loc.product (attached_versions body) with
    products :=
      (pending_versions
        (pending_updates
          (pending_editions
            (pending_languages loc.ret loc.edition (attached_languages body))
            loc.update (attached_editions body))
          loc.version (attached_updates body))
        loc.product (attached_versions body)).products ++ attached_products body }

/-! ## Streams of a vendor tree -/

/-- The cursor on the start tag of a vendor whose second product has an update
and no version: the latest version is that of the first product. -/
def crossing_vendor_state : parser_state :=
  state_at (start_tag "vendor" [("value", "v")])
    [text_node "\n",
     start_tag "product" [("value", "a"), ("part", "a")],
     empty_tag "version" [("value", "1")],
     end_tag "product",
     start_tag "product" [("value", "b")],
     empty_tag "update" [("value", "u1")],
     end_tag "product",
     end_tag "vendor",
     end_tag "component-tree"]

/-! ## Well-nested vendor elements -/

/-- What the start tag of an element carries: prefix, language in scope and
attributes, and whether the element is written self-closed when it has no
content. -/
structure element_head where
  nspace : Option String
  lang : Option String
  attrs : List (String × String)
  self_closed : Bool
  deriving DecidableEq, Repr

def element_head.xml (h : element_head) : xml_metadata :=
  { lang := h.lang, nspace := h.nspace, URI := none }

/-- The "value" attribute of the start tag. -/
def element_head.value (h : element_head) : Option String :=
  attribute_of h.attrs ATTR_VALUE_STR

/-- The end of an element with the given content: its end tag, or nothing for
a self-closed element without content. -/
def closing_nodes (name : String) (h : element_head) (content : List xmlNode) :
    List xmlNode :=
  if h.self_closed && content.isEmpty then [] else [xml_end name h.nspace h.lang]

/-- The nodes of an element with the given content: its start tag, the
content, its end tag; the start tag alone for a self-closed element without
content. -/
def enclosed_nodes (name : String) (h : element_head) (content : List xmlNode) :
    List xmlNode :=
  xml_element name h.nspace h.lang h.attrs (h.self_closed && content.isEmpty)
    :: (content ++ closing_nodes name h content)

/-- A `language` element of a document: its start tag, the nodes inside it,
and the nodes between its end and the next element of the tree (white space,
comments, other elements). -/
structure language_element where
  head : element_head
  inner : List xmlNode
  after : List xmlNode
  deriving DecidableEq, Repr

/-- An `edition` element of a document, with the `language` elements directly
under it. -/
structure edition_element where
  head : element_head
  before : List xmlNode
  languages : List language_element
  after : List xmlNode
  deriving DecidableEq, Repr

/-- An `update` element of a document, with the `edition` elements directly
under it. -/
structure update_element where
  head : element_head
  before : List xmlNode
  editions : List edition_element
  after : List xmlNode
  deriving DecidableEq, Repr

/-- A `version` element of a document, with the `update` elements directly
under it. -/
structure version_element where
  head : element_head
  before : List xmlNode
  updates : List update_element
  after : List xmlNode
  deriving DecidableEq, Repr

/-- A `product` element of a document, with the `version` elements directly
under it. -/
structure product_element where
  head : element_head
  before : List xmlNode
  versions : List version_element
  after : List xmlNode
  deriving DecidableEq, Repr

/-- A well-nested `vendor` element of a document: products directly under the
vendor, versions under products, updates under versions, editions under
updates, languages under editions, and other nodes (white space, comments,
titles, other elements) between them. -/
structure vendor_element where
  head : element_head
  before : List xmlNode
  products : List product_element
  deriving DecidableEq, Repr

def language_element.nodes (l : language_element) : List xmlNode :=
  enclosed_nodes TAG_LANGUAGE_STR l.head l.inner ++ l.after

def edition_element.nodes (e : edition_element) : List xmlNode :=
  enclosed_nodes TAG_EDITION_STR e.head
    (e.before ++ (e.languages.map language_element.nodes).flatten) ++ e.after

def update_element.nodes (u : update_element) : List xmlNode :=
  enclosed_nodes TAG_UPDATE_STR u.head
    (u.before ++ (u.editions.map edition_element.nodes).flatten) ++ u.after

def version_element.nodes (v : version_element) : List xmlNode :=
  enclosed_nodes TAG_VERSION_STR v.head
    (v.before ++ (v.updates.map update_element.nodes).flatten) ++ v.after

def product_element.nodes (p : product_element) : List xmlNode :=
  enclosed_nodes TAG_PRODUCT_STR p.head
    (p.before ++ (p.versions.map version_element.nodes).flatten) ++ p.after

/-- The nodes between the start tag and the end tag of the vendor. -/
def vendor_element.content (v : vendor_element) : List xmlNode :=
  v.before ++ (v.products.map product_element.nodes).flatten

def vendor_element.nodes (v : vendor_element) : List xmlNode :=
  enclosed_nodes TAG_VENDOR_STR v.head v.content

/-- The node is not named like an element of the vendor tree. -/
def tree_filler (n : xmlNode) : Bool :=
  n.localName != TAG_VENDOR_STR && n.localName != TAG_PRODUCT_STR
    && n.localName != TAG_VERSION_STR && n.localName != TAG_UPDATE_STR
    && n.localName != TAG_EDITION_STR && n.localName != TAG_LANGUAGE_STR

/-- The nodes of a `language` element other than its tags are not named like
an element of the vendor tree. -/
def language_element.well_nested (l : language_element) : Bool :=
  l.inner.all tree_filler && l.after.all tree_filler

/-- Under an `edition` element only its `language` elements are named like an
element of the vendor tree. -/
def edition_element.well_nested (e : edition_element) : Bool :=
  e.before.all tree_filler && e.languages.all language_element.well_nested
    && e.after.all tree_filler

def update_element.well_nested (u : update_element) : Bool :=
  u.before.all tree_filler && u.editions.all edition_element.well_nested
    && u.after.all tree_filler

def version_element.well_nested (v : version_element) : Bool :=
  v.before.all tree_filler && v.updates.all update_element.well_nested
    && v.after.all tree_filler

def product_element.well_nested (p : product_element) : Bool :=
  p.before.all tree_filler && p.versions.all version_element.well_nested
    && p.after.all tree_filler

/-- The vendor element is well-nested: the only nodes named like an element of
the vendor tree are the tags of the vendor, of the products directly under it,
of the versions under the products, of the updates under the versions, of the
editions under the updates and of the languages under the editions. -/
def vendor_element.well_nested (v : vendor_element) : Bool :=
  v.before.all tree_filler && v.products.all product_element.well_nested

/-- The language that mirrors a `language` element: its prefix, language and
"value" attribute. -/
def language_element.tree (l : language_element) : cpe_language :=
  { xml := l.head.xml, value := l.head.value }

/-- The edition that mirrors an `edition` element, with the languages of the
elements under it, in document order. -/
def edition_element.tree (e : edition_element) : cpe_edition :=
  { xml := e.head.xml, value := e.head.value,
    languages := e.languages.map language_element.tree }

def update_element.tree (u : update_element) : cpe_update :=
  { xml := u.head.xml, value := u.head.value,
    editions := u.editions.map edition_element.tree }

def version_element.tree (v : version_element) : cpe_version :=
  { xml := v.head.xml, value := v.head.value,
    updates := v.updates.map update_element.tree }

/-- The "part" attribute of a product element. -/
def product_element.part_code (p : product_element) : Option String :=
  attribute_of p.head.attrs ATTR_PART_STR

/-- The product that mirrors a `product` element; its part classification is
the one its "part" attribute stands for. -/
def product_element.tree (p : product_element) : cpe_product :=
  { xml := p.head.xml, value := p.head.value,
    part := (cpe_product_parse_part p.part_code).getD CPE_PART_NONE,
    versions := p.versions.map version_element.tree }

/-- The level of a node in the vendor tree: 5 for a product start tag down to
1 for a language start tag, 0 for any other node. -/
def tree_level (n : xmlNode) : Nat :=
  if n.starts TAG_PRODUCT_STR then 5
  else if n.starts TAG_VERSION_STR then 4
  else if n.starts TAG_UPDATE_STR then 3
  else if n.starts TAG_EDITION_STR then 2
  else if n.starts TAG_LANGUAGE_STR then 1
  else 0

/-- A node of the content of a vendor at a level up to `k`: not named
"vendor". -/
def node_within (k : Nat) (n : xmlNode) : Prop :=
  tree_level n ≤ k ∧ n.localName ≠ TAG_VENDOR_STR

/-- A vendor element with a title, white space, and two products: the first
with a version that has an update, an edition and two languages, the second
self-closed. -/
def nested_vendor_element : vendor_element :=
  { head := { nspace := none, lang := none, attrs := [("value", "v")], self_closed := false },
    before := [text_node "\n", start_tag "title" [], text_node "V", end_tag "title"],
    products :=
      [{ head := { nspace := none, lang := none, attrs := [("value", "p1"), ("part", "a")],
                   self_closed := false },
         before := [text_node "\n"],
         versions :=
           [{ head := { nspace := none, lang := none, attrs := [("value", "1.0")],
                        self_closed := false },
              before := [],
              updates :=
                [{ head := { nspace := none, lang := none, attrs := [("value", "sp1")],
                             self_closed := false },
                   before := [],
                   editions :=
                     [{ head := { nspace := none, lang := none, attrs := [("value", "pro")],
                                  self_closed := false },
                        before := [],
                        languages :=
                          [{ head := { nspace := none, lang := some "en",
                                       attrs := [("value", "english"), ("xml:lang", "en")],
                                       self_closed := true },
                             inner := [], after := [text_node " "] },
                           { head := { nspace := none, lang := some "fr",
                                       attrs := [("value", "french"), ("xml:lang", "fr")],
                                       self_closed := true },
                             inner := [], after := [] }],
                        after := [] }],
                   after := [] }],
              after := [text_node "\n"] }],
         after := [text_node "\n"] },
       { head := { nspace := none, lang := none, attrs := [("value", "p2")],
                   self_closed := true },
         before := [], versions := [], after := [text_node "\n"] }] }

/-- A vendor element whose product has the part code "x". -/
def bad_part_vendor_element : vendor_element :=
  { head := { nspace := none, lang := none, attrs := [("value", "v")], self_closed := false },
    before := [],
    products :=
      [{ head := { nspace := none, lang := none, attrs := [("value", "p"), ("part", "x")],
                   self_closed := true },
         before := [], versions := [], after := [] }] }

/-- From the given nodes on, nothing is attached to a node of a level up to
`k` that comes before them (1 for an edition, 2 for an update, 3 for a
version, 4 for a product): the next start tag of the tree, if any, is of a
higher level. -/
def quiet (k : Nat) (xs : List xmlNode) : Prop :=
  (1 ≤ k → attached_languages xs = []) ∧ (2 ≤ k → attached_editions xs = [])
    ∧ (3 ≤ k → attached_updates xs = []) ∧ (4 ≤ k → attached_versions xs = [])

/-! ## The walk of `cpe_vendor_parse` -/

/-- The nodes that the loop of `cpe_vendor_parse` works on, given the nodes
after the start tag of the vendor: from the first start tag on, up to the first
node named "vendor". For a vendor element with a child element these are the
nodes of its content from the first child element on. -/
def vendor_walk (rest : List xmlNode) : List xmlNode :=
  (rest.dropWhile (fun n => n.type != XML_READER_TYPE_ELEMENT)).takeWhile
    (fun n => n.localName != TAG_VENDOR_STR)

/-- The nodes from the one that ends the walk of `cpe_vendor_parse` on: the
first node named "vendor" from the first start tag on, and what follows it;
none when the stream ends first. -/
def vendor_walk_end (rest : List xmlNode) : List xmlNode :=
  (rest.dropWhile (fun n => n.type != XML_READER_TYPE_ELEMENT)).dropWhile
    (fun n => n.localName != TAG_VENDOR_STR)

/-! ## Entries that differ in the value of "deprecated" -/

/-- Two attribute lists with the same names in the same order and the same
values, except for the values of the attributes named "deprecated". -/
def same_but_deprecated : List (String × String) → List (String × String) → Bool
  | [], [] => true
  | x :: xs, y :: ys =>
    x.1 == y.1 && (x.1 == ATTR_DEPRECATED_STR || x.2 == y.2) && same_but_deprecated xs ys
  | _, _ => false

/-- Two nodes that differ at most in the value of their "deprecated"
attribute. -/
def xmlNode.same_but_deprecated (n m : xmlNode) : Bool :=
  n.type == m.type && n.localName == m.localName && n.nspace == m.nspace && n.lang == m.lang
    && n.value == m.value && n.isEmpty == m.isEmpty && CpeDict.same_but_deprecated n.attrs m.attrs

/-- The nodes after the start tag of the sample entries below: a title, the
closing tag, and a second entry. -/
def flagged_entry_rest : List xmlNode :=
  [start_tag "title" [], text_node "One", end_tag "title", end_tag "cpe-item",
   empty_tag "cpe-item" [("name", "cpe:/a:b:c:3")], end_tag "cpe-list"]

/-- The start tag of a deprecated entry, with the given value of the
"deprecated" attribute. -/
def flagged_entry_tag (flag : String) : xmlNode :=
  start_tag "cpe-item" [("name", "cpe:/a:b:c:1"), ("deprecated", flag),
    ("deprecated_by", "cpe:/a:b:c:2"), ("deprecation_date", "2010-01-01")]

/-- The start tag of an entry with "deprecated_by" and "deprecation_date" and
without "deprecated". -/
def unflagged_entry_tag : xmlNode :=
  start_tag "cpe-item" [("name", "cpe:/a:b:c:1"), ("deprecated_by", "cpe:/a:b:c:2"),
    ("deprecation_date", "2010-01-01")]

/-! ## Attributes before text -/

/-- In a sequence of writer calls, every attribute of an element is written
before any text of that element: no `WriteAttribute` comes after a
`WriteString` of the same element. The list tells, for each element that is
open, the innermost first, whether text of it has been written. -/
def attributes_first_go : List Bool → List xmlTextWriterCall → Bool
  | _, [] => true
  | stack, StartElementNS _ _ :: cs => attributes_first_go (false :: stack) cs
  | stack, EndElement :: cs => attributes_first_go stack.tail cs
  | _ :: stack, WriteString _ :: cs => attributes_first_go (true :: stack) cs
  | [], WriteString _ :: cs => attributes_first_go [] cs
  | text :: stack, WriteAttribute _ _ :: cs =>
    !text && attributes_first_go (text :: stack) cs
  | [], WriteAttribute _ _ :: cs => attributes_first_go [] cs

def attributes_first (calls : List xmlTextWriterCall) : Bool :=
  attributes_first_go [] calls

/-- The calls write attributes before text whatever elements are open around
them. -/
def attributes_first_inside (calls : List xmlTextWriterCall) : Prop :=
  ∀ stack, attributes_first_go stack calls = true

/-- A reference with an address, a text and a language. -/
def lang_text_reference : cpe_reference :=
  { xml := { lang := some "en", nspace := none, URI := none },
    href := some "http://example.org", content := some "text" }

/-- The cursor on the start tag of
`<reference href="http://example.org" xml:lang="en">text</reference>`. -/
def lang_text_reference_reader : xmlTextReader :=
  { cur := some { type := XML_READER_TYPE_ELEMENT, localName := "reference", nspace := none,
                  lang := some "en",
                  attrs := [("href", "http://example.org"), ("xml:lang", "en")],
                  value := "", isEmpty := false },
    rest := [{ type := XML_READER_TYPE_TEXT, localName := "#text", nspace := none,
               lang := some "en", attrs := [], value := "text", isEmpty := false },
             { type := XML_READER_TYPE_END_ELEMENT, localName := "reference", nspace := none,
               lang := some "en", attrs := [], value := "", isEmpty := false }] }

/-! ## A written document with a vendor without children -/

/-- A dictionary with a generator, an entry and two vendors, the first without
titles and products. -/
def childless_vendor_dict : cpe_dict_model :=
  { xmlns := [{ lang := none, nspace := some "xmlns",
                URI := some "http://cpe.mitre.org/dictionary/2.0" },
              { lang := none, nspace := some "xmlns:meta",
                URI := some "http://scap.nist.gov/schema/cpe-dictionary-metadata/0.2" }],
    xml := xml_metadata_new,
    generator := some { cpe_generator_new with product_name := some "Tool" },
    items := [{ cpe_item_new with
      name := some { uri := "cpe:/a:b:c:1" },
      titles := [{ xml := xml_metadata_new, content := some "One" }] }],
    vendors := [{ cpe_vendor_new with value := some "a" },
                { cpe_vendor_new with
                  value := some "b",
                  products := [{ cpe_product_new with value := some "p" }] }] }

/-! ## Nodes that are no elements, and the order of the attributes -/

/-- The node of a document type declaration (`<!DOCTYPE name ..>`): the cursor
reports the declared name as its local name and no attributes. -/
def doctype_node (name : String) : xmlNode :=
  { type := XML_READER_TYPE_DOCUMENT_TYPE, localName := name, nspace := none, lang := none,
    attrs := [], value := "", isEmpty := false }

/-- The node of a processing instruction (`<?target content?>`): the cursor
reports the target as its local name. -/
def instruction_node (target content : String) : xmlNode :=
  { type := XML_READER_TYPE_PROCESSING_INSTRUCTION, localName := target, nspace := none,
    lang := none, attrs := [], value := content, isEmpty := false }

/-- No attribute of the nodes is a namespace declaration. -/
def plain_nodes (nodes : List xmlNode) : Prop :=
  ∀ n ∈ nodes, ∀ a ∈ n.attrs, is_namespace_declaration a.1 = false

/-- The first node named "cpe-list" that the search of the root can stop on is
the root itself: the first node of the document, of whatever type, and the
start tags before the root have another name. -/
def before_root (pre : List xmlNode) : Prop :=
  (∀ n, pre.head? = some n → n.localName ≠ TAG_CPE_LIST_STR)
    ∧ ∀ n ∈ pre, n.type = XML_READER_TYPE_ELEMENT → n.localName ≠ TAG_CPE_LIST_STR

/-! ## Sample documents for the search of the root and for the vendor walk -/

/-- The cursor on the start tag of a vendor whose first child is a version,
before any product, followed by a product with the part code "x". -/
def version_first_vendor_state : parser_state :=
  state_at (start_tag "vendor" [("value", "v")])
    [empty_tag "version" [("value", "1.0")],
     empty_tag "product" [("value", "p"), ("part", "x")],
     end_tag "vendor", end_tag "component-tree", end_tag "cpe-list"]

/-- The document `<cpe-list><component-tree><vendor value="v"><version
value="1.0"/><product value="p" part="x"/></vendor></component-tree>
</cpe-list>`. -/
def version_first_document : List xmlNode :=
  [start_tag "cpe-list" [], start_tag "component-tree" [],
   start_tag "vendor" [("value", "v")],
   empty_tag "version" [("value", "1.0")],
   empty_tag "product" [("value", "p"), ("part", "x")],
   end_tag "vendor", end_tag "component-tree", end_tag "cpe-list"]

/-- The document `<!DOCTYPE cpe-list><foo/>`: a document type declaration that
names "cpe-list" and a root element `foo`. -/
def doctype_document : List xmlNode :=
  [doctype_node "cpe-list", empty_tag "foo" []]

/-- The document `<?cpe-list?><foo/>`: a processing instruction with the
target "cpe-list" and a root element `foo`. -/
def instruction_document : List xmlNode :=
  [instruction_node "cpe-list" "", empty_tag "foo" []]

/-- The document `<!DOCTYPE cpe-list><cpe-list xmlns="http://cpe.mitre.org/
dictionary/2.0"><component-tree/></cpe-list>`: a document type declaration
that names the root, and a root with one namespace declaration. -/
def doctype_root_document : List xmlNode :=
  [doctype_node "cpe-list",
   start_tag "cpe-list" [("xmlns", "http://cpe.mitre.org/dictionary/2.0")],
   empty_tag "component-tree" [], end_tag "cpe-list"]

/-- The document that `cpe_dict_export` writes for `childless_vendor_dict`, as
the cursor reads it. -/
def childless_vendor_written : List xmlNode :=
  [start_tag "cpe-list" [("xmlns", "http://cpe.mitre.org/dictionary/2.0"),
     ("xmlns:meta", "http://scap.nist.gov/schema/cpe-dictionary-metadata/0.2")],
   start_tag "generator" [],
   start_tag "product_name" [], text_node "Tool", end_tag "product_name",
   end_tag "generator",
   start_tag "cpe-item" [("name", "cpe:/a:b:c:1")],
   start_tag "title" [], text_node "One", end_tag "title",
   end_tag "cpe-item",
   xml_element "component-tree" (some "meta") none [] false,
   empty_tag "vendor" [("value", "a")],
   start_tag "vendor" [("value", "b")], empty_tag "product" [("value", "p")],
   end_tag "vendor",
   xml_end "component-tree" (some "meta") none,
   end_tag "cpe-list"]

/-- The document that `cpe_dict_export` writes for `untrimmed_dict`, as the
cursor reads it. -/
def untrimmed_written : List xmlNode :=
  [start_tag "cpe-list"
     [("xmlns:meta", "http://scap.nist.gov/schema/cpe-dictionary-metadata/0.2")],
   start_tag "cpe-item" [("name", "cpe:/a:b:c:1")],
   start_tag "check" [("system", "s")], text_node " id ", end_tag "check",
   end_tag "cpe-item",
   xml_element "component-tree" (some "meta") none [] true,
   end_tag "cpe-list"]

/-! ## The fields that the serializer writes -/

/-- Something that a call on the writer puts into the document for the model:
the start of an element, an attribute with its content (none when the call
gives no content, which leaves the attribute empty), or a text. -/
inductive written_field where
  | element (name : String)
  | attribute (name : String) (content : Option String)
  | text (content : String)
  deriving DecidableEq, Repr

/-- What a call on the writer puts into the document; an attribute call without
a name is refused by the writer and writes nothing. -/
def xmlTextWriterCall.written : xmlTextWriterCall → List written_field
  | StartElementNS _ name => [.element name]
  | WriteAttribute (some name) content => [.attribute name content]
  | WriteAttribute none _ => []
  | WriteString content => [.text content]
  | EndElement => []

/-- The elements, attributes and texts that a sequence of calls writes, in the
order of the calls. -/
def written_fields : List xmlTextWriterCall → List written_field
  | [] => []
  | call :: calls => call.written ++ written_fields calls

/-- Following the specification ("every optional field is omitted from output,
never emitted empty"): what stands in the output for an optional field that is
written as an attribute: the attribute with the text of the field when the
field is present, nothing when it is absent. -/
def present_attribute (name : String) (field : Option String) : List written_field :=
  match field with
  | some text => [.attribute name (some text)]
  | none => []

/-- What stands in the output for an optional field that is written as the
text of its element: the text when the field is present, nothing otherwise. -/
def present_text (field : Option String) : List written_field :=
  match field with
  | some text => [.text text]
  | none => []

/-- What stands in the output for an optional field that is written as a child
element with a text: the element and the text when the field is present. -/
def present_element (name : String) (field : Option String) : List written_field :=
  match field with
  | some text => [.element name, .text text]
  | none => []

/-- The fields of a title or note that are present, under the element `name`. -/
def oscap_title.present_fields (name : String) (t : oscap_title) : List written_field :=
  .element name :: (present_attribute ATTR_XML_LANG_STR t.xml.lang ++ present_text t.content)

def cpe_check.present_fields (c : cpe_check) : List written_field :=
  .element TAG_CHECK_STR
    :: (present_attribute ATTR_SYSTEM_STR c.system ++ present_attribute ATTR_HREF_STR c.href
        ++ present_text c.identifier)

def cpe_reference.present_fields (r : cpe_reference) : List written_field :=
  .element TAG_REFERENCE_STR
    :: (present_attribute ATTR_HREF_STR r.href ++ present_text r.content
        ++ present_attribute ATTR_XML_LANG_STR r.xml.lang)

def cpe_item_metadata.present_fields (m : cpe_item_metadata) : List written_field :=
  .element TAG_ITEM_METADATA_STR
    :: (present_attribute ATTR_MODIFICATION_DATE_STR m.modification_date
        ++ present_attribute ATTR_STATUS_STR m.status
        ++ present_attribute ATTR_NVD_ID_STR m.nvd_id
        ++ present_attribute ATTR_DEP_BY_NVDID_STR m.deprecated_by_nvd_id)

/-- The fields of an entry that are present: its name, its deprecation (the
flag and the identifier stand for the deprecated identifier, the date for the
deprecation date), its titles, its metadata block when it has one, its
references and its notes, each list under its wrapper when it is not empty,
and its checks. -/
def cpe_item.present_fields (codec : cpe_codec) (item : cpe_item) : List written_field :=
  .element TAG_CPE_ITEM_STR
    :: (present_attribute ATTR_NAME_STR (item.name.map codec.cpe_name_get_uri)
        ++ present_attribute ATTR_DEPRECATED_STR (item.deprecated.map (fun _ => VAL_TRUE_STR))
        ++ present_attribute ATTR_DEPRECATION_DATE_STR item.deprecation_date
        ++ present_attribute ATTR_DEPRECATED_BY_STR
            (item.deprecated.map codec.cpe_name_get_uri)
        ++ (item.titles.map (oscap_title.present_fields TAG_TITLE_STR)).flatten
        ++ (match item.metadata with
            | some m => m.present_fields
            | none => [])
        ++ (if item.references = [] then []
            else .element TAG_REFERENCES_STR
              :: (item.references.map cpe_reference.present_fields).flatten)
        ++ (if item.notes = [] then []
            else .element TAG_NOTES_STR
              :: (item.notes.map (oscap_title.present_fields TAG_NOTE_STR)).flatten)
        ++ (item.checks.map cpe_check.present_fields).flatten)

def cpe_generator.present_fields (g : cpe_generator) : List written_field :=
  .element TAG_GENERATOR_STR
    :: (present_element TAG_PRODUCT_NAME_STR g.product_name
        ++ present_element TAG_PRODUCT_VERSION_STR g.product_version
        ++ present_element TAG_SCHEMA_VERSION_STR g.schema_version
        ++ present_element TAG_TIMESTAMP_STR g.timestamp)

def cpe_language.present_fields (l : cpe_language) : List written_field :=
  .element TAG_LANGUAGE_STR
    :: (present_attribute ATTR_VALUE_STR l.value
        ++ present_attribute ATTR_XML_LANG_STR l.xml.lang)

def cpe_edition.present_fields (e : cpe_edition) : List written_field :=
  .element TAG_EDITION_STR
    :: (present_attribute ATTR_VALUE_STR e.value
        ++ (e.languages.map cpe_language.present_fields).flatten)

def cpe_update.present_fields (u : cpe_update) : List written_field :=
  .element TAG_UPDATE_STR
    :: (present_attribute ATTR_VALUE_STR u.value
        ++ (u.editions.map cpe_edition.present_fields).flatten)

def cpe_version.present_fields (v : cpe_version) : List written_field :=
  .element TAG_VERSION_STR
    :: (present_attribute ATTR_VALUE_STR v.value
        ++ (v.updates.map cpe_update.present_fields).flatten)

/-- The fields of a product that are present; the part classification is
present when it is not `CPE_PART_NONE` and stands as its letter. -/
def cpe_product.present_fields (p : cpe_product) : List written_field :=
  .element TAG_PRODUCT_STR
    :: (present_attribute ATTR_VALUE_STR p.value
        ++ present_attribute ATTR_PART_STR (PART_TO_CHAR p.part)
        ++ (p.versions.map cpe_version.present_fields).flatten)

def cpe_vendor.present_fields (v : cpe_vendor) : List written_field :=
  .element TAG_VENDOR_STR
    :: (present_attribute ATTR_VALUE_STR v.value
        ++ (v.titles.map (oscap_title.present_fields TAG_TITLE_STR)).flatten
        ++ (v.products.map cpe_product.present_fields).flatten)

/-- A stored namespace pair stands in the output when its name and its value
are both present. -/
def xml_metadata.present_fields (xml : xml_metadata) : List written_field :=
  match xml.nspace, xml.URI with
  | some name, some uri => [.attribute name (some uri)]
  | _, _ => []

/-- The fields of a dictionary that are present, in the order of section 4.5
of the specification: the root with the namespace pairs, the generator when
there is one, the entries, the grouping wrapper with the vendors. -/
def cpe_dict_model.present_fields (codec : cpe_codec) (dict : cpe_dict_model) :
    List written_field :=
  .element TAG_CPE_LIST_STR
    :: ((dict.xmlns.map xml_metadata.present_fields).flatten
        ++ (match dict.generator with
            | some g => g.present_fields
            | none => [])
        ++ (dict.items.map (cpe_item.present_fields codec)).flatten
        ++ .element TAG_COMPONENT_TREE_STR
          :: (dict.vendors.map cpe_vendor.present_fields).flatten)

/-- An entry with a deprecation date and no deprecated identifier (the date
has a public setter). -/
def dated_item : cpe_item :=
  { cpe_item_new with
    name := some { uri := "cpe:/a:b:c:1" }, deprecation_date := some "2010-01-01" }

/-! ## What the start tags of a document stand for -/

/-- The title or note that a start tag stands for, read with the nodes after
it: its prefix, the language in scope, and its text, trimmed. -/
def title_of (n : xmlNode) (rest : List xmlNode) : oscap_title :=
  { xml := { lang := n.lang, nspace := n.nspace, URI := none },
    content := oscap_trim (xmlTextReaderReadString { cur := some n, rest := rest }) }

/-- The check that a `check` start tag stands for, read with the nodes after it. -/
def check_of (n : xmlNode) (rest : List xmlNode) : cpe_check :=
  { xml := { lang := n.lang, nspace := n.nspace, URI := none },
    system := n.attribute ATTR_SYSTEM_STR, href := n.attribute ATTR_HREF_STR,
    identifier := oscap_trim (xmlTextReaderReadString { cur := some n, rest := rest }) }

/-- The reference that a `reference` start tag stands for, read with the nodes
after it. -/
def reference_of (n : xmlNode) (rest : List xmlNode) : cpe_reference :=
  { xml := { lang := n.lang, nspace := n.nspace, URI := none },
    href := n.attribute ATTR_HREF_STR,
    content := oscap_trim (xmlTextReaderReadString { cur := some n, rest := rest }) }

/-- The titles that the start tags named `name` among the first nodes of a
stream stand for, in document order, each read with the nodes after it: the
nodes are `children`, with `tail` after them. -/
def leading_titles (name : String) : List xmlNode → List xmlNode → List oscap_title
  | [], _ => []
  | n :: children, tail =>
    if n.starts name then title_of n (children ++ tail) :: leading_titles name children tail
    else leading_titles name children tail

/-- The checks that the `check` start tags among the first nodes of a stream
stand for, in document order. -/
def leading_checks : List xmlNode → List xmlNode → List cpe_check
  | [], _ => []
  | n :: children, tail =>
    if n.starts TAG_CHECK_STR then check_of n (children ++ tail) :: leading_checks children tail
    else leading_checks children tail

/-- The references that the `reference` start tags among the first nodes of a
stream stand for, in document order. -/
def leading_references : List xmlNode → List xmlNode → List cpe_reference
  | [], _ => []
  | n :: children, tail =>
    if n.starts TAG_REFERENCE_STR then
      reference_of n (children ++ tail) :: leading_references children tail
    else leading_references children tail

/-- The entry that the nodes read as the children of a `cpe-item` stand for,
from what its start tag gave (`held`): the titles, notes, checks and
references of the start tags among them, in document order, and the metadata
block of the last `item-metadata`. -/
def entry_of (held : cpe_item) (children tail : List xmlNode) : cpe_item :=
  { held with
    titles := held.titles ++ leading_titles TAG_TITLE_STR children tail,
    notes := held.notes ++ leading_titles TAG_NOTE_STR children tail,
    checks := held.checks ++ leading_checks children tail,
    references := held.references ++ leading_references children tail,
    metadata := leading_metadata held.metadata children }

/-- The start tag is one of the four fields of a generator. -/
def generator_field (n : xmlNode) : Bool :=
  n.starts TAG_PRODUCT_NAME_STR || n.starts TAG_PRODUCT_VERSION_STR
    || n.starts TAG_SCHEMA_VERSION_STR || n.starts TAG_TIMESTAMP_STR

/-- The generator that the nodes between the tags of a `generator` element
stand for, from the one held before them: each field is the text of the last
start tag with its name, read with the nodes after it. -/
def leading_generator (held : cpe_generator) : List xmlNode → List xmlNode → cpe_generator
  | [], _ => held
  | n :: content, tail =>
    if n.starts TAG_PRODUCT_NAME_STR then
      leading_generator
        { held with product_name :=
            xmlTextReaderReadString { cur := some n, rest := content ++ tail } } content tail
    else if n.starts TAG_PRODUCT_VERSION_STR then
      leading_generator
        { held with product_version :=
            xmlTextReaderReadString { cur := some n, rest := content ++ tail } } content tail
    else if n.starts TAG_SCHEMA_VERSION_STR then
      leading_generator
        { held with schema_version :=
            xmlTextReaderReadString { cur := some n, rest := content ++ tail } } content tail
    else if n.starts TAG_TIMESTAMP_STR then
      leading_generator
        { held with timestamp :=
            xmlTextReaderReadString { cur := some n, rest := content ++ tail } } content tail
    else leading_generator held content tail

/-- The diagnostics on the content of a generator: one for each start tag that
is none of the four fields. -/
def generator_errors (content : List xmlNode) : List String :=
  (content.filter (fun n => decide (n.type = XML_READER_TYPE_ELEMENT) && !generator_field n)).map
    (fun _ => ERR_UNKNOWN_GENERATOR_ELEMENT)

/-- The generator that a `generator` element stands for: the prefix and the
language of its start tag, and the fields of its content. -/
def generator_of (start : xmlNode) (content tail : List xmlNode) : cpe_generator :=
  leading_generator
    { cpe_generator_new with xml := { lang := start.lang, nspace := start.nspace, URI := none } }
    content tail

/-- The vendor that a `vendor` element stands for: the prefix and the "value"
of its start tag, the titles of the `title` start tags of its content, and
the tree of its products, every node attached to the latest node of its
parent level. -/
def vendor_of (start : xmlNode) (content tail : List xmlNode) : cpe_vendor :=
  { xml := { lang := none, nspace := start.nspace, URI := none },
    value := start.attribute ATTR_VALUE_STR,
    titles := leading_titles TAG_TITLE_STR content tail,
    products := attached_products content }

/-! ## The nodes under the root, part by part -/

/-- A part of the nodes that follow the start tag of the root, as the main loop
of `cpe_dict_model_parse` goes through them: a `generator` element (start tag,
content, end tag), a `cpe-item` start tag with the nodes read as its
children (up to the next start tag that is no child of an entry), a `vendor`
element (start tag, content, end tag), the start tag of any other element,
or a node that is no start tag (white space, a comment, a text, an end tag). -/
inductive root_part where
  | generator (start : xmlNode) (content : List xmlNode) (stop : xmlNode)
  | entry (start : xmlNode) (children : List xmlNode)
  | vendor (start : xmlNode) (content : List xmlNode) (stop : xmlNode)
  | element (start : xmlNode)
  | other (n : xmlNode)
  deriving DecidableEq, Repr

def root_part.nodes : root_part → List xmlNode
  | .generator start content stop => start :: content ++ [stop]
  | .entry start children => start :: children
  | .vendor start content stop => start :: content ++ [stop]
  | .element start => [start]
  | .other n => [n]

/-- The nodes of a sequence of parts. -/
def parts_nodes (parts : List root_part) : List xmlNode :=
  (parts.map root_part.nodes).flatten

/-- A node that may stand among the children of an entry: a node that is no
start tag, or a start tag named like a child of an entry. -/
def entry_node (n : xmlNode) : Bool :=
  n.type != XML_READER_TYPE_ELEMENT || item_child_tag n.localName

/-- A node that the main loop passes without reading an element of the
dictionary: no start tag named "generator", "cpe-item" or "vendor". -/
def passed_node (n : xmlNode) : Bool :=
  n.type != XML_READER_TYPE_ELEMENT
    || (n.localName != TAG_GENERATOR_STR && n.localName != TAG_CPE_ITEM_STR
        && n.localName != TAG_VENDOR_STR)

/-- The part is put together as its kind requires. A generator: a `generator`
start tag, a content with a start tag and without a node named "generator",
then a node named "generator" that is no start tag (the end tag). An entry: a
`cpe-item` start tag, then nodes that may stand among the children of an
entry. A vendor: a `vendor` start tag, a content with a start tag, without a
node named "vendor" and without a start tag named "generator" or "cpe-item",
in which no version, update, edition or language comes before its parent
level up to the first product with a rejected part code, then a node named
"vendor" that is no start tag (the end tag). Another element: a start tag
that is not named "generator", "cpe-item" or "vendor". -/
def root_part.sound : root_part → Bool
  | .generator start content stop =>
    start.starts TAG_GENERATOR_STR
      && content.any (fun n => decide (n.type = XML_READER_TYPE_ELEMENT))
      && content.all (fun n => n.localName != TAG_GENERATOR_STR)
      && stop.localName == TAG_GENERATOR_STR && stop.type != XML_READER_TYPE_ELEMENT
  | .entry start children => start.starts TAG_CPE_ITEM_STR && children.all entry_node
  | .vendor start content stop =>
    start.starts TAG_VENDOR_STR
      && content.any (fun n => decide (n.type = XML_READER_TYPE_ELEMENT))
      && content.all (fun n => n.localName != TAG_VENDOR_STR)
      && content.all passed_node
      && levels_ordered false false false false (content.takeWhile product_ok)
      && stop.localName == TAG_VENDOR_STR && stop.type != XML_READER_TYPE_ELEMENT
  | .element start =>
    decide (start.type = XML_READER_TYPE_ELEMENT) && start.localName != TAG_GENERATOR_STR
      && start.localName != TAG_CPE_ITEM_STR && start.localName != TAG_VENDOR_STR
  | .other n => n.type != XML_READER_TYPE_ELEMENT

/-- The parser drops the part: an entry whose start tag `cpe_item_parse`
refuses (incomplete deprecation) or which has an `item-metadata` without
`modification-date` among its children, a vendor which has a product with a
rejected part code. -/
def root_part.dropped (codec : cpe_codec) : root_part → Bool
  | .entry start children =>
    (cpe_item_parse_attrs codec { cur := some start, rest := [] }).isNone
      || !children.all item_child_ok
  | .vendor _ content _ => !content.all product_ok
  | _ => false

/-- What the main loop makes of a part, with the nodes `tail` after it: the
generator, the entry or the vendor that the part stands for is put into the
dictionary, unless the parser drops the part. -/
def root_part.add (codec : cpe_codec) (tail : List xmlNode) (ret : cpe_dict_model) :
    root_part → cpe_dict_model
  | .generator start content stop =>
    { ret with generator := some (generator_of start content (stop :: tail)) }
  | .entry start children =>
    if (root_part.entry start children).dropped codec then ret
    else
      match cpe_item_parse_attrs codec { cur := some start, rest := [] } with
      | some held => { ret with items := ret.items ++ [entry_of held children tail] }
      | none => ret
  | .vendor start content stop =>
    if (root_part.vendor start content stop).dropped codec then ret
    else { ret with vendors := ret.vendors ++ [vendor_of start content (stop :: tail)] }
  | .element _ => ret
  | .other _ => ret

/-- The nodes of a dropped part that are left to the main loop: for an entry
whose start tag is refused, its children; for an entry with an `item-metadata`
without date, the nodes after it; for a vendor, the nodes after the product
with the rejected part code. -/
def root_part.left (codec : cpe_codec) : root_part → List xmlNode
  | .entry start children =>
    if (cpe_item_parse_attrs codec { cur := some start, rest := [] }).isNone then children
    else (children.dropWhile item_child_ok).drop 1
  | .vendor _ content stop => (content.dropWhile product_ok).drop 1 ++ [stop]
  | _ => []

/-- The diagnostics that the main loop and the parsers it calls record on a
part: on a generator, one for each start tag of its content that is no field;
on another element, one unless it is named "component-tree"; on a dropped
entry or vendor, one for each start tag left to the main loop. -/
def root_part.errors (codec : cpe_codec) : root_part → List String
  | .generator _ content _ => generator_errors content
  | .entry start children =>
    if (root_part.entry start children).dropped codec then
      passed_errors ((root_part.entry start children).left codec)
    else []
  | .vendor start content stop =>
    if (root_part.vendor start content stop).dropped codec then
      passed_errors ((root_part.vendor start content stop).left codec)
    else []
  | .element start => if start.localName = TAG_COMPONENT_TREE_STR then [] else [ERR_UNKNOWN_ELEMENT]
  | .other _ => []

/-- The part is valid content of a dictionary: put together as its kind
requires, not dropped by the parser, and without a diagnostic (a generator
with no other start tags than its fields, an entry, a vendor, the start tag
of a `component-tree`, or a node that is no start tag). -/
def root_part.valid (codec : cpe_codec) (p : root_part) : Bool :=
  p.sound && !p.dropped codec && (p.errors codec).isEmpty

/-- The entry that a part puts into the dictionary, read with the nodes `tail`
after the part: the one a `cpe-item` part stands for unless the parser drops
it; nothing for the other parts. -/
def root_part.items (codec : cpe_codec) (tail : List xmlNode) : root_part → List cpe_item
  | .entry start children =>
    if (root_part.entry start children).dropped codec then []
    else
      match cpe_item_parse_attrs codec { cur := some start, rest := [] } with
      | some held => [entry_of held children tail]
      | none => []
  | _ => []

/-- The vendor that a part puts into the dictionary, read with the nodes
`tail` after the part. -/
def root_part.vendors (codec : cpe_codec) (tail : List xmlNode) : root_part → List cpe_vendor
  | .vendor start content stop =>
    if (root_part.vendor start content stop).dropped codec then []
    else [vendor_of start content (stop :: tail)]
  | _ => []

/-- White space between two tags. -/
def white_node : xmlNode :=
  { type := XML_READER_TYPE_WHITESPACE, localName := "#text", nspace := none, lang := none,
    attrs := [], value := "\n  ", isEmpty := false }

/-- A comment. -/
def comment_node (content : String) : xmlNode :=
  { type := XML_READER_TYPE_COMMENT, localName := "#comment", nspace := none, lang := none,
    attrs := [], value := content, isEmpty := false }

/-- A node that is white space or a comment, as the cursor reports them (with
the local names "#text" and "#comment"). -/
def xmlNode.insignificant (n : xmlNode) : Bool :=
  (n.type == XML_READER_TYPE_WHITESPACE && n.localName == "#text")
    || (n.type == XML_READER_TYPE_COMMENT && n.localName == "#comment")

/-- The nodes of a document without its white space and its comments. -/
def unspaced (nodes : List xmlNode) : List xmlNode :=
  nodes.filter (fun n => !n.insignificant)

/-- The names of the elements whose text the parser reads: the titles, notes,
checks and references, and the four fields of a generator. -/
def text_element_name (name : String) : Bool :=
  name == TAG_TITLE_STR || name == TAG_NOTE_STR || name == TAG_CHECK_STR
    || name == TAG_REFERENCE_STR || name == TAG_PRODUCT_NAME_STR
    || name == TAG_PRODUCT_VERSION_STR || name == TAG_SCHEMA_VERSION_STR
    || name == TAG_TIMESTAMP_STR

/-- The nodes begin with the content and the end tag of an element with at most
a text: an end tag, or a text and then an end tag. -/
def flat_content : List xmlNode → Bool
  | [] => false
  | m :: rest =>
    decide (m.type = XML_READER_TYPE_END_ELEMENT)
      || ((decide (m.type = XML_READER_TYPE_TEXT) || decide (m.type = XML_READER_TYPE_CDATA))
          && match rest with
             | e :: _ => decide (e.type = XML_READER_TYPE_END_ELEMENT)
             | [] => false)

/-- No white space and no comment stands inside an element whose text the
parser reads: every start tag with such a name, unless it is an empty
element, is directly followed by its end tag, or by a text and then its end
tag. -/
def flat_texts : List xmlNode → Bool
  | [] => true
  | n :: rest =>
    (!(decide (n.type = XML_READER_TYPE_ELEMENT) && !n.isEmpty && text_element_name n.localName)
      || flat_content rest)
    && flat_texts rest

/-- The stream `spaced` is the stream `plain` with white space and comments
between its nodes, none inside an element whose text the parser reads. -/
def spaces (spaced plain : List xmlNode) : Prop :=
  unspaced spaced = plain ∧ flat_texts spaced = true

/-- The stream `spaced` is the stream `plain` with white space and comments
between its nodes, and both begin with the same node. -/
def spaces_at (spaced plain : List xmlNode) : Prop :=
  spaces spaced plain ∧ spaced.head? = plain.head?

/-- The stream is empty or begins with a start tag (as the nodes at the cursor
after `xmlTextReaderNextElement`). -/
def at_start_tag (nodes : List xmlNode) : Prop :=
  ∀ n, nodes.head? = some n → n.type = XML_READER_TYPE_ELEMENT

/-! ## The element and attribute structure of a document and of what is written -/

/-- An item of the element and attribute structure of a document: the start
of an element with its prefix, its name and its attributes, a text, or the
end of an element. -/
inductive structure_item where
  | start (nspace : Option String) (name : String) (attrs : List (String × String))
  | text (content : String)
  | stop
  deriving DecidableEq, Repr

/-- The items of a node: a start tag gives the start of an element, with its
attributes as the cursor enumerates them, and the end of the element too when
it is an empty element; an end tag gives the end of an element; a text gives
a text; white space, comments and the other nodes give nothing. -/
def node_structure (n : xmlNode) : List structure_item :=
  match n.type with
  | XML_READER_TYPE_ELEMENT =>
    .start n.nspace n.localName (cursor_attributes n.attrs)
      :: (if n.isEmpty then [.stop] else [])
  | XML_READER_TYPE_END_ELEMENT => [.stop]
  | XML_READER_TYPE_TEXT => [.text n.value]
  | XML_READER_TYPE_CDATA => [.text n.value]
  | _ => []

/-- The element and attribute structure of a document, white space apart. -/
def document_structure (nodes : List xmlNode) : List structure_item :=
  (nodes.map node_structure).flatten

/-- The element and attribute structure that a sequence of writer calls
emits, white space apart: a start tag with the attributes written right after
it, in the order in which the cursor enumerates them; the texts that are not
white space only; the ends of the elements. An attribute written after a
text is refused by the writer and emits nothing. -/
def written_structure : List xmlTextWriterCall → List structure_item
  | [] => []
  | StartElementNS nspace name :: rest =>
    .start nspace name (cursor_attributes (leading_attributes rest)) :: written_structure rest
  | WriteAttribute _ _ :: rest => written_structure rest
  | WriteString content :: rest =>
    (if content.data.all isspace then [] else [.text content]) ++ written_structure rest
  | EndElement :: rest => .stop :: written_structure rest

/-! ## Sample documents of the round trip -/

/-- The document `<cpe-list xmlns:meta=".."><cpe-item name="cpe:/a:b:c:1"><check
system="s">id</check><title>One</title></cpe-item><meta:component-tree/>
</cpe-list>`: the check of the entry stands before its title. -/
def check_first_document : List xmlNode :=
  [start_tag "cpe-list"
     [("xmlns:meta", "http://scap.nist.gov/schema/cpe-dictionary-metadata/0.2")],
   start_tag "cpe-item" [("name", "cpe:/a:b:c:1")],
   start_tag "check" [("system", "s")], text_node "id", end_tag "check",
   start_tag "title" [], text_node "One", end_tag "title",
   end_tag "cpe-item",
   xml_element "component-tree" (some "meta") none [] true,
   end_tag "cpe-list"]

/-- The dictionary that the parser answers on `check_first_document`. -/
def check_first_dict : cpe_dict_model :=
  { cpe_dict_model_new with
    xmlns := [{ lang := none, nspace := some "xmlns:meta",
                URI := some "http://scap.nist.gov/schema/cpe-dictionary-metadata/0.2" }],
    items := [{ cpe_item_new with
      name := some { uri := "cpe:/a:b:c:1" },
      titles := [{ xml := xml_metadata_new, content := some "One" }],
      checks := [{ xml := xml_metadata_new, system := some "s", href := none,
                   identifier := some "id" }] }] }

/-- The document `<cpe-list xmlns:meta=".."><foo/><meta:component-tree/>
</cpe-list>`, with an element `foo` that the parser does not know. -/
def unknown_child_document : List xmlNode :=
  [start_tag "cpe-list"
     [("xmlns:meta", "http://scap.nist.gov/schema/cpe-dictionary-metadata/0.2")],
   empty_tag "foo" [],
   xml_element "component-tree" (some "meta") none [] true,
   end_tag "cpe-list"]

/-- The nodes with white space before every start tag and a comment after
every end tag. -/
def with_space (nodes : List xmlNode) : List xmlNode :=
  (nodes.map (fun n =>
    if n.type = XML_READER_TYPE_ELEMENT then [white_node, n]
    else if n.type = XML_READER_TYPE_END_ELEMENT then [n, comment_node "c", white_node]
    else [n])).flatten

/-- The document that `cpe_dict_export` writes for `sample_dict`, as the cursor
reads it, with white space before every start tag and a comment and white
space after every end tag. -/
def sample_spaced_document : List xmlNode :=
  with_space (document_nodes sample_codec sample_dict.xml.nspace
    (xmlns_attributes sample_dict.xmlns) sample_dict.children)

/-! ## Basic facts on the cursor and on results -/

@[simp] theorem Res.bind_done {α β : Type} (a : α) (f : α → Res β) :
    (Res.done a).bind f = f a := rfl

@[simp] theorem Res.bind_timeout {α β : Type} (f : α → Res β) :
    (Res.timeout : Res α).bind f = Res.timeout := rfl

@[simp] theorem Res.bind_crash {α β : Type} (f : α → Res β) :
    (Res.crash : Res α).bind f = Res.crash := rfl

theorem Res.bind_eq_done {α β : Type} {x : Res α} {f : α → Res β} {b : β}
    (h : x.bind f = Res.done b) : ∃ a, x = Res.done a ∧ f a = Res.done b := by
  cases x with
  | timeout => simp at h
  | crash => simp at h
  | done a => exact ⟨a, rfl, h⟩

/-- What `xmlTextReaderNextElement` does on the nodes not read yet: either no
start tag is left and the cursor is at the end of the stream, or it stops on
the first start tag. -/
theorem xmlTextReaderNextElement_loop_spec (rest : List xmlNode) :
    (xmlTextReaderNextElement_loop rest = (0, { cur := none, rest := [] })
      ∧ ∀ n ∈ rest, n.type ≠ XML_READER_TYPE_ELEMENT)
    ∨ ∃ skipped m ns, rest = skipped ++ m :: ns
        ∧ (∀ n ∈ skipped, n.type ≠ XML_READER_TYPE_ELEMENT)
        ∧ m.type = XML_READER_TYPE_ELEMENT
        ∧ xmlTextReaderNextElement_loop rest = (1, { cur := some m, rest := ns }) := by
  induction rest with
  | nil => left; simp [xmlTextReaderNextElement_loop]
  | cons n ns ih =>
    by_cases hn : n.type = XML_READER_TYPE_ELEMENT
    · right
      exact ⟨[], n, ns, rfl, by simp, hn, by simp [xmlTextReaderNextElement_loop, hn]⟩
    · rcases ih with ⟨h0, hall⟩ | ⟨skipped, m, ms, hrest, hskip, hm, hres⟩
      · left
        refine ⟨by simp [xmlTextReaderNextElement_loop, hn, h0], ?_⟩
        intro x hx
        rcases List.mem_cons.mp hx with rfl | hx
        · exact hn
        · exact hall x hx
      · right
        refine ⟨n :: skipped, m, ms, by simp [hrest], ?_, hm, by
          simp [xmlTextReaderNextElement_loop, hn, hres]⟩
        intro x hx
        rcases List.mem_cons.mp hx with rfl | hx
        · exact hn
        · exact hskip x hx

/-- Skipping over nodes that are not start tags. -/
theorem xmlTextReaderNextElement_loop_skip (skipped rest : List xmlNode)
    (h : ∀ n ∈ skipped, n.type ≠ XML_READER_TYPE_ELEMENT) :
    xmlTextReaderNextElement_loop (skipped ++ rest) = xmlTextReaderNextElement_loop rest := by
  induction skipped with
  | nil => rfl
  | cons n ns ih =>
    have hn : n.type ≠ XML_READER_TYPE_ELEMENT := h n (by simp)
    have hns : ∀ x ∈ ns, x.type ≠ XML_READER_TYPE_ELEMENT := fun x hx => h x (by simp [hx])
    simp [xmlTextReaderNextElement_loop, hn, ih hns]

theorem xmlTextReaderNextElement_loop_element (m : xmlNode) (ns : List xmlNode)
    (hm : m.type = XML_READER_TYPE_ELEMENT) :
    xmlTextReaderNextElement_loop (m :: ns) = (1, { cur := some m, rest := ns }) := by
  simp [xmlTextReaderNextElement_loop, hm]

/-! ## Deprecation attributes of an entry -/

theorem cpe_item_parse_attrs_pair (codec : cpe_codec) (reader : xmlTextReader) (ret : cpe_item)
    (h : cpe_item_parse_attrs codec reader = some ret) :
    (ret.deprecated.isSome ↔ ret.deprecation_date.isSome) := by
  unfold cpe_item_parse_attrs at h
  revert h
  cases xmlTextReaderGetAttribute reader ATTR_NAME_STR <;>
    cases xmlTextReaderGetAttribute reader ATTR_DEPRECATED_STR <;>
    cases (xmlTextReaderGetAttribute reader ATTR_DEPRECATED_BY_STR).bind codec.cpe_name_new <;>
    cases xmlTextReaderGetAttribute reader ATTR_DEPRECATION_DATE_STR <;>
    simp [cpe_item_new] <;> intro h <;> subst h <;> simp

theorem cpe_item_parse_body_keeps (reader : xmlTextReader) (ret : cpe_item) :
    (cpe_item_parse_body reader ret).keeps ret := by
  unfold cpe_item_parse_body
  repeat' split
  all_goals simp [item_step.keeps]

theorem cpe_item_parse_loop_keeps (fuel : Nat) :
    ∀ (st : parser_state) (ret : cpe_item) (st1 : parser_state) (item : cpe_item),
      cpe_item_parse_loop fuel st ret = .done (st1, some item) →
      item.name = ret.name ∧ item.deprecated = ret.deprecated
        ∧ item.deprecation_date = ret.deprecation_date ∧ item.xml = ret.xml := by
  induction fuel with
  | zero => intro st ret st1 item h; simp [cpe_item_parse_loop] at h
  | succ fuel ih =>
    intro st ret st1 item h
    unfold cpe_item_parse_loop at h
    split at h
    · have hk := cpe_item_parse_body_keeps st.reader ret
      split at h
      · next r hb =>
        rw [hb] at hk
        have := ih _ _ _ _ h
        simp only [item_step.keeps] at hk
        exact ⟨this.1.trans hk.1, this.2.1.trans hk.2.1, this.2.2.1.trans hk.2.2.1,
          this.2.2.2.trans hk.2.2.2⟩
      · next r hb =>
        rw [hb] at hk
        have := ih _ _ _ _ h
        simp only [item_step.keeps] at hk
        exact ⟨this.1.trans hk.1, this.2.1.trans hk.2.1, this.2.2.1.trans hk.2.2.1,
          this.2.2.2.trans hk.2.2.2⟩
      · simp at h
      · next r hb =>
        rw [hb] at hk
        simp only [Res.done.injEq, Prod.mk.injEq, Option.some.injEq] at h
        rw [← h.2]
        exact hk
    · simp only [Res.done.injEq, Prod.mk.injEq, Option.some.injEq] at h
      rw [← h.2]
      exact ⟨rfl, rfl, rfl, rfl⟩

theorem cpe_item_parse_pair (codec : cpe_codec) (fuel : Nat) (st st1 : parser_state)
    (item : cpe_item) (h : cpe_item_parse codec fuel st = .done (st1, some item)) :
    (item.deprecated.isSome ↔ item.deprecation_date.isSome) := by
  unfold cpe_item_parse at h
  simp only at h
  split at h
  · split at h
    · simp at h
    · next ret hattrs =>
      have hk := cpe_item_parse_loop_keeps fuel _ _ _ _ h
      rw [hk.2.1, hk.2.2.1]
      exact cpe_item_parse_attrs_pair codec _ _ hattrs
  · simp at h

/-- A property of all entries that `cpe_item_parse` answers holds of all
entries of a dictionary that the main loop answers, when it holds of the
entries the loop starts from. -/
theorem cpe_dict_model_parse_loop_items (codec : cpe_codec) (P : cpe_item → Prop)
    (hP : ∀ fuel st st1 item, cpe_item_parse codec fuel st = .done (st1, some item) → P item)
    (fuel : Nat) :
    ∀ (st : parser_state) (ret : cpe_dict_model) (next_ret : Int) (st1 : parser_state)
      (dict : cpe_dict_model),
      cpe_dict_model_parse_loop codec fuel st ret next_ret = .done (st1, some dict) →
      (∀ item ∈ ret.items, P item) → ∀ item ∈ dict.items, P item := by
  induction fuel with
  | zero => intro st ret next_ret st1 dict h; simp [cpe_dict_model_parse_loop] at h
  | succ fuel ih =>
    intro st ret next_ret st1 dict h hret
    unfold cpe_dict_model_parse_loop at h
    split at h
    · split at h
      · obtain ⟨out, _, h2⟩ := Res.bind_eq_done h
        exact ih _ _ _ _ _ h2 hret
      · split at h
        · obtain ⟨out, h1, h2⟩ := Res.bind_eq_done h
          rcases out with ⟨st2, _ | item⟩
          · exact ih _ _ _ _ _ h2 hret
          · simp only [cpe_dict_model_add_item] at h2
            refine ih _ _ _ _ _ h2 ?_
            intro x hx
            rcases List.mem_append.mp hx with hx | hx
            · exact hret x hx
            · rw [List.mem_singleton.mp hx]
              exact hP _ _ _ _ h1
        · split at h
          · obtain ⟨out, _, h2⟩ := Res.bind_eq_done h
            refine ih _ _ _ _ _ h2 ?_
            cases out.2 <;> exact hret
          · split at h
            · exact ih _ _ _ _ _ h hret
            · split at h
              · exact ih _ _ _ _ _ h hret
              · exact ih _ _ _ _ _ h hret
    · simp only [Res.done.injEq, Prod.mk.injEq, Option.some.injEq] at h
      rw [← h.2]
      exact hret

theorem cpe_dict_model_parse_items (codec : cpe_codec) (P : cpe_item → Prop)
    (hP : ∀ fuel st st1 item, cpe_item_parse codec fuel st = .done (st1, some item) → P item)
    (fuel : Nat) (st st1 : parser_state) (dict : cpe_dict_model)
    (h : cpe_dict_model_parse codec fuel st = .done (st1, some dict)) :
    ∀ item ∈ dict.items, P item := by
  unfold cpe_dict_model_parse at h
  obtain ⟨found, _, h2⟩ := Res.bind_eq_done h
  split at h2
  · exact cpe_dict_model_parse_loop_items codec P hP fuel _ _ _ _ _ h2
      (by simp [cpe_dict_model_new])
  · simp at h2

/-! ## C4, C6 -/

/-- C4. Deprecation pairing, failure side: on a start tag that carries a
"deprecated" attribute but lacks "deprecated_by", or lacks "deprecation_date",
or whose "deprecated_by" text the identifier codec rejects, `cpe_item_parse`
answers no entry (whatever the fuel, as the children are never read). -/
theorem cpe_item_parse_deprecation_incomplete (codec : cpe_codec) (fuel : Nat)
    (st : parser_state) (flag : String)
    (hflag : xmlTextReaderGetAttribute st.reader ATTR_DEPRECATED_STR = some flag)
    (hmiss : xmlTextReaderGetAttribute st.reader ATTR_DEPRECATED_BY_STR = none
      ∨ xmlTextReaderGetAttribute st.reader ATTR_DEPRECATION_DATE_STR = none
      ∨ ∃ text, xmlTextReaderGetAttribute st.reader ATTR_DEPRECATED_BY_STR = some text
          ∧ codec.cpe_name_new text = none) :
    cpe_item_parse codec fuel st = .done (st, none) := by
  have hattrs : cpe_item_parse_attrs codec st.reader = none := by
    unfold cpe_item_parse_attrs
    rcases hmiss with h | h | ⟨text, h, hrej⟩
    · simp [hflag, h]
    · simp only [hflag, h]
      cases (xmlTextReaderGetAttribute st.reader ATTR_DEPRECATED_BY_STR).bind
        codec.cpe_name_new <;> rfl
    · simp [hflag, h, hrej]
  unfold cpe_item_parse
  simp only [hattrs]
  split <;> rfl

theorem cpe_item_parse_deprecation_incomplete_witness :
    xmlTextReaderGetAttribute
        (state_at (start_tag "cpe-item" [("name", "cpe:/a:b:c"), ("deprecated", "true"),
          ("deprecation_date", "2010-01-01")]) [end_tag "cpe-item"]).reader
        ATTR_DEPRECATED_STR = some "true"
    ∧ cpe_item_parse sample_codec 3
        (state_at (start_tag "cpe-item" [("name", "cpe:/a:b:c"), ("deprecated", "true"),
          ("deprecation_date", "2010-01-01")]) [end_tag "cpe-item"])
      = .done (state_at (start_tag "cpe-item" [("name", "cpe:/a:b:c"), ("deprecated", "true"),
          ("deprecation_date", "2010-01-01")]) [end_tag "cpe-item"], none) :=
  ⟨by decide, cpe_item_parse_deprecation_incomplete sample_codec 3 _ "true" (by decide)
    (Or.inl (by decide))⟩

/-- C6. The deprecation pair is all-or-nothing: every entry that
`cpe_item_parse` answers, and every entry of a dictionary that
`cpe_dict_model_parse` answers, has its deprecated identifier present if and
only if its deprecation date is present. -/
theorem deprecation_pair_all_or_nothing (codec : cpe_codec) (fuel : Nat)
    (st st1 : parser_state) :
    (∀ item, cpe_item_parse codec fuel st = .done (st1, some item) →
      (item.deprecated.isSome ↔ item.deprecation_date.isSome))
    ∧ (∀ dict, cpe_dict_model_parse codec fuel st = .done (st1, some dict) →
      ∀ item ∈ dict.items, (item.deprecated.isSome ↔ item.deprecation_date.isSome)) :=
  ⟨fun item h => cpe_item_parse_pair codec fuel st st1 item h,
   fun dict h => cpe_dict_model_parse_items codec _
    (fun fuel st st1 item h => cpe_item_parse_pair codec fuel st st1 item h) fuel st st1 dict h⟩

/-! ## Part codes -/

theorem tolower_eq_iff (c : Char) (k : Nat) (hk : 97 ≤ k ∧ k ≤ 122) :
    tolower c = Char.ofNat k ↔ c = Char.ofNat k ∨ c = Char.ofNat (k - 32) := by
  have hc : Char.ofNat c.toNat = c := Char.ofNat_toNat c
  obtain ⟨hk1, hk2⟩ := hk
  unfold tolower
  by_cases hup : 65 ≤ c.toNat ∧ c.toNat ≤ 90
  · obtain ⟨h1, h2⟩ := hup
    simp only [h1, h2, decide_True, Bool.and_self, ↓reduceIte]
    generalize c.toNat = m at hc h1 h2
    subst hc
    interval_cases m <;> interval_cases k <;> decide
  · have hite : (decide (65 ≤ c.toNat) && decide (c.toNat ≤ 90)) = false := by
      simpa using hup
    simp only [hite, Bool.false_eq_true, ↓reduceIte]
    constructor
    · intro h; exact Or.inl h
    · rintro (h | h)
      · exact h
      · exfalso
        apply hup
        rw [h]
        interval_cases k <;> decide

theorem strcasecmp_letter (s : String) (k : Nat) (hk : 97 ≤ k ∧ k ≤ 122) :
    strcasecmp s (String.mk [Char.ofNat k]) = true
      ↔ s = String.mk [Char.ofNat k] ∨ s = String.mk [Char.ofNat (k - 32)] := by
  have hlow : tolower (Char.ofNat k) = Char.ofNat k :=
    (tolower_eq_iff (Char.ofNat k) k hk).mpr (Or.inl rfl)
  have hdata : ∀ cs : List Char, s = String.mk cs ↔ s.data = cs := by
    intro cs
    constructor
    · intro h; rw [h]
    · intro h; rw [← h]
  rw [hdata, hdata]
  simp only [strcasecmp, decide_eq_true_eq, List.map_cons, List.map_nil, hlow]
  generalize s.data = cs
  constructor
  · intro h
    match cs, h with
    | [], h => simp at h
    | [c], h =>
      simp only [List.map_cons, List.map_nil, List.cons.injEq, and_true] at h
      rcases (tolower_eq_iff c k hk).mp h with h | h
      · left; rw [h]
      · right; rw [h]
    | _ :: _ :: _, h => simp at h
  · rintro (h | h)
    · rw [h]; simp [hlow]
    · rw [h]
      simp only [List.map_cons, List.map_nil, List.cons.injEq, and_true]
      exact (tolower_eq_iff _ k hk).mpr (Or.inr rfl)

theorem strcasecmp_h (s : String) : strcasecmp s "h" = true ↔ s = "h" ∨ s = "H" :=
  strcasecmp_letter s 104 (by decide)

theorem strcasecmp_o (s : String) : strcasecmp s "o" = true ↔ s = "o" ∨ s = "O" :=
  strcasecmp_letter s 111 (by decide)

theorem strcasecmp_a (s : String) : strcasecmp s "a" = true ↔ s = "a" ∨ s = "A" :=
  strcasecmp_letter s 97 (by decide)

/-- The reading of the "part" attribute in `cpe_vendor_parse` follows the
mapping of the specification. -/
theorem cpe_product_parse_part_eq_spec (data : Option String) :
    cpe_product_parse_part data = part_code_spec data := by
  cases data with
  | none => rfl
  | some s =>
    simp only [cpe_product_parse_part, part_code_spec]
    by_cases hh : strcasecmp s "h" = true
    · rw [if_pos hh, if_pos ((strcasecmp_h s).mp hh)]
    · rw [if_neg hh, if_neg (fun h => hh ((strcasecmp_h s).mpr h))]
      by_cases ho : strcasecmp s "o" = true
      · rw [if_pos ho, if_pos ((strcasecmp_o s).mp ho)]
      · rw [if_neg ho, if_neg (fun h => ho ((strcasecmp_o s).mpr h))]
        by_cases ha : strcasecmp s "a" = true
        · rw [if_pos ha, if_pos ((strcasecmp_a s).mp ha)]
        · rw [if_neg ha, if_neg (fun h => ha ((strcasecmp_a s).mpr h))]

/-! ## Products of a vendor -/

theorem list_modify_map {α β : Type} (f : α → α) (g : α → β) (h : ∀ x, g (f x) = g x)
    (i : Nat) (l : List α) : (list_modify f i l).map g = l.map g := by
  induction l generalizing i with
  | nil => cases i <;> rfl
  | cons x xs ih =>
    cases i with
    | zero => simp [list_modify, h]
    | succ i => simp [list_modify, ih]

theorem vendor_add_version_parts (ret : cpe_vendor) (i : Nat) (x : cpe_version) :
    (vendor_add_version ret i x).products.map (fun p => p.part)
      = ret.products.map (fun p => p.part) := by
  simp only [vendor_add_version]
  apply list_modify_map
  intro p
  rfl

theorem vendor_add_update_parts (ret : cpe_vendor) (i j : Nat) (x : cpe_update) :
    (vendor_add_update ret i j x).products.map (fun p => p.part)
      = ret.products.map (fun p => p.part) := by
  simp only [vendor_add_update]
  apply list_modify_map
  intro p
  rfl

theorem vendor_add_edition_parts (ret : cpe_vendor) (i j k : Nat) (x : cpe_edition) :
    (vendor_add_edition ret i j k x).products.map (fun p => p.part)
      = ret.products.map (fun p => p.part) := by
  simp only [vendor_add_edition]
  apply list_modify_map
  intro p
  rfl

theorem vendor_add_language_parts (ret : cpe_vendor) (i j k l : Nat) (x : cpe_language) :
    (vendor_add_language ret i j k l x).products.map (fun p => p.part)
      = ret.products.map (fun p => p.part) := by
  simp only [vendor_add_language]
  apply list_modify_map
  intro p
  rfl

theorem xmlStrcmp_eq_false_iff (s1 : Option String) (s2 : String) :
    xmlStrcmp s1 s2 = false ↔ s1 = some s2 := by
  simp [xmlStrcmp]

theorem xmlStrcmp_eq_true_iff (s1 : Option String) (s2 : String) :
    xmlStrcmp s1 s2 = true ↔ s1 ≠ some s2 := by
  simp [xmlStrcmp]

/-- The product start tag under the cursor, if the cursor is on one. -/
theorem cpe_vendor_parse_body_parts (reader : xmlTextReader) (loc loc1 : vendor_locals)
    (h : cpe_vendor_parse_body reader loc = .next_node loc1) :
    loc1.ret.products.map (fun p => some p.part)
      = loc.ret.products.map (fun p => some p.part)
        ++ (reader.cur.toList.filter
            (fun n => n.type = XML_READER_TYPE_ELEMENT && n.localName == TAG_PRODUCT_STR)).map
            (fun n => part_code_spec (n.attribute ATTR_PART_STR)) := by
  have hmap : ∀ l : List cpe_product,
      l.map (fun p => some p.part) = (l.map (fun p => p.part)).map some := by
    intro l; simp
  unfold cpe_vendor_parse_body at h
  simp only at h
  split at h
  · next htype =>
    simp only [vendor_step.next_node.injEq] at h
    subst h
    cases hc : reader.cur with
    | none => simp
    | some n =>
      have : n.type ≠ XML_READER_TYPE_ELEMENT := by
        simpa [xmlTextReaderNodeType, hc] using htype
      simp [this]
  · next htype =>
    have htype1 : xmlTextReaderNodeType reader = XML_READER_TYPE_ELEMENT := by
      simpa using htype
    obtain ⟨n, hc⟩ : ∃ n, reader.cur = some n := by
      cases hc : reader.cur with
      | none => simp [xmlTextReaderNodeType, hc] at htype1
      | some n => exact ⟨n, rfl⟩
    have hn : n.type = XML_READER_TYPE_ELEMENT := by
      simpa [xmlTextReaderNodeType, hc] using htype1
    have hname : ∀ tag, (!xmlStrcmp (xmlTextReaderConstLocalName reader) tag) = true
        ↔ n.localName = tag := by
      intro tag
      simp [xmlStrcmp, xmlTextReaderConstLocalName, hc]
    simp only [hname] at h
    simp only [hc, Option.toList_some, hn, List.filter_cons, decide_True, Bool.true_and, beq_iff_eq]
    split at h
    · next ht =>
      have hprod : ¬ n.localName = TAG_PRODUCT_STR := by rw [ht]; decide
      simp only [hprod, ↓reduceIte, List.filter_nil, List.map_nil, List.append_nil]
      split at h <;> simp only [vendor_step.next_node.injEq] at h <;> subst h <;> simp
    · split at h
      · next hp =>
        simp only [hp, ↓reduceIte, List.filter_nil, List.map_cons, List.map_nil]
        split at h
        · simp at h
        · next part hpart =>
          simp only [vendor_step.next_node.injEq] at h
          subst h
          rw [cpe_product_parse_part_eq_spec] at hpart
          simp [xmlTextReaderGetAttribute, hc] at hpart
          simp [hpart, cpe_product_new]
      · next hp =>
        simp only [hp, ↓reduceIte, List.filter_nil, List.map_nil, List.append_nil]
        rw [hmap, hmap]
        congr 1
        split at h
        · split at h
          · simp at h
          · simp only [vendor_step.next_node.injEq] at h
            subst h
            exact vendor_add_version_parts _ _ _
        · split at h
          · split at h
            · simp at h
            · simp only [vendor_step.next_node.injEq] at h
              subst h
              exact vendor_add_update_parts _ _ _ _
          · split at h
            · split at h
              · simp at h
              · simp only [vendor_step.next_node.injEq] at h
                subst h
                exact vendor_add_edition_parts _ _ _ _ _
            · split at h
              · split at h
                · simp at h
                · simp only [vendor_step.next_node.injEq] at h
                  subst h
                  exact vendor_add_language_parts _ _ _ _ _ _
              · simp only [vendor_step.next_node.injEq] at h
                subst h
                rfl

theorem xmlTextReaderRead_nodes (r : xmlTextReader) :
    (xmlTextReaderRead r).2.nodes = r.rest := by
  unfold xmlTextReaderRead
  cases r.rest <;> simp [xmlTextReader.nodes]

theorem next_node_nodes (st : parser_state) : st.next_node.2.reader.nodes = st.reader.rest := by
  simp [parser_state.next_node, xmlTextReaderNextNode, xmlTextReaderRead_nodes]

theorem cpe_vendor_parse_loop_parts (fuel : Nat) :
    ∀ (st : parser_state) (loc : vendor_locals) (st1 : parser_state) (vendor : cpe_vendor),
      cpe_vendor_parse_loop fuel st loc = .done (st1, some vendor) →
      vendor.products.map (fun p => some p.part)
        = loc.ret.products.map (fun p => some p.part)
          ++ (vendor_product_tags st.reader.nodes).map
              (fun n => part_code_spec (n.attribute ATTR_PART_STR)) := by
  induction fuel with
  | zero => intro st loc st1 vendor h; simp [cpe_vendor_parse_loop] at h
  | succ fuel ih =>
    intro st loc st1 vendor h
    unfold cpe_vendor_parse_loop at h
    split at h
    · next hname =>
      split at h
      · next loc1 hbody =>
        have hstep := cpe_vendor_parse_body_parts st.reader loc loc1 hbody
        have hrec := ih _ _ _ _ h
        rw [hrec, hstep, next_node_nodes, List.append_assoc]
        congr 1
        rw [← List.map_append]
        congr 1
        cases hc : st.reader.cur with
        | none => simp [xmlTextReader.nodes, hc]
        | some n =>
          have hn : n.localName ≠ TAG_VENDOR_STR := by
            simpa [xmlStrcmp, xmlTextReaderConstLocalName, hc] using hname
          simp only [xmlTextReader.nodes, hc, vendor_product_tags, Option.toList_some,
            List.singleton_append, List.takeWhile_cons, bne_iff_ne, ne_eq, hn, not_false_eq_true,
            decide_True, ↓reduceIte]
          rw [← List.filter_append]
          rfl
      · simp at h
      · simp at h
    · next hname =>
      simp only [Res.done.injEq, Prod.mk.injEq, Option.some.injEq] at h
      rw [← h.2]
      have hv : xmlTextReaderConstLocalName st.reader = some TAG_VENDOR_STR := by
        simpa [xmlStrcmp] using hname
      cases hc : st.reader.cur with
      | none => simp [xmlTextReaderConstLocalName, hc] at hv
      | some n =>
        have hn : n.localName = TAG_VENDOR_STR := by
          simpa [xmlTextReaderConstLocalName, hc] using hv
        simp [xmlTextReader.nodes, hc, vendor_product_tags, List.takeWhile_cons, hn]

/-- C7. Part-code mapping: the products of a vendor that `cpe_vendor_parse`
answers are, in order, those of the product start tags inside the vendor (the
ones between the first start tag after the vendor's and the next node named
"vendor"), and the part classification of each is the one the specification
gives to the "part" attribute of its tag: hardware for "h", operating system
for "o", application for "a", ignoring case, and unspecified when absent. -/
theorem cpe_vendor_parse_part_codes (fuel : Nat) (st st1 : parser_state) (vendor : cpe_vendor)
    (h : cpe_vendor_parse fuel st = .done (st1, some vendor)) :
    vendor.products.map (fun p => some p.part)
      = (vendor_product_tags st.next_element.2.reader.nodes).map
          (fun n => part_code_spec (n.attribute ATTR_PART_STR)) := by
  unfold cpe_vendor_parse at h
  simp only at h
  split at h
  · simp at h
  · have := cpe_vendor_parse_loop_parts fuel _ _ _ _ h
    simpa [cpe_vendor_new] using this

theorem cpe_vendor_parse_part_codes_witness :
    cpe_vendor_parse 9 sample_vendor_state = .done (state_at (end_tag "vendor") [], some sample_vendor)
    ∧ sample_vendor.products.map (fun p => some p.part)
      = (vendor_product_tags sample_vendor_state.next_element.2.reader.nodes).map
          (fun n => part_code_spec (n.attribute ATTR_PART_STR)) :=
  ⟨by decide, cpe_vendor_parse_part_codes 9 sample_vendor_state
    (state_at (end_tag "vendor") []) sample_vendor (by decide)⟩

/-! ## A product with an unrecognised part code -/

theorem levels_ordered_skip (p v u e : Bool) (skipped rest : List xmlNode)
    (h : ∀ n ∈ skipped, n.type ≠ XML_READER_TYPE_ELEMENT) :
    levels_ordered p v u e (skipped ++ rest) = levels_ordered p v u e rest := by
  induction skipped with
  | nil => rfl
  | cons n ns ih =>
    have hn : n.type ≠ XML_READER_TYPE_ELEMENT := h n (by simp)
    have hns : ∀ x ∈ ns, x.type ≠ XML_READER_TYPE_ELEMENT := fun x hx => h x (by simp [hx])
    simp [levels_ordered, hn, ih hns]

/-- One pass of the loop of `cpe_vendor_parse` on a node of a well-nested
vendor: it fails on a bad part code or goes on, never dereferencing `NULL`. -/
theorem cpe_vendor_parse_body_progress (n : xmlNode) (xs pre : List xmlNode)
    (loc : vendor_locals) (p v u e : Bool)
    (hord : levels_ordered p v u e (n :: pre) = true) (hloc : loc.opened p v u e) :
    cpe_vendor_parse_body { cur := some n, rest := xs } loc = .return_null
    ∨ ∃ loc1 p1 v1 u1 e1,
        cpe_vendor_parse_body { cur := some n, rest := xs } loc = .next_node loc1
        ∧ loc1.opened p1 v1 u1 e1 ∧ levels_ordered p1 v1 u1 e1 pre = true := by
  obtain ⟨hp, hv, hu, he⟩ := hloc
  unfold cpe_vendor_parse_body
  simp only [xmlTextReaderNodeType, xmlTextReaderConstLocalName, Option.map_some', xmlStrcmp,
    ne_eq, Option.some.injEq, decide_not, Bool.not_not, decide_eq_true_eq]
  unfold levels_ordered at hord
  by_cases htype : n.type = XML_READER_TYPE_ELEMENT
  · simp only [htype, ne_eq, not_true_eq_false, ↓reduceIte] at hord ⊢
    by_cases h1 : n.localName = TAG_TITLE_STR
    · simp only [h1, ↓reduceIte] at hord ⊢
      right
      cases oscap_title_parse { cur := some n, rest := xs } TAG_TITLE_STR
      · exact ⟨loc, p, v, u, e, rfl, ⟨hp, hv, hu, he⟩, hord⟩
      · exact ⟨_, p, v, u, e, rfl, ⟨hp, hv, hu, he⟩, hord⟩
    · simp only [h1, ↓reduceIte] at hord ⊢
      by_cases h2 : n.localName = TAG_PRODUCT_STR
      · simp only [h2, ↓reduceIte] at hord ⊢
        cases cpe_product_parse_part
          (xmlTextReaderGetAttribute { cur := some n, rest := xs } ATTR_PART_STR) with
        | none => left; rfl
        | some part =>
          right
          exact ⟨_, true, v, u, e, rfl, ⟨fun _ => rfl, hv, hu, he⟩, hord⟩
      · simp only [h2, ↓reduceIte] at hord ⊢
        by_cases h3 : n.localName = TAG_VERSION_STR
        · simp only [h3, ↓reduceIte, Bool.and_eq_true] at hord ⊢
          right
          obtain ⟨i, hi⟩ := Option.isSome_iff_exists.mp (hp hord.1)
          simp only [hi]
          exact ⟨_, p, true, u, e, rfl, ⟨fun _ => by simp [hi], fun _ => rfl, hu, he⟩, hord.2⟩
        · simp only [h3, ↓reduceIte] at hord ⊢
          by_cases h4 : n.localName = TAG_UPDATE_STR
          · simp only [h4, ↓reduceIte, Bool.and_eq_true] at hord ⊢
            right
            obtain ⟨i, hi⟩ := Option.isSome_iff_exists.mp (hv hord.1)
            simp only [hi]
            exact ⟨_, p, v, true, e, rfl, ⟨hp, fun _ => by simp [hi], fun _ => rfl, he⟩, hord.2⟩
          · simp only [h4, ↓reduceIte] at hord ⊢
            by_cases h5 : n.localName = TAG_EDITION_STR
            · simp only [h5, ↓reduceIte, Bool.and_eq_true] at hord ⊢
              right
              obtain ⟨i, hi⟩ := Option.isSome_iff_exists.mp (hu hord.1)
              simp only [hi]
              exact ⟨_, p, v, u, true, rfl,
                ⟨hp, hv, fun _ => by simp [hi], fun _ => rfl⟩, hord.2⟩
            · simp only [h5, ↓reduceIte] at hord ⊢
              by_cases h6 : n.localName = TAG_LANGUAGE_STR
              · simp only [h6, ↓reduceIte, Bool.and_eq_true] at hord ⊢
                right
                obtain ⟨i, hi⟩ := Option.isSome_iff_exists.mp (he hord.1)
                simp only [hi]
                exact ⟨_, p, v, u, e, rfl, ⟨hp, hv, hu, fun _ => by simp [hi]⟩, hord.2⟩
              · simp only [h6, ↓reduceIte] at hord ⊢
                right
                exact ⟨loc, p, v, u, e, rfl, ⟨hp, hv, hu, he⟩, hord⟩
  · simp only [htype, ne_eq, not_false_eq_true, ↓reduceIte] at hord ⊢
    right
    exact ⟨loc, p, v, u, e, rfl, ⟨hp, hv, hu, he⟩, hord⟩

theorem xmlTextReaderRead_cons (c : Option xmlNode) (y : xmlNode) (ys : List xmlNode) :
    xmlTextReaderRead { cur := c, rest := y :: ys } = (1, { cur := some y, rest := ys }) := rfl

theorem cpe_vendor_parse_loop_bad_part (bad : xmlNode) (post : List xmlNode)
    (hbad : bad.type = XML_READER_TYPE_ELEMENT) (hname : bad.localName = TAG_PRODUCT_STR)
    (hpart : part_code_spec (bad.attribute ATTR_PART_STR) = none) :
    ∀ (pre : List xmlNode) (fuel : Nat) (errors : List String) (loc : vendor_locals)
      (p v u e : Bool) (x : xmlNode) (xs : List xmlNode),
      x :: xs = pre ++ bad :: post →
      (∀ n ∈ pre, n.localName ≠ TAG_VENDOR_STR) →
      levels_ordered p v u e pre = true → loc.opened p v u e → pre.length < fuel →
      ∃ st1, cpe_vendor_parse_loop fuel { reader := { cur := some x, rest := xs }, errors := errors }
        loc = .done (st1, none) := by
  intro pre
  induction pre with
  | nil =>
    intro fuel errors loc p v u e x xs hx _ _ _ hfuel
    simp only [List.nil_append, List.cons.injEq] at hx
    obtain ⟨rfl, rfl⟩ := hx
    obtain ⟨fuel, rfl⟩ : ∃ f, fuel = f + 1 := ⟨fuel - 1, by simp at hfuel; omega⟩
    unfold cpe_vendor_parse_loop
    have h1 : xmlStrcmp (xmlTextReaderConstLocalName { cur := some x, rest := xs })
        TAG_VENDOR_STR = true := by
      simp only [xmlStrcmp, xmlTextReaderConstLocalName, Option.map_some', hname]
      decide
    have h2 : cpe_vendor_parse_body { cur := some x, rest := xs } loc = .return_null := by
      unfold cpe_vendor_parse_body
      have ht : ¬ TAG_PRODUCT_STR = TAG_TITLE_STR := by decide
      simp [xmlTextReaderNodeType, xmlTextReaderConstLocalName, xmlStrcmp, hbad, hname, ht,
        cpe_product_parse_part_eq_spec, xmlTextReaderGetAttribute, hpart]
    simp only [h1, ↓reduceIte, h2]
    exact ⟨_, rfl⟩
  | cons n pre ih =>
    intro fuel errors loc p v u e x xs hx hpre hord hloc hfuel
    simp only [List.cons_append, List.cons.injEq] at hx
    obtain ⟨rfl, rfl⟩ := hx
    obtain ⟨fuel, rfl⟩ : ∃ f, fuel = f + 1 := ⟨fuel - 1, by simp at hfuel; omega⟩
    unfold cpe_vendor_parse_loop
    have h1 : xmlStrcmp (xmlTextReaderConstLocalName
        { cur := some x, rest := pre ++ bad :: post }) TAG_VENDOR_STR = true := by
      have := hpre x (by simp)
      simpa [xmlStrcmp, xmlTextReaderConstLocalName] using this
    simp only [h1, ↓reduceIte]
    rcases cpe_vendor_parse_body_progress x (pre ++ bad :: post) pre loc p v u e hord hloc with
      h2 | ⟨loc1, p1, v1, u1, e1, h2, hloc1, hord1⟩
    · rw [h2]; exact ⟨_, rfl⟩
    · rw [h2]
      simp only [parser_state.next_node, xmlTextReaderNextNode]
      obtain ⟨y, ys, hy⟩ : ∃ y ys, y :: ys = pre ++ bad :: post := by
        cases pre with
        | nil => exact ⟨bad, post, rfl⟩
        | cons a as => exact ⟨a, as ++ bad :: post, rfl⟩
      rw [← hy, xmlTextReaderRead_cons]
      exact ih fuel errors loc1 p1 v1 u1 e1 y ys hy (fun m hm => hpre m (by simp [hm])) hord1
        hloc1 (by simp at hfuel; omega)

/-- Where `xmlTextReaderNextElement` stops before a start tag. -/
theorem xmlTextReaderNextElement_loop_before (bad : xmlNode) (post : List xmlNode)
    (hbad : bad.type = XML_READER_TYPE_ELEMENT) :
    ∀ pre : List xmlNode, ∃ skipped pre2 x xs,
      pre = skipped ++ pre2 ∧ (∀ n ∈ skipped, n.type ≠ XML_READER_TYPE_ELEMENT)
      ∧ x :: xs = pre2 ++ bad :: post
      ∧ xmlTextReaderNextElement_loop (pre ++ bad :: post) = (1, { cur := some x, rest := xs }) := by
  intro pre
  induction pre with
  | nil =>
    exact ⟨[], [], bad, post, rfl, by simp, rfl, by simp [xmlTextReaderNextElement_loop, hbad]⟩
  | cons n pre ih =>
    by_cases hn : n.type = XML_READER_TYPE_ELEMENT
    · exact ⟨[], n :: pre, n, pre ++ bad :: post, rfl, by simp, rfl, by
        simp [xmlTextReaderNextElement_loop, hn]⟩
    · obtain ⟨skipped, pre2, x, xs, h1, h2, h3, h4⟩ := ih
      refine ⟨n :: skipped, pre2, x, xs, by simp [h1], ?_, h3, by
        simp [xmlTextReaderNextElement_loop, hn, h4]⟩
      intro m hm
      rcases List.mem_cons.mp hm with rfl | hm
      · exact hn
      · exact h2 m hm

/-- C8, amended. An unrecognised part code is a hard failure: on a vendor start tag
followed, inside the vendor (before any node named "vendor") and after
well-nested content, by a product start tag whose "part" attribute is present
and is none of "h", "o", "a" in either case, `cpe_vendor_parse` answers no
vendor, and the pass of the main loop of `cpe_dict_model_parse` on that vendor
goes on with the dictionary unchanged. -/
theorem cpe_vendor_parse_unrecognised_part (fuel : Nat) (st : parser_state)
    (vendor_tag bad : xmlNode) (pre post : List xmlNode) (text : String)
    (hcur : st.reader.cur = some vendor_tag) (hvendor : vendor_tag.localName = TAG_VENDOR_STR)
    (hrest : st.reader.rest = pre ++ bad :: post)
    (hpre : ∀ n ∈ pre, n.localName ≠ TAG_VENDOR_STR)
    (hnest : levels_ordered false false false false pre = true)
    (hbad : bad.type = XML_READER_TYPE_ELEMENT) (hname : bad.localName = TAG_PRODUCT_STR)
    (hpart : bad.attribute ATTR_PART_STR = some text)
    (hcode : text ≠ "h" ∧ text ≠ "H" ∧ text ≠ "o" ∧ text ≠ "O" ∧ text ≠ "a" ∧ text ≠ "A")
    (hfuel : pre.length < fuel) :
    ∃ st1, cpe_vendor_parse fuel st = .done (st1, none)
      ∧ ∀ (codec : cpe_codec) (ret : cpe_dict_model) (next_ret : Int), next_ret ≠ 0 →
          cpe_dict_model_parse_loop codec (fuel + 1) st ret next_ret
            = cpe_dict_model_parse_loop codec fuel st1.next_element.2 ret st1.next_element.1 := by
  have hspec : part_code_spec (bad.attribute ATTR_PART_STR) = none := by
    obtain ⟨h1, h2, h3, h4, h5, h6⟩ := hcode
    simp [hpart, part_code_spec, h1, h2, h3, h4, h5, h6]
  obtain ⟨skipped, pre2, x, xs, hsplit, hskip, hx, hnext⟩ :=
    xmlTextReaderNextElement_loop_before bad post hbad pre
  have hord : levels_ordered false false false false pre2 = true := by
    rw [hsplit, levels_ordered_skip _ _ _ _ _ _ hskip] at hnest
    exact hnest
  have hlocal : xmlTextReaderConstLocalName st.reader = some TAG_VENDOR_STR := by
    simp [xmlTextReaderConstLocalName, hcur, hvendor]
  have hparse : ∃ st1, cpe_vendor_parse fuel st = .done (st1, none) := by
    unfold cpe_vendor_parse
    simp only [hlocal, xmlStrcmp, ne_eq, not_true_eq_false, decide_False, Bool.false_eq_true,
      ↓reduceIte, parser_state.next_element, xmlTextReaderNextElement, hrest, hnext]
    exact cpe_vendor_parse_loop_bad_part bad post hbad hname hspec pre2 fuel st.errors _
      false false false false x xs hx
      (fun n hn => hpre n (by rw [hsplit]; simp [hn])) hord
      ⟨by simp, by simp, by simp, by simp⟩
      (by rw [hsplit] at hfuel; simp at hfuel; omega)
  obtain ⟨st1, hparse⟩ := hparse
  refine ⟨st1, hparse, ?_⟩
  intro codec ret next_ret hnr
  have hg : xmlStrcmp (some TAG_VENDOR_STR) TAG_GENERATOR_STR = true := by decide
  have hi : xmlStrcmp (some TAG_VENDOR_STR) TAG_CPE_ITEM_STR = true := by decide
  have hv : xmlStrcmp (some TAG_VENDOR_STR) TAG_VENDOR_STR = false := by decide
  rw [cpe_dict_model_parse_loop]
  simp [hnr, hlocal, hg, hi, hv, hparse]

theorem cpe_vendor_parse_unrecognised_part_witness :
    levels_ordered false false false false
        [start_tag "product" [("value", "p1"), ("part", "a")],
         empty_tag "version" [("value", "1.0")],
         end_tag "product"] = true
    ∧ ∃ st1, cpe_vendor_parse 4 sample_bad_vendor_state = .done (st1, none)
      ∧ ∀ (codec : cpe_codec) (ret : cpe_dict_model) (next_ret : Int), next_ret ≠ 0 →
          cpe_dict_model_parse_loop codec (4 + 1) sample_bad_vendor_state ret next_ret
            = cpe_dict_model_parse_loop codec 4 st1.next_element.2 ret st1.next_element.1 :=
  ⟨by decide,
   cpe_vendor_parse_unrecognised_part 4 sample_bad_vendor_state
    (start_tag "vendor" [("value", "v")]) (empty_tag "product" [("value", "p2"), ("part", "x")])
    [start_tag "product" [("value", "p1"), ("part", "a")],
     empty_tag "version" [("value", "1.0")],
     end_tag "product"]
    [end_tag "vendor", start_tag "vendor" [], empty_tag "product" [], end_tag "vendor"]
    "x" rfl rfl rfl (by decide) (by decide) rfl rfl (by decide) (by decide) (by decide)⟩

/-! ## Fuel -/

theorem Res.le_refl {α : Type} (a : Res α) : Res.le a a := Or.inr rfl

theorem Res.timeout_le {α : Type} (a : Res α) : Res.le .timeout a := Or.inl rfl

theorem Res.le_trans {α : Type} {a b c : Res α} (h1 : Res.le a b) (h2 : Res.le b c) :
    Res.le a c := by
  rcases h1 with h1 | h1
  · exact Or.inl h1
  · rw [h1]; exact h2

theorem Res.le_bind {α β : Type} {x y : Res α} {f g : α → Res β} (h : Res.le x y)
    (hfg : ∀ a, Res.le (f a) (g a)) : Res.le (x.bind f) (y.bind g) := by
  rcases h with h | h
  · rw [h]; exact Or.inl rfl
  · rw [h]
    cases y with
    | timeout => exact Or.inl rfl
    | crash => exact Or.inr rfl
    | done a => exact hfg a

theorem Res.le_done {α : Type} {a : Res α} {b : Res α} {x : α} (h : Res.le a b)
    (ha : a = .done x) : b = .done x := by
  rcases h with h | h
  · rw [h] at ha; cases ha
  · rw [← h]; exact ha

theorem Res.le_timeout {α : Type} {a : Res α} (h : Res.le a .timeout) : a = .timeout := by
  rcases h with h | h <;> exact h

theorem cpe_generator_parse_loop_mono (fuel : Nat) :
    ∀ st ret, Res.le (cpe_generator_parse_loop fuel st ret)
      (cpe_generator_parse_loop (fuel + 1) st ret) := by
  induction fuel with
  | zero => intro st ret; exact Res.timeout_le _
  | succ fuel ih =>
    intro st ret
    rw [cpe_generator_parse_loop, cpe_generator_parse_loop.eq_def (fuel + 1 + 1)]
    simp only
    split
    · exact ih _ _
    · exact Res.le_refl _

theorem cpe_generator_parse_mono (fuel : Nat) (st : parser_state) :
    Res.le (cpe_generator_parse fuel st) (cpe_generator_parse (fuel + 1) st) := by
  unfold cpe_generator_parse
  simp only
  split
  · exact Res.le_bind (cpe_generator_parse_loop_mono fuel _ _) (fun _ => Res.le_refl _)
  · exact Res.le_refl _

theorem cpe_item_parse_loop_mono (fuel : Nat) :
    ∀ st ret, Res.le (cpe_item_parse_loop fuel st ret)
      (cpe_item_parse_loop (fuel + 1) st ret) := by
  induction fuel with
  | zero => intro st ret; exact Res.timeout_le _
  | succ fuel ih =>
    intro st ret
    rw [cpe_item_parse_loop, cpe_item_parse_loop.eq_def (fuel + 1 + 1)]
    simp only
    split
    · split
      · exact ih _ _
      · exact ih _ _
      · exact Res.le_refl _
      · exact Res.le_refl _
    · exact Res.le_refl _

theorem cpe_item_parse_mono (codec : cpe_codec) (fuel : Nat) (st : parser_state) :
    Res.le (cpe_item_parse codec fuel st) (cpe_item_parse codec (fuel + 1) st) := by
  unfold cpe_item_parse
  simp only
  split
  · split
    · exact Res.le_refl _
    · exact cpe_item_parse_loop_mono fuel _ _
  · exact Res.le_refl _

theorem cpe_vendor_parse_loop_mono (fuel : Nat) :
    ∀ st loc, Res.le (cpe_vendor_parse_loop fuel st loc)
      (cpe_vendor_parse_loop (fuel + 1) st loc) := by
  induction fuel with
  | zero => intro st loc; exact Res.timeout_le _
  | succ fuel ih =>
    intro st loc
    rw [cpe_vendor_parse_loop, cpe_vendor_parse_loop.eq_def (fuel + 1 + 1)]
    simp only
    split
    · split
      · exact ih _ _
      · exact Res.le_refl _
      · exact Res.le_refl _
    · exact Res.le_refl _

theorem cpe_vendor_parse_mono (fuel : Nat) (st : parser_state) :
    Res.le (cpe_vendor_parse fuel st) (cpe_vendor_parse (fuel + 1) st) := by
  unfold cpe_vendor_parse
  simp only
  split
  · exact Res.le_refl _
  · exact cpe_vendor_parse_loop_mono fuel _ _

theorem cpe_dict_model_parse_find_mono (fuel : Nat) :
    ∀ st next_ret, Res.le (cpe_dict_model_parse_find fuel st next_ret)
      (cpe_dict_model_parse_find (fuel + 1) st next_ret) := by
  induction fuel with
  | zero => intro st next_ret; exact Res.timeout_le _
  | succ fuel ih =>
    intro st next_ret
    rw [cpe_dict_model_parse_find, cpe_dict_model_parse_find.eq_def (fuel + 1 + 1)]
    simp only
    split
    · split
      · exact Res.le_refl _
      · exact ih _ _
    · exact Res.le_refl _

theorem cpe_dict_model_parse_loop_mono (codec : cpe_codec) (fuel : Nat) :
    ∀ st ret next_ret, Res.le (cpe_dict_model_parse_loop codec fuel st ret next_ret)
      (cpe_dict_model_parse_loop codec (fuel + 1) st ret next_ret) := by
  induction fuel with
  | zero => intro st ret next_ret; exact Res.timeout_le _
  | succ fuel ih =>
    intro st ret next_ret
    rw [cpe_dict_model_parse_loop, cpe_dict_model_parse_loop.eq_def codec (fuel + 1 + 1)]
    simp only
    split
    · split
      · exact Res.le_bind (cpe_generator_parse_mono fuel st) (fun _ => ih _ _ _)
      · split
        · refine Res.le_bind (cpe_item_parse_mono codec fuel st) (fun out => ?_)
          split
          · exact ih _ _ _
          · split
            · exact ih _ _ _
            · exact Res.le_refl _
        · split
          · exact Res.le_bind (cpe_vendor_parse_mono fuel st) (fun _ => ih _ _ _)
          · split
            · exact ih _ _ _
            · split
              · exact ih _ _ _
              · exact ih _ _ _
    · exact Res.le_refl _

theorem cpe_dict_model_parse_mono (codec : cpe_codec) (fuel : Nat) (st : parser_state) :
    Res.le (cpe_dict_model_parse codec fuel st) (cpe_dict_model_parse codec (fuel + 1) st) := by
  unfold cpe_dict_model_parse
  refine Res.le_bind (cpe_dict_model_parse_find_mono fuel st 1) (fun found => ?_)
  split
  · exact cpe_dict_model_parse_loop_mono codec fuel _ _ _
  · exact Res.le_refl _

theorem mono_of_step {α : Type} (f : Nat → Res α) (h : ∀ n, Res.le (f n) (f (n + 1)))
    (n m : Nat) (hnm : n ≤ m) : Res.le (f n) (f m) := by
  induction m with
  | zero =>
    have : n = 0 := by omega
    rw [this]; exact Res.le_refl _
  | succ m ih =>
    by_cases hn : n = m + 1
    · rw [hn]; exact Res.le_refl _
    · exact Res.le_trans (ih (by omega)) (h m)

/-- An outcome that is a timeout from some fuel on is a timeout for every fuel. -/
theorem timeout_of_large {α : Type} (f : Nat → Res α) (h : ∀ n, Res.le (f n) (f (n + 1)))
    (bound : Nat) (hlarge : ∀ k, f (bound + k) = .timeout) (fuel : Nat) : f fuel = .timeout := by
  by_cases hf : bound ≤ fuel
  · have := hlarge (fuel - bound)
    rwa [Nat.add_sub_cancel' hf] at this
  · have := mono_of_step f h fuel bound (by omega)
    have h0 := hlarge 0
    rw [Nat.add_zero] at h0
    rw [h0] at this
    exact Res.le_timeout this

/-! ## The loop of `cpe_item_parse` over the children of an entry -/

/-- At the end of the stream the loop of `cpe_item_parse` never ends: the local
name is absent, so it differs from "cpe-item", the node type is not "element",
and `xmlTextReaderNextNode` leaves the cursor where it is. -/
theorem cpe_item_parse_loop_eof (fuel : Nat) (errors : List String) (ret : cpe_item) :
    cpe_item_parse_loop fuel { reader := { cur := none, rest := [] }, errors := errors } ret
      = .timeout := by
  induction fuel with
  | zero => rfl
  | succ fuel ih =>
    rw [cpe_item_parse_loop]
    exact ih

/-- One pass of the loop of `cpe_item_parse` on a known child goes on to the
next start tag. -/
theorem cpe_item_parse_body_child (n : xmlNode) (xs : List xmlNode) (ret : cpe_item)
    (htype : n.type = XML_READER_TYPE_ELEMENT) (hok : item_child_ok n = true) :
    ∃ ret1, cpe_item_parse_body { cur := some n, rest := xs } ret = .next_element ret1 := by
  simp only [item_child_ok, htype, bne_self_eq_false, Bool.false_or, Bool.and_eq_true,
    Bool.or_eq_true, bne_iff_ne, ne_eq] at hok
  obtain ⟨htag, hmeta⟩ := hok
  unfold cpe_item_parse_body
  simp only [xmlTextReaderNodeType, htype, ne_eq, not_true_eq_false, ↓reduceIte,
    xmlTextReaderConstLocalName, Option.map_some', xmlStrcmp, Option.some.injEq, decide_not,
    Bool.not_not, decide_eq_true_eq]
  split
  · split <;> exact ⟨_, rfl⟩
  · split
    · split <;> exact ⟨_, rfl⟩
    · split
      · split <;> exact ⟨_, rfl⟩
      · split
        · split <;> exact ⟨_, rfl⟩
        · split
          · next h5 =>
            have hdate := hmeta.resolve_left (fun h => h h5)
            obtain ⟨d, hd⟩ := Option.isSome_iff_exists.mp hdate
            simp [cpe_item_metadata_parse, xmlTextReaderGetAttribute, hd]
          · split
            · exact ⟨_, rfl⟩
            · next h1 h2 h3 h4 h5 h6 =>
              exfalso
              simp only [Bool.or_eq_true, decide_eq_true_eq, not_or] at h6
              simp only [item_child_tag, Bool.or_eq_true, beq_iff_eq] at htag
              rcases htag with (((((h | h) | h) | h) | h) | h) | h
              · exact h1 h
              · exact h2 h
              · exact h3 h
              · exact h4 h
              · exact h5 h
              · exact h6.1 h
              · exact h6.2 h

theorem item_child_tag_cpe_item : item_child_tag TAG_CPE_ITEM_STR = false := by decide

/-- When no start tag other than known children is left in the stream, the
loop of `cpe_item_parse` reaches the end of the stream and never ends. -/
theorem cpe_item_parse_loop_diverges :
    ∀ (rest : List xmlNode), (∀ n ∈ rest, item_child_ok n = true) →
    ∀ (fuel : Nat) (errors : List String) (ret : cpe_item),
      cpe_item_parse_loop fuel
        { reader := (xmlTextReaderNextElement_loop rest).2, errors := errors } ret
        = .timeout := by
  intro rest
  induction rest with
  | nil => intro _ fuel errors ret; exact cpe_item_parse_loop_eof fuel errors ret
  | cons n rest ih =>
    intro hok fuel errors ret
    have hrest : ∀ m ∈ rest, item_child_ok m = true := fun m hm => hok m (by simp [hm])
    by_cases htype : n.type = XML_READER_TYPE_ELEMENT
    · rw [xmlTextReaderNextElement_loop_element n rest htype]
      cases fuel with
      | zero => rfl
      | succ fuel =>
        have hn := hok n (by simp)
        have hname : n.localName ≠ TAG_CPE_ITEM_STR := by
          intro h
          have h1 := hn
          simp only [item_child_ok, htype, bne_self_eq_false, Bool.false_or, Bool.and_eq_true]
            at h1
          rw [h, item_child_tag_cpe_item] at h1
          simp at h1
        obtain ⟨ret1, hbody⟩ := cpe_item_parse_body_child n rest ret htype hn
        rw [cpe_item_parse_loop]
        simp only [xmlStrcmp, xmlTextReaderConstLocalName, Option.map_some', ne_eq,
          Option.some.injEq, hname, not_false_eq_true, decide_True, ↓reduceIte, hbody]
        exact ih hrest fuel errors ret1
    · have : xmlTextReaderNextElement_loop (n :: rest) = xmlTextReaderNextElement_loop rest := by
        simp [xmlTextReaderNextElement_loop, htype]
      rw [this]
      exact ih hrest fuel errors ret

/-- Over known children and up to the next start tag that is not one, the loop
of `cpe_item_parse` answers an entry, with the cursor on that start tag. -/
theorem cpe_item_parse_loop_children (stop : xmlNode) (post : List xmlNode)
    (hstop : stop.type = XML_READER_TYPE_ELEMENT) (hname : item_child_tag stop.localName = false) :
    ∀ (pre : List xmlNode), (∀ n ∈ pre, item_child_ok n = true) →
    ∀ (fuel : Nat) (errors : List String) (ret : cpe_item), pre.length < fuel →
      ∃ item, cpe_item_parse_loop fuel
          { reader := (xmlTextReaderNextElement_loop (pre ++ stop :: post)).2, errors := errors }
          ret
        = .done ({ reader := { cur := some stop, rest := post }, errors := errors }, some item) := by
  intro pre
  induction pre with
  | nil =>
    intro _ fuel errors ret hfuel
    obtain ⟨fuel, rfl⟩ : ∃ f, fuel = f + 1 := ⟨fuel - 1, by simp at hfuel; omega⟩
    rw [List.nil_append, xmlTextReaderNextElement_loop_element stop post hstop,
      cpe_item_parse_loop]
    simp only [item_child_tag, Bool.or_eq_false_iff, beq_eq_false_iff_ne, ne_eq] at hname
    obtain ⟨⟨⟨⟨⟨⟨h1, h2⟩, h3⟩, h4⟩, h5⟩, h6⟩, h7⟩ := hname
    by_cases hitem : stop.localName = TAG_CPE_ITEM_STR
    · simp [xmlStrcmp, xmlTextReaderConstLocalName, hitem]
    · simp [xmlStrcmp, xmlTextReaderConstLocalName, hitem, cpe_item_parse_body,
        xmlTextReaderNodeType, hstop, h1, h2, h3, h4, h5, h6, h7]
  | cons n pre ih =>
    intro hok fuel errors ret hfuel
    have hpre : ∀ m ∈ pre, item_child_ok m = true := fun m hm => hok m (by simp [hm])
    obtain ⟨fuel, rfl⟩ : ∃ f, fuel = f + 1 := ⟨fuel - 1, by simp at hfuel; omega⟩
    by_cases htype : n.type = XML_READER_TYPE_ELEMENT
    · rw [List.cons_append, xmlTextReaderNextElement_loop_element n _ htype]
      have hn := hok n (by simp)
      have hnm : n.localName ≠ TAG_CPE_ITEM_STR := by
        intro h
        have h1 := hn
        simp only [item_child_ok, htype, bne_self_eq_false, Bool.false_or, Bool.and_eq_true]
          at h1
        rw [h, item_child_tag_cpe_item] at h1
        simp at h1
      obtain ⟨ret1, hbody⟩ := cpe_item_parse_body_child n (pre ++ stop :: post) ret htype hn
      rw [cpe_item_parse_loop]
      simp only [xmlStrcmp, xmlTextReaderConstLocalName, Option.map_some', ne_eq,
        Option.some.injEq, hnm, not_false_eq_true, decide_True, ↓reduceIte, hbody]
      exact ih hpre fuel errors ret1 (by simp at hfuel; omega)
    · have : xmlTextReaderNextElement_loop ((n :: pre) ++ stop :: post)
          = xmlTextReaderNextElement_loop (pre ++ stop :: post) := by
        simp [xmlTextReaderNextElement_loop, htype]
      rw [this]
      exact ih hpre (fuel + 1) errors ret (by simp at hfuel; omega)

/-! ## C5 -/

theorem done_of_fuel_le {α : Type} (f : Nat → Res α) (h : ∀ n, Res.le (f n) (f (n + 1)))
    (n m : Nat) (hnm : n ≤ m) (x : α) (hn : f n = .done x) : f m = .done x :=
  Res.le_done (mono_of_step f h n m hnm) hn

/-- C5, counterexample. A start tag that carries all three deprecation
attributes, with a "deprecated_by" the codec accepts, and whose only child is a
recognised one, an `item-metadata` (without `modification-date`): whatever
the fuel, `cpe_item_parse` answers no entry. -/
theorem cpe_item_parse_deprecated_counterexample :
    xmlTextReaderGetAttribute sample_deprecated_metadata_state.reader ATTR_DEPRECATED_STR
      = some "true"
    ∧ (xmlTextReaderGetAttribute sample_deprecated_metadata_state.reader
        ATTR_DEPRECATED_BY_STR).bind sample_codec.cpe_name_new = some { uri := "cpe:/a:b:c:2" }
    ∧ xmlTextReaderGetAttribute sample_deprecated_metadata_state.reader ATTR_DEPRECATION_DATE_STR
      = some "2010-01-01"
    ∧ item_child_tag "item-metadata" = true
    ∧ ∀ fuel st1 item,
        cpe_item_parse sample_codec fuel sample_deprecated_metadata_state
          ≠ .done (st1, some item) := by
  refine ⟨by decide, by decide, by decide, by decide, ?_⟩
  intro fuel st1 item h
  cases fuel with
  | zero =>
    have h0 : cpe_item_parse sample_codec 0 sample_deprecated_metadata_state = .timeout := by
      decide
    rw [h0] at h
    simp at h
  | succ fuel =>
    have h1 : cpe_item_parse sample_codec 1 sample_deprecated_metadata_state
        = .done (state_at (empty_tag "item-metadata" [("status", "DRAFT")])
            [end_tag "cpe-item", empty_tag "cpe-item" [("name", "cpe:/a:b:c:2")],
             end_tag "cpe-list"], none) := by decide
    have h2 := done_of_fuel_le
      (fun n => cpe_item_parse sample_codec n sample_deprecated_metadata_state)
      (fun n => cpe_item_parse_mono sample_codec n _) 1 (fuel + 1) (by omega) _ h1
    simp only at h2
    rw [h2] at h
    simp at h

/-- C5, amended. Deprecation pairing, success side: on a `cpe-item` start tag
that carries "deprecated", a "deprecated_by" the codec accepts and
"deprecation_date", followed by nodes whose start tags are all known children
(an `item-metadata` having its `modification-date`) and then by a start tag
that is not one (the next `cpe-item` or another element), `cpe_item_parse`
answers, with the cursor on that start tag, an entry whose deprecated
identifier is the parsed "deprecated_by" and whose deprecation date is the
attribute text. -/
theorem cpe_item_parse_deprecated (codec : cpe_codec) (fuel : Nat) (st : parser_state)
    (item_tag stop : xmlNode) (pre post : List xmlNode) (flag by_text date : String)
    (name : cpe_name)
    (hcur : st.reader.cur = some item_tag)
    (htype : item_tag.type = XML_READER_TYPE_ELEMENT)
    (htag : item_tag.localName = TAG_CPE_ITEM_STR)
    (hflag : item_tag.attribute ATTR_DEPRECATED_STR = some flag)
    (hby : item_tag.attribute ATTR_DEPRECATED_BY_STR = some by_text)
    (hcodec : codec.cpe_name_new by_text = some name)
    (hdate : item_tag.attribute ATTR_DEPRECATION_DATE_STR = some date)
    (hrest : st.reader.rest = pre ++ stop :: post)
    (hpre : ∀ n ∈ pre, item_child_ok n = true)
    (hstop : stop.type = XML_READER_TYPE_ELEMENT)
    (hstoptag : item_child_tag stop.localName = false)
    (hfuel : pre.length < fuel) :
    ∃ item, cpe_item_parse codec fuel st
        = .done ({ reader := { cur := some stop, rest := post }, errors := st.errors }, some item)
      ∧ item.deprecated = some name ∧ item.deprecation_date = some date := by
  have hattrs : ∃ ret, cpe_item_parse_attrs codec st.reader = some ret
      ∧ ret.deprecated = some name ∧ ret.deprecation_date = some date := by
    cases hn : item_tag.attribute ATTR_NAME_STR <;>
      simp [cpe_item_parse_attrs, xmlTextReaderGetAttribute, hcur, hn, hflag, hby, hcodec, hdate]
  obtain ⟨ret, hret, hdep, hdd⟩ := hattrs
  obtain ⟨item, hloop⟩ := cpe_item_parse_loop_children stop post hstop hstoptag pre hpre fuel
    st.errors ret hfuel
  have hparse : cpe_item_parse codec fuel st
      = .done ({ reader := { cur := some stop, rest := post }, errors := st.errors },
          some item) := by
    unfold cpe_item_parse
    simp only [xmlTextReaderConstLocalName, hcur, Option.map_some', htag, xmlStrcmp, ne_eq,
      not_true_eq_false, decide_False, Bool.not_false, xmlTextReaderNodeType, htype,
      decide_True, Bool.and_self, ↓reduceIte, hret, parser_state.next_element,
      xmlTextReaderNextElement, hrest]
    exact hloop
  have hk := cpe_item_parse_loop_keeps fuel _ _ _ _ hloop
  exact ⟨item, hparse, by rw [hk.2.1, hdep], by rw [hk.2.2.1, hdd]⟩

theorem cpe_item_parse_deprecated_witness :
    (∀ n ∈ [start_tag "title" [], text_node "One", end_tag "title",
        start_tag "check" [("system", "s")], text_node "id", end_tag "check",
        end_tag "cpe-item"], item_child_ok n = true)
    ∧ ∃ item, cpe_item_parse sample_codec 8 sample_deprecated_state
        = .done ({ reader := { cur := some (empty_tag "cpe-item" [("name", "cpe:/a:b:c:2")]),
                               rest := [end_tag "cpe-list"] },
                   errors := sample_deprecated_state.errors }, some item)
      ∧ item.deprecated = some { uri := "cpe:/a:b:c:2" }
      ∧ item.deprecation_date = some "2010-01-01" :=
  ⟨by decide,
   cpe_item_parse_deprecated sample_codec 8 sample_deprecated_state
    (start_tag "cpe-item" [("name", "cpe:/a:b:c:1"), ("deprecated", "true"),
      ("deprecated_by", "cpe:/a:b:c:2"), ("deprecation_date", "2010-01-01")])
    (empty_tag "cpe-item" [("name", "cpe:/a:b:c:2")])
    [start_tag "title" [], text_node "One", end_tag "title",
     start_tag "check" [("system", "s")], text_node "id", end_tag "check",
     end_tag "cpe-item"]
    [end_tag "cpe-list"] "true" "cpe:/a:b:c:2" "2010-01-01" { uri := "cpe:/a:b:c:2" }
    rfl rfl rfl (by decide) (by decide) (by decide) (by decide) rfl (by decide) rfl (by decide)
    (by decide)⟩

/-! ## Passes of the main loop -/

theorem cpe_dict_model_parse_find_root (fuel : Nat) (st : parser_state) (next_ret : Int)
    (hname : xmlTextReaderConstLocalName st.reader = some TAG_CPE_LIST_STR) :
    cpe_dict_model_parse_find (fuel + 1) st next_ret = .done (st, true) := by
  rw [cpe_dict_model_parse_find]
  simp [hname, xmlStrcmp]

theorem cpe_dict_model_parse_loop_eof (codec : cpe_codec) (fuel : Nat) (st : parser_state)
    (ret : cpe_dict_model) :
    cpe_dict_model_parse_loop codec (fuel + 1) st ret 0 = .done (st, some ret) := by
  rw [cpe_dict_model_parse_loop]
  simp

theorem cpe_dict_model_parse_loop_generator (codec : cpe_codec) (fuel : Nat) (st : parser_state)
    (ret : cpe_dict_model) (next_ret : Int) (hnr : next_ret ≠ 0)
    (hname : xmlTextReaderConstLocalName st.reader = some TAG_GENERATOR_STR) :
    cpe_dict_model_parse_loop codec (fuel + 1) st ret next_ret
      = (cpe_generator_parse fuel st).bind (fun out =>
          cpe_dict_model_parse_loop codec fuel out.1.next_element.2
            { ret with generator := out.2 } out.1.next_element.1) := by
  rw [cpe_dict_model_parse_loop]
  simp [hnr, hname, xmlStrcmp]

theorem cpe_dict_model_parse_loop_item (codec : cpe_codec) (fuel : Nat) (st : parser_state)
    (ret : cpe_dict_model) (next_ret : Int) (hnr : next_ret ≠ 0)
    (hname : xmlTextReaderConstLocalName st.reader = some TAG_CPE_ITEM_STR) :
    cpe_dict_model_parse_loop codec (fuel + 1) st ret next_ret
      = (cpe_item_parse codec fuel st).bind (fun out =>
          match out.2 with
          | none =>
            cpe_dict_model_parse_loop codec fuel out.1.next_element.2 ret out.1.next_element.1
          | some item =>
            cpe_dict_model_parse_loop codec fuel out.1
              { ret with items := ret.items ++ [item] } next_ret) := by
  have hg : xmlStrcmp (some TAG_CPE_ITEM_STR) TAG_GENERATOR_STR = true := by decide
  have hi : xmlStrcmp (some TAG_CPE_ITEM_STR) TAG_CPE_ITEM_STR = false := by decide
  rw [cpe_dict_model_parse_loop]
  simp only [bne_iff_ne, ne_eq, hnr, not_false_eq_true, ↓reduceIte, hname, hg, hi,
    Bool.not_true, Bool.false_eq_true, Bool.not_false]
  all_goals rfl

theorem cpe_dict_model_parse_loop_vendor (codec : cpe_codec) (fuel : Nat) (st : parser_state)
    (ret : cpe_dict_model) (next_ret : Int) (hnr : next_ret ≠ 0)
    (hname : xmlTextReaderConstLocalName st.reader = some TAG_VENDOR_STR) :
    cpe_dict_model_parse_loop codec (fuel + 1) st ret next_ret
      = (cpe_vendor_parse fuel st).bind (fun out =>
          cpe_dict_model_parse_loop codec fuel out.1.next_element.2
            (match out.2 with
             | some vendor => { ret with vendors := ret.vendors ++ [vendor] }
             | none => ret) out.1.next_element.1) := by
  have hg : xmlStrcmp (some TAG_VENDOR_STR) TAG_GENERATOR_STR = true := by decide
  have hi : xmlStrcmp (some TAG_VENDOR_STR) TAG_CPE_ITEM_STR = true := by decide
  have hv : xmlStrcmp (some TAG_VENDOR_STR) TAG_VENDOR_STR = false := by decide
  rw [cpe_dict_model_parse_loop]
  simp only [bne_iff_ne, ne_eq, hnr, not_false_eq_true, ↓reduceIte, hname, hg, hi, hv,
    Bool.not_true, Bool.false_eq_true, Bool.not_false]

theorem cpe_dict_model_parse_loop_component_tree (codec : cpe_codec) (fuel : Nat)
    (st : parser_state) (ret : cpe_dict_model) (next_ret : Int) (hnr : next_ret ≠ 0)
    (hname : xmlTextReaderConstLocalName st.reader = some TAG_COMPONENT_TREE_STR) :
    cpe_dict_model_parse_loop codec (fuel + 1) st ret next_ret
      = cpe_dict_model_parse_loop codec fuel st.next_element.2 ret st.next_element.1 := by
  have hg : xmlStrcmp (some TAG_COMPONENT_TREE_STR) TAG_GENERATOR_STR = true := by decide
  have hi : xmlStrcmp (some TAG_COMPONENT_TREE_STR) TAG_CPE_ITEM_STR = true := by decide
  have hv : xmlStrcmp (some TAG_COMPONENT_TREE_STR) TAG_VENDOR_STR = true := by decide
  have hc : xmlStrcmp (some TAG_COMPONENT_TREE_STR) TAG_COMPONENT_TREE_STR = false := by decide
  rw [cpe_dict_model_parse_loop]
  simp [hnr, hname, hg, hi, hv, hc]

/-- The pass of the main loop on a start tag with none of the four names the
loop knows: one diagnostic, the dictionary unchanged, on to the next start tag. -/
theorem cpe_dict_model_parse_loop_unknown (codec : cpe_codec) (fuel : Nat)
    (st : parser_state) (ret : cpe_dict_model) (next_ret : Int) (n : xmlNode)
    (hnr : next_ret ≠ 0) (hcur : st.reader.cur = some n)
    (htype : n.type = XML_READER_TYPE_ELEMENT)
    (hg : n.localName ≠ TAG_GENERATOR_STR) (hi : n.localName ≠ TAG_CPE_ITEM_STR)
    (hv : n.localName ≠ TAG_VENDOR_STR) (hc : n.localName ≠ TAG_COMPONENT_TREE_STR) :
    cpe_dict_model_parse_loop codec (fuel + 1) st ret next_ret
      = cpe_dict_model_parse_loop codec fuel
          (oscap_seterr st ERR_UNKNOWN_ELEMENT).next_element.2 ret st.next_element.1 := by
  rw [cpe_dict_model_parse_loop]
  simp [hnr, xmlTextReaderConstLocalName, hcur, xmlStrcmp, hg, hi, hv, hc,
    xmlTextReaderNodeType, htype]

/-- On a `cpe-item` start tag without "deprecated" attribute after which no
start tag other than known children is left, `cpe_item_parse` never returns. -/
theorem cpe_item_parse_diverges (codec : cpe_codec) (st : parser_state) (n : xmlNode)
    (hcur : st.reader.cur = some n) (htype : n.type = XML_READER_TYPE_ELEMENT)
    (htag : n.localName = TAG_CPE_ITEM_STR) (hdep : n.attribute ATTR_DEPRECATED_STR = none)
    (hrest : ∀ m ∈ st.reader.rest, item_child_ok m = true) (fuel : Nat) :
    cpe_item_parse codec fuel st = .timeout := by
  have hattrs : ∃ ret, cpe_item_parse_attrs codec st.reader = some ret := by
    cases hn : n.attribute ATTR_NAME_STR <;>
      simp [cpe_item_parse_attrs, xmlTextReaderGetAttribute, hcur, hn, hdep]
  obtain ⟨ret, hret⟩ := hattrs
  unfold cpe_item_parse
  simp only [xmlTextReaderConstLocalName, hcur, Option.map_some', htag, xmlStrcmp, ne_eq,
    not_true_eq_false, decide_False, Bool.not_false, xmlTextReaderNodeType, htype,
    decide_True, Bool.and_self, ↓reduceIte, hret, parser_state.next_element,
    xmlTextReaderNextElement]
  exact cpe_item_parse_loop_diverges st.reader.rest hrest fuel st.errors ret

/-! ## C3 -/

theorem scenario_large (codec : cpe_codec) (k : Nat) :
    cpe_dict_model_parse codec (9 + k) (parser_state.start scenario_document) = .timeout := by
  have hfuel : 9 + k = (k + 7) + 1 + 1 := by omega
  have hgen : cpe_generator_parse (k + 7 + 1)
      (state_at (start_tag "generator" []) (scenario_document.drop 2))
      = .done (state_at (end_tag "generator") (scenario_document.drop 9),
          some { cpe_generator_new with product_name := some "Tool",
                                        product_version := some "1.0" }) :=
    done_of_fuel_le (fun n => cpe_generator_parse n
        (state_at (start_tag "generator" []) (scenario_document.drop 2)))
      (fun n => cpe_generator_parse_mono n _) 8 (k + 7 + 1) (by omega) _ (by decide)
  have hitem : cpe_item_parse codec (k + 7)
      (state_at (start_tag "cpe-item" [("name", "cpe:/a:vendor:product:1.0")])
        (scenario_document.drop 10)) = .timeout :=
    cpe_item_parse_diverges codec _ _ rfl rfl rfl (by decide) (by decide) (k + 7)
  rw [hfuel]
  unfold cpe_dict_model_parse
  rw [cpe_dict_model_parse_find_root _ _ _ (by decide)]
  simp only [Res.bind_done, ↓reduceIte]
  have h1 : (parser_state.start scenario_document).next_element
      = (1, state_at (start_tag "generator" []) (scenario_document.drop 2)) := by decide
  rw [h1, cpe_dict_model_parse_loop_generator _ _ _ _ _ (by decide) (by decide), hgen]
  simp only [Res.bind_done]
  have h2 : (state_at (end_tag "generator") (scenario_document.drop 9)).next_element
      = (1, state_at (start_tag "cpe-item" [("name", "cpe:/a:vendor:product:1.0")])
          (scenario_document.drop 10)) := by decide
  rw [h2, cpe_dict_model_parse_loop_item _ _ _ _ _ (by decide) (by decide), hitem]
  rfl

/-- C3. The scenario document (one generator "Tool" "1.0", one entry with one
title, then the closing tags): whatever the fuel, `cpe_dict_model_parse` does
not return, as the loop of `cpe_item_parse` runs into the end of the stream
after the title and never ends. -/
theorem scenario_never_returns (codec : cpe_codec) (fuel : Nat) :
    cpe_dict_model_parse codec fuel (parser_state.start scenario_document) = .timeout :=
  timeout_of_large (fun n => cpe_dict_model_parse codec n (parser_state.start scenario_document))
    (fun n => cpe_dict_model_parse_mono codec n _) 9 (scenario_large codec) fuel

/-! ## The order in which the serializer emits -/

@[simp] theorem emitted_events_attribute (stack : List String) (a b : Option String)
    (rest : List xmlTextWriterCall) :
    emitted_events stack (WriteAttribute a b :: rest) = emitted_events stack rest := rfl

@[simp] theorem emitted_events_string_if (stack : List String) (field : Option String)
    (rest : List xmlTextWriterCall) :
    emitted_events stack (write_string_if field ++ rest) = emitted_events stack rest := by
  cases field <;> rfl

@[simp] theorem leading_attributes_attribute_if (name : String) (field : Option String)
    (rest : List xmlTextWriterCall) :
    leading_attributes (write_attribute_if name field ++ rest)
      = (match field with | some v => [(name, v)] | none => []) ++ leading_attributes rest := by
  cases field <;> rfl

@[simp] theorem leading_text_attribute_if (name : String) (field : Option String)
    (rest : List xmlTextWriterCall) :
    leading_text (write_attribute_if name field ++ rest) = leading_text rest := by
  cases field <;> rfl

@[simp] theorem leading_attributes_string_if_end (field : Option String)
    (rest : List xmlTextWriterCall) :
    leading_attributes (write_string_if field ++ EndElement :: rest) = [] := by
  cases field <;> rfl

@[simp] theorem leading_text_string_if_end (field : Option String)
    (rest : List xmlTextWriterCall) :
    leading_text (write_string_if field ++ EndElement :: rest) = field := by
  cases field <;> rfl

/-- What follows the attributes of an entry starts with no attribute call. -/
theorem leading_attributes_item_children (item : cpe_item) (rest : List xmlTextWriterCall) :
    leading_attributes
      ((item.titles.map oscap_title_export).flatten
        ++ (cpe_item_export_metadata item
        ++ (cpe_item_export_references item
        ++ (cpe_item_export_notes item
        ++ ((item.checks.map cpe_check_export).flatten ++ EndElement :: rest))))) = [] := by
  rcases item with ⟨xml, name, titles, deprecated, date, references, checks, notes, metadata⟩
  cases titles <;> cases metadata <;> cases references <;> cases notes <;> cases checks <;> rfl

theorem leading_attributes_vendor_children (v : cpe_vendor) (rest : List xmlTextWriterCall) :
    leading_attributes ((v.titles.map oscap_title_export).flatten
      ++ ((v.products.map cpe_product_export).flatten ++ EndElement :: rest)) = [] := by
  rcases v with ⟨xml, value, titles, products⟩
  cases titles <;> cases products <;> rfl

theorem document_events_append (codec : cpe_codec) (pre rest : List xmlNode) :
    ∃ X, document_events codec (pre ++ rest) = X ++ document_events codec rest := by
  induction pre with
  | nil => exact ⟨[], rfl⟩
  | cons n pre ih =>
    obtain ⟨X, hX⟩ := ih
    exact ⟨node_events codec n (pre ++ rest) ++ X, by
      simp [document_events, hX]⟩

theorem document_events_suffix (codec : cpe_codec) (a b : List xmlNode) (h : b <:+ a) :
    ∃ X, document_events codec a = X ++ document_events codec b := by
  obtain ⟨pre, rfl⟩ := h
  exact document_events_append codec pre b

theorem sublist_of_suffix (codec : cpe_codec) (a b : List xmlNode) (h : b <:+ a)
    (evs : List order_event) (hevs : evs.Sublist (document_events codec b)) :
    evs.Sublist (document_events codec a) := by
  obtain ⟨X, hX⟩ := document_events_suffix codec a b h
  rw [hX]
  exact hevs.trans (List.sublist_append_right X _)

theorem xmlTextReaderNextElement_loop_events (codec : cpe_codec) (rest : List xmlNode) :
    document_events codec (xmlTextReaderNextElement_loop rest).2.nodes
      = document_events codec rest := by
  induction rest with
  | nil => rfl
  | cons n rest ih =>
    by_cases hn : n.type = XML_READER_TYPE_ELEMENT
    · simp [xmlTextReaderNextElement_loop, hn, xmlTextReader.nodes]
    · simp [xmlTextReaderNextElement_loop, hn, ih, document_events, node_events]

theorem xmlTextReaderNextElement_loop_at_element (rest : List xmlNode) :
    (xmlTextReaderNextElement_loop rest).2.at_element := by
  induction rest with
  | nil => exact ⟨fun n h => by simp [xmlTextReaderNextElement_loop] at h, fun _ => rfl⟩
  | cons m rest ih =>
    by_cases hm : m.type = XML_READER_TYPE_ELEMENT
    · refine ⟨fun n h => ?_, fun h => ?_⟩
      · simp [xmlTextReaderNextElement_loop, hm] at h
        rw [← h]; exact hm
      · simp [xmlTextReaderNextElement_loop, hm] at h
    · simpa [xmlTextReaderNextElement_loop, hm] using ih

theorem xmlTextReaderNextElement_loop_suffix (rest : List xmlNode) :
    (xmlTextReaderNextElement_loop rest).2.nodes <:+ rest := by
  induction rest with
  | nil => simp [xmlTextReaderNextElement_loop, xmlTextReader.nodes]
  | cons m rest ih =>
    by_cases hm : m.type = XML_READER_TYPE_ELEMENT
    · simp [xmlTextReaderNextElement_loop, hm, xmlTextReader.nodes]
    · simp only [xmlTextReaderNextElement_loop, ne_eq, hm, not_false_eq_true, ↓reduceIte]
      exact ih.trans (List.suffix_cons m rest)

theorem rest_suffix_nodes (r : xmlTextReader) : r.rest <:+ r.nodes := by
  unfold xmlTextReader.nodes
  exact List.suffix_append _ _

theorem next_element_suffix (st : parser_state) :
    st.next_element.2.reader.nodes <:+ st.reader.nodes :=
  (xmlTextReaderNextElement_loop_suffix st.reader.rest).trans (rest_suffix_nodes st.reader)

theorem next_node_suffix (st : parser_state) :
    st.next_node.2.reader.nodes <:+ st.reader.nodes := by
  rw [next_node_nodes]
  exact rest_suffix_nodes st.reader

theorem next_element_at_element (st : parser_state) : st.next_element.2.reader.at_element :=
  xmlTextReaderNextElement_loop_at_element st.reader.rest

theorem reader_eta (r : xmlTextReader) (n : xmlNode) (h : r.cur = some n) :
    r = { cur := some n, rest := r.rest } := by
  cases r
  simp at h
  simp [h]

theorem nodes_of_cur (r : xmlTextReader) (n : xmlNode) (h : r.cur = some n) :
    r.nodes = n :: r.rest := by
  simp [xmlTextReader.nodes, h]

theorem cpe_item_parse_body_next_node (reader : xmlTextReader) (ret ret1 : cpe_item)
    (h : cpe_item_parse_body reader ret = .next_node ret1) :
    ret1 = ret ∧ xmlTextReaderNodeType reader ≠ XML_READER_TYPE_ELEMENT := by
  unfold cpe_item_parse_body at h
  split at h
  · next ht =>
    simp only [item_step.next_node.injEq] at h
    exact ⟨h.symm, ht⟩
  · repeat' split at h
    all_goals simp at h

theorem cpe_item_parse_body_return_ret (reader : xmlTextReader) (ret ret1 : cpe_item)
    (h : cpe_item_parse_body reader ret = .return_ret ret1) : ret1 = ret := by
  unfold cpe_item_parse_body at h
  repeat' split at h
  all_goals first
    | (simp only [item_step.return_ret.injEq] at h; exact h.symm)
    | simp at h

/-- The event that one pass of the loop of `cpe_item_parse` adds to the entry
is the event of the start tag under the cursor. -/
theorem cpe_item_parse_body_events (codec : cpe_codec) (reader : xmlTextReader)
    (ret ret1 : cpe_item) (h : cpe_item_parse_body reader ret = .next_element ret1) :
    ∃ n, reader.cur = some n ∧ ∃ ev : List order_event,
      ev.Sublist (node_events codec n reader.rest)
      ∧ ∀ kind, ret1.kind_events kind
          = ret.kind_events kind ++ ev.filter (order_event.keep kind) := by
  unfold cpe_item_parse_body at h
  split at h
  · simp at h
  · next htype =>
    have htype1 : xmlTextReaderNodeType reader = XML_READER_TYPE_ELEMENT := by
      simpa using htype
    obtain ⟨n, hc⟩ : ∃ n, reader.cur = some n := by
      cases hc : reader.cur with
      | none => simp [xmlTextReaderNodeType, hc] at htype1
      | some n => exact ⟨n, rfl⟩
    have hn : n.type = XML_READER_TYPE_ELEMENT := by
      simpa [xmlTextReaderNodeType, hc] using htype1
    have hname : ∀ tag, (!xmlStrcmp (xmlTextReaderConstLocalName reader) tag) = true
        ↔ n.localName = tag := by
      intro tag
      simp [xmlStrcmp, xmlTextReaderConstLocalName, hc]
    have heta := reader_eta reader n hc
    have hlang : xmlTextReaderConstXmlLang reader = n.lang := by
      simp [xmlTextReaderConstXmlLang, hc]
    have hattr : ∀ name, xmlTextReaderGetAttribute reader name = n.attribute name := by
      intro name
      simp [xmlTextReaderGetAttribute, hc]
    refine ⟨n, hc, ?_⟩
    simp only [hname, Bool.or_eq_true] at h
    split at h
    · next h1 =>
      have hev : node_events codec n reader.rest
          = [.title n.lang (oscap_trim (xmlTextReaderReadString reader))] := by
        rw [heta]
        simp [node_events, hn, h1, TAG_TITLE_STR, TAG_CPE_ITEM_STR]
      have hparse : oscap_title_parse reader TAG_TITLE_STR
          = some { xml := { lang := n.lang, nspace := xmlTextReaderPrefix reader, URI := none },
                   content := oscap_trim (xmlTextReaderReadString reader) } := by
        simp [oscap_title_parse, xmlStrcmp, xmlTextReaderConstLocalName, hc, h1, hlang]
      rw [hparse] at h
      simp only [item_step.next_element.injEq] at h
      subst h
      refine ⟨node_events codec n reader.rest, List.Sublist.refl _, ?_⟩
      rw [hev]
      intro kind
      cases kind <;> simp [cpe_item.kind_events, order_event.keep, oscap_title.title_event]
    · next h1 =>
      split at h
      · next h2 =>
        have hev : node_events codec n reader.rest
            = [.note n.lang (oscap_trim (xmlTextReaderReadString reader))] := by
          rw [heta]
          simp [node_events, hn, h2, TAG_NOTE_STR, TAG_TITLE_STR, TAG_CPE_ITEM_STR]
        have hparse : oscap_title_parse reader TAG_NOTE_STR
            = some { xml := { lang := n.lang, nspace := xmlTextReaderPrefix reader,
                              URI := none },
                     content := oscap_trim (xmlTextReaderReadString reader) } := by
          simp [oscap_title_parse, xmlStrcmp, xmlTextReaderConstLocalName, hc, h2, hlang]
        rw [hparse] at h
        simp only [item_step.next_element.injEq] at h
        subst h
        refine ⟨node_events codec n reader.rest, List.Sublist.refl _, ?_⟩
        rw [hev]
        intro kind
        cases kind <;> simp [cpe_item.kind_events, order_event.keep, oscap_title.note_event]
      · next h2 =>
        split at h
        · next h3 =>
          have hev : node_events codec n reader.rest
              = [.check (n.attribute ATTR_SYSTEM_STR) (n.attribute ATTR_HREF_STR)
                  (oscap_trim (xmlTextReaderReadString reader))] := by
            rw [heta]
            simp [node_events, hn, h3, TAG_CHECK_STR, TAG_NOTE_STR, TAG_TITLE_STR,
              TAG_CPE_ITEM_STR]
          have hparse : cpe_check_parse reader
              = some { xml := { lang := n.lang, nspace := xmlTextReaderPrefix reader,
                                URI := none },
                       system := n.attribute ATTR_SYSTEM_STR,
                       href := n.attribute ATTR_HREF_STR,
                       identifier := oscap_trim (xmlTextReaderReadString reader) } := by
            simp [cpe_check_parse, xmlStrcmp, xmlTextReaderConstLocalName, hc, h3, hlang,
              hattr]
          rw [hparse] at h
          simp only [item_step.next_element.injEq] at h
          subst h
          refine ⟨node_events codec n reader.rest, List.Sublist.refl _, ?_⟩
          rw [hev]
          intro kind
          cases kind <;> simp [cpe_item.kind_events, order_event.keep, cpe_check.event]
        · next h3 =>
          split at h
          · next h4 =>
            have hev : node_events codec n reader.rest
                = [.reference (n.attribute ATTR_HREF_STR)
                    (oscap_trim (xmlTextReaderReadString reader))] := by
              rw [heta]
              simp [node_events, hn, h4, TAG_REFERENCE_STR, TAG_CHECK_STR, TAG_NOTE_STR,
                TAG_TITLE_STR, TAG_CPE_ITEM_STR]
            have hparse : cpe_reference_parse reader
                = some { xml := { lang := n.lang, nspace := xmlTextReaderPrefix reader,
                                  URI := none },
                         href := n.attribute ATTR_HREF_STR,
                         content := oscap_trim (xmlTextReaderReadString reader) } := by
              simp [cpe_reference_parse, xmlStrcmp, xmlTextReaderConstLocalName, hc, h4, hlang,
                hattr]
            rw [hparse] at h
            simp only [item_step.next_element.injEq] at h
            subst h
            refine ⟨node_events codec n reader.rest, List.Sublist.refl _, ?_⟩
            rw [hev]
            intro kind
            cases kind <;> simp [cpe_item.kind_events, order_event.keep, cpe_reference.event]
          · next h4 =>
            refine ⟨[], List.nil_sublist _, ?_⟩
            split at h
            · split at h
              · simp at h
              · simp only [item_step.next_element.injEq] at h
                subst h
                intro kind
                cases kind <;> simp [cpe_item.kind_events]
            · split at h
              · simp only [item_step.next_element.injEq] at h
                subst h
                intro kind
                simp
              · simp at h

/-! The cursor only moves forward. -/

theorem cpe_generator_parse_body_reader (st : parser_state) (ret : cpe_generator) :
    (cpe_generator_parse_body st ret).1.reader = st.reader := by
  unfold cpe_generator_parse_body
  simp only
  repeat' split
  all_goals rfl

theorem cpe_generator_parse_loop_suffix (fuel : Nat) :
    ∀ (st : parser_state) (ret : cpe_generator) (st1 : parser_state) (g : cpe_generator),
      cpe_generator_parse_loop fuel st ret = .done (st1, g) →
      st1.reader.nodes <:+ st.reader.nodes := by
  induction fuel with
  | zero => intro st ret st1 g h; simp [cpe_generator_parse_loop] at h
  | succ fuel ih =>
    intro st ret st1 g h
    unfold cpe_generator_parse_loop at h
    split at h
    · have h1 := ih _ _ _ _ h
      have h2 := next_node_suffix (cpe_generator_parse_body st ret).1
      rw [cpe_generator_parse_body_reader] at h2
      exact h1.trans h2
    · simp only [Res.done.injEq, Prod.mk.injEq] at h
      exact h.1 ▸ List.suffix_refl _

theorem cpe_generator_parse_suffix (fuel : Nat) (st st1 : parser_state)
    (g : Option cpe_generator) (h : cpe_generator_parse fuel st = .done (st1, g)) :
    st1.reader.nodes <:+ st.reader.nodes := by
  unfold cpe_generator_parse at h
  simp only at h
  split at h
  · obtain ⟨out, h1, h2⟩ := Res.bind_eq_done h
    simp only [Res.done.injEq, Prod.mk.injEq] at h2
    rw [← h2.1]
    exact (cpe_generator_parse_loop_suffix fuel _ _ _ _ h1).trans (next_element_suffix st)
  · simp only [Res.done.injEq, Prod.mk.injEq] at h
    exact h.1 ▸ List.suffix_refl _

theorem cpe_vendor_parse_loop_suffix (fuel : Nat) :
    ∀ (st : parser_state) (loc : vendor_locals) (st1 : parser_state) (v : Option cpe_vendor),
      cpe_vendor_parse_loop fuel st loc = .done (st1, v) →
      st1.reader.nodes <:+ st.reader.nodes := by
  induction fuel with
  | zero => intro st loc st1 v h; simp [cpe_vendor_parse_loop] at h
  | succ fuel ih =>
    intro st loc st1 v h
    unfold cpe_vendor_parse_loop at h
    split at h
    · split at h
      · exact (ih _ _ _ _ h).trans (next_node_suffix st)
      · simp only [Res.done.injEq, Prod.mk.injEq] at h
        exact h.1 ▸ List.suffix_refl _
      · simp at h
    · simp only [Res.done.injEq, Prod.mk.injEq] at h
      exact h.1 ▸ List.suffix_refl _

theorem cpe_vendor_parse_suffix (fuel : Nat) (st st1 : parser_state)
    (v : Option cpe_vendor) (h : cpe_vendor_parse fuel st = .done (st1, v)) :
    st1.reader.nodes <:+ st.reader.nodes := by
  unfold cpe_vendor_parse at h
  simp only at h
  split at h
  · simp only [Res.done.injEq, Prod.mk.injEq] at h
    exact h.1 ▸ List.suffix_refl _
  · exact (cpe_vendor_parse_loop_suffix fuel _ _ _ _ h).trans (next_element_suffix st)

theorem cpe_item_parse_loop_suffix (fuel : Nat) :
    ∀ (st : parser_state) (ret : cpe_item) (st1 : parser_state) (item : Option cpe_item),
      cpe_item_parse_loop fuel st ret = .done (st1, item) →
      st1.reader.nodes <:+ st.reader.nodes := by
  induction fuel with
  | zero => intro st ret st1 item h; simp [cpe_item_parse_loop] at h
  | succ fuel ih =>
    intro st ret st1 item h
    unfold cpe_item_parse_loop at h
    split at h
    · split at h
      · exact (ih _ _ _ _ h).trans (next_node_suffix st)
      · exact (ih _ _ _ _ h).trans (next_element_suffix st)
      · simp only [Res.done.injEq, Prod.mk.injEq] at h
        exact h.1 ▸ List.suffix_refl _
      · simp only [Res.done.injEq, Prod.mk.injEq] at h
        exact h.1 ▸ List.suffix_refl _
    · simp only [Res.done.injEq, Prod.mk.injEq] at h
      exact h.1 ▸ List.suffix_refl _

theorem cpe_item_parse_suffix (codec : cpe_codec) (fuel : Nat) (st st1 : parser_state)
    (item : Option cpe_item) (h : cpe_item_parse codec fuel st = .done (st1, item)) :
    st1.reader.nodes <:+ st.reader.nodes := by
  unfold cpe_item_parse at h
  simp only at h
  split at h
  · split at h
    · simp only [Res.done.injEq, Prod.mk.injEq] at h
      exact h.1 ▸ List.suffix_refl _
    · exact (cpe_item_parse_loop_suffix fuel _ _ _ _ h).trans (next_element_suffix st)
  · simp only [Res.done.injEq, Prod.mk.injEq] at h
    exact h.1 ▸ List.suffix_refl _

theorem cpe_dict_model_parse_find_suffix (fuel : Nat) :
    ∀ (st : parser_state) (next_ret : Int) (st1 : parser_state) (found : Bool),
      cpe_dict_model_parse_find fuel st next_ret = .done (st1, found) →
      st1.reader.nodes <:+ st.reader.nodes := by
  induction fuel with
  | zero => intro st next_ret st1 found h; simp [cpe_dict_model_parse_find] at h
  | succ fuel ih =>
    intro st next_ret st1 found h
    unfold cpe_dict_model_parse_find at h
    simp only at h
    split at h
    · split at h
      · simp only [Res.done.injEq, Prod.mk.injEq] at h
        exact h.1 ▸ next_element_suffix st
      · exact (ih _ _ _ _ h).trans (next_element_suffix st)
    · simp only [Res.done.injEq, Prod.mk.injEq] at h
      exact h.1 ▸ List.suffix_refl _

/-- The loop of `cpe_item_parse` reads the children of an entry in document order. -/
theorem cpe_item_parse_loop_events (codec : cpe_codec) (fuel : Nat) :
    ∀ (st : parser_state) (ret : cpe_item) (st1 : parser_state) (item : cpe_item),
      cpe_item_parse_loop fuel st ret = .done (st1, some item) → st.reader.at_element →
      ∃ (evs X : List order_event), document_events codec st.reader.nodes
          = X ++ document_events codec st1.reader.nodes
        ∧ evs.Sublist X ∧ st1.reader.at_element
        ∧ ∀ kind, item.kind_events kind
            = ret.kind_events kind ++ evs.filter (order_event.keep kind) := by
  induction fuel with
  | zero => intro st ret st1 item h; simp [cpe_item_parse_loop] at h
  | succ fuel ih =>
    intro st ret st1 item h hat
    unfold cpe_item_parse_loop at h
    split at h
    · split at h
      · next ret1 hbody =>
        obtain ⟨hret, htype⟩ := cpe_item_parse_body_next_node _ _ _ hbody
        have hcur : st.reader.cur = none := by
          cases hc : st.reader.cur with
          | none => rfl
          | some n =>
            exfalso; apply htype
            simp [xmlTextReaderNodeType, hc, hat.1 n hc]
        have hrest := hat.2 hcur
        have hst : st.next_node.2 = st := by
          rcases st with ⟨⟨cur, rest⟩, errors⟩
          simp only at hcur hrest
          subst hcur; subst hrest
          rfl
        rw [hst, hret] at h
        exact ih _ _ _ _ h hat
      · next ret1 hbody =>
        obtain ⟨n, hc, ev, hev, hkinds⟩ := cpe_item_parse_body_events codec _ _ _ hbody
        obtain ⟨evs, X, hX, hsub, hat1, hk⟩ := ih _ _ _ _ h (next_element_at_element st)
        refine ⟨ev ++ evs, node_events codec n st.reader.rest ++ X, ?_, hev.append hsub, hat1, ?_⟩
        · rw [nodes_of_cur _ _ hc]
          simp only [document_events, List.append_assoc]
          congr 1
          rw [← hX]
          simp only [parser_state.next_element, xmlTextReaderNextElement]
          exact (xmlTextReaderNextElement_loop_events codec st.reader.rest).symm
        · intro kind
          rw [hk kind, hkinds kind, List.filter_append, List.append_assoc]
      · simp at h
      · next ret1 hbody =>
        have hret := cpe_item_parse_body_return_ret _ _ _ hbody
        simp only [Res.done.injEq, Prod.mk.injEq, Option.some.injEq] at h
        obtain ⟨h1, h2⟩ := h
        subst h1; subst h2
        exact ⟨[], [], rfl, List.Sublist.refl _, hat, fun kind => by simp [hret]⟩
    · simp only [Res.done.injEq, Prod.mk.injEq, Option.some.injEq] at h
      obtain ⟨h1, h2⟩ := h
      subst h1; subst h2
      exact ⟨[], [], rfl, List.Sublist.refl _, hat, fun kind => by simp⟩

theorem order_event.keep_item (kind : order_kind) (name : Option String) :
    order_event.keep kind (.item name) = decide (kind ≠ .vendor) := by
  cases kind <;> rfl

theorem cpe_item.start_kind_events_eq (codec : cpe_codec) (item : cpe_item) (kind : order_kind) :
    item.start_kind_events codec kind
      = if kind = .vendor then [] else .item (item_name_text codec item.name)
          :: item.kind_events kind := by
  cases kind <;> rfl

theorem cpe_item_parse_attrs_fresh (codec : cpe_codec) (reader : xmlTextReader) (ret : cpe_item)
    (h : cpe_item_parse_attrs codec reader = some ret) :
    ret.name = (xmlTextReaderGetAttribute reader ATTR_NAME_STR).bind codec.cpe_name_new
      ∧ ret.titles = [] ∧ ret.notes = [] ∧ ret.checks = [] ∧ ret.references = []
      ∧ ret.metadata = none := by
  unfold cpe_item_parse_attrs at h
  revert h
  cases xmlTextReaderGetAttribute reader ATTR_NAME_STR <;>
    cases xmlTextReaderGetAttribute reader ATTR_DEPRECATED_STR <;>
    cases (xmlTextReaderGetAttribute reader ATTR_DEPRECATED_BY_STR).bind codec.cpe_name_new <;>
    cases xmlTextReaderGetAttribute reader ATTR_DEPRECATION_DATE_STR <;>
    simp [cpe_item_new] <;> intro h <;> subst h <;> simp

/-- An entry that `cpe_item_parse` answers is made of the `cpe-item` start tag
under the cursor and of start tags after it, taken in document order. -/
theorem cpe_item_parse_events (codec : cpe_codec) (fuel : Nat) (st st1 : parser_state)
    (item : cpe_item) (h : cpe_item_parse codec fuel st = .done (st1, some item)) :
    ∃ (evs X : List order_event), document_events codec st.reader.nodes
        = X ++ document_events codec st1.reader.nodes
      ∧ evs.Sublist X ∧ st1.reader.at_element
      ∧ ∀ kind, evs.filter (order_event.keep kind) = item.start_kind_events codec kind := by
  unfold cpe_item_parse at h
  simp only at h
  split at h
  · next hcond =>
    simp only [Bool.and_eq_true, Bool.not_eq_true', decide_eq_true_eq] at hcond
    obtain ⟨hname, htype⟩ := hcond
    obtain ⟨n, hc⟩ : ∃ n, st.reader.cur = some n := by
      cases hc : st.reader.cur with
      | none => simp [xmlTextReaderNodeType, hc] at htype
      | some n => exact ⟨n, rfl⟩
    have hn : n.type = XML_READER_TYPE_ELEMENT := by
      simpa [xmlTextReaderNodeType, hc] using htype
    have hnm : n.localName = TAG_CPE_ITEM_STR := by
      simpa [xmlStrcmp, xmlTextReaderConstLocalName, hc] using hname
    split at h
    · simp at h
    · next ret hattrs =>
      obtain ⟨hrn, ht, hno, hch, hre, _⟩ := cpe_item_parse_attrs_fresh codec _ _ hattrs
      obtain ⟨evs, X, hX, hsub, hat1, hk⟩ :=
        cpe_item_parse_loop_events codec fuel _ _ _ _ h (next_element_at_element st)
      have hkeep := cpe_item_parse_loop_keeps fuel _ _ _ _ h
      have hev : node_events codec n st.reader.rest
          = [.item (item_name_text codec item.name)] := by
        rw [hkeep.1, hrn]
        simp [node_events, hn, hnm, xmlTextReaderGetAttribute, hc]
      refine ⟨.item (item_name_text codec item.name) :: evs,
        node_events codec n st.reader.rest ++ X, ?_, ?_, hat1, ?_⟩
      · rw [nodes_of_cur _ _ hc]
        simp only [document_events, List.append_assoc]
        congr 1
        rw [← hX]
        simp only [parser_state.next_element, xmlTextReaderNextElement]
        exact (xmlTextReaderNextElement_loop_events codec st.reader.rest).symm
      · rw [hev]
        exact List.Sublist.cons₂ _ hsub
      · intro kind
        have hk1 := hk kind
        have hret : ret.kind_events kind = [] := by
          cases kind <;> simp [cpe_item.kind_events, ht, hno, hch, hre]
        rw [hret, List.nil_append] at hk1
        rw [List.filter_cons, order_event.keep_item, cpe_item.start_kind_events_eq, ← hk1]
        by_cases hv : kind = .vendor
        · subst hv
          rw [if_neg (by simp), if_pos rfl]
          rfl
        · rw [if_pos (by simpa using hv), if_neg hv]
  · simp at h

theorem list_modify_length {α : Type} (f : α → α) (i : Nat) (l : List α) :
    (list_modify f i l).length = l.length := by
  induction l generalizing i with
  | nil => cases i <;> rfl
  | cons x xs ih =>
    cases i with
    | zero => rfl
    | succ i => simp [list_modify, ih]

theorem cpe_vendor_parse_body_value (reader : xmlTextReader) (loc loc1 : vendor_locals)
    (h : cpe_vendor_parse_body reader loc = .next_node loc1) :
    loc1.ret.value = loc.ret.value ∧ loc1.ret.xml = loc.ret.xml := by
  unfold cpe_vendor_parse_body at h
  simp only at h
  repeat' split at h
  all_goals first
    | (simp only [vendor_step.next_node.injEq] at h; subst h; exact ⟨rfl, rfl⟩)
    | simp at h

theorem cpe_vendor_parse_loop_value (fuel : Nat) :
    ∀ (st : parser_state) (loc : vendor_locals) (st1 : parser_state) (v : cpe_vendor),
      cpe_vendor_parse_loop fuel st loc = .done (st1, some v) →
      v.value = loc.ret.value ∧ v.xml = loc.ret.xml := by
  induction fuel with
  | zero => intro st loc st1 v h; simp [cpe_vendor_parse_loop] at h
  | succ fuel ih =>
    intro st loc st1 v h
    unfold cpe_vendor_parse_loop at h
    split at h
    · split at h
      · next loc1 hbody =>
        have h1 := ih _ _ _ _ h
        have h2 := cpe_vendor_parse_body_value _ _ _ hbody
        exact ⟨h1.1.trans h2.1, h1.2.trans h2.2⟩
      · simp at h
      · simp at h
    · simp only [Res.done.injEq, Prod.mk.injEq, Option.some.injEq] at h
      rw [← h.2]
      exact ⟨rfl, rfl⟩

/-- A vendor that `cpe_vendor_parse` answers is the one of the `vendor` start
tag under the cursor. -/
theorem cpe_vendor_parse_events (codec : cpe_codec) (fuel : Nat) (st st1 : parser_state)
    (v : cpe_vendor) (h : cpe_vendor_parse fuel st = .done (st1, some v))
    (hat : st.reader.at_element) :
    ∃ X : List order_event, document_events codec st.reader.nodes
        = v.event :: (X ++ document_events codec st1.reader.nodes) := by
  have hsuf := cpe_vendor_parse_suffix fuel st st1 (some v) h
  unfold cpe_vendor_parse at h
  simp only at h
  split at h
  · simp at h
  · next hname =>
    obtain ⟨n, hc⟩ : ∃ n, st.reader.cur = some n := by
      cases hc : st.reader.cur with
      | none => simp [xmlStrcmp, xmlTextReaderConstLocalName, hc] at hname
      | some n => exact ⟨n, rfl⟩
    have hnm : n.localName = TAG_VENDOR_STR := by
      simpa [xmlStrcmp, xmlTextReaderConstLocalName, hc] using hname
    have hn : n.type = XML_READER_TYPE_ELEMENT := hat.1 n hc
    have hval := (cpe_vendor_parse_loop_value fuel _ _ _ _ h).1
    have hsuf2 := cpe_vendor_parse_loop_suffix fuel _ _ _ _ h
    obtain ⟨X, hX⟩ := document_events_suffix codec _ _
      (hsuf2.trans (xmlTextReaderNextElement_loop_suffix st.reader.rest))
    refine ⟨X, ?_⟩
    rw [nodes_of_cur _ _ hc]
    simp only [document_events]
    rw [hX]
    have hev : node_events codec n st.reader.rest = [v.event] := by
      simp [node_events, hn, hnm, cpe_vendor.event, hval, xmlTextReaderGetAttribute, hc,
        TAG_VENDOR_STR, TAG_REFERENCE_STR, TAG_CHECK_STR, TAG_NOTE_STR, TAG_TITLE_STR,
        TAG_CPE_ITEM_STR]
    rw [hev]
    rfl

theorem cpe_dict_model.kind_events_add_item (codec : cpe_codec) (ret : cpe_dict_model)
    (item : cpe_item) (kind : order_kind) :
    cpe_dict_model.kind_events codec { ret with items := ret.items ++ [item] } kind
      = ret.kind_events codec kind ++ item.start_kind_events codec kind := by
  cases kind <;> simp [cpe_dict_model.kind_events, cpe_item.start_kind_events]

theorem cpe_dict_model.kind_events_add_vendor (codec : cpe_codec) (ret : cpe_dict_model)
    (v : cpe_vendor) (kind : order_kind) :
    cpe_dict_model.kind_events codec { ret with vendors := ret.vendors ++ [v] } kind
      = ret.kind_events codec kind ++ [v.event].filter (order_event.keep kind) := by
  cases kind <;> simp [cpe_dict_model.kind_events, cpe_vendor.event, order_event.keep]

theorem cpe_dict_model.kind_events_generator (codec : cpe_codec) (ret : cpe_dict_model)
    (g : Option cpe_generator) (kind : order_kind) :
    cpe_dict_model.kind_events codec { ret with generator := g } kind
      = ret.kind_events codec kind := by
  cases kind <;> rfl

theorem oscap_seterr_reader (st : parser_state) (msg : String) :
    (oscap_seterr st msg).reader = st.reader := rfl

theorem oscap_seterr_next_element_reader (st : parser_state) (msg : String) :
    (oscap_seterr st msg).next_element.2.reader = st.next_element.2.reader := rfl

/-- The main loop of `cpe_dict_model_parse` stores entries and vendors in
document order, and leaves the namespace pairs alone. -/
theorem cpe_dict_model_parse_loop_events (codec : cpe_codec) (fuel : Nat) :
    ∀ (st : parser_state) (ret : cpe_dict_model) (next_ret : Int) (st1 : parser_state)
      (dict : cpe_dict_model),
      cpe_dict_model_parse_loop codec fuel st ret next_ret = .done (st1, some dict) →
      st.reader.at_element →
      dict.xmlns = ret.xmlns ∧ dict.xml = ret.xml
      ∧ ∃ evs : List order_event, evs.Sublist (document_events codec st.reader.nodes)
        ∧ ∀ kind, dict.kind_events codec kind
            = ret.kind_events codec kind ++ evs.filter (order_event.keep kind) := by
  induction fuel with
  | zero => intro st ret next_ret st1 dict h; simp [cpe_dict_model_parse_loop] at h
  | succ fuel ih =>
    intro st ret next_ret st1 dict h hat
    unfold cpe_dict_model_parse_loop at h
    split at h
    · split at h
      · obtain ⟨out, h1, h2⟩ := Res.bind_eq_done h
        obtain ⟨hx, hxml, evs, hsub, hk⟩ := ih _ _ _ _ _ h2 (next_element_at_element out.1)
        refine ⟨hx, hxml, evs, ?_, ?_⟩
        · exact sublist_of_suffix codec _ _
            ((next_element_suffix out.1).trans (cpe_generator_parse_suffix fuel _ _ _ h1)) _ hsub
        · intro kind
          rw [hk kind, cpe_dict_model.kind_events_generator]
      · split at h
        · obtain ⟨out, h1, h2⟩ := Res.bind_eq_done h
          rcases out with ⟨st2, _ | item⟩
          · simp only at h2
            obtain ⟨hx, hxml, evs, hsub, hk⟩ := ih _ _ _ _ _ h2 (next_element_at_element st2)
            refine ⟨hx, hxml, evs, ?_, hk⟩
            exact sublist_of_suffix codec _ _
              ((next_element_suffix st2).trans (cpe_item_parse_suffix codec fuel _ _ _ h1)) _ hsub
          · simp only [cpe_dict_model_add_item] at h2
            obtain ⟨evi, X, hX, hsubi, hat2, hki⟩ := cpe_item_parse_events codec fuel _ _ _ h1
            obtain ⟨hx, hxml, evs, hsub, hk⟩ := ih _ _ _ _ _ h2 hat2
            refine ⟨hx, hxml, evi ++ evs, ?_, ?_⟩
            · rw [hX]
              exact hsubi.append hsub
            · intro kind
              rw [hk kind, cpe_dict_model.kind_events_add_item, List.filter_append, hki kind,
                List.append_assoc]
        · split at h
          · obtain ⟨out, h1, h2⟩ := Res.bind_eq_done h
            rcases out with ⟨st2, _ | v⟩
            · simp only at h2
              obtain ⟨hx, hxml, evs, hsub, hk⟩ := ih _ _ _ _ _ h2 (next_element_at_element st2)
              refine ⟨hx, hxml, evs, ?_, hk⟩
              exact sublist_of_suffix codec _ _
                ((next_element_suffix st2).trans (cpe_vendor_parse_suffix fuel _ _ _ h1)) _ hsub
            · simp only at h2
              obtain ⟨X, hX⟩ := cpe_vendor_parse_events codec fuel _ _ _ h1 hat
              obtain ⟨hx, hxml, evs, hsub, hk⟩ := ih _ _ _ _ _ h2 (next_element_at_element st2)
              refine ⟨hx, hxml, v.event :: evs, ?_, ?_⟩
              · rw [hX]
                refine List.Sublist.cons₂ _ ?_
                exact (sublist_of_suffix codec _ _ (next_element_suffix st2) _ hsub).trans
                  (List.sublist_append_right X _)
              · intro kind
                rw [hk kind, cpe_dict_model.kind_events_add_vendor, List.append_assoc,
                  ← List.filter_append]
                rfl
          · split at h
            · obtain ⟨hx, hxml, evs, hsub, hk⟩ := ih _ _ _ _ _ h (next_element_at_element st)
              exact ⟨hx, hxml, evs, sublist_of_suffix codec _ _ (next_element_suffix st) _ hsub,
                hk⟩
            · split at h
              · obtain ⟨hx, hxml, evs, hsub, hk⟩ := ih _ _ _ _ _ h
                  (next_element_at_element (oscap_seterr st ERR_UNKNOWN_ELEMENT))
                refine ⟨hx, hxml, evs, ?_, hk⟩
                rw [oscap_seterr_next_element_reader] at hsub
                exact sublist_of_suffix codec _ _ (next_element_suffix st) _ hsub
              · obtain ⟨hx, hxml, evs, hsub, hk⟩ := ih _ _ _ _ _ h (next_element_at_element st)
                exact ⟨hx, hxml, evs,
                  sublist_of_suffix codec _ _ (next_element_suffix st) _ hsub, hk⟩
    · simp only [Res.done.injEq, Prod.mk.injEq, Option.some.injEq] at h
      rw [← h.2]
      exact ⟨rfl, rfl, [], List.nil_sublist _, fun kind => by simp⟩

/-- The search of the root stops on the first start tag named "cpe-list". -/
theorem cpe_dict_model_parse_find_at_root (root : xmlNode) (post : List xmlNode)
    (hroot : root.localName = TAG_CPE_LIST_STR) (htype : root.type = XML_READER_TYPE_ELEMENT)
    (fuel : Nat) :
    ∀ (st : parser_state) (pre : List xmlNode) (st1 : parser_state) (found : Bool),
      st.reader.nodes = pre ++ root :: post → (∀ n ∈ pre, n.localName ≠ TAG_CPE_LIST_STR) →
      cpe_dict_model_parse_find fuel st 1 = .done (st1, found) →
      found = true → st1.reader = { cur := some root, rest := post } := by
  induction fuel with
  | zero => intro st pre st1 found _ _ h; simp [cpe_dict_model_parse_find] at h
  | succ fuel ih =>
    intro st pre st1 found hnodes hpre h hfound
    unfold cpe_dict_model_parse_find at h
    simp only at h
    have hstep : ∀ pre1 : List xmlNode, st.reader.rest = pre1 ++ root :: post →
        (∀ n ∈ pre1, n.localName ≠ TAG_CPE_LIST_STR) →
        xmlStrcmp (xmlTextReaderConstLocalName st.reader) TAG_CPE_LIST_STR = true →
        st1.reader = { cur := some root, rest := post } := by
      intro pre1 hrest hpre1 hcond
      obtain ⟨skipped, pre2, x, xs, hsplit, _, hx, hnext⟩ :=
        xmlTextReaderNextElement_loop_before root post htype pre1
      simp only [hcond, beq_self_eq_true, Bool.and_self, ↓reduceIte, parser_state.next_element,
        xmlTextReaderNextElement, hrest, hnext] at h
      simp only [show ((1 : Int) == 0) = false by decide, Bool.false_eq_true, ↓reduceIte] at h
      exact ih _ pre2 _ _ (by simp [xmlTextReader.nodes, hx])
        (fun n hn => hpre1 n (by rw [hsplit]; simp [hn])) h hfound
    cases hc : st.reader.cur with
    | none =>
      have hrest : st.reader.rest = pre ++ root :: post := by
        simpa [xmlTextReader.nodes, hc] using hnodes
      exact hstep pre hrest hpre (by simp [xmlStrcmp, xmlTextReaderConstLocalName, hc])
    | some c =>
      rw [nodes_of_cur _ _ hc] at hnodes
      cases pre with
      | nil =>
        simp only [List.nil_append, List.cons.injEq] at hnodes
        obtain ⟨hcr, hrest⟩ := hnodes
        have hcond : xmlStrcmp (xmlTextReaderConstLocalName st.reader) TAG_CPE_LIST_STR
            = false := by
          simp [xmlStrcmp, xmlTextReaderConstLocalName, hc, hcr, hroot]
        simp only [hcond, Bool.false_and, Bool.false_eq_true, ↓reduceIte, Res.done.injEq,
          Prod.mk.injEq] at h
        rw [← h.1, reader_eta _ _ hc, hcr, hrest]
      | cons p pre1 =>
        simp only [List.cons_append, List.cons.injEq] at hnodes
        obtain ⟨hcp, hrest⟩ := hnodes
        refine hstep pre1 hrest (fun n hn => hpre n (by simp [hn])) ?_
        have := hpre p (by simp)
        simpa [xmlStrcmp, xmlTextReaderConstLocalName, hc, hcp] using this

/-! ## Attributes written on the root -/

theorem on_nodes_cons (errors : List String) (n : xmlNode) (nodes : List xmlNode) :
    on_nodes errors (n :: nodes) = { reader := { cur := some n, rest := nodes }, errors := errors } :=
  rfl

theorem next_node_on_nodes (errors : List String) (n : xmlNode) (nodes : List xmlNode) :
    (on_nodes errors (n :: nodes)).next_node.2 = on_nodes errors nodes := by
  cases nodes <;> rfl

theorem next_node_mk (errors : List String) (cur : Option xmlNode) (nodes : List xmlNode) :
    ({ reader := { cur := cur, rest := nodes }, errors := errors } : parser_state).next_node.2
      = on_nodes errors nodes := by
  cases nodes <;> rfl

theorem next_element_mk (errors : List String) (cur : Option xmlNode) (nodes : List xmlNode) :
    ({ reader := { cur := cur, rest := nodes }, errors := errors } : parser_state).next_element
      = ((xmlTextReaderNextElement_loop nodes).1, on_element errors nodes) :=
  rfl

theorem on_element_cons (errors : List String) (n : xmlNode) (nodes : List xmlNode)
    (h : n.type = XML_READER_TYPE_ELEMENT) :
    on_element errors (n :: nodes)
      = { reader := { cur := some n, rest := nodes }, errors := errors } := by
  simp [on_element, xmlTextReaderNextElement_loop, h]

theorem on_element_skip (errors : List String) (skipped nodes : List xmlNode)
    (h : ∀ n ∈ skipped, n.type ≠ XML_READER_TYPE_ELEMENT) :
    on_element errors (skipped ++ nodes) = on_element errors nodes := by
  simp [on_element, xmlTextReaderNextElement_loop_skip skipped nodes h]

theorem text_type_ne (content : String) : text_type content ≠ XML_READER_TYPE_ELEMENT := by
  unfold text_type
  split <;> simp

theorem text_nodes_type (lang : Option String) (content : String) :
    ∀ n ∈ text_nodes lang content,
      n.type ≠ XML_READER_TYPE_ELEMENT ∧ n.type ≠ XML_READER_TYPE_END_ELEMENT
        ∧ n.localName = "#text" := by
  intro n hn
  unfold text_nodes at hn
  split at hn
  · simp at hn
  · simp only [List.mem_singleton] at hn
    subst hn
    refine ⟨text_type_ne content, ?_, rfl⟩
    show text_type content ≠ _
    unfold text_type
    split <;> simp

theorem collectText_text_nodes (lang : Option String) (content : String) (nodes : List xmlNode) :
    collectText 0 (text_nodes lang content ++ nodes) = content ++ collectText 0 nodes := by
  unfold text_nodes
  split
  · next h => simp [h]
  · simp only [List.singleton_append]
    by_cases hall : content.data.all isspace = true
    · simp [collectText, text_type, hall]
    · simp [collectText, text_type, hall]

theorem collectText_end (name : String) (nspace lang : Option String) (nodes : List xmlNode) :
    collectText 0 (xml_end name nspace lang :: nodes) = "" := by
  rw [collectText]
  rfl

/-- An element with at most a text, as the cursor sees it: the node of its
start tag, then nodes that are no start tags; the text read on the start tag
is the text written, absent for the empty text. -/
theorem text_element_view (name : String) (nspace lang : Option String)
    (attrs : List (String × String)) (text : Option String) :
    ∃ (n : xmlNode) (body : List xmlNode),
      text_element_nodes name nspace lang attrs text = n :: body
      ∧ n.type = XML_READER_TYPE_ELEMENT ∧ n.localName = name ∧ n.nspace = nspace
      ∧ n.lang = lang ∧ n.attrs = attrs
      ∧ (∀ m ∈ body, m.type ≠ XML_READER_TYPE_ELEMENT
          ∧ (m.localName = "#text" ∨ m.localName = name))
      ∧ ∀ nodes, xmlTextReaderReadString { cur := some n, rest := body ++ nodes }
          = if text = some "" then none else text := by
  cases text with
  | none =>
    refine ⟨xml_element name nspace lang attrs true, [], rfl, rfl, rfl, rfl, rfl, rfl, ?_, ?_⟩
    · simp
    · intro nodes
      simp [xmlTextReaderReadString, xml_element]
  | some s =>
    refine ⟨xml_element name nspace lang attrs false,
      text_nodes lang s ++ [xml_end name nspace lang], rfl, rfl, rfl, rfl, rfl, rfl, ?_, ?_⟩
    · intro m hm
      rcases List.mem_append.1 hm with hm | hm
      · exact ⟨(text_nodes_type lang s m hm).1, Or.inl (text_nodes_type lang s m hm).2.2⟩
      · simp only [List.mem_singleton] at hm
        subst hm
        exact ⟨by simp [xml_end], Or.inr rfl⟩
    · intro nodes
      by_cases hs : s = ""
      · subst hs
        simp [xmlTextReaderReadString, xml_element, text_nodes, xml_end]
      · have hne : text_nodes lang s
            = [{ type := text_type s, localName := "#text", nspace := none, lang := lang,
                 attrs := [], value := s, isEmpty := false }] := by
          simp [text_nodes, hs]
        have hc := collectText_text_nodes lang s (xml_end name nspace lang :: nodes)
        rw [collectText_end] at hc
        simp only [List.append_assoc, List.singleton_append]
        simp only [xmlTextReaderReadString, xml_element, Bool.false_eq_true, ↓reduceIte]
        rw [hne] at hc ⊢
        simp only [List.singleton_append] at hc ⊢
        have ht : text_type s ≠ XML_READER_TYPE_END_ELEMENT := by
          unfold text_type
          split <;> simp
        simp [ht, hc, hs]

/-- The parser stores a text without white space at its ends as it reads it. -/
theorem oscap_trim_stored (text : Option String) (h : stored_text text = true) :
    oscap_trim text = text ∧ text ≠ some "" := by
  cases text with
  | none => exact ⟨rfl, by simp⟩
  | some s =>
    obtain ⟨cs⟩ := s
    simp only [stored_text] at h
    cases cs with
    | nil => simp at h
    | cons c cs =>
      have hlast : ∃ b, (c :: cs).getLast? = some b := by
        cases hl : (c :: cs).getLast? with
        | none => simp at hl
        | some b => exact ⟨b, rfl⟩
      obtain ⟨b, hb⟩ := hlast
      simp only [List.head?_cons, hb, Bool.and_eq_true, Bool.not_eq_true'] at h
      refine ⟨?_, ?_⟩
      · simp only [oscap_trim, Option.map_some', Option.some.injEq]
        congr 1
        have h1 : (c :: cs).dropWhile isspace = c :: cs := by
          simp [List.dropWhile, h.1]
        rw [h1]
        have h2 : (c :: cs).reverse = b :: (c :: cs).dropLast.reverse := by
          have := List.dropLast_append_getLast? b hb
          conv_lhs => rw [← this]
          simp
        rw [h2]
        have h3 : (b :: (c :: cs).dropLast.reverse).dropWhile isspace
            = b :: (c :: cs).dropLast.reverse := by
          simp [List.dropWhile, h.2]
        rw [h3, ← h2, List.reverse_reverse]
      · intro hh
        exact absurd (congrArg String.data (Option.some.inj hh)) (by simp)

theorem attribute_of_optional (name : String) (value : Option String)
    (attrs : List (String × String)) :
    attribute_of (optional_attribute name value ++ attrs) name
      = match value with
        | some v => some v
        | none => attribute_of attrs name := by
  cases value <;> simp [optional_attribute, attribute_of]

theorem attribute_of_optional_ne (name other : String) (value : Option String)
    (attrs : List (String × String)) (h : other ≠ name) :
    attribute_of (optional_attribute other value ++ attrs) name = attribute_of attrs name := by
  have hb : (other == name) = false := by simpa using h
  cases value <;> simp [optional_attribute, attribute_of, List.find?, hb]

theorem attribute_eq_attribute_of (n : xmlNode) (name : String) :
    n.attribute name = attribute_of n.attrs name := rfl

/-! ## The loop of `cpe_item_parse` on written children -/

theorem oscap_title_parse_nodes (name : String) (t : oscap_title) (n : xmlNode)
    (body nodes : List xmlNode) (ht : t.canonical = true)
    (hname : n.localName = name) (hns : n.nspace = t.xml.nspace) (hlang : n.lang = t.xml.lang)
    (hread : xmlTextReaderReadString { cur := some n, rest := body ++ nodes }
      = if t.content = some "" then none else t.content) :
    oscap_title_parse { cur := some n, rest := body ++ nodes } name = some t := by
  simp only [oscap_title.canonical, Bool.and_eq_true, decide_eq_true_eq] at ht
  obtain ⟨huri, htext⟩ := ht
  obtain ⟨htrim, hne⟩ := oscap_trim_stored _ htext
  rw [if_neg hne] at hread
  obtain ⟨⟨lang, nspace, uri⟩, content⟩ := t
  simp only at huri hns hlang hread htrim
  subst huri
  simp [oscap_title_parse, xmlStrcmp, xmlTextReaderConstLocalName, hname,
    xmlTextReaderConstXmlLang, xmlTextReaderPrefix, hns, hlang, hread, htrim]

theorem cpe_item_parse_loop_title (t : oscap_title) (ht : t.canonical = true) (fuel : Nat)
    (errors : List String) (ret : cpe_item) (nodes : List xmlNode) :
    cpe_item_parse_loop (fuel + 1) (on_element errors (t.nodes TAG_TITLE_STR ++ nodes)) ret
      = cpe_item_parse_loop fuel (on_element errors nodes)
          { ret with titles := ret.titles ++ [t] } := by
  obtain ⟨n, body, hnodes, htype, hname, hns, hlang, -, hbody, hread⟩ :=
    text_element_view TAG_TITLE_STR t.xml.nspace t.xml.lang (lang_attribute t.xml.lang) t.content
  have hparse := oscap_title_parse_nodes TAG_TITLE_STR t n body nodes ht hname hns hlang
    (hread nodes)
  have h1 : xmlStrcmp (some TAG_TITLE_STR) TAG_CPE_ITEM_STR = true := by decide
  have h2 : xmlStrcmp (some TAG_TITLE_STR) TAG_TITLE_STR = false := by decide
  rw [oscap_title.nodes, hnodes, List.cons_append, on_element_cons _ _ _ htype,
    cpe_item_parse_loop]
  simp only [xmlTextReaderConstLocalName, Option.map_some', hname, h1, ↓reduceIte,
    cpe_item_parse_body, xmlTextReaderNodeType, htype, ne_eq, not_true_eq_false, h2,
    Bool.not_false, hparse, next_element_mk]
  rw [on_element_skip errors body nodes (fun m hm => (hbody m hm).1)]

theorem cpe_item_parse_loop_titles (ts : List oscap_title)
    (hts : ts.all oscap_title.canonical = true) (fuel : Nat) (errors : List String)
    (ret : cpe_item) (nodes : List xmlNode) :
    cpe_item_parse_loop (fuel + ts.length)
        (on_element errors ((ts.map (oscap_title.nodes TAG_TITLE_STR)).flatten ++ nodes)) ret
      = cpe_item_parse_loop fuel (on_element errors nodes)
          { ret with titles := ret.titles ++ ts } := by
  induction ts generalizing ret with
  | nil => simp
  | cons t ts ih =>
    simp only [List.all_cons, Bool.and_eq_true] at hts
    simp only [List.map_cons, List.flatten_cons, List.append_assoc, List.length_cons]
    rw [← Nat.add_assoc, cpe_item_parse_loop_title t hts.1, ih hts.2]
    simp

theorem cpe_item_parse_loop_note (t : oscap_title) (ht : t.canonical = true) (fuel : Nat)
    (errors : List String) (ret : cpe_item) (nodes : List xmlNode) :
    cpe_item_parse_loop (fuel + 1) (on_element errors (t.nodes TAG_NOTE_STR ++ nodes)) ret
      = cpe_item_parse_loop fuel (on_element errors nodes)
          { ret with notes := ret.notes ++ [t] } := by
  obtain ⟨n, body, hnodes, htype, hname, hns, hlang, -, hbody, hread⟩ :=
    text_element_view TAG_NOTE_STR t.xml.nspace t.xml.lang (lang_attribute t.xml.lang) t.content
  have hparse := oscap_title_parse_nodes TAG_NOTE_STR t n body nodes ht hname hns hlang
    (hread nodes)
  have h1 : xmlStrcmp (some TAG_NOTE_STR) TAG_CPE_ITEM_STR = true := by decide
  have h2 : xmlStrcmp (some TAG_NOTE_STR) TAG_TITLE_STR = true := by decide
  have h3 : xmlStrcmp (some TAG_NOTE_STR) TAG_NOTE_STR = false := by decide
  rw [oscap_title.nodes, hnodes, List.cons_append, on_element_cons _ _ _ htype,
    cpe_item_parse_loop]
  simp only [xmlTextReaderConstLocalName, Option.map_some', hname, h1, ↓reduceIte,
    cpe_item_parse_body, xmlTextReaderNodeType, htype, ne_eq, not_true_eq_false, h2, h3,
    Bool.not_false, Bool.not_true, Bool.false_eq_true, hparse, next_element_mk]
  rw [on_element_skip errors body nodes (fun m hm => (hbody m hm).1)]

theorem cpe_item_parse_loop_note_list (ts : List oscap_title)
    (hts : ts.all oscap_title.canonical = true) (fuel : Nat) (errors : List String)
    (ret : cpe_item) (nodes : List xmlNode) :
    cpe_item_parse_loop (fuel + ts.length)
        (on_element errors ((ts.map (oscap_title.nodes TAG_NOTE_STR)).flatten ++ nodes)) ret
      = cpe_item_parse_loop fuel (on_element errors nodes)
          { ret with notes := ret.notes ++ ts } := by
  induction ts generalizing ret with
  | nil => simp
  | cons t ts ih =>
    simp only [List.all_cons, Bool.and_eq_true] at hts
    simp only [List.map_cons, List.flatten_cons, List.append_assoc, List.length_cons]
    rw [← Nat.add_assoc, cpe_item_parse_loop_note t hts.1, ih hts.2]
    simp

theorem cpe_item_parse_loop_check (c : cpe_check) (hc : c.canonical = true) (fuel : Nat)
    (errors : List String) (ret : cpe_item) (nodes : List xmlNode) :
    cpe_item_parse_loop (fuel + 1) (on_element errors (c.nodes ++ nodes)) ret
      = cpe_item_parse_loop fuel (on_element errors nodes)
          { ret with checks := ret.checks ++ [c] } := by
  obtain ⟨n, body, hnodes, htype, hname, hns, hlang, hattrs, hbody, hread⟩ :=
    text_element_view TAG_CHECK_STR c.xml.nspace none
      (optional_attribute ATTR_SYSTEM_STR c.system ++ optional_attribute ATTR_HREF_STR c.href)
      c.identifier
  simp only [cpe_check.canonical, Bool.and_eq_true, decide_eq_true_eq] at hc
  obtain ⟨⟨hl, huri⟩, htext⟩ := hc
  obtain ⟨htrim, hne⟩ := oscap_trim_stored _ htext
  have hparse : cpe_check_parse { cur := some n, rest := body ++ nodes } = some c := by
    have hr := hread nodes
    rw [if_neg hne] at hr
    obtain ⟨⟨lang, nspace, uri⟩, system, href, identifier⟩ := c
    simp only at hl huri hns hlang hr htrim hattrs
    subst hl huri
    have hs : n.attribute ATTR_SYSTEM_STR = system := by
      rw [attribute_eq_attribute_of, hattrs]
      cases system <;> cases href <;> rfl
    have hh : n.attribute ATTR_HREF_STR = href := by
      rw [attribute_eq_attribute_of, hattrs]
      cases system <;> cases href <;> rfl
    simp [cpe_check_parse, xmlStrcmp, xmlTextReaderConstLocalName, hname,
      xmlTextReaderConstXmlLang, xmlTextReaderPrefix, hns, hlang, hr, htrim,
      xmlTextReaderGetAttribute, hs, hh]
  have h1 : xmlStrcmp (some TAG_CHECK_STR) TAG_CPE_ITEM_STR = true := by decide
  have h2 : xmlStrcmp (some TAG_CHECK_STR) TAG_TITLE_STR = true := by decide
  have h3 : xmlStrcmp (some TAG_CHECK_STR) TAG_NOTE_STR = true := by decide
  have h4 : xmlStrcmp (some TAG_CHECK_STR) TAG_CHECK_STR = false := by decide
  rw [cpe_check.nodes, hnodes, List.cons_append, on_element_cons _ _ _ htype,
    cpe_item_parse_loop]
  simp only [xmlTextReaderConstLocalName, Option.map_some', hname, h1, ↓reduceIte,
    cpe_item_parse_body, xmlTextReaderNodeType, htype, ne_eq, not_true_eq_false, h2, h3, h4,
    Bool.not_false, Bool.not_true, Bool.false_eq_true, hparse, next_element_mk]
  rw [on_element_skip errors body nodes (fun m hm => (hbody m hm).1)]

theorem cpe_item_parse_loop_checks (cs : List cpe_check)
    (hcs : cs.all cpe_check.canonical = true) (fuel : Nat) (errors : List String)
    (ret : cpe_item) (nodes : List xmlNode) :
    cpe_item_parse_loop (fuel + cs.length)
        (on_element errors ((cs.map cpe_check.nodes).flatten ++ nodes)) ret
      = cpe_item_parse_loop fuel (on_element errors nodes)
          { ret with checks := ret.checks ++ cs } := by
  induction cs generalizing ret with
  | nil => simp
  | cons c cs ih =>
    simp only [List.all_cons, Bool.and_eq_true] at hcs
    simp only [List.map_cons, List.flatten_cons, List.append_assoc, List.length_cons]
    rw [← Nat.add_assoc, cpe_item_parse_loop_check c hcs.1, ih hcs.2]
    simp

theorem cpe_item_parse_loop_reference (r : cpe_reference) (hr : r.canonical = true) (fuel : Nat)
    (errors : List String) (ret : cpe_item) (nodes : List xmlNode) :
    cpe_item_parse_loop (fuel + 1) (on_element errors (r.nodes ++ nodes)) ret
      = cpe_item_parse_loop fuel (on_element errors nodes)
          { ret with references := ret.references ++ [r] } := by
  obtain ⟨n, body, hnodes, htype, hname, hns, hlang, hattrs, hbody, hread⟩ :=
    text_element_view TAG_REFERENCE_STR r.xml.nspace r.xml.lang
      (optional_attribute ATTR_HREF_STR r.href ++ lang_attribute r.xml.lang) r.content
  simp only [cpe_reference.canonical, Bool.and_eq_true, decide_eq_true_eq] at hr
  obtain ⟨⟨huri, htext⟩, -⟩ := hr
  obtain ⟨htrim, hne⟩ := oscap_trim_stored _ htext
  have hparse : cpe_reference_parse { cur := some n, rest := body ++ nodes } = some r := by
    have hr := hread nodes
    rw [if_neg hne] at hr
    obtain ⟨⟨lang, nspace, uri⟩, href, content⟩ := r
    simp only at huri hns hlang hr htrim hattrs
    subst huri
    have hh : n.attribute ATTR_HREF_STR = href := by
      rw [attribute_eq_attribute_of, hattrs]
      cases lang <;> cases href <;> rfl
    simp [cpe_reference_parse, xmlStrcmp, xmlTextReaderConstLocalName, hname,
      xmlTextReaderConstXmlLang, xmlTextReaderPrefix, hns, hlang, hr, htrim,
      xmlTextReaderGetAttribute, hh]
  have h1 : xmlStrcmp (some TAG_REFERENCE_STR) TAG_CPE_ITEM_STR = true := by decide
  have h2 : xmlStrcmp (some TAG_REFERENCE_STR) TAG_TITLE_STR = true := by decide
  have h3 : xmlStrcmp (some TAG_REFERENCE_STR) TAG_NOTE_STR = true := by decide
  have h4 : xmlStrcmp (some TAG_REFERENCE_STR) TAG_CHECK_STR = true := by decide
  have h5 : xmlStrcmp (some TAG_REFERENCE_STR) TAG_REFERENCE_STR = false := by decide
  rw [cpe_reference.nodes, hnodes, List.cons_append, on_element_cons _ _ _ htype,
    cpe_item_parse_loop]
  simp only [xmlTextReaderConstLocalName, Option.map_some', hname, h1, ↓reduceIte,
    cpe_item_parse_body, xmlTextReaderNodeType, htype, ne_eq, not_true_eq_false, h2, h3, h4, h5,
    Bool.not_false, Bool.not_true, Bool.false_eq_true, hparse, next_element_mk]
  rw [on_element_skip errors body nodes (fun m hm => (hbody m hm).1)]

theorem cpe_item_parse_loop_reference_list (rs : List cpe_reference)
    (hrs : rs.all cpe_reference.canonical = true) (fuel : Nat) (errors : List String)
    (ret : cpe_item) (nodes : List xmlNode) :
    cpe_item_parse_loop (fuel + rs.length)
        (on_element errors ((rs.map cpe_reference.nodes).flatten ++ nodes)) ret
      = cpe_item_parse_loop fuel (on_element errors nodes)
          { ret with references := ret.references ++ rs } := by
  induction rs generalizing ret with
  | nil => simp
  | cons r rs ih =>
    simp only [List.all_cons, Bool.and_eq_true] at hrs
    simp only [List.map_cons, List.flatten_cons, List.append_assoc, List.length_cons]
    rw [← Nat.add_assoc, cpe_item_parse_loop_reference r hrs.1, ih hrs.2]
    simp

theorem cpe_item_parse_loop_metadata (m : cpe_item_metadata) (hm : m.canonical = true)
    (fuel : Nat) (errors : List String) (ret : cpe_item) (nodes : List xmlNode) :
    cpe_item_parse_loop (fuel + 1) (on_element errors (m.nodes ++ nodes)) ret
      = cpe_item_parse_loop fuel (on_element errors nodes) { ret with metadata := some m } := by
  simp only [cpe_item_metadata.canonical, Bool.and_eq_true, decide_eq_true_eq] at hm
  obtain ⟨⟨hl, huri⟩, hdate⟩ := hm
  obtain ⟨⟨lang, nspace, uri⟩, date, status, nvd, dep⟩ := m
  simp only at hl huri hdate
  subst hl huri
  obtain ⟨date, rfl⟩ := Option.isSome_iff_exists.1 hdate
  have hparse : cpe_item_metadata_parse
      { cur := some (xml_element TAG_ITEM_METADATA_STR nspace none
          (optional_attribute ATTR_MODIFICATION_DATE_STR (some date)
            ++ optional_attribute ATTR_STATUS_STR status
            ++ optional_attribute ATTR_NVD_ID_STR nvd
            ++ optional_attribute ATTR_DEP_BY_NVDID_STR dep) true),
        rest := nodes }
      = some { xml := { lang := none, nspace := nspace, URI := none },
               modification_date := some date, status := status, nvd_id := nvd,
               deprecated_by_nvd_id := dep } := by
    cases status <;> cases nvd <;> cases dep <;> rfl
  have h1 : xmlStrcmp (some TAG_ITEM_METADATA_STR) TAG_CPE_ITEM_STR = true := by decide
  have h2 : xmlStrcmp (some TAG_ITEM_METADATA_STR) TAG_TITLE_STR = true := by decide
  have h3 : xmlStrcmp (some TAG_ITEM_METADATA_STR) TAG_NOTE_STR = true := by decide
  have h4 : xmlStrcmp (some TAG_ITEM_METADATA_STR) TAG_CHECK_STR = true := by decide
  have h5 : xmlStrcmp (some TAG_ITEM_METADATA_STR) TAG_REFERENCE_STR = true := by decide
  have h6 : xmlStrcmp (some TAG_ITEM_METADATA_STR) TAG_ITEM_METADATA_STR = false := by decide
  rw [cpe_item_metadata.nodes, List.singleton_append, on_element_cons _ _ _ rfl,
    cpe_item_parse_loop]
  simp only [xmlTextReaderConstLocalName, Option.map_some', xml_element, h1, ↓reduceIte,
    cpe_item_parse_body, xmlTextReaderNodeType, ne_eq, not_true_eq_false, h2, h3, h4, h5, h6,
    Bool.not_false, Bool.not_true, Bool.false_eq_true, next_element_mk]
  simp only [xml_element] at hparse
  rw [hparse]

/-- The pass of the loop of `cpe_item_parse` on the start tag of a `references`
or `notes` element. -/
theorem cpe_item_parse_loop_wrapper (name : String)
    (hname : name = TAG_REFERENCES_STR ∨ name = TAG_NOTES_STR) (fuel : Nat)
    (errors : List String) (ret : cpe_item) (nodes : List xmlNode) :
    cpe_item_parse_loop (fuel + 1)
        (on_element errors (xml_element name none none [] false :: nodes)) ret
      = cpe_item_parse_loop fuel (on_element errors nodes) ret := by
  rw [on_element_cons _ _ _ rfl, cpe_item_parse_loop]
  rcases hname with rfl | rfl
  · have h1 : xmlStrcmp (some TAG_REFERENCES_STR) TAG_CPE_ITEM_STR = true := by decide
    have h2 : xmlStrcmp (some TAG_REFERENCES_STR) TAG_TITLE_STR = true := by decide
    have h3 : xmlStrcmp (some TAG_REFERENCES_STR) TAG_NOTE_STR = true := by decide
    have h4 : xmlStrcmp (some TAG_REFERENCES_STR) TAG_CHECK_STR = true := by decide
    have h5 : xmlStrcmp (some TAG_REFERENCES_STR) TAG_REFERENCE_STR = true := by decide
    have h6 : xmlStrcmp (some TAG_REFERENCES_STR) TAG_ITEM_METADATA_STR = true := by decide
    have h7 : xmlStrcmp (some TAG_REFERENCES_STR) TAG_REFERENCES_STR = false := by decide
    simp only [xmlTextReaderConstLocalName, Option.map_some', xml_element, h1, ↓reduceIte,
      cpe_item_parse_body, xmlTextReaderNodeType, ne_eq, not_true_eq_false, h2, h3, h4, h5, h6,
      h7, Bool.not_false, Bool.not_true, Bool.false_eq_true, Bool.true_or, next_element_mk]
  · have h1 : xmlStrcmp (some TAG_NOTES_STR) TAG_CPE_ITEM_STR = true := by decide
    have h2 : xmlStrcmp (some TAG_NOTES_STR) TAG_TITLE_STR = true := by decide
    have h3 : xmlStrcmp (some TAG_NOTES_STR) TAG_NOTE_STR = true := by decide
    have h4 : xmlStrcmp (some TAG_NOTES_STR) TAG_CHECK_STR = true := by decide
    have h5 : xmlStrcmp (some TAG_NOTES_STR) TAG_REFERENCE_STR = true := by decide
    have h6 : xmlStrcmp (some TAG_NOTES_STR) TAG_ITEM_METADATA_STR = true := by decide
    have h7 : xmlStrcmp (some TAG_NOTES_STR) TAG_REFERENCES_STR = true := by decide
    have h8 : xmlStrcmp (some TAG_NOTES_STR) TAG_NOTES_STR = false := by decide
    simp only [xmlTextReaderConstLocalName, Option.map_some', xml_element, h1, ↓reduceIte,
      cpe_item_parse_body, xmlTextReaderNodeType, ne_eq, not_true_eq_false, h2, h3, h4, h5, h6,
      h7, h8, Bool.not_false, Bool.not_true, Bool.false_eq_true, Bool.or_true, Bool.false_or,
      next_element_mk]

theorem on_element_end (errors : List String) (name : String) (nspace lang : Option String)
    (nodes : List xmlNode) :
    on_element errors (xml_end name nspace lang :: nodes) = on_element errors nodes :=
  on_element_skip errors [xml_end name nspace lang] nodes (by simp [xml_end])

theorem text_element_nodes_ne_nil (name : String) (nspace lang : Option String)
    (attrs : List (String × String)) (text : Option String) :
    text_element_nodes name nspace lang attrs text ≠ [] := by
  cases text <;> simp [text_element_nodes]

/-- The loop of `cpe_item_parse` over a written `references` element. -/
theorem cpe_item_parse_loop_references (rs : List cpe_reference)
    (hrs : rs.all cpe_reference.canonical = true) :
    ∃ k, ∀ (fuel : Nat) (errors : List String) (ret : cpe_item) (nodes : List xmlNode),
      cpe_item_parse_loop (fuel + k)
          (on_element errors
            (wrapped_nodes TAG_REFERENCES_STR (rs.map cpe_reference.nodes).flatten ++ nodes)) ret
        = cpe_item_parse_loop fuel (on_element errors nodes)
            { ret with references := ret.references ++ rs } := by
  cases hflat : (rs.map cpe_reference.nodes).flatten with
  | nil =>
    have hnil : rs = [] := by
      cases rs with
      | nil => rfl
      | cons r rs =>
        simp only [List.map_cons, List.flatten_cons, List.append_eq_nil] at hflat
        exact absurd hflat.1 (text_element_nodes_ne_nil _ _ _ _ _)
    subst hnil
    exact ⟨0, fun fuel errors ret nodes => by simp [wrapped_nodes]⟩
  | cons n ns =>
    refine ⟨rs.length + 1, fun fuel errors ret nodes => ?_⟩
    simp only [wrapped_nodes, List.cons_append, List.append_assoc]
    rw [← Nat.add_assoc, cpe_item_parse_loop_wrapper _ (Or.inl rfl), ← List.cons_append, ← hflat,
      cpe_item_parse_loop_reference_list rs hrs, List.nil_append, on_element_end]

/-- The loop of `cpe_item_parse` over a written `notes` element. -/
theorem cpe_item_parse_loop_notes (ts : List oscap_title)
    (hts : ts.all oscap_title.canonical = true) :
    ∃ k, ∀ (fuel : Nat) (errors : List String) (ret : cpe_item) (nodes : List xmlNode),
      cpe_item_parse_loop (fuel + k)
          (on_element errors
            (wrapped_nodes TAG_NOTES_STR (ts.map (oscap_title.nodes TAG_NOTE_STR)).flatten
              ++ nodes)) ret
        = cpe_item_parse_loop fuel (on_element errors nodes)
            { ret with notes := ret.notes ++ ts } := by
  cases hflat : (ts.map (oscap_title.nodes TAG_NOTE_STR)).flatten with
  | nil =>
    have hnil : ts = [] := by
      cases ts with
      | nil => rfl
      | cons t ts =>
        simp only [List.map_cons, List.flatten_cons, List.append_eq_nil] at hflat
        exact absurd hflat.1 (text_element_nodes_ne_nil _ _ _ _ _)
    subst hnil
    exact ⟨0, fun fuel errors ret nodes => by simp [wrapped_nodes]⟩
  | cons n ns =>
    refine ⟨ts.length + 1, fun fuel errors ret nodes => ?_⟩
    simp only [wrapped_nodes, List.cons_append, List.append_assoc]
    rw [← Nat.add_assoc, cpe_item_parse_loop_wrapper _ (Or.inr rfl), ← List.cons_append, ← hflat,
      cpe_item_parse_loop_note_list ts hts, List.nil_append, on_element_end]

/-- The loop of `cpe_item_parse` over the written children of an entry: every
child is read into the entry, and the cursor goes on to the next start tag. -/
theorem cpe_item_parse_loop_child_nodes (codec : cpe_codec) (item : cpe_item)
    (hc : item.canonical codec = true) :
    ∃ k, ∀ (fuel : Nat) (errors : List String) (ret : cpe_item) (nodes : List xmlNode),
      cpe_item_parse_loop (fuel + k) (on_element errors (item.child_nodes ++ nodes)) ret
        = cpe_item_parse_loop fuel (on_element errors nodes)
            { ret with
              titles := ret.titles ++ item.titles,
              metadata := (match item.metadata with
                | some m => some m
                | none => ret.metadata),
              references := ret.references ++ item.references,
              notes := ret.notes ++ item.notes,
              checks := ret.checks ++ item.checks } := by
  simp only [cpe_item.canonical, Bool.and_eq_true] at hc
  obtain ⟨⟨⟨⟨⟨-, ht⟩, hm⟩, hr⟩, hn⟩, hk⟩ := hc
  obtain ⟨kr, hkr⟩ := cpe_item_parse_loop_references item.references hr
  obtain ⟨kn, hkn⟩ := cpe_item_parse_loop_notes item.notes hn
  cases hmeta : item.metadata with
  | none =>
    refine ⟨item.checks.length + kn + kr + item.titles.length,
      fun fuel errors ret nodes => ?_⟩
    simp only [cpe_item.child_nodes, hmeta, List.append_assoc, List.nil_append]
    rw [← Nat.add_assoc, cpe_item_parse_loop_titles _ ht, ← Nat.add_assoc, hkr,
      ← Nat.add_assoc, hkn, cpe_item_parse_loop_checks _ hk]
  | some m =>
    rw [hmeta] at hm
    refine ⟨item.checks.length + kn + kr + 1 + item.titles.length,
      fun fuel errors ret nodes => ?_⟩
    simp only [cpe_item.child_nodes, hmeta, List.append_assoc]
    rw [← Nat.add_assoc, cpe_item_parse_loop_titles _ ht, ← Nat.add_assoc,
      cpe_item_parse_loop_metadata m hm, ← Nat.add_assoc, hkr,
      ← Nat.add_assoc, hkn, cpe_item_parse_loop_checks _ hk]

/-! ## `cpe_item_parse` on a written entry -/

theorem cpe_item_parse_attrs_nodes (codec : cpe_codec) (item : cpe_item)
    (hc : item.canonical codec = true) (isEmpty : Bool) (nodes : List xmlNode) :
    cpe_item_parse_attrs codec
        { cur := some (xml_element TAG_CPE_ITEM_STR item.xml.nspace none
            (item.attributes codec) isEmpty),
          rest := nodes }
      = some { cpe_item_new with
          xml := item.xml, name := item.name, deprecated := item.deprecated,
          deprecation_date := item.deprecation_date } := by
  simp only [cpe_item.canonical, Bool.and_eq_true, decide_eq_true_eq] at hc
  obtain ⟨⟨⟨⟨⟨⟨⟨⟨⟨hl, huri⟩, hname⟩, hdep⟩, hdate⟩, -⟩, -⟩, -⟩, -⟩, -⟩ := hc
  obtain ⟨⟨lang, nspace, uri⟩, name, titles, deprecated, date, refs, checks, notes, meta⟩ := item
  simp only at hl huri hname hdep hdate
  subst hl huri
  cases name with
  | none =>
    cases deprecated with
    | none =>
      cases date with
      | none => rfl
      | some d => simp at hdate
    | some dep =>
      cases date with
      | none => simp at hdate
      | some d =>
        simp only [stored_name, decide_eq_true_eq] at hdep
        simp [cpe_item_parse_attrs, xmlTextReaderGetAttribute, xmlNode.attribute, xml_element,
          cpe_item.attributes, optional_attribute, ATTR_NAME_STR, ATTR_DEPRECATED_STR,
          ATTR_DEPRECATION_DATE_STR, ATTR_DEPRECATED_BY_STR, hdep, xmlTextReaderConstXmlLang,
          xmlTextReaderPrefix, cpe_item_new, xml_metadata_new]
  | some nm =>
    simp only [stored_name, decide_eq_true_eq] at hname
    cases deprecated with
    | none =>
      cases date with
      | none =>
        simp [cpe_item_parse_attrs, xmlTextReaderGetAttribute, xmlNode.attribute, xml_element,
          cpe_item.attributes, optional_attribute, ATTR_NAME_STR, ATTR_DEPRECATED_STR,
          hname, xmlTextReaderConstXmlLang, xmlTextReaderPrefix, cpe_item_new, xml_metadata_new]
      | some d => simp at hdate
    | some dep =>
      cases date with
      | none => simp at hdate
      | some d =>
        simp only [stored_name, decide_eq_true_eq] at hdep
        simp [cpe_item_parse_attrs, xmlTextReaderGetAttribute, xmlNode.attribute, xml_element,
          cpe_item.attributes, optional_attribute, ATTR_NAME_STR, ATTR_DEPRECATED_STR,
          ATTR_DEPRECATION_DATE_STR, ATTR_DEPRECATED_BY_STR, hdep, hname,
          xmlTextReaderConstXmlLang, xmlTextReaderPrefix, cpe_item_new, xml_metadata_new]

/-- The loop of `cpe_item_parse` on a start tag that is no child of an entry
answers the entry, the cursor on that start tag. -/
theorem cpe_item_parse_loop_stop (fuel : Nat) (errors : List String) (ret : cpe_item)
    (stop : xmlNode) (nodes : List xmlNode) (hstop : stop.type = XML_READER_TYPE_ELEMENT)
    (hname : item_child_tag stop.localName = false) :
    cpe_item_parse_loop (fuel + 1) (on_element errors (stop :: nodes)) ret
      = .done ({ reader := { cur := some stop, rest := nodes }, errors := errors }, some ret) := by
  rw [on_element_cons _ _ _ hstop, cpe_item_parse_loop]
  simp only [item_child_tag, Bool.or_eq_false_iff, beq_eq_false_iff_ne, ne_eq] at hname
  obtain ⟨⟨⟨⟨⟨⟨h1, h2⟩, h3⟩, h4⟩, h5⟩, h6⟩, h7⟩ := hname
  by_cases hitem : stop.localName = TAG_CPE_ITEM_STR
  · simp [xmlStrcmp, xmlTextReaderConstLocalName, hitem]
  · simp [xmlStrcmp, xmlTextReaderConstLocalName, hitem, cpe_item_parse_body,
      xmlTextReaderNodeType, hstop, h1, h2, h3, h4, h5, h6, h7]

theorem cpe_item_eta (item : cpe_item) :
    ({ xml := item.xml, name := item.name, titles := [] ++ item.titles,
       deprecated := item.deprecated, deprecation_date := item.deprecation_date,
       references := [] ++ item.references, checks := [] ++ item.checks,
       notes := [] ++ item.notes,
       metadata := (match item.metadata with
         | some m => some m
         | none => none) } : cpe_item) = item := by
  obtain ⟨xml, name, titles, deprecated, date, refs, checks, notes, meta⟩ := item
  cases meta <;> rfl

/-- On the nodes of a written entry followed by a start tag that is no child
of an entry, `cpe_item_parse` answers the entry, the cursor on that start tag. -/
theorem cpe_item_parse_nodes (codec : cpe_codec) (item : cpe_item)
    (hc : item.canonical codec = true) :
    ∃ k, ∀ (fuel : Nat) (errors : List String) (stop : xmlNode) (nodes : List xmlNode),
      k ≤ fuel → stop.type = XML_READER_TYPE_ELEMENT → item_child_tag stop.localName = false →
      cpe_item_parse codec fuel (on_nodes errors (item.nodes codec ++ stop :: nodes))
        = .done ({ reader := { cur := some stop, rest := nodes }, errors := errors },
            some item) := by
  obtain ⟨k, hk⟩ := cpe_item_parse_loop_child_nodes codec item hc
  refine ⟨k + 1, fun fuel errors stop nodes hfuel hstop hname => ?_⟩
  obtain ⟨fuel, rfl⟩ : ∃ f, fuel = f + 1 + k := ⟨fuel - (k + 1), by omega⟩
  have h1 : xmlStrcmp (some TAG_CPE_ITEM_STR) TAG_CPE_ITEM_STR = false := by decide
  have hloop : ∀ between, (∀ m ∈ between, m.type ≠ XML_READER_TYPE_ELEMENT) →
      cpe_item_parse_loop (fuel + 1 + k)
          (on_element errors (item.child_nodes ++ (between ++ stop :: nodes)))
          { cpe_item_new with
            xml := item.xml, name := item.name, deprecated := item.deprecated,
            deprecation_date := item.deprecation_date }
        = .done ({ reader := { cur := some stop, rest := nodes }, errors := errors },
            some item) := by
    intro between hbetween
    rw [hk, on_element_skip errors between _ hbetween,
      cpe_item_parse_loop_stop fuel errors _ stop nodes hstop hname]
    simp only [cpe_item_new]
    rw [cpe_item_eta]
  cases hchildren : item.child_nodes with
  | nil =>
    have h := hloop [] (by simp)
    rw [hchildren] at h
    simp only [cpe_item.nodes, element_nodes, hchildren, List.singleton_append, on_nodes_cons,
      cpe_item_parse, xmlTextReaderConstLocalName, Option.map_some', xml_element, h1,
      Bool.not_false, xmlTextReaderNodeType, decide_True, Bool.and_self, ↓reduceIte]
    have ha := cpe_item_parse_attrs_nodes codec item hc true (stop :: nodes)
    simp only [xml_element] at ha
    rw [ha]
    simp only [next_element_mk]
    exact h
  | cons c cs =>
    have h := hloop [xml_end TAG_CPE_ITEM_STR item.xml.nspace none] (by simp [xml_end])
    rw [hchildren] at h
    simp only [cpe_item.nodes, element_nodes, hchildren, List.cons_append, on_nodes_cons,
      cpe_item_parse, xmlTextReaderConstLocalName, Option.map_some', xml_element, h1,
      Bool.not_false, xmlTextReaderNodeType, decide_True, Bool.and_self, ↓reduceIte]
    have ha := cpe_item_parse_attrs_nodes codec item hc false
      (c :: (cs ++ [xml_end TAG_CPE_ITEM_STR item.xml.nspace none] ++ stop :: nodes))
    simp only [xml_element] at ha
    rw [ha]
    simp only [next_element_mk]
    simpa using h

/-! ## `cpe_generator_parse` on a written generator -/

/-- The loop of `cpe_generator_parse` passes the nodes that are no start tags. -/
theorem cpe_generator_parse_loop_skip (body : List xmlNode)
    (hbody : ∀ m ∈ body, m.type ≠ XML_READER_TYPE_ELEMENT ∧ m.localName ≠ TAG_GENERATOR_STR)
    (fuel : Nat) (errors : List String) (ret : cpe_generator) (nodes : List xmlNode) :
    cpe_generator_parse_loop (fuel + body.length) (on_nodes errors (body ++ nodes)) ret
      = cpe_generator_parse_loop fuel (on_nodes errors nodes) ret := by
  induction body with
  | nil => rfl
  | cons m body ih =>
    have hm := hbody m (by simp)
    rw [List.length_cons, ← Nat.add_assoc, List.cons_append, on_nodes_cons,
      cpe_generator_parse_loop]
    simp only [xmlTextReaderConstLocalName, Option.map_some', xmlStrcmp, ne_eq,
      Option.some.injEq, hm.2, not_false_eq_true, decide_True, ↓reduceIte,
      cpe_generator_parse_body, xmlTextReaderNodeType, hm.1, decide_False, Bool.and_false,
      Bool.false_eq_true, next_node_mk]
    exact ih (fun m hm => hbody m (by simp [hm]))

/-- The pass of the loop of `cpe_generator_parse` on the start tag of a field
with a text, and then over the text. -/
theorem cpe_generator_parse_loop_field (nspace : Option String) (name : String)
    (field : Option String) (hfield : field ≠ some "") (hname : name ≠ TAG_GENERATOR_STR)
    (update : cpe_generator → Option String → cpe_generator)
    (hbody : ∀ (st : parser_state) (ret : cpe_generator) (n : xmlNode),
      st.reader.cur = some n → n.type = XML_READER_TYPE_ELEMENT → n.localName = name →
      cpe_generator_parse_body st ret = (st, update ret (xmlTextReaderReadString st.reader))) :
    ∃ k, ∀ (fuel : Nat) (errors : List String) (ret : cpe_generator) (nodes : List xmlNode),
      cpe_generator_parse_loop (fuel + k)
          (on_nodes errors (generator_field_nodes nspace name field ++ nodes)) ret
        = cpe_generator_parse_loop fuel (on_nodes errors nodes)
            (if field = none then ret else update ret field) := by
  cases field with
  | none => exact ⟨0, fun fuel errors ret nodes => rfl⟩
  | some s =>
    obtain ⟨n, body, hnodes, htype, hn, -, -, -, hb, hread⟩ :=
      text_element_view name nspace none [] (some s)
    refine ⟨body.length + 1, fun fuel errors ret nodes => ?_⟩
    have hnodes1 : generator_field_nodes nspace name (some s) = n :: body := hnodes
    rw [hnodes1, ← Nat.add_assoc, List.cons_append, on_nodes_cons, cpe_generator_parse_loop]
    have hne : xmlStrcmp (some n.localName) TAG_GENERATOR_STR = true := by
      simp [xmlStrcmp, hn, hname]
    simp only [xmlTextReaderConstLocalName, Option.map_some', hne, ↓reduceIte]
    rw [hbody _ ret n rfl htype hn]
    simp only [next_node_mk, hread nodes, if_neg hfield, reduceCtorEq, ↓reduceIte]
    apply cpe_generator_parse_loop_skip
    intro m hm
    refine ⟨(hb m hm).1, ?_⟩
    rcases (hb m hm).2 with h | h
    · rw [h]
      decide
    · rw [h]
      exact hname

theorem cpe_generator_parse_body_product_name (st : parser_state) (ret : cpe_generator)
    (n : xmlNode) (hcur : st.reader.cur = some n) (htype : n.type = XML_READER_TYPE_ELEMENT)
    (hname : n.localName = TAG_PRODUCT_NAME_STR) :
    cpe_generator_parse_body st ret
      = (st, { ret with product_name := xmlTextReaderReadString st.reader }) := by
  have h1 : xmlStrcmp (some TAG_PRODUCT_NAME_STR) TAG_PRODUCT_NAME_STR = false := by decide
  simp [cpe_generator_parse_body, xmlTextReaderConstLocalName, hcur, hname, h1,
    xmlTextReaderNodeType, htype]

theorem cpe_generator_parse_body_product_version (st : parser_state) (ret : cpe_generator)
    (n : xmlNode) (hcur : st.reader.cur = some n) (htype : n.type = XML_READER_TYPE_ELEMENT)
    (hname : n.localName = TAG_PRODUCT_VERSION_STR) :
    cpe_generator_parse_body st ret
      = (st, { ret with product_version := xmlTextReaderReadString st.reader }) := by
  have h1 : xmlStrcmp (some TAG_PRODUCT_VERSION_STR) TAG_PRODUCT_NAME_STR = true := by decide
  have h2 : xmlStrcmp (some TAG_PRODUCT_VERSION_STR) TAG_PRODUCT_VERSION_STR = false := by
    decide
  simp [cpe_generator_parse_body, xmlTextReaderConstLocalName, hcur, hname, h1, h2,
    xmlTextReaderNodeType, htype]

theorem cpe_generator_parse_body_schema_version (st : parser_state) (ret : cpe_generator)
    (n : xmlNode) (hcur : st.reader.cur = some n) (htype : n.type = XML_READER_TYPE_ELEMENT)
    (hname : n.localName = TAG_SCHEMA_VERSION_STR) :
    cpe_generator_parse_body st ret
      = (st, { ret with schema_version := xmlTextReaderReadString st.reader }) := by
  have h1 : xmlStrcmp (some TAG_SCHEMA_VERSION_STR) TAG_PRODUCT_NAME_STR = true := by decide
  have h2 : xmlStrcmp (some TAG_SCHEMA_VERSION_STR) TAG_PRODUCT_VERSION_STR = true := by decide
  have h3 : xmlStrcmp (some TAG_SCHEMA_VERSION_STR) TAG_SCHEMA_VERSION_STR = false := by decide
  simp [cpe_generator_parse_body, xmlTextReaderConstLocalName, hcur, hname, h1, h2, h3,
    xmlTextReaderNodeType, htype]

theorem cpe_generator_parse_body_timestamp (st : parser_state) (ret : cpe_generator)
    (n : xmlNode) (hcur : st.reader.cur = some n) (htype : n.type = XML_READER_TYPE_ELEMENT)
    (hname : n.localName = TAG_TIMESTAMP_STR) :
    cpe_generator_parse_body st ret
      = (st, { ret with timestamp := xmlTextReaderReadString st.reader }) := by
  have h1 : xmlStrcmp (some TAG_TIMESTAMP_STR) TAG_PRODUCT_NAME_STR = true := by decide
  have h2 : xmlStrcmp (some TAG_TIMESTAMP_STR) TAG_PRODUCT_VERSION_STR = true := by decide
  have h3 : xmlStrcmp (some TAG_TIMESTAMP_STR) TAG_SCHEMA_VERSION_STR = true := by decide
  have h4 : xmlStrcmp (some TAG_TIMESTAMP_STR) TAG_TIMESTAMP_STR = false := by decide
  simp [cpe_generator_parse_body, xmlTextReaderConstLocalName, hcur, hname, h1, h2, h3, h4,
    xmlTextReaderNodeType, htype]

/-- The written children of a generator with a field begin with a start tag. -/
theorem cpe_generator_child_nodes_head (g : cpe_generator) (hg : g.canonical = true) :
    ∃ n ns, g.child_nodes = n :: ns ∧ n.type = XML_READER_TYPE_ELEMENT := by
  simp only [cpe_generator.canonical, Bool.and_eq_true, decide_eq_true_eq, Bool.or_eq_true]
    at hg
  obtain ⟨-, hsome⟩ := hg
  obtain ⟨xml, pn, pv, sv, ts⟩ := g
  simp only at hsome
  cases pn with
  | some s => exact ⟨_, _, rfl, rfl⟩
  | none =>
    cases pv with
    | some s => exact ⟨_, _, rfl, rfl⟩
    | none =>
      cases sv with
      | some s => exact ⟨_, _, rfl, rfl⟩
      | none =>
        cases ts with
        | some s => exact ⟨_, _, rfl, rfl⟩
        | none => simp at hsome

/-- On the nodes of a written generator, `cpe_generator_parse` answers the
generator, the cursor on its end tag. -/
theorem cpe_generator_parse_nodes (g : cpe_generator) (hg : g.canonical = true) :
    ∃ k, ∀ (fuel : Nat) (errors : List String) (nodes : List xmlNode), k ≤ fuel →
      cpe_generator_parse fuel (on_nodes errors (g.nodes ++ nodes))
        = .done ({ reader := { cur := some (xml_end TAG_GENERATOR_STR g.xml.nspace none),
                               rest := nodes }, errors := errors }, some g) := by
  obtain ⟨n, ns, hhead, htype⟩ := cpe_generator_child_nodes_head g hg
  simp only [cpe_generator.canonical, Bool.and_eq_true, decide_eq_true_eq] at hg
  obtain ⟨⟨⟨⟨⟨⟨hl, huri⟩, hpn⟩, hpv⟩, hsv⟩, hts⟩, -⟩ := hg
  obtain ⟨k1, hk1⟩ := cpe_generator_parse_loop_field g.xml.nspace TAG_PRODUCT_NAME_STR
    g.product_name hpn (by decide) (fun ret v => { ret with product_name := v })
    cpe_generator_parse_body_product_name
  obtain ⟨k2, hk2⟩ := cpe_generator_parse_loop_field g.xml.nspace TAG_PRODUCT_VERSION_STR
    g.product_version hpv (by decide) (fun ret v => { ret with product_version := v })
    cpe_generator_parse_body_product_version
  obtain ⟨k3, hk3⟩ := cpe_generator_parse_loop_field g.xml.nspace TAG_SCHEMA_VERSION_STR
    g.schema_version hsv (by decide) (fun ret v => { ret with schema_version := v })
    cpe_generator_parse_body_schema_version
  obtain ⟨k4, hk4⟩ := cpe_generator_parse_loop_field g.xml.nspace TAG_TIMESTAMP_STR
    g.timestamp hts (by decide) (fun ret v => { ret with timestamp := v })
    cpe_generator_parse_body_timestamp
  refine ⟨k4 + k3 + k2 + k1 + 1, fun fuel errors nodes hfuel => ?_⟩
  obtain ⟨fuel, rfl⟩ : ∃ f, fuel = f + 1 + k4 + k3 + k2 + k1 := ⟨fuel - (k4 + k3 + k2 + k1 + 1), by omega⟩
  have h1 : xmlStrcmp (some TAG_GENERATOR_STR) TAG_GENERATOR_STR = false := by decide
  have hstart : on_element errors (g.child_nodes
        ++ xml_end TAG_GENERATOR_STR g.xml.nspace none :: nodes)
      = on_nodes errors (g.child_nodes
        ++ xml_end TAG_GENERATOR_STR g.xml.nspace none :: nodes) := by
    rw [hhead, List.cons_append, on_element_cons _ _ _ htype, on_nodes_cons]
  have hnodes : g.nodes = xml_element TAG_GENERATOR_STR g.xml.nspace none [] false
      :: g.child_nodes ++ [xml_end TAG_GENERATOR_STR g.xml.nspace none] := by
    simp only [cpe_generator.nodes, element_nodes, hhead]
  rw [hnodes]
  simp only [List.cons_append, List.append_assoc, List.singleton_append, on_nodes_cons,
    cpe_generator_parse, xmlTextReaderConstLocalName, Option.map_some', xml_element, h1,
    Bool.not_false, xmlTextReaderNodeType, decide_True, Bool.and_self, ↓reduceIte,
    next_element_mk, List.nil_append]
  rw [hstart]
  simp only [cpe_generator.child_nodes, List.append_assoc]
  rw [hk1, hk2, hk3, hk4, on_nodes_cons, cpe_generator_parse_loop]
  simp only [xmlTextReaderConstLocalName, Option.map_some', xml_end, h1, Bool.false_eq_true,
    ↓reduceIte, Res.bind_done]
  obtain ⟨⟨lang, nspace, uri⟩, pn, pv, sv, ts⟩ := g
  simp only at hl huri
  subst hl huri
  cases pn <;> cases pv <;> cases sv <;> cases ts <;>
    simp [xmlTextReaderConstXmlLang, xmlTextReaderPrefix, cpe_generator_new]

/-! ## The vendor tree: adding under the last node of a level -/

theorem list_modify_comp {α : Type} (f g : α → α) (i : Nat) (xs : List α) :
    list_modify g i (list_modify f i xs) = list_modify (fun x => g (f x)) i xs := by
  induction xs generalizing i with
  | nil => cases i <;> rfl
  | cons x xs ih =>
    cases i with
    | zero => rfl
    | succ i => simp [list_modify, ih]

theorem list_modify_congr {α : Type} (f g : α → α) (i : Nat) (xs : List α)
    (h : ∀ x, xs.get? i = some x → f x = g x) :
    list_modify f i xs = list_modify g i xs := by
  induction xs generalizing i with
  | nil => cases i <;> rfl
  | cons x xs ih =>
    cases i with
    | zero => simp [list_modify, h x rfl]
    | succ i =>
      simp only [list_modify, List.cons.injEq, true_and]
      exact ih i (fun y hy => h y (by simpa using hy))

theorem list_modify_append_length {α : Type} (f : α → α) (xs : List α) (x : α) :
    list_modify f xs.length (xs ++ [x]) = xs ++ [f x] := by
  induction xs with
  | nil => rfl
  | cons y ys ih => simp [list_modify, ih]

theorem vendor_add_version_last (ret : cpe_vendor) (p : cpe_product) (v : cpe_version) :
    vendor_add_version { ret with products := ret.products ++ [p] } ret.products.length v
      = { ret with products := ret.products ++ [{ p with versions := p.versions ++ [v] }] } := by
  simp [vendor_add_version, list_modify_append_length]

theorem vendor_version_count_last (ret : cpe_vendor) (p : cpe_product) :
    vendor_version_count { ret with products := ret.products ++ [p] } ret.products.length
      = p.versions.length := by
  simp [vendor_version_count]

theorem vendor_add_update_last (ret : cpe_vendor) (i : Nat) (v : cpe_version) (u : cpe_update) :
    vendor_add_update (vendor_add_version ret i v) i (vendor_version_count ret i) u
      = vendor_add_version ret i { v with updates := v.updates ++ [u] } := by
  simp only [vendor_add_update, vendor_add_version, list_modify_comp]
  congr 1
  apply list_modify_congr
  intro p hp
  rw [List.get?_eq_getElem?] at hp
  simp [product_add_update, vendor_version_count, hp, list_modify_append_length]

theorem vendor_add_edition_last (ret : cpe_vendor) (i j : Nat) (u : cpe_update)
    (e : cpe_edition) :
    vendor_add_edition (vendor_add_update ret i j u) i j (vendor_update_count ret i j) e
      = vendor_add_update ret i j { u with editions := u.editions ++ [e] } := by
  simp only [vendor_add_edition, vendor_add_update, list_modify_comp]
  congr 1
  apply list_modify_congr
  intro p hp
  simp only [product_add_edition, product_add_update, list_modify_comp]
  congr 1
  apply list_modify_congr
  intro v hv
  rw [List.get?_eq_getElem?] at hp hv
  simp [version_add_edition, vendor_update_count, hp, hv, list_modify_append_length]

theorem vendor_add_language_last (ret : cpe_vendor) (i j k : Nat) (e : cpe_edition)
    (l : cpe_language) :
    vendor_add_language (vendor_add_edition ret i j k e) i j k (vendor_edition_count ret i j k) l
      = vendor_add_edition ret i j k { e with languages := e.languages ++ [l] } := by
  simp only [vendor_add_language, vendor_add_edition, list_modify_comp]
  congr 1
  apply list_modify_congr
  intro p hp
  simp only [product_add_language, product_add_edition, list_modify_comp]
  congr 1
  apply list_modify_congr
  intro v hv
  simp only [version_add_language, version_add_edition, list_modify_comp]
  congr 1
  apply list_modify_congr
  intro u hu
  rw [List.get?_eq_getElem?] at hp hv hu
  simp [update_add_language, vendor_edition_count, hp, hv, hu, list_modify_append_length]

theorem vendor_add_language_list (ret : cpe_vendor) (i j k : Nat) (e : cpe_edition)
    (ls : List cpe_language) :
    ls.foldl (fun r l => vendor_add_language r i j k (vendor_edition_count ret i j k) l)
        (vendor_add_edition ret i j k e)
      = vendor_add_edition ret i j k { e with languages := e.languages ++ ls } := by
  induction ls generalizing e with
  | nil => simp
  | cons l ls ih =>
    rw [List.foldl_cons, vendor_add_language_last, ih]
    simp

theorem vendor_add_edition_list (ret : cpe_vendor) (i j : Nat) (u : cpe_update)
    (es : List cpe_edition) :
    es.foldl (fun r e => vendor_add_edition r i j (vendor_update_count ret i j) e)
        (vendor_add_update ret i j u)
      = vendor_add_update ret i j { u with editions := u.editions ++ es } := by
  induction es generalizing u with
  | nil => simp
  | cons e es ih =>
    rw [List.foldl_cons, vendor_add_edition_last, ih]
    simp

theorem vendor_add_update_list (ret : cpe_vendor) (i : Nat) (v : cpe_version)
    (us : List cpe_update) :
    us.foldl (fun r u => vendor_add_update r i (vendor_version_count ret i) u)
        (vendor_add_version ret i v)
      = vendor_add_version ret i { v with updates := v.updates ++ us } := by
  induction us generalizing v with
  | nil => simp
  | cons u us ih =>
    rw [List.foldl_cons, vendor_add_update_last, ih]
    simp

theorem vendor_add_version_list (ret : cpe_vendor) (p : cpe_product) (vs : List cpe_version) :
    vs.foldl (fun r v => vendor_add_version r ret.products.length v)
        { ret with products := ret.products ++ [p] }
      = { ret with products := ret.products ++ [{ p with versions := p.versions ++ vs }] } := by
  induction vs generalizing p with
  | nil => simp
  | cons v vs ih =>
    rw [List.foldl_cons, vendor_add_version_last, ih]
    simp

theorem vendor_add_product_list (ret : cpe_vendor) (ps : List cpe_product) :
    ps.foldl (fun r p => { r with products := r.products ++ [p] }) ret
      = { ret with products := ret.products ++ ps } := by
  induction ps generalizing ret with
  | nil => simp
  | cons p ps ih =>
    rw [List.foldl_cons, ih]
    simp

/-! ## The loop of `cpe_vendor_parse` on written nodes -/

theorem cpe_vendor_parse_loop_step (fuel : Nat) (errors : List String) (n : xmlNode)
    (rest : List xmlNode) (loc loc1 : vendor_locals) (hname : n.localName ≠ TAG_VENDOR_STR)
    (hbody : cpe_vendor_parse_body { cur := some n, rest := rest } loc = .next_node loc1) :
    cpe_vendor_parse_loop (fuel + 1) (on_nodes errors (n :: rest)) loc
      = cpe_vendor_parse_loop fuel (on_nodes errors rest) loc1 := by
  rw [on_nodes_cons, cpe_vendor_parse_loop]
  simp only [xmlTextReaderConstLocalName, Option.map_some', xmlStrcmp, ne_eq,
    Option.some.injEq, hname, not_false_eq_true, decide_True, ↓reduceIte, hbody, next_node_mk]

/-- The loop of `cpe_vendor_parse` passes the nodes that are no start tags. -/
theorem cpe_vendor_parse_loop_skip (body : List xmlNode)
    (hbody : ∀ m ∈ body, m.type ≠ XML_READER_TYPE_ELEMENT ∧ m.localName ≠ TAG_VENDOR_STR)
    (fuel : Nat) (errors : List String) (loc : vendor_locals) (nodes : List xmlNode) :
    cpe_vendor_parse_loop (fuel + body.length) (on_nodes errors (body ++ nodes)) loc
      = cpe_vendor_parse_loop fuel (on_nodes errors nodes) loc := by
  induction body with
  | nil => rfl
  | cons m body ih =>
    have hm := hbody m (by simp)
    rw [List.length_cons, ← Nat.add_assoc, List.cons_append,
      cpe_vendor_parse_loop_step _ _ m _ loc loc hm.2
        (by simp [cpe_vendor_parse_body, xmlTextReaderNodeType, hm.1])]
    exact ih (fun m hm => hbody m (by simp [hm]))

/-- The loop of `cpe_vendor_parse` over a written element of the tree: the
pass on its start tag, then its children, then its end tag. -/
theorem cpe_vendor_parse_loop_element (name : String) (nspace : Option String)
    (attrs : List (String × String)) (children : List xmlNode) (n : Nat)
    (hname : name ≠ TAG_VENDOR_STR) :
    ∃ k, ∀ (loc loc1 loc2 : vendor_locals),
      (∀ isEmpty rest, cpe_vendor_parse_body
          { cur := some (xml_element name nspace none attrs isEmpty), rest := rest } loc
        = .next_node loc1) →
      (∀ fuel errors nodes,
        cpe_vendor_parse_loop (fuel + n) (on_nodes errors (children ++ nodes)) loc1
          = cpe_vendor_parse_loop fuel (on_nodes errors nodes) loc2) →
      ∀ fuel errors nodes,
        cpe_vendor_parse_loop (fuel + k)
            (on_nodes errors (element_nodes name nspace none attrs children ++ nodes)) loc
          = cpe_vendor_parse_loop fuel (on_nodes errors nodes) loc2 := by
  cases children with
  | nil =>
    refine ⟨n + 1, fun loc loc1 loc2 hstart hchildren fuel errors nodes => ?_⟩
    simp only [element_nodes, List.singleton_append]
    rw [← Nat.add_assoc, cpe_vendor_parse_loop_step _ _ _ _ loc loc1 hname (hstart _ _)]
    exact hchildren fuel errors nodes
  | cons c cs =>
    refine ⟨1 + n + 1, fun loc loc1 loc2 hstart hchildren fuel errors nodes => ?_⟩
    simp only [element_nodes, List.cons_append, List.append_assoc]
    rw [← Nat.add_assoc, cpe_vendor_parse_loop_step _ _ _ _ loc loc1 hname (hstart _ _),
      ← List.cons_append, ← Nat.add_assoc, hchildren]
    exact cpe_vendor_parse_loop_skip [xml_end name nspace none]
      (by simp [xml_end, hname]) fuel errors loc2 nodes

theorem cpe_vendor_parse_body_language (l : cpe_language) (hl : l.canonical = true)
    (rest : List xmlNode) (loc : vendor_locals) (i j k m : Nat)
    (h : loc.edition = some (i, j, k, m)) :
    cpe_vendor_parse_body
        { cur := some (xml_element TAG_LANGUAGE_STR l.xml.nspace l.xml.lang
            (optional_attribute ATTR_VALUE_STR l.value ++ lang_attribute l.xml.lang) true),
          rest := rest } loc
      = .next_node { loc with ret := vendor_add_language loc.ret i j k m l } := by
  simp only [cpe_language.canonical, decide_eq_true_eq] at hl
  obtain ⟨⟨lang, nspace, uri⟩, value⟩ := l
  simp only at hl
  subst hl
  have hv : xmlTextReaderGetAttribute
      { cur := some (xml_element TAG_LANGUAGE_STR nspace lang
          (optional_attribute ATTR_VALUE_STR value ++ lang_attribute lang) true),
        rest := rest } ATTR_VALUE_STR = value := by
    cases value <;> cases lang <;> rfl
  have h1 : xmlStrcmp (some TAG_LANGUAGE_STR) TAG_TITLE_STR = true := by decide
  have h2 : xmlStrcmp (some TAG_LANGUAGE_STR) TAG_PRODUCT_STR = true := by decide
  have h3 : xmlStrcmp (some TAG_LANGUAGE_STR) TAG_VERSION_STR = true := by decide
  have h4 : xmlStrcmp (some TAG_LANGUAGE_STR) TAG_UPDATE_STR = true := by decide
  have h5 : xmlStrcmp (some TAG_LANGUAGE_STR) TAG_EDITION_STR = true := by decide
  have h6 : xmlStrcmp (some TAG_LANGUAGE_STR) TAG_LANGUAGE_STR = false := by decide
  unfold cpe_vendor_parse_body
  simp only [hv, h]
  simp [xmlTextReaderNodeType, xmlTextReaderConstLocalName, xml_element, h1, h2, h3, h4, h5,
    h6, xmlTextReaderConstXmlLang, xmlTextReaderPrefix, cpe_language_new]

theorem cpe_vendor_parse_body_edition (nspace value : Option String) (isEmpty : Bool)
    (rest : List xmlNode) (loc : vendor_locals) (i j k : Nat) (h : loc.update = some (i, j, k)) :
    cpe_vendor_parse_body
        { cur := some (xml_element TAG_EDITION_STR nspace none
            (optional_attribute ATTR_VALUE_STR value) isEmpty),
          rest := rest } loc
      = .next_node { loc with
          ret := vendor_add_edition loc.ret i j k
            { xml := { lang := none, nspace := nspace, URI := none }, value := value,
              languages := [] },
          edition := some (i, j, k, vendor_edition_count loc.ret i j k) } := by
  have hv : xmlTextReaderGetAttribute
      { cur := some (xml_element TAG_EDITION_STR nspace none
          (optional_attribute ATTR_VALUE_STR value) isEmpty),
        rest := rest } ATTR_VALUE_STR = value := by
    cases value <;> rfl
  have h1 : xmlStrcmp (some TAG_EDITION_STR) TAG_TITLE_STR = true := by decide
  have h2 : xmlStrcmp (some TAG_EDITION_STR) TAG_PRODUCT_STR = true := by decide
  have h3 : xmlStrcmp (some TAG_EDITION_STR) TAG_VERSION_STR = true := by decide
  have h4 : xmlStrcmp (some TAG_EDITION_STR) TAG_UPDATE_STR = true := by decide
  have h5 : xmlStrcmp (some TAG_EDITION_STR) TAG_EDITION_STR = false := by decide
  unfold cpe_vendor_parse_body
  simp only [hv, h]
  simp [xmlTextReaderNodeType, xmlTextReaderConstLocalName, xml_element, h1, h2, h3, h4, h5,
    xmlTextReaderConstXmlLang, xmlTextReaderPrefix, cpe_edition_new]

theorem cpe_vendor_parse_body_update (nspace value : Option String) (isEmpty : Bool)
    (rest : List xmlNode) (loc : vendor_locals) (i j : Nat) (h : loc.version = some (i, j)) :
    cpe_vendor_parse_body
        { cur := some (xml_element TAG_UPDATE_STR nspace none
            (optional_attribute ATTR_VALUE_STR value) isEmpty),
          rest := rest } loc
      = .next_node { loc with
          ret := vendor_add_update loc.ret i j
            { xml := { lang := none, nspace := nspace, URI := none }, value := value,
              editions := [] },
          update := some (i, j, vendor_update_count loc.ret i j) } := by
  have hv : xmlTextReaderGetAttribute
      { cur := some (xml_element TAG_UPDATE_STR nspace none
          (optional_attribute ATTR_VALUE_STR value) isEmpty),
        rest := rest } ATTR_VALUE_STR = value := by
    cases value <;> rfl
  have h1 : xmlStrcmp (some TAG_UPDATE_STR) TAG_TITLE_STR = true := by decide
  have h2 : xmlStrcmp (some TAG_UPDATE_STR) TAG_PRODUCT_STR = true := by decide
  have h3 : xmlStrcmp (some TAG_UPDATE_STR) TAG_VERSION_STR = true := by decide
  have h4 : xmlStrcmp (some TAG_UPDATE_STR) TAG_UPDATE_STR = false := by decide
  unfold cpe_vendor_parse_body
  simp only [hv, h]
  simp [xmlTextReaderNodeType, xmlTextReaderConstLocalName, xml_element, h1, h2, h3, h4,
    xmlTextReaderConstXmlLang, xmlTextReaderPrefix, cpe_update_new]

theorem cpe_vendor_parse_body_version (nspace value : Option String) (isEmpty : Bool)
    (rest : List xmlNode) (loc : vendor_locals) (i : Nat) (h : loc.product = some i) :
    cpe_vendor_parse_body
        { cur := some (xml_element TAG_VERSION_STR nspace none
            (optional_attribute ATTR_VALUE_STR value) isEmpty),
          rest := rest } loc
      = .next_node { loc with
          ret := vendor_add_version loc.ret i
            { xml := { lang := none, nspace := nspace, URI := none }, value := value,
              updates := [] },
          version := some (i, vendor_version_count loc.ret i) } := by
  have hv : xmlTextReaderGetAttribute
      { cur := some (xml_element TAG_VERSION_STR nspace none
          (optional_attribute ATTR_VALUE_STR value) isEmpty),
        rest := rest } ATTR_VALUE_STR = value := by
    cases value <;> rfl
  have h1 : xmlStrcmp (some TAG_VERSION_STR) TAG_TITLE_STR = true := by decide
  have h2 : xmlStrcmp (some TAG_VERSION_STR) TAG_PRODUCT_STR = true := by decide
  have h3 : xmlStrcmp (some TAG_VERSION_STR) TAG_VERSION_STR = false := by decide
  unfold cpe_vendor_parse_body
  simp only [hv, h]
  simp [xmlTextReaderNodeType, xmlTextReaderConstLocalName, xml_element, h1, h2, h3,
    xmlTextReaderConstXmlLang, xmlTextReaderPrefix, cpe_version_new]

theorem cpe_vendor_parse_body_product (nspace value : Option String) (part : cpe_part_t)
    (isEmpty : Bool) (rest : List xmlNode) (loc : vendor_locals) :
    cpe_vendor_parse_body
        { cur := some (xml_element TAG_PRODUCT_STR nspace none
            (optional_attribute ATTR_VALUE_STR value
              ++ optional_attribute ATTR_PART_STR (PART_TO_CHAR part)) isEmpty),
          rest := rest } loc
      = .next_node { loc with
          ret := { loc.ret with products := loc.ret.products ++
            [{ xml := { lang := none, nspace := nspace, URI := none }, value := value,
               part := part, versions := [] }] },
          product := some loc.ret.products.length } := by
  have hv : xmlTextReaderGetAttribute
      { cur := some (xml_element TAG_PRODUCT_STR nspace none
          (optional_attribute ATTR_VALUE_STR value
            ++ optional_attribute ATTR_PART_STR (PART_TO_CHAR part)) isEmpty),
        rest := rest } ATTR_VALUE_STR = value := by
    cases value <;> cases part <;> rfl
  have ha : xmlTextReaderGetAttribute
      { cur := some (xml_element TAG_PRODUCT_STR nspace none
          (optional_attribute ATTR_VALUE_STR value
            ++ optional_attribute ATTR_PART_STR (PART_TO_CHAR part)) isEmpty),
        rest := rest } ATTR_PART_STR = PART_TO_CHAR part := by
    cases value <;> cases part <;> rfl
  have hp : cpe_product_parse_part (PART_TO_CHAR part) = some part := by
    cases part <;> decide
  have h1 : xmlStrcmp (some TAG_PRODUCT_STR) TAG_TITLE_STR = true := by decide
  have h2 : xmlStrcmp (some TAG_PRODUCT_STR) TAG_PRODUCT_STR = false := by decide
  unfold cpe_vendor_parse_body
  simp only [hv, ha, hp]
  simp [xmlTextReaderNodeType, xmlTextReaderConstLocalName, xml_element, h1, h2,
    xmlTextReaderConstXmlLang, xmlTextReaderPrefix, cpe_product_new]

/-! ## The loop of `cpe_vendor_parse` over the levels of the written tree -/

theorem cpe_vendor_parse_loop_languages (ls : List cpe_language)
    (hls : ls.all cpe_language.canonical = true) (i j k m : Nat) :
    ∀ (loc : vendor_locals), loc.edition = some (i, j, k, m) →
      ∀ (fuel : Nat) (errors : List String) (nodes : List xmlNode),
        cpe_vendor_parse_loop (fuel + ls.length)
            (on_nodes errors ((ls.map cpe_language.nodes).flatten ++ nodes)) loc
          = cpe_vendor_parse_loop fuel (on_nodes errors nodes)
              { loc with ret := ls.foldl (fun r l => vendor_add_language r i j k m l) loc.ret } := by
  induction ls with
  | nil => intro loc _ fuel errors nodes; rfl
  | cons l ls ih =>
    intro loc hloc fuel errors nodes
    simp only [List.all_cons, Bool.and_eq_true] at hls
    simp only [List.map_cons, List.flatten_cons, List.length_cons, cpe_language.nodes,
      List.singleton_append, List.foldl_cons, List.cons_append]
    rw [← Nat.add_assoc, cpe_vendor_parse_loop_step _ _ _ _ loc _
      (show TAG_LANGUAGE_STR ≠ TAG_VENDOR_STR by decide)
      (cpe_vendor_parse_body_language l hls.1 _ loc i j k m hloc), List.nil_append]
    exact ih hls.2 { loc with ret := vendor_add_language loc.ret i j k m l } hloc fuel errors
      nodes

theorem cpe_edition_eta (e : cpe_edition) (hl : e.xml.lang = none) (hu : e.xml.URI = none) :
    ({ xml := { lang := none, nspace := e.xml.nspace, URI := none }, value := e.value,
       languages := [] ++ e.languages } : cpe_edition) = e := by
  obtain ⟨⟨lang, nspace, uri⟩, value, languages⟩ := e
  simp only at hl hu
  subst hl hu
  rfl

theorem cpe_update_eta (u : cpe_update) (hl : u.xml.lang = none) (hu : u.xml.URI = none) :
    ({ xml := { lang := none, nspace := u.xml.nspace, URI := none }, value := u.value,
       editions := [] ++ u.editions } : cpe_update) = u := by
  obtain ⟨⟨lang, nspace, uri⟩, value, editions⟩ := u
  simp only at hl hu
  subst hl hu
  rfl

theorem cpe_version_eta (v : cpe_version) (hl : v.xml.lang = none) (hu : v.xml.URI = none) :
    ({ xml := { lang := none, nspace := v.xml.nspace, URI := none }, value := v.value,
       updates := [] ++ v.updates } : cpe_version) = v := by
  obtain ⟨⟨lang, nspace, uri⟩, value, updates⟩ := v
  simp only at hl hu
  subst hl hu
  rfl

theorem cpe_product_eta (p : cpe_product) (hl : p.xml.lang = none) (hu : p.xml.URI = none) :
    ({ xml := { lang := none, nspace := p.xml.nspace, URI := none }, value := p.value,
       part := p.part, versions := [] ++ p.versions } : cpe_product) = p := by
  obtain ⟨⟨lang, nspace, uri⟩, value, part, versions⟩ := p
  simp only at hl hu
  subst hl hu
  rfl

/-- The loop of `cpe_vendor_parse` over a written edition adds the edition,
with its languages, to the update that the pointer `update` is on. -/
theorem cpe_vendor_parse_loop_edition (e : cpe_edition) (he : e.canonical = true) :
    ∃ n, ∀ (loc : vendor_locals) (i j k : Nat), loc.update = some (i, j, k) →
      ∀ (fuel : Nat) (errors : List String) (nodes : List xmlNode),
        cpe_vendor_parse_loop (fuel + n) (on_nodes errors (e.nodes ++ nodes)) loc
          = cpe_vendor_parse_loop fuel (on_nodes errors nodes)
              { loc with
                ret := vendor_add_edition loc.ret i j k e,
                edition := some (i, j, k, vendor_edition_count loc.ret i j k) } := by
  simp only [cpe_edition.canonical, Bool.and_eq_true, decide_eq_true_eq] at he
  obtain ⟨⟨hl, hu⟩, hls⟩ := he
  obtain ⟨n, hn⟩ := cpe_vendor_parse_loop_element TAG_EDITION_STR e.xml.nspace
    (optional_attribute ATTR_VALUE_STR e.value) (e.languages.map cpe_language.nodes).flatten
    e.languages.length (by decide)
  refine ⟨n, fun loc i j k hloc => ?_⟩
  refine hn loc _ _ (fun isEmpty rest =>
    cpe_vendor_parse_body_edition e.xml.nspace e.value isEmpty rest loc i j k hloc) ?_
  intro fuel errors nodes
  rw [cpe_vendor_parse_loop_languages e.languages hls i j k (vendor_edition_count loc.ret i j k)
    _ rfl]
  simp only [vendor_add_language_list, cpe_edition_eta e hl hu]

theorem cpe_vendor_parse_loop_editions (es : List cpe_edition)
    (hes : es.all cpe_edition.canonical = true) :
    ∃ n, ∀ (loc : vendor_locals) (i j k : Nat), loc.update = some (i, j, k) →
      ∃ loc1 : vendor_locals,
        (∀ (fuel : Nat) (errors : List String) (nodes : List xmlNode),
          cpe_vendor_parse_loop (fuel + n)
              (on_nodes errors ((es.map cpe_edition.nodes).flatten ++ nodes)) loc
            = cpe_vendor_parse_loop fuel (on_nodes errors nodes) loc1)
        ∧ loc1.ret = es.foldl (fun r e => vendor_add_edition r i j k e) loc.ret
        ∧ loc1.product = loc.product ∧ loc1.version = loc.version
        ∧ loc1.update = loc.update := by
  induction es with
  | nil => exact ⟨0, fun loc i j k _ => ⟨loc, fun _ _ _ => rfl, rfl, rfl, rfl, rfl⟩⟩
  | cons e es ih =>
    simp only [List.all_cons, Bool.and_eq_true] at hes
    obtain ⟨n1, h1⟩ := cpe_vendor_parse_loop_edition e hes.1
    obtain ⟨n2, h2⟩ := ih hes.2
    refine ⟨n2 + n1, fun loc i j k hloc => ?_⟩
    obtain ⟨loc2, hloop, hret, hp, hv, hu⟩ := h2
      { loc with
        ret := vendor_add_edition loc.ret i j k e,
        edition := some (i, j, k, vendor_edition_count loc.ret i j k) } i j k hloc
    refine ⟨loc2, fun fuel errors nodes => ?_, hret, hp, hv, hu⟩
    simp only [List.map_cons, List.flatten_cons, List.append_assoc]
    rw [← Nat.add_assoc, h1 loc i j k hloc, hloop]

/-- The loop of `cpe_vendor_parse` over a written update adds the update,
with its editions, to the version that the pointer `version` is on. -/
theorem cpe_vendor_parse_loop_update (u : cpe_update) (hu : u.canonical = true) :
    ∃ n, ∀ (loc : vendor_locals) (i j : Nat), loc.version = some (i, j) →
      ∃ loc1 : vendor_locals,
        (∀ (fuel : Nat) (errors : List String) (nodes : List xmlNode),
          cpe_vendor_parse_loop (fuel + n) (on_nodes errors (u.nodes ++ nodes)) loc
            = cpe_vendor_parse_loop fuel (on_nodes errors nodes) loc1)
        ∧ loc1.ret = vendor_add_update loc.ret i j u
        ∧ loc1.product = loc.product ∧ loc1.version = loc.version := by
  simp only [cpe_update.canonical, Bool.and_eq_true, decide_eq_true_eq] at hu
  obtain ⟨⟨hl, huri⟩, hes⟩ := hu
  obtain ⟨n1, h1⟩ := cpe_vendor_parse_loop_editions u.editions hes
  obtain ⟨n, hn⟩ := cpe_vendor_parse_loop_element TAG_UPDATE_STR u.xml.nspace
    (optional_attribute ATTR_VALUE_STR u.value) (u.editions.map cpe_edition.nodes).flatten
    n1 (by decide)
  refine ⟨n, fun loc i j hloc => ?_⟩
  obtain ⟨loc2, hloop, hret, hp, hv, -⟩ := h1
    { loc with
      ret := vendor_add_update loc.ret i j
        { xml := { lang := none, nspace := u.xml.nspace, URI := none }, value := u.value,
          editions := [] },
      update := some (i, j, vendor_update_count loc.ret i j) }
    i j (vendor_update_count loc.ret i j) rfl
  refine ⟨loc2, hn loc _ loc2 (fun isEmpty rest =>
    cpe_vendor_parse_body_update u.xml.nspace u.value isEmpty rest loc i j hloc) hloop,
    ?_, hp, hv⟩
  rw [hret]
  simp only [vendor_add_edition_list, cpe_update_eta u hl huri]

theorem cpe_vendor_parse_loop_updates (us : List cpe_update)
    (hus : us.all cpe_update.canonical = true) :
    ∃ n, ∀ (loc : vendor_locals) (i j : Nat), loc.version = some (i, j) →
      ∃ loc1 : vendor_locals,
        (∀ (fuel : Nat) (errors : List String) (nodes : List xmlNode),
          cpe_vendor_parse_loop (fuel + n)
              (on_nodes errors ((us.map cpe_update.nodes).flatten ++ nodes)) loc
            = cpe_vendor_parse_loop fuel (on_nodes errors nodes) loc1)
        ∧ loc1.ret = us.foldl (fun r u => vendor_add_update r i j u) loc.ret
        ∧ loc1.product = loc.product ∧ loc1.version = loc.version := by
  induction us with
  | nil => exact ⟨0, fun loc i j _ => ⟨loc, fun _ _ _ => rfl, rfl, rfl, rfl⟩⟩
  | cons u us ih =>
    simp only [List.all_cons, Bool.and_eq_true] at hus
    obtain ⟨n1, h1⟩ := cpe_vendor_parse_loop_update u hus.1
    obtain ⟨n2, h2⟩ := ih hus.2
    refine ⟨n2 + n1, fun loc i j hloc => ?_⟩
    obtain ⟨loc1, hloop1, hret1, hp1, hv1⟩ := h1 loc i j hloc
    obtain ⟨loc2, hloop2, hret2, hp2, hv2⟩ := h2 loc1 i j (hv1.trans hloc)
    refine ⟨loc2, fun fuel errors nodes => ?_, ?_, hp2.trans hp1, hv2.trans hv1⟩
    · simp only [List.map_cons, List.flatten_cons, List.append_assoc]
      rw [← Nat.add_assoc, hloop1, hloop2]
    · rw [hret2, hret1, List.foldl_cons]

/-- The loop of `cpe_vendor_parse` over a written version adds the version,
with its updates, to the product that the pointer `product` is on. -/
theorem cpe_vendor_parse_loop_version (v : cpe_version) (hv : v.canonical = true) :
    ∃ n, ∀ (loc : vendor_locals) (i : Nat), loc.product = some i →
      ∃ loc1 : vendor_locals,
        (∀ (fuel : Nat) (errors : List String) (nodes : List xmlNode),
          cpe_vendor_parse_loop (fuel + n) (on_nodes errors (v.nodes ++ nodes)) loc
            = cpe_vendor_parse_loop fuel (on_nodes errors nodes) loc1)
        ∧ loc1.ret = vendor_add_version loc.ret i v
        ∧ loc1.product = loc.product := by
  simp only [cpe_version.canonical, Bool.and_eq_true, decide_eq_true_eq] at hv
  obtain ⟨⟨hl, huri⟩, hus⟩ := hv
  obtain ⟨n1, h1⟩ := cpe_vendor_parse_loop_updates v.updates hus
  obtain ⟨n, hn⟩ := cpe_vendor_parse_loop_element TAG_VERSION_STR v.xml.nspace
    (optional_attribute ATTR_VALUE_STR v.value) (v.updates.map cpe_update.nodes).flatten
    n1 (by decide)
  refine ⟨n, fun loc i hloc => ?_⟩
  obtain ⟨loc2, hloop, hret, hp, -⟩ := h1
    { loc with
      ret := vendor_add_version loc.ret i
        { xml := { lang := none, nspace := v.xml.nspace, URI := none }, value := v.value,
          updates := [] },
      version := some (i, vendor_version_count loc.ret i) }
    i (vendor_version_count loc.ret i) rfl
  refine ⟨loc2, hn loc _ loc2 (fun isEmpty rest =>
    cpe_vendor_parse_body_version v.xml.nspace v.value isEmpty rest loc i hloc) hloop,
    ?_, hp⟩
  rw [hret]
  simp only [vendor_add_update_list, cpe_version_eta v hl huri]

theorem cpe_vendor_parse_loop_versions (vs : List cpe_version)
    (hvs : vs.all cpe_version.canonical = true) :
    ∃ n, ∀ (loc : vendor_locals) (i : Nat), loc.product = some i →
      ∃ loc1 : vendor_locals,
        (∀ (fuel : Nat) (errors : List String) (nodes : List xmlNode),
          cpe_vendor_parse_loop (fuel + n)
              (on_nodes errors ((vs.map cpe_version.nodes).flatten ++ nodes)) loc
            = cpe_vendor_parse_loop fuel (on_nodes errors nodes) loc1)
        ∧ loc1.ret = vs.foldl (fun r v => vendor_add_version r i v) loc.ret
        ∧ loc1.product = loc.product := by
  induction vs with
  | nil => exact ⟨0, fun loc i _ => ⟨loc, fun _ _ _ => rfl, rfl, rfl⟩⟩
  | cons v vs ih =>
    simp only [List.all_cons, Bool.and_eq_true] at hvs
    obtain ⟨n1, h1⟩ := cpe_vendor_parse_loop_version v hvs.1
    obtain ⟨n2, h2⟩ := ih hvs.2
    refine ⟨n2 + n1, fun loc i hloc => ?_⟩
    obtain ⟨loc1, hloop1, hret1, hp1⟩ := h1 loc i hloc
    obtain ⟨loc2, hloop2, hret2, hp2⟩ := h2 loc1 i (hp1.trans hloc)
    refine ⟨loc2, fun fuel errors nodes => ?_, ?_, hp2.trans hp1⟩
    · simp only [List.map_cons, List.flatten_cons, List.append_assoc]
      rw [← Nat.add_assoc, hloop1, hloop2]
    · rw [hret2, hret1, List.foldl_cons]

/-- The loop of `cpe_vendor_parse` over a written product adds the product,
with its versions, to the vendor. -/
theorem cpe_vendor_parse_loop_product (p : cpe_product) (hp : p.canonical = true) :
    ∃ n, ∀ (loc : vendor_locals),
      ∃ loc1 : vendor_locals,
        (∀ (fuel : Nat) (errors : List String) (nodes : List xmlNode),
          cpe_vendor_parse_loop (fuel + n) (on_nodes errors (p.nodes ++ nodes)) loc
            = cpe_vendor_parse_loop fuel (on_nodes errors nodes) loc1)
        ∧ loc1.ret = { loc.ret with products := loc.ret.products ++ [p] } := by
  simp only [cpe_product.canonical, Bool.and_eq_true, decide_eq_true_eq] at hp
  obtain ⟨⟨hl, huri⟩, hvs⟩ := hp
  obtain ⟨n1, h1⟩ := cpe_vendor_parse_loop_versions p.versions hvs
  obtain ⟨n, hn⟩ := cpe_vendor_parse_loop_element TAG_PRODUCT_STR p.xml.nspace
    (optional_attribute ATTR_VALUE_STR p.value
      ++ optional_attribute ATTR_PART_STR (PART_TO_CHAR p.part))
    (p.versions.map cpe_version.nodes).flatten n1 (by decide)
  refine ⟨n, fun loc => ?_⟩
  obtain ⟨loc2, hloop, hret, -⟩ := h1
    { loc with
      ret := { loc.ret with products := loc.ret.products ++
        [{ xml := { lang := none, nspace := p.xml.nspace, URI := none }, value := p.value,
           part := p.part, versions := [] }] },
      product := some loc.ret.products.length }
    loc.ret.products.length rfl
  refine ⟨loc2, hn loc _ loc2 (fun isEmpty rest =>
    cpe_vendor_parse_body_product p.xml.nspace p.value p.part isEmpty rest loc) hloop, ?_⟩
  rw [hret]
  simp only [vendor_add_version_list, cpe_product_eta p hl huri]

theorem cpe_vendor_parse_loop_products (ps : List cpe_product)
    (hps : ps.all cpe_product.canonical = true) :
    ∃ n, ∀ (loc : vendor_locals),
      ∃ loc1 : vendor_locals,
        (∀ (fuel : Nat) (errors : List String) (nodes : List xmlNode),
          cpe_vendor_parse_loop (fuel + n)
              (on_nodes errors ((ps.map cpe_product.nodes).flatten ++ nodes)) loc
            = cpe_vendor_parse_loop fuel (on_nodes errors nodes) loc1)
        ∧ loc1.ret = { loc.ret with products := loc.ret.products ++ ps } := by
  induction ps with
  | nil => exact ⟨0, fun loc => ⟨loc, fun _ _ _ => rfl, by simp⟩⟩
  | cons p ps ih =>
    simp only [List.all_cons, Bool.and_eq_true] at hps
    obtain ⟨n1, h1⟩ := cpe_vendor_parse_loop_product p hps.1
    obtain ⟨n2, h2⟩ := ih hps.2
    refine ⟨n2 + n1, fun loc => ?_⟩
    obtain ⟨loc1, hloop1, hret1⟩ := h1 loc
    obtain ⟨loc2, hloop2, hret2⟩ := h2 loc1
    refine ⟨loc2, fun fuel errors nodes => ?_, ?_⟩
    · simp only [List.map_cons, List.flatten_cons, List.append_assoc]
      rw [← Nat.add_assoc, hloop1, hloop2]
    · rw [hret2, hret1]
      simp

/-! ## `cpe_vendor_parse` on a written vendor -/

theorem cpe_vendor_parse_loop_title (t : oscap_title) (ht : t.canonical = true) :
    ∃ n, ∀ (loc : vendor_locals) (fuel : Nat) (errors : List String) (nodes : List xmlNode),
      cpe_vendor_parse_loop (fuel + n) (on_nodes errors (t.nodes TAG_TITLE_STR ++ nodes)) loc
        = cpe_vendor_parse_loop fuel (on_nodes errors nodes)
            { loc with ret := { loc.ret with titles := loc.ret.titles ++ [t] } } := by
  obtain ⟨n, body, hnodes, htype, hname, hns, hlang, -, hbody, hread⟩ :=
    text_element_view TAG_TITLE_STR t.xml.nspace t.xml.lang (lang_attribute t.xml.lang) t.content
  refine ⟨body.length + 1, fun loc fuel errors nodes => ?_⟩
  have hparse := oscap_title_parse_nodes TAG_TITLE_STR t n body nodes ht hname hns hlang
    (hread nodes)
  have h1 : xmlStrcmp (some TAG_TITLE_STR) TAG_TITLE_STR = false := by decide
  have hstep : cpe_vendor_parse_body { cur := some n, rest := body ++ nodes } loc
      = .next_node { loc with ret := { loc.ret with titles := loc.ret.titles ++ [t] } } := by
    unfold cpe_vendor_parse_body
    simp only [xmlTextReaderNodeType, htype, ne_eq, not_true_eq_false, ↓reduceIte,
      xmlTextReaderConstLocalName, Option.map_some', hname, h1, Bool.not_false, hparse]
  rw [oscap_title.nodes, hnodes, List.cons_append, ← Nat.add_assoc,
    cpe_vendor_parse_loop_step _ _ n _ loc _ (by rw [hname]; decide) hstep]
  apply cpe_vendor_parse_loop_skip
  intro m hm
  refine ⟨(hbody m hm).1, ?_⟩
  rcases (hbody m hm).2 with h | h <;> rw [h] <;> decide

theorem cpe_vendor_parse_loop_titles (ts : List oscap_title)
    (hts : ts.all oscap_title.canonical = true) :
    ∃ n, ∀ (loc : vendor_locals) (fuel : Nat) (errors : List String) (nodes : List xmlNode),
      cpe_vendor_parse_loop (fuel + n)
          (on_nodes errors ((ts.map (oscap_title.nodes TAG_TITLE_STR)).flatten ++ nodes)) loc
        = cpe_vendor_parse_loop fuel (on_nodes errors nodes)
            { loc with ret := { loc.ret with titles := loc.ret.titles ++ ts } } := by
  induction ts with
  | nil => exact ⟨0, fun loc fuel errors nodes => by simp⟩
  | cons t ts ih =>
    simp only [List.all_cons, Bool.and_eq_true] at hts
    obtain ⟨n1, h1⟩ := cpe_vendor_parse_loop_title t hts.1
    obtain ⟨n2, h2⟩ := ih hts.2
    refine ⟨n2 + n1, fun loc fuel errors nodes => ?_⟩
    simp only [List.map_cons, List.flatten_cons, List.append_assoc]
    rw [← Nat.add_assoc, h1, h2]
    simp

theorem element_nodes_head (name : String) (nspace lang : Option String)
    (attrs : List (String × String)) (children : List xmlNode) :
    ∃ n ns, element_nodes name nspace lang attrs children = n :: ns
      ∧ n.type = XML_READER_TYPE_ELEMENT := by
  cases children with
  | nil => exact ⟨_, _, rfl, rfl⟩
  | cons c cs => exact ⟨_, _, rfl, rfl⟩

/-- The written children of a vendor with a title or a product begin with a start tag. -/
theorem cpe_vendor_children_head (v : cpe_vendor) (hv : v.canonical = true) :
    ∃ n ns, (v.titles.map (oscap_title.nodes TAG_TITLE_STR)).flatten
        ++ (v.products.map cpe_product.nodes).flatten = n :: ns
      ∧ n.type = XML_READER_TYPE_ELEMENT := by
  simp only [cpe_vendor.canonical, Bool.and_eq_true, Bool.or_eq_true, Bool.not_eq_true',
    List.isEmpty_eq_false] at hv
  obtain ⟨⟨⟨-, hne⟩, -⟩, -⟩ := hv
  cases hts : v.titles with
  | cons t ts =>
    obtain ⟨n, body, hnodes, htype, -⟩ :=
      text_element_view TAG_TITLE_STR t.xml.nspace t.xml.lang (lang_attribute t.xml.lang)
        t.content
    refine ⟨n, body ++ (ts.map (oscap_title.nodes TAG_TITLE_STR)).flatten
      ++ (v.products.map cpe_product.nodes).flatten, ?_, htype⟩
    simp [oscap_title.nodes, hnodes]
  | nil =>
    cases hps : v.products with
    | nil => simp [hts, hps] at hne
    | cons p ps =>
      obtain ⟨n, ns, hnodes, htype⟩ := element_nodes_head TAG_PRODUCT_STR p.xml.nspace none
        (optional_attribute ATTR_VALUE_STR p.value
          ++ optional_attribute ATTR_PART_STR (PART_TO_CHAR p.part))
        (p.versions.map cpe_version.nodes).flatten
      refine ⟨n, ns ++ (ps.map cpe_product.nodes).flatten, ?_, htype⟩
      simp [cpe_product.nodes, hnodes]

theorem cpe_vendor_eta (v : cpe_vendor) (hl : v.xml.lang = none) (hu : v.xml.URI = none) :
    ({ xml := { lang := none, nspace := v.xml.nspace, URI := none }, value := v.value,
       titles := [] ++ v.titles, products := [] ++ v.products } : cpe_vendor) = v := by
  obtain ⟨⟨lang, nspace, uri⟩, value, titles, products⟩ := v
  simp only at hl hu
  subst hl hu
  rfl

/-- On the nodes of a written vendor, `cpe_vendor_parse` answers the vendor,
the cursor on its end tag. -/
theorem cpe_vendor_parse_nodes (v : cpe_vendor) (hv : v.canonical = true) :
    ∃ k, ∀ (fuel : Nat) (errors : List String) (nodes : List xmlNode), k ≤ fuel →
      cpe_vendor_parse fuel (on_nodes errors (v.nodes ++ nodes))
        = .done ({ reader := { cur := some (xml_end TAG_VENDOR_STR v.xml.nspace none),
                               rest := nodes }, errors := errors }, some v) := by
  obtain ⟨c, cs, hhead, htype⟩ := cpe_vendor_children_head v hv
  simp only [cpe_vendor.canonical, Bool.and_eq_true, decide_eq_true_eq] at hv
  obtain ⟨⟨⟨⟨hl, huri⟩, -⟩, hts⟩, hps⟩ := hv
  obtain ⟨n1, h1⟩ := cpe_vendor_parse_loop_titles v.titles hts
  obtain ⟨n2, h2⟩ := cpe_vendor_parse_loop_products v.products hps
  refine ⟨n2 + n1 + 1, fun fuel errors nodes hfuel => ?_⟩
  obtain ⟨fuel, rfl⟩ : ∃ f, fuel = f + 1 + n2 + n1 := ⟨fuel - (n2 + n1 + 1), by omega⟩
  have hx : xmlStrcmp (some TAG_VENDOR_STR) TAG_VENDOR_STR = false := by decide
  have hvalue : ∀ rest, xmlTextReaderGetAttribute
      { cur := some (xml_element TAG_VENDOR_STR v.xml.nspace none
          (optional_attribute ATTR_VALUE_STR v.value) false),
        rest := rest }
      ATTR_VALUE_STR = v.value := by
    intro rest
    cases v.value <;> rfl
  have hparse : ∀ fuel rest, cpe_vendor_parse fuel
      { reader := { cur := some (xml_element TAG_VENDOR_STR v.xml.nspace none
          (optional_attribute ATTR_VALUE_STR v.value) false), rest := rest }, errors := errors }
      = cpe_vendor_parse_loop fuel (on_element errors rest)
          { ret := { xml := { lang := none, nspace := v.xml.nspace, URI := none },
                     value := v.value, titles := [], products := [] },
            product := none, version := none, update := none, edition := none } := by
    intro fuel rest
    have hname : xmlTextReaderConstLocalName
        { cur := some (xml_element TAG_VENDOR_STR v.xml.nspace none
            (optional_attribute ATTR_VALUE_STR v.value) false), rest := rest }
        = some TAG_VENDOR_STR := rfl
    rw [cpe_vendor_parse]
    simp only [hname, hx, Bool.false_eq_true, ↓reduceIte, hvalue rest, next_element_mk]
    rfl
  have hnodes : v.nodes = xml_element TAG_VENDOR_STR v.xml.nspace none
      (optional_attribute ATTR_VALUE_STR v.value) false
      :: ((v.titles.map (oscap_title.nodes TAG_TITLE_STR)).flatten
          ++ (v.products.map cpe_product.nodes).flatten)
        ++ [xml_end TAG_VENDOR_STR v.xml.nspace none] := by
    simp only [cpe_vendor.nodes, element_nodes, hhead]
  obtain ⟨loc2, hloop2, hret2⟩ := h2
    { ret := { xml := { lang := none, nspace := v.xml.nspace, URI := none }, value := v.value,
               titles := [] ++ v.titles, products := [] },
      product := none, version := none, update := none, edition := none }
  have hstart : ∀ rest, on_element errors
        (((v.titles.map (oscap_title.nodes TAG_TITLE_STR)).flatten
          ++ (v.products.map cpe_product.nodes).flatten) ++ rest)
      = on_nodes errors
        (((v.titles.map (oscap_title.nodes TAG_TITLE_STR)).flatten
          ++ (v.products.map cpe_product.nodes).flatten) ++ rest) := by
    intro rest
    rw [hhead, List.cons_append, on_element_cons _ _ _ htype, on_nodes_cons]
  have hend : cpe_vendor_parse_loop (fuel + 1)
      (on_nodes errors (xml_end TAG_VENDOR_STR v.xml.nspace none :: nodes)) loc2
      = .done ({ reader := { cur := some (xml_end TAG_VENDOR_STR v.xml.nspace none),
                             rest := nodes }, errors := errors }, some loc2.ret) := by
    have hname : xmlTextReaderConstLocalName
        { cur := some (xml_end TAG_VENDOR_STR v.xml.nspace none), rest := nodes }
        = some TAG_VENDOR_STR := rfl
    rw [on_nodes_cons, cpe_vendor_parse_loop]
    simp only [hname, hx, Bool.false_eq_true, ↓reduceIte]
  rw [hnodes, List.cons_append, List.cons_append, on_nodes_cons, hparse, List.append_assoc,
    hstart, List.append_assoc, h1, hloop2, List.singleton_append, hend, hret2]
  simp only [List.nil_append]
  have := cpe_vendor_eta v hl huri
  simp only [List.nil_append] at this
  rw [this]

/-! ## The main loop of `cpe_dict_model_parse` on written children -/

theorem next_element_loop_cons (n : xmlNode) (nodes : List xmlNode)
    (h : n.type = XML_READER_TYPE_ELEMENT) :
    (xmlTextReaderNextElement_loop (n :: nodes)).1 = 1 := by
  simp [xmlTextReaderNextElement_loop, h]

theorem next_element_loop_end (name : String) (nspace lang : Option String)
    (nodes : List xmlNode) :
    xmlTextReaderNextElement_loop (xml_end name nspace lang :: nodes)
      = xmlTextReaderNextElement_loop nodes := by
  simp [xmlTextReaderNextElement_loop, xml_end]

theorem element_nodes_start (name : String) (nspace lang : Option String)
    (attrs : List (String × String)) (children : List xmlNode) :
    ∃ n ns, element_nodes name nspace lang attrs children = n :: ns
      ∧ n.type = XML_READER_TYPE_ELEMENT ∧ n.localName = name := by
  cases children with
  | nil => exact ⟨_, _, rfl, rfl, rfl⟩
  | cons c cs => exact ⟨_, _, rfl, rfl, rfl⟩

theorem cpe_dict_model_parse_loop_generator_nodes (codec : cpe_codec) (g : cpe_generator)
    (hg : g.canonical = true) :
    ∃ k, ∀ (fuel : Nat) (errors : List String) (ret : cpe_dict_model) (nodes : List xmlNode),
      k ≤ fuel →
      cpe_dict_model_parse_loop codec (fuel + 1) (on_element errors (g.nodes ++ nodes)) ret
          (xmlTextReaderNextElement_loop (g.nodes ++ nodes)).1
        = cpe_dict_model_parse_loop codec fuel (on_element errors nodes)
            { ret with generator := some g } (xmlTextReaderNextElement_loop nodes).1 := by
  obtain ⟨k, hk⟩ := cpe_generator_parse_nodes g hg
  refine ⟨k, fun fuel errors ret nodes hfuel => ?_⟩
  obtain ⟨n, ns, hhead, htype, hname⟩ := element_nodes_start TAG_GENERATOR_STR g.xml.nspace none
    [] g.child_nodes
  have hparse := hk fuel errors nodes hfuel
  rw [cpe_generator.nodes, hhead, List.cons_append, on_nodes_cons] at hparse
  rw [cpe_generator.nodes, hhead, List.cons_append, on_element_cons _ _ _ htype,
    next_element_loop_cons _ _ htype,
    cpe_dict_model_parse_loop_generator _ _ _ _ _ (by decide)
      (by simp [xmlTextReaderConstLocalName, hname]), hparse]
  simp only [Res.bind_done, next_element_mk]

theorem cpe_dict_model_parse_loop_item_nodes (codec : cpe_codec) (item : cpe_item)
    (hc : item.canonical codec = true) :
    ∃ k, ∀ (fuel : Nat) (errors : List String) (ret : cpe_dict_model) (stop : xmlNode)
      (nodes : List xmlNode), k ≤ fuel → stop.type = XML_READER_TYPE_ELEMENT →
      item_child_tag stop.localName = false →
      cpe_dict_model_parse_loop codec (fuel + 1)
          (on_element errors (item.nodes codec ++ stop :: nodes)) ret
          (xmlTextReaderNextElement_loop (item.nodes codec ++ stop :: nodes)).1
        = cpe_dict_model_parse_loop codec fuel (on_element errors (stop :: nodes))
            { ret with items := ret.items ++ [item] }
            (xmlTextReaderNextElement_loop (stop :: nodes)).1 := by
  obtain ⟨k, hk⟩ := cpe_item_parse_nodes codec item hc
  refine ⟨k, fun fuel errors ret stop nodes hfuel hstop hname => ?_⟩
  obtain ⟨n, ns, hhead, htype, hn⟩ := element_nodes_start TAG_CPE_ITEM_STR item.xml.nspace none
    (item.attributes codec) item.child_nodes
  have hparse := hk fuel errors stop nodes hfuel hstop hname
  rw [cpe_item.nodes, hhead, List.cons_append, on_nodes_cons] at hparse
  rw [cpe_item.nodes, hhead, List.cons_append, on_element_cons _ _ _ htype,
    next_element_loop_cons _ _ htype, next_element_loop_cons _ _ hstop,
    cpe_dict_model_parse_loop_item _ _ _ _ _ (by decide)
      (by simp [xmlTextReaderConstLocalName, hn]), hparse]
  simp only [Res.bind_done, on_element_cons _ _ _ hstop]

theorem cpe_dict_model_parse_loop_vendor_nodes (codec : cpe_codec) (v : cpe_vendor)
    (hv : v.canonical = true) :
    ∃ k, ∀ (fuel : Nat) (errors : List String) (ret : cpe_dict_model) (nodes : List xmlNode),
      k ≤ fuel →
      cpe_dict_model_parse_loop codec (fuel + 1) (on_element errors (v.nodes ++ nodes)) ret
          (xmlTextReaderNextElement_loop (v.nodes ++ nodes)).1
        = cpe_dict_model_parse_loop codec fuel (on_element errors nodes)
            { ret with vendors := ret.vendors ++ [v] }
            (xmlTextReaderNextElement_loop nodes).1 := by
  obtain ⟨k, hk⟩ := cpe_vendor_parse_nodes v hv
  refine ⟨k, fun fuel errors ret nodes hfuel => ?_⟩
  obtain ⟨n, ns, hhead, htype, hname⟩ := element_nodes_start TAG_VENDOR_STR v.xml.nspace none
    (optional_attribute ATTR_VALUE_STR v.value)
    ((v.titles.map (oscap_title.nodes TAG_TITLE_STR)).flatten
      ++ (v.products.map cpe_product.nodes).flatten)
  have hparse := hk fuel errors nodes hfuel
  rw [cpe_vendor.nodes, hhead, List.cons_append, on_nodes_cons] at hparse
  rw [cpe_vendor.nodes, hhead, List.cons_append, on_element_cons _ _ _ htype,
    next_element_loop_cons _ _ htype,
    cpe_dict_model_parse_loop_vendor _ _ _ _ _ (by decide)
      (by simp [xmlTextReaderConstLocalName, hname]), hparse]
  simp only [Res.bind_done, next_element_mk]

theorem cpe_dict_model_parse_loop_vendor_list (codec : cpe_codec) (vs : List cpe_vendor)
    (hvs : vs.all cpe_vendor.canonical = true) :
    ∃ k, ∀ (fuel : Nat) (errors : List String) (ret : cpe_dict_model) (nodes : List xmlNode),
      k ≤ fuel →
      cpe_dict_model_parse_loop codec (fuel + vs.length)
          (on_element errors ((vs.map cpe_vendor.nodes).flatten ++ nodes)) ret
          (xmlTextReaderNextElement_loop ((vs.map cpe_vendor.nodes).flatten ++ nodes)).1
        = cpe_dict_model_parse_loop codec fuel (on_element errors nodes)
            { ret with vendors := ret.vendors ++ vs }
            (xmlTextReaderNextElement_loop nodes).1 := by
  induction vs with
  | nil => exact ⟨0, fun fuel errors ret nodes _ => by simp⟩
  | cons v vs ih =>
    simp only [List.all_cons, Bool.and_eq_true] at hvs
    obtain ⟨k1, h1⟩ := cpe_dict_model_parse_loop_vendor_nodes codec v hvs.1
    obtain ⟨k2, h2⟩ := ih hvs.2
    refine ⟨max k1 k2, fun fuel errors ret nodes hfuel => ?_⟩
    simp only [List.map_cons, List.flatten_cons, List.append_assoc, List.length_cons]
    rw [← Nat.add_assoc, h1 _ _ _ _ (by omega), h2 _ _ _ _ (by omega)]
    simp

theorem cpe_vendor_nodes_ne_nil (v : cpe_vendor) : v.nodes ≠ [] := by
  obtain ⟨n, ns, hhead, -⟩ := element_nodes_start TAG_VENDOR_STR v.xml.nspace none
    (optional_attribute ATTR_VALUE_STR v.value)
    ((v.titles.map (oscap_title.nodes TAG_TITLE_STR)).flatten
      ++ (v.products.map cpe_product.nodes).flatten)
  rw [cpe_vendor.nodes, hhead]
  simp

theorem cpe_dict_model_parse_loop_component_tree_nodes (codec : cpe_codec)
    (vs : List cpe_vendor) (hvs : vs.all cpe_vendor.canonical = true) :
    ∃ n k, ∀ (fuel : Nat) (errors : List String) (ret : cpe_dict_model) (nodes : List xmlNode),
      k ≤ fuel →
      cpe_dict_model_parse_loop codec (fuel + n)
          (on_element errors ((root_child.component_tree vs).nodes codec ++ nodes)) ret
          (xmlTextReaderNextElement_loop ((root_child.component_tree vs).nodes codec ++ nodes)).1
        = cpe_dict_model_parse_loop codec fuel (on_element errors nodes)
            { ret with vendors := ret.vendors ++ vs }
            (xmlTextReaderNextElement_loop nodes).1 := by
  obtain ⟨k, hk⟩ := cpe_dict_model_parse_loop_vendor_list codec vs hvs
  have hname : ∀ isEmpty rest, xmlTextReaderConstLocalName
      { cur := some (xml_element TAG_COMPONENT_TREE_STR (some NS_META_STR) none [] isEmpty),
        rest := rest } = some TAG_COMPONENT_TREE_STR := fun _ _ => rfl
  cases hflat : (vs.map cpe_vendor.nodes).flatten with
  | nil =>
    have hnil : vs = [] := by
      cases vs with
      | nil => rfl
      | cons v vs =>
        simp only [List.map_cons, List.flatten_cons, List.append_eq_nil] at hflat
        exact absurd hflat.1 (cpe_vendor_nodes_ne_nil v)
    subst hnil
    refine ⟨1, 0, fun fuel errors ret nodes _ => ?_⟩
    simp only [root_child.nodes, hflat, element_nodes, List.singleton_append]
    rw [on_element_cons _ _ _ rfl, next_element_loop_cons _ _ rfl,
      cpe_dict_model_parse_loop_component_tree _ _ _ _ _ (by decide) (hname _ _)]
    simp only [next_element_mk, List.append_nil]
  | cons c cs =>
    refine ⟨vs.length + 1, k, fun fuel errors ret nodes hfuel => ?_⟩
    simp only [root_child.nodes, hflat, element_nodes, List.cons_append, List.append_assoc,
      List.singleton_append]
    rw [← Nat.add_assoc, on_element_cons _ _ _ rfl, next_element_loop_cons _ _ rfl,
      cpe_dict_model_parse_loop_component_tree _ _ _ _ _ (by decide) (hname _ _)]
    simp only [next_element_mk]
    rw [← List.cons_append, ← hflat, hk _ _ _ _ hfuel, on_element_end, List.nil_append,
      next_element_loop_end]

theorem cpe_dict_model_parse_loop_unknown_nodes (codec : cpe_codec) (u : unknown_element)
    (hu : u.canonical = true) (fuel : Nat) (errors : List String) (ret : cpe_dict_model)
    (nodes : List xmlNode) :
    cpe_dict_model_parse_loop codec (fuel + 1) (on_element errors (u.nodes ++ nodes)) ret
        (xmlTextReaderNextElement_loop (u.nodes ++ nodes)).1
      = cpe_dict_model_parse_loop codec fuel (on_element (errors ++ [ERR_UNKNOWN_ELEMENT]) nodes)
          ret (xmlTextReaderNextElement_loop nodes).1 := by
  obtain ⟨n, body, hnodes, htype, hname, -, -, -, hbody, -⟩ :=
    text_element_view u.name u.nspace (element_lang [] u.attrs) u.attrs u.text
  simp only [unknown_element.canonical, Bool.and_eq_true, bne_iff_ne, ne_eq] at hu
  obtain ⟨⟨⟨⟨hg, hi⟩, hv⟩, hc⟩, -⟩ := hu
  rw [unknown_element.nodes, hnodes, List.cons_append, on_element_cons _ _ _ htype,
    next_element_loop_cons _ _ htype,
    cpe_dict_model_parse_loop_unknown codec fuel _ ret 1 n (by decide) rfl htype
      (by rw [hname]; exact hg) (by rw [hname]; exact hi) (by rw [hname]; exact hv)
      (by rw [hname]; exact hc)]
  simp only [oscap_seterr, next_element_mk]
  rw [on_element_skip _ body nodes (fun m hm => (hbody m hm).1),
    xmlTextReaderNextElement_loop_skip body nodes (fun m hm => (hbody m hm).1)]

/-! ## `cpe_dict_model_parse` on a written document -/

/-- The nodes of a child of the root begin with a start tag that is no child
of an entry. -/
theorem root_child_nodes_head (codec : cpe_codec) (c : root_child)
    (hc : c.canonical codec = true) :
    ∃ n ns, c.nodes codec = n :: ns ∧ n.type = XML_READER_TYPE_ELEMENT
      ∧ item_child_tag n.localName = false := by
  cases c with
  | generator g =>
    obtain ⟨n, ns, hhead, htype, hname⟩ := element_nodes_start TAG_GENERATOR_STR g.xml.nspace
      none [] g.child_nodes
    exact ⟨n, ns, hhead, htype, by rw [hname]; decide⟩
  | item it =>
    obtain ⟨n, ns, hhead, htype, hname⟩ := element_nodes_start TAG_CPE_ITEM_STR it.xml.nspace
      none (it.attributes codec) it.child_nodes
    exact ⟨n, ns, hhead, htype, by rw [hname]; decide⟩
  | component_tree vs =>
    obtain ⟨n, ns, hhead, htype, hname⟩ := element_nodes_start TAG_COMPONENT_TREE_STR
      (some NS_META_STR) none [] (vs.map cpe_vendor.nodes).flatten
    exact ⟨n, ns, hhead, htype, by rw [hname]; decide⟩
  | unknown u =>
    obtain ⟨n, body, hnodes, htype, hname, -⟩ :=
      text_element_view u.name u.nspace (element_lang [] u.attrs) u.attrs u.text
    simp only [root_child.canonical, unknown_element.canonical, Bool.and_eq_true,
      Bool.not_eq_true'] at hc
    exact ⟨n, body, hnodes, htype, by rw [hname]; exact hc.2⟩

/-- The passes of the main loop on a written child of the root: the child is
added to the dictionary, with a diagnostic for an unknown element, and the
cursor goes on to the next start tag. -/
theorem cpe_dict_model_parse_loop_child (codec : cpe_codec) (c : root_child)
    (hc : c.canonical codec = true) :
    ∃ n k, ∀ (fuel : Nat) (errors : List String) (ret : cpe_dict_model) (nodes : List xmlNode),
      k ≤ fuel →
      (c.is_item = true → ∃ stop rest, nodes = stop :: rest
        ∧ stop.type = XML_READER_TYPE_ELEMENT ∧ item_child_tag stop.localName = false) →
      cpe_dict_model_parse_loop codec (fuel + n) (on_element errors (c.nodes codec ++ nodes)) ret
          (xmlTextReaderNextElement_loop (c.nodes codec ++ nodes)).1
        = cpe_dict_model_parse_loop codec fuel (on_element (errors ++ c.errors) nodes)
            (c.add ret) (xmlTextReaderNextElement_loop nodes).1 := by
  cases c with
  | generator g =>
    obtain ⟨k, hk⟩ := cpe_dict_model_parse_loop_generator_nodes codec g hc
    refine ⟨1, k, fun fuel errors ret nodes hfuel _ => ?_⟩
    simp only [root_child.nodes, root_child.errors, root_child.add, List.append_nil]
    exact hk fuel errors ret nodes hfuel
  | item it =>
    obtain ⟨k, hk⟩ := cpe_dict_model_parse_loop_item_nodes codec it hc
    refine ⟨1, k, fun fuel errors ret nodes hfuel hstop => ?_⟩
    obtain ⟨stop, rest, rfl, htype, hname⟩ := hstop rfl
    simp only [root_child.nodes, root_child.errors, root_child.add, List.append_nil]
    exact hk fuel errors ret stop rest hfuel htype hname
  | component_tree vs =>
    obtain ⟨n, k, hk⟩ := cpe_dict_model_parse_loop_component_tree_nodes codec vs hc
    refine ⟨n, k, fun fuel errors ret nodes hfuel _ => ?_⟩
    simp only [root_child.errors, root_child.add, List.append_nil]
    exact hk fuel errors ret nodes hfuel
  | unknown u =>
    refine ⟨1, 0, fun fuel errors ret nodes _ _ => ?_⟩
    simp only [root_child.nodes, root_child.errors, root_child.add]
    exact cpe_dict_model_parse_loop_unknown_nodes codec u hc fuel errors ret nodes

theorem cpe_dict_model_parse_loop_child_list (codec : cpe_codec) (cs : List root_child)
    (hcs : cs.all (root_child.canonical codec) = true) (hend : ends_without_item cs = true) :
    ∃ n k, ∀ (fuel : Nat) (errors : List String) (ret : cpe_dict_model) (nodes : List xmlNode),
      k ≤ fuel →
      cpe_dict_model_parse_loop codec (fuel + n)
          (on_element errors ((cs.map (root_child.nodes codec)).flatten ++ nodes)) ret
          (xmlTextReaderNextElement_loop
            ((cs.map (root_child.nodes codec)).flatten ++ nodes)).1
        = cpe_dict_model_parse_loop codec fuel
            (on_element (errors ++ (cs.map root_child.errors).flatten) nodes)
            (cs.foldl root_child.add ret) (xmlTextReaderNextElement_loop nodes).1 := by
  induction cs with
  | nil => exact ⟨0, 0, fun fuel errors ret nodes _ => by simp⟩
  | cons c rest ih =>
    simp only [List.all_cons, Bool.and_eq_true] at hcs
    have hrest : ends_without_item rest = true := by
      cases rest with
      | nil => rfl
      | cons c1 rest1 => simpa [ends_without_item] using hend
    obtain ⟨n1, k1, h1⟩ := cpe_dict_model_parse_loop_child codec c hcs.1
    obtain ⟨n2, k2, h2⟩ := ih hcs.2 hrest
    refine ⟨n2 + n1, max k1 k2, fun fuel errors ret nodes hfuel => ?_⟩
    have hstop : c.is_item = true → ∃ stop tail,
        (rest.map (root_child.nodes codec)).flatten ++ nodes = stop :: tail
        ∧ stop.type = XML_READER_TYPE_ELEMENT ∧ item_child_tag stop.localName = false := by
      intro hitem
      cases rest with
      | nil => simp [ends_without_item, hitem] at hend
      | cons c1 rest1 =>
        simp only [List.all_cons, Bool.and_eq_true] at hcs
        obtain ⟨x, xs, hhead, htype, hname⟩ := root_child_nodes_head codec c1 hcs.2.1
        exact ⟨x, xs ++ (rest1.map (root_child.nodes codec)).flatten ++ nodes,
          by simp [hhead], htype, hname⟩
    simp only [List.map_cons, List.flatten_cons, List.append_assoc, List.foldl_cons]
    rw [← Nat.add_assoc, h1 _ _ _ _ (by omega) hstop, h2 _ _ _ _ (by omega), List.append_assoc]

/-- On a written document whose last child of the root is no entry,
`cpe_dict_model_parse` answers the dictionary of the children of the root, in
their order, with one diagnostic for each unknown element, at the end of the
stream. -/
theorem cpe_dict_model_parse_document (codec : cpe_codec) (nspace : Option String)
    (attrs : List (String × String)) (cs : List root_child)
    (hcs : cs.all (root_child.canonical codec) = true) (hend : ends_without_item cs = true) :
    ∃ k, ∀ (fuel : Nat), k ≤ fuel →
      cpe_dict_model_parse codec fuel (parser_state.start (document_nodes codec nspace attrs cs))
        = .done ({ reader := { cur := none, rest := [] },
                   errors := (cs.map root_child.errors).flatten },
            some (cs.foldl root_child.add
              { cpe_dict_model_new with
                xmlns := attrs.map
                  (fun a => { lang := none, nspace := some a.1, URI := some a.2 }) })) := by
  obtain ⟨n, k, h⟩ := cpe_dict_model_parse_loop_child_list codec cs hcs hend
  refine ⟨k + n + 1, fun fuel hfuel => ?_⟩
  obtain ⟨fuel, rfl⟩ : ∃ f, fuel = f + 1 + n := ⟨fuel - (n + 1), by omega⟩
  have hstart : parser_state.start (document_nodes codec nspace attrs cs)
      = { reader := { cur := some (xml_element TAG_CPE_LIST_STR nspace none attrs false),
                      rest := (cs.map (root_child.nodes codec)).flatten
                        ++ [xml_end TAG_CPE_LIST_STR nspace none] },
          errors := [] } := rfl
  have hfind : cpe_dict_model_parse_find (fuel + 1 + n)
      { reader := { cur := some (xml_element TAG_CPE_LIST_STR nspace none attrs false),
                    rest := (cs.map (root_child.nodes codec)).flatten
                      ++ [xml_end TAG_CPE_LIST_STR nspace none] },
        errors := [] } 1
      = .done ({ reader := { cur := some (xml_element TAG_CPE_LIST_STR nspace none attrs false),
                             rest := (cs.map (root_child.nodes codec)).flatten
                               ++ [xml_end TAG_CPE_LIST_STR nspace none] },
                 errors := [] }, true) := by
    have : fuel + 1 + n = (fuel + n) + 1 := by omega
    rw [this]
    exact cpe_dict_model_parse_find_root _ _ _ rfl
  rw [hstart, cpe_dict_model_parse, hfind]
  simp only [Res.bind_done, ↓reduceIte, next_element_mk, cpe_dict_model_parse_xmlns]
  rw [h _ _ _ _ (by omega)]
  have hlast : xmlTextReaderNextElement_loop [xml_end TAG_CPE_LIST_STR nspace none]
      = (0, { cur := none, rest := [] }) := by
    simp [xmlTextReaderNextElement_loop, xml_end]
  rw [on_element, hlast, cpe_dict_model_parse_loop_eof]
  simp [xml_element]

/-! ## The nodes of written calls -/

theorem render_go_nothing_start (stack : List open_element) (q : Option String) (m : String)
    (calls : List xmlTextWriterCall) :
    render_go stack .nothing (StartElementNS q m :: calls)
      = render_go stack (.tag m q [] false) calls := by
  simp [render_go, writer_flush]

theorem resolved_of_declared (declared : List String) (nspace : Option String) (name : String)
    (h : prefix_declared declared nspace = true) :
    resolved_name declared nspace name = name ∧ resolved_nspace declared nspace = nspace := by
  cases nspace <;> simp [resolved_name, resolved_nspace, h]

theorem prefix_declared_mono (declared other : List String) (nspace : Option String)
    (hsub : ∀ p ∈ declared, p ∈ other) (h : prefix_declared declared nspace = true) :
    prefix_declared other nspace = true := by
  cases nspace with
  | none => rfl
  | some p =>
    simp only [prefix_declared, Bool.or_eq_true, List.contains_eq_any_beq, List.any_eq_true,
      beq_iff_eq] at h ⊢
    rcases h with ⟨x, hx, hxp⟩ | h
    · exact Or.inl ⟨x, hsub x hx, hxp⟩
    · exact Or.inr h

theorem prefix_declared_element (declared : List String) (stack : List open_element)
    (attrs : List (String × String)) (nspace : Option String)
    (hstack : scope_ok declared stack) (h : prefix_declared declared nspace = true) :
    prefix_declared (element_declared stack attrs) nspace = true :=
  prefix_declared_mono declared _ nspace
    (fun p hp => List.mem_append_right _ (hstack.2 p hp)) h

theorem render_go_tag_start (stack : List open_element) (n : String) (p : Option String)
    (attrs : List (String × String)) (b : Bool) (q : Option String) (m : String)
    (calls : List xmlTextWriterCall) :
    render_go stack (.tag n p attrs b) (StartElementNS q m :: calls)
      = xml_element (resolved_name (element_declared stack attrs) p n)
          (resolved_nspace (element_declared stack attrs) p) (element_lang stack attrs) attrs
          false
        :: render_go ({ name := resolved_name (element_declared stack attrs) p n,
                        nspace := resolved_nspace (element_declared stack attrs) p,
                        lang := element_lang stack attrs,
                        declared := element_declared stack attrs } :: stack)
            (.tag m q [] false) calls := by
  simp [render_go, writer_flush]

theorem render_go_tag_end (stack : List open_element) (n : String) (p : Option String)
    (attrs : List (String × String)) (b : Bool) (calls : List xmlTextWriterCall) :
    render_go stack (.tag n p attrs b) (EndElement :: calls)
      = xml_element (resolved_name (element_declared stack attrs) p n)
          (resolved_nspace (element_declared stack attrs) p) (element_lang stack attrs) attrs
          true
        :: render_go stack .nothing calls := by
  simp [render_go]

theorem render_go_nothing_end (e : open_element) (stack : List open_element)
    (calls : List xmlTextWriterCall) :
    render_go (e :: stack) .nothing (EndElement :: calls)
      = xml_end e.name e.nspace e.lang :: render_go stack .nothing calls := by
  simp [render_go, writer_flush]

theorem render_go_attribute (stack : List open_element) (n : String) (p : Option String)
    (attrs : List (String × String)) (b : Bool) (name value : String)
    (calls : List xmlTextWriterCall) :
    render_go stack (.tag n p attrs b) (WriteAttribute (some name) (some value) :: calls)
      = render_go stack (.tag n p (attrs ++ [(name, value)]) false) calls := by
  simp [render_go]

theorem render_go_attribute_if (stack : List open_element) (n : String) (p : Option String)
    (attrs : List (String × String)) (name : String) (value : Option String)
    (calls : List xmlTextWriterCall) :
    render_go stack (.tag n p attrs false) (write_attribute_if name value ++ calls)
      = render_go stack (.tag n p (attrs ++ optional_attribute name value) false) calls := by
  cases value <;> simp [write_attribute_if, optional_attribute, render_go]

/-- The nodes of an element written with at most a text. -/
theorem render_go_text (stack : List open_element) (n : String) (p : Option String)
    (attrs : List (String × String)) (text : Option String) (calls : List xmlTextWriterCall) :
    render_go stack (.tag n p attrs false) (write_string_if text ++ EndElement :: calls)
      = text_element_nodes (resolved_name (element_declared stack attrs) p n)
          (resolved_nspace (element_declared stack attrs) p) (element_lang stack attrs) attrs
          text
        ++ render_go stack .nothing calls := by
  cases text with
  | none => simp [write_string_if, render_go, text_element_nodes]
  | some s => simp [write_string_if, render_go, text_element_nodes, writer_flush, scope_lang]

theorem render_go_text_declared (declared : List String) (stack : List open_element)
    (hstack : scope_ok declared stack) (n : String) (p : Option String)
    (attrs : List (String × String)) (text : Option String) (calls : List xmlTextWriterCall)
    (hp : prefix_declared declared p = true) :
    render_go stack (.tag n p attrs false) (write_string_if text ++ EndElement :: calls)
      = text_element_nodes n p (element_lang stack attrs) attrs text
        ++ render_go stack .nothing calls := by
  obtain ⟨h1, h2⟩ := resolved_of_declared _ p n
    (prefix_declared_element declared stack attrs p hstack hp)
  rw [render_go_text, h1, h2]

theorem render_go_tag_end_declared (declared : List String) (stack : List open_element)
    (hstack : scope_ok declared stack) (n : String) (p : Option String)
    (attrs : List (String × String)) (calls : List xmlTextWriterCall)
    (hp : prefix_declared declared p = true) :
    render_go stack (.tag n p attrs false) (EndElement :: calls)
      = xml_element n p (element_lang stack attrs) attrs true
        :: render_go stack .nothing calls := by
  obtain ⟨h1, h2⟩ := resolved_of_declared _ p n
    (prefix_declared_element declared stack attrs p hstack hp)
  rw [render_go_tag_end, h1, h2]

theorem render_go_tag_ne_nil (calls : List xmlTextWriterCall) :
    ∀ (stack : List open_element) (n : String) (p : Option String)
      (attrs : List (String × String)) (b : Bool),
      render_go stack (.tag n p attrs b) calls ≠ [] := by
  induction calls with
  | nil => intro stack n p attrs b; simp [render_go, writer_flush]
  | cons c calls ih =>
    intro stack n p attrs b
    cases c with
    | StartElementNS q m => simp [render_go, writer_flush]
    | WriteAttribute name content =>
      cases name <;> cases content <;> simp only [render_go] <;> exact ih _ _ _ _ _
    | WriteString content =>
      cases b with
      | true => simp only [render_go]; exact ih _ _ _ _ _
      | false => simp [render_go, writer_flush]
    | EndElement => simp [render_go]

/-- The nodes of an element written with child elements: the start tag, the
nodes of the children, the end tag; an empty element without children. -/
theorem render_go_element (stack : List open_element) (n : String) (p : Option String)
    (attrs : List (String × String)) (calls : List xmlTextWriterCall) (children : List xmlNode)
    (rest : List xmlTextWriterCall) (hstart : starts_element calls = true)
    (hcalls : ∀ rest1,
      render_go ({ name := resolved_name (element_declared stack attrs) p n,
                   nspace := resolved_nspace (element_declared stack attrs) p,
                   lang := element_lang stack attrs,
                   declared := element_declared stack attrs } :: stack) .nothing
          (calls ++ rest1)
        = children ++ render_go
            ({ name := resolved_name (element_declared stack attrs) p n,
               nspace := resolved_nspace (element_declared stack attrs) p,
               lang := element_lang stack attrs,
               declared := element_declared stack attrs } :: stack) .nothing
            rest1) :
    render_go stack (.tag n p attrs false) (calls ++ EndElement :: rest)
      = element_nodes (resolved_name (element_declared stack attrs) p n)
          (resolved_nspace (element_declared stack attrs) p) (element_lang stack attrs) attrs
          children
        ++ render_go stack .nothing rest := by
  cases calls with
  | nil =>
    have h := hcalls []
    simp only [List.nil_append, render_go, writer_flush, List.append_nil] at h
    subst h
    simp [element_nodes, render_go_tag_end]
  | cons c calls =>
    cases c with
    | StartElementNS q m =>
      have hne : children ≠ [] := by
        intro hnil
        have h := hcalls []
        rw [hnil, List.append_nil, render_go_nothing_start] at h
        simp only [render_go, writer_flush, List.append_nil, List.nil_append] at h
        exact render_go_tag_ne_nil _ _ _ _ _ _ h
      have h := hcalls (EndElement :: rest)
      rw [List.cons_append, render_go_nothing_start] at h
      rw [List.cons_append, render_go_tag_start, h, render_go_nothing_end]
      cases children with
      | nil => exact absurd rfl hne
      | cons d ds => simp [element_nodes]
    | WriteAttribute name content => simp [starts_element] at hstart
    | WriteString content => simp [starts_element] at hstart
    | EndElement => simp [starts_element] at hstart

theorem render_go_list {α : Type} (f : α → List xmlTextWriterCall) (g : α → List xmlNode)
    (xs : List α) (stack : List open_element)
    (h : ∀ x ∈ xs, ∀ rest,
      render_go stack .nothing (f x ++ rest) = g x ++ render_go stack .nothing rest) :
    ∀ rest, render_go stack .nothing ((xs.map f).flatten ++ rest)
      = (xs.map g).flatten ++ render_go stack .nothing rest := by
  induction xs with
  | nil => intro rest; rfl
  | cons x xs ih =>
    intro rest
    simp only [List.map_cons, List.flatten_cons, List.append_assoc]
    rw [h x (by simp), ih (fun y hy => h y (by simp [hy]))]

theorem starts_element_append (a b : List xmlTextWriterCall) (ha : starts_element a = true)
    (hb : starts_element b = true) : starts_element (a ++ b) = true := by
  cases a with
  | nil => exact hb
  | cons c a => cases c <;> simp_all [starts_element]

theorem starts_element_flatten {α : Type} (f : α → List xmlTextWriterCall) (xs : List α)
    (h : ∀ x ∈ xs, starts_element (f x) = true) :
    starts_element (xs.map f).flatten = true := by
  induction xs with
  | nil => rfl
  | cons x xs ih =>
    simp only [List.map_cons, List.flatten_cons]
    exact starts_element_append _ _ (h x (by simp)) (ih (fun y hy => h y (by simp [hy])))

theorem element_lang_optional (stack : List open_element) (name : String)
    (value : Option String) (attrs : List (String × String)) (h : name ≠ ATTR_XML_LANG_STR) :
    element_lang stack (optional_attribute name value ++ attrs) = element_lang stack attrs := by
  simp only [element_lang]
  rw [attribute_of_optional_ne ATTR_XML_LANG_STR name value attrs h]

theorem element_lang_nil (stack : List open_element) :
    element_lang stack [] = scope_lang stack := rfl

theorem element_lang_lang_attribute (stack : List open_element) (lang : Option String)
    (h : scope_lang stack = none) :
    element_lang stack (lang_attribute lang) = lang := by
  cases lang with
  | none => simpa [element_lang, lang_attribute, attribute_of] using h
  | some l => simp [element_lang, lang_attribute, attribute_of]

theorem lang_attribute_eq (lang : Option String) :
    optional_attribute ATTR_XML_LANG_STR lang = lang_attribute lang := by
  cases lang <;> rfl

/-! ## The nodes of the elements that the serializer writes -/

theorem render_go_title (name : String) (write : oscap_title → List xmlTextWriterCall)
    (hwrite : ∀ t, write t = [StartElementNS t.xml.nspace name]
      ++ write_attribute_if ATTR_XML_LANG_STR t.xml.lang ++ write_string_if t.content
      ++ [EndElement])
    (declared : List String) (t : oscap_title) (ht : t.declared_in declared = true)
    (stack : List open_element) (hstack : scope_ok declared stack)
    (rest : List xmlTextWriterCall) :
    render_go stack .nothing (write t ++ rest)
      = t.nodes name ++ render_go stack .nothing rest := by
  rw [hwrite]
  simp only [List.append_assoc, List.singleton_append, List.cons_append, List.nil_append]
  rw [render_go_nothing_start, render_go_attribute_if,
    render_go_text_declared declared stack hstack _ _ _ _ _ ht, List.nil_append,
    lang_attribute_eq, element_lang_lang_attribute stack _ hstack.1]
  rfl

theorem render_go_title_export (declared : List String) (t : oscap_title)
    (ht : t.declared_in declared = true) (stack : List open_element)
    (hstack : scope_ok declared stack) (rest : List xmlTextWriterCall) :
    render_go stack .nothing (oscap_title_export t ++ rest)
      = t.nodes TAG_TITLE_STR ++ render_go stack .nothing rest :=
  render_go_title TAG_TITLE_STR oscap_title_export (fun _ => rfl) declared t ht stack hstack rest

theorem render_go_note_export (declared : List String) (t : oscap_title)
    (ht : t.declared_in declared = true) (stack : List open_element)
    (hstack : scope_ok declared stack) (rest : List xmlTextWriterCall) :
    render_go stack .nothing (cpe_note_export t ++ rest)
      = t.nodes TAG_NOTE_STR ++ render_go stack .nothing rest :=
  render_go_title TAG_NOTE_STR cpe_note_export (fun _ => rfl) declared t ht stack hstack rest

theorem render_go_check_export (declared : List String) (c : cpe_check)
    (hc : prefix_declared declared c.xml.nspace = true) (stack : List open_element)
    (hstack : scope_ok declared stack) (rest : List xmlTextWriterCall) :
    render_go stack .nothing (cpe_check_export c ++ rest)
      = c.nodes ++ render_go stack .nothing rest := by
  simp only [cpe_check_export, List.append_assoc, List.singleton_append, List.cons_append,
    List.nil_append]
  rw [render_go_nothing_start, render_go_attribute_if, render_go_attribute_if,
    render_go_text_declared declared stack hstack _ _ _ _ _ hc,
    List.nil_append, element_lang_optional _ _ _ _ (by decide)]
  have h := element_lang_optional stack ATTR_HREF_STR c.href [] (by decide)
  rw [List.append_nil, element_lang_nil, hstack.1] at h
  rw [h]
  rfl

theorem render_go_reference_export (declared : List String) (r : cpe_reference)
    (hr : r.canonical = true) (hns : prefix_declared declared r.xml.nspace = true)
    (stack : List open_element) (hstack : scope_ok declared stack)
    (rest : List xmlTextWriterCall) :
    render_go stack .nothing (cpe_reference_export r ++ rest)
      = r.nodes ++ render_go stack .nothing rest := by
  simp only [cpe_reference.canonical, Bool.and_eq_true, decide_eq_true_eq, Bool.or_eq_true]
    at hr
  obtain ⟨-, hlang⟩ := hr
  simp only [cpe_reference_export, List.append_assoc, List.singleton_append, List.cons_append,
    List.nil_append]
  rw [render_go_nothing_start, render_go_attribute_if, List.nil_append]
  have hl : element_lang stack (optional_attribute ATTR_HREF_STR r.href
      ++ lang_attribute r.xml.lang) = r.xml.lang := by
    rw [element_lang_optional _ _ _ _ (by decide), element_lang_lang_attribute stack _ hstack.1]
  rcases hlang with hlang | hcontent
  · have h := render_go_text_declared declared stack hstack TAG_REFERENCE_STR r.xml.nspace
      (optional_attribute ATTR_HREF_STR r.href) r.content rest hns
    have hl1 := hl
    rw [hlang] at hl1
    simp only [lang_attribute, List.append_nil] at hl1
    rw [hlang]
    simp only [write_attribute_if, List.nil_append]
    rw [h, hl1]
    simp [cpe_reference.nodes, hlang, lang_attribute]
  · rw [hcontent]
    simp only [write_string_if, List.nil_append]
    rw [render_go_attribute_if, lang_attribute_eq,
      render_go_tag_end_declared declared stack hstack _ _ _ _ hns, hl]
    simp [cpe_reference.nodes, hcontent, text_element_nodes]

theorem render_go_metadata_export (declared : List String) (m : cpe_item_metadata)
    (hm : prefix_declared declared m.xml.nspace = true) (stack : List open_element)
    (hstack : scope_ok declared stack) (rest : List xmlTextWriterCall) :
    render_go stack .nothing (cpe_item_metadata_export m ++ rest)
      = m.nodes ++ render_go stack .nothing rest := by
  simp only [cpe_item_metadata_export, List.append_assoc, List.singleton_append,
    List.cons_append, List.nil_append]
  rw [render_go_nothing_start, render_go_attribute_if, render_go_attribute_if,
    render_go_attribute_if, render_go_attribute_if,
    render_go_tag_end_declared declared stack hstack _ _ _ _ hm, List.nil_append]
  have h := element_lang_optional stack ATTR_DEP_BY_NVDID_STR m.deprecated_by_nvd_id []
    (by decide)
  rw [List.append_nil, element_lang_nil, hstack.1] at h
  simp only [List.append_assoc]
  rw [element_lang_optional _ _ _ _ (by decide), element_lang_optional _ _ _ _ (by decide),
    element_lang_optional _ _ _ _ (by decide), h]
  simp [cpe_item_metadata.nodes]

theorem render_go_language_export (declared : List String) (l : cpe_language)
    (hl : prefix_declared declared l.xml.nspace = true) (stack : List open_element)
    (hstack : scope_ok declared stack) (rest : List xmlTextWriterCall) :
    render_go stack .nothing (cpe_language_export l ++ rest)
      = l.nodes ++ render_go stack .nothing rest := by
  simp only [cpe_language_export, List.append_assoc, List.singleton_append, List.cons_append,
    List.nil_append]
  rw [render_go_nothing_start, render_go_attribute_if, render_go_attribute_if,
    render_go_tag_end_declared declared stack hstack _ _ _ _ hl, List.nil_append,
    lang_attribute_eq, element_lang_optional _ _ _ _ (by decide),
    element_lang_lang_attribute stack _ hstack.1]
  rfl

/-- The nodes of an element that the serializer writes with attributes and
child elements, in a scope where the prefixes in use are declared. -/
theorem render_go_container_of (declared : List String) (stack : List open_element)
    (q : Option String) (name : String)
    (attribute_calls : List xmlTextWriterCall) (attrs : List (String × String))
    (calls : List xmlTextWriterCall) (children : List xmlNode)
    (hsub : ∀ p ∈ declared, p ∈ element_declared stack attrs)
    (hq : prefix_declared declared q = true)
    (hattrs : ∀ rest, render_go stack (.tag name q [] false) (attribute_calls ++ rest)
      = render_go stack (.tag name q attrs false) rest)
    (hlang : element_lang stack attrs = none) (hstart : starts_element calls = true)
    (hcalls : ∀ stack1, scope_ok declared stack1 → ∀ rest,
      render_go stack1 .nothing (calls ++ rest) = children ++ render_go stack1 .nothing rest)
    (rest : List xmlTextWriterCall) :
    render_go stack .nothing
        ([StartElementNS q name] ++ attribute_calls ++ calls ++ [EndElement] ++ rest)
      = element_nodes name q none attrs children ++ render_go stack .nothing rest := by
  obtain ⟨h1, h2⟩ := resolved_of_declared _ q name (prefix_declared_mono declared _ q hsub hq)
  simp only [List.append_assoc, List.singleton_append, List.cons_append, List.nil_append]
  rw [render_go_nothing_start, hattrs,
    render_go_element stack name q attrs calls children rest hstart
      (fun rest1 => hcalls
        ({ name := resolved_name (element_declared stack attrs) q name,
           nspace := resolved_nspace (element_declared stack attrs) q,
           lang := element_lang stack attrs,
           declared := element_declared stack attrs } :: stack)
        ⟨hlang, hsub⟩ rest1), hlang, h1, h2]

theorem render_go_container (declared : List String) (stack : List open_element)
    (hstack : scope_ok declared stack) (q : Option String) (name : String)
    (attribute_calls : List xmlTextWriterCall) (attrs : List (String × String))
    (calls : List xmlTextWriterCall) (children : List xmlNode)
    (hq : prefix_declared declared q = true)
    (hattrs : ∀ rest, render_go stack (.tag name q [] false) (attribute_calls ++ rest)
      = render_go stack (.tag name q attrs false) rest)
    (hlang : element_lang stack attrs = none) (hstart : starts_element calls = true)
    (hcalls : ∀ stack1, scope_ok declared stack1 → ∀ rest,
      render_go stack1 .nothing (calls ++ rest) = children ++ render_go stack1 .nothing rest)
    (rest : List xmlTextWriterCall) :
    render_go stack .nothing
        ([StartElementNS q name] ++ attribute_calls ++ calls ++ [EndElement] ++ rest)
      = element_nodes name q none attrs children ++ render_go stack .nothing rest :=
  render_go_container_of declared stack q name attribute_calls attrs calls children
    (fun p hp => List.mem_append_right _ (hstack.2 p hp)) hq hattrs hlang hstart hcalls rest

theorem element_lang_value (stack : List open_element) (value : Option String)
    (hstack : scope_lang stack = none) :
    element_lang stack (optional_attribute ATTR_VALUE_STR value) = none := by
  have h := element_lang_optional stack ATTR_VALUE_STR value [] (by decide)
  rw [List.append_nil, element_lang_nil, hstack] at h
  exact h

theorem render_go_value (stack : List open_element) (q : Option String) (name : String)
    (value : Option String) (rest : List xmlTextWriterCall) :
    render_go stack (.tag name q [] false) (write_attribute_if ATTR_VALUE_STR value ++ rest)
      = render_go stack (.tag name q (optional_attribute ATTR_VALUE_STR value) false) rest := by
  rw [render_go_attribute_if, List.nil_append]

theorem render_go_edition_export (declared : List String) (e : cpe_edition)
    (he : e.declared_in declared = true) (stack : List open_element)
    (hstack : scope_ok declared stack) (rest : List xmlTextWriterCall) :
    render_go stack .nothing (cpe_edition_export e ++ rest)
      = e.nodes ++ render_go stack .nothing rest := by
  simp only [cpe_edition.declared_in, Bool.and_eq_true, List.all_eq_true] at he
  exact render_go_container declared stack hstack e.xml.nspace TAG_EDITION_STR
    (write_attribute_if ATTR_VALUE_STR e.value) (optional_attribute ATTR_VALUE_STR e.value)
    (e.languages.map cpe_language_export).flatten (e.languages.map cpe_language.nodes).flatten
    he.1 (render_go_value stack _ _ _) (element_lang_value stack _ hstack.1)
    (starts_element_flatten _ _ (fun _ _ => rfl))
    (fun stack1 h1 => render_go_list _ _ _ stack1
      (fun l hl => render_go_language_export declared l (he.2 l hl) stack1 h1)) rest

theorem render_go_update_export (declared : List String) (u : cpe_update)
    (hu : u.declared_in declared = true) (stack : List open_element)
    (hstack : scope_ok declared stack) (rest : List xmlTextWriterCall) :
    render_go stack .nothing (cpe_update_export u ++ rest)
      = u.nodes ++ render_go stack .nothing rest := by
  simp only [cpe_update.declared_in, Bool.and_eq_true, List.all_eq_true] at hu
  exact render_go_container declared stack hstack u.xml.nspace TAG_UPDATE_STR
    (write_attribute_if ATTR_VALUE_STR u.value) (optional_attribute ATTR_VALUE_STR u.value)
    (u.editions.map cpe_edition_export).flatten (u.editions.map cpe_edition.nodes).flatten
    hu.1 (render_go_value stack _ _ _) (element_lang_value stack _ hstack.1)
    (starts_element_flatten _ _ (fun _ _ => rfl))
    (fun stack1 h1 => render_go_list _ _ _ stack1
      (fun e he => render_go_edition_export declared e (hu.2 e he) stack1 h1)) rest

theorem render_go_version_export (declared : List String) (v : cpe_version)
    (hv : v.declared_in declared = true) (stack : List open_element)
    (hstack : scope_ok declared stack) (rest : List xmlTextWriterCall) :
    render_go stack .nothing (cpe_version_export v ++ rest)
      = v.nodes ++ render_go stack .nothing rest := by
  simp only [cpe_version.declared_in, Bool.and_eq_true, List.all_eq_true] at hv
  exact render_go_container declared stack hstack v.xml.nspace TAG_VERSION_STR
    (write_attribute_if ATTR_VALUE_STR v.value) (optional_attribute ATTR_VALUE_STR v.value)
    (v.updates.map cpe_update_export).flatten (v.updates.map cpe_update.nodes).flatten
    hv.1 (render_go_value stack _ _ _) (element_lang_value stack _ hstack.1)
    (starts_element_flatten _ _ (fun _ _ => rfl))
    (fun stack1 h1 => render_go_list _ _ _ stack1
      (fun u hu => render_go_update_export declared u (hv.2 u hu) stack1 h1)) rest

theorem render_go_product_export (declared : List String) (p : cpe_product)
    (hp : p.declared_in declared = true) (stack : List open_element)
    (hstack : scope_ok declared stack) (rest : List xmlTextWriterCall) :
    render_go stack .nothing (cpe_product_export p ++ rest)
      = p.nodes ++ render_go stack .nothing rest := by
  simp only [cpe_product.declared_in, Bool.and_eq_true, List.all_eq_true] at hp
  have hexport : cpe_product_export p = [StartElementNS p.xml.nspace TAG_PRODUCT_STR]
      ++ (write_attribute_if ATTR_VALUE_STR p.value ++ cpe_product_export_part p)
      ++ (p.versions.map cpe_version_export).flatten ++ [EndElement] := by
    simp [cpe_product_export, List.append_assoc]
  rw [hexport]
  refine render_go_container declared stack hstack p.xml.nspace TAG_PRODUCT_STR _
    (optional_attribute ATTR_VALUE_STR p.value
      ++ optional_attribute ATTR_PART_STR (PART_TO_CHAR p.part))
    (p.versions.map cpe_version_export).flatten (p.versions.map cpe_version.nodes).flatten
    hp.1 ?_ ?_ (starts_element_flatten _ _ (fun _ _ => rfl))
    (fun stack1 h1 => render_go_list _ _ _ stack1
      (fun v hv => render_go_version_export declared v (hp.2 v hv) stack1 h1)) rest
  · intro rest1
    rw [List.append_assoc, render_go_value]
    cases hpart : p.part <;>
      simp [cpe_product_export_part, hpart, PART_TO_CHAR, optional_attribute, render_go]
  · rw [element_lang_optional _ _ _ _ (by decide)]
    have h := element_lang_optional stack ATTR_PART_STR (PART_TO_CHAR p.part) [] (by decide)
    rw [List.append_nil, element_lang_nil, hstack.1] at h
    exact h

theorem render_go_vendor_export (declared : List String) (v : cpe_vendor)
    (hv : v.declared_in declared = true) (stack : List open_element)
    (hstack : scope_ok declared stack) (rest : List xmlTextWriterCall) :
    render_go stack .nothing (cpe_vendor_export v ++ rest)
      = v.nodes ++ render_go stack .nothing rest := by
  simp only [cpe_vendor.declared_in, Bool.and_eq_true, List.all_eq_true] at hv
  have hexport : cpe_vendor_export v = [StartElementNS v.xml.nspace TAG_VENDOR_STR]
      ++ write_attribute_if ATTR_VALUE_STR v.value
      ++ ((v.titles.map oscap_title_export).flatten
          ++ (v.products.map cpe_product_export).flatten) ++ [EndElement] := by
    simp [cpe_vendor_export, List.append_assoc]
  rw [hexport]
  refine render_go_container declared stack hstack v.xml.nspace TAG_VENDOR_STR _
    (optional_attribute ATTR_VALUE_STR v.value) _
    ((v.titles.map (oscap_title.nodes TAG_TITLE_STR)).flatten
      ++ (v.products.map cpe_product.nodes).flatten)
    hv.1.1 (render_go_value stack _ _ _) (element_lang_value stack _ hstack.1)
    (starts_element_append _ _ (starts_element_flatten oscap_title_export _ (fun _ _ => rfl))
      (starts_element_flatten cpe_product_export _ (fun _ _ => rfl))) ?_ rest
  intro stack1 h1 rest1
  rw [List.append_assoc,
    render_go_list _ _ _ stack1
      (fun t ht => render_go_title_export declared t (hv.1.2 t ht) stack1 h1),
    render_go_list _ _ _ stack1
      (fun p hp => render_go_product_export declared p (hv.2 p hp) stack1 h1),
    List.append_assoc]

theorem render_go_component_tree_export (declared : List String) (vs : List cpe_vendor)
    (hmeta : prefix_declared declared (some NS_META_STR) = true)
    (hvs : vs.all (cpe_vendor.declared_in declared) = true) (stack : List open_element)
    (hstack : scope_ok declared stack) (rest : List xmlTextWriterCall) :
    render_go stack .nothing (component_tree_export vs ++ rest)
      = element_nodes TAG_COMPONENT_TREE_STR (some NS_META_STR) none []
          (vs.map cpe_vendor.nodes).flatten ++ render_go stack .nothing rest := by
  have hexport : component_tree_export vs
      = [StartElementNS (some NS_META_STR) TAG_COMPONENT_TREE_STR] ++ []
        ++ (vs.map cpe_vendor_export).flatten ++ [EndElement] := by
    simp [component_tree_export]
  rw [hexport]
  exact render_go_container declared stack hstack (some NS_META_STR) TAG_COMPONENT_TREE_STR []
    [] (vs.map cpe_vendor_export).flatten (vs.map cpe_vendor.nodes).flatten hmeta
    (fun _ => rfl) hstack.1 (starts_element_flatten _ _ (fun _ _ => rfl))
    (fun stack1 h1 => render_go_list _ _ _ stack1
      (fun v hv => render_go_vendor_export declared v (List.all_eq_true.1 hvs v hv) stack1 h1))
    rest

theorem render_go_generator_field (declared : List String) (nspace : Option String)
    (hns : prefix_declared declared nspace = true) (name : String)
    (field : Option String) (stack : List open_element) (hstack : scope_ok declared stack)
    (rest : List xmlTextWriterCall) :
    render_go stack .nothing (cpe_generator_export_field nspace name field ++ rest)
      = generator_field_nodes nspace name field ++ render_go stack .nothing rest := by
  cases field with
  | none => rfl
  | some s =>
    have h := render_go_text_declared declared stack hstack name nspace [] (some s) rest hns
    rw [element_lang_nil, hstack.1] at h
    simp only [cpe_generator_export_field, List.cons_append, List.nil_append]
    rw [render_go_nothing_start]
    exact h

theorem starts_element_generator_field (nspace : Option String) (name : String)
    (field : Option String) :
    starts_element (cpe_generator_export_field nspace name field) = true := by
  cases field <;> rfl

theorem render_go_generator_export (declared : List String) (g : cpe_generator)
    (hg : prefix_declared declared g.xml.nspace = true) (stack : List open_element)
    (hstack : scope_ok declared stack) (rest : List xmlTextWriterCall) :
    render_go stack .nothing (cpe_generator_export g ++ rest)
      = g.nodes ++ render_go stack .nothing rest := by
  have hexport : cpe_generator_export g = [StartElementNS g.xml.nspace TAG_GENERATOR_STR] ++ []
      ++ (cpe_generator_export_field g.xml.nspace TAG_PRODUCT_NAME_STR g.product_name
          ++ cpe_generator_export_field g.xml.nspace TAG_PRODUCT_VERSION_STR g.product_version
          ++ cpe_generator_export_field g.xml.nspace TAG_SCHEMA_VERSION_STR g.schema_version
          ++ cpe_generator_export_field g.xml.nspace TAG_TIMESTAMP_STR g.timestamp)
      ++ [EndElement] := by
    simp [cpe_generator_export, List.append_assoc]
  rw [hexport]
  refine render_go_container declared stack hstack g.xml.nspace TAG_GENERATOR_STR [] [] _
    g.child_nodes hg (fun _ => rfl) hstack.1
    (starts_element_append _ _ (starts_element_append _ _ (starts_element_append _ _
      (starts_element_generator_field _ _ _) (starts_element_generator_field _ _ _))
      (starts_element_generator_field _ _ _)) (starts_element_generator_field _ _ _)) ?_ rest
  intro stack1 h1 rest1
  simp only [List.append_assoc, cpe_generator.child_nodes]
  rw [render_go_generator_field declared _ hg _ _ stack1 h1,
    render_go_generator_field declared _ hg _ _ stack1 h1,
    render_go_generator_field declared _ hg _ _ stack1 h1,
    render_go_generator_field declared _ hg _ _ stack1 h1]

theorem element_nodes_eq_wrapped (name : String) (children : List xmlNode)
    (h : children ≠ []) :
    element_nodes name none none [] children = wrapped_nodes name children := by
  cases children with
  | nil => exact absurd rfl h
  | cons c cs => rfl

theorem render_go_references (declared : List String) (item : cpe_item)
    (hrefs : item.references.all cpe_reference.canonical = true)
    (hdecl : item.references.all (fun r => prefix_declared declared r.xml.nspace) = true)
    (stack : List open_element) (hstack : scope_ok declared stack)
    (rest : List xmlTextWriterCall) :
    render_go stack .nothing (cpe_item_export_references item ++ rest)
      = wrapped_nodes TAG_REFERENCES_STR (item.references.map cpe_reference.nodes).flatten
        ++ render_go stack .nothing rest := by
  cases hr : item.references with
  | nil => simp [cpe_item_export_references, hr, wrapped_nodes]
  | cons r rs =>
    rw [hr] at hrefs hdecl
    have hexport : cpe_item_export_references item
        = [StartElementNS none TAG_REFERENCES_STR] ++ []
          ++ ((r :: rs).map cpe_reference_export).flatten ++ [EndElement] := by
      simp [cpe_item_export_references, hr]
    rw [hexport, render_go_container declared stack hstack none TAG_REFERENCES_STR [] []
      ((r :: rs).map cpe_reference_export).flatten ((r :: rs).map cpe_reference.nodes).flatten
      rfl (fun _ => rfl) hstack.1
      (starts_element_flatten cpe_reference_export _ (fun _ _ => rfl))
      (fun stack1 h1 => render_go_list _ _ _ stack1
        (fun x hx => render_go_reference_export declared x (List.all_eq_true.1 hrefs x hx)
          (List.all_eq_true.1 hdecl x hx) stack1 h1)) rest,
      element_nodes_eq_wrapped]
    simp only [List.map_cons, List.flatten_cons, ne_eq, List.append_eq_nil, not_and]
    intro h
    exact absurd h (text_element_nodes_ne_nil _ _ _ _ _)

theorem render_go_notes (declared : List String) (item : cpe_item)
    (hdecl : item.notes.all (oscap_title.declared_in declared) = true)
    (stack : List open_element) (hstack : scope_ok declared stack)
    (rest : List xmlTextWriterCall) :
    render_go stack .nothing (cpe_item_export_notes item ++ rest)
      = wrapped_nodes TAG_NOTES_STR (item.notes.map (oscap_title.nodes TAG_NOTE_STR)).flatten
        ++ render_go stack .nothing rest := by
  cases hn : item.notes with
  | nil => simp [cpe_item_export_notes, hn, wrapped_nodes]
  | cons t ts =>
    rw [hn] at hdecl
    have hexport : cpe_item_export_notes item
        = [StartElementNS none TAG_NOTES_STR] ++ []
          ++ ((t :: ts).map cpe_note_export).flatten ++ [EndElement] := by
      simp [cpe_item_export_notes, hn]
    rw [hexport, render_go_container declared stack hstack none TAG_NOTES_STR [] []
      ((t :: ts).map cpe_note_export).flatten
      ((t :: ts).map (oscap_title.nodes TAG_NOTE_STR)).flatten
      rfl (fun _ => rfl) hstack.1 (starts_element_flatten cpe_note_export _ (fun _ _ => rfl))
      (fun stack1 h1 => render_go_list _ _ _ stack1
        (fun x hx => render_go_note_export declared x (List.all_eq_true.1 hdecl x hx) stack1
          h1)) rest,
      element_nodes_eq_wrapped]
    simp only [List.map_cons, List.flatten_cons, ne_eq, List.append_eq_nil, not_and]
    intro h
    exact absurd h (text_element_nodes_ne_nil _ _ _ _ _)

theorem render_go_item_attributes (codec : cpe_codec) (item : cpe_item)
    (hc : item.canonical codec = true) (stack : List open_element)
    (hstack : scope_lang stack = none) (q : Option String) (name : String) :
    (∀ rest, render_go stack (.tag name q [] false)
        (cpe_item_export_attributes codec item ++ rest)
      = render_go stack (.tag name q (item.attributes codec) false) rest)
    ∧ element_lang stack (item.attributes codec) = none := by
  simp only [cpe_item.canonical, Bool.and_eq_true, decide_eq_true_eq] at hc
  obtain ⟨⟨⟨⟨⟨⟨⟨⟨⟨-, -⟩, -⟩, -⟩, hdate⟩, -⟩, -⟩, -⟩, -⟩, -⟩ := hc
  cases hname : item.name <;> cases hdep : item.deprecated <;>
    cases hd : item.deprecation_date <;>
    simp [hdep, hd] at hdate <;>
    simp [cpe_item_export_attributes, cpe_item.attributes, hname, hdep, hd, render_go,
      optional_attribute, element_lang, attribute_of, hstack, ATTR_XML_LANG_STR, ATTR_NAME_STR,
      ATTR_DEPRECATED_STR, ATTR_DEPRECATION_DATE_STR, ATTR_DEPRECATED_BY_STR]

theorem starts_element_item_children (item : cpe_item) :
    starts_element ((item.titles.map oscap_title_export).flatten
      ++ cpe_item_export_metadata item ++ cpe_item_export_references item
      ++ cpe_item_export_notes item ++ (item.checks.map cpe_check_export).flatten) = true := by
  refine starts_element_append _ _ (starts_element_append _ _ (starts_element_append _ _
    (starts_element_append _ _ (starts_element_flatten oscap_title_export _ (fun _ _ => rfl))
      ?_) ?_) ?_) (starts_element_flatten cpe_check_export _ (fun _ _ => rfl))
  · cases h : item.metadata <;> simp [cpe_item_export_metadata, h, starts_element,
      cpe_item_metadata_export]
  · cases h : item.references <;> simp [cpe_item_export_references, h, starts_element]
  · cases h : item.notes <;> simp [cpe_item_export_notes, h, starts_element]

theorem render_go_item_export (declared : List String) (codec : cpe_codec) (item : cpe_item)
    (hc : item.canonical codec = true) (hd : item.declared_in declared = true)
    (stack : List open_element) (hstack : scope_ok declared stack)
    (rest : List xmlTextWriterCall) :
    render_go stack .nothing (cpe_item_export codec item ++ rest)
      = item.nodes codec ++ render_go stack .nothing rest := by
  obtain ⟨hattrs, hlang⟩ := render_go_item_attributes codec item hc stack hstack.1
    item.xml.nspace TAG_CPE_ITEM_STR
  have hrefs : item.references.all cpe_reference.canonical = true := by
    simp only [cpe_item.canonical, Bool.and_eq_true] at hc
    exact hc.1.1.2
  simp only [cpe_item.declared_in, Bool.and_eq_true] at hd
  obtain ⟨⟨⟨⟨⟨hdns, hdt⟩, hdm⟩, hdr⟩, hdn⟩, hdc⟩ := hd
  have hexport : cpe_item_export codec item = [StartElementNS item.xml.nspace TAG_CPE_ITEM_STR]
      ++ cpe_item_export_attributes codec item
      ++ ((item.titles.map oscap_title_export).flatten
          ++ cpe_item_export_metadata item ++ cpe_item_export_references item
          ++ cpe_item_export_notes item ++ (item.checks.map cpe_check_export).flatten)
      ++ [EndElement] := by
    simp [cpe_item_export, List.append_assoc]
  rw [hexport]
  refine render_go_container declared stack hstack item.xml.nspace TAG_CPE_ITEM_STR _
    (item.attributes codec) _ item.child_nodes hdns hattrs hlang
    (starts_element_item_children item) ?_ rest
  intro stack1 h1 rest1
  simp only [List.append_assoc, cpe_item.child_nodes]
  rw [render_go_list _ _ _ stack1
    (fun t ht => render_go_title_export declared t (List.all_eq_true.1 hdt t ht) stack1 h1)]
  cases hm : item.metadata with
  | none =>
    simp only [cpe_item_export_metadata, hm, List.nil_append]
    rw [render_go_references declared item hrefs hdr stack1 h1,
      render_go_notes declared item hdn stack1 h1,
      render_go_list _ _ _ stack1
        (fun c hc => render_go_check_export declared c (List.all_eq_true.1 hdc c hc) stack1
          h1)]
  | some m =>
    rw [hm] at hdm
    simp only [cpe_item_export_metadata, hm]
    rw [render_go_metadata_export declared m hdm stack1 h1,
      render_go_references declared item hrefs hdr stack1 h1,
      render_go_notes declared item hdn stack1 h1,
      render_go_list _ _ _ stack1
        (fun c hc => render_go_check_export declared c (List.all_eq_true.1 hdc c hc) stack1
          h1)]

theorem render_go_attributes (stack : List open_element) (name : String) (q : Option String)
    (new : List (String × String)) :
    ∀ (attrs : List (String × String)) (rest : List xmlTextWriterCall),
      render_go stack (.tag name q attrs false)
          (new.map (fun a => WriteAttribute (some a.1) (some a.2)) ++ rest)
        = render_go stack (.tag name q (attrs ++ new) false) rest := by
  induction new with
  | nil => intro attrs rest; simp
  | cons a new ih =>
    intro attrs rest
    simp only [List.map_cons, List.cons_append]
    rw [render_go_attribute, ih]
    simp

theorem element_lang_scope (stack : List open_element) (attrs : List (String × String))
    (hstack : scope_lang stack = none) : element_lang stack attrs = element_lang [] attrs := by
  unfold element_lang
  rw [hstack]
  rfl

theorem render_go_unknown_export (declared : List String) (u : unknown_element)
    (hu : prefix_declared declared u.nspace = true) (stack : List open_element)
    (hstack : scope_ok declared stack) (rest : List xmlTextWriterCall) :
    render_go stack .nothing (u.export ++ rest)
      = u.nodes ++ render_go stack .nothing rest := by
  simp only [unknown_element.export, List.append_assoc, List.singleton_append,
    List.cons_append, List.nil_append]
  rw [render_go_nothing_start, render_go_attributes, List.nil_append,
    render_go_text_declared declared stack hstack _ _ _ _ _ hu,
    element_lang_scope stack _ hstack.1]
  rfl

/-- The nodes of a child of the root that the serializer writes. -/
theorem render_go_root_child (declared : List String) (codec : cpe_codec) (c : root_child)
    (hc : c.canonical codec = true) (hd : c.declared_in declared = true)
    (stack : List open_element) (hstack : scope_ok declared stack)
    (rest : List xmlTextWriterCall) :
    render_go stack .nothing (c.export codec ++ rest)
      = c.nodes codec ++ render_go stack .nothing rest := by
  cases c with
  | generator g => exact render_go_generator_export declared g hd stack hstack rest
  | item it => exact render_go_item_export declared codec it hc hd stack hstack rest
  | component_tree vs =>
    simp only [root_child.declared_in, Bool.and_eq_true] at hd
    exact render_go_component_tree_export declared vs hd.1 hd.2 stack hstack rest
  | unknown u => exact render_go_unknown_export declared u hd stack hstack rest

/-! ## The document of `cpe_dict_export` -/

theorem xmlns_attributes_cons (xml : xml_metadata) (xmlns : List xml_metadata) :
    xmlns_attributes (xml :: xmlns) = xmlns_attributes [xml] ++ xmlns_attributes xmlns := by
  obtain ⟨lang, nspace, uri⟩ := xml
  cases nspace <;> cases uri <;> simp [xmlns_attributes, List.filterMap_cons]

theorem render_go_xmlns_one (stack : List open_element) (name : String) (q : Option String)
    (xml : xml_metadata) (attrs : List (String × String)) (rest : List xmlTextWriterCall) :
    render_go stack (.tag name q attrs false) (cpe_dict_export_xmlns xml ++ rest)
      = render_go stack (.tag name q (attrs ++ xmlns_attributes [xml]) false) rest := by
  obtain ⟨lang, nspace, uri⟩ := xml
  cases nspace <;> cases uri <;>
    simp [cpe_dict_export_xmlns, xmlns_attributes, render_go, List.filterMap_cons]

theorem render_go_xmlns (stack : List open_element) (name : String) (q : Option String)
    (xmlns : List xml_metadata) :
    ∀ (attrs : List (String × String)) (rest : List xmlTextWriterCall),
      render_go stack (.tag name q attrs false)
          ((xmlns.map cpe_dict_export_xmlns).flatten ++ rest)
        = render_go stack (.tag name q (attrs ++ xmlns_attributes xmlns) false) rest := by
  induction xmlns with
  | nil => intro attrs rest; simp [xmlns_attributes]
  | cons xml xmlns ih =>
    intro attrs rest
    simp only [List.map_cons, List.flatten_cons, List.append_assoc]
    rw [render_go_xmlns_one, ih, xmlns_attributes_cons xml xmlns, List.append_assoc]

theorem attribute_of_xmlns (xmlns : List xml_metadata)
    (h : xmlns.all xml_metadata.canonical = true) :
    attribute_of (xmlns_attributes xmlns) ATTR_XML_LANG_STR = none := by
  induction xmlns with
  | nil => rfl
  | cons xml xmlns ih =>
    simp only [List.all_cons, Bool.and_eq_true] at h
    obtain ⟨lang, nspace, uri⟩ := xml
    have hx := h.1
    simp only [xml_metadata.canonical, Bool.and_eq_true, decide_eq_true_eq] at hx
    cases nspace with
    | none => simp at hx
    | some name =>
      cases uri with
      | none => simp at hx
      | some u =>
        have hne : (name == ATTR_XML_LANG_STR) = false := by simpa using hx.2
        have ih1 := ih h.2
        simp only [attribute_of, Option.map_eq_none'] at ih1 ⊢
        simp [xmlns_attributes, List.find?, hne]
        simpa [xmlns_attributes] using ih1

theorem xmlns_attributes_map (xmlns : List xml_metadata)
    (h : xmlns.all xml_metadata.canonical = true) :
    (xmlns_attributes xmlns).map
        (fun a => ({ lang := none, nspace := some a.1, URI := some a.2 } : xml_metadata))
      = xmlns := by
  induction xmlns with
  | nil => rfl
  | cons xml xmlns ih =>
    simp only [List.all_cons, Bool.and_eq_true] at h
    obtain ⟨lang, nspace, uri⟩ := xml
    have hx := h.1
    simp only [xml_metadata.canonical, Bool.and_eq_true, decide_eq_true_eq] at hx
    cases nspace with
    | none => simp at hx
    | some name =>
      cases uri with
      | none => simp at hx
      | some u =>
        have ih1 := ih h.2
        simp only [xmlns_attributes] at ih1
        simp [xmlns_attributes, hx.1.1, ih1]

/-- The nodes that the calls of `root_export` write are the nodes of the root
and of the children. -/
theorem render_go_root_export (codec : cpe_codec) (nspace : Option String)
    (xmlns : List xml_metadata) (cs : List root_child)
    (hxmlns : xmlns_canonical xmlns = true)
    (hcs : cs.all (root_child.canonical codec) = true)
    (hdecl : root_declares nspace xmlns cs = true) (hne : cs ≠ []) :
    render_go [] .nothing (root_export codec nspace xmlns cs)
      = document_nodes codec nspace (xmlns_attributes xmlns) cs := by
  simp only [xmlns_canonical, Bool.and_eq_true] at hxmlns
  simp only [root_declares, Bool.and_eq_true] at hdecl
  have hlang : element_lang [] (xmlns_attributes xmlns) = none := by
    simp [element_lang, attribute_of_xmlns xmlns hxmlns.1, scope_lang]
  have h := render_go_container_of (declared_prefixes (xmlns_attributes xmlns)) [] nspace
    TAG_CPE_LIST_STR (xmlns.map cpe_dict_export_xmlns).flatten (xmlns_attributes xmlns)
    (cs.map (root_child.export codec)).flatten (cs.map (root_child.nodes codec)).flatten
    (fun p hp => List.mem_append_left _ hp) hdecl.1
    (fun rest => by rw [render_go_xmlns, List.nil_append]) hlang
    (starts_element_flatten _ _ (fun c _ => by
      cases c <;> simp [root_child.export, starts_element, cpe_generator_export,
        cpe_item_export, component_tree_export, unknown_element.export]))
    (fun stack1 h1 => render_go_list _ _ _ stack1
      (fun c hc => render_go_root_child _ codec c (List.all_eq_true.1 hcs c hc)
        (List.all_eq_true.1 hdecl.2 c hc) stack1 h1)) []
  rw [List.append_nil] at h
  rw [root_export, h]
  cases cs with
  | nil => exact absurd rfl hne
  | cons c cs =>
    simp only [List.all_cons, Bool.and_eq_true] at hcs
    obtain ⟨n, ns, hhead, -⟩ := root_child_nodes_head codec c hcs.1
    simp [element_nodes, hhead, document_nodes, render_go, writer_flush]

theorem ends_without_item_append (cs : List root_child) (c : root_child) :
    ends_without_item (cs ++ [c]) = !c.is_item := by
  induction cs with
  | nil => rfl
  | cons d cs ih =>
    cases cs with
    | nil => simp [ends_without_item]
    | cons e cs => simpa [ends_without_item] using ih

theorem foldl_add_items (items : List cpe_item) (ret : cpe_dict_model) :
    (items.map root_child.item).foldl root_child.add ret
      = { ret with items := ret.items ++ items } := by
  induction items generalizing ret with
  | nil => simp
  | cons it items ih =>
    rw [List.map_cons, List.foldl_cons, ih]
    simp [root_child.add]

theorem cpe_dict_export_eq_root_export (codec : cpe_codec) (dict : cpe_dict_model) :
    cpe_dict_export codec dict = root_export codec dict.xml.nspace dict.xmlns dict.children := by
  cases hg : dict.generator <;>
    simp [cpe_dict_export, root_export, cpe_dict_model.children, cpe_dict_export_generator, hg,
      root_child.export, component_tree_export, List.map_map, Function.comp_def]

theorem cpe_dict_model_children_fold (dict : cpe_dict_model)
    (hxml : dict.xml = xml_metadata_new) :
    dict.children.foldl root_child.add { cpe_dict_model_new with xmlns := dict.xmlns } = dict := by
  obtain ⟨xmlns, xml, items, vendors, generator⟩ := dict
  simp only at hxml
  subst hxml
  cases generator <;>
    simp [cpe_dict_model.children, List.foldl_append, foldl_add_items, root_child.add,
      cpe_dict_model_new]

theorem root_child_errors_nil (codec : cpe_codec) (cs : List root_child)
    (h : cs.all (fun c => c.canonical codec && !c.is_unknown) = true) :
    (cs.map root_child.errors).flatten = [] := by
  induction cs with
  | nil => rfl
  | cons c cs ih =>
    simp only [List.all_cons, Bool.and_eq_true, Bool.not_eq_true'] at h
    rw [List.map_cons, List.flatten_cons, ih (by simpa using h.2)]
    cases c <;> simp_all [root_child.errors, root_child.is_unknown]

theorem root_child_all_canonical (codec : cpe_codec) (cs : List root_child)
    (h : cs.all (fun c => c.canonical codec && !c.is_unknown) = true) :
    cs.all (root_child.canonical codec) = true := by
  rw [List.all_eq_true] at h ⊢
  intro c hc
  have := h c hc
  simp only [Bool.and_eq_true] at this
  exact this.1

/-! ## The namespace pairs through the main loop -/

theorem parser_state_start_nodes (document : List xmlNode) :
    (parser_state.start document).reader.nodes = document := by
  cases document <;> rfl

/-- The passes of the main loop on children of the root leave the namespace
pairs alone. -/
theorem foldl_add_xmlns (cs : List root_child) :
    ∀ ret : cpe_dict_model, (cs.foldl root_child.add ret).xmlns = ret.xmlns := by
  induction cs with
  | nil => intro ret; rfl
  | cons c cs ih =>
    intro ret
    cases c <;> simp [List.foldl_cons, ih, root_child.add]

/-! ## Elements of the calls of the serializer -/

theorem written_elements_go_inner (d : Nat) (rest : List xmlTextWriterCall) :
    ∀ (body : List xmlTextWriterCall) (k : Nat) (current : List xmlTextWriterCall),
      inner_calls k body = true →
      written_elements_go (d + 1 + k) current (body ++ rest)
        = written_elements_go (d + 1) (current ++ body) rest := by
  intro body
  induction body with
  | nil =>
    intro k current h
    simp only [inner_calls, beq_iff_eq] at h
    subst h
    simp
  | cons c body ih =>
    intro k current h
    cases c with
    | StartElementNS p n =>
      simp only [inner_calls] at h
      simp only [List.cons_append, written_elements_go, List.append_eq]
      rw [show d + 1 + k + 1 = d + 1 + (k + 1) by omega, ih (k + 1) _ h]
      simp
    | WriteAttribute name content =>
      simp only [inner_calls] at h
      simp only [List.cons_append, written_elements_go, List.append_eq]
      rw [if_neg (by omega), ih k _ h]
      simp
    | WriteString content =>
      simp only [inner_calls] at h
      simp only [List.cons_append, written_elements_go, List.append_eq]
      rw [if_neg (by omega), ih k _ h]
      simp
    | EndElement =>
      simp only [inner_calls, Bool.and_eq_true, bne_iff_ne, ne_eq] at h
      obtain ⟨hk, h⟩ := h
      simp only [List.cons_append, written_elements_go, List.append_eq]
      rw [if_neg (by omega), if_neg (by omega),
        show d + 1 + k - 1 = d + 1 + (k - 1) by omega, ih (k - 1) _ h]
      simp

/-- An element, from its start to its end, is the first of the elements of the
calls it begins. -/
theorem written_elements_go_element (p : Option String) (n : String)
    (body rest : List xmlTextWriterCall) (h : inner_calls 0 body = true) :
    written_elements_go 0 [] (StartElementNS p n :: body ++ EndElement :: rest)
      = (written_elements_go 0 [] rest).map
          (fun es => (StartElementNS p n :: body ++ [EndElement]) :: es) := by
  have := written_elements_go_inner 0 (EndElement :: rest) body 0 [StartElementNS p n] h
  simp only [Nat.zero_add, Nat.add_zero] at this
  simp only [List.cons_append, written_elements_go, List.nil_append, List.append_eq,
    Nat.zero_add]
  rw [this]
  simp [written_elements_go]

theorem inner_calls_append (rest : List xmlTextWriterCall) :
    ∀ (body : List xmlTextWriterCall) (j k : Nat), inner_calls j body = true →
      inner_calls (k + j) (body ++ rest) = inner_calls k rest := by
  intro body
  induction body with
  | nil =>
    intro j k h
    simp only [inner_calls, beq_iff_eq] at h
    subst h
    rfl
  | cons c body ih =>
    intro j k h
    cases c with
    | StartElementNS p n =>
      simp only [inner_calls] at h
      simp only [List.cons_append, inner_calls, List.append_eq]
      exact ih (j + 1) k h
    | WriteAttribute name content =>
      simp only [inner_calls] at h
      simp only [List.cons_append, inner_calls, List.append_eq]
      exact ih j k h
    | WriteString content =>
      simp only [inner_calls] at h
      simp only [List.cons_append, inner_calls, List.append_eq]
      exact ih j k h
    | EndElement =>
      simp only [inner_calls, Bool.and_eq_true, bne_iff_ne, ne_eq] at h
      obtain ⟨hj, h⟩ := h
      simp only [List.cons_append, inner_calls, List.append_eq]
      rw [show k + j - 1 = k + (j - 1) by omega, ih (j - 1) k h]
      have : (k + j != 0) = true := by simp; omega
      rw [this, Bool.true_and]

/-- An element stays inside the element it is written in. -/
theorem inner_calls_element (p : Option String) (n : String) (body rest : List xmlTextWriterCall)
    (k : Nat) (h : inner_calls 0 body = true) :
    inner_calls k (StartElementNS p n :: body ++ EndElement :: rest) = inner_calls k rest := by
  simp only [List.cons_append, inner_calls, List.append_eq]
  have := inner_calls_append (EndElement :: rest) body 0 (k + 1) h
  simp only [Nat.add_zero] at this
  rw [this]
  simp [inner_calls]

@[simp] theorem inner_calls_attribute_if (name : String) (field : Option String) (k : Nat)
    (rest : List xmlTextWriterCall) :
    inner_calls k (write_attribute_if name field ++ rest) = inner_calls k rest := by
  cases field <;> rfl

@[simp] theorem inner_calls_string_if (field : Option String) (k : Nat)
    (rest : List xmlTextWriterCall) :
    inner_calls k (write_string_if field ++ rest) = inner_calls k rest := by
  cases field <;> rfl

theorem written_elements_cons (element rest : List xmlTextWriterCall)
    (h : one_element element) :
    written_elements (element ++ rest)
      = (written_elements rest).map (fun es => element :: es) := by
  obtain ⟨p, n, body, rfl, hbody⟩ := h
  have := written_elements_go_element p n body rest hbody
  simp only [written_elements, List.cons_append, List.append_assoc, List.singleton_append]
  exact this

/-- Elements written one after the other are the elements of the calls. -/
theorem written_elements_flatten (elements : List (List xmlTextWriterCall))
    (h : ∀ e ∈ elements, one_element e) :
    written_elements elements.flatten = some elements := by
  induction elements with
  | nil => rfl
  | cons e es ih =>
    rw [List.flatten_cons, written_elements_cons e _ (h e (by simp)),
      ih (fun x hx => h x (by simp [hx]))]
    rfl

theorem inner_calls_one_element (element rest : List xmlTextWriterCall) (k : Nat)
    (h : one_element element) :
    inner_calls k (element ++ rest) = inner_calls k rest := by
  obtain ⟨p, n, body, rfl, hbody⟩ := h
  have := inner_calls_element p n body rest k hbody
  simpa using this

theorem inner_calls_flatten (elements : List (List xmlTextWriterCall))
    (h : ∀ e ∈ elements, one_element e) (rest : List xmlTextWriterCall) (k : Nat) :
    inner_calls k (elements.flatten ++ rest) = inner_calls k rest := by
  induction elements with
  | nil => rfl
  | cons e es ih =>
    rw [List.flatten_cons, List.append_assoc, inner_calls_one_element e _ k (h e (by simp)),
      ih (fun x hx => h x (by simp [hx]))]

/-- An element around elements is an element. -/
theorem one_element_of_elements (p : Option String) (n : String)
    (attributes : List xmlTextWriterCall) (elements : List (List xmlTextWriterCall))
    (hattrs : ∀ k rest, inner_calls k (attributes ++ rest) = inner_calls k rest)
    (h : ∀ e ∈ elements, one_element e) :
    one_element (StartElementNS p n :: attributes ++ elements.flatten ++ [EndElement]) := by
  refine ⟨p, n, attributes ++ elements.flatten, by simp, ?_⟩
  rw [hattrs, ← List.append_nil elements.flatten, inner_calls_flatten elements h]
  rfl

theorem one_element_title (t : oscap_title) : one_element (oscap_title_export t) :=
  ⟨t.xml.nspace, TAG_TITLE_STR, write_attribute_if ATTR_XML_LANG_STR t.xml.lang ++ write_string_if t.content,
    by simp [oscap_title_export], by
      rw [inner_calls_attribute_if, ← List.append_nil (write_string_if _), inner_calls_string_if]
      rfl⟩

theorem one_element_note (t : oscap_title) : one_element (cpe_note_export t) :=
  ⟨t.xml.nspace, TAG_NOTE_STR, write_attribute_if ATTR_XML_LANG_STR t.xml.lang ++ write_string_if t.content,
    by simp [cpe_note_export], by
      rw [inner_calls_attribute_if, ← List.append_nil (write_string_if _), inner_calls_string_if]
      rfl⟩

theorem one_element_check (c : cpe_check) : one_element (cpe_check_export c) :=
  ⟨c.xml.nspace, TAG_CHECK_STR, write_attribute_if ATTR_SYSTEM_STR c.system ++ (write_attribute_if ATTR_HREF_STR c.href
      ++ write_string_if c.identifier),
    by simp [cpe_check_export], by
      rw [inner_calls_attribute_if, inner_calls_attribute_if,
        ← List.append_nil (write_string_if _), inner_calls_string_if]
      rfl⟩

theorem one_element_reference (r : cpe_reference) : one_element (cpe_reference_export r) :=
  ⟨r.xml.nspace, TAG_REFERENCE_STR, write_attribute_if ATTR_HREF_STR r.href ++ (write_string_if r.content
      ++ write_attribute_if ATTR_XML_LANG_STR r.xml.lang),
    by simp [cpe_reference_export], by
      rw [inner_calls_attribute_if, inner_calls_string_if,
        ← List.append_nil (write_attribute_if _ _), inner_calls_attribute_if]
      rfl⟩

theorem one_element_metadata (m : cpe_item_metadata) : one_element (cpe_item_metadata_export m) :=
  ⟨m.xml.nspace, TAG_ITEM_METADATA_STR, write_attribute_if ATTR_MODIFICATION_DATE_STR m.modification_date
      ++ (write_attribute_if ATTR_STATUS_STR m.status
      ++ (write_attribute_if ATTR_NVD_ID_STR m.nvd_id
      ++ write_attribute_if ATTR_DEP_BY_NVDID_STR m.deprecated_by_nvd_id)),
    by simp [cpe_item_metadata_export], by
      rw [inner_calls_attribute_if, inner_calls_attribute_if, inner_calls_attribute_if,
        ← List.append_nil (write_attribute_if _ _), inner_calls_attribute_if]
      rfl⟩

theorem one_element_wrapper (name : String) (elements : List (List xmlTextWriterCall))
    (h : ∀ e ∈ elements, one_element e) : one_element (wrapper_calls name elements) := by
  have := one_element_of_elements none name [] elements (fun _ _ => rfl) h
  simpa [wrapper_calls] using this

theorem one_element_generator_field (p : Option String) (tag text : String) :
    one_element [StartElementNS p tag, WriteString text, EndElement] :=
  ⟨p, tag, [WriteString text], rfl, rfl⟩

/-! ## C18, C20 -/

theorem cpe_dict_export_xmlns_filter (xmlns : List xml_metadata) :
    (xmlns.map cpe_dict_export_xmlns).flatten
      = (xmlns.filter (fun x => x.URI.isSome)).map (fun x => WriteAttribute x.nspace x.URI) := by
  induction xmlns with
  | nil => rfl
  | cons x xs ih =>
    rcases x with ⟨lang, nspace, uri⟩
    cases uri <;> simp [cpe_dict_export_xmlns, ih]

theorem starts_element_dict_children (codec : cpe_codec) (dict : cpe_dict_model)
    (rest : List xmlTextWriterCall) :
    starts_element (cpe_dict_export_generator dict
      ++ ((dict.items.map (cpe_item_export codec)).flatten
      ++ StartElementNS (some NS_META_STR) TAG_COMPONENT_TREE_STR :: rest)) = true := by
  rcases dict with ⟨xmlns, xml, items, vendors, generator⟩
  cases generator <;> cases items <;> rfl

/-- C20. Namespace re-emission: for every dictionary, the calls of
`cpe_dict_export` begin with the start of the root `cpe-list`, followed by one
attribute call for each stored namespace pair whose value is present, in
stored order, with the stored name and value, and by none for a pair whose
value is absent; the call after them starts an element, so that no other
attribute goes on the root. -/
theorem cpe_dict_export_namespace_attributes (codec : cpe_codec) (dict : cpe_dict_model) :
    ∃ rest, cpe_dict_export codec dict
        = StartElementNS dict.xml.nspace TAG_CPE_LIST_STR
            :: (dict.xmlns.filter (fun x => x.URI.isSome)).map
                (fun x => WriteAttribute x.nspace x.URI)
            ++ rest
      ∧ rest ≠ [] ∧ starts_element rest = true := by
  refine ⟨cpe_dict_export_generator dict
      ++ ((dict.items.map (cpe_item_export codec)).flatten
      ++ StartElementNS (some NS_META_STR) TAG_COMPONENT_TREE_STR
        :: ((dict.vendors.map cpe_vendor_export).flatten ++ [EndElement, EndElement])), ?_, ?_,
    starts_element_dict_children codec dict _⟩
  · simp [cpe_dict_export, cpe_dict_export_xmlns_filter]
  · simp

/-- C18. Catalog-entry emission order: for every entry, the calls of
`cpe_item_export` are those of one `cpe-item` element: its start; the attribute
calls, the name when the identifier is present, then `deprecated="true"`,
`deprecation_date` and `deprecated_by` when the deprecated identifier is
present; then child elements, which are, in this order, every title in list
order, the `item-metadata` element when metadata is present, a `references`
element around every reference in list order when there is a reference, a
`notes` element around every note in list order when there is a note, every
check in list order; then its end. The `item-metadata` element has each of its
four attributes when the field is present. -/
theorem cpe_item_export_emission_order (codec : cpe_codec) (item : cpe_item) :
    ∃ children,
      cpe_item_export codec item
        = StartElementNS item.xml.nspace TAG_CPE_ITEM_STR
            :: ((match item.name with
                 | some name =>
                   [WriteAttribute (some ATTR_NAME_STR) (some (codec.cpe_name_get_uri name))]
                 | none => [])
                ++ (match item.deprecated with
                    | some deprecated =>
                      [WriteAttribute (some ATTR_DEPRECATED_STR) (some VAL_TRUE_STR),
                       WriteAttribute (some ATTR_DEPRECATION_DATE_STR) item.deprecation_date,
                       WriteAttribute (some ATTR_DEPRECATED_BY_STR)
                         (some (codec.cpe_name_get_uri deprecated))]
                    | none => []))
            ++ children ++ [EndElement]
      ∧ written_elements children
        = some (item.titles.map oscap_title_export
            ++ (match item.metadata with
                | some metadata => [cpe_item_metadata_export metadata]
                | none => [])
            ++ (if item.references = [] then []
                else [wrapper_calls TAG_REFERENCES_STR (item.references.map cpe_reference_export)])
            ++ (if item.notes = [] then []
                else [wrapper_calls TAG_NOTES_STR (item.notes.map cpe_note_export)])
            ++ item.checks.map cpe_check_export)
      ∧ written_elements (item.references.map cpe_reference_export).flatten
        = some (item.references.map cpe_reference_export)
      ∧ written_elements (item.notes.map cpe_note_export).flatten
        = some (item.notes.map cpe_note_export)
      ∧ (∀ metadata, item.metadata = some metadata →
          leading_attributes (cpe_item_metadata_export metadata).tail
            = optional_attribute ATTR_MODIFICATION_DATE_STR metadata.modification_date
              ++ optional_attribute ATTR_STATUS_STR metadata.status
              ++ optional_attribute ATTR_NVD_ID_STR metadata.nvd_id
              ++ optional_attribute ATTR_DEP_BY_NVDID_STR metadata.deprecated_by_nvd_id) := by
  have hrefs : ∀ e ∈ item.references.map cpe_reference_export, one_element e := by
    intro e he
    obtain ⟨r, _, rfl⟩ := List.mem_map.mp he
    exact one_element_reference r
  have hnotes : ∀ e ∈ item.notes.map cpe_note_export, one_element e := by
    intro e he
    obtain ⟨t, _, rfl⟩ := List.mem_map.mp he
    exact one_element_note t
  have hall : ∀ e ∈ item.titles.map oscap_title_export
      ++ (match item.metadata with
          | some metadata => [cpe_item_metadata_export metadata]
          | none => [])
      ++ (if item.references = [] then []
          else [wrapper_calls TAG_REFERENCES_STR (item.references.map cpe_reference_export)])
      ++ (if item.notes = [] then []
          else [wrapper_calls TAG_NOTES_STR (item.notes.map cpe_note_export)])
      ++ item.checks.map cpe_check_export, one_element e := by
    intro e he
    simp only [List.mem_append] at he
    rcases he with (((he | he) | he) | he) | he
    · obtain ⟨t, _, rfl⟩ := List.mem_map.mp he
      exact one_element_title t
    · cases hm : item.metadata with
      | none => simp [hm] at he
      | some m =>
        simp only [hm, List.mem_singleton] at he
        rw [he]
        exact one_element_metadata m
    · by_cases hr : item.references = []
      · simp [hr] at he
      · simp only [hr, ↓reduceIte, List.mem_singleton] at he
        rw [he]
        exact one_element_wrapper _ _ hrefs
    · by_cases hn : item.notes = []
      · simp [hn] at he
      · simp only [hn, ↓reduceIte, List.mem_singleton] at he
        rw [he]
        exact one_element_wrapper _ _ hnotes
    · obtain ⟨c, _, rfl⟩ := List.mem_map.mp he
      exact one_element_check c
  refine ⟨_, ?_, written_elements_flatten _ hall, written_elements_flatten _ hrefs,
    written_elements_flatten _ hnotes, ?_⟩
  · rcases item with ⟨xml, name, titles, deprecated, date, references, checks, notes, metadata⟩
    cases name <;> cases deprecated <;> cases metadata <;> cases references <;> cases notes <;>
      simp [cpe_item_export, cpe_item_export_attributes, cpe_item_export_metadata,
        cpe_item_export_references, cpe_item_export_notes, wrapper_calls]
  · intro m _
    rcases m with ⟨xml, d, s, n, b⟩
    cases d <;> cases s <;> cases n <;> cases b <;> rfl

/-! ## C19 -/

theorem with_content_append (a b : List xmlTextWriterCall) :
    with_content (a ++ b) = (with_content a && with_content b) := by
  simp [with_content, List.all_append]

theorem with_content_flatten_map {α : Type} (f : α → List xmlTextWriterCall) (xs : List α)
    (h : ∀ x ∈ xs, with_content (f x) = true) : with_content (xs.map f).flatten = true := by
  induction xs with
  | nil => rfl
  | cons x xs ih =>
    rw [List.map_cons, List.flatten_cons, with_content_append, h x (by simp),
      ih (fun y hy => h y (by simp [hy]))]
    rfl

theorem with_content_attribute_if (name : String) (field : Option String) :
    with_content (write_attribute_if name field) = true := by
  cases field <;> rfl

theorem with_content_string_if (field : Option String) :
    with_content (write_string_if field) = true := by
  cases field <;> rfl

theorem with_content_start (p : Option String) (n : String) (calls : List xmlTextWriterCall) :
    with_content (StartElementNS p n :: calls) = with_content calls := rfl

theorem with_content_end : with_content [EndElement] = true := rfl

theorem with_content_title (t : oscap_title) : with_content (oscap_title_export t) = true := by
  simp [oscap_title_export, with_content_append, with_content_attribute_if,
    with_content_string_if, with_content_start, with_content_end]

theorem with_content_note (t : oscap_title) : with_content (cpe_note_export t) = true := by
  simp [cpe_note_export, with_content_append, with_content_attribute_if,
    with_content_string_if, with_content_start, with_content_end]

theorem with_content_check (c : cpe_check) : with_content (cpe_check_export c) = true := by
  simp [cpe_check_export, with_content_append, with_content_attribute_if,
    with_content_string_if, with_content_start, with_content_end]

theorem with_content_reference (r : cpe_reference) :
    with_content (cpe_reference_export r) = true := by
  simp [cpe_reference_export, with_content_append, with_content_attribute_if,
    with_content_string_if, with_content_start, with_content_end]

theorem with_content_metadata (m : cpe_item_metadata) :
    with_content (cpe_item_metadata_export m) = true := by
  simp [cpe_item_metadata_export, with_content_append, with_content_attribute_if,
    with_content_start, with_content_end]

theorem with_content_generator_field (p : Option String) (tag : String) (field : Option String) :
    with_content (cpe_generator_export_field p tag field) = true := by
  cases field <;> rfl

theorem with_content_generator (g : cpe_generator) :
    with_content (cpe_generator_export g) = true := by
  simp [cpe_generator_export, with_content_append, with_content_generator_field,
    with_content_start, with_content_end]

/-- The calls that write an entry give every attribute a content when the
entry has its deprecation date whenever it has a deprecated identifier. -/
theorem with_content_item (codec : cpe_codec) (item : cpe_item)
    (hdate : item.deprecated ≠ none → item.deprecation_date ≠ none) :
    with_content (cpe_item_export codec item) = true := by
  have hattrs : with_content (cpe_item_export_attributes codec item) = true := by
    rcases item with ⟨xml, name, titles, deprecated, date, references, checks, notes, metadata⟩
    cases name <;> cases deprecated <;> cases date <;>
      first
      | rfl
      | (exfalso; exact hdate (by simp) rfl)
  have hmeta : with_content (cpe_item_export_metadata item) = true := by
    unfold cpe_item_export_metadata
    split
    · exact with_content_metadata _
    · rfl
  have hrefs : with_content (cpe_item_export_references item) = true := by
    unfold cpe_item_export_references
    split
    · simp [with_content_append, with_content_start, with_content_end,
        with_content_flatten_map _ _ (fun r _ => with_content_reference r)]
    · rfl
  have hnotes : with_content (cpe_item_export_notes item) = true := by
    unfold cpe_item_export_notes
    split
    · simp [with_content_append, with_content_start, with_content_end,
        with_content_flatten_map _ _ (fun t _ => with_content_note t)]
    · rfl
  simp [cpe_item_export, with_content_append, with_content_start, with_content_end, hattrs,
    hmeta, hrefs, hnotes, with_content_flatten_map _ _ (fun t _ => with_content_title t),
    with_content_flatten_map _ _ (fun c _ => with_content_check c)]

theorem with_content_language (x : cpe_language) :
    with_content (cpe_language_export x) = true := by
  simp [cpe_language_export, with_content_append, with_content_attribute_if,
    with_content_start, with_content_end]

theorem with_content_edition (x : cpe_edition) : with_content (cpe_edition_export x) = true := by
  simp [cpe_edition_export, with_content_append, with_content_attribute_if,
    with_content_start, with_content_end,
    with_content_flatten_map _ _ (fun y _ => with_content_language y)]

theorem with_content_update (x : cpe_update) : with_content (cpe_update_export x) = true := by
  simp [cpe_update_export, with_content_append, with_content_attribute_if,
    with_content_start, with_content_end,
    with_content_flatten_map _ _ (fun y _ => with_content_edition y)]

theorem with_content_version (x : cpe_version) : with_content (cpe_version_export x) = true := by
  simp [cpe_version_export, with_content_append, with_content_attribute_if,
    with_content_start, with_content_end,
    with_content_flatten_map _ _ (fun y _ => with_content_update y)]

theorem with_content_product (x : cpe_product) : with_content (cpe_product_export x) = true := by
  have hpart : with_content (cpe_product_export_part x) = true := by
    rcases x with ⟨xml, value, part, versions⟩
    cases part <;> rfl
  simp [cpe_product_export, with_content_append, with_content_attribute_if,
    with_content_start, with_content_end, hpart,
    with_content_flatten_map _ _ (fun y _ => with_content_version y)]

theorem with_content_vendor (x : cpe_vendor) : with_content (cpe_vendor_export x) = true := by
  simp [cpe_vendor_export, with_content_append, with_content_attribute_if,
    with_content_start, with_content_end,
    with_content_flatten_map _ _ (fun y _ => with_content_title y),
    with_content_flatten_map _ _ (fun y _ => with_content_product y)]

theorem with_content_xmlns (xml : xml_metadata) :
    with_content (cpe_dict_export_xmlns xml) = true := by
  rcases xml with ⟨lang, nspace, uri⟩
  cases uri <;> cases nspace <;> rfl

theorem with_content_dict (codec : cpe_codec) (dict : cpe_dict_model)
    (hdate : ∀ item ∈ dict.items, item.deprecated ≠ none → item.deprecation_date ≠ none) :
    with_content (cpe_dict_export codec dict) = true := by
  have hgen : with_content (cpe_dict_export_generator dict) = true := by
    unfold cpe_dict_export_generator
    split
    · exact with_content_generator _
    · rfl
  simp [cpe_dict_export, with_content_append, with_content_start, with_content_end, hgen,
    with_content_flatten_map _ _ (fun x _ => with_content_xmlns x),
    with_content_flatten_map _ _ (fun x hx => with_content_item codec x (hdate x hx)),
    with_content_flatten_map _ _ (fun x _ => with_content_vendor x)]
  rfl

/-! ### The fields written and the fields present -/

theorem written_fields_append (a b : List xmlTextWriterCall) :
    written_fields (a ++ b) = written_fields a ++ written_fields b := by
  induction a with
  | nil => rfl
  | cons c a ih => simp [written_fields, ih]

theorem written_fields_flatten_map {α : Type} (f : α → List xmlTextWriterCall)
    (g : α → List written_field) (xs : List α) (h : ∀ x ∈ xs, written_fields (f x) = g x) :
    written_fields (xs.map f).flatten = (xs.map g).flatten := by
  induction xs with
  | nil => rfl
  | cons x xs ih =>
    rw [List.map_cons, List.flatten_cons, written_fields_append, h x (by simp),
      ih (fun y hy => h y (by simp [hy]))]
    rfl

theorem written_fields_start (p : Option String) (n : String) (calls : List xmlTextWriterCall) :
    written_fields (StartElementNS p n :: calls) = .element n :: written_fields calls := rfl

theorem written_fields_end : written_fields [EndElement] = [] := rfl

theorem written_fields_attribute_if (name : String) (field : Option String) :
    written_fields (write_attribute_if name field) = present_attribute name field := by
  cases field <;> rfl

theorem written_fields_string_if (field : Option String) :
    written_fields (write_string_if field) = present_text field := by
  cases field <;> rfl

theorem written_fields_title (t : oscap_title) :
    written_fields (oscap_title_export t) = t.present_fields TAG_TITLE_STR := by
  simp [oscap_title_export, oscap_title.present_fields, written_fields_append,
    written_fields_start, written_fields_end, written_fields_attribute_if,
    written_fields_string_if]

theorem written_fields_note (t : oscap_title) :
    written_fields (cpe_note_export t) = t.present_fields TAG_NOTE_STR := by
  simp [cpe_note_export, oscap_title.present_fields, written_fields_append,
    written_fields_start, written_fields_end, written_fields_attribute_if,
    written_fields_string_if]

theorem written_fields_check (c : cpe_check) :
    written_fields (cpe_check_export c) = c.present_fields := by
  simp [cpe_check_export, cpe_check.present_fields, written_fields_append,
    written_fields_start, written_fields_end, written_fields_attribute_if,
    written_fields_string_if]

theorem written_fields_reference (r : cpe_reference) :
    written_fields (cpe_reference_export r) = r.present_fields := by
  simp [cpe_reference_export, cpe_reference.present_fields, written_fields_append,
    written_fields_start, written_fields_end, written_fields_attribute_if,
    written_fields_string_if]

theorem written_fields_metadata (m : cpe_item_metadata) :
    written_fields (cpe_item_metadata_export m) = m.present_fields := by
  simp [cpe_item_metadata_export, cpe_item_metadata.present_fields, written_fields_append,
    written_fields_start, written_fields_end, written_fields_attribute_if]

theorem written_fields_generator_field (p : Option String) (tag : String)
    (field : Option String) :
    written_fields (cpe_generator_export_field p tag field) = present_element tag field := by
  cases field <;> rfl

theorem written_fields_generator (g : cpe_generator) :
    written_fields (cpe_generator_export g) = g.present_fields := by
  simp [cpe_generator_export, cpe_generator.present_fields, written_fields_append,
    written_fields_start, written_fields_end, written_fields_generator_field]

theorem written_fields_language (x : cpe_language) :
    written_fields (cpe_language_export x) = x.present_fields := by
  simp [cpe_language_export, cpe_language.present_fields, written_fields_append,
    written_fields_start, written_fields_end, written_fields_attribute_if]

theorem written_fields_edition (x : cpe_edition) :
    written_fields (cpe_edition_export x) = x.present_fields := by
  simp [cpe_edition_export, cpe_edition.present_fields, written_fields_append,
    written_fields_start, written_fields_end, written_fields_attribute_if,
    written_fields_flatten_map _ _ _ (fun y _ => written_fields_language y)]

theorem written_fields_update (x : cpe_update) :
    written_fields (cpe_update_export x) = x.present_fields := by
  simp [cpe_update_export, cpe_update.present_fields, written_fields_append,
    written_fields_start, written_fields_end, written_fields_attribute_if,
    written_fields_flatten_map _ _ _ (fun y _ => written_fields_edition y)]

theorem written_fields_version (x : cpe_version) :
    written_fields (cpe_version_export x) = x.present_fields := by
  simp [cpe_version_export, cpe_version.present_fields, written_fields_append,
    written_fields_start, written_fields_end, written_fields_attribute_if,
    written_fields_flatten_map _ _ _ (fun y _ => written_fields_update y)]

theorem written_fields_product (x : cpe_product) :
    written_fields (cpe_product_export x) = x.present_fields := by
  have hpart : written_fields (cpe_product_export_part x)
      = present_attribute ATTR_PART_STR (PART_TO_CHAR x.part) := by
    rcases x with ⟨xml, value, part, versions⟩
    cases part <;> rfl
  simp [cpe_product_export, cpe_product.present_fields, written_fields_append,
    written_fields_start, written_fields_end, written_fields_attribute_if, hpart,
    written_fields_flatten_map _ _ _ (fun y _ => written_fields_version y)]

theorem written_fields_vendor (x : cpe_vendor) :
    written_fields (cpe_vendor_export x) = x.present_fields := by
  simp [cpe_vendor_export, cpe_vendor.present_fields, written_fields_append,
    written_fields_start, written_fields_end, written_fields_attribute_if,
    written_fields_flatten_map _ _ _ (fun y _ => written_fields_title y),
    written_fields_flatten_map _ _ _ (fun y _ => written_fields_product y)]

theorem written_fields_xmlns (xml : xml_metadata) :
    written_fields (cpe_dict_export_xmlns xml) = xml.present_fields := by
  rcases xml with ⟨lang, nspace, uri⟩
  cases uri <;> cases nspace <;> rfl

theorem written_fields_item_metadata (item : cpe_item) :
    written_fields (cpe_item_export_metadata item)
      = (match item.metadata with
         | some m => m.present_fields
         | none => []) := by
  unfold cpe_item_export_metadata
  cases item.metadata with
  | none => rfl
  | some m => exact written_fields_metadata m

theorem written_fields_item_references (item : cpe_item) :
    written_fields (cpe_item_export_references item)
      = (if item.references = [] then []
         else .element TAG_REFERENCES_STR
           :: (item.references.map cpe_reference.present_fields).flatten) := by
  unfold cpe_item_export_references
  by_cases h : item.references = []
  · simp [h, written_fields]
  · simp [h, written_fields_append, written_fields_start, written_fields_end,
      written_fields_flatten_map _ _ _ (fun y _ => written_fields_reference y)]

theorem written_fields_item_notes (item : cpe_item) :
    written_fields (cpe_item_export_notes item)
      = (if item.notes = [] then []
         else .element TAG_NOTES_STR
           :: (item.notes.map (oscap_title.present_fields TAG_NOTE_STR)).flatten) := by
  unfold cpe_item_export_notes
  by_cases h : item.notes = []
  · simp [h, written_fields]
  · simp [h, written_fields_append, written_fields_start, written_fields_end,
      written_fields_flatten_map _ _ _ (fun y _ => written_fields_note y)]

/-- The attributes written on the start tag of an entry that has its
deprecation date whenever it has a deprecated identifier are among the
attribute fields of the entry that are present; they are all of them when the
entry also has no deprecation date without a deprecated identifier. -/
theorem written_fields_item_attributes (codec : cpe_codec) (item : cpe_item)
    (hdate : item.deprecated ≠ none → item.deprecation_date ≠ none) :
    (written_fields (cpe_item_export_attributes codec item)).Sublist
        (present_attribute ATTR_NAME_STR (item.name.map codec.cpe_name_get_uri)
          ++ present_attribute ATTR_DEPRECATED_STR (item.deprecated.map (fun _ => VAL_TRUE_STR))
          ++ present_attribute ATTR_DEPRECATION_DATE_STR item.deprecation_date
          ++ present_attribute ATTR_DEPRECATED_BY_STR
              (item.deprecated.map codec.cpe_name_get_uri))
    ∧ ((item.deprecated = none → item.deprecation_date = none) →
        written_fields (cpe_item_export_attributes codec item)
          = present_attribute ATTR_NAME_STR (item.name.map codec.cpe_name_get_uri)
            ++ present_attribute ATTR_DEPRECATED_STR
                (item.deprecated.map (fun _ => VAL_TRUE_STR))
            ++ present_attribute ATTR_DEPRECATION_DATE_STR item.deprecation_date
            ++ present_attribute ATTR_DEPRECATED_BY_STR
                (item.deprecated.map codec.cpe_name_get_uri)) := by
  rcases item with ⟨xml, name, titles, deprecated, date, references, checks, notes, metadata⟩
  cases name <;> cases deprecated <;> cases date <;>
    simp [cpe_item_export_attributes, written_fields, xmlTextWriterCall.written,
      present_attribute] at hdate ⊢

theorem written_fields_item (codec : cpe_codec) (item : cpe_item)
    (hdate : item.deprecated ≠ none → item.deprecation_date ≠ none) :
    (written_fields (cpe_item_export codec item)).Sublist (item.present_fields codec)
    ∧ ((item.deprecated = none → item.deprecation_date = none) →
        written_fields (cpe_item_export codec item) = item.present_fields codec) := by
  obtain ⟨hsub, heq⟩ := written_fields_item_attributes codec item hdate
  have hshape : written_fields (cpe_item_export codec item)
      = .element TAG_CPE_ITEM_STR
        :: (written_fields (cpe_item_export_attributes codec item)
          ++ ((item.titles.map (oscap_title.present_fields TAG_TITLE_STR)).flatten
            ++ ((match item.metadata with
                | some m => m.present_fields
                | none => [])
              ++ ((if item.references = [] then []
                  else .element TAG_REFERENCES_STR
                    :: (item.references.map cpe_reference.present_fields).flatten)
                ++ ((if item.notes = [] then []
                    else .element TAG_NOTES_STR
                      :: (item.notes.map (oscap_title.present_fields TAG_NOTE_STR)).flatten)
                  ++ (item.checks.map cpe_check.present_fields).flatten))))) := by
    simp only [cpe_item_export, List.append_assoc, List.singleton_append, written_fields_start,
      written_fields_append, written_fields_end, List.append_nil,
      written_fields_item_metadata, written_fields_item_references, written_fields_item_notes,
      written_fields_flatten_map _ _ _ (fun y _ => written_fields_title y),
      written_fields_flatten_map _ _ _ (fun y _ => written_fields_check y)]
    rfl
  constructor
  · rw [hshape]
    simp only [cpe_item.present_fields, List.append_assoc]
    refine List.Sublist.cons₂ _ ?_
    have := hsub.append (List.Sublist.refl
      ((item.titles.map (oscap_title.present_fields TAG_TITLE_STR)).flatten
        ++ ((match item.metadata with
            | some m => m.present_fields
            | none => [])
          ++ ((if item.references = [] then []
              else .element TAG_REFERENCES_STR
                :: (item.references.map cpe_reference.present_fields).flatten)
            ++ ((if item.notes = [] then []
                else .element TAG_NOTES_STR
                  :: (item.notes.map (oscap_title.present_fields TAG_NOTE_STR)).flatten)
              ++ (item.checks.map cpe_check.present_fields).flatten)))))
    simpa only [List.append_assoc] using this
  · intro hback
    rw [hshape, heq hback]
    simp only [cpe_item.present_fields, List.append_assoc]

theorem sublist_flatten_map {α β : Type} (f g : α → List β) (xs : List α)
    (h : ∀ x ∈ xs, (f x).Sublist (g x)) : ((xs.map f).flatten).Sublist (xs.map g).flatten := by
  induction xs with
  | nil => exact List.Sublist.refl _
  | cons x xs ih =>
    simp only [List.map_cons, List.flatten_cons]
    exact (h x (by simp)).append (ih (fun y hy => h y (by simp [hy])))

theorem written_fields_dict_shape (codec : cpe_codec) (dict : cpe_dict_model) :
    written_fields (cpe_dict_export codec dict)
      = .element TAG_CPE_LIST_STR
        :: ((dict.xmlns.map xml_metadata.present_fields).flatten
          ++ ((match dict.generator with
              | some g => g.present_fields
              | none => [])
            ++ ((dict.items.map (fun item => written_fields (cpe_item_export codec item))).flatten
              ++ .element TAG_COMPONENT_TREE_STR
                :: (dict.vendors.map cpe_vendor.present_fields).flatten))) := by
  have hgen : written_fields (cpe_dict_export_generator dict)
      = (match dict.generator with
         | some g => g.present_fields
         | none => []) := by
    unfold cpe_dict_export_generator
    cases dict.generator with
    | none => rfl
    | some g => exact written_fields_generator g
  simp only [cpe_dict_export, List.append_assoc, List.singleton_append, written_fields_start,
    written_fields_append, written_fields_end, List.append_nil, hgen,
    written_fields_flatten_map _ _ _ (fun y _ => written_fields_xmlns y),
    written_fields_flatten_map _ _ _ (fun y _ => written_fields_vendor y),
    written_fields_flatten_map (cpe_item_export codec)
      (fun item => written_fields (cpe_item_export codec item)) _ (fun _ _ => rfl)]
  simp [written_fields, xmlTextWriterCall.written]

/-- The fields that `cpe_dict_export` writes for a dictionary in which every
entry with a deprecated identifier has its deprecation date are among the
fields of the dictionary that are present, in their order; they are all of
them when no entry has a deprecation date without a deprecated identifier. -/
theorem written_fields_dict (codec : cpe_codec) (dict : cpe_dict_model)
    (hdate : ∀ item ∈ dict.items, item.deprecated ≠ none → item.deprecation_date ≠ none) :
    (written_fields (cpe_dict_export codec dict)).Sublist (dict.present_fields codec)
    ∧ ((∀ item ∈ dict.items, item.deprecated = none → item.deprecation_date = none) →
        written_fields (cpe_dict_export codec dict) = dict.present_fields codec) := by
  rw [written_fields_dict_shape]
  constructor
  · simp only [cpe_dict_model.present_fields, List.append_assoc]
    refine List.Sublist.cons₂ _ ((List.Sublist.refl _).append
      ((List.Sublist.refl _).append ?_))
    exact (sublist_flatten_map _ _ _
      (fun item hitem => (written_fields_item codec item (hdate item hitem)).1)).append
      (List.Sublist.refl _)
  · intro hback
    have hitems : dict.items.map (fun item => written_fields (cpe_item_export codec item))
        = dict.items.map (cpe_item.present_fields codec) :=
      List.map_congr_left (fun item hitem =>
        (written_fields_item codec item (hdate item hitem)).2 (hback item hitem))
    rw [hitems]
    simp only [cpe_dict_model.present_fields, List.append_assoc]

/-- C19, counterexample. An entry with a deprecated identifier and no
deprecation date: `cpe_dict_export` calls the writer for the attribute
`deprecation_date` with no content, which leaves the attribute empty on the
entry, so what it writes is not among the fields of the dictionary that are
present. -/
theorem optional_fields_counterexample :
    undated_item.deprecation_date = none
    ∧ WriteAttribute (some ATTR_DEPRECATION_DATE_STR) none
        ∈ cpe_dict_export sample_codec undated_dict
    ∧ written_fields (cpe_dict_export sample_codec undated_dict)
      = [.element "cpe-list", .element "cpe-item", .attribute "name" (some "cpe:/a:b:c:1"),
         .attribute "deprecated" (some "true"), .attribute "deprecation_date" none,
         .attribute "deprecated_by" (some "cpe:/a:b:c:2"), .element "component-tree"]
    ∧ undated_dict.present_fields sample_codec
      = [.element "cpe-list", .element "cpe-item", .attribute "name" (some "cpe:/a:b:c:1"),
         .attribute "deprecated" (some "true"),
         .attribute "deprecated_by" (some "cpe:/a:b:c:2"), .element "component-tree"]
    ∧ ¬ (written_fields (cpe_dict_export sample_codec undated_dict)).Sublist
        (undated_dict.present_fields sample_codec) := by
  refine ⟨rfl, by decide, by decide, by decide, by decide⟩

/-- C19, amended. Optional fields are omitted, never emitted empty: for every
generator, the calls of `cpe_generator_export` are the start of the
`generator` element, then one child element for each of product_name,
product_version, schema_version and timestamp that is present, in that order,
each with the text of the field, then the end; and for every dictionary whose
entries with a deprecated identifier all have their deprecation date, the
elements, attributes and texts that `cpe_dict_export` writes are, in their
order, among the fields of the dictionary that are present
(`cpe_dict_model.present_fields`, which lists an attribute, a text or a field
element only for a field that is present, with the text of the field), so
none stands for an absent field and no attribute is written without a
content; they are all the fields present when no entry has a deprecation date
without a deprecated identifier. -/
theorem cpe_dict_export_optional_fields (codec : cpe_codec) (generator : cpe_generator)
    (dict : cpe_dict_model)
    (hdate : ∀ item ∈ dict.items, item.deprecated ≠ none → item.deprecation_date ≠ none) :
    (∃ children,
      cpe_generator_export generator
        = StartElementNS generator.xml.nspace TAG_GENERATOR_STR :: children ++ [EndElement]
      ∧ written_elements children
        = some ([(TAG_PRODUCT_NAME_STR, generator.product_name),
                 (TAG_PRODUCT_VERSION_STR, generator.product_version),
                 (TAG_SCHEMA_VERSION_STR, generator.schema_version),
                 (TAG_TIMESTAMP_STR, generator.timestamp)].filterMap
            (fun field => field.2.map (fun text =>
              [StartElementNS generator.xml.nspace field.1, WriteString text, EndElement]))))
    ∧ (written_fields (cpe_dict_export codec dict)).Sublist (dict.present_fields codec)
    ∧ (∀ call ∈ cpe_dict_export codec dict, call.without_content = false)
    ∧ ((∀ item ∈ dict.items, item.deprecated = none → item.deprecation_date = none) →
        written_fields (cpe_dict_export codec dict) = dict.present_fields codec) := by
  refine ⟨?_, (written_fields_dict codec dict hdate).1, ?_,
    (written_fields_dict codec dict hdate).2⟩
  · refine ⟨_, ?_, written_elements_flatten _ ?_⟩
    · rcases generator with ⟨xml, a, b, c, d⟩
      cases a <;> cases b <;> cases c <;> cases d <;>
        simp [cpe_generator_export, cpe_generator_export_field]
    · intro e he
      obtain ⟨field, _, hfield⟩ := List.mem_filterMap.mp he
      obtain ⟨text, _, rfl⟩ := Option.map_eq_some'.mp hfield
      exact one_element_generator_field _ _ _
  · intro call hcall
    have := with_content_dict codec dict hdate
    simp only [with_content, List.all_eq_true, Bool.not_eq_true'] at this
    exact this call hcall

theorem cpe_dict_export_optional_fields_witness :
    (∀ item ∈ sample_dict.items, item.deprecated ≠ none → item.deprecation_date ≠ none)
    ∧ (∃ children,
      cpe_generator_export sample_generator
        = StartElementNS sample_generator.xml.nspace TAG_GENERATOR_STR
            :: children ++ [EndElement]
      ∧ written_elements children
        = some ([(TAG_PRODUCT_NAME_STR, sample_generator.product_name),
                 (TAG_PRODUCT_VERSION_STR, sample_generator.product_version),
                 (TAG_SCHEMA_VERSION_STR, sample_generator.schema_version),
                 (TAG_TIMESTAMP_STR, sample_generator.timestamp)].filterMap
            (fun field => field.2.map (fun text =>
              [StartElementNS sample_generator.xml.nspace field.1, WriteString text,
               EndElement]))))
    ∧ (written_fields (cpe_dict_export sample_codec sample_dict)).Sublist
        (sample_dict.present_fields sample_codec)
    ∧ (∀ call ∈ cpe_dict_export sample_codec sample_dict, call.without_content = false)
    ∧ ((∀ item ∈ sample_dict.items, item.deprecated = none → item.deprecation_date = none) →
        written_fields (cpe_dict_export sample_codec sample_dict)
          = sample_dict.present_fields sample_codec) :=
  ⟨by decide,
   cpe_dict_export_optional_fields sample_codec sample_generator sample_dict (by decide)⟩

/-! ## C14 -/

/-- Over known children and up to an `item-metadata` start tag without
`modification-date`, the loop of `cpe_item_parse` answers no entry. -/
theorem cpe_item_parse_loop_missing_date (bad : xmlNode) (post : List xmlNode)
    (hbad : bad.type = XML_READER_TYPE_ELEMENT) (hname : bad.localName = TAG_ITEM_METADATA_STR)
    (hdate : bad.attribute ATTR_MODIFICATION_DATE_STR = none) :
    ∀ (pre : List xmlNode), (∀ n ∈ pre, item_child_ok n = true) →
    ∀ (fuel : Nat) (errors : List String) (ret : cpe_item), pre.length < fuel →
      cpe_item_parse_loop fuel
          { reader := (xmlTextReaderNextElement_loop (pre ++ bad :: post)).2, errors := errors }
          ret
        = .done ({ reader := { cur := some bad, rest := post }, errors := errors }, none) := by
  intro pre
  induction pre with
  | nil =>
    intro _ fuel errors ret hfuel
    obtain ⟨fuel, rfl⟩ : ∃ f, fuel = f + 1 := ⟨fuel - 1, by simp at hfuel; omega⟩
    rw [List.nil_append, xmlTextReaderNextElement_loop_element bad post hbad,
      cpe_item_parse_loop]
    simp [xmlStrcmp, xmlTextReaderConstLocalName, hname, cpe_item_parse_body,
      xmlTextReaderNodeType, hbad, cpe_item_metadata_parse, xmlTextReaderGetAttribute, hdate,
      TAG_ITEM_METADATA_STR, TAG_CPE_ITEM_STR, TAG_TITLE_STR, TAG_NOTE_STR, TAG_CHECK_STR,
      TAG_REFERENCE_STR]
  | cons n pre ih =>
    intro hok fuel errors ret hfuel
    have hpre : ∀ m ∈ pre, item_child_ok m = true := fun m hm => hok m (by simp [hm])
    obtain ⟨fuel, rfl⟩ : ∃ f, fuel = f + 1 := ⟨fuel - 1, by simp at hfuel; omega⟩
    by_cases htype : n.type = XML_READER_TYPE_ELEMENT
    · rw [List.cons_append, xmlTextReaderNextElement_loop_element n _ htype]
      have hn := hok n (by simp)
      have hnm : n.localName ≠ TAG_CPE_ITEM_STR := by
        intro h
        have h1 := hn
        simp only [item_child_ok, htype, bne_self_eq_false, Bool.false_or, Bool.and_eq_true]
          at h1
        rw [h, item_child_tag_cpe_item] at h1
        simp at h1
      obtain ⟨ret1, hbody⟩ := cpe_item_parse_body_child n (pre ++ bad :: post) ret htype hn
      rw [cpe_item_parse_loop]
      simp only [xmlStrcmp, xmlTextReaderConstLocalName, Option.map_some', ne_eq,
        Option.some.injEq, hnm, not_false_eq_true, decide_True, ↓reduceIte, hbody]
      exact ih hpre fuel errors ret1 (by simp at hfuel; omega)
    · have : xmlTextReaderNextElement_loop ((n :: pre) ++ bad :: post)
          = xmlTextReaderNextElement_loop (pre ++ bad :: post) := by
        simp [xmlTextReaderNextElement_loop, htype]
      rw [this]
      exact ih hpre (fuel + 1) errors ret (by simp at hfuel; omega)

/-- One pass of the loop of `cpe_item_parse` leaves the metadata block alone or
reads it from the start tag under the cursor. -/
theorem cpe_item_parse_body_metadata (reader : xmlTextReader) (ret : cpe_item) :
    (cpe_item_parse_body reader ret).reads_metadata reader ret := by
  unfold cpe_item_parse_body
  repeat' split
  all_goals first
    | (simp [item_step.reads_metadata]; done)
    | skip
  next htype h1 h2 h3 h4 hmeta x metadata hparse =>
    have htype1 : xmlTextReaderNodeType reader = XML_READER_TYPE_ELEMENT := by
      simpa using htype
    obtain ⟨n, hc⟩ : ∃ n, reader.cur = some n := by
      cases hc : reader.cur with
      | none => simp [xmlTextReaderNodeType, hc] at htype1
      | some n => exact ⟨n, rfl⟩
    have hn : n.type = XML_READER_TYPE_ELEMENT := by
      simpa [xmlTextReaderNodeType, hc] using htype1
    have hname : n.localName = TAG_ITEM_METADATA_STR := by
      simpa [xmlStrcmp, xmlTextReaderConstLocalName, hc] using hmeta
    cases hd : n.attribute ATTR_MODIFICATION_DATE_STR with
    | none => simp [cpe_item_metadata_parse, xmlTextReaderGetAttribute, hc, hd] at hparse
    | some d =>
      simp only [cpe_item_metadata_parse, xmlTextReaderGetAttribute, hc,
        Option.some_bind, hd, Option.some.injEq] at hparse
      subst hparse
      exact Or.inr ⟨n, _, hc, rfl, hn, hname, rfl, hd.symm, rfl, rfl, rfl⟩

/-- The metadata block of an entry that the loop of `cpe_item_parse` answers is
the one it started with or is read from a start tag of the stream. -/
theorem cpe_item_parse_loop_read_from (all : List xmlNode) (fuel : Nat) :
    ∀ (st : parser_state) (ret : cpe_item) (st1 : parser_state) (item : cpe_item),
      cpe_item_parse_loop fuel st ret = .done (st1, some item) →
      st.reader.nodes <:+ all →
      (∀ m, ret.metadata = some m → ∃ n ∈ all, m.read_from n) →
      ∀ m, item.metadata = some m → ∃ n ∈ all, m.read_from n := by
  induction fuel with
  | zero => intro st ret st1 item h; simp [cpe_item_parse_loop] at h
  | succ fuel ih =>
    intro st ret st1 item h hsuf hret
    unfold cpe_item_parse_loop at h
    split at h
    · have hb := cpe_item_parse_body_metadata st.reader ret
      split at h
      · next ret1 hbody =>
        rw [hbody] at hb
        simp only [item_step.reads_metadata] at hb
        exact ih _ _ _ _ h ((next_node_suffix st).trans hsuf) (by rw [hb]; exact hret)
      · next ret1 hbody =>
        rw [hbody] at hb
        simp only [item_step.reads_metadata] at hb
        refine ih _ _ _ _ h ((next_element_suffix st).trans hsuf) ?_
        rcases hb with hb | ⟨n, m, hc, hm, hread⟩
        · rw [hb]; exact hret
        · intro m1 hm1
          rw [hm] at hm1
          simp only [Option.some.injEq] at hm1
          subst hm1
          refine ⟨n, hsuf.subset ?_, hread⟩
          rw [nodes_of_cur _ _ hc]
          simp
      · simp at h
      · next ret1 hbody =>
        rw [hbody] at hb
        simp only [item_step.reads_metadata] at hb
        simp only [Res.done.injEq, Prod.mk.injEq, Option.some.injEq] at h
        rw [← h.2, hb]
        exact hret
    · simp only [Res.done.injEq, Prod.mk.injEq, Option.some.injEq] at h
      rw [← h.2]
      exact hret

/-- The metadata block of an entry that `cpe_item_parse` answers is read from
an `item-metadata` start tag after the start tag of the entry. -/
theorem cpe_item_parse_read_from (codec : cpe_codec) (fuel : Nat) (st st1 : parser_state)
    (item : cpe_item) (m : cpe_item_metadata)
    (h : cpe_item_parse codec fuel st = .done (st1, some item)) (hm : item.metadata = some m) :
    ∃ n ∈ st.reader.rest, m.read_from n := by
  unfold cpe_item_parse at h
  simp only at h
  split at h
  · split at h
    · simp at h
    · next ret hattrs =>
      have hfresh := cpe_item_parse_attrs_fresh codec _ _ hattrs
      exact cpe_item_parse_loop_read_from st.reader.rest fuel _ _ _ _ h
        (xmlTextReaderNextElement_loop_suffix st.reader.rest)
        (fun m1 hm1 => by rw [hfresh.2.2.2.2.2] at hm1; simp at hm1) m hm
  · simp at h

/-- C14, counterexample. An entry whose first child is an unknown element
`foo` and which contains, after it, an `item-metadata` without
`modification-date`: `cpe_item_parse` returns the entry at `foo` and never fails. -/
theorem cpe_item_parse_metadata_counterexample :
    (empty_tag "item-metadata" [("status", "DRAFT")]) ∈ unknown_child_metadata_state.reader.rest
    ∧ (empty_tag "item-metadata" [("status", "DRAFT")]).attribute ATTR_MODIFICATION_DATE_STR
      = none
    ∧ cpe_item_parse sample_codec 1 unknown_child_metadata_state
      = .done (state_at (empty_tag "foo" [])
            [empty_tag "item-metadata" [("status", "DRAFT")], end_tag "cpe-item",
             empty_tag "cpe-item" [("name", "cpe:/a:b:c:2")], end_tag "cpe-list"],
          some { cpe_item_new with name := some { uri := "cpe:/a:b:c:1" } })
    ∧ ∀ fuel st1, cpe_item_parse sample_codec fuel unknown_child_metadata_state
        ≠ .done (st1, none) := by
  refine ⟨by decide, by decide, by decide, ?_⟩
  intro fuel st1 h
  cases fuel with
  | zero =>
    have h0 : cpe_item_parse sample_codec 0 unknown_child_metadata_state = .timeout := by
      decide
    rw [h0] at h
    simp at h
  | succ fuel =>
    have h1 : cpe_item_parse sample_codec 1 unknown_child_metadata_state
        = .done (state_at (empty_tag "foo" [])
            [empty_tag "item-metadata" [("status", "DRAFT")], end_tag "cpe-item",
             empty_tag "cpe-item" [("name", "cpe:/a:b:c:2")], end_tag "cpe-list"],
          some { cpe_item_new with name := some { uri := "cpe:/a:b:c:1" } }) := by decide
    have h2 := done_of_fuel_le
      (fun n => cpe_item_parse sample_codec n unknown_child_metadata_state)
      (fun n => cpe_item_parse_mono sample_codec n _) 1 (fuel + 1) (by omega) _ h1
    simp only at h2
    rw [h2] at h
    simp at h

/-- C14, amended. Metadata requires its modification date: on a `cpe-item`
start tag followed by nodes whose start tags are all known children (an
`item-metadata` among them having its `modification-date`) and then by an
`item-metadata` start tag without `modification-date`, `cpe_item_parse` answers
no entry; and for every entry that `cpe_item_parse` answers, a metadata block
that is present is read from an `item-metadata` start tag of the stream: its
modification date is present and is the text of the attribute, and its status,
nvd-id and deprecated-by-nvd-id are those of the attributes, each present
exactly when the attribute is. -/
theorem cpe_item_parse_metadata_date (codec : cpe_codec) (fuel : Nat) (st : parser_state)
    (item_tag bad : xmlNode) (pre post : List xmlNode)
    (hcur : st.reader.cur = some item_tag)
    (htype : item_tag.type = XML_READER_TYPE_ELEMENT)
    (htag : item_tag.localName = TAG_CPE_ITEM_STR)
    (hrest : st.reader.rest = pre ++ bad :: post)
    (hpre : ∀ n ∈ pre, item_child_ok n = true)
    (hbad : bad.type = XML_READER_TYPE_ELEMENT)
    (hbadtag : bad.localName = TAG_ITEM_METADATA_STR)
    (hmissing : bad.attribute ATTR_MODIFICATION_DATE_STR = none)
    (hfuel : pre.length < fuel) :
    (∃ st1, cpe_item_parse codec fuel st = .done (st1, none))
    ∧ ∀ (fuel1 : Nat) (st0 st1 : parser_state) (item : cpe_item) (m : cpe_item_metadata),
        cpe_item_parse codec fuel1 st0 = .done (st1, some item) → item.metadata = some m →
        ∃ n ∈ st0.reader.rest, m.read_from n := by
  refine ⟨?_, fun fuel1 st0 st1 item m h hm => cpe_item_parse_read_from codec fuel1 st0 st1 item
    m h hm⟩
  unfold cpe_item_parse
  simp only [xmlTextReaderConstLocalName, hcur, Option.map_some', htag, xmlStrcmp, ne_eq,
    not_true_eq_false, decide_False, Bool.not_false, xmlTextReaderNodeType, htype,
    decide_True, Bool.and_self, ↓reduceIte]
  cases hattrs : cpe_item_parse_attrs codec st.reader with
  | none => exact ⟨_, rfl⟩
  | some ret =>
    simp only [parser_state.next_element, xmlTextReaderNextElement, hrest]
    exact ⟨_, cpe_item_parse_loop_missing_date bad post hbad hbadtag hmissing pre hpre fuel
      st.errors ret hfuel⟩

theorem cpe_item_parse_metadata_date_witness :
    (∀ n ∈ [start_tag "title" [], text_node "One", end_tag "title"], item_child_ok n = true)
    ∧ (∃ st1, cpe_item_parse sample_codec 4 missing_date_state = .done (st1, none))
    ∧ ∀ (fuel1 : Nat) (st0 st1 : parser_state) (item : cpe_item) (m : cpe_item_metadata),
        cpe_item_parse sample_codec fuel1 st0 = .done (st1, some item) →
        item.metadata = some m → ∃ n ∈ st0.reader.rest, m.read_from n :=
  ⟨by decide,
   cpe_item_parse_metadata_date sample_codec 4 missing_date_state
    (start_tag "cpe-item" [("name", "cpe:/a:b:c:1")])
    (empty_tag "item-metadata" [("status", "DRAFT")])
    [start_tag "title" [], text_node "One", end_tag "title"]
    [end_tag "cpe-item", empty_tag "cpe-item" [("name", "cpe:/a:b:c:2")], end_tag "cpe-list"]
    rfl rfl rfl rfl (by decide) rfl rfl (by decide) (by decide)⟩

/-! ## C15 -/

/-- One pass of the loop of `cpe_item_parse` on a known child adds to the entry
what the start tag stands for, and goes on to the next start tag. -/
theorem cpe_item_parse_body_child_events (codec : cpe_codec) (n : xmlNode) (xs : List xmlNode)
    (ret : cpe_item) (htype : n.type = XML_READER_TYPE_ELEMENT)
    (hok : item_child_ok n = true) :
    ∃ ret1, cpe_item_parse_body { cur := some n, rest := xs } ret = .next_element ret1
      ∧ ∀ kind, ret1.kind_events kind
          = ret.kind_events kind ++ (node_events codec n xs).filter (order_event.keep kind) := by
  simp only [item_child_ok, htype, bne_self_eq_false, Bool.false_or, Bool.and_eq_true,
    Bool.or_eq_true, bne_iff_ne, ne_eq] at hok
  obtain ⟨htag, hmeta⟩ := hok
  simp only [item_child_tag, Bool.or_eq_true, beq_iff_eq] at htag
  rcases htag with (((((h | h) | h) | h) | h) | h) | h
  · refine ⟨{ ret with titles := ret.titles ++ [{
        xml := { lang := n.lang, nspace := n.nspace, URI := none },
        content := oscap_trim (xmlTextReaderReadString { cur := some n, rest := xs }) }] },
      ?_, fun kind => ?_⟩
    · simp [cpe_item_parse_body, xmlTextReaderNodeType, htype, xmlStrcmp,
        xmlTextReaderConstLocalName, h, oscap_title_parse, xmlTextReaderConstXmlLang,
        xmlTextReaderPrefix]
    · cases kind <;>
        simp [cpe_item.kind_events, node_events, htype, h, order_event.keep,
          oscap_title.title_event, TAG_TITLE_STR, TAG_CPE_ITEM_STR]
  · refine ⟨{ ret with notes := ret.notes ++ [{
        xml := { lang := n.lang, nspace := n.nspace, URI := none },
        content := oscap_trim (xmlTextReaderReadString { cur := some n, rest := xs }) }] },
      ?_, fun kind => ?_⟩
    · simp [cpe_item_parse_body, xmlTextReaderNodeType, htype, xmlStrcmp,
        xmlTextReaderConstLocalName, h, oscap_title_parse, xmlTextReaderConstXmlLang,
        xmlTextReaderPrefix, TAG_NOTE_STR, TAG_TITLE_STR]
    · cases kind <;>
        simp [cpe_item.kind_events, node_events, htype, h, order_event.keep,
          oscap_title.note_event, TAG_NOTE_STR, TAG_TITLE_STR, TAG_CPE_ITEM_STR]
  · refine ⟨{ ret with checks := ret.checks ++ [{
        xml := { lang := n.lang, nspace := n.nspace, URI := none },
        system := n.attribute ATTR_SYSTEM_STR, href := n.attribute ATTR_HREF_STR,
        identifier := oscap_trim (xmlTextReaderReadString { cur := some n, rest := xs }) }] },
      ?_, fun kind => ?_⟩
    · simp [cpe_item_parse_body, xmlTextReaderNodeType, htype, xmlStrcmp,
        xmlTextReaderConstLocalName, h, cpe_check_parse, xmlTextReaderConstXmlLang,
        xmlTextReaderPrefix, xmlTextReaderGetAttribute, TAG_CHECK_STR, TAG_NOTE_STR,
        TAG_TITLE_STR]
    · cases kind <;>
        simp [cpe_item.kind_events, node_events, htype, h, order_event.keep,
          cpe_check.event, TAG_CHECK_STR, TAG_NOTE_STR, TAG_TITLE_STR, TAG_CPE_ITEM_STR]
  · refine ⟨{ ret with references := ret.references ++ [{
        xml := { lang := n.lang, nspace := n.nspace, URI := none },
        href := n.attribute ATTR_HREF_STR,
        content := oscap_trim (xmlTextReaderReadString { cur := some n, rest := xs }) }] },
      ?_, fun kind => ?_⟩
    · simp [cpe_item_parse_body, xmlTextReaderNodeType, htype, xmlStrcmp,
        xmlTextReaderConstLocalName, h, cpe_reference_parse, xmlTextReaderConstXmlLang,
        xmlTextReaderPrefix, xmlTextReaderGetAttribute, TAG_REFERENCE_STR, TAG_CHECK_STR,
        TAG_NOTE_STR, TAG_TITLE_STR]
    · cases kind <;>
        simp [cpe_item.kind_events, node_events, htype, h, order_event.keep,
          cpe_reference.event, TAG_REFERENCE_STR, TAG_CHECK_STR, TAG_NOTE_STR, TAG_TITLE_STR,
          TAG_CPE_ITEM_STR]
  · have hdate := hmeta.resolve_left (fun hne => hne h)
    obtain ⟨d, hd⟩ := Option.isSome_iff_exists.mp hdate
    refine ⟨{ ret with metadata := some {
        xml := { lang := n.lang, nspace := n.nspace, URI := none },
        modification_date := some d, status := n.attribute ATTR_STATUS_STR,
        nvd_id := n.attribute ATTR_NVD_ID_STR,
        deprecated_by_nvd_id := n.attribute ATTR_DEP_BY_NVDID_STR } }, ?_, fun kind => ?_⟩
    · simp [cpe_item_parse_body, xmlTextReaderNodeType, htype, xmlStrcmp,
        xmlTextReaderConstLocalName, h, cpe_item_metadata_parse, xmlTextReaderConstXmlLang,
        xmlTextReaderPrefix, xmlTextReaderGetAttribute, hd, TAG_ITEM_METADATA_STR,
        TAG_REFERENCE_STR, TAG_CHECK_STR, TAG_NOTE_STR, TAG_TITLE_STR]
    · cases kind <;>
        simp [cpe_item.kind_events, node_events, htype, h, TAG_ITEM_METADATA_STR,
          TAG_REFERENCE_STR, TAG_CHECK_STR, TAG_NOTE_STR, TAG_TITLE_STR, TAG_CPE_ITEM_STR,
          TAG_VENDOR_STR]
  · refine ⟨ret, ?_, fun kind => ?_⟩
    · simp [cpe_item_parse_body, xmlTextReaderNodeType, htype, xmlStrcmp,
        xmlTextReaderConstLocalName, h, TAG_REFERENCES_STR, TAG_ITEM_METADATA_STR,
        TAG_REFERENCE_STR, TAG_CHECK_STR, TAG_NOTE_STR, TAG_TITLE_STR]
    · cases kind <;>
        simp [cpe_item.kind_events, node_events, htype, h, TAG_REFERENCES_STR,
          TAG_REFERENCE_STR, TAG_CHECK_STR, TAG_NOTE_STR, TAG_TITLE_STR, TAG_CPE_ITEM_STR,
          TAG_VENDOR_STR]
  · refine ⟨ret, ?_, fun kind => ?_⟩
    · simp [cpe_item_parse_body, xmlTextReaderNodeType, htype, xmlStrcmp,
        xmlTextReaderConstLocalName, h, TAG_NOTES_STR, TAG_REFERENCES_STR,
        TAG_ITEM_METADATA_STR, TAG_REFERENCE_STR, TAG_CHECK_STR, TAG_NOTE_STR, TAG_TITLE_STR]
    · cases kind <;>
        simp [cpe_item.kind_events, node_events, htype, h, TAG_NOTES_STR,
          TAG_REFERENCE_STR, TAG_CHECK_STR, TAG_NOTE_STR, TAG_TITLE_STR, TAG_CPE_ITEM_STR,
          TAG_VENDOR_STR]

theorem leading_events_skip (codec : cpe_codec) (n : xmlNode) (children tail : List xmlNode)
    (h : n.type ≠ XML_READER_TYPE_ELEMENT) :
    leading_events codec (n :: children) tail = leading_events codec children tail := by
  simp [leading_events, node_events, h]

/-- Over known children and up to the next start tag that is not one, the loop
of `cpe_item_parse` answers the entry it started with, extended by what the
start tags of the children stand for, in their order. -/
theorem cpe_item_parse_loop_children_events (codec : cpe_codec) (stop : xmlNode)
    (post : List xmlNode) (hstop : stop.type = XML_READER_TYPE_ELEMENT)
    (hname : item_child_tag stop.localName = false) :
    ∀ (pre : List xmlNode), (∀ n ∈ pre, item_child_ok n = true) →
    ∀ (fuel : Nat) (errors : List String) (ret : cpe_item), pre.length < fuel →
      ∃ item, cpe_item_parse_loop fuel
          { reader := (xmlTextReaderNextElement_loop (pre ++ stop :: post)).2, errors := errors }
          ret
        = .done ({ reader := { cur := some stop, rest := post }, errors := errors }, some item)
        ∧ ∀ kind, item.kind_events kind
            = ret.kind_events kind
              ++ (leading_events codec pre (stop :: post)).filter (order_event.keep kind) := by
  intro pre
  induction pre with
  | nil =>
    intro _ fuel errors ret hfuel
    obtain ⟨item, hitem⟩ := cpe_item_parse_loop_children stop post hstop hname [] (by simp) fuel
      errors ret hfuel
    have hkeep : item = ret := by
      obtain ⟨fuel, rfl⟩ : ∃ f, fuel = f + 1 := ⟨fuel - 1, by simp at hfuel; omega⟩
      rw [List.nil_append, xmlTextReaderNextElement_loop_element stop post hstop,
        cpe_item_parse_loop] at hitem
      simp only [item_child_tag, Bool.or_eq_false_iff, beq_eq_false_iff_ne, ne_eq] at hname
      obtain ⟨⟨⟨⟨⟨⟨h1, h2⟩, h3⟩, h4⟩, h5⟩, h6⟩, h7⟩ := hname
      by_cases hi : stop.localName = TAG_CPE_ITEM_STR
      · simp [xmlStrcmp, xmlTextReaderConstLocalName, hi] at hitem
        exact hitem.symm
      · simp [xmlStrcmp, xmlTextReaderConstLocalName, hi, cpe_item_parse_body,
          xmlTextReaderNodeType, hstop, h1, h2, h3, h4, h5, h6, h7] at hitem
        exact hitem.symm
    exact ⟨item, hitem, fun kind => by simp [hkeep, leading_events]⟩
  | cons n pre ih =>
    intro hok fuel errors ret hfuel
    have hpre : ∀ m ∈ pre, item_child_ok m = true := fun m hm => hok m (by simp [hm])
    obtain ⟨fuel, rfl⟩ : ∃ f, fuel = f + 1 := ⟨fuel - 1, by simp at hfuel; omega⟩
    by_cases htype : n.type = XML_READER_TYPE_ELEMENT
    · rw [List.cons_append, xmlTextReaderNextElement_loop_element n _ htype]
      have hn := hok n (by simp)
      have hnm : n.localName ≠ TAG_CPE_ITEM_STR := by
        intro h
        have h1 := hn
        simp only [item_child_ok, htype, bne_self_eq_false, Bool.false_or, Bool.and_eq_true]
          at h1
        rw [h, item_child_tag_cpe_item] at h1
        simp at h1
      obtain ⟨ret1, hbody, hev⟩ :=
        cpe_item_parse_body_child_events codec n (pre ++ stop :: post) ret htype hn
      obtain ⟨item, hitem, hk⟩ := ih hpre fuel errors ret1 (by simp at hfuel; omega)
      refine ⟨item, ?_, fun kind => ?_⟩
      · rw [cpe_item_parse_loop]
        simp only [xmlStrcmp, xmlTextReaderConstLocalName, Option.map_some', ne_eq,
          Option.some.injEq, hnm, not_false_eq_true, decide_True, ↓reduceIte, hbody]
        exact hitem
      · rw [hk kind, hev kind, leading_events, List.filter_append, List.append_assoc]
    · have : xmlTextReaderNextElement_loop ((n :: pre) ++ stop :: post)
          = xmlTextReaderNextElement_loop (pre ++ stop :: post) := by
        simp [xmlTextReaderNextElement_loop, htype]
      rw [this, leading_events_skip codec n pre _ htype]
      exact ih hpre (fuel + 1) errors ret (by simp at hfuel; omega)

/-- C15, counterexample. A `cpe-item` start tag without "name" and without
"deprecated", whose first child is an unknown element `foo` and whose second
child is a title: `cpe_item_parse` returns at `foo` an entry without title,
though the element has one. -/
theorem cpe_item_parse_nameless_counterexample :
    xmlTextReaderGetAttribute unknown_child_state.reader ATTR_NAME_STR = none
    ∧ xmlTextReaderGetAttribute unknown_child_state.reader ATTR_DEPRECATED_STR = none
    ∧ (leading_events sample_codec
          [empty_tag "foo" [], start_tag "title" [], text_node "One", end_tag "title",
           end_tag "cpe-item"]
          [empty_tag "cpe-item" [("name", "cpe:/a:b:c:2")], end_tag "cpe-list"]).filter
        (order_event.keep .title)
      = [.title none (some "One")]
    ∧ cpe_item_parse sample_codec 1 unknown_child_state
      = .done (state_at (empty_tag "foo" [])
            [start_tag "title" [], text_node "One", end_tag "title", end_tag "cpe-item",
             empty_tag "cpe-item" [("name", "cpe:/a:b:c:2")], end_tag "cpe-list"],
          some cpe_item_new)
    ∧ ∀ fuel st1 item, cpe_item_parse sample_codec fuel unknown_child_state
        = .done (st1, some item) → item.titles = [] := by
  refine ⟨by decide, by decide, by decide, by decide, ?_⟩
  intro fuel st1 item h
  cases fuel with
  | zero =>
    have h0 : cpe_item_parse sample_codec 0 unknown_child_state = .timeout := by decide
    rw [h0] at h
    simp at h
  | succ fuel =>
    have h1 : cpe_item_parse sample_codec 1 unknown_child_state
        = .done (state_at (empty_tag "foo" [])
            [start_tag "title" [], text_node "One", end_tag "title", end_tag "cpe-item",
             empty_tag "cpe-item" [("name", "cpe:/a:b:c:2")], end_tag "cpe-list"],
          some cpe_item_new) := by decide
    have h2 := done_of_fuel_le (fun n => cpe_item_parse sample_codec n unknown_child_state)
      (fun n => cpe_item_parse_mono sample_codec n _) 1 (fuel + 1) (by omega) _ h1
    simp only at h2
    rw [h2] at h
    simp only [Res.done.injEq, Prod.mk.injEq, Option.some.injEq] at h
    rw [← h.2]
    rfl

/-- C15, amended. Missing identifier is tolerated: on a `cpe-item` start tag
without "name" attribute and without "deprecated" attribute, followed by nodes
whose start tags are all known children (an `item-metadata` having its
`modification-date`) and then by a start tag that is not one (the next
`cpe-item` or another element), `cpe_item_parse` answers, with the cursor on
that start tag, an entry whose identifier is absent and whose titles, notes,
checks and references are those that the start tags of the children stand
for, in their order. -/
theorem cpe_item_parse_nameless (codec : cpe_codec) (fuel : Nat) (st : parser_state)
    (item_tag stop : xmlNode) (pre post : List xmlNode)
    (hcur : st.reader.cur = some item_tag)
    (htype : item_tag.type = XML_READER_TYPE_ELEMENT)
    (htag : item_tag.localName = TAG_CPE_ITEM_STR)
    (hname : item_tag.attribute ATTR_NAME_STR = none)
    (hflag : item_tag.attribute ATTR_DEPRECATED_STR = none)
    (hrest : st.reader.rest = pre ++ stop :: post)
    (hpre : ∀ n ∈ pre, item_child_ok n = true)
    (hstop : stop.type = XML_READER_TYPE_ELEMENT)
    (hstoptag : item_child_tag stop.localName = false)
    (hfuel : pre.length < fuel) :
    ∃ item, cpe_item_parse codec fuel st
        = .done ({ reader := { cur := some stop, rest := post }, errors := st.errors }, some item)
      ∧ item.name = none
      ∧ ∀ kind, item.kind_events kind
          = (leading_events codec pre (stop :: post)).filter (order_event.keep kind) := by
  have hattrs : cpe_item_parse_attrs codec st.reader
      = some { cpe_item_new with
          xml := { lang := item_tag.lang, nspace := item_tag.nspace, URI := none } } := by
    simp [cpe_item_parse_attrs, xmlTextReaderGetAttribute, hcur, hname, hflag,
      xmlTextReaderConstXmlLang, xmlTextReaderPrefix]
  obtain ⟨item, hloop, hk⟩ := cpe_item_parse_loop_children_events codec stop post hstop hstoptag
    pre hpre fuel st.errors { cpe_item_new with
      xml := { lang := item_tag.lang, nspace := item_tag.nspace, URI := none } } hfuel
  have hparse : cpe_item_parse codec fuel st
      = .done ({ reader := { cur := some stop, rest := post }, errors := st.errors },
          some item) := by
    unfold cpe_item_parse
    simp only [xmlTextReaderConstLocalName, hcur, Option.map_some', htag, xmlStrcmp, ne_eq,
      not_true_eq_false, decide_False, Bool.not_false, xmlTextReaderNodeType, htype,
      decide_True, Bool.and_self, ↓reduceIte, hattrs, parser_state.next_element,
      xmlTextReaderNextElement, hrest]
    exact hloop
  have hkeep := cpe_item_parse_loop_keeps fuel _ _ _ _ hloop
  refine ⟨item, hparse, by rw [hkeep.1]; rfl, fun kind => ?_⟩
  rw [hk kind]
  cases kind <;> rfl

theorem cpe_item_parse_nameless_witness :
    (∀ n ∈ [start_tag "title" [], text_node "One", end_tag "title",
        start_tag "check" [("system", "s")], text_node "id", end_tag "check",
        start_tag "notes" [], start_tag "note" [], text_node "N", end_tag "note",
        end_tag "notes", end_tag "cpe-item"], item_child_ok n = true)
    ∧ ∃ item, cpe_item_parse sample_codec 13 nameless_state
        = .done ({ reader := { cur := some (empty_tag "cpe-item" [("name", "cpe:/a:b:c:2")]),
                               rest := [end_tag "cpe-list"] },
                   errors := nameless_state.errors }, some item)
      ∧ item.name = none
      ∧ ∀ kind, item.kind_events kind
          = (leading_events sample_codec
              [start_tag "title" [], text_node "One", end_tag "title",
               start_tag "check" [("system", "s")], text_node "id", end_tag "check",
               start_tag "notes" [], start_tag "note" [], text_node "N", end_tag "note",
               end_tag "notes", end_tag "cpe-item"]
              (empty_tag "cpe-item" [("name", "cpe:/a:b:c:2")] :: [end_tag "cpe-list"])).filter
            (order_event.keep kind) :=
  ⟨by decide,
   cpe_item_parse_nameless sample_codec 13 nameless_state (start_tag "cpe-item" [])
    (empty_tag "cpe-item" [("name", "cpe:/a:b:c:2")])
    [start_tag "title" [], text_node "One", end_tag "title",
     start_tag "check" [("system", "s")], text_node "id", end_tag "check",
     start_tag "notes" [], start_tag "note" [], text_node "N", end_tag "note",
     end_tag "notes", end_tag "cpe-item"]
    [end_tag "cpe-list"] rfl rfl rfl (by decide) (by decide) rfl (by decide) rfl (by decide)
    (by decide)⟩

/-! ## C11, C12, C13, C17 -/

/-- At the end of the stream the loop of `cpe_generator_parse` never ends: the
local name is absent, so it differs from "generator", and
`xmlTextReaderNextNode` leaves the cursor where it is. -/
theorem cpe_generator_parse_loop_eof (fuel : Nat) (errors : List String) (ret : cpe_generator) :
    cpe_generator_parse_loop fuel { reader := { cur := none, rest := [] }, errors := errors } ret
      = .timeout := by
  induction fuel with
  | zero => rfl
  | succ fuel ih =>
    rw [cpe_generator_parse_loop]
    exact ih

/-- The main loop on the start tag of an entry without "deprecated" attribute
after which no start tag other than known children is left never ends. -/
theorem cpe_dict_model_parse_loop_last_item (codec : cpe_codec) (st : parser_state)
    (n : xmlNode) (ret : cpe_dict_model) (next_ret : Int) (hnr : next_ret ≠ 0)
    (hcur : st.reader.cur = some n) (htype : n.type = XML_READER_TYPE_ELEMENT)
    (htag : n.localName = TAG_CPE_ITEM_STR) (hdep : n.attribute ATTR_DEPRECATED_STR = none)
    (hrest : ∀ m ∈ st.reader.rest, item_child_ok m = true) (fuel : Nat) :
    cpe_dict_model_parse_loop codec fuel st ret next_ret = .timeout := by
  cases fuel with
  | zero => rfl
  | succ fuel =>
    rw [cpe_dict_model_parse_loop_item codec fuel st ret next_ret hnr
        (by simp [xmlTextReaderConstLocalName, hcur, htag]),
      cpe_item_parse_diverges codec st n hcur htype htag hdep hrest fuel]
    rfl

/-- On a `cpe-item` start tag whose deprecation attributes are incomplete,
`cpe_item_parse` answers no entry and leaves the cursor where it is. -/
theorem cpe_item_parse_attrs_none (codec : cpe_codec) (fuel : Nat) (st : parser_state)
    (h : cpe_item_parse_attrs codec st.reader = none) :
    cpe_item_parse codec fuel st = .done (st, none) := by
  unfold cpe_item_parse
  simp only [h]
  split <;> rfl

theorem last_entry_large (codec : cpe_codec) (k : Nat) :
    cpe_dict_model_parse codec (1 + k) (parser_state.start last_entry_document)
      = .timeout := by
  rw [show 1 + k = k + 1 by omega]
  unfold cpe_dict_model_parse
  rw [cpe_dict_model_parse_find_root _ _ _ (by decide)]
  simp only [Res.bind_done, ↓reduceIte]
  have h1 : (parser_state.start last_entry_document).next_element
      = (1, state_at (empty_tag "cpe-item" [("name", "cpe:/a:b:c:1")])
          [end_tag "cpe-list"]) := by decide
  rw [h1]
  exact cpe_dict_model_parse_loop_last_item codec _ _ _ _ (by decide) rfl rfl rfl (by decide)
    (by decide) _

theorem empty_generator_large (codec : cpe_codec) (k : Nat) :
    cpe_dict_model_parse codec (1 + k) (parser_state.start empty_generator_document)
      = .timeout := by
  rw [show 1 + k = k + 1 by omega]
  unfold cpe_dict_model_parse
  rw [cpe_dict_model_parse_find_root _ _ _ (by decide)]
  simp only [Res.bind_done, ↓reduceIte]
  have h1 : (parser_state.start empty_generator_document).next_element
      = (1, state_at (empty_tag "generator" []) [end_tag "cpe-list"]) := by decide
  have hgen : cpe_generator_parse k (state_at (empty_tag "generator" []) [end_tag "cpe-list"])
      = .timeout := by
    have hnext : (state_at (empty_tag "generator" []) [end_tag "cpe-list"]).next_element.2
        = { reader := { cur := none, rest := [] }, errors := [] } := by decide
    have hcond : (!xmlStrcmp (xmlTextReaderConstLocalName
          (state_at (empty_tag "generator" []) [end_tag "cpe-list"]).reader) TAG_GENERATOR_STR
        && decide (xmlTextReaderNodeType
          (state_at (empty_tag "generator" []) [end_tag "cpe-list"]).reader
            = XML_READER_TYPE_ELEMENT)) = true := by decide
    unfold cpe_generator_parse
    simp only [hcond, ↓reduceIte, hnext, cpe_generator_parse_loop_eof]
    rfl
  rw [h1, cpe_dict_model_parse_loop_generator _ _ _ _ _ (by decide) (by decide), hgen]
  rfl

/-- C11. Two documents with a `cpe-list` root on which, whatever the fuel,
`cpe_dict_model_parse` does not return: the root with one entry, where the loop
of `cpe_item_parse` runs into the end of the stream, and the root with one
generator without child, where the loop of `cpe_generator_parse` does. -/
theorem parse_does_not_terminate (codec : cpe_codec) (fuel : Nat) :
    cpe_dict_model_parse codec fuel (parser_state.start last_entry_document) = .timeout
    ∧ cpe_dict_model_parse codec fuel (parser_state.start empty_generator_document)
      = .timeout :=
  ⟨timeout_of_large
    (fun n => cpe_dict_model_parse codec n (parser_state.start last_entry_document))
    (fun n => cpe_dict_model_parse_mono codec n _) 1 (last_entry_large codec) fuel,
   timeout_of_large
    (fun n => cpe_dict_model_parse codec n (parser_state.start empty_generator_document))
    (fun n => cpe_dict_model_parse_mono codec n _) 1 (empty_generator_large codec) fuel⟩

theorem failed_entry_large (codec : cpe_codec) (k : Nat) :
    cpe_dict_model_parse codec (3 + k) (parser_state.start failed_entry_document)
      = .timeout := by
  rw [show 3 + k = k + 1 + 1 + 1 by omega]
  unfold cpe_dict_model_parse
  rw [cpe_dict_model_parse_find_root _ _ _ (by decide)]
  simp only [Res.bind_done, ↓reduceIte]
  have h1 : (parser_state.start failed_entry_document).next_element
      = (1, state_at (start_tag "cpe-item" [("name", "cpe:/a:b:c:1"), ("deprecated", "true")])
          (failed_entry_document.drop 2)) := by decide
  have hattrs : cpe_item_parse_attrs codec
      (state_at (start_tag "cpe-item" [("name", "cpe:/a:b:c:1"), ("deprecated", "true")])
        (failed_entry_document.drop 2)).reader = none := by
    have hd : xmlTextReaderGetAttribute
        (state_at (start_tag "cpe-item" [("name", "cpe:/a:b:c:1"), ("deprecated", "true")])
          (failed_entry_document.drop 2)).reader ATTR_DEPRECATED_STR = some "true" := by
      decide
    have hb : xmlTextReaderGetAttribute
        (state_at (start_tag "cpe-item" [("name", "cpe:/a:b:c:1"), ("deprecated", "true")])
          (failed_entry_document.drop 2)).reader ATTR_DEPRECATED_BY_STR = none := by
      decide
    unfold cpe_item_parse_attrs
    simp only [hd, hb, Option.none_bind]
  rw [h1, cpe_dict_model_parse_loop_item _ _ _ _ _ (by decide) (by decide),
    cpe_item_parse_attrs_none codec _ _ hattrs]
  simp only [Res.bind_done]
  have h2 : (state_at (start_tag "cpe-item" [("name", "cpe:/a:b:c:1"), ("deprecated", "true")])
        (failed_entry_document.drop 2)).next_element
      = (1, state_at (start_tag "title" []) (failed_entry_document.drop 3)) := by decide
  rw [h2, cpe_dict_model_parse_loop_unknown codec _ _ _ _ (start_tag "title" []) (by decide)
    rfl rfl (by decide) (by decide) (by decide) (by decide)]
  exact cpe_dict_model_parse_loop_last_item codec _
    (start_tag "cpe-item" [("name", "cpe:/a:b:c:2")]) _ _ (by decide) (by decide) rfl rfl
    (by decide) (by decide) _

/-- C12. A document with two entries of which the first has an incomplete
deprecation: whatever the fuel, `cpe_dict_model_parse` does not return. The
failed entry is passed (its title is reported as an unknown element), and the
loop of `cpe_item_parse` then runs into the end of the stream after the second
entry, the last child of the root. -/
theorem failed_entry_never_returns (codec : cpe_codec) (fuel : Nat) :
    cpe_dict_model_parse codec fuel (parser_state.start failed_entry_document) = .timeout :=
  timeout_of_large
    (fun n => cpe_dict_model_parse codec n (parser_state.start failed_entry_document))
    (fun n => cpe_dict_model_parse_mono codec n _) 3 (failed_entry_large codec) fuel

theorem failed_vendor_large (codec : cpe_codec) (k : Nat) :
    cpe_dict_model_parse codec (3 + k) (parser_state.start failed_vendor_document)
      = .timeout := by
  rw [show 3 + k = k + 1 + 1 + 1 by omega]
  unfold cpe_dict_model_parse
  rw [cpe_dict_model_parse_find_root _ _ _ (by decide)]
  simp only [Res.bind_done, ↓reduceIte]
  have h1 : (parser_state.start failed_vendor_document).next_element
      = (1, state_at (start_tag "component-tree" []) (failed_vendor_document.drop 2)) := by
    decide
  have h2 : (state_at (start_tag "component-tree" []) (failed_vendor_document.drop 2)).next_element
      = (1, state_at (start_tag "vendor" [("value", "v")]) (failed_vendor_document.drop 3)) := by
    decide
  have hvendor : cpe_vendor_parse (k + 1)
      (state_at (start_tag "vendor" [("value", "v")]) (failed_vendor_document.drop 3))
      = .done (state_at (empty_tag "product" [("value", "p"), ("part", "x")])
          (failed_vendor_document.drop 4), none) :=
    done_of_fuel_le (fun n => cpe_vendor_parse n
        (state_at (start_tag "vendor" [("value", "v")]) (failed_vendor_document.drop 3)))
      (fun n => cpe_vendor_parse_mono n _) 1 (k + 1) (by omega) _ (by decide)
  have h3 : (state_at (empty_tag "product" [("value", "p"), ("part", "x")])
        (failed_vendor_document.drop 4)).next_element
      = (1, state_at (empty_tag "cpe-item" [("name", "cpe:/a:b:c:1")])
          [end_tag "cpe-list"]) := by decide
  rw [h1, cpe_dict_model_parse_loop_component_tree _ _ _ _ _ (by decide) (by decide), h2,
    cpe_dict_model_parse_loop_vendor _ _ _ _ _ (by decide) (by decide), hvendor]
  simp only [Res.bind_done, h3]
  exact cpe_dict_model_parse_loop_last_item codec _
    (empty_tag "cpe-item" [("name", "cpe:/a:b:c:1")]) _ _ (by decide) rfl rfl rfl
    (by decide) (by decide) _

/-- C13. A document with a vendor whose product has the part code "x",
followed by an entry: whatever the fuel, `cpe_dict_model_parse` does not
return. `cpe_vendor_parse` answers no vendor and the main loop goes on, and the
loop of `cpe_item_parse` then runs into the end of the stream after the entry,
the last child of the root. -/
theorem failed_vendor_never_returns (codec : cpe_codec) (fuel : Nat) :
    cpe_dict_model_parse codec fuel (parser_state.start failed_vendor_document) = .timeout :=
  timeout_of_large
    (fun n => cpe_dict_model_parse codec n (parser_state.start failed_vendor_document))
    (fun n => cpe_dict_model_parse_mono codec n _) 3 (failed_vendor_large codec) fuel

theorem two_generators_large (codec : cpe_codec) (k : Nat) :
    cpe_dict_model_parse codec (6 + k) (parser_state.start two_generators_document)
      = .timeout := by
  rw [show 6 + k = k + 4 + 1 + 1 by omega]
  unfold cpe_dict_model_parse
  rw [cpe_dict_model_parse_find_root _ _ _ (by decide)]
  simp only [Res.bind_done, ↓reduceIte]
  have h1 : (parser_state.start two_generators_document).next_element
      = (1, state_at (start_tag "generator" []) (two_generators_document.drop 2)) := by decide
  have hgen1 : cpe_generator_parse (k + 4 + 1)
      (state_at (start_tag "generator" []) (two_generators_document.drop 2))
      = .done (state_at (end_tag "generator") (two_generators_document.drop 6),
          some { cpe_generator_new with product_name := some "Tool" }) :=
    done_of_fuel_le (fun n => cpe_generator_parse n
        (state_at (start_tag "generator" []) (two_generators_document.drop 2)))
      (fun n => cpe_generator_parse_mono n _) 4 (k + 4 + 1) (by omega) _ (by decide)
  have h2 : (state_at (end_tag "generator") (two_generators_document.drop 6)).next_element
      = (1, state_at (start_tag "generator" []) (two_generators_document.drop 7)) := by decide
  have hgen2 : cpe_generator_parse (k + 4)
      (state_at (start_tag "generator" []) (two_generators_document.drop 7))
      = .done (state_at (end_tag "generator") (two_generators_document.drop 11),
          some { cpe_generator_new with product_version := some "2.0" }) :=
    done_of_fuel_le (fun n => cpe_generator_parse n
        (state_at (start_tag "generator" []) (two_generators_document.drop 7)))
      (fun n => cpe_generator_parse_mono n _) 4 (k + 4) (by omega) _ (by decide)
  have h3 : (state_at (end_tag "generator") (two_generators_document.drop 11)).next_element
      = (1, state_at (empty_tag "cpe-item" [("name", "cpe:/a:b:c:1")])
          [end_tag "cpe-list"]) := by decide
  rw [h1, cpe_dict_model_parse_loop_generator _ _ _ _ _ (by decide) (by decide), hgen1]
  simp only [Res.bind_done]
  rw [h2, cpe_dict_model_parse_loop_generator _ _ _ _ _ (by decide) (by decide), hgen2]
  simp only [Res.bind_done, h3]
  exact cpe_dict_model_parse_loop_last_item codec _
    (empty_tag "cpe-item" [("name", "cpe:/a:b:c:1")]) _ _ (by decide) rfl rfl rfl
    (by decide) (by decide) _

/-- C17. A document with two generators followed by an entry: whatever the
fuel, `cpe_dict_model_parse` does not return. Both generators are read, the
second in place of the first, and the loop of `cpe_item_parse` then runs into
the end of the stream after the entry, the last child of the root. -/
theorem two_generators_never_returns (codec : cpe_codec) (fuel : Nat) :
    cpe_dict_model_parse codec fuel (parser_state.start two_generators_document) = .timeout :=
  timeout_of_large
    (fun n => cpe_dict_model_parse codec n (parser_state.start two_generators_document))
    (fun n => cpe_dict_model_parse_mono codec n _) 6 (two_generators_large codec) fuel

/-! ## Recovery of the main loop after a failed entry or vendor -/

/-- The main loop passes nodes without a start tag named "generator",
"cpe-item" or "vendor", recording a diagnostic for each start tag that is not
named "component-tree". -/
theorem cpe_dict_model_parse_loop_passed (codec : cpe_codec) (tail : List xmlNode) :
    ∀ (inside : List xmlNode), passed_nodes inside = true →
    ∀ (fuel : Nat) (errors : List String) (ret : cpe_dict_model),
      cpe_dict_model_parse_loop codec (fuel + start_tags inside)
          (on_element errors (inside ++ tail)) ret
          (xmlTextReaderNextElement_loop (inside ++ tail)).1
        = cpe_dict_model_parse_loop codec fuel
            (on_element (errors ++ passed_errors inside) tail) ret
            (xmlTextReaderNextElement_loop tail).1 := by
  intro inside
  induction inside with
  | nil => intro _ fuel errors ret; simp [start_tags, passed_errors]
  | cons n inside ih =>
    intro h fuel errors ret
    simp only [passed_nodes, List.all_cons, Bool.and_eq_true, Bool.or_eq_true, bne_iff_ne,
      ne_eq] at h
    obtain ⟨hn, hrest⟩ := h
    have hinside : passed_nodes inside = true := by
      simpa [passed_nodes] using hrest
    by_cases htype : n.type = XML_READER_TYPE_ELEMENT
    · have hnames := hn.resolve_left (fun hne => hne htype)
      have hcount : start_tags (n :: inside) = start_tags inside + 1 := by
        simp [start_tags, htype]
      rw [hcount, ← Nat.add_assoc, List.cons_append, on_element_cons _ _ _ htype,
        next_element_loop_cons _ _ htype]
      by_cases hc : n.localName = TAG_COMPONENT_TREE_STR
      · rw [cpe_dict_model_parse_loop_component_tree _ _ _ _ _ (by decide)
          (by simp [xmlTextReaderConstLocalName, hc])]
        simp only [next_element_mk]
        rw [ih hinside]
        simp [passed_errors, htype, hc]
      · rw [cpe_dict_model_parse_loop_unknown codec _ _ ret 1 n (by decide) rfl htype
          hnames.1.1 hnames.1.2 hnames.2 hc]
        simp only [oscap_seterr, next_element_mk]
        rw [ih hinside]
        simp [passed_errors, htype, hc]
    · have hcount : start_tags (n :: inside) = start_tags inside := by
        simp [start_tags, htype]
      have hskip : ∀ m ∈ [n], m.type ≠ XML_READER_TYPE_ELEMENT := by
        intro m hm
        rw [List.mem_singleton.mp hm]
        exact htype
      have h1 := on_element_skip errors [n] (inside ++ tail) hskip
      have h2 := xmlTextReaderNextElement_loop_skip [n] (inside ++ tail) hskip
      simp only [List.singleton_append] at h1 h2
      rw [hcount, List.cons_append, h1, h2, ih hinside]
      simp [passed_errors, htype]

theorem cpe_item_parse_attrs_rest (codec : cpe_codec) (cur : Option xmlNode)
    (rest rest1 : List xmlNode) :
    cpe_item_parse_attrs codec { cur := cur, rest := rest }
      = cpe_item_parse_attrs codec { cur := cur, rest := rest1 } := rfl

/-- The pass of the main loop on an entry on which `cpe_item_parse` fails: the
dictionary is unchanged and the loop goes on with the next start tag. -/
theorem cpe_dict_model_parse_loop_failed_entry (codec : cpe_codec) (start : xmlNode)
    (consumed : List xmlNode) (h : failed_entry codec start consumed) :
    ∃ k, ∀ (fuel : Nat) (errors : List String) (ret : cpe_dict_model) (tail : List xmlNode),
      k ≤ fuel →
      cpe_dict_model_parse_loop codec (fuel + 1)
          { reader := { cur := some start, rest := consumed ++ tail }, errors := errors } ret 1
        = cpe_dict_model_parse_loop codec fuel (on_element errors tail) ret
            (xmlTextReaderNextElement_loop tail).1 := by
  obtain ⟨htype, hname, hfail⟩ := h
  have hlocal : ∀ rest errors, xmlTextReaderConstLocalName
      ({ reader := { cur := some start, rest := rest }, errors := errors } : parser_state).reader
      = some TAG_CPE_ITEM_STR := by
    intro rest errors
    simp [xmlTextReaderConstLocalName, hname]
  rcases hfail with ⟨hattrs, rfl⟩ | ⟨hattrs, pre, bad, rfl, hpre, hbad, hbadname, hdate⟩
  · refine ⟨0, fun fuel errors ret tail _ => ?_⟩
    rw [cpe_dict_model_parse_loop_item _ _ _ _ _ (by decide) (hlocal _ _),
      cpe_item_parse_attrs_none codec _ _
        (by rw [← hattrs]; exact cpe_item_parse_attrs_rest codec _ _ _)]
    simp only [Res.bind_done, List.nil_append, next_element_mk]
  · refine ⟨pre.length + 1, fun fuel errors ret tail hfuel => ?_⟩
    obtain ⟨ret0, hret0⟩ := Option.isSome_iff_exists.mp hattrs
    have hparse : cpe_item_parse codec fuel
        { reader := { cur := some start, rest := (pre ++ [bad]) ++ tail }, errors := errors }
        = .done ({ reader := { cur := some bad, rest := tail }, errors := errors }, none) := by
      unfold cpe_item_parse
      have hattrs1 : cpe_item_parse_attrs codec
          { cur := some start, rest := pre ++ bad :: tail } = some ret0 := by
        rw [← hret0]
        exact cpe_item_parse_attrs_rest codec _ _ _
      simp only [xmlTextReaderConstLocalName, Option.map_some', hname, xmlStrcmp, ne_eq,
        not_true_eq_false, decide_False, Bool.not_false, xmlTextReaderNodeType, htype,
        decide_True, Bool.and_self, ↓reduceIte, parser_state.next_element,
        xmlTextReaderNextElement, List.append_assoc, List.singleton_append, hattrs1]
      exact cpe_item_parse_loop_missing_date bad tail hbad hbadname hdate pre hpre fuel errors
        ret0 (by omega)
    rw [cpe_dict_model_parse_loop_item _ _ _ _ _ (by decide) (hlocal _ _), hparse]
    simp only [Res.bind_done, next_element_mk]

/-- The passes of the main loop on written children of the root that are
followed by a start tag that is no child of an entry. -/
theorem cpe_dict_model_parse_loop_children_stop (codec : cpe_codec) (cs : List root_child)
    (hcs : cs.all (root_child.canonical codec) = true) :
    ∃ n k, ∀ (fuel : Nat) (errors : List String) (ret : cpe_dict_model) (stop : xmlNode)
      (rest : List xmlNode), k ≤ fuel → stop.type = XML_READER_TYPE_ELEMENT →
      item_child_tag stop.localName = false →
      cpe_dict_model_parse_loop codec (fuel + n)
          (on_element errors ((cs.map (root_child.nodes codec)).flatten ++ stop :: rest)) ret
          (xmlTextReaderNextElement_loop
            ((cs.map (root_child.nodes codec)).flatten ++ stop :: rest)).1
        = cpe_dict_model_parse_loop codec fuel
            (on_element (errors ++ (cs.map root_child.errors).flatten) (stop :: rest))
            (cs.foldl root_child.add ret) (xmlTextReaderNextElement_loop (stop :: rest)).1 := by
  induction cs with
  | nil => exact ⟨0, 0, fun fuel errors ret stop rest _ _ _ => by simp⟩
  | cons c cs ih =>
    simp only [List.all_cons, Bool.and_eq_true] at hcs
    obtain ⟨n1, k1, h1⟩ := cpe_dict_model_parse_loop_child codec c hcs.1
    obtain ⟨n2, k2, h2⟩ := ih hcs.2
    refine ⟨n2 + n1, max k1 k2, fun fuel errors ret stop rest hfuel hstop hname => ?_⟩
    have hnext : c.is_item = true → ∃ x tail,
        (cs.map (root_child.nodes codec)).flatten ++ stop :: rest = x :: tail
        ∧ x.type = XML_READER_TYPE_ELEMENT ∧ item_child_tag x.localName = false := by
      intro _
      cases cs with
      | nil => exact ⟨stop, rest, rfl, hstop, hname⟩
      | cons c1 cs1 =>
        simp only [List.all_cons, Bool.and_eq_true] at hcs
        obtain ⟨x, xs, hhead, hx, hxname⟩ := root_child_nodes_head codec c1 hcs.2.1
        exact ⟨x, xs ++ (cs1.map (root_child.nodes codec)).flatten ++ stop :: rest,
          by simp [hhead], hx, hxname⟩
    simp only [List.map_cons, List.flatten_cons, List.append_assoc, List.foldl_cons]
    rw [← Nat.add_assoc, h1 _ _ _ _ (by omega) hnext, h2 _ _ _ _ _ (by omega) hstop hname,
      List.append_assoc]

theorem cpe_dict_model_parse_start_root (codec : cpe_codec) (fuel : Nat)
    (nspace : Option String) (attrs : List (String × String)) (nodes : List xmlNode) :
    cpe_dict_model_parse codec (fuel + 1)
        (parser_state.start (xml_element TAG_CPE_LIST_STR nspace none attrs false :: nodes))
      = cpe_dict_model_parse_loop codec (fuel + 1) (on_element [] nodes)
          { cpe_dict_model_new with
            xmlns := attrs.map
              (fun a => { lang := none, nspace := some a.1, URI := some a.2 }) }
          (xmlTextReaderNextElement_loop nodes).1 := by
  have hstart : parser_state.start (xml_element TAG_CPE_LIST_STR nspace none attrs false :: nodes)
      = { reader := { cur := some (xml_element TAG_CPE_LIST_STR nspace none attrs false),
                      rest := nodes },
          errors := [] } := rfl
  have hfind : cpe_dict_model_parse_find (fuel + 1)
      { reader := { cur := some (xml_element TAG_CPE_LIST_STR nspace none attrs false),
                    rest := nodes },
        errors := [] } 1
      = .done ({ reader := { cur := some (xml_element TAG_CPE_LIST_STR nspace none attrs false),
                             rest := nodes },
                 errors := [] }, true) :=
    cpe_dict_model_parse_find_root _ _ _ rfl
  rw [hstart, cpe_dict_model_parse, hfind]
  simp only [Res.bind_done, ↓reduceIte, next_element_mk, cpe_dict_model_parse_xmlns]
  rfl

theorem cpe_dict_model_parse_loop_root_end (codec : cpe_codec) (fuel : Nat)
    (errors : List String) (ret : cpe_dict_model) (nspace : Option String) :
    cpe_dict_model_parse_loop codec (fuel + 1)
        (on_element errors [xml_end TAG_CPE_LIST_STR nspace none]) ret
        (xmlTextReaderNextElement_loop [xml_end TAG_CPE_LIST_STR nspace none]).1
      = .done ({ reader := { cur := none, rest := [] }, errors := errors }, some ret) := by
  have hlast : xmlTextReaderNextElement_loop [xml_end TAG_CPE_LIST_STR nspace none]
      = (0, { cur := none, rest := [] }) := by
    simp [xmlTextReaderNextElement_loop, xml_end]
  rw [on_element, hlast, cpe_dict_model_parse_loop_eof]

/-- Local recovery from a failed entry: on a written document in which one
entry fails to parse (incomplete deprecation attributes, or an `item-metadata`
without `modification-date` after known children), the other children of the
root being written ones and the last of them no entry, `cpe_dict_model_parse`
answers the dictionary of the other children of the root, in their order; the
start tags left of the failed entry are reported as unknown elements. -/
theorem cpe_dict_model_parse_failed_entry (codec : cpe_codec) (nspace : Option String)
    (attrs : List (String × String)) (before after : List root_child) (start : xmlNode)
    (consumed inside : List xmlNode)
    (hbefore : before.all (root_child.canonical codec) = true)
    (hafter : after.all (root_child.canonical codec) = true)
    (hend : ends_without_item after = true)
    (hfail : failed_entry codec start consumed) (hinside : passed_nodes inside = true) :
    ∃ k, ∀ (fuel : Nat), k ≤ fuel →
      cpe_dict_model_parse codec fuel
          (parser_state.start (xml_element TAG_CPE_LIST_STR nspace none attrs false
            :: ((before.map (root_child.nodes codec)).flatten
              ++ (start :: (consumed ++ (inside ++ ((after.map (root_child.nodes codec)).flatten
                ++ [xml_end TAG_CPE_LIST_STR nspace none])))))))
        = .done ({ reader := { cur := none, rest := [] },
                   errors := (before.map root_child.errors).flatten ++ passed_errors inside
                     ++ (after.map root_child.errors).flatten },
            some ((before ++ after).foldl root_child.add
              { cpe_dict_model_new with
                xmlns := attrs.map
                  (fun a => { lang := none, nspace := some a.1, URI := some a.2 }) })) := by
  obtain ⟨n1, k1, h1⟩ := cpe_dict_model_parse_loop_children_stop codec before hbefore
  obtain ⟨k2, h2⟩ := cpe_dict_model_parse_loop_failed_entry codec start consumed hfail
  obtain ⟨n3, k3, h3⟩ := cpe_dict_model_parse_loop_child_list codec after hafter hend
  refine ⟨k1 + k2 + k3 + 1 + n3 + start_tags inside + 1 + n1, fun fuel hfuel => ?_⟩
  obtain ⟨f, rfl⟩ : ∃ f, fuel = f + 1 + n3 + start_tags inside + 1 + n1 :=
    ⟨fuel - (1 + n3 + start_tags inside + 1 + n1), by omega⟩
  have hstop : item_child_tag start.localName = false := by
    rw [hfail.2.1]
    decide
  rw [show f + 1 + n3 + start_tags inside + 1 + n1
      = (f + n3 + start_tags inside + 1 + n1) + 1 by omega,
    cpe_dict_model_parse_start_root,
    show (f + n3 + start_tags inside + 1 + n1) + 1
      = (f + 1 + n3 + start_tags inside + 1) + n1 by omega,
    h1 _ _ _ _ _ (by omega) hfail.1 hstop, on_element_cons _ _ _ hfail.1,
    next_element_loop_cons _ _ hfail.1, h2 _ _ _ _ (by omega),
    cpe_dict_model_parse_loop_passed codec _ inside hinside, h3 _ _ _ _ (by omega),
    cpe_dict_model_parse_loop_root_end]
  simp [List.foldl_append]

/-- One pass of the loop of `cpe_vendor_parse` fails on a product start tag with
a part code that is rejected, and on no other node. -/
theorem cpe_vendor_parse_body_return_null (x : xmlNode) (xs : List xmlNode)
    (loc : vendor_locals)
    (h : cpe_vendor_parse_body { cur := some x, rest := xs } loc = .return_null) :
    product_ok x = false := by
  unfold cpe_vendor_parse_body at h
  simp only at h
  repeat' split at h
  all_goals first
    | (simp at h; done)
    | skip
  next htype _ hname _ hpart =>
    have h1 : x.type = XML_READER_TYPE_ELEMENT := by
      simpa [xmlTextReaderNodeType] using htype
    have h2 : x.localName = TAG_PRODUCT_STR := by
      simpa [xmlStrcmp, xmlTextReaderConstLocalName] using hname
    have h3 : cpe_product_parse_part (x.attribute ATTR_PART_STR) = none := by
      simpa [xmlTextReaderGetAttribute] using hpart
    simp [product_ok, h1, h2, h3]

/-- Over well-nested content of a vendor without a rejected part code and up to
a product start tag whose part code is rejected, the loop of
`cpe_vendor_parse` answers no vendor, with the cursor on that start tag. -/
theorem cpe_vendor_parse_loop_first_bad_part (bad : xmlNode) (post : List xmlNode)
    (hbad : bad.type = XML_READER_TYPE_ELEMENT) (hname : bad.localName = TAG_PRODUCT_STR)
    (hpart : cpe_product_parse_part (bad.attribute ATTR_PART_STR) = none) :
    ∀ (pre : List xmlNode) (fuel : Nat) (errors : List String) (loc : vendor_locals)
      (p v u e : Bool) (x : xmlNode) (xs : List xmlNode),
      x :: xs = pre ++ bad :: post →
      (∀ n ∈ pre, n.localName ≠ TAG_VENDOR_STR) → (∀ n ∈ pre, product_ok n = true) →
      levels_ordered p v u e pre = true → loc.opened p v u e → pre.length < fuel →
      cpe_vendor_parse_loop fuel { reader := { cur := some x, rest := xs }, errors := errors }
        loc = .done ({ reader := { cur := some bad, rest := post }, errors := errors }, none) := by
  intro pre
  induction pre with
  | nil =>
    intro fuel errors loc p v u e x xs hx _ _ _ _ hfuel
    simp only [List.nil_append, List.cons.injEq] at hx
    obtain ⟨rfl, rfl⟩ := hx
    obtain ⟨fuel, rfl⟩ : ∃ f, fuel = f + 1 := ⟨fuel - 1, by simp at hfuel; omega⟩
    unfold cpe_vendor_parse_loop
    have h1 : xmlStrcmp (xmlTextReaderConstLocalName { cur := some x, rest := xs })
        TAG_VENDOR_STR = true := by
      simp only [xmlStrcmp, xmlTextReaderConstLocalName, Option.map_some', hname]
      decide
    have h2 : cpe_vendor_parse_body { cur := some x, rest := xs } loc = .return_null := by
      unfold cpe_vendor_parse_body
      have ht : ¬ TAG_PRODUCT_STR = TAG_TITLE_STR := by decide
      simp [xmlTextReaderNodeType, xmlTextReaderConstLocalName, xmlStrcmp, hbad, hname, ht,
        xmlTextReaderGetAttribute, hpart]
    simp only [h1, ↓reduceIte, h2]
  | cons n pre ih =>
    intro fuel errors loc p v u e x xs hx hpre hok hord hloc hfuel
    simp only [List.cons_append, List.cons.injEq] at hx
    obtain ⟨rfl, rfl⟩ := hx
    obtain ⟨fuel, rfl⟩ : ∃ f, fuel = f + 1 := ⟨fuel - 1, by simp at hfuel; omega⟩
    unfold cpe_vendor_parse_loop
    have h1 : xmlStrcmp (xmlTextReaderConstLocalName
        { cur := some x, rest := pre ++ bad :: post }) TAG_VENDOR_STR = true := by
      have := hpre x (by simp)
      simpa [xmlStrcmp, xmlTextReaderConstLocalName] using this
    simp only [h1, ↓reduceIte]
    rcases cpe_vendor_parse_body_progress x (pre ++ bad :: post) pre loc p v u e hord hloc with
      h2 | ⟨loc1, p1, v1, u1, e1, h2, hloc1, hord1⟩
    · have := cpe_vendor_parse_body_return_null x _ loc h2
      rw [hok x (by simp)] at this
      simp at this
    · rw [h2]
      simp only [parser_state.next_node, xmlTextReaderNextNode]
      obtain ⟨y, ys, hy⟩ : ∃ y ys, y :: ys = pre ++ bad :: post := by
        cases pre with
        | nil => exact ⟨bad, post, rfl⟩
        | cons a as => exact ⟨a, as ++ bad :: post, rfl⟩
      rw [← hy, xmlTextReaderRead_cons]
      exact ih fuel errors loc1 p1 v1 u1 e1 y ys hy (fun m hm => hpre m (by simp [hm]))
        (fun m hm => hok m (by simp [hm])) hord1 hloc1 (by simp at hfuel; omega)

/-- The pass of the main loop on a vendor on which `cpe_vendor_parse` fails:
the dictionary is unchanged and the loop goes on with the next start tag. -/
theorem cpe_dict_model_parse_loop_failed_vendor (codec : cpe_codec) (start : xmlNode)
    (consumed : List xmlNode) (h : failed_vendor start consumed) :
    ∃ k, ∀ (fuel : Nat) (errors : List String) (ret : cpe_dict_model) (tail : List xmlNode),
      k ≤ fuel →
      cpe_dict_model_parse_loop codec (fuel + 1)
          { reader := { cur := some start, rest := consumed ++ tail }, errors := errors } ret 1
        = cpe_dict_model_parse_loop codec fuel (on_element errors tail) ret
            (xmlTextReaderNextElement_loop tail).1 := by
  obtain ⟨_, hname, pre, bad, rfl, hpre, hord, hok, hbad, hbadname, hpart⟩ := h
  refine ⟨pre.length + 1, fun fuel errors ret tail hfuel => ?_⟩
  obtain ⟨skipped, pre2, x, xs, hsplit, hskip, hx, hnext⟩ :=
    xmlTextReaderNextElement_loop_before bad tail hbad pre
  have hord2 : levels_ordered false false false false pre2 = true := by
    rw [hsplit, levels_ordered_skip _ _ _ _ _ _ hskip] at hord
    exact hord
  have hlocal : xmlTextReaderConstLocalName
      ({ reader := { cur := some start, rest := (pre ++ [bad]) ++ tail },
         errors := errors } : parser_state).reader = some TAG_VENDOR_STR := by
    simp [xmlTextReaderConstLocalName, hname]
  have hparse : cpe_vendor_parse fuel
      { reader := { cur := some start, rest := (pre ++ [bad]) ++ tail }, errors := errors }
      = .done ({ reader := { cur := some bad, rest := tail }, errors := errors }, none) := by
    have hlocal1 : xmlTextReaderConstLocalName { cur := some start, rest := pre ++ bad :: tail }
        = some TAG_VENDOR_STR := by
      simp [xmlTextReaderConstLocalName, hname]
    unfold cpe_vendor_parse
    simp only [xmlStrcmp, ne_eq, parser_state.next_element, xmlTextReaderNextElement,
      List.append_assoc, List.singleton_append, hnext, hlocal1, not_true_eq_false,
      decide_False, Bool.false_eq_true, ↓reduceIte]
    exact cpe_vendor_parse_loop_first_bad_part bad tail hbad hbadname hpart pre2 fuel errors _
      false false false false x xs hx
      (fun n hn => hpre n (by rw [hsplit]; simp [hn]))
      (fun n hn => hok n (by rw [hsplit]; simp [hn])) hord2
      ⟨by simp, by simp, by simp, by simp⟩
      (by rw [hsplit] at hfuel; simp at hfuel; omega)
  rw [cpe_dict_model_parse_loop_vendor _ _ _ _ _ (by decide) hlocal, hparse]
  simp only [Res.bind_done, next_element_mk]

/-- A failed vendor is skipped: on a written document in which
`cpe_vendor_parse` fails on one vendor (a part code that is rejected, after
well-nested content), the other children of the root being written ones and
the last of them no entry, `cpe_dict_model_parse` answers the dictionary of the
other children of the root, in their order, without that vendor; the start
tags left of the failed vendor are reported as unknown elements. -/
theorem cpe_dict_model_parse_failed_vendor (codec : cpe_codec) (nspace : Option String)
    (attrs : List (String × String)) (before after : List root_child) (start : xmlNode)
    (consumed inside : List xmlNode)
    (hbefore : before.all (root_child.canonical codec) = true)
    (hafter : after.all (root_child.canonical codec) = true)
    (hend : ends_without_item after = true)
    (hfail : failed_vendor start consumed) (hinside : passed_nodes inside = true) :
    ∃ k, ∀ (fuel : Nat), k ≤ fuel →
      cpe_dict_model_parse codec fuel
          (parser_state.start (xml_element TAG_CPE_LIST_STR nspace none attrs false
            :: ((before.map (root_child.nodes codec)).flatten
              ++ (start :: (consumed ++ (inside ++ ((after.map (root_child.nodes codec)).flatten
                ++ [xml_end TAG_CPE_LIST_STR nspace none])))))))
        = .done ({ reader := { cur := none, rest := [] },
                   errors := (before.map root_child.errors).flatten ++ passed_errors inside
                     ++ (after.map root_child.errors).flatten },
            some ((before ++ after).foldl root_child.add
              { cpe_dict_model_new with
                xmlns := attrs.map
                  (fun a => { lang := none, nspace := some a.1, URI := some a.2 }) })) := by
  obtain ⟨n1, k1, h1⟩ := cpe_dict_model_parse_loop_children_stop codec before hbefore
  obtain ⟨k2, h2⟩ := cpe_dict_model_parse_loop_failed_vendor codec start consumed hfail
  obtain ⟨n3, k3, h3⟩ := cpe_dict_model_parse_loop_child_list codec after hafter hend
  refine ⟨k1 + k2 + k3 + 1 + n3 + start_tags inside + 1 + n1, fun fuel hfuel => ?_⟩
  obtain ⟨f, rfl⟩ : ∃ f, fuel = f + 1 + n3 + start_tags inside + 1 + n1 :=
    ⟨fuel - (1 + n3 + start_tags inside + 1 + n1), by omega⟩
  have hstop : item_child_tag start.localName = false := by
    rw [hfail.2.1]
    decide
  rw [show f + 1 + n3 + start_tags inside + 1 + n1
      = (f + n3 + start_tags inside + 1 + n1) + 1 by omega,
    cpe_dict_model_parse_start_root,
    show (f + n3 + start_tags inside + 1 + n1) + 1
      = (f + 1 + n3 + start_tags inside + 1) + n1 by omega,
    h1 _ _ _ _ _ (by omega) hfail.1 hstop, on_element_cons _ _ _ hfail.1,
    next_element_loop_cons _ _ hfail.1, h2 _ _ _ _ (by omega),
    cpe_dict_model_parse_loop_passed codec _ inside hinside, h3 _ _ _ _ (by omega),
    cpe_dict_model_parse_loop_root_end]
  simp [List.foldl_append]

/-- The generator of the dictionary that the main loop makes of children of
the root is the last generator among them. -/
theorem foldl_add_generator (cs : List root_child) :
    ∀ ret : cpe_dict_model, (cs.foldl root_child.add ret).generator
      = last_generator ret.generator cs := by
  induction cs with
  | nil => intro ret; rfl
  | cons c cs ih =>
    intro ret
    cases c <;> simp [List.foldl_cons, ih, root_child.add, last_generator]

/-- Generator last-wins: on a written document whose last child of the root is
no entry, `cpe_dict_model_parse` answers a dictionary whose generator is the
last generator of the document, with the fields of that generator alone. -/
theorem cpe_dict_model_parse_last_generator (codec : cpe_codec) (nspace : Option String)
    (attrs : List (String × String)) (cs : List root_child)
    (hcs : cs.all (root_child.canonical codec) = true) (hend : ends_without_item cs = true) :
    ∃ k, ∀ (fuel : Nat), k ≤ fuel →
      ∃ st1 dict, cpe_dict_model_parse codec fuel
          (parser_state.start (document_nodes codec nspace attrs cs)) = .done (st1, some dict)
        ∧ dict.generator = last_generator none cs := by
  obtain ⟨k, hk⟩ := cpe_dict_model_parse_document codec nspace attrs cs hcs hend
  exact ⟨k, fun fuel hfuel => ⟨_, _, hk fuel hfuel, by rw [foldl_add_generator]; rfl⟩⟩

/-- An instance of `cpe_dict_model_parse_failed_entry`: a generator and an
entry, then an entry with an incomplete deprecation and a title, then a
component tree. -/
theorem cpe_dict_model_parse_failed_entry_sample :
    failed_entry sample_codec
        (start_tag "cpe-item" [("name", "cpe:/a:b:c:1"), ("deprecated", "true")]) []
    ∧ ∃ k, ∀ (fuel : Nat), k ≤ fuel →
      cpe_dict_model_parse sample_codec fuel
          (parser_state.start (xml_element TAG_CPE_LIST_STR none none [] false
            :: ((sample_before.map (root_child.nodes sample_codec)).flatten
              ++ (start_tag "cpe-item" [("name", "cpe:/a:b:c:1"), ("deprecated", "true")]
                :: ([] ++ ([start_tag "title" [], text_node "One", end_tag "title",
                      end_tag "cpe-item"]
                  ++ ((sample_after.map (root_child.nodes sample_codec)).flatten
                    ++ [xml_end TAG_CPE_LIST_STR none none])))))))
        = .done ({ reader := { cur := none, rest := [] },
                   errors := (sample_before.map root_child.errors).flatten
                     ++ passed_errors [start_tag "title" [], text_node "One", end_tag "title",
                          end_tag "cpe-item"]
                     ++ (sample_after.map root_child.errors).flatten },
            some ((sample_before ++ sample_after).foldl root_child.add
              { cpe_dict_model_new with
                xmlns := ([] : List (String × String)).map
                  (fun a => { lang := none, nspace := some a.1, URI := some a.2 }) })) :=
  ⟨⟨rfl, rfl, Or.inl ⟨by decide, rfl⟩⟩,
   cpe_dict_model_parse_failed_entry sample_codec none [] sample_before sample_after
    (start_tag "cpe-item" [("name", "cpe:/a:b:c:1"), ("deprecated", "true")]) []
    [start_tag "title" [], text_node "One", end_tag "title", end_tag "cpe-item"]
    (by decide) (by decide) (by decide) ⟨rfl, rfl, Or.inl ⟨by decide, rfl⟩⟩ (by decide)⟩

/-- An instance of `cpe_dict_model_parse_failed_vendor`: a generator and an
entry, then a vendor whose product has the part code "x", then a component
tree. -/
theorem cpe_dict_model_parse_failed_vendor_sample :
    failed_vendor (start_tag "vendor" [("value", "v")])
        ([] ++ [empty_tag "product" [("value", "p"), ("part", "x")]])
    ∧ ∃ k, ∀ (fuel : Nat), k ≤ fuel →
      cpe_dict_model_parse sample_codec fuel
          (parser_state.start (xml_element TAG_CPE_LIST_STR none none [] false
            :: ((sample_before.map (root_child.nodes sample_codec)).flatten
              ++ (start_tag "vendor" [("value", "v")]
                :: (([] ++ [empty_tag "product" [("value", "p"), ("part", "x")]])
                  ++ ([end_tag "vendor"]
                  ++ ((sample_after.map (root_child.nodes sample_codec)).flatten
                    ++ [xml_end TAG_CPE_LIST_STR none none])))))))
        = .done ({ reader := { cur := none, rest := [] },
                   errors := (sample_before.map root_child.errors).flatten
                     ++ passed_errors [end_tag "vendor"]
                     ++ (sample_after.map root_child.errors).flatten },
            some ((sample_before ++ sample_after).foldl root_child.add
              { cpe_dict_model_new with
                xmlns := ([] : List (String × String)).map
                  (fun a => { lang := none, nspace := some a.1, URI := some a.2 }) })) :=
  ⟨⟨rfl, rfl, [], _, rfl, by simp, by decide, by simp, rfl, rfl, by decide⟩,
   cpe_dict_model_parse_failed_vendor sample_codec none [] sample_before sample_after
    (start_tag "vendor" [("value", "v")])
    ([] ++ [empty_tag "product" [("value", "p"), ("part", "x")]]) [end_tag "vendor"]
    (by decide) (by decide) (by decide)
    ⟨rfl, rfl, [], _, rfl, by simp, by decide, by simp, rfl, rfl, by decide⟩ (by decide)⟩

/-! ## C27, C29 -/

/-- C27. Entities are constructed empty: each of the twelve constructors
answers an entity in which every text field, identifier, generator and
metadata is absent, every owned collection is empty, the namespace and locale
tag is absent and, for a product, the part classification is unspecified. -/
theorem constructors_answer_empty :
    cpe_dict_model_new
      = { xmlns := [], xml := { lang := none, nspace := none, URI := none }, items := [],
          vendors := [], generator := none }
    ∧ cpe_item_new
      = { xml := { lang := none, nspace := none, URI := none }, name := none, titles := [],
          deprecated := none, deprecation_date := none, references := [], checks := [],
          notes := [], metadata := none }
    ∧ cpe_item_metadata_new
      = { xml := { lang := none, nspace := none, URI := none }, modification_date := none,
          status := none, nvd_id := none, deprecated_by_nvd_id := none }
    ∧ cpe_check_new
      = { xml := { lang := none, nspace := none, URI := none }, system := none, href := none,
          identifier := none }
    ∧ cpe_reference_new
      = { xml := { lang := none, nspace := none, URI := none }, href := none, content := none }
    ∧ cpe_generator_new
      = { xml := { lang := none, nspace := none, URI := none }, product_name := none,
          product_version := none, schema_version := none, timestamp := none }
    ∧ cpe_vendor_new
      = { xml := { lang := none, nspace := none, URI := none }, value := none, titles := [],
          products := [] }
    ∧ cpe_product_new
      = { xml := { lang := none, nspace := none, URI := none }, value := none,
          part := CPE_PART_NONE, versions := [] }
    ∧ cpe_version_new
      = { xml := { lang := none, nspace := none, URI := none }, value := none, updates := [] }
    ∧ cpe_update_new
      = { xml := { lang := none, nspace := none, URI := none }, value := none, editions := [] }
    ∧ cpe_edition_new
      = { xml := { lang := none, nspace := none, URI := none }, value := none, languages := [] }
    ∧ cpe_language_new
      = { xml := { lang := none, nspace := none, URI := none }, value := none } :=
  ⟨rfl, rfl, rfl, rfl, rfl, rfl, rfl, rfl, rfl, rfl, rfl, rfl⟩

/-- C29, the code at the failing input. On the stream
`<cpe-item name="cpe:/a:b:c:1"><title>One</title></cpe-item></cpe-list>`, the
cursor on the `cpe-item` start tag, `cpe_item_parse` does not return: its
outcome is a timeout for every fuel, whatever the identifier codec. -/
theorem cpe_item_parse_never_returns (codec : cpe_codec) (fuel : Nat) :
    cpe_item_parse codec fuel last_child_state = .timeout :=
  cpe_item_parse_diverges codec last_child_state (start_tag "cpe-item" [("name", "cpe:/a:b:c:1")])
    rfl rfl rfl (by decide) (by decide) fuel

/-! ## C25 -/

/-- C25, the code at the failing input. On the document
`<cpe-list><component-tree><vendor value="a"/><vendor value="b"><product
value="p"/></vendor></component-tree></cpe-list>`, `cpe_vendor_parse` on the
first vendor returns with the cursor on the start tag of the second vendor,
not on the first vendor's own end; the main loop then advances past that start
tag, so `cpe_dict_model_parse` answers a dictionary whose vendor list holds the
first vendor only, and records the product of the second as an unknown
element. -/
theorem childless_vendor_loses_sibling :
    cpe_vendor_parse 1 childless_vendor_state
      = .done (state_at (start_tag "vendor" [("value", "b")])
            [empty_tag "product" [("value", "p")], end_tag "vendor", end_tag "component-tree",
             end_tag "cpe-list"],
          some { cpe_vendor_new with value := some "a" })
    ∧ ∀ fuel, 5 ≤ fuel →
        cpe_dict_model_parse sample_codec fuel (parser_state.start childless_vendor_document)
          = .done ({ reader := { cur := none, rest := [] }, errors := [ERR_UNKNOWN_ELEMENT] },
              some { cpe_dict_model_new with
                vendors := [{ cpe_vendor_new with value := some "a" }] }) := by
  refine ⟨by decide, fun fuel hfuel => ?_⟩
  exact done_of_fuel_le
    (fun n => cpe_dict_model_parse sample_codec n (parser_state.start childless_vendor_document))
    (fun n => cpe_dict_model_parse_mono sample_codec n _) 5 fuel hfuel _ (by decide)

/-! ## C24 -/

/-- The nodes between the children of an entry and the next start tag (the
closing tag of the entry and the white space after it) are passed like
children. -/
theorem item_child_ok_closing (children between : List xmlNode) (closing : xmlNode)
    (hchildren : ∀ n ∈ children, item_child_ok n = true)
    (hclosing : closing.type = XML_READER_TYPE_END_ELEMENT)
    (hbetween : ∀ n ∈ between, n.type ≠ XML_READER_TYPE_ELEMENT) :
    ∀ n ∈ children ++ closing :: between, item_child_ok n = true := by
  intro n hn
  simp only [List.mem_append, List.mem_cons] at hn
  rcases hn with hn | rfl | hn
  · exact hchildren n hn
  · simp [item_child_ok, hclosing]
  · simp [item_child_ok, hbetween n hn]

/-- The call of `cpe_item_parse` on a `cpe-item` start tag whose attributes are
accepted is the loop over the nodes after it. -/
theorem cpe_item_parse_eq_loop (codec : cpe_codec) (fuel : Nat) (st : parser_state)
    (item_tag : xmlNode) (ret0 : cpe_item)
    (hcur : st.reader.cur = some item_tag)
    (htype : item_tag.type = XML_READER_TYPE_ELEMENT)
    (htag : item_tag.localName = TAG_CPE_ITEM_STR)
    (hattrs : cpe_item_parse_attrs codec st.reader = some ret0) :
    cpe_item_parse codec fuel st
      = cpe_item_parse_loop fuel
          { reader := (xmlTextReaderNextElement_loop st.reader.rest).2, errors := st.errors }
          ret0 := by
  unfold cpe_item_parse
  simp only [xmlTextReaderConstLocalName, hcur, Option.map_some', htag, xmlStrcmp, ne_eq,
    not_true_eq_false, decide_False, Bool.not_false, xmlTextReaderNodeType, htype,
    decide_True, Bool.and_self, ↓reduceIte, hattrs, parser_state.next_element,
    xmlTextReaderNextElement]

/-- C24, counterexample. On the stream `<cpe-item name="cpe:/a:b:c:1">
<title>One</title></cpe-item><cpe-item name="cpe:/a:b:c:2">...`, the cursor on
the first start tag, `cpe_item_parse` returns the first entry with the cursor
on the start tag of the second entry: the nodes passed include the closing tag
of the first entry, and the start tag of the following sibling is current. -/
theorem cpe_item_parse_boundary_counterexample :
    cpe_item_parse sample_codec 3 sibling_state
      = .done (state_at (start_tag "cpe-item" [("name", "cpe:/a:b:c:2")])
            [start_tag "title" [], text_node "Two", end_tag "title", end_tag "cpe-item",
             end_tag "cpe-list"],
          some { cpe_item_new with
            name := some { uri := "cpe:/a:b:c:1" },
            titles := [{ xml := xml_metadata_new, content := some "One" }] })
    ∧ sibling_state.reader.nodes
      = [start_tag "cpe-item" [("name", "cpe:/a:b:c:1")], start_tag "title" [],
         text_node "One", end_tag "title", end_tag "cpe-item"]
        ++ (state_at (start_tag "cpe-item" [("name", "cpe:/a:b:c:2")])
              [start_tag "title" [], text_node "Two", end_tag "title", end_tag "cpe-item",
               end_tag "cpe-list"]).reader.nodes := by
  refine ⟨by decide, by decide⟩

/-- C24, amended. Entry parse stops on the next element: on a `cpe-item` start
tag whose attributes are accepted, followed by children that are all known (an
`item-metadata` having its `modification-date`), by the closing tag of the
entry, by nodes that are no start tags, and then by a start tag that is not a
known child (the following sibling), `cpe_item_parse` returns an entry with
the cursor on that start tag, the closing tag of the entry passed; and the main
loop of `cpe_dict_model_parse` adds the entry and goes on from that start tag
without advancing the cursor. -/
theorem cpe_item_parse_stops_on_next_element (codec : cpe_codec) (fuel : Nat)
    (st : parser_state) (item_tag closing next : xmlNode)
    (children between post : List xmlNode) (ret0 : cpe_item)
    (hcur : st.reader.cur = some item_tag)
    (htype : item_tag.type = XML_READER_TYPE_ELEMENT)
    (htag : item_tag.localName = TAG_CPE_ITEM_STR)
    (hattrs : cpe_item_parse_attrs codec st.reader = some ret0)
    (hrest : st.reader.rest = children ++ closing :: (between ++ next :: post))
    (hchildren : ∀ n ∈ children, item_child_ok n = true)
    (hclosing : closing.type = XML_READER_TYPE_END_ELEMENT)
    (hbetween : ∀ n ∈ between, n.type ≠ XML_READER_TYPE_ELEMENT)
    (hnext : next.type = XML_READER_TYPE_ELEMENT)
    (hnexttag : item_child_tag next.localName = false)
    (hfuel : children.length + between.length + 1 < fuel) :
    ∃ item, cpe_item_parse codec fuel st
        = .done ({ reader := { cur := some next, rest := post }, errors := st.errors },
            some item)
      ∧ ∀ (ret : cpe_dict_model) (next_ret : Int), next_ret ≠ 0 →
          cpe_dict_model_parse_loop codec (fuel + 1) st ret next_ret
            = cpe_dict_model_parse_loop codec fuel
                { reader := { cur := some next, rest := post }, errors := st.errors }
                { ret with items := ret.items ++ [item] } next_ret := by
  have hpre := item_child_ok_closing children between closing hchildren hclosing hbetween
  obtain ⟨item, hloop⟩ := cpe_item_parse_loop_children next post hnext hnexttag
    (children ++ closing :: between) hpre fuel st.errors ret0
    (by simp only [List.length_append, List.length_cons]; omega)
  have hparse : cpe_item_parse codec fuel st
      = .done ({ reader := { cur := some next, rest := post }, errors := st.errors },
          some item) := by
    rw [cpe_item_parse_eq_loop codec fuel st item_tag ret0 hcur htype htag hattrs, hrest]
    simpa using hloop
  refine ⟨item, hparse, fun ret next_ret hnr => ?_⟩
  rw [cpe_dict_model_parse_loop_item codec fuel st ret next_ret hnr
    (by simp [xmlTextReaderConstLocalName, hcur, htag]), hparse]
  rfl

theorem cpe_item_parse_stops_on_next_element_witness :
    (∀ n ∈ [start_tag "title" [], text_node "One", end_tag "title"], item_child_ok n = true)
    ∧ ∃ item, cpe_item_parse sample_codec 5 sibling_state
        = .done ({ reader := { cur := some (start_tag "cpe-item" [("name", "cpe:/a:b:c:2")]),
                               rest := [start_tag "title" [], text_node "Two", end_tag "title",
                                        end_tag "cpe-item", end_tag "cpe-list"] },
                   errors := sibling_state.errors }, some item)
      ∧ ∀ (ret : cpe_dict_model) (next_ret : Int), next_ret ≠ 0 →
          cpe_dict_model_parse_loop sample_codec (5 + 1) sibling_state ret next_ret
            = cpe_dict_model_parse_loop sample_codec 5
                { reader := { cur := some (start_tag "cpe-item" [("name", "cpe:/a:b:c:2")]),
                              rest := [start_tag "title" [], text_node "Two", end_tag "title",
                                       end_tag "cpe-item", end_tag "cpe-list"] },
                  errors := sibling_state.errors }
                { ret with items := ret.items ++ [item] } next_ret :=
  ⟨by decide,
   cpe_item_parse_stops_on_next_element sample_codec 5 sibling_state
    (start_tag "cpe-item" [("name", "cpe:/a:b:c:1")]) (end_tag "cpe-item")
    (start_tag "cpe-item" [("name", "cpe:/a:b:c:2")])
    [start_tag "title" [], text_node "One", end_tag "title"] []
    [start_tag "title" [], text_node "Two", end_tag "title", end_tag "cpe-item",
     end_tag "cpe-list"]
    { cpe_item_new with name := some { uri := "cpe:/a:b:c:1" } }
    rfl rfl rfl (by decide) rfl (by decide) rfl (by simp) rfl (by decide) (by decide)⟩

/-! ## C22 -/

theorem cpe_item_metadata_parse_rest (n : xmlNode) (xs : List xmlNode) :
    cpe_item_metadata_parse { cur := some n, rest := xs } = item_metadata_of n := rfl

/-- One pass of the loop of `cpe_item_parse` on a start tag leaves the metadata
block alone unless the start tag is an `item-metadata`, whose block it takes. -/
theorem cpe_item_parse_body_child_metadata (n : xmlNode) (xs : List xmlNode)
    (ret ret1 : cpe_item) (htype : n.type = XML_READER_TYPE_ELEMENT)
    (h : cpe_item_parse_body { cur := some n, rest := xs } ret = .next_element ret1) :
    ret1.metadata = leading_metadata ret.metadata [n] := by
  unfold cpe_item_parse_body at h
  simp only [xmlTextReaderNodeType, htype, ne_eq, not_true_eq_false, ↓reduceIte,
    xmlTextReaderConstLocalName, Option.map_some', xmlStrcmp, Option.some.injEq,
    Bool.not_eq_true', decide_eq_false_iff_not, Decidable.not_not, Bool.or_eq_true] at h
  simp only [leading_metadata, htype, true_and]
  by_cases h1 : n.localName = TAG_TITLE_STR
  · have hm : n.localName ≠ TAG_ITEM_METADATA_STR := by rw [h1]; decide
    rw [if_pos h1] at h
    rw [if_neg hm]
    split at h <;> simp only [item_step.next_element.injEq] at h <;> rw [← h]
  · rw [if_neg h1] at h
    by_cases h2 : n.localName = TAG_NOTE_STR
    · have hm : n.localName ≠ TAG_ITEM_METADATA_STR := by rw [h2]; decide
      rw [if_pos h2] at h
      rw [if_neg hm]
      split at h <;> simp only [item_step.next_element.injEq] at h <;> rw [← h]
    · rw [if_neg h2] at h
      by_cases h3 : n.localName = TAG_CHECK_STR
      · have hm : n.localName ≠ TAG_ITEM_METADATA_STR := by rw [h3]; decide
        rw [if_pos h3] at h
        rw [if_neg hm]
        split at h <;> simp only [item_step.next_element.injEq] at h <;> rw [← h]
      · rw [if_neg h3] at h
        by_cases h4 : n.localName = TAG_REFERENCE_STR
        · have hm : n.localName ≠ TAG_ITEM_METADATA_STR := by rw [h4]; decide
          rw [if_pos h4] at h
          rw [if_neg hm]
          split at h <;> simp only [item_step.next_element.injEq] at h <;> rw [← h]
        · rw [if_neg h4] at h
          by_cases h5 : n.localName = TAG_ITEM_METADATA_STR
          · rw [if_pos h5] at h
            rw [if_pos h5, ← cpe_item_metadata_parse_rest n xs]
            split at h
            · simp at h
            · next m hm =>
              simp only [item_step.next_element.injEq] at h
              rw [← h, hm]
          · rw [if_neg h5] at h
            rw [if_neg h5]
            split at h
            · simp only [item_step.next_element.injEq] at h
              rw [← h]
            · simp at h

theorem leading_metadata_cons (held : Option cpe_item_metadata) (n : xmlNode)
    (ns : List xmlNode) :
    leading_metadata held (n :: ns) = leading_metadata (leading_metadata held [n]) ns := by
  simp only [leading_metadata]
  split <;> rfl

theorem leading_metadata_skip (held : Option cpe_item_metadata) (n : xmlNode)
    (ns : List xmlNode) (h : n.type ≠ XML_READER_TYPE_ELEMENT) :
    leading_metadata held (n :: ns) = leading_metadata held ns := by
  simp [leading_metadata, h]

/-- Over known children and up to the next start tag that is not one, the
entry that the loop of `cpe_item_parse` answers holds the metadata block of
the last `item-metadata` among the children. -/
theorem cpe_item_parse_loop_children_metadata (stop : xmlNode) (post : List xmlNode)
    (hstop : stop.type = XML_READER_TYPE_ELEMENT)
    (hname : item_child_tag stop.localName = false) :
    ∀ (pre : List xmlNode), (∀ n ∈ pre, item_child_ok n = true) →
    ∀ (fuel : Nat) (errors : List String) (ret : cpe_item) (st1 : parser_state)
      (item : cpe_item),
      cpe_item_parse_loop fuel
          { reader := (xmlTextReaderNextElement_loop (pre ++ stop :: post)).2, errors := errors }
          ret
        = .done (st1, some item) →
      item.metadata = leading_metadata ret.metadata pre := by
  intro pre
  induction pre with
  | nil =>
    intro _ fuel errors ret st1 item h
    cases fuel with
    | zero => simp [cpe_item_parse_loop] at h
    | succ fuel =>
      have hs := cpe_item_parse_loop_stop fuel errors ret stop post hstop hname
      rw [on_element_cons errors stop post hstop] at hs
      rw [List.nil_append, xmlTextReaderNextElement_loop_element stop post hstop, hs] at h
      simp only [Res.done.injEq, Prod.mk.injEq, Option.some.injEq] at h
      rw [← h.2]
      rfl
  | cons n pre ih =>
    intro hok fuel errors ret st1 item h
    have hpre : ∀ m ∈ pre, item_child_ok m = true := fun m hm => hok m (by simp [hm])
    by_cases htype : n.type = XML_READER_TYPE_ELEMENT
    · cases fuel with
      | zero => simp [cpe_item_parse_loop] at h
      | succ fuel =>
        rw [List.cons_append, xmlTextReaderNextElement_loop_element n _ htype] at h
        have hn := hok n (by simp)
        have hnm : n.localName ≠ TAG_CPE_ITEM_STR := by
          intro hc
          have h1 := hn
          simp only [item_child_ok, htype, bne_self_eq_false, Bool.false_or, Bool.and_eq_true]
            at h1
          rw [hc, item_child_tag_cpe_item] at h1
          simp at h1
        obtain ⟨ret1, hbody, _⟩ :=
          cpe_item_parse_body_child_events sample_codec n (pre ++ stop :: post) ret htype hn
        rw [cpe_item_parse_loop] at h
        simp only [xmlStrcmp, xmlTextReaderConstLocalName, Option.map_some', ne_eq,
          Option.some.injEq, hnm, not_false_eq_true, decide_True, ↓reduceIte, hbody] at h
        rw [leading_metadata_cons,
          ← cpe_item_parse_body_child_metadata n (pre ++ stop :: post) ret ret1 htype hbody]
        exact ih hpre fuel errors ret1 st1 item h
    · have : xmlTextReaderNextElement_loop ((n :: pre) ++ stop :: post)
          = xmlTextReaderNextElement_loop (pre ++ stop :: post) := by
        simp [xmlTextReaderNextElement_loop, htype]
      rw [this] at h
      rw [leading_metadata_skip ret.metadata n pre htype]
      exact ih hpre fuel errors ret st1 item h

/-- C22, counterexample. On the stream `<cpe-item name="cpe:/a:b:c:1">
<title>One</title><item-metadata status="DRAFT"/><foo/></cpe-item>...`, whose
children contain the unknown element `foo`, `cpe_item_parse` fails at the
`item-metadata` without `modification-date` that comes before `foo`: it
returns no entry, for every fuel with which it returns. -/
theorem cpe_item_parse_partial_counterexample :
    empty_tag "foo" [] ∈ metadata_unknown_child_state.reader.rest
    ∧ item_child_tag (empty_tag "foo" []).localName = false
    ∧ cpe_item_parse sample_codec 2 metadata_unknown_child_state
      = .done (state_at (empty_tag "item-metadata" [("status", "DRAFT")])
            [empty_tag "foo" [], end_tag "cpe-item",
             empty_tag "cpe-item" [("name", "cpe:/a:b:c:2")], end_tag "cpe-list"],
          none)
    ∧ ∀ fuel st1 item, cpe_item_parse sample_codec fuel metadata_unknown_child_state
        ≠ .done (st1, some item) := by
  refine ⟨by decide, by decide, by decide, ?_⟩
  intro fuel st1 item h
  have h2 : cpe_item_parse sample_codec 2 metadata_unknown_child_state
      = .done (state_at (empty_tag "item-metadata" [("status", "DRAFT")])
            [empty_tag "foo" [], end_tag "cpe-item",
             empty_tag "cpe-item" [("name", "cpe:/a:b:c:2")], end_tag "cpe-list"],
          none) := by decide
  rcases Nat.le_total fuel 2 with hle | hle
  · have := done_of_fuel_le
      (fun n => cpe_item_parse sample_codec n metadata_unknown_child_state)
      (fun n => cpe_item_parse_mono sample_codec n _) fuel 2 hle _ h
    simp only at this
    rw [h2] at this
    simp at this
  · have := done_of_fuel_le
      (fun n => cpe_item_parse sample_codec n metadata_unknown_child_state)
      (fun n => cpe_item_parse_mono sample_codec n _) 2 fuel hle _ h2
    simp only at this
    rw [this] at h
    simp at h

/-- C22, amended. Early return on an unexpected child: on a `cpe-item` start
tag whose attributes are accepted (no "deprecated" attribute, or the three
deprecation attributes complete), followed by nodes whose start tags are all
known children, every `item-metadata` among them having its
`modification-date`, and then by a start tag that is none of title, note,
check, reference, item-metadata, references, notes, `cpe_item_parse` returns,
with the cursor on that start tag and without recording a diagnostic, an
entry that holds exactly the titles, notes, checks and references that the
start tags before that element stand for, in their order, and the metadata
block of the last `item-metadata` before it; what follows the element is not
read. -/
theorem cpe_item_parse_partial_entry (codec : cpe_codec) (fuel : Nat) (st : parser_state)
    (item_tag stop : xmlNode) (pre post : List xmlNode) (ret0 : cpe_item)
    (hcur : st.reader.cur = some item_tag)
    (htype : item_tag.type = XML_READER_TYPE_ELEMENT)
    (htag : item_tag.localName = TAG_CPE_ITEM_STR)
    (hattrs : cpe_item_parse_attrs codec st.reader = some ret0)
    (hrest : st.reader.rest = pre ++ stop :: post)
    (hpre : ∀ n ∈ pre, item_child_ok n = true)
    (hstop : stop.type = XML_READER_TYPE_ELEMENT)
    (hstoptag : item_child_tag stop.localName = false)
    (hfuel : pre.length < fuel) :
    ∃ item, cpe_item_parse codec fuel st
        = .done ({ reader := { cur := some stop, rest := post }, errors := st.errors }, some item)
      ∧ (∀ kind, item.kind_events kind
          = (leading_events codec pre (stop :: post)).filter (order_event.keep kind))
      ∧ item.metadata = leading_metadata none pre
      ∧ item.name = ret0.name ∧ item.deprecated = ret0.deprecated
      ∧ item.deprecation_date = ret0.deprecation_date := by
  obtain ⟨item, hloop, hk⟩ := cpe_item_parse_loop_children_events codec stop post hstop hstoptag
    pre hpre fuel st.errors ret0 hfuel
  have hfresh := cpe_item_parse_attrs_fresh codec _ _ hattrs
  have hmeta := cpe_item_parse_loop_children_metadata stop post hstop hstoptag pre hpre fuel
    st.errors ret0 _ item hloop
  have hkeep := cpe_item_parse_loop_keeps fuel _ _ _ _ hloop
  refine ⟨item, ?_, fun kind => ?_, ?_, hkeep.1, hkeep.2.1, hkeep.2.2.1⟩
  · rw [cpe_item_parse_eq_loop codec fuel st item_tag ret0 hcur htype htag hattrs, hrest]
    exact hloop
  · rw [hk kind]
    cases kind <;>
      simp [cpe_item.kind_events, hfresh.2.1, hfresh.2.2.1, hfresh.2.2.2.1, hfresh.2.2.2.2.1]
  · rw [hmeta, hfresh.2.2.2.2.2]

theorem cpe_item_parse_partial_entry_witness :
    (∀ n ∈ [start_tag "title" [], text_node "One", end_tag "title",
        empty_tag "item-metadata" [("modification-date", "2010-01-02"), ("status", "DRAFT")],
        start_tag "check" [("system", "s")], text_node "id", end_tag "check"],
      item_child_ok n = true)
    ∧ ∃ item, cpe_item_parse sample_codec 8 partial_entry_state
        = .done ({ reader := { cur := some (empty_tag "foo" []),
                               rest := [start_tag "title" [], text_node "Late", end_tag "title",
                                        end_tag "cpe-item",
                                        empty_tag "cpe-item" [("name", "cpe:/a:b:c:2")],
                                        end_tag "cpe-list"] },
                   errors := partial_entry_state.errors }, some item)
      ∧ (∀ kind, item.kind_events kind
          = (leading_events sample_codec
              [start_tag "title" [], text_node "One", end_tag "title",
               empty_tag "item-metadata"
                 [("modification-date", "2010-01-02"), ("status", "DRAFT")],
               start_tag "check" [("system", "s")], text_node "id", end_tag "check"]
              (empty_tag "foo" []
                :: [start_tag "title" [], text_node "Late", end_tag "title",
                    end_tag "cpe-item", empty_tag "cpe-item" [("name", "cpe:/a:b:c:2")],
                    end_tag "cpe-list"])).filter (order_event.keep kind))
      ∧ item.metadata = leading_metadata none
          [start_tag "title" [], text_node "One", end_tag "title",
           empty_tag "item-metadata" [("modification-date", "2010-01-02"), ("status", "DRAFT")],
           start_tag "check" [("system", "s")], text_node "id", end_tag "check"]
      ∧ item.name = some { uri := "cpe:/a:b:c:1" }
      ∧ item.deprecated = none
      ∧ item.deprecation_date = none :=
  ⟨by decide,
   cpe_item_parse_partial_entry sample_codec 8 partial_entry_state
    (start_tag "cpe-item" [("name", "cpe:/a:b:c:1")]) (empty_tag "foo" [])
    [start_tag "title" [], text_node "One", end_tag "title",
     empty_tag "item-metadata" [("modification-date", "2010-01-02"), ("status", "DRAFT")],
     start_tag "check" [("system", "s")], text_node "id", end_tag "check"]
    [start_tag "title" [], text_node "Late", end_tag "title", end_tag "cpe-item",
     empty_tag "cpe-item" [("name", "cpe:/a:b:c:2")], end_tag "cpe-list"]
    { cpe_item_new with name := some { uri := "cpe:/a:b:c:1" } }
    rfl rfl rfl (by decide) rfl (by decide) rfl (by decide) (by decide)⟩

/-! ## C26 -/

/-- A check event of a stream comes from a `check` start tag of the stream:
its system and href are the attributes of the tag, its text is the trimmed
text of the element. -/
theorem document_events_check (codec : cpe_codec) (s h t : Option String) :
    ∀ (nodes : List xmlNode), order_event.check s h t ∈ document_events codec nodes →
      ∃ n rest, n :: rest <:+ nodes ∧ n.type = XML_READER_TYPE_ELEMENT
        ∧ n.localName = TAG_CHECK_STR
        ∧ s = n.attribute ATTR_SYSTEM_STR ∧ h = n.attribute ATTR_HREF_STR
        ∧ t = oscap_trim (xmlTextReaderReadString { cur := some n, rest := rest }) := by
  intro nodes
  induction nodes with
  | nil => intro hmem; simp [document_events] at hmem
  | cons n rest ih =>
    intro hmem
    simp only [document_events, List.mem_append] at hmem
    rcases hmem with hmem | hmem
    · refine ⟨n, rest, List.suffix_refl _, ?_⟩
      unfold node_events at hmem
      split at hmem
      · next htype =>
        refine ⟨htype, ?_⟩
        split at hmem
        · simp at hmem
        · split at hmem
          · simp at hmem
          · split at hmem
            · simp at hmem
            · split at hmem
              · next hname =>
                simp only [List.mem_singleton, order_event.check.injEq] at hmem
                exact ⟨hname, hmem.1, hmem.2.1, hmem.2.2⟩
              · split at hmem
                · simp at hmem
                · split at hmem <;> simp at hmem
      · simp at hmem
    · obtain ⟨m, ms, hsuf, hrest⟩ := ih hmem
      exact ⟨m, ms, hsuf.trans (List.suffix_cons n rest), hrest⟩

/-- C26, counterexample. On the stream `<cpe-item name="cpe:/a:b:c:1"><check
href="checks.xml"> id </check></cpe-item>...`, `cpe_item_parse` returns an
entry whose check has no system URI. -/
theorem cpe_item_parse_check_counterexample :
    cpe_item_parse sample_codec 3 check_without_system_state
      = .done (state_at (empty_tag "cpe-item" [("name", "cpe:/a:b:c:2")]) [end_tag "cpe-list"],
          some { cpe_item_new with
            name := some { uri := "cpe:/a:b:c:1" },
            checks := [{ xml := xml_metadata_new, system := none, href := some "checks.xml",
                         identifier := some "id" }] }) := by
  decide

/-- C26, amended. The fields of a Check follow the element: for every token
stream, every Check of an entry that `cpe_item_parse` returns comes from a
`check` start tag of the stream; its system URI is the "system" attribute of
that tag and its href the "href" attribute, each present exactly when the tag
has the attribute, and its identifier is the text of the element with the
surrounding white space trimmed. -/
theorem cpe_item_parse_check_fields (codec : cpe_codec) (fuel : Nat) (st st1 : parser_state)
    (item : cpe_item) (h : cpe_item_parse codec fuel st = .done (st1, some item)) :
    ∀ c ∈ item.checks, ∃ n rest, n :: rest <:+ st.reader.nodes
      ∧ n.type = XML_READER_TYPE_ELEMENT ∧ n.localName = TAG_CHECK_STR
      ∧ c.system = n.attribute ATTR_SYSTEM_STR ∧ c.href = n.attribute ATTR_HREF_STR
      ∧ c.identifier = oscap_trim (xmlTextReaderReadString { cur := some n, rest := rest }) := by
  intro c hc
  obtain ⟨evs, X, hdoc, hsub, _, hk⟩ := cpe_item_parse_events codec fuel st st1 item h
  have hmem : order_event.check c.system c.href c.identifier ∈ evs := by
    have h1 := hk .check
    rw [cpe_item.start_kind_events_eq] at h1
    simp only [reduceCtorEq, ↓reduceIte] at h1
    have h2 : order_event.check c.system c.href c.identifier
        ∈ evs.filter (order_event.keep .check) := by
      rw [h1]
      refine List.mem_cons_of_mem _ ?_
      simp only [cpe_item.kind_events, List.mem_map]
      exact ⟨c, hc, rfl⟩
    exact (List.mem_filter.mp h2).1
  have hX : order_event.check c.system c.href c.identifier
      ∈ document_events codec st.reader.nodes := by
    rw [hdoc]
    exact List.mem_append_left _ (hsub.subset hmem)
  exact document_events_check codec _ _ _ _ hX

theorem cpe_item_parse_check_fields_witness :
    cpe_item_parse sample_codec 8 sample_deprecated_state
      = .done (state_at (empty_tag "cpe-item" [("name", "cpe:/a:b:c:2")]) [end_tag "cpe-list"],
          some { cpe_item_new with
            name := some { uri := "cpe:/a:b:c:1" },
            deprecated := some { uri := "cpe:/a:b:c:2" },
            deprecation_date := some "2010-01-01",
            titles := [{ xml := xml_metadata_new, content := some "One" }],
            checks := [{ xml := xml_metadata_new, system := some "s", href := none,
                         identifier := some "id" }] })
    ∧ ∀ c ∈ [({ xml := xml_metadata_new, system := some "s", href := none,
                identifier := some "id" } : cpe_check)],
        ∃ n rest, n :: rest <:+ sample_deprecated_state.reader.nodes
          ∧ n.type = XML_READER_TYPE_ELEMENT ∧ n.localName = TAG_CHECK_STR
          ∧ c.system = n.attribute ATTR_SYSTEM_STR ∧ c.href = n.attribute ATTR_HREF_STR
          ∧ c.identifier
            = oscap_trim (xmlTextReaderReadString { cur := some n, rest := rest }) :=
  ⟨by decide,
   cpe_item_parse_check_fields sample_codec 8 sample_deprecated_state
    (state_at (empty_tag "cpe-item" [("name", "cpe:/a:b:c:2")]) [end_tag "cpe-list"])
    { cpe_item_new with
      name := some { uri := "cpe:/a:b:c:1" },
      deprecated := some { uri := "cpe:/a:b:c:2" },
      deprecation_date := some "2010-01-01",
      titles := [{ xml := xml_metadata_new, content := some "One" }],
      checks := [{ xml := xml_metadata_new, system := some "s", href := none,
                   identifier := some "id" }] }
    (by decide)⟩

/-! ## C21 -/

theorem inner_calls_generator_field (p : Option String) (tag : String) (field : Option String)
    (k : Nat) (rest : List xmlTextWriterCall) :
    inner_calls k (cpe_generator_export_field p tag field ++ rest) = inner_calls k rest := by
  cases field with
  | none => rfl
  | some text => simp [cpe_generator_export_field, inner_calls]

theorem one_element_generator (g : cpe_generator) : one_element (cpe_generator_export g) :=
  ⟨g.xml.nspace, TAG_GENERATOR_STR,
    cpe_generator_export_field g.xml.nspace TAG_PRODUCT_NAME_STR g.product_name
      ++ (cpe_generator_export_field g.xml.nspace TAG_PRODUCT_VERSION_STR g.product_version
      ++ (cpe_generator_export_field g.xml.nspace TAG_SCHEMA_VERSION_STR g.schema_version
      ++ cpe_generator_export_field g.xml.nspace TAG_TIMESTAMP_STR g.timestamp)),
    by simp [cpe_generator_export], by
      rw [inner_calls_generator_field, inner_calls_generator_field, inner_calls_generator_field,
        ← List.append_nil (cpe_generator_export_field _ _ _), inner_calls_generator_field]
      rfl⟩

theorem inner_calls_item_attributes (codec : cpe_codec) (item : cpe_item) (k : Nat)
    (rest : List xmlTextWriterCall) :
    inner_calls k (cpe_item_export_attributes codec item ++ rest) = inner_calls k rest := by
  rcases item with ⟨xml, name, titles, deprecated, date, references, checks, notes, metadata⟩
  cases name <;> cases deprecated <;> rfl

theorem cpe_item_export_child_elements (codec : cpe_codec) (item : cpe_item) :
    cpe_item_export codec item
      = StartElementNS item.xml.nspace TAG_CPE_ITEM_STR
          :: cpe_item_export_attributes codec item ++ item.child_elements.flatten
          ++ [EndElement] := by
  rcases item with ⟨xml, name, titles, deprecated, date, references, checks, notes, metadata⟩
  cases metadata <;> cases references <;> cases notes <;>
    simp [cpe_item_export, cpe_item.child_elements, cpe_item_export_metadata,
      cpe_item_export_references, cpe_item_export_notes, wrapper_calls]

theorem one_element_item_children (item : cpe_item) :
    ∀ e ∈ item.child_elements, one_element e := by
  intro e he
  simp only [cpe_item.child_elements, List.mem_append] at he
  rcases he with (((he | he) | he) | he) | he
  · obtain ⟨t, _, rfl⟩ := List.mem_map.mp he
    exact one_element_title t
  · cases hm : item.metadata with
    | none => simp [hm] at he
    | some m =>
      simp only [hm, List.mem_singleton] at he
      rw [he]
      exact one_element_metadata m
  · by_cases hr : item.references = []
    · simp [hr] at he
    · simp only [hr, ↓reduceIte, List.mem_singleton] at he
      rw [he]
      refine one_element_wrapper _ _ (fun x hx => ?_)
      obtain ⟨r, _, rfl⟩ := List.mem_map.mp hx
      exact one_element_reference r
  · by_cases hn : item.notes = []
    · simp [hn] at he
    · simp only [hn, ↓reduceIte, List.mem_singleton] at he
      rw [he]
      refine one_element_wrapper _ _ (fun x hx => ?_)
      obtain ⟨t, _, rfl⟩ := List.mem_map.mp hx
      exact one_element_note t
  · obtain ⟨c, _, rfl⟩ := List.mem_map.mp he
    exact one_element_check c

theorem one_element_item (codec : cpe_codec) (item : cpe_item) :
    one_element (cpe_item_export codec item) := by
  rw [cpe_item_export_child_elements]
  exact one_element_of_elements _ _ _ _ (inner_calls_item_attributes codec item)
    (one_element_item_children item)

theorem one_element_language (l : cpe_language) : one_element (cpe_language_export l) :=
  ⟨l.xml.nspace, TAG_LANGUAGE_STR,
    write_attribute_if ATTR_VALUE_STR l.value ++ write_attribute_if ATTR_XML_LANG_STR l.xml.lang,
    by simp [cpe_language_export], by
      rw [inner_calls_attribute_if, ← List.append_nil (write_attribute_if _ _),
        inner_calls_attribute_if]
      rfl⟩

theorem one_element_map {α : Type} (f : α → List xmlTextWriterCall) (h : ∀ x, one_element (f x))
    (xs : List α) : ∀ e ∈ xs.map f, one_element e := by
  intro e he
  obtain ⟨x, _, rfl⟩ := List.mem_map.mp he
  exact h x

theorem one_element_edition (e : cpe_edition) : one_element (cpe_edition_export e) := by
  have := one_element_of_elements e.xml.nspace TAG_EDITION_STR
    (write_attribute_if ATTR_VALUE_STR e.value) (e.languages.map cpe_language_export)
    (inner_calls_attribute_if _ _) (one_element_map _ one_element_language _)
  simpa [cpe_edition_export] using this

theorem one_element_update (u : cpe_update) : one_element (cpe_update_export u) := by
  have := one_element_of_elements u.xml.nspace TAG_UPDATE_STR
    (write_attribute_if ATTR_VALUE_STR u.value) (u.editions.map cpe_edition_export)
    (inner_calls_attribute_if _ _) (one_element_map _ one_element_edition _)
  simpa [cpe_update_export] using this

theorem one_element_version (v : cpe_version) : one_element (cpe_version_export v) := by
  have := one_element_of_elements v.xml.nspace TAG_VERSION_STR
    (write_attribute_if ATTR_VALUE_STR v.value) (v.updates.map cpe_update_export)
    (inner_calls_attribute_if _ _) (one_element_map _ one_element_update _)
  simpa [cpe_version_export] using this

theorem inner_calls_product_attributes (p : cpe_product) (k : Nat)
    (rest : List xmlTextWriterCall) :
    inner_calls k ((write_attribute_if ATTR_VALUE_STR p.value ++ cpe_product_export_part p)
      ++ rest) = inner_calls k rest := by
  rw [List.append_assoc, inner_calls_attribute_if]
  unfold cpe_product_export_part
  split <;> rfl

theorem one_element_product (p : cpe_product) : one_element (cpe_product_export p) := by
  have := one_element_of_elements p.xml.nspace TAG_PRODUCT_STR
    (write_attribute_if ATTR_VALUE_STR p.value ++ cpe_product_export_part p)
    (p.versions.map cpe_version_export)
    (inner_calls_product_attributes p) (one_element_map _ one_element_version _)
  simpa [cpe_product_export] using this

theorem one_element_vendor_children (v : cpe_vendor) :
    ∀ e ∈ v.titles.map oscap_title_export ++ v.products.map cpe_product_export,
      one_element e := by
  intro e he
  rcases List.mem_append.mp he with he | he
  · exact one_element_map _ one_element_title _ e he
  · exact one_element_map _ one_element_product _ e he

theorem one_element_vendor (v : cpe_vendor) : one_element (cpe_vendor_export v) := by
  have := one_element_of_elements v.xml.nspace TAG_VENDOR_STR
    (write_attribute_if ATTR_VALUE_STR v.value)
    (v.titles.map oscap_title_export ++ v.products.map cpe_product_export)
    (inner_calls_attribute_if _ _) (one_element_vendor_children v)
  simpa [cpe_vendor_export] using this

theorem one_element_component_tree (vendors : List cpe_vendor) :
    one_element (component_tree_export vendors) := by
  have := one_element_of_elements (some NS_META_STR) TAG_COMPONENT_TREE_STR []
    (vendors.map cpe_vendor_export) (fun _ _ => rfl) (one_element_map _ one_element_vendor _)
  simpa [component_tree_export] using this

theorem inner_calls_xmlns (xmlns : List xml_metadata) (k : Nat)
    (rest : List xmlTextWriterCall) :
    inner_calls k ((xmlns.map cpe_dict_export_xmlns).flatten ++ rest) = inner_calls k rest := by
  induction xmlns with
  | nil => rfl
  | cons x xs ih =>
    rcases x with ⟨lang, nspace, uri⟩
    cases uri with
    | none => simpa [cpe_dict_export_xmlns] using ih
    | some u => simpa [cpe_dict_export_xmlns, inner_calls] using ih

/-- The child elements of the root as `cpe_dict_export` writes them are
elements. -/
theorem one_element_dict_children (codec : cpe_codec) (dict : cpe_dict_model) :
    ∀ e ∈ (match dict.generator with
           | some generator => [cpe_generator_export generator]
           | none => [])
        ++ dict.items.map (cpe_item_export codec) ++ [component_tree_export dict.vendors],
      one_element e := by
  intro e he
  simp only [List.mem_append, List.mem_singleton] at he
  rcases he with (he | he) | he
  · cases hg : dict.generator with
    | none => simp [hg] at he
    | some g =>
      simp only [hg, List.mem_singleton] at he
      rw [he]
      exact one_element_generator g
  · exact one_element_map _ (one_element_item codec) _ e he
  · rw [he]
    exact one_element_component_tree _

theorem cpe_dict_export_child_elements (codec : cpe_codec) (dict : cpe_dict_model) :
    cpe_dict_export codec dict
      = StartElementNS dict.xml.nspace TAG_CPE_LIST_STR
          :: (dict.xmlns.map cpe_dict_export_xmlns).flatten
          ++ ((match dict.generator with
               | some generator => [cpe_generator_export generator]
               | none => [])
              ++ dict.items.map (cpe_item_export codec)
              ++ [component_tree_export dict.vendors]).flatten
          ++ [EndElement] := by
  rcases dict with ⟨xmlns, xml, items, vendors, generator⟩
  cases generator <;>
    simp [cpe_dict_export, cpe_dict_export_generator, component_tree_export]

/-- C21. Top-level emission shape: for every dictionary, the calls of
`cpe_dict_export` are those of one element, the root `cpe-list`: its start,
the attribute calls of the namespace pairs, then child elements, which are, in
this order, the generator block when a generator is present and none when it
is absent, every entry in item-list order, and exactly one `component-tree`
element; that element is written around every vendor in vendor-list order;
each vendor is written around its titles and then its products in list order,
each product around its versions, each version around its updates, each update
around its editions and each edition around its languages, in list order. -/
theorem cpe_dict_export_emission_shape (codec : cpe_codec) (dict : cpe_dict_model) :
    written_elements (cpe_dict_export codec dict) = some [cpe_dict_export codec dict]
    ∧ (∃ children,
        cpe_dict_export codec dict
          = StartElementNS dict.xml.nspace TAG_CPE_LIST_STR
              :: (dict.xmlns.map cpe_dict_export_xmlns).flatten ++ children ++ [EndElement]
        ∧ written_elements children
          = some ((match dict.generator with
                   | some generator => [cpe_generator_export generator]
                   | none => [])
                  ++ dict.items.map (cpe_item_export codec)
                  ++ [component_tree_export dict.vendors]))
    ∧ component_tree_export dict.vendors
        = StartElementNS (some NS_META_STR) TAG_COMPONENT_TREE_STR
            :: (dict.vendors.map cpe_vendor_export).flatten ++ [EndElement]
    ∧ written_elements (dict.vendors.map cpe_vendor_export).flatten
        = some (dict.vendors.map cpe_vendor_export)
    ∧ (∀ v : cpe_vendor, ∃ children,
        cpe_vendor_export v
          = StartElementNS v.xml.nspace TAG_VENDOR_STR
              :: write_attribute_if ATTR_VALUE_STR v.value ++ children ++ [EndElement]
        ∧ written_elements children
          = some (v.titles.map oscap_title_export ++ v.products.map cpe_product_export))
    ∧ (∀ p : cpe_product,
        cpe_product_export p
          = StartElementNS p.xml.nspace TAG_PRODUCT_STR
              :: (write_attribute_if ATTR_VALUE_STR p.value ++ cpe_product_export_part p)
              ++ (p.versions.map cpe_version_export).flatten ++ [EndElement]
        ∧ written_elements (p.versions.map cpe_version_export).flatten
          = some (p.versions.map cpe_version_export))
    ∧ (∀ v : cpe_version,
        cpe_version_export v
          = StartElementNS v.xml.nspace TAG_VERSION_STR
              :: write_attribute_if ATTR_VALUE_STR v.value
              ++ (v.updates.map cpe_update_export).flatten ++ [EndElement]
        ∧ written_elements (v.updates.map cpe_update_export).flatten
          = some (v.updates.map cpe_update_export))
    ∧ (∀ u : cpe_update,
        cpe_update_export u
          = StartElementNS u.xml.nspace TAG_UPDATE_STR
              :: write_attribute_if ATTR_VALUE_STR u.value
              ++ (u.editions.map cpe_edition_export).flatten ++ [EndElement]
        ∧ written_elements (u.editions.map cpe_edition_export).flatten
          = some (u.editions.map cpe_edition_export))
    ∧ (∀ e : cpe_edition,
        cpe_edition_export e
          = StartElementNS e.xml.nspace TAG_EDITION_STR
              :: write_attribute_if ATTR_VALUE_STR e.value
              ++ (e.languages.map cpe_language_export).flatten ++ [EndElement]
        ∧ written_elements (e.languages.map cpe_language_export).flatten
          = some (e.languages.map cpe_language_export)) := by
  refine ⟨?_, ⟨_, cpe_dict_export_child_elements codec dict,
      written_elements_flatten _ (one_element_dict_children codec dict)⟩,
    by simp [component_tree_export],
    written_elements_flatten _ (one_element_map _ one_element_vendor _),
    fun v => ⟨(v.titles.map oscap_title_export ++ v.products.map cpe_product_export).flatten,
      by simp [cpe_vendor_export],
      written_elements_flatten _ (one_element_vendor_children v)⟩,
    fun p => ⟨by simp [cpe_product_export],
      written_elements_flatten _ (one_element_map _ one_element_version _)⟩,
    fun v => ⟨by simp [cpe_version_export],
      written_elements_flatten _ (one_element_map _ one_element_update _)⟩,
    fun u => ⟨by simp [cpe_update_export],
      written_elements_flatten _ (one_element_map _ one_element_edition _)⟩,
    fun e => ⟨by simp [cpe_edition_export],
      written_elements_flatten _ (one_element_map _ one_element_language _)⟩⟩
  have hroot : one_element (cpe_dict_export codec dict) := by
    rw [cpe_dict_export_child_elements]
    exact one_element_of_elements _ _ _ _ (inner_calls_xmlns dict.xmlns)
      (one_element_dict_children codec dict)
  have := written_elements_flatten [cpe_dict_export codec dict]
    (fun e he => by rw [List.mem_singleton.mp he]; exact hroot)
  simpa using this

/-! ## C28 -/

/-- What the main loop makes of the children that `cpe_dict_export` writes:
the generator, the entries and the vendors of the dictionary. -/
theorem cpe_dict_model_children_fold_fields (dict ret : cpe_dict_model)
    (hg : ret.generator = none) (hi : ret.items = []) (hv : ret.vendors = []) :
    (dict.children.foldl root_child.add ret).generator = dict.generator
    ∧ (dict.children.foldl root_child.add ret).items = dict.items
    ∧ (dict.children.foldl root_child.add ret).vendors = dict.vendors := by
  obtain ⟨xmlns, xml, items, vendors, generator⟩ := dict
  obtain ⟨xmlns0, xml0, items0, vendors0, generator0⟩ := ret
  simp only at hg hi hv
  subst hg hi hv
  cases generator <;>
    simp [cpe_dict_model.children, List.foldl_append, foldl_add_items, root_child.add]

/-! ## The order in which the cursor enumerates the attributes -/

theorem cursor_attributes_plain (attrs : List (String × String))
    (h : ∀ a ∈ attrs, is_namespace_declaration a.1 = false) : cursor_attributes attrs = attrs := by
  have h1 : attrs.filter (fun a => is_namespace_declaration a.1) = [] := by
    rw [List.filter_eq_nil_iff]
    intro a ha
    simp [h a ha]
  have h2 : attrs.filter (fun a => !is_namespace_declaration a.1) = attrs := by
    rw [List.filter_eq_self]
    intro a ha
    simp [h a ha]
  rw [cursor_attributes, h1, h2, List.nil_append]

theorem map_cursor_node_plain (nodes : List xmlNode) (h : plain_nodes nodes) :
    nodes.map cursor_node = nodes := by
  induction nodes with
  | nil => rfl
  | cons n nodes ih =>
    rw [List.map_cons, ih (fun m hm => h m (List.mem_cons_of_mem _ hm))]
    have hn : cursor_node n = n := by
      have hattrs := cursor_attributes_plain n.attrs (h n (List.mem_cons_self _ _))
      rcases n with ⟨type, name, nspace, lang, attrs, value, isEmpty⟩
      simp only at hattrs
      simp only [cursor_node, hattrs]
    rw [hn]

theorem plain_nodes_nil : plain_nodes [] := by
  intro n hn
  simp at hn

theorem plain_nodes_append (a b : List xmlNode) (ha : plain_nodes a) (hb : plain_nodes b) :
    plain_nodes (a ++ b) := by
  intro n hn
  rcases List.mem_append.mp hn with h | h
  · exact ha n h
  · exact hb n h

theorem plain_nodes_cons (n : xmlNode) (nodes : List xmlNode)
    (hn : ∀ a ∈ n.attrs, is_namespace_declaration a.1 = false) (h : plain_nodes nodes) :
    plain_nodes (n :: nodes) := by
  intro m hm
  rcases List.mem_cons.mp hm with rfl | hm
  · exact hn
  · exact h m hm

theorem plain_nodes_flatten_map {α : Type} (f : α → List xmlNode) (xs : List α)
    (h : ∀ x ∈ xs, plain_nodes (f x)) : plain_nodes (xs.map f).flatten := by
  intro n hn
  obtain ⟨l, hl, hnl⟩ := List.mem_flatten.mp hn
  obtain ⟨x, hx, rfl⟩ := List.mem_map.mp hl
  exact h x hx n hnl

theorem plain_nodes_end (name : String) (nspace lang : Option String) :
    plain_nodes [xml_end name nspace lang] := by
  intro n hn
  simp only [List.mem_singleton] at hn
  subst hn
  simp [xml_end]

theorem plain_nodes_text (lang : Option String) (s : String) : plain_nodes (text_nodes lang s) := by
  intro n hn
  unfold text_nodes at hn
  split at hn
  · simp at hn
  · simp only [List.mem_singleton] at hn
    subst hn
    simp

theorem plain_nodes_element (name : String) (nspace lang : Option String)
    (attrs : List (String × String)) (children : List xmlNode)
    (hattrs : ∀ a ∈ attrs, is_namespace_declaration a.1 = false) (h : plain_nodes children) :
    plain_nodes (element_nodes name nspace lang attrs children) := by
  unfold element_nodes
  split
  · exact plain_nodes_cons _ _ (by simpa [xml_element] using hattrs) plain_nodes_nil
  · exact plain_nodes_cons _ _ (by simpa [xml_element] using hattrs)
      (plain_nodes_append _ _ h (plain_nodes_end _ _ _))

theorem plain_nodes_text_element (name : String) (nspace lang : Option String)
    (attrs : List (String × String)) (text : Option String)
    (hattrs : ∀ a ∈ attrs, is_namespace_declaration a.1 = false) :
    plain_nodes (text_element_nodes name nspace lang attrs text) := by
  unfold text_element_nodes
  split
  · exact plain_nodes_cons _ _ (by simpa [xml_element] using hattrs) plain_nodes_nil
  · exact plain_nodes_cons _ _ (by simpa [xml_element] using hattrs)
      (plain_nodes_append _ _ (plain_nodes_text _ _) (plain_nodes_end _ _ _))

theorem plain_optional_attribute (name : String) (value : Option String)
    (hname : is_namespace_declaration name = false) :
    ∀ a ∈ optional_attribute name value, is_namespace_declaration a.1 = false := by
  intro a ha
  cases value with
  | none => simp [optional_attribute] at ha
  | some v =>
    simp only [optional_attribute, List.mem_singleton] at ha
    subst ha
    exact hname

theorem plain_lang_attribute (lang : Option String) :
    ∀ a ∈ lang_attribute lang, is_namespace_declaration a.1 = false := by
  intro a ha
  cases lang with
  | none => simp [lang_attribute] at ha
  | some v =>
    simp only [lang_attribute, List.mem_singleton] at ha
    subst ha
    show is_namespace_declaration ATTR_XML_LANG_STR = false
    decide

theorem plain_attributes_append (a b : List (String × String))
    (ha : ∀ x ∈ a, is_namespace_declaration x.1 = false)
    (hb : ∀ x ∈ b, is_namespace_declaration x.1 = false) :
    ∀ x ∈ a ++ b, is_namespace_declaration x.1 = false := by
  intro x hx
  rcases List.mem_append.mp hx with h | h
  · exact ha x h
  · exact hb x h

theorem plain_nodes_title (name : String) (t : oscap_title) : plain_nodes (t.nodes name) :=
  plain_nodes_text_element _ _ _ _ _ (plain_lang_attribute _)

theorem plain_nodes_check (c : cpe_check) : plain_nodes c.nodes :=
  plain_nodes_text_element _ _ _ _ _
    (plain_attributes_append _ _ (plain_optional_attribute _ _ (by decide))
      (plain_optional_attribute _ _ (by decide)))

theorem plain_nodes_reference (r : cpe_reference) : plain_nodes r.nodes :=
  plain_nodes_text_element _ _ _ _ _
    (plain_attributes_append _ _ (plain_optional_attribute _ _ (by decide))
      (plain_lang_attribute _))

theorem plain_nodes_metadata (m : cpe_item_metadata) : plain_nodes m.nodes :=
  plain_nodes_cons _ _
    (plain_attributes_append _ _
      (plain_attributes_append _ _
        (plain_attributes_append _ _ (plain_optional_attribute _ _ (by decide))
          (plain_optional_attribute _ _ (by decide)))
        (plain_optional_attribute _ _ (by decide)))
      (plain_optional_attribute _ _ (by decide)))
    plain_nodes_nil

theorem plain_nodes_wrapped (name : String) (children : List xmlNode)
    (h : plain_nodes children) : plain_nodes (wrapped_nodes name children) := by
  unfold wrapped_nodes
  split
  · exact plain_nodes_nil
  · exact plain_nodes_cons _ _ (by simp [xml_element])
      (plain_nodes_append _ _ h (plain_nodes_end _ _ _))

theorem plain_item_attributes (codec : cpe_codec) (item : cpe_item) :
    ∀ a ∈ item.attributes codec, is_namespace_declaration a.1 = false := by
  unfold cpe_item.attributes
  refine plain_attributes_append _ _ (plain_optional_attribute _ _ (by decide)) ?_
  intro a ha
  split at ha
  · simp only [List.mem_cons, List.mem_singleton, List.not_mem_nil, or_false] at ha
    rcases ha with rfl | rfl | rfl
    · show is_namespace_declaration ATTR_DEPRECATED_STR = false
      decide
    · show is_namespace_declaration ATTR_DEPRECATION_DATE_STR = false
      decide
    · show is_namespace_declaration ATTR_DEPRECATED_BY_STR = false
      decide
  · simp at ha

theorem plain_nodes_item (codec : cpe_codec) (item : cpe_item) : plain_nodes (item.nodes codec) := by
  refine plain_nodes_element _ _ _ _ _ (plain_item_attributes codec item) ?_
  unfold cpe_item.child_nodes
  refine plain_nodes_append _ _ (plain_nodes_append _ _ (plain_nodes_append _ _
    (plain_nodes_append _ _ (plain_nodes_flatten_map _ _ (fun t _ => plain_nodes_title _ t)) ?_)
    (plain_nodes_wrapped _ _ (plain_nodes_flatten_map _ _ (fun r _ => plain_nodes_reference r))))
    (plain_nodes_wrapped _ _ (plain_nodes_flatten_map _ _ (fun t _ => plain_nodes_title _ t))))
    (plain_nodes_flatten_map _ _ (fun c _ => plain_nodes_check c))
  cases item.metadata with
  | none => exact plain_nodes_nil
  | some m => exact plain_nodes_metadata m

theorem plain_nodes_generator_field (nspace : Option String) (name : String)
    (field : Option String) : plain_nodes (generator_field_nodes nspace name field) := by
  unfold generator_field_nodes
  split
  · exact plain_nodes_cons _ _ (by simp [xml_element])
      (plain_nodes_append _ _ (plain_nodes_text _ _) (plain_nodes_end _ _ _))
  · exact plain_nodes_nil

theorem plain_nodes_generator (g : cpe_generator) : plain_nodes g.nodes := by
  refine plain_nodes_element _ _ _ _ _ (by simp) ?_
  unfold cpe_generator.child_nodes
  exact plain_nodes_append _ _ (plain_nodes_append _ _ (plain_nodes_append _ _
    (plain_nodes_generator_field _ _ _) (plain_nodes_generator_field _ _ _))
    (plain_nodes_generator_field _ _ _)) (plain_nodes_generator_field _ _ _)

theorem plain_nodes_language (l : cpe_language) : plain_nodes l.nodes :=
  plain_nodes_cons _ _
    (plain_attributes_append _ _ (plain_optional_attribute _ _ (by decide))
      (plain_lang_attribute _))
    plain_nodes_nil

theorem plain_nodes_edition (e : cpe_edition) : plain_nodes e.nodes :=
  plain_nodes_element _ _ _ _ _ (plain_optional_attribute _ _ (by decide))
    (plain_nodes_flatten_map _ _ (fun l _ => plain_nodes_language l))

theorem plain_nodes_update (u : cpe_update) : plain_nodes u.nodes :=
  plain_nodes_element _ _ _ _ _ (plain_optional_attribute _ _ (by decide))
    (plain_nodes_flatten_map _ _ (fun e _ => plain_nodes_edition e))

theorem plain_nodes_version (v : cpe_version) : plain_nodes v.nodes :=
  plain_nodes_element _ _ _ _ _ (plain_optional_attribute _ _ (by decide))
    (plain_nodes_flatten_map _ _ (fun u _ => plain_nodes_update u))

theorem plain_nodes_product (p : cpe_product) : plain_nodes p.nodes :=
  plain_nodes_element _ _ _ _ _
    (plain_attributes_append _ _ (plain_optional_attribute _ _ (by decide))
      (plain_optional_attribute _ _ (by decide)))
    (plain_nodes_flatten_map _ _ (fun v _ => plain_nodes_version v))

theorem plain_nodes_vendor (v : cpe_vendor) : plain_nodes v.nodes :=
  plain_nodes_element _ _ _ _ _ (plain_optional_attribute _ _ (by decide))
    (plain_nodes_append _ _ (plain_nodes_flatten_map _ _ (fun t _ => plain_nodes_title _ t))
      (plain_nodes_flatten_map _ _ (fun p _ => plain_nodes_product p)))

theorem plain_nodes_root_child (codec : cpe_codec) (c : root_child)
    (hc : c.is_unknown = false) : plain_nodes (c.nodes codec) := by
  cases c with
  | generator g => exact plain_nodes_generator g
  | item it => exact plain_nodes_item codec it
  | component_tree vs =>
    exact plain_nodes_element _ _ _ _ _ (by simp)
      (plain_nodes_flatten_map _ _ (fun v _ => plain_nodes_vendor v))
  | unknown u => simp [root_child.is_unknown] at hc

/-- The cursor reads the nodes of a written document as they are written, but
for the attributes of the root, which it enumerates in its own order. -/
theorem document_nodes_cursor (codec : cpe_codec) (nspace : Option String)
    (attrs : List (String × String)) (cs : List root_child)
    (hcs : ∀ c ∈ cs, c.is_unknown = false) :
    (document_nodes codec nspace attrs cs).map cursor_node
      = document_nodes codec nspace (cursor_attributes attrs) cs := by
  have hplain : plain_nodes ((cs.map (root_child.nodes codec)).flatten
      ++ [xml_end TAG_CPE_LIST_STR nspace none]) :=
    plain_nodes_append _ _
      (plain_nodes_flatten_map _ _ (fun c hc => plain_nodes_root_child codec c (hcs c hc)))
      (plain_nodes_end _ _ _)
  simp only [document_nodes, List.cons_append, List.map_cons, map_cursor_node_plain _ hplain]
  rfl

theorem cpe_dict_model_children_known (dict : cpe_dict_model) :
    ∀ c ∈ dict.children, c.is_unknown = false := by
  intro c hc
  unfold cpe_dict_model.children at hc
  simp only [List.mem_append, List.mem_map, List.mem_singleton] at hc
  rcases hc with (hc | ⟨_, _, rfl⟩) | rfl
  · cases hg : dict.generator with
    | none => simp [hg] at hc
    | some g =>
      simp only [hg, List.mem_singleton] at hc
      subst hc
      rfl
  · rfl
  · rfl

/-- The document that the cursor reads back from what `cpe_dict_export` writes
for a dictionary in the form the parser stores it, when it reads one. -/
theorem render_dict_export (codec : cpe_codec) (dict : cpe_dict_model) (document : List xmlNode)
    (hxmlns : xmlns_canonical dict.xmlns = true)
    (hcs : dict.children.all (root_child.canonical codec) = true)
    (hdecl : root_declares dict.xml.nspace dict.xmlns dict.children = true)
    (hdoc : render (cpe_dict_export codec dict) = some document) :
    document = document_nodes codec dict.xml.nspace
      (cursor_attributes (xmlns_attributes dict.xmlns)) dict.children := by
  unfold render at hdoc
  split at hdoc
  · simp only [Option.some.injEq] at hdoc
    rw [← hdoc, cpe_dict_export_eq_root_export,
      render_go_root_export codec _ dict.xmlns _ hxmlns hcs hdecl
        (by simp [cpe_dict_model.children]),
      document_nodes_cursor codec _ _ _ (cpe_dict_model_children_known dict)]
  · simp at hdoc

/-- C28, counterexample. A dictionary with one entry, which has an identifier
and a check whose text is " id ": `cpe_dict_model_parse` on the document that
`cpe_dict_export` writes for it returns a dictionary whose entry has the check
text "id", trimmed by `cpe_check_parse`, so not the same entries. -/
theorem parse_export_counterexample :
    render (cpe_dict_export sample_codec untrimmed_dict) = some untrimmed_written
    ∧ cpe_dict_model_parse sample_codec 4 (parser_state.start untrimmed_written)
      = .done ({ reader := { cur := none, rest := [] }, errors := [] },
          some { untrimmed_dict with
            items := [{ cpe_item_new with
              name := some { uri := "cpe:/a:b:c:1" },
              checks := [{ xml := xml_metadata_new, system := some "s", href := none,
                           identifier := some "id" }] }] })
    ∧ untrimmed_dict.items
      ≠ [{ cpe_item_new with
            name := some { uri := "cpe:/a:b:c:1" },
            checks := [{ xml := xml_metadata_new, system := some "s", href := none,
                         identifier := some "id" }] }] := by
  refine ⟨by decide, by decide, by decide⟩

/-- C28, amended. Parsing undoes exporting on data in the form the parser
stores it: for every dictionary whose namespace pairs are stored pairs with
distinct names that declare the prefixes of its elements, `meta` included,
whose generator, entries and vendors are in the form the parser stores them
(texts trimmed and not empty, identifiers that the codec reads back,
deprecation pair complete or absent, metadata with its modification date,
every vendor with at least one title or product), and for which what
`cpe_dict_export` writes is a document that the cursor reads back (`render`
answers one: the names written are XML names, the texts are made of characters
of XML, every namespace declaration has a name that is neither empty nor
reserved), with enough fuel `cpe_dict_model_parse` on that document returns a
dictionary with the same generator, the same entries in the same order and
the same vendor trees in the same order. -/
theorem cpe_dict_model_parse_undoes_export (codec : cpe_codec) (dict : cpe_dict_model)
    (hxmlns : xmlns_canonical dict.xmlns = true)
    (hcs : dict.children.all (root_child.canonical codec) = true)
    (hdecl : root_declares dict.xml.nspace dict.xmlns dict.children = true)
    (hread : (render (cpe_dict_export codec dict)).isSome = true) :
    ∃ document, render (cpe_dict_export codec dict) = some document
      ∧ ∃ k, ∀ fuel, k ≤ fuel →
        ∃ st ret, cpe_dict_model_parse codec fuel (parser_state.start document)
            = .done (st, some ret)
          ∧ ret.generator = dict.generator ∧ ret.items = dict.items
          ∧ ret.vendors = dict.vendors := by
  obtain ⟨document, hdoc⟩ := Option.isSome_iff_exists.mp hread
  refine ⟨document, hdoc, ?_⟩
  have hend : ends_without_item dict.children = true := by
    rw [cpe_dict_model.children, ends_without_item_append]
    rfl
  obtain ⟨k, hk⟩ := cpe_dict_model_parse_document codec dict.xml.nspace
    (cursor_attributes (xmlns_attributes dict.xmlns)) dict.children hcs hend
  refine ⟨k, fun fuel hfuel =>
    ⟨{ reader := { cur := none, rest := [] },
       errors := (dict.children.map root_child.errors).flatten },
     dict.children.foldl root_child.add
       { cpe_dict_model_new with
         xmlns := (cursor_attributes (xmlns_attributes dict.xmlns)).map
           (fun a => { lang := none, nspace := some a.1, URI := some a.2 }) }, ?_,
     cpe_dict_model_children_fold_fields dict _ rfl rfl rfl⟩⟩
  rw [render_dict_export codec dict document hxmlns hcs hdecl hdoc, hk fuel hfuel]

theorem cpe_dict_model_parse_undoes_export_witness :
    xmlns_canonical childless_entry_dict.xmlns = true
    ∧ childless_entry_dict.children.all (root_child.canonical sample_codec) = true
    ∧ root_declares childless_entry_dict.xml.nspace childless_entry_dict.xmlns
        childless_entry_dict.children = true
    ∧ (render (cpe_dict_export sample_codec childless_entry_dict)).isSome = true
    ∧ ∃ document, render (cpe_dict_export sample_codec childless_entry_dict) = some document
      ∧ ∃ k, ∀ fuel, k ≤ fuel →
        ∃ st ret, cpe_dict_model_parse sample_codec fuel (parser_state.start document)
            = .done (st, some ret)
          ∧ ret.generator = childless_entry_dict.generator
          ∧ ret.items = childless_entry_dict.items
          ∧ ret.vendors = childless_entry_dict.vendors :=
  ⟨by decide, by decide, by decide, by decide,
   cpe_dict_model_parse_undoes_export sample_codec childless_entry_dict (by decide) (by decide)
    (by decide) (by decide)⟩

/-! ## Lists changed at a position -/

theorem list_modify_get_at {α : Type} (f : α → α) (i j : Nat) (xs : List α) :
    (list_modify f i xs).get? j = if i = j then (xs.get? j).map f else xs.get? j := by
  induction xs generalizing i j with
  | nil => cases i <;> simp [list_modify]
  | cons x xs ih =>
    cases i with
    | zero =>
      cases j with
      | zero => simp [list_modify]
      | succ j => simp [list_modify]
    | succ i =>
      cases j with
      | zero => simp [list_modify]
      | succ j =>
        simp only [list_modify, List.get?_cons_succ, Nat.add_right_cancel_iff]
        exact ih i j

theorem list_modify_comm {α : Type} (f g : α → α) (i j : Nat) (xs : List α)
    (h : i = j → ∀ x, xs.get? i = some x → f (g x) = g (f x)) :
    list_modify f i (list_modify g j xs) = list_modify g j (list_modify f i xs) := by
  induction xs generalizing i j with
  | nil => cases i <;> cases j <;> rfl
  | cons x xs ih =>
    cases i with
    | zero =>
      cases j with
      | zero => simp [list_modify, h rfl x rfl]
      | succ j => simp [list_modify]
    | succ i =>
      cases j with
      | zero => simp [list_modify]
      | succ j =>
        simp only [list_modify, List.cons.injEq, true_and]
        exact ih i j (fun hij y hy => h (by rw [hij]) y (by simpa using hy))

theorem list_modify_append_lt {α : Type} (f : α → α) (i : Nat) (xs ys : List α)
    (h : i < xs.length) :
    list_modify f i (xs ++ ys) = list_modify f i xs ++ ys := by
  induction xs generalizing i with
  | nil => simp at h
  | cons x xs ih =>
    cases i with
    | zero => rfl
    | succ i =>
      simp only [List.cons_append, list_modify, List.cons.injEq, true_and]
      exact ih i (by simpa using h)

theorem count_at_get {α : Type} (m : α → Nat) (i : Nat) (xs : List α) (x : α)
    (h : xs.get? i = some x) : count_at m i xs = m x := by
  unfold count_at
  rw [h]

theorem count_at_none {α : Type} (m : α → Nat) (i : Nat) (xs : List α)
    (h : xs.get? i = none) : count_at m i xs = 0 := by
  unfold count_at
  rw [h]

theorem get_lt_length {α : Type} (xs : List α) (i : Nat) (x : α) (h : xs.get? i = some x) :
    i < xs.length := by
  rw [List.get?_eq_getElem?] at h
  by_contra hc
  rw [List.getElem?_eq_none (by omega)] at h
  simp at h

theorem get_append_some {α : Type} (xs ys : List α) (i : Nat) (x : α)
    (h : xs.get? i = some x) : (xs ++ ys).get? i = some x := by
  have hi := get_lt_length xs i x h
  rw [List.get?_eq_getElem?] at h ⊢
  rw [List.getElem?_append_left hi]
  exact h

theorem count_at_modify {α : Type} (m : α → Nat) (f : α → α) (i j : Nat) (xs : List α) :
    count_at m i (list_modify f j xs)
      = if j = i then count_at (fun x => m (f x)) i xs else count_at m i xs := by
  by_cases h : j = i
  · rw [if_pos h]
    cases hx : xs.get? i with
    | none =>
      rw [count_at_none _ _ _ hx, count_at_none _ _ _ (by rw [list_modify_get_at, if_pos h, hx]; rfl)]
    | some x =>
      rw [count_at_get _ _ _ x hx,
        count_at_get _ _ _ (f x) (by rw [list_modify_get_at, if_pos h, hx]; rfl)]
  · rw [if_neg h]
    unfold count_at
    rw [list_modify_get_at, if_neg h]

theorem count_at_congr {α : Type} (m m' : α → Nat) (i : Nat) (xs : List α)
    (h : ∀ x, xs.get? i = some x → m x = m' x) : count_at m i xs = count_at m' i xs := by
  cases hx : xs.get? i with
  | none => rw [count_at_none _ _ _ hx, count_at_none _ _ _ hx]
  | some x => rw [count_at_get _ _ _ x hx, count_at_get _ _ _ x hx]; exact h x hx

theorem count_at_mono {α : Type} (m m' : α → Nat) (i : Nat) (xs : List α)
    (h : ∀ x, xs.get? i = some x → m x ≤ m' x) : count_at m i xs ≤ count_at m' i xs := by
  cases hx : xs.get? i with
  | none => rw [count_at_none _ _ _ hx, count_at_none _ _ _ hx]
  | some x => rw [count_at_get _ _ _ x hx, count_at_get _ _ _ x hx]; exact h x hx

theorem count_at_pos {α : Type} (m : α → Nat) (i : Nat) (xs : List α)
    (h : 0 < count_at m i xs) : ∃ x, xs.get? i = some x ∧ 0 < m x := by
  cases hx : xs.get? i with
  | none => rw [count_at_none _ _ _ hx] at h; exact absurd h (Nat.lt_irrefl 0)
  | some x => rw [count_at_get _ _ _ x hx] at h; exact ⟨x, rfl, h⟩

theorem count_at_append_le {α : Type} (m : α → Nat) (i : Nat) (xs ys : List α) :
    count_at m i xs ≤ count_at m i (xs ++ ys) := by
  cases hx : xs.get? i with
  | none => rw [count_at_none _ _ _ hx]; exact Nat.zero_le _
  | some x =>
    rw [count_at_get _ _ _ x hx, count_at_get _ _ _ x (get_append_some xs ys i x hx)]

theorem count_at_append_length {α : Type} (m : α → Nat) (xs : List α) (x : α) :
    count_at m xs.length (xs ++ [x]) = m x :=
  count_at_get _ _ _ x (by simp)

/-! ## The counts of the vendor tree -/

theorem vendor_version_count_eq (ret : cpe_vendor) (i : Nat) :
    vendor_version_count ret i = count_at (fun p => p.versions.length) i ret.products := by
  unfold vendor_version_count count_at
  cases ret.products.get? i <;> rfl

theorem vendor_update_count_eq (ret : cpe_vendor) (i j : Nat) :
    vendor_update_count ret i j
      = count_at (fun p => count_at (fun v => v.updates.length) j p.versions) i
          ret.products := by
  cases hp : ret.products.get? i with
  | none =>
    rw [count_at_none _ _ _ hp]
    unfold vendor_update_count
    rw [hp]
    rfl
  | some p =>
    rw [count_at_get _ _ _ p hp]
    unfold vendor_update_count count_at
    rw [hp, Option.some_bind]
    cases p.versions.get? j <;> rfl

theorem vendor_edition_count_eq (ret : cpe_vendor) (i j k : Nat) :
    vendor_edition_count ret i j k
      = count_at (fun p => count_at (fun v => count_at (fun u => u.editions.length) k
          v.updates) j p.versions) i ret.products := by
  cases hp : ret.products.get? i with
  | none =>
    rw [count_at_none _ _ _ hp]
    unfold vendor_edition_count
    rw [hp]
    rfl
  | some p =>
    rw [count_at_get _ _ _ p hp]
    cases hv : p.versions.get? j with
    | none =>
      rw [count_at_none _ _ _ hv]
      unfold vendor_edition_count
      rw [hp, Option.some_bind, hv]
      rfl
    | some v =>
      rw [count_at_get _ _ _ v hv]
      unfold vendor_edition_count count_at
      rw [hp, Option.some_bind, hv, Option.some_bind]
      cases v.updates.get? k <;> rfl

/-! ## The counts of the vendor tree when a node is added -/

theorem count_at_modify_eq {α : Type} (m : α → Nat) (f : α → α) (i j : Nat) (xs : List α)
    (h : ∀ x, m (f x) = m x) : count_at m i (list_modify f j xs) = count_at m i xs := by
  rw [count_at_modify]
  split
  · exact count_at_congr _ _ _ _ (fun x _ => h x)
  · rfl

theorem count_at_modify_le {α : Type} (m : α → Nat) (f : α → α) (i j : Nat) (xs : List α)
    (h : ∀ x, m x ≤ m (f x)) : count_at m i xs ≤ count_at m i (list_modify f j xs) := by
  rw [count_at_modify]
  split
  · exact count_at_mono _ _ _ _ (fun x _ => h x)
  · exact Nat.le_refl _

theorem list_modify_get_self {α : Type} (f : α → α) (i : Nat) (xs : List α) (x : α)
    (h : xs.get? i = some x) : (list_modify f i xs).get? i = some (f x) := by
  rw [list_modify_get_at, if_pos rfl, h]
  rfl

theorem get_of_lt {α : Type} (xs : List α) (i : Nat) (h : i < xs.length) :
    ∃ x, xs.get? i = some x :=
  ⟨xs.get ⟨i, h⟩, List.get?_eq_get h⟩

theorem vendor_add_language_length (r : cpe_vendor) (i j k l : Nat) (x : cpe_language) :
    (vendor_add_language r i j k l x).products.length = r.products.length :=
  list_modify_length _ _ _

theorem vendor_add_edition_length (r : cpe_vendor) (i j k : Nat) (x : cpe_edition) :
    (vendor_add_edition r i j k x).products.length = r.products.length :=
  list_modify_length _ _ _

theorem vendor_add_update_length (r : cpe_vendor) (i j : Nat) (x : cpe_update) :
    (vendor_add_update r i j x).products.length = r.products.length :=
  list_modify_length _ _ _

theorem vendor_add_version_length (r : cpe_vendor) (i : Nat) (x : cpe_version) :
    (vendor_add_version r i x).products.length = r.products.length :=
  list_modify_length _ _ _

theorem vendor_version_count_add_language (r : cpe_vendor) (i j k l : Nat) (x : cpe_language)
    (a : Nat) :
    vendor_version_count (vendor_add_language r i j k l x) a = vendor_version_count r a := by
  rw [vendor_version_count_eq, vendor_version_count_eq]
  exact count_at_modify_eq _ _ _ _ _ (fun p => list_modify_length _ _ _)

theorem vendor_version_count_add_edition (r : cpe_vendor) (i j k : Nat) (x : cpe_edition)
    (a : Nat) :
    vendor_version_count (vendor_add_edition r i j k x) a = vendor_version_count r a := by
  rw [vendor_version_count_eq, vendor_version_count_eq]
  exact count_at_modify_eq _ _ _ _ _ (fun p => list_modify_length _ _ _)

theorem vendor_version_count_add_update (r : cpe_vendor) (i j : Nat) (x : cpe_update)
    (a : Nat) :
    vendor_version_count (vendor_add_update r i j x) a = vendor_version_count r a := by
  rw [vendor_version_count_eq, vendor_version_count_eq]
  exact count_at_modify_eq _ _ _ _ _ (fun p => list_modify_length _ _ _)

theorem vendor_update_count_add_language (r : cpe_vendor) (i j k l : Nat) (x : cpe_language)
    (a b : Nat) :
    vendor_update_count (vendor_add_language r i j k l x) a b = vendor_update_count r a b := by
  rw [vendor_update_count_eq, vendor_update_count_eq]
  exact count_at_modify_eq _ _ _ _ _
    (fun p => count_at_modify_eq _ _ _ _ _ (fun v => list_modify_length _ _ _))

theorem vendor_update_count_add_edition (r : cpe_vendor) (i j k : Nat) (x : cpe_edition)
    (a b : Nat) :
    vendor_update_count (vendor_add_edition r i j k x) a b = vendor_update_count r a b := by
  rw [vendor_update_count_eq, vendor_update_count_eq]
  exact count_at_modify_eq _ _ _ _ _
    (fun p => count_at_modify_eq _ _ _ _ _ (fun v => list_modify_length _ _ _))

theorem vendor_edition_count_add_language (r : cpe_vendor) (i j k l : Nat) (x : cpe_language)
    (a b c : Nat) :
    vendor_edition_count (vendor_add_language r i j k l x) a b c
      = vendor_edition_count r a b c := by
  rw [vendor_edition_count_eq, vendor_edition_count_eq]
  exact count_at_modify_eq _ _ _ _ _
    (fun p => count_at_modify_eq _ _ _ _ _
      (fun v => count_at_modify_eq _ _ _ _ _ (fun u => list_modify_length _ _ _)))

/-! ### A count does not go down -/

theorem vendor_edition_count_add_update (r : cpe_vendor) (i j : Nat) (x : cpe_update)
    (a b c : Nat) :
    vendor_edition_count r a b c ≤ vendor_edition_count (vendor_add_update r i j x) a b c := by
  rw [vendor_edition_count_eq, vendor_edition_count_eq]
  exact count_at_modify_le _ _ _ _ _
    (fun p => count_at_modify_le _ _ _ _ _ (fun v => count_at_append_le _ _ _ _))

theorem vendor_edition_count_add_version (r : cpe_vendor) (i : Nat) (x : cpe_version)
    (a b c : Nat) :
    vendor_edition_count r a b c ≤ vendor_edition_count (vendor_add_version r i x) a b c := by
  rw [vendor_edition_count_eq, vendor_edition_count_eq]
  exact count_at_modify_le _ _ _ _ _ (fun p => count_at_append_le _ _ _ _)

theorem vendor_edition_count_add_product (r : cpe_vendor) (x : cpe_product) (a b c : Nat) :
    vendor_edition_count r a b c
      ≤ vendor_edition_count { r with products := r.products ++ [x] } a b c := by
  rw [vendor_edition_count_eq, vendor_edition_count_eq]
  exact count_at_append_le _ _ _ _

theorem vendor_update_count_add_version (r : cpe_vendor) (i : Nat) (x : cpe_version)
    (a b : Nat) :
    vendor_update_count r a b ≤ vendor_update_count (vendor_add_version r i x) a b := by
  rw [vendor_update_count_eq, vendor_update_count_eq]
  exact count_at_modify_le _ _ _ _ _ (fun p => count_at_append_le _ _ _ _)

theorem vendor_update_count_add_product (r : cpe_vendor) (x : cpe_product) (a b : Nat) :
    vendor_update_count r a b
      ≤ vendor_update_count { r with products := r.products ++ [x] } a b := by
  rw [vendor_update_count_eq, vendor_update_count_eq]
  exact count_at_append_le _ _ _ _

theorem vendor_version_count_add_product (r : cpe_vendor) (x : cpe_product) (a : Nat) :
    vendor_version_count r a
      ≤ vendor_version_count { r with products := r.products ++ [x] } a := by
  rw [vendor_version_count_eq, vendor_version_count_eq]
  exact count_at_append_le _ _ _ _

/-! ### The nodes that a pointer goes through -/

theorem version_path (r : cpe_vendor) (i j : Nat) (h : j < vendor_version_count r i) :
    ∃ p, r.products.get? i = some p ∧ j < p.versions.length := by
  rw [vendor_version_count_eq] at h
  obtain ⟨p, hp, _⟩ := count_at_pos _ _ _ (Nat.lt_of_le_of_lt (Nat.zero_le j) h)
  rw [count_at_get _ _ _ p hp] at h
  exact ⟨p, hp, h⟩

theorem update_path (r : cpe_vendor) (i j k : Nat) (h : k < vendor_update_count r i j) :
    ∃ p v, r.products.get? i = some p ∧ p.versions.get? j = some v ∧ k < v.updates.length := by
  rw [vendor_update_count_eq] at h
  obtain ⟨p, hp, _⟩ := count_at_pos _ _ _ (Nat.lt_of_le_of_lt (Nat.zero_le k) h)
  rw [count_at_get _ _ _ p hp] at h
  obtain ⟨v, hv, _⟩ := count_at_pos _ _ _ (Nat.lt_of_le_of_lt (Nat.zero_le k) h)
  rw [count_at_get _ _ _ v hv] at h
  exact ⟨p, v, hp, hv, h⟩

theorem edition_path (r : cpe_vendor) (i j k l : Nat) (h : l < vendor_edition_count r i j k) :
    ∃ p v u, r.products.get? i = some p ∧ p.versions.get? j = some v
      ∧ v.updates.get? k = some u ∧ l < u.editions.length := by
  rw [vendor_edition_count_eq] at h
  obtain ⟨p, hp, _⟩ := count_at_pos _ _ _ (Nat.lt_of_le_of_lt (Nat.zero_le l) h)
  rw [count_at_get _ _ _ p hp] at h
  obtain ⟨v, hv, _⟩ := count_at_pos _ _ _ (Nat.lt_of_le_of_lt (Nat.zero_le l) h)
  rw [count_at_get _ _ _ v hv] at h
  obtain ⟨u, hu, _⟩ := count_at_pos _ _ _ (Nat.lt_of_le_of_lt (Nat.zero_le l) h)
  rw [count_at_get _ _ _ u hu] at h
  exact ⟨p, v, u, hp, hv, hu, h⟩

/-! ### The count at the node that gets a child -/

theorem vendor_version_count_add_version (r : cpe_vendor) (i : Nat) (x : cpe_version)
    (h : i < r.products.length) :
    vendor_version_count (vendor_add_version r i x) i = vendor_version_count r i + 1 := by
  obtain ⟨p, hp⟩ := get_of_lt _ _ h
  rw [vendor_version_count_eq, vendor_version_count_eq, count_at_get _ _ _ p hp]
  simp only [vendor_add_version]
  rw [count_at_get _ _ _ _ (list_modify_get_self _ _ _ p hp)]
  simp

theorem vendor_update_count_add_update (r : cpe_vendor) (i j : Nat) (x : cpe_update)
    (h : j < vendor_version_count r i) :
    vendor_update_count (vendor_add_update r i j x) i j = vendor_update_count r i j + 1 := by
  obtain ⟨p, hp, hj⟩ := version_path r i j h
  obtain ⟨v, hv⟩ := get_of_lt _ _ hj
  rw [vendor_update_count_eq, vendor_update_count_eq, count_at_get _ _ _ p hp,
    count_at_get _ _ _ v hv]
  simp only [vendor_add_update]
  rw [count_at_get _ _ _ _ (list_modify_get_self _ _ _ p hp)]
  simp only [product_add_update]
  rw [count_at_get _ _ _ _ (list_modify_get_self _ _ _ v hv)]
  simp

theorem vendor_edition_count_add_edition (r : cpe_vendor) (i j k : Nat) (x : cpe_edition)
    (h : k < vendor_update_count r i j) :
    vendor_edition_count (vendor_add_edition r i j k x) i j k
      = vendor_edition_count r i j k + 1 := by
  obtain ⟨p, v, hp, hv, hk⟩ := update_path r i j k h
  obtain ⟨u, hu⟩ := get_of_lt _ _ hk
  rw [vendor_edition_count_eq, vendor_edition_count_eq, count_at_get _ _ _ p hp,
    count_at_get _ _ _ v hv, count_at_get _ _ _ u hu]
  simp only [vendor_add_edition]
  rw [count_at_get _ _ _ _ (list_modify_get_self _ _ _ p hp)]
  simp only [product_add_edition]
  rw [count_at_get _ _ _ _ (list_modify_get_self _ _ _ v hv)]
  simp only [version_add_edition]
  rw [count_at_get _ _ _ _ (list_modify_get_self _ _ _ u hu)]
  simp

/-! ## A node added commutes with the nodes added under the pointers -/

theorem update_count_of_edition_count (r : cpe_vendor) (i j k l : Nat)
    (h : l < vendor_edition_count r i j k) : k < vendor_update_count r i j := by
  obtain ⟨p, v, u, hp, hv, hu, _⟩ := edition_path r i j k l h
  rw [vendor_update_count_eq, count_at_get _ _ _ p hp, count_at_get _ _ _ v hv]
  exact get_lt_length _ _ _ hu

theorem version_count_of_update_count (r : cpe_vendor) (i j k : Nat)
    (h : k < vendor_update_count r i j) : j < vendor_version_count r i := by
  obtain ⟨p, v, hp, hv, _⟩ := update_path r i j k h
  rw [vendor_version_count_eq, count_at_get _ _ _ p hp]
  exact get_lt_length _ _ _ hv

theorem length_of_version_count (r : cpe_vendor) (i j : Nat)
    (h : j < vendor_version_count r i) : i < r.products.length := by
  obtain ⟨p, hp, _⟩ := version_path r i j h
  exact get_lt_length _ _ _ hp

/-- A language added under an edition and an update added under a version:
the order does not matter, the edition being there. -/
theorem vendor_add_language_add_update (r : cpe_vendor) (i j k l : Nat) (x : cpe_language)
    (a b : Nat) (u : cpe_update) (h : k < vendor_update_count r i j) :
    vendor_add_language (vendor_add_update r a b u) i j k l x
      = vendor_add_update (vendor_add_language r i j k l x) a b u := by
  obtain ⟨p, v, hp, hv, hk⟩ := update_path r i j k h
  simp only [vendor_add_language, vendor_add_update]
  congr 1
  refine list_modify_comm _ _ _ _ _ (fun _ q hq => ?_)
  rw [hp] at hq
  obtain rfl := Option.some.inj hq
  simp only [product_add_language, product_add_update]
  congr 1
  refine list_modify_comm _ _ _ _ _ (fun _ w hw => ?_)
  rw [hv] at hw
  obtain rfl := Option.some.inj hw
  simp only [version_add_language]
  congr 1
  exact list_modify_append_lt _ _ _ _ hk

/-- A language added under an edition and a version added under a product. -/
theorem vendor_add_language_add_version (r : cpe_vendor) (i j k l : Nat) (x : cpe_language)
    (a : Nat) (w : cpe_version) (h : j < vendor_version_count r i) :
    vendor_add_language (vendor_add_version r a w) i j k l x
      = vendor_add_version (vendor_add_language r i j k l x) a w := by
  obtain ⟨p, hp, hj⟩ := version_path r i j h
  simp only [vendor_add_language, vendor_add_version]
  congr 1
  refine list_modify_comm _ _ _ _ _ (fun _ q hq => ?_)
  rw [hp] at hq
  obtain rfl := Option.some.inj hq
  simp only [product_add_language]
  congr 1
  exact list_modify_append_lt _ _ _ _ hj

/-- An edition added under an update and a version added under a product. -/
theorem vendor_add_edition_add_version (r : cpe_vendor) (i j k : Nat) (x : cpe_edition)
    (a : Nat) (w : cpe_version) (h : j < vendor_version_count r i) :
    vendor_add_edition (vendor_add_version r a w) i j k x
      = vendor_add_version (vendor_add_edition r i j k x) a w := by
  obtain ⟨p, hp, hj⟩ := version_path r i j h
  simp only [vendor_add_edition, vendor_add_version]
  congr 1
  refine list_modify_comm _ _ _ _ _ (fun _ q hq => ?_)
  rw [hp] at hq
  obtain rfl := Option.some.inj hq
  simp only [product_add_edition]
  congr 1
  exact list_modify_append_lt _ _ _ _ hj

theorem vendor_add_language_add_product (r : cpe_vendor) (i j k l : Nat) (x : cpe_language)
    (p : cpe_product) (h : i < r.products.length) :
    vendor_add_language { r with products := r.products ++ [p] } i j k l x
      = { vendor_add_language r i j k l x with
          products := (vendor_add_language r i j k l x).products ++ [p] } := by
  simp only [vendor_add_language]
  congr 1
  exact list_modify_append_lt _ _ _ _ h

theorem vendor_add_edition_add_product (r : cpe_vendor) (i j k : Nat) (x : cpe_edition)
    (p : cpe_product) (h : i < r.products.length) :
    vendor_add_edition { r with products := r.products ++ [p] } i j k x
      = { vendor_add_edition r i j k x with
          products := (vendor_add_edition r i j k x).products ++ [p] } := by
  simp only [vendor_add_edition]
  congr 1
  exact list_modify_append_lt _ _ _ _ h

theorem vendor_add_update_add_product (r : cpe_vendor) (i j : Nat) (x : cpe_update)
    (p : cpe_product) (h : i < r.products.length) :
    vendor_add_update { r with products := r.products ++ [p] } i j x
      = { vendor_add_update r i j x with
          products := (vendor_add_update r i j x).products ++ [p] } := by
  simp only [vendor_add_update]
  congr 1
  exact list_modify_append_lt _ _ _ _ h

/-! ### The counts under the nodes added under a pointer -/

theorem pending_languages_edition_count (ls : List cpe_language)
    (ptr : Option (Nat × Nat × Nat × Nat)) (a b c : Nat) :
    ∀ r : cpe_vendor, vendor_edition_count (pending_languages r ptr ls) a b c
      = vendor_edition_count r a b c := by
  rcases ptr with _ | ⟨i, j, k, l⟩
  · intro r; rfl
  · induction ls with
    | nil => intro r; rfl
    | cons x ls ih =>
      intro r
      simp only [pending_languages, List.foldl_cons] at ih ⊢
      rw [ih, vendor_edition_count_add_language]

theorem pending_languages_update_count (ls : List cpe_language)
    (ptr : Option (Nat × Nat × Nat × Nat)) (a b : Nat) :
    ∀ r : cpe_vendor, vendor_update_count (pending_languages r ptr ls) a b
      = vendor_update_count r a b := by
  rcases ptr with _ | ⟨i, j, k, l⟩
  · intro r; rfl
  · induction ls with
    | nil => intro r; rfl
    | cons x ls ih =>
      intro r
      simp only [pending_languages, List.foldl_cons] at ih ⊢
      rw [ih, vendor_update_count_add_language]

theorem pending_languages_version_count (ls : List cpe_language)
    (ptr : Option (Nat × Nat × Nat × Nat)) (a : Nat) :
    ∀ r : cpe_vendor, vendor_version_count (pending_languages r ptr ls) a
      = vendor_version_count r a := by
  rcases ptr with _ | ⟨i, j, k, l⟩
  · intro r; rfl
  · induction ls with
    | nil => intro r; rfl
    | cons x ls ih =>
      intro r
      simp only [pending_languages, List.foldl_cons] at ih ⊢
      rw [ih, vendor_version_count_add_language]

theorem pending_languages_length (ls : List cpe_language)
    (ptr : Option (Nat × Nat × Nat × Nat)) :
    ∀ r : cpe_vendor, (pending_languages r ptr ls).products.length = r.products.length := by
  rcases ptr with _ | ⟨i, j, k, l⟩
  · intro r; rfl
  · induction ls with
    | nil => intro r; rfl
    | cons x ls ih =>
      intro r
      simp only [pending_languages, List.foldl_cons] at ih ⊢
      rw [ih, vendor_add_language_length]

theorem pending_editions_update_count (es : List cpe_edition)
    (ptr : Option (Nat × Nat × Nat)) (a b : Nat) :
    ∀ r : cpe_vendor, vendor_update_count (pending_editions r ptr es) a b
      = vendor_update_count r a b := by
  rcases ptr with _ | ⟨i, j, k⟩
  · intro r; rfl
  · induction es with
    | nil => intro r; rfl
    | cons x es ih =>
      intro r
      simp only [pending_editions, List.foldl_cons] at ih ⊢
      rw [ih, vendor_update_count_add_edition]

theorem pending_editions_version_count (es : List cpe_edition)
    (ptr : Option (Nat × Nat × Nat)) (a : Nat) :
    ∀ r : cpe_vendor, vendor_version_count (pending_editions r ptr es) a
      = vendor_version_count r a := by
  rcases ptr with _ | ⟨i, j, k⟩
  · intro r; rfl
  · induction es with
    | nil => intro r; rfl
    | cons x es ih =>
      intro r
      simp only [pending_editions, List.foldl_cons] at ih ⊢
      rw [ih, vendor_version_count_add_edition]

theorem pending_editions_length (es : List cpe_edition) (ptr : Option (Nat × Nat × Nat)) :
    ∀ r : cpe_vendor, (pending_editions r ptr es).products.length = r.products.length := by
  rcases ptr with _ | ⟨i, j, k⟩
  · intro r; rfl
  · induction es with
    | nil => intro r; rfl
    | cons x es ih =>
      intro r
      simp only [pending_editions, List.foldl_cons] at ih ⊢
      rw [ih, vendor_add_edition_length]

theorem pending_updates_version_count (us : List cpe_update) (ptr : Option (Nat × Nat))
    (a : Nat) :
    ∀ r : cpe_vendor, vendor_version_count (pending_updates r ptr us) a
      = vendor_version_count r a := by
  rcases ptr with _ | ⟨i, j⟩
  · intro r; rfl
  · induction us with
    | nil => intro r; rfl
    | cons x us ih =>
      intro r
      simp only [pending_updates, List.foldl_cons] at ih ⊢
      rw [ih, vendor_version_count_add_update]

theorem pending_updates_length (us : List cpe_update) (ptr : Option (Nat × Nat)) :
    ∀ r : cpe_vendor, (pending_updates r ptr us).products.length = r.products.length := by
  rcases ptr with _ | ⟨i, j⟩
  · intro r; rfl
  · induction us with
    | nil => intro r; rfl
    | cons x us ih =>
      intro r
      simp only [pending_updates, List.foldl_cons] at ih ⊢
      rw [ih, vendor_add_update_length]

/-! ### A node added commutes with the nodes added under a pointer -/

theorem pending_languages_add_update (ls : List cpe_language)
    (ptr : Option (Nat × Nat × Nat × Nat)) (a b : Nat) (u : cpe_update) :
    ∀ r : cpe_vendor,
      (∀ i j k l, ptr = some (i, j, k, l) → l < vendor_edition_count r i j k) →
      pending_languages (vendor_add_update r a b u) ptr ls
        = vendor_add_update (pending_languages r ptr ls) a b u := by
  rcases ptr with _ | ⟨i, j, k, l⟩
  · intro r _; rfl
  · induction ls with
    | nil => intro r _; rfl
    | cons x ls ih =>
      intro r h
      have hl := h i j k l rfl
      simp only [pending_languages, List.foldl_cons] at ih ⊢
      rw [vendor_add_language_add_update r i j k l x a b u
        (update_count_of_edition_count r i j k l hl)]
      exact ih _ (fun i' j' k' l' hp => by
        rw [vendor_edition_count_add_language]; exact h i' j' k' l' hp)

theorem pending_languages_add_version (ls : List cpe_language)
    (ptr : Option (Nat × Nat × Nat × Nat)) (a : Nat) (w : cpe_version) :
    ∀ r : cpe_vendor,
      (∀ i j k l, ptr = some (i, j, k, l) → l < vendor_edition_count r i j k) →
      pending_languages (vendor_add_version r a w) ptr ls
        = vendor_add_version (pending_languages r ptr ls) a w := by
  rcases ptr with _ | ⟨i, j, k, l⟩
  · intro r _; rfl
  · induction ls with
    | nil => intro r _; rfl
    | cons x ls ih =>
      intro r h
      have hl := h i j k l rfl
      simp only [pending_languages, List.foldl_cons] at ih ⊢
      rw [vendor_add_language_add_version r i j k l x a w
        (version_count_of_update_count r i j k (update_count_of_edition_count r i j k l hl))]
      exact ih _ (fun i' j' k' l' hp => by
        rw [vendor_edition_count_add_language]; exact h i' j' k' l' hp)

theorem pending_editions_add_version (es : List cpe_edition)
    (ptr : Option (Nat × Nat × Nat)) (a : Nat) (w : cpe_version) :
    ∀ r : cpe_vendor,
      (∀ i j k, ptr = some (i, j, k) → k < vendor_update_count r i j) →
      pending_editions (vendor_add_version r a w) ptr es
        = vendor_add_version (pending_editions r ptr es) a w := by
  rcases ptr with _ | ⟨i, j, k⟩
  · intro r _; rfl
  · induction es with
    | nil => intro r _; rfl
    | cons x es ih =>
      intro r h
      have hk := h i j k rfl
      simp only [pending_editions, List.foldl_cons] at ih ⊢
      rw [vendor_add_edition_add_version r i j k x a w
        (version_count_of_update_count r i j k hk)]
      exact ih _ (fun i' j' k' hp => by
        rw [vendor_update_count_add_edition]; exact h i' j' k' hp)

theorem pending_languages_add_product (ls : List cpe_language)
    (ptr : Option (Nat × Nat × Nat × Nat)) (p : cpe_product) :
    ∀ r : cpe_vendor,
      (∀ i j k l, ptr = some (i, j, k, l) → l < vendor_edition_count r i j k) →
      pending_languages { r with products := r.products ++ [p] } ptr ls
        = { pending_languages r ptr ls with
            products := (pending_languages r ptr ls).products ++ [p] } := by
  rcases ptr with _ | ⟨i, j, k, l⟩
  · intro r _; rfl
  · induction ls with
    | nil => intro r _; rfl
    | cons x ls ih =>
      intro r h
      have hl := h i j k l rfl
      simp only [pending_languages, List.foldl_cons] at ih ⊢
      rw [vendor_add_language_add_product r i j k l x p
        (length_of_version_count r i j (version_count_of_update_count r i j k
          (update_count_of_edition_count r i j k l hl)))]
      exact ih _ (fun i' j' k' l' hp => by
        rw [vendor_edition_count_add_language]; exact h i' j' k' l' hp)

theorem pending_editions_add_product (es : List cpe_edition)
    (ptr : Option (Nat × Nat × Nat)) (p : cpe_product) :
    ∀ r : cpe_vendor,
      (∀ i j k, ptr = some (i, j, k) → k < vendor_update_count r i j) →
      pending_editions { r with products := r.products ++ [p] } ptr es
        = { pending_editions r ptr es with
            products := (pending_editions r ptr es).products ++ [p] } := by
  rcases ptr with _ | ⟨i, j, k⟩
  · intro r _; rfl
  · induction es with
    | nil => intro r _; rfl
    | cons x es ih =>
      intro r h
      have hk := h i j k rfl
      simp only [pending_editions, List.foldl_cons] at ih ⊢
      rw [vendor_add_edition_add_product r i j k x p
        (length_of_version_count r i j (version_count_of_update_count r i j k hk))]
      exact ih _ (fun i' j' k' hp => by
        rw [vendor_update_count_add_edition]; exact h i' j' k' hp)

theorem pending_updates_add_product (us : List cpe_update) (ptr : Option (Nat × Nat))
    (p : cpe_product) :
    ∀ r : cpe_vendor,
      (∀ i j, ptr = some (i, j) → j < vendor_version_count r i) →
      pending_updates { r with products := r.products ++ [p] } ptr us
        = { pending_updates r ptr us with
            products := (pending_updates r ptr us).products ++ [p] } := by
  rcases ptr with _ | ⟨i, j⟩
  · intro r _; rfl
  · induction us with
    | nil => intro r _; rfl
    | cons x us ih =>
      intro r h
      have hj := h i j rfl
      simp only [pending_updates, List.foldl_cons] at ih ⊢
      rw [vendor_add_update_add_product r i j x p (length_of_version_count r i j hj)]
      exact ih _ (fun i' j' hp => by
        rw [vendor_version_count_add_update]; exact h i' j' hp)

/-! ## One pass of the loop of `cpe_vendor_parse` on a start tag of the tree -/

theorem starts_iff (n : xmlNode) (name : String) :
    n.starts name = true ↔ n.type = XML_READER_TYPE_ELEMENT ∧ n.localName = name := by
  simp [xmlNode.starts]

theorem starts_unique (n : xmlNode) (a b : String) (h : n.starts a = true) (hab : a ≠ b) :
    n.starts b = false := by
  rw [starts_iff] at h
  simp only [xmlNode.starts, Bool.and_eq_false_iff, decide_eq_false_iff_not]
  right
  rw [h.2]
  exact hab

theorem local_name_cur (n : xmlNode) (xs : List xmlNode) :
    xmlTextReaderConstLocalName { cur := some n, rest := xs } = some n.localName := rfl

theorem cpe_vendor_parse_body_starts_language (n : xmlNode) (xs : List xmlNode)
    (loc : vendor_locals) (i j k l : Nat) (h : n.starts TAG_LANGUAGE_STR = true)
    (hloc : loc.edition = some (i, j, k, l)) :
    cpe_vendor_parse_body { cur := some n, rest := xs } loc
      = .next_node { loc with ret := vendor_add_language loc.ret i j k l (language_of n) } := by
  obtain ⟨htype, hname⟩ := (starts_iff n _).mp h
  have h1 : xmlStrcmp (some TAG_LANGUAGE_STR) TAG_TITLE_STR = true := by decide
  have h2 : xmlStrcmp (some TAG_LANGUAGE_STR) TAG_PRODUCT_STR = true := by decide
  have h3 : xmlStrcmp (some TAG_LANGUAGE_STR) TAG_VERSION_STR = true := by decide
  have h4 : xmlStrcmp (some TAG_LANGUAGE_STR) TAG_UPDATE_STR = true := by decide
  have h5 : xmlStrcmp (some TAG_LANGUAGE_STR) TAG_EDITION_STR = true := by decide
  have h6 : xmlStrcmp (some TAG_LANGUAGE_STR) TAG_LANGUAGE_STR = false := by decide
  unfold cpe_vendor_parse_body
  simp only [local_name_cur, hname, hloc]
  simp [xmlTextReaderNodeType, htype, h1, h2, h3, h4, h5, h6, xmlTextReaderConstXmlLang,
    xmlTextReaderPrefix, xmlTextReaderGetAttribute, cpe_language_new, language_of]

theorem cpe_vendor_parse_body_starts_edition (n : xmlNode) (xs : List xmlNode)
    (loc : vendor_locals) (i j k : Nat) (h : n.starts TAG_EDITION_STR = true)
    (hloc : loc.update = some (i, j, k)) :
    cpe_vendor_parse_body { cur := some n, rest := xs } loc
      = .next_node { loc with
          ret := vendor_add_edition loc.ret i j k (edition_of n []),
          edition := some (i, j, k, vendor_edition_count loc.ret i j k) } := by
  obtain ⟨htype, hname⟩ := (starts_iff n _).mp h
  have h1 : xmlStrcmp (some TAG_EDITION_STR) TAG_TITLE_STR = true := by decide
  have h2 : xmlStrcmp (some TAG_EDITION_STR) TAG_PRODUCT_STR = true := by decide
  have h3 : xmlStrcmp (some TAG_EDITION_STR) TAG_VERSION_STR = true := by decide
  have h4 : xmlStrcmp (some TAG_EDITION_STR) TAG_UPDATE_STR = true := by decide
  have h5 : xmlStrcmp (some TAG_EDITION_STR) TAG_EDITION_STR = false := by decide
  unfold cpe_vendor_parse_body
  simp only [local_name_cur, hname, hloc]
  simp [xmlTextReaderNodeType, htype, h1, h2, h3, h4, h5, xmlTextReaderConstXmlLang,
    xmlTextReaderPrefix, xmlTextReaderGetAttribute, cpe_edition_new, edition_of]

theorem cpe_vendor_parse_body_starts_update (n : xmlNode) (xs : List xmlNode)
    (loc : vendor_locals) (i j : Nat) (h : n.starts TAG_UPDATE_STR = true)
    (hloc : loc.version = some (i, j)) :
    cpe_vendor_parse_body { cur := some n, rest := xs } loc
      = .next_node { loc with
          ret := vendor_add_update loc.ret i j (update_of n []),
          update := some (i, j, vendor_update_count loc.ret i j) } := by
  obtain ⟨htype, hname⟩ := (starts_iff n _).mp h
  have h1 : xmlStrcmp (some TAG_UPDATE_STR) TAG_TITLE_STR = true := by decide
  have h2 : xmlStrcmp (some TAG_UPDATE_STR) TAG_PRODUCT_STR = true := by decide
  have h3 : xmlStrcmp (some TAG_UPDATE_STR) TAG_VERSION_STR = true := by decide
  have h4 : xmlStrcmp (some TAG_UPDATE_STR) TAG_UPDATE_STR = false := by decide
  unfold cpe_vendor_parse_body
  simp only [local_name_cur, hname, hloc]
  simp [xmlTextReaderNodeType, htype, h1, h2, h3, h4, xmlTextReaderConstXmlLang,
    xmlTextReaderPrefix, xmlTextReaderGetAttribute, cpe_update_new, update_of]

theorem cpe_vendor_parse_body_starts_version (n : xmlNode) (xs : List xmlNode)
    (loc : vendor_locals) (i : Nat) (h : n.starts TAG_VERSION_STR = true)
    (hloc : loc.product = some i) :
    cpe_vendor_parse_body { cur := some n, rest := xs } loc
      = .next_node { loc with
          ret := vendor_add_version loc.ret i (version_of n []),
          version := some (i, vendor_version_count loc.ret i) } := by
  obtain ⟨htype, hname⟩ := (starts_iff n _).mp h
  have h1 : xmlStrcmp (some TAG_VERSION_STR) TAG_TITLE_STR = true := by decide
  have h2 : xmlStrcmp (some TAG_VERSION_STR) TAG_PRODUCT_STR = true := by decide
  have h3 : xmlStrcmp (some TAG_VERSION_STR) TAG_VERSION_STR = false := by decide
  unfold cpe_vendor_parse_body
  simp only [local_name_cur, hname, hloc]
  simp [xmlTextReaderNodeType, htype, h1, h2, h3, xmlTextReaderConstXmlLang,
    xmlTextReaderPrefix, xmlTextReaderGetAttribute, cpe_version_new, version_of]

theorem cpe_vendor_parse_body_starts_product (n : xmlNode) (xs : List xmlNode)
    (loc : vendor_locals) (h : n.starts TAG_PRODUCT_STR = true) (hok : product_ok n = true) :
    cpe_vendor_parse_body { cur := some n, rest := xs } loc
      = .next_node { loc with
          ret := { loc.ret with products := loc.ret.products ++ [product_of n []] },
          product := some loc.ret.products.length } := by
  obtain ⟨htype, hname⟩ := (starts_iff n _).mp h
  have hpart : ∃ part, cpe_product_parse_part (n.attribute ATTR_PART_STR) = some part := by
    simp only [product_ok, htype, hname, bne_self_eq_false, Bool.false_or] at hok
    exact Option.isSome_iff_exists.mp hok
  obtain ⟨part, hpart⟩ := hpart
  have h1 : xmlStrcmp (some TAG_PRODUCT_STR) TAG_TITLE_STR = true := by decide
  have h2 : xmlStrcmp (some TAG_PRODUCT_STR) TAG_PRODUCT_STR = false := by decide
  have ha : xmlTextReaderGetAttribute { cur := some n, rest := xs } ATTR_PART_STR
      = n.attribute ATTR_PART_STR := rfl
  unfold cpe_vendor_parse_body
  simp only [local_name_cur, hname, ha, hpart]
  simp [xmlTextReaderNodeType, htype, h1, h2, xmlTextReaderConstXmlLang,
    xmlTextReaderPrefix, xmlTextReaderGetAttribute, cpe_product_new, product_of, hpart]

/-- A node that is no start tag of the tree: one pass of the loop changes at
most the titles of the vendor. -/
theorem cpe_vendor_parse_body_neutral (n : xmlNode) (xs : List xmlNode) (loc : vendor_locals)
    (hp : n.starts TAG_PRODUCT_STR = false) (hv : n.starts TAG_VERSION_STR = false)
    (hu : n.starts TAG_UPDATE_STR = false) (he : n.starts TAG_EDITION_STR = false)
    (hl : n.starts TAG_LANGUAGE_STR = false) :
    ∃ titles, cpe_vendor_parse_body { cur := some n, rest := xs } loc
      = .next_node { loc with ret := { loc.ret with titles := titles } } := by
  unfold cpe_vendor_parse_body
  simp only [local_name_cur, xmlTextReaderNodeType]
  by_cases htype : n.type = XML_READER_TYPE_ELEMENT
  · simp only [xmlNode.starts, htype, decide_True, Bool.true_and, decide_eq_false_iff_not]
      at hp hv hu he hl
    simp only [htype, ne_eq, not_true_eq_false, ↓reduceIte, xmlStrcmp, Option.some.injEq,
      hp, hv, hu, he, hl, not_false_eq_true, decide_True, Bool.not_true, Bool.false_eq_true]
    by_cases ht : n.localName = TAG_TITLE_STR
    · simp only [ht, not_true_eq_false, decide_False, Bool.not_false, ↓reduceIte]
      cases oscap_title_parse { cur := some n, rest := xs } TAG_TITLE_STR with
      | none => exact ⟨loc.ret.titles, rfl⟩
      | some t => exact ⟨loc.ret.titles ++ [t], rfl⟩
    · simp only [ht, not_false_eq_true, decide_True, Bool.not_true, Bool.false_eq_true,
        ↓reduceIte]
      exact ⟨loc.ret.titles, rfl⟩
  · simp only [ne_eq, htype, not_false_eq_true, ↓reduceIte]
    exact ⟨loc.ret.titles, rfl⟩

/-! ## The nodes attached when a node is passed -/

theorem pending_languages_nil (r : cpe_vendor) (ptr : Option (Nat × Nat × Nat × Nat)) :
    pending_languages r ptr [] = r := by
  rcases ptr with _ | ⟨i, j, k, l⟩ <;> rfl

theorem pending_editions_nil (r : cpe_vendor) (ptr : Option (Nat × Nat × Nat)) :
    pending_editions r ptr [] = r := by
  rcases ptr with _ | ⟨i, j, k⟩ <;> rfl

theorem pending_updates_nil (r : cpe_vendor) (ptr : Option (Nat × Nat)) :
    pending_updates r ptr [] = r := by
  rcases ptr with _ | ⟨i, j⟩ <;> rfl

theorem pending_versions_nil (r : cpe_vendor) (ptr : Option Nat) :
    pending_versions r ptr [] = r := by
  rcases ptr with _ | i <;> rfl

theorem pending_languages_titles (ls : List cpe_language)
    (ptr : Option (Nat × Nat × Nat × Nat)) (titles : List oscap_title) :
    ∀ r : cpe_vendor, pending_languages { r with titles := titles } ptr ls
      = { pending_languages r ptr ls with titles := titles } := by
  rcases ptr with _ | ⟨i, j, k, l⟩
  · intro r; rfl
  · induction ls with
    | nil => intro r; rfl
    | cons x ls ih =>
      intro r
      simp only [pending_languages, List.foldl_cons] at ih ⊢
      exact ih (vendor_add_language r i j k l x)

theorem pending_editions_titles (es : List cpe_edition)
    (ptr : Option (Nat × Nat × Nat)) (titles : List oscap_title) :
    ∀ r : cpe_vendor, pending_editions { r with titles := titles } ptr es
      = { pending_editions r ptr es with titles := titles } := by
  rcases ptr with _ | ⟨i, j, k⟩
  · intro r; rfl
  · induction es with
    | nil => intro r; rfl
    | cons x es ih =>
      intro r
      simp only [pending_editions, List.foldl_cons] at ih ⊢
      exact ih (vendor_add_edition r i j k x)

theorem pending_updates_titles (us : List cpe_update)
    (ptr : Option (Nat × Nat)) (titles : List oscap_title) :
    ∀ r : cpe_vendor, pending_updates { r with titles := titles } ptr us
      = { pending_updates r ptr us with titles := titles } := by
  rcases ptr with _ | ⟨i, j⟩
  · intro r; rfl
  · induction us with
    | nil => intro r; rfl
    | cons x us ih =>
      intro r
      simp only [pending_updates, List.foldl_cons] at ih ⊢
      exact ih (vendor_add_update r i j x)

theorem pending_versions_titles (vs : List cpe_version)
    (ptr : Option Nat) (titles : List oscap_title) :
    ∀ r : cpe_vendor, pending_versions { r with titles := titles } ptr vs
      = { pending_versions r ptr vs with titles := titles } := by
  rcases ptr with _ | i
  · intro r; rfl
  · induction vs with
    | nil => intro r; rfl
    | cons x vs ih =>
      intro r
      simp only [pending_versions, List.foldl_cons] at ih ⊢
      exact ih (vendor_add_version r i x)

/-- A node that is no start tag of the tree leaves the products to come as
they are. -/
theorem pending_step_neutral (loc : vendor_locals) (n : xmlNode) (rest : List xmlNode)
    (titles : List oscap_title)
    (hp : n.starts TAG_PRODUCT_STR = false) (hv : n.starts TAG_VERSION_STR = false)
    (hu : n.starts TAG_UPDATE_STR = false) (he : n.starts TAG_EDITION_STR = false)
    (hl : n.starts TAG_LANGUAGE_STR = false) :
    (({ loc with ret := { loc.ret with titles := titles } } : vendor_locals).pending
        rest).products
      = (loc.pending (n :: rest)).products := by
  simp only [vendor_locals.pending, attached_languages, attached_editions, attached_updates,
    attached_versions, attached_products, hp, hv, hu, he, hl, Bool.false_eq_true, ↓reduceIte,
    pending_languages_titles, pending_editions_titles, pending_updates_titles,
    pending_versions_titles]

theorem pending_step_language (loc : vendor_locals) (n : xmlNode) (rest : List xmlNode)
    (i j k l : Nat) (h : n.starts TAG_LANGUAGE_STR = true)
    (hloc : loc.edition = some (i, j, k, l)) :
    ({ loc with ret := vendor_add_language loc.ret i j k l (language_of n) }
        : vendor_locals).pending rest
      = loc.pending (n :: rest) := by
  have hp := starts_unique n _ TAG_PRODUCT_STR h (by decide)
  have hv := starts_unique n _ TAG_VERSION_STR h (by decide)
  have hu := starts_unique n _ TAG_UPDATE_STR h (by decide)
  have he := starts_unique n _ TAG_EDITION_STR h (by decide)
  simp only [vendor_locals.pending, attached_languages, attached_editions, attached_updates,
    attached_versions, attached_products, hp, hv, hu, he, h, Bool.false_eq_true, ↓reduceIte,
    hloc, pending_languages, List.foldl_cons]

theorem pending_step_edition (loc : vendor_locals) (n : xmlNode) (rest : List xmlNode)
    (i j k : Nat) (h : n.starts TAG_EDITION_STR = true)
    (hloc : loc.update = some (i, j, k)) :
    ({ loc with
        ret := vendor_add_edition loc.ret i j k (edition_of n []),
        edition := some (i, j, k, vendor_edition_count loc.ret i j k) }
        : vendor_locals).pending rest
      = loc.pending (n :: rest) := by
  have hp := starts_unique n _ TAG_PRODUCT_STR h (by decide)
  have hv := starts_unique n _ TAG_VERSION_STR h (by decide)
  have hu := starts_unique n _ TAG_UPDATE_STR h (by decide)
  have hlist := vendor_add_language_list loc.ret i j k (edition_of n [])
    (attached_languages rest)
  simp only [vendor_locals.pending, attached_languages, attached_editions, attached_updates,
    attached_versions, attached_products, hp, hv, hu, h, Bool.false_eq_true, ↓reduceIte,
    hloc, pending_languages_nil]
  simp only [pending_languages, hlist, pending_editions, List.foldl_cons]
  rfl

theorem pending_step_update (loc : vendor_locals) (n : xmlNode) (rest : List xmlNode)
    (i j : Nat) (h : n.starts TAG_UPDATE_STR = true) (hloc : loc.version = some (i, j))
    (hvalid : loc.valid) :
    ({ loc with
        ret := vendor_add_update loc.ret i j (update_of n []),
        update := some (i, j, vendor_update_count loc.ret i j) }
        : vendor_locals).pending rest
      = loc.pending (n :: rest) := by
  have hp := starts_unique n _ TAG_PRODUCT_STR h (by decide)
  have hv := starts_unique n _ TAG_VERSION_STR h (by decide)
  have he := starts_unique n _ TAG_EDITION_STR h (by decide)
  have hl := starts_unique n _ TAG_LANGUAGE_STR h (by decide)
  have hcomm := pending_languages_add_update (attached_languages rest) loc.edition i j
    (update_of n []) loc.ret hvalid.2.2.2
  have hcount := pending_languages_update_count (attached_languages rest) loc.edition i j
    loc.ret
  have hlist := vendor_add_edition_list
    (pending_languages loc.ret loc.edition (attached_languages rest)) i j (update_of n [])
    (attached_editions rest)
  rw [hcount] at hlist
  simp only [vendor_locals.pending, attached_languages, attached_editions, attached_updates,
    attached_versions, attached_products, hp, hv, he, hl, h, Bool.false_eq_true, ↓reduceIte,
    hloc, pending_editions_nil, hcomm]
  simp only [pending_editions, hlist, pending_updates, List.foldl_cons]
  rfl

theorem pending_step_version (loc : vendor_locals) (n : xmlNode) (rest : List xmlNode)
    (i : Nat) (h : n.starts TAG_VERSION_STR = true) (hloc : loc.product = some i)
    (hvalid : loc.valid) :
    ({ loc with
        ret := vendor_add_version loc.ret i (version_of n []),
        version := some (i, vendor_version_count loc.ret i) }
        : vendor_locals).pending rest
      = loc.pending (n :: rest) := by
  have hp := starts_unique n _ TAG_PRODUCT_STR h (by decide)
  have hu := starts_unique n _ TAG_UPDATE_STR h (by decide)
  have he := starts_unique n _ TAG_EDITION_STR h (by decide)
  have hl := starts_unique n _ TAG_LANGUAGE_STR h (by decide)
  have hcomm1 := pending_languages_add_version (attached_languages rest) loc.edition i
    (version_of n []) loc.ret hvalid.2.2.2
  have hcomm2 := pending_editions_add_version (attached_editions rest) loc.update i
    (version_of n []) (pending_languages loc.ret loc.edition (attached_languages rest))
    (fun a b c hc => by
      rw [pending_languages_update_count]; exact hvalid.2.2.1 a b c hc)
  have hcount : vendor_version_count
      (pending_editions (pending_languages loc.ret loc.edition (attached_languages rest))
        loc.update (attached_editions rest)) i = vendor_version_count loc.ret i := by
    rw [pending_editions_version_count, pending_languages_version_count]
  have hlist := vendor_add_update_list
    (pending_editions (pending_languages loc.ret loc.edition (attached_languages rest))
      loc.update (attached_editions rest)) i (version_of n []) (attached_updates rest)
  rw [hcount] at hlist
  simp only [vendor_locals.pending, attached_languages, attached_editions, attached_updates,
    attached_versions, attached_products, hp, hu, he, hl, h, Bool.false_eq_true, ↓reduceIte,
    hloc, pending_updates_nil, hcomm1, hcomm2]
  simp only [pending_updates, hlist, pending_versions, List.foldl_cons]
  rfl

theorem pending_step_product (loc : vendor_locals) (n : xmlNode) (rest : List xmlNode)
    (h : n.starts TAG_PRODUCT_STR = true) (hvalid : loc.valid) :
    ({ loc with
        ret := { loc.ret with products := loc.ret.products ++ [product_of n []] },
        product := some loc.ret.products.length }
        : vendor_locals).pending rest
      = loc.pending (n :: rest) := by
  have hv := starts_unique n _ TAG_VERSION_STR h (by decide)
  have hu := starts_unique n _ TAG_UPDATE_STR h (by decide)
  have he := starts_unique n _ TAG_EDITION_STR h (by decide)
  have hl := starts_unique n _ TAG_LANGUAGE_STR h (by decide)
  have hcomm1 := pending_languages_add_product (attached_languages rest) loc.edition
    (product_of n []) loc.ret hvalid.2.2.2
  have hcomm2 := pending_editions_add_product (attached_editions rest) loc.update
    (product_of n []) (pending_languages loc.ret loc.edition (attached_languages rest))
    (fun a b c hc => by
      rw [pending_languages_update_count]; exact hvalid.2.2.1 a b c hc)
  have hcomm3 := pending_updates_add_product (attached_updates rest) loc.version
    (product_of n [])
    (pending_editions (pending_languages loc.ret loc.edition (attached_languages rest))
      loc.update (attached_editions rest))
    (fun a b hc => by
      rw [pending_editions_version_count, pending_languages_version_count]
      exact hvalid.2.1 a b hc)
  have hlen : (pending_updates
      (pending_editions (pending_languages loc.ret loc.edition (attached_languages rest))
        loc.update (attached_editions rest)) loc.version (attached_updates rest)).products.length
      = loc.ret.products.length := by
    rw [pending_updates_length, pending_editions_length, pending_languages_length]
  have hlist := vendor_add_version_list
    (pending_updates
      (pending_editions (pending_languages loc.ret loc.edition (attached_languages rest))
        loc.update (attached_editions rest)) loc.version (attached_updates rest))
    (product_of n []) (attached_versions rest)
  rw [hlen] at hlist
  simp only [vendor_locals.pending, attached_languages, attached_editions, attached_updates,
    attached_versions, attached_products, hv, hu, he, hl, h, Bool.false_eq_true, ↓reduceIte,
    pending_versions_nil, hcomm1, hcomm2, hcomm3]
  simp only [pending_versions, hlist, List.append_assoc, List.singleton_append]
  rfl

/-! ## The pointers stay on nodes of the tree -/

theorem valid_step_neutral (loc : vendor_locals) (titles : List oscap_title)
    (h : loc.valid) :
    ({ loc with ret := { loc.ret with titles := titles } } : vendor_locals).valid := h

theorem valid_step_language (loc : vendor_locals) (i j k l : Nat) (x : cpe_language)
    (h : loc.valid) :
    ({ loc with ret := vendor_add_language loc.ret i j k l x } : vendor_locals).valid := by
  obtain ⟨hp, hv, hu, he⟩ := h
  refine ⟨fun a ha => ?_, fun a b hab => ?_, fun a b c habc => ?_, fun a b c d habcd => ?_⟩
  · simp only [vendor_add_language_length]
    exact hp a ha
  · simp only [vendor_version_count_add_language]
    exact hv a b hab
  · simp only [vendor_update_count_add_language]
    exact hu a b c habc
  · simp only [vendor_edition_count_add_language]
    exact he a b c d habcd

theorem valid_step_edition (loc : vendor_locals) (i j k : Nat) (x : cpe_edition)
    (hloc : loc.update = some (i, j, k)) (h : loc.valid) :
    ({ loc with
        ret := vendor_add_edition loc.ret i j k x,
        edition := some (i, j, k, vendor_edition_count loc.ret i j k) }
        : vendor_locals).valid := by
  obtain ⟨hp, hv, hu, he⟩ := h
  refine ⟨fun a ha => ?_, fun a b hab => ?_, fun a b c habc => ?_, fun a b c d habcd => ?_⟩
  · simp only [vendor_add_edition_length]
    exact hp a ha
  · simp only [vendor_version_count_add_edition]
    exact hv a b hab
  · simp only [vendor_update_count_add_edition]
    exact hu a b c habc
  · simp only [Option.some.injEq, Prod.mk.injEq] at habcd
    obtain ⟨rfl, rfl, rfl, rfl⟩ := habcd
    simp only [vendor_edition_count_add_edition loc.ret i j k x (hu i j k hloc)]
    exact Nat.lt_succ_self _

theorem valid_step_update (loc : vendor_locals) (i j : Nat) (x : cpe_update)
    (hloc : loc.version = some (i, j)) (h : loc.valid) :
    ({ loc with
        ret := vendor_add_update loc.ret i j x,
        update := some (i, j, vendor_update_count loc.ret i j) }
        : vendor_locals).valid := by
  obtain ⟨hp, hv, hu, he⟩ := h
  refine ⟨fun a ha => ?_, fun a b hab => ?_, fun a b c habc => ?_, fun a b c d habcd => ?_⟩
  · simp only [vendor_add_update_length]
    exact hp a ha
  · simp only [vendor_version_count_add_update]
    exact hv a b hab
  · simp only [Option.some.injEq, Prod.mk.injEq] at habc
    obtain ⟨rfl, rfl, rfl⟩ := habc
    simp only [vendor_update_count_add_update loc.ret i j x (hv i j hloc)]
    exact Nat.lt_succ_self _
  · exact Nat.lt_of_lt_of_le (he a b c d habcd) (vendor_edition_count_add_update _ _ _ _ _ _ _)

theorem valid_step_version (loc : vendor_locals) (i : Nat) (x : cpe_version)
    (hloc : loc.product = some i) (h : loc.valid) :
    ({ loc with
        ret := vendor_add_version loc.ret i x,
        version := some (i, vendor_version_count loc.ret i) }
        : vendor_locals).valid := by
  obtain ⟨hp, hv, hu, he⟩ := h
  refine ⟨fun a ha => ?_, fun a b hab => ?_, fun a b c habc => ?_, fun a b c d habcd => ?_⟩
  · simp only [vendor_add_version_length]
    exact hp a ha
  · simp only [Option.some.injEq, Prod.mk.injEq] at hab
    obtain ⟨rfl, rfl⟩ := hab
    simp only [vendor_version_count_add_version loc.ret i x (hp i hloc)]
    exact Nat.lt_succ_self _
  · exact Nat.lt_of_lt_of_le (hu a b c habc) (vendor_update_count_add_version _ _ _ _ _)
  · exact Nat.lt_of_lt_of_le (he a b c d habcd) (vendor_edition_count_add_version _ _ _ _ _ _)

theorem valid_step_product (loc : vendor_locals) (x : cpe_product) (h : loc.valid) :
    ({ loc with
        ret := { loc.ret with products := loc.ret.products ++ [x] },
        product := some loc.ret.products.length }
        : vendor_locals).valid := by
  obtain ⟨hp, hv, hu, he⟩ := h
  refine ⟨fun a ha => ?_, fun a b hab => ?_, fun a b c habc => ?_, fun a b c d habcd => ?_⟩
  · simp only [Option.some.injEq] at ha
    subst ha
    simp
  · exact Nat.lt_of_lt_of_le (hv a b hab) (vendor_version_count_add_product _ _ _)
  · exact Nat.lt_of_lt_of_le (hu a b c habc) (vendor_update_count_add_product _ _ _ _)
  · exact Nat.lt_of_lt_of_le (he a b c d habcd) (vendor_edition_count_add_product _ _ _ _ _)

/-! ## The loop of `cpe_vendor_parse` attaches every node to the latest node of its parent level -/

/-- One pass of the loop on a node that is not named "vendor", in a stream
where no node comes before its parent level: the pass goes on to the next node
with the pointers on nodes of the tree, and the products to come are the same. -/
theorem cpe_vendor_parse_body_attached (n : xmlNode) (xs rest : List xmlNode)
    (loc : vendor_locals) (p v u e : Bool) (hok : product_ok n = true)
    (hord : levels_ordered p v u e (n :: rest) = true) (hloc : loc.opened p v u e)
    (hvalid : loc.valid) :
    ∃ loc1 p1 v1 u1 e1,
      cpe_vendor_parse_body { cur := some n, rest := xs } loc = .next_node loc1
      ∧ loc1.opened p1 v1 u1 e1 ∧ levels_ordered p1 v1 u1 e1 rest = true ∧ loc1.valid
      ∧ (loc1.pending rest).products = (loc.pending (n :: rest)).products := by
  rcases cpe_vendor_parse_body_progress n xs rest loc p v u e hord hloc with hnull |
    ⟨loc1, p1, v1, u1, e1, hbody, hopen, hrest⟩
  · have := cpe_vendor_parse_body_return_null n xs loc hnull
    rw [hok] at this
    simp at this
  · refine ⟨loc1, p1, v1, u1, e1, hbody, hopen, hrest, ?_⟩
    obtain ⟨hpo, hvo, huo, heo⟩ := hloc
    by_cases hP : n.starts TAG_PRODUCT_STR = true
    · have h1 := cpe_vendor_parse_body_starts_product n xs loc hP hok
      rw [hbody] at h1
      obtain rfl := vendor_step.next_node.inj h1
      exact ⟨valid_step_product loc _ hvalid, by rw [pending_step_product loc n rest hP hvalid]⟩
    · by_cases hV : n.starts TAG_VERSION_STR = true
      · obtain ⟨htype, hname⟩ := (starts_iff n _).mp hV
        have hflag : p = true := by
          unfold levels_ordered at hord
          simp only [htype, ne_eq, not_true_eq_false, ↓reduceIte, hname, TAG_VERSION_STR,
            TAG_TITLE_STR, TAG_PRODUCT_STR, String.reduceEq, Bool.and_eq_true] at hord
          exact hord.1
        obtain ⟨i, hi⟩ := Option.isSome_iff_exists.mp (hpo hflag)
        have h1 := cpe_vendor_parse_body_starts_version n xs loc i hV hi
        rw [hbody] at h1
        obtain rfl := vendor_step.next_node.inj h1
        exact ⟨valid_step_version loc i _ hi hvalid,
          by rw [pending_step_version loc n rest i hV hi hvalid]⟩
      · by_cases hU : n.starts TAG_UPDATE_STR = true
        · obtain ⟨htype, hname⟩ := (starts_iff n _).mp hU
          have hflag : v = true := by
            unfold levels_ordered at hord
            simp only [htype, ne_eq, not_true_eq_false, ↓reduceIte, hname, TAG_UPDATE_STR,
              TAG_VERSION_STR, TAG_TITLE_STR, TAG_PRODUCT_STR, String.reduceEq,
              Bool.and_eq_true] at hord
            exact hord.1
          obtain ⟨⟨i, j⟩, hi⟩ := Option.isSome_iff_exists.mp (hvo hflag)
          have h1 := cpe_vendor_parse_body_starts_update n xs loc i j hU hi
          rw [hbody] at h1
          obtain rfl := vendor_step.next_node.inj h1
          exact ⟨valid_step_update loc i j _ hi hvalid,
            by rw [pending_step_update loc n rest i j hU hi hvalid]⟩
        · by_cases hE : n.starts TAG_EDITION_STR = true
          · obtain ⟨htype, hname⟩ := (starts_iff n _).mp hE
            have hflag : u = true := by
              unfold levels_ordered at hord
              simp only [htype, ne_eq, not_true_eq_false, ↓reduceIte, hname, TAG_EDITION_STR,
                TAG_UPDATE_STR, TAG_VERSION_STR, TAG_TITLE_STR, TAG_PRODUCT_STR,
                String.reduceEq, Bool.and_eq_true] at hord
              exact hord.1
            obtain ⟨⟨i, j, k⟩, hi⟩ := Option.isSome_iff_exists.mp (huo hflag)
            have h1 := cpe_vendor_parse_body_starts_edition n xs loc i j k hE hi
            rw [hbody] at h1
            obtain rfl := vendor_step.next_node.inj h1
            exact ⟨valid_step_edition loc i j k _ hi hvalid,
              by rw [pending_step_edition loc n rest i j k hE hi]⟩
          · by_cases hL : n.starts TAG_LANGUAGE_STR = true
            · obtain ⟨htype, hname⟩ := (starts_iff n _).mp hL
              have hflag : e = true := by
                unfold levels_ordered at hord
                simp only [htype, ne_eq, not_true_eq_false, ↓reduceIte, hname,
                  TAG_LANGUAGE_STR, TAG_EDITION_STR, TAG_UPDATE_STR, TAG_VERSION_STR,
                  TAG_TITLE_STR, TAG_PRODUCT_STR, String.reduceEq, Bool.and_eq_true] at hord
                exact hord.1
              obtain ⟨⟨i, j, k, l⟩, hi⟩ := Option.isSome_iff_exists.mp (heo hflag)
              have h1 := cpe_vendor_parse_body_starts_language n xs loc i j k l hL hi
              rw [hbody] at h1
              obtain rfl := vendor_step.next_node.inj h1
              exact ⟨valid_step_language loc i j k l _ hvalid,
                by rw [pending_step_language loc n rest i j k l hL hi]⟩
            · simp only [Bool.not_eq_true] at hP hV hU hE hL
              obtain ⟨titles, h1⟩ := cpe_vendor_parse_body_neutral n xs loc hP hV hU hE hL
              rw [hbody] at h1
              obtain rfl := vendor_step.next_node.inj h1
              exact ⟨valid_step_neutral loc titles hvalid,
                pending_step_neutral loc n rest titles hP hV hU hE hL⟩

/-- Over nodes none of which is named "vendor" and none of which comes before
its parent level, up to a node named "vendor", the loop of `cpe_vendor_parse`
answers a vendor whose products are those it held, with every node passed
attached to the latest node of its parent level. -/
theorem cpe_vendor_parse_loop_attached (stop : xmlNode) (tail : List xmlNode)
    (errors : List String) (hstop : stop.localName = TAG_VENDOR_STR) :
    ∀ (body : List xmlNode) (loc : vendor_locals) (p v u e : Bool) (fuel : Nat),
      (∀ n ∈ body, n.localName ≠ TAG_VENDOR_STR) → (∀ n ∈ body, product_ok n = true) →
      levels_ordered p v u e body = true → loc.opened p v u e → loc.valid →
      body.length < fuel →
      ∃ ret, cpe_vendor_parse_loop fuel (on_nodes errors (body ++ stop :: tail)) loc
          = .done ({ reader := { cur := some stop, rest := tail }, errors := errors }, some ret)
        ∧ ret.products = (loc.pending body).products := by
  intro body
  induction body with
  | nil =>
    intro loc p v u e fuel _ _ _ _ _ hfuel
    obtain ⟨fuel, rfl⟩ : ∃ f, fuel = f + 1 := ⟨fuel - 1, by simp at hfuel; omega⟩
    refine ⟨loc.ret, ?_, ?_⟩
    · rw [List.nil_append, on_nodes_cons, cpe_vendor_parse_loop]
      simp [xmlTextReaderConstLocalName, xmlStrcmp, hstop]
    · simp [vendor_locals.pending, attached_languages, attached_editions, attached_updates,
        attached_versions, attached_products, pending_languages_nil, pending_editions_nil,
        pending_updates_nil, pending_versions_nil]
  | cons n rest ih =>
    intro loc p v u e fuel hname hok hord hloc hvalid hfuel
    obtain ⟨fuel, rfl⟩ : ∃ f, fuel = f + 1 := ⟨fuel - 1, by simp at hfuel; omega⟩
    obtain ⟨loc1, p1, v1, u1, e1, hbody, hopen, hrest, hvalid1, hpend⟩ :=
      cpe_vendor_parse_body_attached n (rest ++ stop :: tail) rest loc p v u e
        (hok n (by simp)) hord hloc hvalid
    obtain ⟨ret, hloop, hret⟩ := ih loc1 p1 v1 u1 e1 fuel
      (fun m hm => hname m (by simp [hm])) (fun m hm => hok m (by simp [hm])) hrest hopen
      hvalid1 (by simp at hfuel; omega)
    refine ⟨ret, ?_, by rw [hret, hpend]⟩
    rw [List.cons_append,
      cpe_vendor_parse_loop_step fuel errors n _ loc loc1 (hname n (by simp)) hbody]
    exact hloop

/-! ## The vendor returned on a content in order -/

theorem attached_products_skip (skipped rest : List xmlNode)
    (h : ∀ n ∈ skipped, n.type ≠ XML_READER_TYPE_ELEMENT) :
    attached_products (skipped ++ rest) = attached_products rest := by
  induction skipped with
  | nil => rfl
  | cons n skipped ih =>
    have hn := h n (by simp)
    rw [List.cons_append, attached_products]
    simp only [xmlNode.starts, hn, decide_False, Bool.false_and, Bool.false_eq_true, ↓reduceIte]
    exact ih (fun m hm => h m (by simp [hm]))

/-- The start of `cpe_vendor_parse`: the loop begins on the first start tag of
the content of the vendor, or on the node named "vendor" after a content
without start tag when that node is a start tag. -/
theorem cpe_vendor_parse_start (fuel : Nat) (st : parser_state) (vendor_tag stop : xmlNode)
    (content tail : List xmlNode)
    (hcur : st.reader.cur = some vendor_tag) (hvendor : vendor_tag.localName = TAG_VENDOR_STR)
    (hrest : st.reader.rest = content ++ stop :: tail)
    (helement : (∃ n ∈ content, n.type = XML_READER_TYPE_ELEMENT)
      ∨ stop.type = XML_READER_TYPE_ELEMENT) :
    ∃ skipped body, content = skipped ++ body
      ∧ (∀ n ∈ skipped, n.type ≠ XML_READER_TYPE_ELEMENT)
      ∧ cpe_vendor_parse fuel st
        = cpe_vendor_parse_loop fuel (on_nodes st.errors (body ++ stop :: tail))
            { ret := { cpe_vendor_new with
                xml := { lang := none, nspace := vendor_tag.nspace, URI := none },
                value := vendor_tag.attribute ATTR_VALUE_STR },
              product := none, version := none, update := none, edition := none } := by
  have hparse : cpe_vendor_parse fuel st
      = cpe_vendor_parse_loop fuel
          { reader := (xmlTextReaderNextElement_loop (content ++ stop :: tail)).2,
            errors := st.errors }
          { ret := { cpe_vendor_new with
              xml := { lang := none, nspace := vendor_tag.nspace, URI := none },
              value := vendor_tag.attribute ATTR_VALUE_STR },
            product := none, version := none, update := none, edition := none } := by
    unfold cpe_vendor_parse
    simp [xmlTextReaderConstLocalName, hcur, hvendor, xmlStrcmp, parser_state.next_element,
      xmlTextReaderNextElement, hrest, xmlTextReaderPrefix, xmlTextReaderGetAttribute]
  rcases xmlTextReaderNextElement_loop_spec content with ⟨_, hnone⟩ |
    ⟨skipped, m, ns, hsplit, hskipped, hm, _⟩
  · rcases helement with ⟨n, hn, hnt⟩ | hstoptype
    · exact absurd hnt (hnone n hn)
    · refine ⟨content, [], by simp, hnone, ?_⟩
      rw [hparse, xmlTextReaderNextElement_loop_skip content _ hnone,
        xmlTextReaderNextElement_loop_element stop tail hstoptype]
      rfl
  · refine ⟨skipped, m :: ns, hsplit, hskipped, ?_⟩
    rw [hparse, hsplit, List.append_assoc,
      xmlTextReaderNextElement_loop_skip skipped _ hskipped, List.cons_append,
      xmlTextReaderNextElement_loop_element m _ hm]
    rfl

theorem vendor_locals_start_valid (ret : cpe_vendor) :
    ({ ret := ret, product := none, version := none, update := none, edition := none }
      : vendor_locals).valid :=
  ⟨fun _ h => by simp at h, fun _ _ h => by simp at h, fun _ _ _ h => by simp at h,
    fun _ _ _ _ h => by simp at h⟩

theorem vendor_locals_start_opened (ret : cpe_vendor) :
    ({ ret := ret, product := none, version := none, update := none, edition := none }
      : vendor_locals).opened false false false false :=
  ⟨fun h => by simp at h, fun h => by simp at h, fun h => by simp at h,
    fun h => by simp at h⟩

theorem vendor_locals_start_pending (ret : cpe_vendor) (body : List xmlNode)
    (h : ret.products = []) :
    (({ ret := ret, product := none, version := none, update := none, edition := none }
      : vendor_locals).pending body).products = attached_products body := by
  simp [vendor_locals.pending, pending_languages, pending_editions, pending_updates,
    pending_versions, h]

/-- On a `vendor` start tag followed by a content in which no node comes before
its parent level and the part codes are accepted, and then by a node named
"vendor", `cpe_vendor_parse` returns on that node the vendor whose products are
attached by the latest node of each level. -/
theorem cpe_vendor_parse_attached (fuel : Nat) (st : parser_state)
    (vendor_tag stop : xmlNode) (content tail : List xmlNode)
    (hcur : st.reader.cur = some vendor_tag) (hvendor : vendor_tag.localName = TAG_VENDOR_STR)
    (hrest : st.reader.rest = content ++ stop :: tail)
    (hcontent : ∀ n ∈ content, n.localName ≠ TAG_VENDOR_STR)
    (helement : (∃ n ∈ content, n.type = XML_READER_TYPE_ELEMENT)
      ∨ stop.type = XML_READER_TYPE_ELEMENT)
    (hstop : stop.localName = TAG_VENDOR_STR)
    (hord : levels_ordered false false false false content = true)
    (hok : ∀ n ∈ content, product_ok n = true) (hfuel : content.length < fuel) :
    ∃ ret, cpe_vendor_parse fuel st
        = .done ({ reader := { cur := some stop, rest := tail }, errors := st.errors },
            some ret)
      ∧ ret.products = attached_products content
      ∧ ret.value = vendor_tag.attribute ATTR_VALUE_STR
      ∧ ret.xml = { lang := none, nspace := vendor_tag.nspace, URI := none } := by
  obtain ⟨skipped, body, hsplit, hskipped, hparse⟩ :=
    cpe_vendor_parse_start fuel st vendor_tag stop content tail hcur hvendor hrest helement
  have hord1 := hord
  rw [hsplit, levels_ordered_skip _ _ _ _ skipped body hskipped] at hord1
  obtain ⟨ret, hloop, hret⟩ := cpe_vendor_parse_loop_attached stop tail st.errors hstop body
    _ false false false false fuel
    (fun n hn => hcontent n (by rw [hsplit]; simp [hn]))
    (fun n hn => hok n (by rw [hsplit]; simp [hn])) hord1 (vendor_locals_start_opened _)
    (vendor_locals_start_valid _)
    (by rw [hsplit, List.length_append] at hfuel; omega)
  have hvalue := cpe_vendor_parse_loop_value fuel _ _ _ _ hloop
  refine ⟨ret, by rw [hparse, hloop], ?_, hvalue.1, hvalue.2⟩
  rw [hret, vendor_locals_start_pending _ body rfl, hsplit,
    attached_products_skip skipped body hskipped]

/-! ## Levels of the nodes of a vendor tree -/

theorem starts_product_level (n : xmlNode) :
    n.starts TAG_PRODUCT_STR = true ↔ tree_level n = 5 := by
  unfold tree_level
  split_ifs with h5 h4 h3 h2 h1 <;> simp_all

theorem starts_version_level (n : xmlNode) :
    n.starts TAG_VERSION_STR = true ↔ tree_level n = 4 := by
  unfold tree_level
  by_cases h5 : n.starts TAG_PRODUCT_STR = true
  · simp [h5, starts_unique n _ TAG_VERSION_STR h5 (by decide)]
  · split_ifs with h4 h3 h2 h1 <;> simp_all

theorem starts_update_level (n : xmlNode) :
    n.starts TAG_UPDATE_STR = true ↔ tree_level n = 3 := by
  unfold tree_level
  by_cases h5 : n.starts TAG_PRODUCT_STR = true
  · simp [h5, starts_unique n _ TAG_UPDATE_STR h5 (by decide)]
  · by_cases h4 : n.starts TAG_VERSION_STR = true
    · simp [h4, starts_unique n _ TAG_UPDATE_STR h4 (by decide),
        starts_unique n _ TAG_PRODUCT_STR h4 (by decide)]
    · split_ifs with h3 h2 h1 <;> simp_all

theorem starts_edition_level (n : xmlNode) :
    n.starts TAG_EDITION_STR = true ↔ tree_level n = 2 := by
  unfold tree_level
  by_cases h2 : n.starts TAG_EDITION_STR = true
  · simp [h2, starts_unique n _ TAG_PRODUCT_STR h2 (by decide),
      starts_unique n _ TAG_VERSION_STR h2 (by decide),
      starts_unique n _ TAG_UPDATE_STR h2 (by decide)]
  · split_ifs <;> simp_all

theorem starts_language_level (n : xmlNode) :
    n.starts TAG_LANGUAGE_STR = true ↔ tree_level n = 1 := by
  unfold tree_level
  by_cases h1 : n.starts TAG_LANGUAGE_STR = true
  · simp [h1, starts_unique n _ TAG_PRODUCT_STR h1 (by decide),
      starts_unique n _ TAG_VERSION_STR h1 (by decide),
      starts_unique n _ TAG_UPDATE_STR h1 (by decide),
      starts_unique n _ TAG_EDITION_STR h1 (by decide)]
  · split_ifs <;> simp_all

theorem tree_level_not_element (n : xmlNode) (h : n.type ≠ XML_READER_TYPE_ELEMENT) :
    tree_level n = 0 := by
  simp [tree_level, xmlNode.starts, h]

theorem tree_level_filler (n : xmlNode) (h : tree_filler n = true) : tree_level n = 0 := by
  simp only [tree_filler, Bool.and_eq_true, bne_iff_ne, ne_eq] at h
  simp [tree_level, xmlNode.starts, h]

theorem tree_level_language (nspace lang : Option String) (attrs : List (String × String))
    (b : Bool) : tree_level (xml_element TAG_LANGUAGE_STR nspace lang attrs b) = 1 :=
  (starts_language_level _).mp (by simp [xmlNode.starts, xml_element])

theorem tree_level_edition (nspace lang : Option String) (attrs : List (String × String))
    (b : Bool) : tree_level (xml_element TAG_EDITION_STR nspace lang attrs b) = 2 :=
  (starts_edition_level _).mp (by simp [xmlNode.starts, xml_element])

theorem tree_level_update (nspace lang : Option String) (attrs : List (String × String))
    (b : Bool) : tree_level (xml_element TAG_UPDATE_STR nspace lang attrs b) = 3 :=
  (starts_update_level _).mp (by simp [xmlNode.starts, xml_element])

theorem tree_level_version (nspace lang : Option String) (attrs : List (String × String))
    (b : Bool) : tree_level (xml_element TAG_VERSION_STR nspace lang attrs b) = 4 :=
  (starts_version_level _).mp (by simp [xmlNode.starts, xml_element])

theorem tree_level_product (nspace lang : Option String) (attrs : List (String × String))
    (b : Bool) : tree_level (xml_element TAG_PRODUCT_STR nspace lang attrs b) = 5 :=
  (starts_product_level _).mp (by simp [xmlNode.starts, xml_element])

theorem tree_level_closing (name : String) (h : element_head) (content : List xmlNode) :
    ∀ n ∈ closing_nodes name h content, tree_level n = 0 := by
  intro n hn
  unfold closing_nodes at hn
  split at hn
  · simp at hn
  · rw [List.mem_singleton] at hn
    rw [hn]
    exact tree_level_not_element _ (by simp [xml_end])

theorem tree_level_fillers (xs : List xmlNode) (h : xs.all tree_filler = true) :
    ∀ n ∈ xs, tree_level n = 0 :=
  fun n hn => tree_level_filler n (List.all_eq_true.mp h n hn)

theorem product_ok_of_level (n : xmlNode) (h : tree_level n ≠ 5) : product_ok n = true := by
  rw [Ne, ← starts_product_level, starts_iff] at h
  unfold product_ok
  by_cases ht : n.type = XML_READER_TYPE_ELEMENT
  · have hn : n.localName ≠ TAG_PRODUCT_STR := fun hn => h ⟨ht, hn⟩
    simp [hn]
  · simp [ht]

/-! ## The attached nodes past the nodes of other levels -/

theorem attached_languages_cons (n : xmlNode) (xs : List xmlNode) :
    attached_languages (n :: xs)
      = if tree_level n = 2 then []
        else if tree_level n = 1 then language_of n :: attached_languages xs
        else attached_languages xs := by
  rw [attached_languages]
  simp only [starts_edition_level, starts_language_level]

theorem attached_editions_cons (n : xmlNode) (xs : List xmlNode) :
    attached_editions (n :: xs)
      = if tree_level n = 3 then []
        else if tree_level n = 2 then edition_of n (attached_languages xs) :: attached_editions xs
        else attached_editions xs := by
  rw [attached_editions]
  simp only [starts_update_level, starts_edition_level]

theorem attached_updates_cons (n : xmlNode) (xs : List xmlNode) :
    attached_updates (n :: xs)
      = if tree_level n = 4 then []
        else if tree_level n = 3 then update_of n (attached_editions xs) :: attached_updates xs
        else attached_updates xs := by
  rw [attached_updates]
  simp only [starts_version_level, starts_update_level]

theorem attached_versions_cons (n : xmlNode) (xs : List xmlNode) :
    attached_versions (n :: xs)
      = if tree_level n = 5 then []
        else if tree_level n = 4 then version_of n (attached_updates xs) :: attached_versions xs
        else attached_versions xs := by
  rw [attached_versions]
  simp only [starts_product_level, starts_version_level]

theorem attached_products_cons (n : xmlNode) (xs : List xmlNode) :
    attached_products (n :: xs)
      = if tree_level n = 5 then product_of n (attached_versions xs) :: attached_products xs
        else attached_products xs := by
  rw [attached_products]
  simp only [starts_product_level]

theorem attached_languages_pass (xs rest : List xmlNode)
    (h : ∀ n ∈ xs, tree_level n = 0) :
    attached_languages (xs ++ rest) = attached_languages rest := by
  induction xs with
  | nil => rfl
  | cons n xs ih =>
    rw [List.cons_append, attached_languages_cons, h n (by simp)]
    simp only [OfNat.zero_ne_ofNat, ↓reduceIte, zero_ne_one]
    exact ih (fun m hm => h m (by simp [hm]))

theorem attached_editions_pass (xs rest : List xmlNode)
    (h : ∀ n ∈ xs, tree_level n < 2) :
    attached_editions (xs ++ rest) = attached_editions rest := by
  induction xs with
  | nil => rfl
  | cons n xs ih =>
    have hn := h n (by simp)
    rw [List.cons_append, attached_editions_cons, if_neg (by omega), if_neg (by omega)]
    exact ih (fun m hm => h m (by simp [hm]))

theorem attached_updates_pass (xs rest : List xmlNode)
    (h : ∀ n ∈ xs, tree_level n < 3) :
    attached_updates (xs ++ rest) = attached_updates rest := by
  induction xs with
  | nil => rfl
  | cons n xs ih =>
    have hn := h n (by simp)
    rw [List.cons_append, attached_updates_cons, if_neg (by omega), if_neg (by omega)]
    exact ih (fun m hm => h m (by simp [hm]))

theorem attached_versions_pass (xs rest : List xmlNode)
    (h : ∀ n ∈ xs, tree_level n < 4) :
    attached_versions (xs ++ rest) = attached_versions rest := by
  induction xs with
  | nil => rfl
  | cons n xs ih =>
    have hn := h n (by simp)
    rw [List.cons_append, attached_versions_cons, if_neg (by omega), if_neg (by omega)]
    exact ih (fun m hm => h m (by simp [hm]))

theorem attached_products_pass (xs rest : List xmlNode)
    (h : ∀ n ∈ xs, tree_level n < 5) :
    attached_products (xs ++ rest) = attached_products rest := by
  induction xs with
  | nil => rfl
  | cons n xs ih =>
    have hn := h n (by simp)
    rw [List.cons_append, attached_products_cons, if_neg (by omega)]
    exact ih (fun m hm => h m (by simp [hm]))

/-! ## The order of the levels past the nodes of a well-nested tree -/

theorem levels_ordered_pass (p v u e : Bool) (xs rest : List xmlNode)
    (h : ∀ n ∈ xs, tree_level n = 0) :
    levels_ordered p v u e (xs ++ rest) = levels_ordered p v u e rest := by
  induction xs with
  | nil => rfl
  | cons n xs ih =>
    have hn := h n (by simp)
    have h5 : ¬ (n.type = XML_READER_TYPE_ELEMENT ∧ n.localName = TAG_PRODUCT_STR) := by
      rw [← starts_iff, starts_product_level]; omega
    have h4 : ¬ (n.type = XML_READER_TYPE_ELEMENT ∧ n.localName = TAG_VERSION_STR) := by
      rw [← starts_iff, starts_version_level]; omega
    have h3 : ¬ (n.type = XML_READER_TYPE_ELEMENT ∧ n.localName = TAG_UPDATE_STR) := by
      rw [← starts_iff, starts_update_level]; omega
    have h2 : ¬ (n.type = XML_READER_TYPE_ELEMENT ∧ n.localName = TAG_EDITION_STR) := by
      rw [← starts_iff, starts_edition_level]; omega
    have h1 : ¬ (n.type = XML_READER_TYPE_ELEMENT ∧ n.localName = TAG_LANGUAGE_STR) := by
      rw [← starts_iff, starts_language_level]; omega
    rw [List.cons_append, levels_ordered]
    by_cases ht : n.type = XML_READER_TYPE_ELEMENT
    · have g5 : n.localName ≠ TAG_PRODUCT_STR := fun g => h5 ⟨ht, g⟩
      have g4 : n.localName ≠ TAG_VERSION_STR := fun g => h4 ⟨ht, g⟩
      have g3 : n.localName ≠ TAG_UPDATE_STR := fun g => h3 ⟨ht, g⟩
      have g2 : n.localName ≠ TAG_EDITION_STR := fun g => h2 ⟨ht, g⟩
      have g1 : n.localName ≠ TAG_LANGUAGE_STR := fun g => h1 ⟨ht, g⟩
      simp only [ht, ne_eq, not_true_eq_false, ↓reduceIte, g5, g4, g3, g2, g1, ite_self]
      exact ih (fun m hm => h m (by simp [hm]))
    · simp only [ne_eq, ht, not_false_eq_true, ↓reduceIte]
      exact ih (fun m hm => h m (by simp [hm]))

theorem levels_ordered_mono (xs : List xmlNode) :
    ∀ (p v u e p1 v1 u1 e1 : Bool), (p = true → p1 = true) → (v = true → v1 = true) →
      (u = true → u1 = true) → (e = true → e1 = true) →
      levels_ordered p v u e xs = true → levels_ordered p1 v1 u1 e1 xs = true := by
  induction xs with
  | nil => intros; rfl
  | cons n xs ih =>
    intro p v u e p1 v1 u1 e1 hp hv hu he h
    rw [levels_ordered] at h ⊢
    split_ifs at h ⊢
    · exact ih _ _ _ _ _ _ _ _ hp hv hu he h
    · exact ih _ _ _ _ _ _ _ _ hp hv hu he h
    · exact ih _ _ _ _ _ _ _ _ (fun _ => rfl) hv hu he h
    · rw [Bool.and_eq_true] at h ⊢
      exact ⟨hp h.1, ih _ _ _ _ _ _ _ _ hp (fun _ => rfl) hu he h.2⟩
    · rw [Bool.and_eq_true] at h ⊢
      exact ⟨hv h.1, ih _ _ _ _ _ _ _ _ hp hv (fun _ => rfl) he h.2⟩
    · rw [Bool.and_eq_true] at h ⊢
      exact ⟨hu h.1, ih _ _ _ _ _ _ _ _ hp hv hu (fun _ => rfl) h.2⟩
    · rw [Bool.and_eq_true] at h ⊢
      exact ⟨he h.1, ih _ _ _ _ _ _ _ _ hp hv hu he h.2⟩
    · exact ih _ _ _ _ _ _ _ _ hp hv hu he h

theorem levels_ordered_cons_element (p v u e : Bool) (name : String)
    (nspace lang : Option String) (attrs : List (String × String)) (b : Bool)
    (xs : List xmlNode) :
    levels_ordered p v u e (xml_element name nspace lang attrs b :: xs)
      = if name = TAG_TITLE_STR then levels_ordered p v u e xs
        else if name = TAG_PRODUCT_STR then levels_ordered true v u e xs
        else if name = TAG_VERSION_STR then p && levels_ordered p true u e xs
        else if name = TAG_UPDATE_STR then v && levels_ordered p v true e xs
        else if name = TAG_EDITION_STR then u && levels_ordered p v u true xs
        else if name = TAG_LANGUAGE_STR then e && levels_ordered p v u e xs
        else levels_ordered p v u e xs := by
  rw [levels_ordered]
  simp [xml_element]

/-! ## The nodes of a well-nested tree, level by level -/

theorem node_within_mono (j k : Nat) (n : xmlNode) (hjk : j ≤ k) (h : node_within j n) :
    node_within k n :=
  ⟨Nat.le_trans h.1 hjk, h.2⟩

theorem node_within_filler (k : Nat) (n : xmlNode) (h : tree_filler n = true) :
    node_within k n := by
  refine ⟨by rw [tree_level_filler n h]; exact Nat.zero_le k, ?_⟩
  simp only [tree_filler, Bool.and_eq_true, bne_iff_ne, ne_eq] at h
  exact h.1.1.1.1.1

theorem flatten_within {α : Type} (k : Nat) (f : α → List xmlNode) (xs : List α)
    (h : ∀ x ∈ xs, ∀ n ∈ f x, node_within k n) :
    ∀ n ∈ (xs.map f).flatten, node_within k n := by
  intro n hn
  rw [List.mem_flatten] at hn
  obtain ⟨l, hl, hnl⟩ := hn
  rw [List.mem_map] at hl
  obtain ⟨x, hx, rfl⟩ := hl
  exact h x hx n hnl

/-- The nodes of an element of the tree are its start tag, nodes of no level,
the nodes of its children, and nodes of no level. -/
theorem enclosed_nodes_append (name : String) (h : element_head)
    (before mid after rest : List xmlNode) :
    enclosed_nodes name h (before ++ mid) ++ after ++ rest
      = xml_element name h.nspace h.lang h.attrs (h.self_closed && (before ++ mid).isEmpty)
        :: (before ++ (mid ++ (closing_nodes name h (before ++ mid) ++ (after ++ rest)))) := by
  simp [enclosed_nodes]

theorem enclosed_within (k : Nat) (name : String) (h : element_head)
    (before mid after : List xmlNode) (hname : name ≠ TAG_VENDOR_STR)
    (hs : ∀ b, tree_level (xml_element name h.nspace h.lang h.attrs b) ≤ k)
    (hb : before.all tree_filler = true) (hm : ∀ n ∈ mid, node_within k n)
    (ha : after.all tree_filler = true) :
    ∀ n ∈ enclosed_nodes name h (before ++ mid) ++ after, node_within k n := by
  intro n hn
  simp only [enclosed_nodes, List.cons_append, List.mem_cons, List.mem_append] at hn
  rcases hn with rfl | ((hn | hn) | hn) | hn
  · exact ⟨hs _, hname⟩
  · exact node_within_filler k n (List.all_eq_true.mp hb n hn)
  · exact hm n hn
  · refine ⟨by rw [tree_level_closing name h _ n hn]; exact Nat.zero_le k, ?_⟩
    unfold closing_nodes at hn
    split at hn
    · simp at hn
    · rw [List.mem_singleton] at hn
      rw [hn]
      exact hname
  · exact node_within_filler k n (List.all_eq_true.mp ha n hn)

theorem language_nodes_eq (l : language_element) :
    l.nodes = enclosed_nodes TAG_LANGUAGE_STR l.head (l.inner ++ []) ++ l.after := by
  rw [List.append_nil]; rfl

theorem language_within (l : language_element) (h : l.well_nested = true) :
    ∀ n ∈ l.nodes, node_within 1 n := by
  simp only [language_element.well_nested, Bool.and_eq_true] at h
  rw [language_nodes_eq]
  exact enclosed_within 1 _ _ _ _ _ (by decide)
    (fun b => Nat.le_of_eq (tree_level_language _ _ _ b)) h.1 (fun _ hn => by simp at hn) h.2

theorem languages_within (ls : List language_element)
    (h : ls.all language_element.well_nested = true) :
    ∀ n ∈ (ls.map language_element.nodes).flatten, node_within 1 n :=
  flatten_within 1 _ ls (fun l hl => language_within l (List.all_eq_true.mp h l hl))

theorem edition_within (e : edition_element) (h : e.well_nested = true) :
    ∀ n ∈ e.nodes, node_within 2 n := by
  simp only [edition_element.well_nested, Bool.and_eq_true] at h
  exact enclosed_within 2 _ _ _ _ _ (by decide)
    (fun b => Nat.le_of_eq (tree_level_edition _ _ _ b)) h.1.1
    (fun n hn => node_within_mono 1 2 n (by decide) (languages_within _ h.1.2 n hn)) h.2

theorem editions_within (es : List edition_element)
    (h : es.all edition_element.well_nested = true) :
    ∀ n ∈ (es.map edition_element.nodes).flatten, node_within 2 n :=
  flatten_within 2 _ es (fun e he => edition_within e (List.all_eq_true.mp h e he))

theorem update_within (u : update_element) (h : u.well_nested = true) :
    ∀ n ∈ u.nodes, node_within 3 n := by
  simp only [update_element.well_nested, Bool.and_eq_true] at h
  exact enclosed_within 3 _ _ _ _ _ (by decide)
    (fun b => Nat.le_of_eq (tree_level_update _ _ _ b)) h.1.1
    (fun n hn => node_within_mono 2 3 n (by decide) (editions_within _ h.1.2 n hn)) h.2

theorem updates_within (us : List update_element)
    (h : us.all update_element.well_nested = true) :
    ∀ n ∈ (us.map update_element.nodes).flatten, node_within 3 n :=
  flatten_within 3 _ us (fun u hu => update_within u (List.all_eq_true.mp h u hu))

theorem version_within (v : version_element) (h : v.well_nested = true) :
    ∀ n ∈ v.nodes, node_within 4 n := by
  simp only [version_element.well_nested, Bool.and_eq_true] at h
  exact enclosed_within 4 _ _ _ _ _ (by decide)
    (fun b => Nat.le_of_eq (tree_level_version _ _ _ b)) h.1.1
    (fun n hn => node_within_mono 3 4 n (by decide) (updates_within _ h.1.2 n hn)) h.2

theorem versions_within (vs : List version_element)
    (h : vs.all version_element.well_nested = true) :
    ∀ n ∈ (vs.map version_element.nodes).flatten, node_within 4 n :=
  flatten_within 4 _ vs (fun v hv => version_within v (List.all_eq_true.mp h v hv))

theorem product_within (p : product_element) (h : p.well_nested = true) :
    ∀ n ∈ p.nodes, node_within 5 n := by
  simp only [product_element.well_nested, Bool.and_eq_true] at h
  exact enclosed_within 5 _ _ _ _ _ (by decide)
    (fun b => Nat.le_of_eq (tree_level_product _ _ _ b)) h.1.1
    (fun n hn => node_within_mono 4 5 n (by decide) (versions_within _ h.1.2 n hn)) h.2

theorem products_within (ps : List product_element)
    (h : ps.all product_element.well_nested = true) :
    ∀ n ∈ (ps.map product_element.nodes).flatten, node_within 5 n :=
  flatten_within 5 _ ps (fun p hp => product_within p (List.all_eq_true.mp h p hp))

/-! ## Nothing attached further on -/

theorem quiet_mono (j k : Nat) (xs : List xmlNode) (hjk : j ≤ k) (h : quiet k xs) :
    quiet j xs :=
  ⟨fun hj => h.1 (by omega), fun hj => h.2.1 (by omega), fun hj => h.2.2.1 (by omega),
    fun hj => h.2.2.2 (by omega)⟩

theorem quiet_zero (xs : List xmlNode) : quiet 0 xs :=
  ⟨fun h => by omega, fun h => by omega, fun h => by omega, fun h => by omega⟩

theorem quiet_nil (k : Nat) : quiet k [] :=
  ⟨fun _ => rfl, fun _ => rfl, fun _ => rfl, fun _ => rfl⟩

theorem quiet_pass (k : Nat) (xs rest : List xmlNode) (h0 : ∀ n ∈ xs, tree_level n = 0)
    (h : quiet k rest) : quiet k (xs ++ rest) := by
  unfold quiet
  rw [attached_languages_pass xs rest h0,
    attached_editions_pass xs rest (fun n hn => by rw [h0 n hn]; decide),
    attached_updates_pass xs rest (fun n hn => by rw [h0 n hn]; decide),
    attached_versions_pass xs rest (fun n hn => by rw [h0 n hn]; decide)]
  exact h

/-- A start tag two levels above `k` closes what is open up to the level below
it. -/
theorem quiet_cons_level (k : Nat) (s : xmlNode) (xs : List xmlNode)
    (hs : tree_level s = k + 2) (h : quiet k xs) : quiet (k + 1) (s :: xs) := by
  refine ⟨fun hk => ?_, fun hk => ?_, fun hk => ?_, fun hk => ?_⟩
  · rw [attached_languages_cons]
    split_ifs with h2 h1
    · rfl
    · omega
    · exact h.1 (by omega)
  · rw [attached_editions_cons]
    split_ifs with h2 h1
    · rfl
    · omega
    · exact h.2.1 (by omega)
  · rw [attached_updates_cons]
    split_ifs with h2 h1
    · rfl
    · omega
    · exact h.2.2.1 (by omega)
  · rw [attached_versions_cons]
    split_ifs with h2 h1
    · rfl
    · omega
    · exact h.2.2.2 (by omega)

theorem level_zero_of_all (xs : List xmlNode) (h : xs.all tree_filler = true) :
    ∀ n ∈ xs, tree_level n = 0 :=
  tree_level_fillers xs h

/-! ### Languages -/

theorem attached_languages_element (l : language_element) (rest : List xmlNode)
    (h : l.well_nested = true) :
    attached_languages (l.nodes ++ rest) = l.tree :: attached_languages rest := by
  simp only [language_element.well_nested, Bool.and_eq_true] at h
  rw [language_nodes_eq, enclosed_nodes_append, attached_languages_cons,
    tree_level_language, if_neg (by decide), if_pos rfl,
    attached_languages_pass _ _ (tree_level_fillers _ h.1), List.nil_append,
    attached_languages_pass _ _ (tree_level_closing _ _ _),
    attached_languages_pass _ _ (tree_level_fillers _ h.2)]
  rfl

theorem attached_languages_elements (ls : List language_element) (rest : List xmlNode)
    (h : ls.all language_element.well_nested = true) :
    attached_languages ((ls.map language_element.nodes).flatten ++ rest)
      = ls.map language_element.tree ++ attached_languages rest := by
  induction ls with
  | nil => rfl
  | cons l ls ih =>
    rw [List.all_cons, Bool.and_eq_true] at h
    rw [List.map_cons, List.flatten_cons, List.append_assoc,
      attached_languages_element l _ h.1, ih h.2]
    rfl

theorem levels_ordered_languages (p v u : Bool) (ls : List language_element)
    (rest : List xmlNode) (h : ls.all language_element.well_nested = true) :
    levels_ordered p v u true ((ls.map language_element.nodes).flatten ++ rest)
      = levels_ordered p v u true rest := by
  induction ls with
  | nil => rfl
  | cons l ls ih =>
    rw [List.all_cons, Bool.and_eq_true] at h
    have hl := h.1
    simp only [language_element.well_nested, Bool.and_eq_true] at hl
    rw [List.map_cons, List.flatten_cons, List.append_assoc, language_nodes_eq,
      enclosed_nodes_append, levels_ordered_cons_element, if_neg (by decide),
      if_neg (by decide), if_neg (by decide), if_neg (by decide), if_neg (by decide),
      if_pos rfl, Bool.true_and, levels_ordered_pass _ _ _ _ _ _ (tree_level_fillers _ hl.1),
      List.nil_append, levels_ordered_pass _ _ _ _ _ _ (tree_level_closing _ _ _),
      levels_ordered_pass _ _ _ _ _ _ (tree_level_fillers _ hl.2), ih h.2]

theorem level_lt_of_zero (k : Nat) (xs : List xmlNode) (hk : 0 < k)
    (h : ∀ n ∈ xs, tree_level n = 0) : ∀ n ∈ xs, tree_level n < k :=
  fun n hn => by rw [h n hn]; exact hk

theorem level_lt_of_within (j k : Nat) (xs : List xmlNode) (hjk : j < k)
    (h : ∀ n ∈ xs, node_within j n) : ∀ n ∈ xs, tree_level n < k :=
  fun n hn => Nat.lt_of_le_of_lt (h n hn).1 hjk

/-! ### Editions -/

theorem quiet_edition (e : edition_element) (rest : List xmlNode) :
    quiet 1 (e.nodes ++ rest) := by
  rw [edition_element.nodes, enclosed_nodes_append]
  exact quiet_cons_level 0 _ _ (tree_level_edition _ _ _ _) (quiet_zero _)

theorem quiet_editions (es : List edition_element) (rest : List xmlNode)
    (h : quiet 1 rest) : quiet 1 ((es.map edition_element.nodes).flatten ++ rest) := by
  cases es with
  | nil => exact h
  | cons e es =>
    rw [List.map_cons, List.flatten_cons, List.append_assoc]
    exact quiet_edition e _

theorem attached_editions_element (e : edition_element) (rest : List xmlNode)
    (hw : e.well_nested = true) (h : quiet 1 rest) :
    attached_editions (e.nodes ++ rest) = e.tree :: attached_editions rest := by
  simp only [edition_element.well_nested, Bool.and_eq_true] at hw
  obtain ⟨⟨hb, hc⟩, ha⟩ := hw
  have hb0 := tree_level_fillers _ hb
  have ha0 := tree_level_fillers _ ha
  rw [edition_element.nodes, enclosed_nodes_append, attached_editions_cons,
    tree_level_edition, if_neg (by decide), if_pos rfl,
    attached_languages_pass _ _ hb0, attached_languages_elements _ _ hc,
    attached_languages_pass _ _ (tree_level_closing _ _ _),
    attached_languages_pass _ _ ha0, h.1 (Nat.le_refl 1), List.append_nil,
    attached_editions_pass _ _ (level_lt_of_zero 2 _ (by decide) hb0),
    attached_editions_pass _ _ (level_lt_of_within 1 2 _ (by decide) (languages_within _ hc)),
    attached_editions_pass _ _ (level_lt_of_zero 2 _ (by decide) (tree_level_closing _ _ _)),
    attached_editions_pass _ _ (level_lt_of_zero 2 _ (by decide) ha0)]
  rfl

theorem attached_editions_elements (es : List edition_element) (rest : List xmlNode)
    (hw : es.all edition_element.well_nested = true) (h : quiet 1 rest) :
    attached_editions ((es.map edition_element.nodes).flatten ++ rest)
      = es.map edition_element.tree ++ attached_editions rest := by
  induction es with
  | nil => rfl
  | cons e es ih =>
    rw [List.all_cons, Bool.and_eq_true] at hw
    rw [List.map_cons, List.flatten_cons, List.append_assoc,
      attached_editions_element e _ hw.1 (quiet_editions es rest h), ih hw.2]
    rfl

theorem levels_ordered_edition (p v e : Bool) (x : edition_element) (rest : List xmlNode)
    (hw : x.well_nested = true) (h : levels_ordered p v true true rest = true) :
    levels_ordered p v true e (x.nodes ++ rest) = true := by
  simp only [edition_element.well_nested, Bool.and_eq_true] at hw
  obtain ⟨⟨hb, hc⟩, ha⟩ := hw
  rw [edition_element.nodes, enclosed_nodes_append, levels_ordered_cons_element,
    if_neg (by decide), if_neg (by decide), if_neg (by decide), if_neg (by decide),
    if_pos rfl, Bool.true_and, levels_ordered_pass _ _ _ _ _ _ (tree_level_fillers _ hb),
    levels_ordered_languages _ _ _ _ _ hc,
    levels_ordered_pass _ _ _ _ _ _ (tree_level_closing _ _ _),
    levels_ordered_pass _ _ _ _ _ _ (tree_level_fillers _ ha)]
  exact h

theorem levels_ordered_editions (p v : Bool) (es : List edition_element)
    (rest : List xmlNode) (hw : es.all edition_element.well_nested = true) :
    ∀ e, levels_ordered p v true e rest = true →
      levels_ordered p v true e ((es.map edition_element.nodes).flatten ++ rest) = true := by
  induction es with
  | nil => exact fun _ h => h
  | cons x es ih =>
    intro e h
    rw [List.all_cons, Bool.and_eq_true] at hw
    rw [List.map_cons, List.flatten_cons, List.append_assoc]
    exact levels_ordered_edition p v e x _ hw.1
      (ih hw.2 true (levels_ordered_mono rest _ _ _ _ _ _ _ _ id id id (fun _ => rfl) h))

/-! ### Updates -/

theorem quiet_update (u : update_element) (rest : List xmlNode)
    (hw : u.well_nested = true) (h : quiet 1 rest) : quiet 2 (u.nodes ++ rest) := by
  simp only [update_element.well_nested, Bool.and_eq_true] at hw
  obtain ⟨⟨hb, _⟩, ha⟩ := hw
  rw [update_element.nodes, enclosed_nodes_append]
  exact quiet_cons_level 1 _ _ (tree_level_update _ _ _ _)
    (quiet_pass 1 _ _ (tree_level_fillers _ hb)
      (quiet_editions _ _
        (quiet_pass 1 _ _ (tree_level_closing _ _ _)
          (quiet_pass 1 _ _ (tree_level_fillers _ ha) h))))

theorem quiet_updates (us : List update_element) (rest : List xmlNode)
    (hw : us.all update_element.well_nested = true) (h : quiet 2 rest) :
    quiet 2 ((us.map update_element.nodes).flatten ++ rest) := by
  induction us with
  | nil => exact h
  | cons u us ih =>
    rw [List.all_cons, Bool.and_eq_true] at hw
    rw [List.map_cons, List.flatten_cons, List.append_assoc]
    exact quiet_update u _ hw.1 (quiet_mono 1 2 _ (by decide) (ih hw.2))

theorem attached_updates_element (u : update_element) (rest : List xmlNode)
    (hw : u.well_nested = true) (h : quiet 2 rest) :
    attached_updates (u.nodes ++ rest) = u.tree :: attached_updates rest := by
  simp only [update_element.well_nested, Bool.and_eq_true] at hw
  obtain ⟨⟨hb, hc⟩, ha⟩ := hw
  have hb0 := tree_level_fillers _ hb
  have ha0 := tree_level_fillers _ ha
  have hq : quiet 1 (closing_nodes TAG_UPDATE_STR u.head
      (u.before ++ (u.editions.map edition_element.nodes).flatten) ++ (u.after ++ rest)) :=
    quiet_pass 1 _ _ (tree_level_closing _ _ _)
      (quiet_pass 1 _ _ ha0 (quiet_mono 1 2 _ (by decide) h))
  rw [update_element.nodes, enclosed_nodes_append, attached_updates_cons,
    tree_level_update, if_neg (by decide), if_pos rfl,
    attached_editions_pass _ _ (level_lt_of_zero 2 _ (by decide) hb0),
    attached_editions_elements _ _ hc hq,
    attached_editions_pass _ _ (level_lt_of_zero 2 _ (by decide) (tree_level_closing _ _ _)),
    attached_editions_pass _ _ (level_lt_of_zero 2 _ (by decide) ha0),
    h.2.1 (Nat.le_refl 2), List.append_nil,
    attached_updates_pass _ _ (level_lt_of_zero 3 _ (by decide) hb0),
    attached_updates_pass _ _ (level_lt_of_within 2 3 _ (by decide) (editions_within _ hc)),
    attached_updates_pass _ _ (level_lt_of_zero 3 _ (by decide) (tree_level_closing _ _ _)),
    attached_updates_pass _ _ (level_lt_of_zero 3 _ (by decide) ha0)]
  rfl

theorem attached_updates_elements (us : List update_element) (rest : List xmlNode)
    (hw : us.all update_element.well_nested = true) (h : quiet 2 rest) :
    attached_updates ((us.map update_element.nodes).flatten ++ rest)
      = us.map update_element.tree ++ attached_updates rest := by
  induction us with
  | nil => rfl
  | cons u us ih =>
    rw [List.all_cons, Bool.and_eq_true] at hw
    rw [List.map_cons, List.flatten_cons, List.append_assoc,
      attached_updates_element u _ hw.1 (quiet_updates us rest hw.2 h), ih hw.2]
    rfl

theorem levels_ordered_update (p u e : Bool) (x : update_element) (rest : List xmlNode)
    (hw : x.well_nested = true) (h : levels_ordered p true true e rest = true) :
    levels_ordered p true u e (x.nodes ++ rest) = true := by
  simp only [update_element.well_nested, Bool.and_eq_true] at hw
  obtain ⟨⟨hb, hc⟩, ha⟩ := hw
  rw [update_element.nodes, enclosed_nodes_append, levels_ordered_cons_element,
    if_neg (by decide), if_neg (by decide), if_neg (by decide), if_pos rfl, Bool.true_and,
    levels_ordered_pass _ _ _ _ _ _ (tree_level_fillers _ hb)]
  apply levels_ordered_editions p true _ _ hc
  rw [levels_ordered_pass _ _ _ _ _ _ (tree_level_closing _ _ _),
    levels_ordered_pass _ _ _ _ _ _ (tree_level_fillers _ ha)]
  exact h

theorem levels_ordered_updates (p e : Bool) (us : List update_element)
    (rest : List xmlNode) (hw : us.all update_element.well_nested = true) :
    ∀ u, levels_ordered p true u e rest = true →
      levels_ordered p true u e ((us.map update_element.nodes).flatten ++ rest) = true := by
  induction us with
  | nil => exact fun _ h => h
  | cons x us ih =>
    intro u h
    rw [List.all_cons, Bool.and_eq_true] at hw
    rw [List.map_cons, List.flatten_cons, List.append_assoc]
    exact levels_ordered_update p u e x _ hw.1
      (ih hw.2 true (levels_ordered_mono rest _ _ _ _ _ _ _ _ id id (fun _ => rfl) id h))

/-! ### Versions -/

theorem quiet_version (v : version_element) (rest : List xmlNode)
    (hw : v.well_nested = true) (h : quiet 2 rest) : quiet 3 (v.nodes ++ rest) := by
  simp only [version_element.well_nested, Bool.and_eq_true] at hw
  obtain ⟨⟨hb, hc⟩, ha⟩ := hw
  rw [version_element.nodes, enclosed_nodes_append]
  exact quiet_cons_level 2 _ _ (tree_level_version _ _ _ _)
    (quiet_pass 2 _ _ (tree_level_fillers _ hb)
      (quiet_updates _ _ hc
        (quiet_pass 2 _ _ (tree_level_closing _ _ _)
          (quiet_pass 2 _ _ (tree_level_fillers _ ha) h))))

theorem quiet_versions (vs : List version_element) (rest : List xmlNode)
    (hw : vs.all version_element.well_nested = true) (h : quiet 3 rest) :
    quiet 3 ((vs.map version_element.nodes).flatten ++ rest) := by
  induction vs with
  | nil => exact h
  | cons v vs ih =>
    rw [List.all_cons, Bool.and_eq_true] at hw
    rw [List.map_cons, List.flatten_cons, List.append_assoc]
    exact quiet_version v _ hw.1 (quiet_mono 2 3 _ (by decide) (ih hw.2))

theorem attached_versions_element (v : version_element) (rest : List xmlNode)
    (hw : v.well_nested = true) (h : quiet 3 rest) :
    attached_versions (v.nodes ++ rest) = v.tree :: attached_versions rest := by
  simp only [version_element.well_nested, Bool.and_eq_true] at hw
  obtain ⟨⟨hb, hc⟩, ha⟩ := hw
  have hb0 := tree_level_fillers _ hb
  have ha0 := tree_level_fillers _ ha
  have hq : quiet 2 (closing_nodes TAG_VERSION_STR v.head
      (v.before ++ (v.updates.map update_element.nodes).flatten) ++ (v.after ++ rest)) :=
    quiet_pass 2 _ _ (tree_level_closing _ _ _)
      (quiet_pass 2 _ _ ha0 (quiet_mono 2 3 _ (by decide) h))
  rw [version_element.nodes, enclosed_nodes_append, attached_versions_cons,
    tree_level_version, if_neg (by decide), if_pos rfl,
    attached_updates_pass _ _ (level_lt_of_zero 3 _ (by decide) hb0),
    attached_updates_elements _ _ hc hq,
    attached_updates_pass _ _ (level_lt_of_zero 3 _ (by decide) (tree_level_closing _ _ _)),
    attached_updates_pass _ _ (level_lt_of_zero 3 _ (by decide) ha0),
    h.2.2.1 (Nat.le_refl 3), List.append_nil,
    attached_versions_pass _ _ (level_lt_of_zero 4 _ (by decide) hb0),
    attached_versions_pass _ _ (level_lt_of_within 3 4 _ (by decide) (updates_within _ hc)),
    attached_versions_pass _ _ (level_lt_of_zero 4 _ (by decide) (tree_level_closing _ _ _)),
    attached_versions_pass _ _ (level_lt_of_zero 4 _ (by decide) ha0)]
  rfl

theorem attached_versions_elements (vs : List version_element) (rest : List xmlNode)
    (hw : vs.all version_element.well_nested = true) (h : quiet 3 rest) :
    attached_versions ((vs.map version_element.nodes).flatten ++ rest)
      = vs.map version_element.tree ++ attached_versions rest := by
  induction vs with
  | nil => rfl
  | cons v vs ih =>
    rw [List.all_cons, Bool.and_eq_true] at hw
    rw [List.map_cons, List.flatten_cons, List.append_assoc,
      attached_versions_element v _ hw.1 (quiet_versions vs rest hw.2 h), ih hw.2]
    rfl

theorem levels_ordered_version (v u e : Bool) (x : version_element) (rest : List xmlNode)
    (hw : x.well_nested = true) (h : levels_ordered true true u e rest = true) :
    levels_ordered true v u e (x.nodes ++ rest) = true := by
  simp only [version_element.well_nested, Bool.and_eq_true] at hw
  obtain ⟨⟨hb, hc⟩, ha⟩ := hw
  rw [version_element.nodes, enclosed_nodes_append, levels_ordered_cons_element,
    if_neg (by decide), if_neg (by decide), if_pos rfl, Bool.true_and,
    levels_ordered_pass _ _ _ _ _ _ (tree_level_fillers _ hb)]
  apply levels_ordered_updates true _ _ _ hc
  rw [levels_ordered_pass _ _ _ _ _ _ (tree_level_closing _ _ _),
    levels_ordered_pass _ _ _ _ _ _ (tree_level_fillers _ ha)]
  exact h

theorem levels_ordered_versions (u e : Bool) (vs : List version_element)
    (rest : List xmlNode) (hw : vs.all version_element.well_nested = true) :
    ∀ v, levels_ordered true v u e rest = true →
      levels_ordered true v u e ((vs.map version_element.nodes).flatten ++ rest) = true := by
  induction vs with
  | nil => exact fun _ h => h
  | cons x vs ih =>
    intro v h
    rw [List.all_cons, Bool.and_eq_true] at hw
    rw [List.map_cons, List.flatten_cons, List.append_assoc]
    exact levels_ordered_version v u e x _ hw.1
      (ih hw.2 true (levels_ordered_mono rest _ _ _ _ _ _ _ _ id (fun _ => rfl) id id h))

/-! ### Products -/

theorem quiet_product (p : product_element) (rest : List xmlNode)
    (hw : p.well_nested = true) (h : quiet 3 rest) : quiet 4 (p.nodes ++ rest) := by
  simp only [product_element.well_nested, Bool.and_eq_true] at hw
  obtain ⟨⟨hb, hc⟩, ha⟩ := hw
  rw [product_element.nodes, enclosed_nodes_append]
  exact quiet_cons_level 3 _ _ (tree_level_product _ _ _ _)
    (quiet_pass 3 _ _ (tree_level_fillers _ hb)
      (quiet_versions _ _ hc
        (quiet_pass 3 _ _ (tree_level_closing _ _ _)
          (quiet_pass 3 _ _ (tree_level_fillers _ ha) h))))

theorem quiet_products (ps : List product_element) (rest : List xmlNode)
    (hw : ps.all product_element.well_nested = true) (h : quiet 4 rest) :
    quiet 4 ((ps.map product_element.nodes).flatten ++ rest) := by
  induction ps with
  | nil => exact h
  | cons p ps ih =>
    rw [List.all_cons, Bool.and_eq_true] at hw
    rw [List.map_cons, List.flatten_cons, List.append_assoc]
    exact quiet_product p _ hw.1 (quiet_mono 3 4 _ (by decide) (ih hw.2))

theorem attached_products_element (p : product_element) (rest : List xmlNode)
    (hw : p.well_nested = true) (h : quiet 4 rest) :
    attached_products (p.nodes ++ rest) = p.tree :: attached_products rest := by
  simp only [product_element.well_nested, Bool.and_eq_true] at hw
  obtain ⟨⟨hb, hc⟩, ha⟩ := hw
  have hb0 := tree_level_fillers _ hb
  have ha0 := tree_level_fillers _ ha
  have hq : quiet 3 (closing_nodes TAG_PRODUCT_STR p.head
      (p.before ++ (p.versions.map version_element.nodes).flatten) ++ (p.after ++ rest)) :=
    quiet_pass 3 _ _ (tree_level_closing _ _ _)
      (quiet_pass 3 _ _ ha0 (quiet_mono 3 4 _ (by decide) h))
  rw [product_element.nodes, enclosed_nodes_append, attached_products_cons,
    tree_level_product, if_pos rfl,
    attached_versions_pass _ _ (level_lt_of_zero 4 _ (by decide) hb0),
    attached_versions_elements _ _ hc hq,
    attached_versions_pass _ _ (level_lt_of_zero 4 _ (by decide) (tree_level_closing _ _ _)),
    attached_versions_pass _ _ (level_lt_of_zero 4 _ (by decide) ha0),
    h.2.2.2 (Nat.le_refl 4), List.append_nil,
    attached_products_pass _ _ (level_lt_of_zero 5 _ (by decide) hb0),
    attached_products_pass _ _ (level_lt_of_within 4 5 _ (by decide) (versions_within _ hc)),
    attached_products_pass _ _ (level_lt_of_zero 5 _ (by decide) (tree_level_closing _ _ _)),
    attached_products_pass _ _ (level_lt_of_zero 5 _ (by decide) ha0)]
  rfl

theorem attached_products_elements (ps : List product_element) (rest : List xmlNode)
    (hw : ps.all product_element.well_nested = true) (h : quiet 4 rest) :
    attached_products ((ps.map product_element.nodes).flatten ++ rest)
      = ps.map product_element.tree ++ attached_products rest := by
  induction ps with
  | nil => rfl
  | cons p ps ih =>
    rw [List.all_cons, Bool.and_eq_true] at hw
    rw [List.map_cons, List.flatten_cons, List.append_assoc,
      attached_products_element p _ hw.1 (quiet_products ps rest hw.2 h), ih hw.2]
    rfl

theorem levels_ordered_product (p v u e : Bool) (x : product_element) (rest : List xmlNode)
    (hw : x.well_nested = true) (h : levels_ordered true v u e rest = true) :
    levels_ordered p v u e (x.nodes ++ rest) = true := by
  simp only [product_element.well_nested, Bool.and_eq_true] at hw
  obtain ⟨⟨hb, hc⟩, ha⟩ := hw
  rw [product_element.nodes, enclosed_nodes_append, levels_ordered_cons_element,
    if_neg (by decide), if_pos rfl,
    levels_ordered_pass _ _ _ _ _ _ (tree_level_fillers _ hb)]
  apply levels_ordered_versions _ _ _ _ hc
  rw [levels_ordered_pass _ _ _ _ _ _ (tree_level_closing _ _ _),
    levels_ordered_pass _ _ _ _ _ _ (tree_level_fillers _ ha)]
  exact h

theorem levels_ordered_products (v u e : Bool) (ps : List product_element)
    (rest : List xmlNode) (hw : ps.all product_element.well_nested = true) :
    ∀ p, levels_ordered p v u e rest = true →
      levels_ordered p v u e ((ps.map product_element.nodes).flatten ++ rest) = true := by
  induction ps with
  | nil => exact fun _ h => h
  | cons x ps ih =>
    intro p h
    rw [List.all_cons, Bool.and_eq_true] at hw
    rw [List.map_cons, List.flatten_cons, List.append_assoc]
    exact levels_ordered_product p v u e x _ hw.1
      (ih hw.2 true (levels_ordered_mono rest _ _ _ _ _ _ _ _ (fun _ => rfl) id id id h))

/-! ## C23 -/

theorem product_nodes_ok (p : product_element) (hw : p.well_nested = true)
    (hp : (cpe_product_parse_part p.part_code).isSome = true) :
    ∀ n ∈ p.nodes, product_ok n = true := by
  simp only [product_element.well_nested, Bool.and_eq_true] at hw
  obtain ⟨⟨hb, hc⟩, ha⟩ := hw
  intro n hn
  simp only [product_element.nodes, enclosed_nodes, List.cons_append, List.mem_cons,
    List.mem_append] at hn
  rcases hn with rfl | ((hn | hn) | hn) | hn
  · unfold product_ok
    simp only [Bool.or_eq_true]
    right
    exact hp
  · exact product_ok_of_level n (by rw [tree_level_fillers _ hb n hn]; decide)
  · exact product_ok_of_level n (by have := (versions_within _ hc n hn).1; omega)
  · exact product_ok_of_level n (by rw [tree_level_closing _ _ _ n hn]; decide)
  · exact product_ok_of_level n (by rw [tree_level_fillers _ ha n hn]; decide)

theorem vendor_content_ok (v : vendor_element) (hw : v.well_nested = true)
    (hparts : ∀ p ∈ v.products, (cpe_product_parse_part p.part_code).isSome = true) :
    ∀ n ∈ v.content, product_ok n = true := by
  simp only [vendor_element.well_nested, Bool.and_eq_true] at hw
  intro n hn
  simp only [vendor_element.content, List.mem_append, List.mem_flatten, List.mem_map] at hn
  rcases hn with hn | ⟨l, ⟨p, hp, rfl⟩, hn⟩
  · exact product_ok_of_level n (by rw [tree_level_fillers _ hw.1 n hn]; decide)
  · exact product_nodes_ok p (List.all_eq_true.mp hw.2 p hp) (hparts p hp) n hn

theorem vendor_content_names (v : vendor_element) (hw : v.well_nested = true) :
    ∀ n ∈ v.content, n.localName ≠ TAG_VENDOR_STR := by
  simp only [vendor_element.well_nested, Bool.and_eq_true] at hw
  intro n hn
  simp only [vendor_element.content, List.mem_append] at hn
  rcases hn with hn | hn
  · exact (node_within_filler 0 n (List.all_eq_true.mp hw.1 n hn)).2
  · exact (products_within _ hw.2 n hn).2

theorem vendor_content_ordered (v : vendor_element) (hw : v.well_nested = true) :
    levels_ordered false false false false v.content = true := by
  simp only [vendor_element.well_nested, Bool.and_eq_true] at hw
  have h := levels_ordered_products false false false v.products [] hw.2 false rfl
  rw [List.append_nil] at h
  rw [vendor_element.content, levels_ordered_pass _ _ _ _ _ _ (tree_level_fillers _ hw.1)]
  exact h

theorem vendor_content_attached (v : vendor_element) (hw : v.well_nested = true) :
    attached_products v.content = v.products.map product_element.tree := by
  simp only [vendor_element.well_nested, Bool.and_eq_true] at hw
  have h := attached_products_elements v.products [] hw.2 (quiet_nil 4)
  rw [List.append_nil] at h
  rw [vendor_element.content,
    attached_products_pass _ _ (level_lt_of_zero 5 _ (by decide) (tree_level_fillers _ hw.1)),
    h]
  exact List.append_nil _

/-- C23, counterexample. A well-nested vendor element with one product whose
part code is "x": `cpe_vendor_parse` returns no vendor at all, on the start tag
of that product. -/
theorem cpe_vendor_parse_nesting_counterexample :
    bad_part_vendor_element.well_nested = true
    ∧ bad_part_vendor_element.nodes
      = [start_tag "vendor" [("value", "v")],
         empty_tag "product" [("value", "p"), ("part", "x")], end_tag "vendor"]
    ∧ cpe_vendor_parse 3
        (on_nodes [] (bad_part_vendor_element.nodes ++ [end_tag "component-tree"]))
      = .done (state_at (empty_tag "product" [("value", "p"), ("part", "x")])
          [end_tag "vendor", end_tag "component-tree"], none) := by
  refine ⟨by decide, by decide, ?_⟩
  decide

/-- C23, amended. Vendor tree construction: for every well-nested vendor
element (products directly under the vendor, versions under products, updates
under versions, editions under updates, languages under editions, and between
them any nodes that are not named like these) that has at least one child
element and whose products carry a part code that is accepted (none, or "h",
"o", "a" in any case), `cpe_vendor_parse`, given more fuel than the vendor has
nodes in its content, returns on the end tag of the vendor a vendor whose tree
mirrors the nesting of the document: each product, version, update, edition
and language is attached, in document order, to the node of its enclosing
parent element and carries the "value" attribute of its element; the vendor
carries its own. -/
theorem cpe_vendor_parse_mirrors_nesting (fuel : Nat) (errors : List String)
    (v : vendor_element) (tail : List xmlNode)
    (hnested : v.well_nested = true)
    (hchild : ∃ n ∈ v.content, n.type = XML_READER_TYPE_ELEMENT)
    (hparts : ∀ p ∈ v.products, (cpe_product_parse_part p.part_code).isSome = true)
    (hfuel : v.content.length < fuel) :
    ∃ ret, cpe_vendor_parse fuel (on_nodes errors (v.nodes ++ tail))
        = .done ({ reader := { cur := some (xml_end TAG_VENDOR_STR v.head.nspace v.head.lang),
                               rest := tail },
                   errors := errors }, some ret)
      ∧ ret.products = v.products.map product_element.tree
      ∧ ret.value = v.head.value
      ∧ ret.xml = { lang := none, nspace := v.head.nspace, URI := none } := by
  have hne : v.content.isEmpty = false := by
    obtain ⟨n, hn, _⟩ := hchild
    cases hc : v.content with
    | nil => rw [hc] at hn; simp at hn
    | cons a as => rfl
  have hnodes : v.nodes ++ tail
      = xml_element TAG_VENDOR_STR v.head.nspace v.head.lang v.head.attrs false
        :: (v.content ++ xml_end TAG_VENDOR_STR v.head.nspace v.head.lang :: tail) := by
    simp [vendor_element.nodes, enclosed_nodes, closing_nodes, hne]
  rw [hnodes, on_nodes_cons]
  obtain ⟨ret, hret, hproducts, hvalue, hxml⟩ := cpe_vendor_parse_attached fuel
    { reader := { cur := some (xml_element TAG_VENDOR_STR v.head.nspace v.head.lang
                    v.head.attrs false),
                  rest := v.content ++ xml_end TAG_VENDOR_STR v.head.nspace v.head.lang :: tail },
      errors := errors }
    _ _ v.content tail rfl rfl rfl (vendor_content_names v hnested) (Or.inl hchild) rfl
    (vendor_content_ordered v hnested) (vendor_content_ok v hnested hparts) hfuel
  exact ⟨ret, hret, by rw [hproducts, vendor_content_attached v hnested], hvalue, hxml⟩

theorem cpe_vendor_parse_mirrors_nesting_witness :
    nested_vendor_element.well_nested = true
    ∧ (∃ n ∈ nested_vendor_element.content, n.type = XML_READER_TYPE_ELEMENT)
    ∧ ∃ ret, cpe_vendor_parse 21
          (on_nodes [] (nested_vendor_element.nodes ++ [end_tag "component-tree"]))
        = .done ({ reader := { cur := some (end_tag "vendor"),
                               rest := [end_tag "component-tree"] },
                   errors := [] }, some ret)
      ∧ ret.products
        = [{ xml := xml_metadata_new, value := some "p1", part := CPE_PART_APP,
             versions :=
               [{ xml := xml_metadata_new, value := some "1.0",
                  updates :=
                    [{ xml := xml_metadata_new, value := some "sp1",
                       editions :=
                         [{ xml := xml_metadata_new, value := some "pro",
                            languages :=
                              [{ xml := { lang := some "en", nspace := none, URI := none },
                                 value := some "english" },
                               { xml := { lang := some "fr", nspace := none, URI := none },
                                 value := some "french" }] }] }] }] },
           { xml := xml_metadata_new, value := some "p2", part := CPE_PART_NONE,
             versions := [] }]
      ∧ ret.value = some "v"
      ∧ ret.xml = { lang := none, nspace := none, URI := none } :=
  ⟨by decide,
   ⟨start_tag "title" [], by decide, rfl⟩,
   cpe_vendor_parse_mirrors_nesting 21 [] nested_vendor_element [end_tag "component-tree"]
     (by decide) ⟨start_tag "title" [], by decide, rfl⟩ (by decide) (by decide)⟩

/-! ## C30 -/

theorem cpe_vendor_parse_loop_end_of_stream (errors : List String) :
    ∀ (fuel : Nat) (loc : vendor_locals),
      cpe_vendor_parse_loop fuel { reader := { cur := none, rest := [] }, errors := errors } loc
        = .timeout := by
  intro fuel
  induction fuel with
  | zero => intro loc; rfl
  | succ fuel ih =>
    intro loc
    rw [cpe_vendor_parse_loop]
    have hbody : cpe_vendor_parse_body { cur := none, rest := [] } loc = .next_node loc := by
      unfold cpe_vendor_parse_body
      simp [xmlTextReaderNodeType]
    simp only [xmlTextReaderConstLocalName, xmlStrcmp, hbody]
    exact ih loc

theorem on_nodes_nil (errors : List String) :
    on_nodes errors [] = { reader := { cur := none, rest := [] }, errors := errors } :=
  rfl

theorem next_element_drop (rest : List xmlNode) :
    (xmlTextReaderNextElement_loop rest).2
      = (xmlTextReaderRead
          { cur := none,
            rest := rest.dropWhile (fun n => n.type != XML_READER_TYPE_ELEMENT) }).2 := by
  induction rest with
  | nil => rfl
  | cons n ns ih =>
    by_cases hn : n.type = XML_READER_TYPE_ELEMENT
    · simp [xmlTextReaderNextElement_loop, hn, xmlTextReaderRead, List.dropWhile]
    · have hd : (n :: ns).dropWhile (fun n => n.type != XML_READER_TYPE_ELEMENT)
          = ns.dropWhile (fun n => n.type != XML_READER_TYPE_ELEMENT) := by
        rw [List.dropWhile_cons]
        simp [hn]
      rw [hd, ← ih]
      simp [xmlTextReaderNextElement_loop, hn]

theorem vendor_walk_split (rest : List xmlNode) :
    rest.dropWhile (fun n => n.type != XML_READER_TYPE_ELEMENT)
      = vendor_walk rest ++ vendor_walk_end rest :=
  (List.takeWhile_append_dropWhile _ _).symm

theorem vendor_walk_names (rest : List xmlNode) :
    ∀ n ∈ vendor_walk rest, n.localName ≠ TAG_VENDOR_STR := by
  intro n hn
  have := List.mem_takeWhile_imp hn
  simpa using this

theorem vendor_walk_end_cases (rest : List xmlNode) :
    vendor_walk_end rest = []
    ∨ ∃ stop tail, vendor_walk_end rest = stop :: tail ∧ stop.localName = TAG_VENDOR_STR := by
  unfold vendor_walk_end
  generalize rest.dropWhile (fun n => n.type != XML_READER_TYPE_ELEMENT) = xs
  induction xs with
  | nil => left; rfl
  | cons n ns ih =>
    by_cases hn : n.localName = TAG_VENDOR_STR
    · right
      refine ⟨n, ns, ?_, hn⟩
      rw [List.dropWhile_cons]
      simp [hn]
    · have hd : (n :: ns).dropWhile (fun n => n.localName != TAG_VENDOR_STR)
          = ns.dropWhile (fun n => n.localName != TAG_VENDOR_STR) := by
        rw [List.dropWhile_cons]
        simp [hn]
      rw [hd]
      exact ih

/-- The start of `cpe_vendor_parse`: the loop begins on the first start tag
after the start tag of the vendor. -/
theorem cpe_vendor_parse_walk (fuel : Nat) (st : parser_state) (vendor_tag : xmlNode)
    (hcur : st.reader.cur = some vendor_tag) (hvendor : vendor_tag.localName = TAG_VENDOR_STR) :
    cpe_vendor_parse fuel st
      = cpe_vendor_parse_loop fuel
          (on_nodes st.errors (vendor_walk st.reader.rest ++ vendor_walk_end st.reader.rest))
          { ret := { cpe_vendor_new with
              xml := { lang := none, nspace := vendor_tag.nspace, URI := none },
              value := vendor_tag.attribute ATTR_VALUE_STR },
            product := none, version := none, update := none, edition := none } := by
  rw [← vendor_walk_split]
  unfold cpe_vendor_parse on_nodes
  simp [xmlTextReaderConstLocalName, hcur, hvendor, xmlStrcmp, parser_state.next_element,
    xmlTextReaderNextElement, xmlTextReaderPrefix, xmlTextReaderGetAttribute, next_element_drop]

theorem pending_nil_products (loc : vendor_locals) :
    (loc.pending []).products = loc.ret.products := by
  simp [vendor_locals.pending, attached_languages, attached_editions, attached_updates,
    attached_versions, attached_products, pending_languages_nil, pending_editions_nil,
    pending_updates_nil, pending_versions_nil]

theorem cpe_vendor_parse_body_rejected (n : xmlNode) (xs : List xmlNode) (loc : vendor_locals)
    (h : ¬ product_ok n = true) :
    cpe_vendor_parse_body { cur := some n, rest := xs } loc = .return_null := by
  simp only [product_ok, Bool.or_eq_true, bne_iff_ne, ne_eq, not_or, not_not,
    Bool.not_eq_true] at h
  obtain ⟨⟨hbad, hname⟩, hsome⟩ := h
  have hpart : cpe_product_parse_part (n.attribute ATTR_PART_STR) = none := by
    cases hp : cpe_product_parse_part (n.attribute ATTR_PART_STR) with
    | none => rfl
    | some part => rw [hp] at hsome; simp at hsome
  unfold cpe_vendor_parse_body
  have ht : ¬ TAG_PRODUCT_STR = TAG_TITLE_STR := by decide
  simp [xmlTextReaderNodeType, xmlTextReaderConstLocalName, xmlStrcmp, hbad, hname, ht,
    xmlTextReaderGetAttribute, hpart]

/-- In a stream where no node comes before its parent level, whether the walk
ends on a node named "vendor" or the stream ends first, the loop of
`cpe_vendor_parse` does not dereference an absent pointer, and a vendor that it
answers has every node attached to the latest node of its parent level. -/
theorem cpe_vendor_parse_loop_walk (errors : List String) (after : List xmlNode)
    (hafter : after = []
      ∨ ∃ stop tail, after = stop :: tail ∧ stop.localName = TAG_VENDOR_STR) :
    ∀ (body : List xmlNode) (loc : vendor_locals) (p v u e : Bool) (fuel : Nat),
      (∀ n ∈ body, n.localName ≠ TAG_VENDOR_STR) →
      levels_ordered p v u e body = true → loc.opened p v u e → loc.valid →
      cpe_vendor_parse_loop fuel (on_nodes errors (body ++ after)) loc ≠ .crash
      ∧ ∀ st1 ret, cpe_vendor_parse_loop fuel (on_nodes errors (body ++ after)) loc
            = .done (st1, some ret) →
          ret.products = (loc.pending body).products := by
  intro body
  induction body with
  | nil =>
    intro loc p v u e fuel _ _ _ _
    rcases hafter with rfl | ⟨stop, tail, rfl, hstop⟩
    · rw [List.append_nil, on_nodes_nil, cpe_vendor_parse_loop_end_of_stream errors fuel loc]
      exact ⟨by simp, fun _ _ h => by simp at h⟩
    · cases fuel with
      | zero => simp [cpe_vendor_parse_loop]
      | succ fuel =>
        rw [List.nil_append, on_nodes_cons, cpe_vendor_parse_loop]
        simp only [xmlTextReaderConstLocalName, Option.map_some', xmlStrcmp, hstop, ne_eq,
          not_true_eq_false, decide_False, Bool.false_eq_true, ↓reduceIte]
        refine ⟨by simp, fun st1 ret h => ?_⟩
        simp only [Res.done.injEq, Prod.mk.injEq, Option.some.injEq] at h
        rw [← h.2, pending_nil_products]
  | cons n rest ih =>
    intro loc p v u e fuel hname hord hloc hvalid
    cases fuel with
    | zero => simp [cpe_vendor_parse_loop]
    | succ fuel =>
      have hn := hname n (by simp)
      by_cases hok : product_ok n = true
      · obtain ⟨loc1, p1, v1, u1, e1, hbody, hopen, hrest, hvalid1, hpend⟩ :=
          cpe_vendor_parse_body_attached n (rest ++ after) rest loc p v u e hok hord hloc
            hvalid
        rw [List.cons_append, cpe_vendor_parse_loop_step fuel errors n _ loc loc1 hn hbody,
          ← hpend]
        exact ih loc1 p1 v1 u1 e1 fuel (fun m hm => hname m (by simp [hm])) hrest hopen hvalid1
      · have hnull := cpe_vendor_parse_body_rejected n (rest ++ after) loc hok
        rw [List.cons_append, on_nodes_cons, cpe_vendor_parse_loop]
        simp [xmlTextReaderConstLocalName, xmlStrcmp, hn, hnull]

/-- C30. No missing ancestor in the vendor walk: on a `vendor` start tag, when
among the nodes that the walk reads (from the first start tag after it up to
the next node named "vendor", the end of the vendor) each version, update,
edition and language start tag comes after a start tag of its parent level
(product, version, update, edition), `cpe_vendor_parse` never attaches a node
to an absent ancestor: it does not dereference a null pointer, whatever the
fuel; and in a vendor that it returns every product, version, update, edition
and language is attached to the latest node of its parent level before it in
the stream, also when that node belongs to an earlier product. It does return
such a vendor, on the node named "vendor" that ends the walk, when the part
codes of the products are accepted and the fuel exceeds the number of nodes
walked. -/
theorem cpe_vendor_parse_latest_parent (st : parser_state) (vendor_tag : xmlNode)
    (hcur : st.reader.cur = some vendor_tag) (hvendor : vendor_tag.localName = TAG_VENDOR_STR)
    (hord : levels_ordered false false false false (vendor_walk st.reader.rest) = true) :
    (∀ fuel, cpe_vendor_parse fuel st ≠ .crash)
    ∧ (∀ fuel st1 ret, cpe_vendor_parse fuel st = .done (st1, some ret) →
        ret.products = attached_products (vendor_walk st.reader.rest))
    ∧ (∀ stop tail fuel, vendor_walk_end st.reader.rest = stop :: tail →
        (∀ n ∈ vendor_walk st.reader.rest, product_ok n = true) →
        (vendor_walk st.reader.rest).length < fuel →
        ∃ ret, cpe_vendor_parse fuel st
          = .done ({ reader := { cur := some stop, rest := tail }, errors := st.errors },
              some ret)) := by
  refine ⟨fun fuel => ?_, fun fuel st1 ret h => ?_, fun stop tail fuel hend hok hfuel => ?_⟩
  · rw [cpe_vendor_parse_walk fuel st vendor_tag hcur hvendor]
    exact (cpe_vendor_parse_loop_walk st.errors _ (vendor_walk_end_cases st.reader.rest) _ _
      false false false false fuel (vendor_walk_names st.reader.rest) hord
      (vendor_locals_start_opened _) (vendor_locals_start_valid _)).1
  · rw [cpe_vendor_parse_walk fuel st vendor_tag hcur hvendor] at h
    rw [(cpe_vendor_parse_loop_walk st.errors _ (vendor_walk_end_cases st.reader.rest) _ _
      false false false false fuel (vendor_walk_names st.reader.rest) hord
      (vendor_locals_start_opened _) (vendor_locals_start_valid _)).2 st1 ret h,
      vendor_locals_start_pending _ _ rfl]
  · have hstop : stop.localName = TAG_VENDOR_STR := by
      rcases vendor_walk_end_cases st.reader.rest with h | ⟨s, t, h, hs⟩
      · rw [h] at hend
        simp at hend
      · rw [h] at hend
        simp only [List.cons.injEq] at hend
        rw [← hend.1]
        exact hs
    obtain ⟨ret, hloop, _⟩ := cpe_vendor_parse_loop_attached stop tail st.errors hstop
      (vendor_walk st.reader.rest) _ false false false false fuel
      (vendor_walk_names st.reader.rest) hok hord (vendor_locals_start_opened _)
      (vendor_locals_start_valid _) hfuel
    exact ⟨ret, by rw [cpe_vendor_parse_walk fuel st vendor_tag hcur hvendor, hend, hloop]⟩

theorem cpe_vendor_parse_latest_parent_witness :
    vendor_walk crossing_vendor_state.reader.rest
      = [start_tag "product" [("value", "a"), ("part", "a")],
         empty_tag "version" [("value", "1")],
         end_tag "product",
         start_tag "product" [("value", "b")],
         empty_tag "update" [("value", "u1")],
         end_tag "product"]
    ∧ levels_ordered false false false false (vendor_walk crossing_vendor_state.reader.rest)
        = true
    ∧ (∀ fuel, cpe_vendor_parse fuel crossing_vendor_state ≠ .crash)
    ∧ (∀ fuel st1 ret, cpe_vendor_parse fuel crossing_vendor_state = .done (st1, some ret) →
        ret.products
          = [{ xml := xml_metadata_new, value := some "a", part := CPE_PART_APP,
               versions := [{ xml := xml_metadata_new, value := some "1",
                              updates := [{ xml := xml_metadata_new, value := some "u1",
                                            editions := [] }] }] },
             { xml := xml_metadata_new, value := some "b", part := CPE_PART_NONE,
               versions := [] }])
    ∧ ∃ ret, cpe_vendor_parse 7 crossing_vendor_state
        = .done ({ reader := { cur := some (end_tag "vendor"),
                               rest := [end_tag "component-tree"] },
                   errors := [] }, some ret) :=
  ⟨by decide, by decide,
   (cpe_vendor_parse_latest_parent crossing_vendor_state (start_tag "vendor" [("value", "v")])
      rfl rfl (by decide)).1,
   (cpe_vendor_parse_latest_parent crossing_vendor_state (start_tag "vendor" [("value", "v")])
      rfl rfl (by decide)).2.1,
   (cpe_vendor_parse_latest_parent crossing_vendor_state (start_tag "vendor" [("value", "v")])
      rfl rfl (by decide)).2.2 (end_tag "vendor") [end_tag "component-tree"] 7 (by decide)
      (by decide) (by decide)⟩

/-! ## C35 -/

/-- C35. `cpe_dict_model_add_item` returns false and leaves the dictionary as
it is when the dictionary or the item is absent; otherwise it returns true and
the item list of the dictionary becomes the old list with the item appended at
the end, every other field of the dictionary unchanged. -/
theorem cpe_dict_model_add_item_effect :
    (∀ item : Option cpe_item, cpe_dict_model_add_item none item = (false, none))
    ∧ (∀ dict : cpe_dict_model, cpe_dict_model_add_item (some dict) none = (false, some dict))
    ∧ (∀ (dict : cpe_dict_model) (item : cpe_item),
        ∃ dict1, cpe_dict_model_add_item (some dict) (some item) = (true, some dict1)
          ∧ dict1.items = dict.items ++ [item]
          ∧ dict1.xmlns = dict.xmlns ∧ dict1.xml = dict.xml
          ∧ dict1.vendors = dict.vendors ∧ dict1.generator = dict.generator) := by
  refine ⟨fun item => ?_, fun dict => rfl, fun dict item => ⟨_, rfl, rfl, rfl, rfl, rfl, rfl⟩⟩
  cases item <;> rfl

/-! ## C31 -/

/-- C31. Part code round trip: `cpe_product_export` writes the "part"
attribute with the text `PART_TO_CHAR[p]`, "h", "o" or "a", for a product
whose part `p` is hardware, operating system or application, and no "part"
attribute for the part unspecified; the text written is mapped back to `p` by
the part mapping of `cpe_vendor_parse`, the absent attribute to unspecified; and
the product branch of `cpe_vendor_parse`, on a `product` start tag that carries
the attributes written for a product of part `p`, adds a product of part `p`. -/
theorem part_code_round_trip :
    PART_TO_CHAR CPE_PART_HW = some "h" ∧ PART_TO_CHAR CPE_PART_OS = some "o"
    ∧ PART_TO_CHAR CPE_PART_APP = some "a" ∧ PART_TO_CHAR CPE_PART_NONE = none
    ∧ (∀ product : cpe_product,
        cpe_product_export_part product
          = (optional_attribute ATTR_PART_STR (PART_TO_CHAR product.part)).map
              (fun a => WriteAttribute (some a.1) (some a.2)))
    ∧ (∀ p : cpe_part_t, cpe_product_parse_part (PART_TO_CHAR p) = some p)
    ∧ (∀ (p : cpe_part_t) (nspace lang value : Option String) (isEmpty : Bool)
        (rest : List xmlNode) (loc : vendor_locals),
        cpe_vendor_parse_body
            { cur := some (xml_element TAG_PRODUCT_STR nspace lang
                (optional_attribute ATTR_VALUE_STR value
                  ++ optional_attribute ATTR_PART_STR (PART_TO_CHAR p)) isEmpty),
              rest := rest } loc
          = .next_node { loc with
              ret := { loc.ret with products := loc.ret.products ++
                [{ xml := { lang := lang, nspace := nspace, URI := none }, value := value,
                   part := p, versions := [] }] },
              product := some loc.ret.products.length }) := by
  refine ⟨rfl, rfl, rfl, rfl, fun product => ?_, fun p => ?_,
    fun p nspace lang value isEmpty rest loc => ?_⟩
  · cases hp : product.part <;> simp [cpe_product_export_part, hp, PART_TO_CHAR, optional_attribute]
  · cases p <;> decide
  · have hv : xmlTextReaderGetAttribute
        { cur := some (xml_element TAG_PRODUCT_STR nspace lang
            (optional_attribute ATTR_VALUE_STR value
              ++ optional_attribute ATTR_PART_STR (PART_TO_CHAR p)) isEmpty),
          rest := rest } ATTR_VALUE_STR = value := by
      cases value <;> cases p <;> rfl
    have ha : xmlTextReaderGetAttribute
        { cur := some (xml_element TAG_PRODUCT_STR nspace lang
            (optional_attribute ATTR_VALUE_STR value
              ++ optional_attribute ATTR_PART_STR (PART_TO_CHAR p)) isEmpty),
          rest := rest } ATTR_PART_STR = PART_TO_CHAR p := by
      cases value <;> cases p <;> rfl
    have hp : cpe_product_parse_part (PART_TO_CHAR p) = some p := by
      cases p <;> decide
    have h1 : xmlStrcmp (some TAG_PRODUCT_STR) TAG_TITLE_STR = true := by decide
    have h2 : xmlStrcmp (some TAG_PRODUCT_STR) TAG_PRODUCT_STR = false := by decide
    unfold cpe_vendor_parse_body
    simp only [hv, ha, hp]
    simp [xmlTextReaderNodeType, xmlTextReaderConstLocalName, xml_element, h1, h2,
      xmlTextReaderConstXmlLang, xmlTextReaderPrefix, cpe_product_new]

/-! ## C33 -/

theorem same_but_deprecated_find (name : String) (hname : name ≠ ATTR_DEPRECATED_STR) :
    ∀ (a b : List (String × String)), same_but_deprecated a b = true →
      (a.find? (fun x => x.1 == name)).map (fun x => x.2)
        = (b.find? (fun x => x.1 == name)).map (fun x => x.2) := by
  intro a
  induction a with
  | nil =>
    intro b h
    cases b with
    | nil => rfl
    | cons y ys => simp [same_but_deprecated] at h
  | cons x xs ih =>
    intro b h
    cases b with
    | nil => simp [same_but_deprecated] at h
    | cons y ys =>
      simp only [same_but_deprecated, Bool.and_eq_true, Bool.or_eq_true, beq_iff_eq] at h
      obtain ⟨⟨h1, h2⟩, h3⟩ := h
      by_cases hx : x.1 = name
      · have hy : y.1 = name := h1 ▸ hx
        have hv : x.2 = y.2 := by
          rcases h2 with h2 | h2
          · exact absurd (hx ▸ h2) hname
          · exact h2
        simp [List.find?, hx, hy, hv]
      · have hy : ¬ y.1 = name := h1 ▸ hx
        have hbx : (x.1 == name) = false := by simp [hx]
        have hby : (y.1 == name) = false := by simp [hy]
        rw [List.find?_cons, List.find?_cons, hbx, hby]
        exact ih ys h3

theorem same_but_deprecated_flag :
    ∀ (a b : List (String × String)), same_but_deprecated a b = true →
      ((a.find? (fun x => x.1 == ATTR_DEPRECATED_STR)).map (fun x => x.2)).isSome
        = ((b.find? (fun x => x.1 == ATTR_DEPRECATED_STR)).map (fun x => x.2)).isSome := by
  intro a
  induction a with
  | nil =>
    intro b h
    cases b with
    | nil => rfl
    | cons y ys => simp [same_but_deprecated] at h
  | cons x xs ih =>
    intro b h
    cases b with
    | nil => simp [same_but_deprecated] at h
    | cons y ys =>
      simp only [same_but_deprecated, Bool.and_eq_true, Bool.or_eq_true, beq_iff_eq] at h
      obtain ⟨⟨h1, _⟩, h3⟩ := h
      by_cases hx : x.1 = ATTR_DEPRECATED_STR
      · have hy : y.1 = ATTR_DEPRECATED_STR := h1 ▸ hx
        simp [List.find?, hx, hy]
      · have hy : ¬ y.1 = ATTR_DEPRECATED_STR := h1 ▸ hx
        have hbx : (x.1 == ATTR_DEPRECATED_STR) = false := by simp [hx]
        have hby : (y.1 == ATTR_DEPRECATED_STR) = false := by simp [hy]
        rw [List.find?_cons, List.find?_cons, hbx, hby]
        exact ih ys h3

/-- The reading of the attributes of a `cpe-item` start tag does not depend on
the value of the "deprecated" attribute. -/
theorem cpe_item_parse_attrs_flag (codec : cpe_codec) (n m : xmlNode) (xs ys : List xmlNode)
    (h : n.same_but_deprecated m = true) :
    cpe_item_parse_attrs codec { cur := some n, rest := xs }
      = cpe_item_parse_attrs codec { cur := some m, rest := ys } := by
  simp only [xmlNode.same_but_deprecated, Bool.and_eq_true, beq_iff_eq] at h
  obtain ⟨⟨⟨⟨⟨⟨_, _⟩, hns⟩, hlang⟩, _⟩, _⟩, hattrs⟩ := h
  have hget : ∀ name, name ≠ ATTR_DEPRECATED_STR →
      xmlTextReaderGetAttribute { cur := some n, rest := xs } name
        = xmlTextReaderGetAttribute { cur := some m, rest := ys } name :=
    fun name hname => same_but_deprecated_find name hname _ _ hattrs
  have hflag : (xmlTextReaderGetAttribute { cur := some n, rest := xs } ATTR_DEPRECATED_STR).isSome
      = (xmlTextReaderGetAttribute { cur := some m, rest := ys } ATTR_DEPRECATED_STR).isSome :=
    same_but_deprecated_flag _ _ hattrs
  have hl : xmlTextReaderConstXmlLang { cur := some n, rest := xs }
      = xmlTextReaderConstXmlLang { cur := some m, rest := ys } := hlang
  have hp : xmlTextReaderPrefix { cur := some n, rest := xs }
      = xmlTextReaderPrefix { cur := some m, rest := ys } := hns
  unfold cpe_item_parse_attrs
  rw [hget ATTR_NAME_STR (by decide), hget ATTR_DEPRECATED_BY_STR (by decide),
    hget ATTR_DEPRECATION_DATE_STR (by decide), hl, hp]
  cases h1 : xmlTextReaderGetAttribute { cur := some n, rest := xs } ATTR_DEPRECATED_STR <;>
    cases h2 : xmlTextReaderGetAttribute { cur := some m, rest := ys } ATTR_DEPRECATED_STR <;>
    simp_all

theorem cpe_item_parse_attrs_unflagged (codec : cpe_codec) (reader : xmlTextReader)
    (ret : cpe_item) (hflag : xmlTextReaderGetAttribute reader ATTR_DEPRECATED_STR = none)
    (h : cpe_item_parse_attrs codec reader = some ret) :
    ret.deprecated = none ∧ ret.deprecation_date = none := by
  unfold cpe_item_parse_attrs at h
  simp only [hflag] at h
  cases hname : xmlTextReaderGetAttribute reader ATTR_NAME_STR <;>
    simp only [hname, Option.some.injEq] at h <;> subst h <;> exact ⟨rfl, rfl⟩

/-- C33. Only the presence of the deprecation flag matters: on two `cpe-item`
start tags that differ only in the value of their "deprecated" attribute,
followed by the same nodes, `cpe_item_parse` has the same outcome, with any
fuel: the same entry with the cursor on the same node, or no entry for both
(when the deprecation attributes are incomplete, each cursor staying on its
start tag); and on a start tag without "deprecated" attribute an entry that
`cpe_item_parse` returns has no deprecated identifier and no deprecation date,
whatever other attributes the tag has. -/
theorem cpe_item_parse_deprecated_presence (codec : cpe_codec) (fuel : Nat) :
    (∀ (st1 st2 : parser_state) (n1 n2 : xmlNode),
      st1.reader.cur = some n1 → st2.reader.cur = some n2 →
      st1.reader.rest = st2.reader.rest → st1.errors = st2.errors →
      n1.same_but_deprecated n2 = true →
      cpe_item_parse codec fuel st1 = cpe_item_parse codec fuel st2
      ∨ (cpe_item_parse codec fuel st1 = .done (st1, none)
          ∧ cpe_item_parse codec fuel st2 = .done (st2, none)))
    ∧ (∀ (st st1 : parser_state) (n : xmlNode) (item : cpe_item),
      st.reader.cur = some n → n.attribute ATTR_DEPRECATED_STR = none →
      cpe_item_parse codec fuel st = .done (st1, some item) →
      item.deprecated = none ∧ item.deprecation_date = none) := by
  refine ⟨fun st1 st2 n1 n2 hc1 hc2 hrest herrors hsame => ?_,
    fun st st1 n item hcur hflag h => ?_⟩
  · obtain ⟨⟨c1, r1⟩, e1⟩ := st1
    obtain ⟨⟨c2, r2⟩, e2⟩ := st2
    simp only at hc1 hc2 hrest herrors
    subst hc1 hc2 hrest herrors
    have hattrs := cpe_item_parse_attrs_flag codec n1 n2 r1 r1 hsame
    have hsame1 := hsame
    simp only [xmlNode.same_but_deprecated, Bool.and_eq_true, beq_iff_eq] at hsame1
    obtain ⟨⟨⟨⟨⟨⟨htype, hname⟩, _⟩, _⟩, _⟩, _⟩, _⟩ := hsame1
    unfold cpe_item_parse
    simp only [xmlTextReaderConstLocalName, Option.map_some', xmlTextReaderNodeType, htype,
      hname, hattrs, parser_state.next_element, xmlTextReaderNextElement]
    split
    · cases cpe_item_parse_attrs codec { cur := some n2, rest := r1 } with
      | none => right; exact ⟨rfl, rfl⟩
      | some ret => left; rfl
    · right; exact ⟨rfl, rfl⟩
  · have hget : xmlTextReaderGetAttribute st.reader ATTR_DEPRECATED_STR = none := by
      simp only [xmlTextReaderGetAttribute, hcur, Option.some_bind]
      exact hflag
    unfold cpe_item_parse at h
    simp only at h
    split at h
    · cases hattrs : cpe_item_parse_attrs codec st.reader with
      | none => simp [hattrs] at h
      | some ret =>
        simp only [hattrs] at h
        obtain ⟨_, h1, h2, _⟩ := cpe_item_parse_loop_keeps fuel _ ret st1 item h
        obtain ⟨h3, h4⟩ := cpe_item_parse_attrs_unflagged codec st.reader ret hget hattrs
        exact ⟨by rw [h1, h3], by rw [h2, h4]⟩
    · simp at h

theorem cpe_item_parse_deprecated_presence_witness :
    (cpe_item_parse sample_codec 3 (state_at (flagged_entry_tag "true") flagged_entry_rest)
        = cpe_item_parse sample_codec 3 (state_at (flagged_entry_tag "false") flagged_entry_rest)
      ∨ (cpe_item_parse sample_codec 3 (state_at (flagged_entry_tag "true") flagged_entry_rest)
            = .done (state_at (flagged_entry_tag "true") flagged_entry_rest, none)
          ∧ cpe_item_parse sample_codec 3 (state_at (flagged_entry_tag "false") flagged_entry_rest)
            = .done (state_at (flagged_entry_tag "false") flagged_entry_rest, none)))
    ∧ cpe_item_parse sample_codec 3 (state_at (flagged_entry_tag "false") flagged_entry_rest)
      = .done (state_at (empty_tag "cpe-item" [("name", "cpe:/a:b:c:3")]) [end_tag "cpe-list"],
          some { cpe_item_new with
            name := some { uri := "cpe:/a:b:c:1" },
            deprecated := some { uri := "cpe:/a:b:c:2" },
            deprecation_date := some "2010-01-01",
            titles := [{ xml := xml_metadata_new, content := some "One" }] })
    ∧ unflagged_entry_tag.attribute ATTR_DEPRECATED_STR = none
    ∧ cpe_item_parse sample_codec 3 (state_at unflagged_entry_tag flagged_entry_rest)
      = .done (state_at (empty_tag "cpe-item" [("name", "cpe:/a:b:c:3")]) [end_tag "cpe-list"],
          some { cpe_item_new with
            name := some { uri := "cpe:/a:b:c:1" },
            titles := [{ xml := xml_metadata_new, content := some "One" }] })
    ∧ (∀ st1 item,
        cpe_item_parse sample_codec 3 (state_at unflagged_entry_tag flagged_entry_rest)
          = .done (st1, some item) →
        item.deprecated = none ∧ item.deprecation_date = none) :=
  ⟨(cpe_item_parse_deprecated_presence sample_codec 3).1
      (state_at (flagged_entry_tag "true") flagged_entry_rest)
      (state_at (flagged_entry_tag "false") flagged_entry_rest)
      (flagged_entry_tag "true") (flagged_entry_tag "false") rfl rfl rfl rfl (by decide),
   by decide, by decide, by decide,
   fun st1 item h => (cpe_item_parse_deprecated_presence sample_codec 3).2
      (state_at unflagged_entry_tag flagged_entry_rest) st1 unflagged_entry_tag item rfl
      (by decide) h⟩

/-! ## C32 -/

/-- C32, the code at the failing input. The reference read from
`<reference href="http://example.org" xml:lang="en">text</reference>` has an
address, a text and a language; for it `cpe_reference_export` writes the
attribute `xml:lang` after the text of the element. -/
theorem cpe_reference_export_attribute_after_text :
    cpe_reference_parse lang_text_reference_reader = some lang_text_reference
    ∧ cpe_reference_export lang_text_reference
      = [StartElementNS none "reference",
         WriteAttribute (some "href") (some "http://example.org"),
         WriteString "text",
         WriteAttribute (some "xml:lang") (some "en"),
         EndElement]
    ∧ attributes_first (cpe_reference_export lang_text_reference) = false := by
  refine ⟨by decide, by decide, by decide⟩

/-! ### The other elements -/

theorem attributes_first_append (xs ys : List xmlTextWriterCall)
    (hy : attributes_first_inside ys) :
    ∀ stack, attributes_first_go stack xs = true →
      attributes_first_go stack (xs ++ ys) = true := by
  induction xs with
  | nil => intro stack _; exact hy stack
  | cons c xs ih =>
    intro stack h
    cases c with
    | StartElementNS nspace name =>
      simp only [List.cons_append, attributes_first_go] at h ⊢
      exact ih _ h
    | EndElement =>
      simp only [List.cons_append, attributes_first_go] at h ⊢
      exact ih _ h
    | WriteString content =>
      cases stack with
      | nil =>
        simp only [List.cons_append, attributes_first_go] at h ⊢
        exact ih _ h
      | cons t stack =>
        simp only [List.cons_append, attributes_first_go] at h ⊢
        exact ih _ h
    | WriteAttribute name content =>
      cases stack with
      | nil =>
        simp only [List.cons_append, attributes_first_go] at h ⊢
        exact ih _ h
      | cons t stack =>
        simp only [List.cons_append, attributes_first_go, Bool.and_eq_true] at h ⊢
        exact ⟨h.1, ih _ h.2⟩

theorem attributes_first_inside_append (xs ys : List xmlTextWriterCall)
    (hx : attributes_first_inside xs) (hy : attributes_first_inside ys) :
    attributes_first_inside (xs ++ ys) :=
  fun stack => attributes_first_append xs ys hy stack (hx stack)

theorem attributes_first_inside_nil : attributes_first_inside [] :=
  fun _ => by simp [attributes_first_go]

theorem attributes_first_inside_end : attributes_first_inside [EndElement] :=
  fun _ => by simp [attributes_first_go]

theorem attributes_first_inside_flatten {α : Type} (f : α → List xmlTextWriterCall)
    (xs : List α) (h : ∀ x ∈ xs, attributes_first_inside (f x)) :
    attributes_first_inside (xs.map f).flatten := by
  induction xs with
  | nil => exact attributes_first_inside_nil
  | cons x xs ih =>
    rw [List.map_cons, List.flatten_cons]
    exact attributes_first_inside_append _ _ (h x (by simp))
      (ih (fun y hy => h y (by simp [hy])))

/-- An element written as its start, attribute calls, and then calls that
write attributes before text. -/
theorem attributes_first_inside_element (nspace : Option String) (name : String)
    (attrs rest : List xmlTextWriterCall)
    (hattrs : ∀ c ∈ attrs, ∃ n v, c = WriteAttribute n v)
    (hrest : ∀ stack, attributes_first_go (false :: stack) rest = true) :
    attributes_first_inside (StartElementNS nspace name :: (attrs ++ rest)) := by
  intro stack
  rw [attributes_first_go]
  induction attrs with
  | nil => exact hrest stack
  | cons c cs ih =>
    obtain ⟨n, v, rfl⟩ := hattrs c (by simp)
    rw [List.cons_append, attributes_first_go]
    simp only [Bool.not_false, Bool.true_and]
    exact ih (fun d hd => hattrs d (by simp [hd]))

theorem write_attribute_if_attributes (name : String) (field : Option String) :
    ∀ c ∈ write_attribute_if name field, ∃ n v, c = WriteAttribute n v := by
  intro c hc
  cases field with
  | none => simp [write_attribute_if] at hc
  | some text =>
    simp only [write_attribute_if, List.mem_singleton] at hc
    exact ⟨_, _, hc⟩

theorem attributes_append (xs ys : List xmlTextWriterCall)
    (hx : ∀ c ∈ xs, ∃ n v, c = WriteAttribute n v)
    (hy : ∀ c ∈ ys, ∃ n v, c = WriteAttribute n v) :
    ∀ c ∈ xs ++ ys, ∃ n v, c = WriteAttribute n v := by
  intro c hc
  rcases List.mem_append.mp hc with h | h
  · exact hx c h
  · exact hy c h

/-- The end of an element after its text, if any. -/
theorem attributes_first_text_end (field : Option String) :
    ∀ stack, attributes_first_go (false :: stack) (write_string_if field ++ [EndElement])
      = true := by
  intro stack
  cases field <;> simp [write_string_if, attributes_first_go]

/-- The end of an element after child elements that write attributes before
text. -/
theorem attributes_first_children_end (children : List xmlTextWriterCall)
    (h : attributes_first_inside children) :
    ∀ stack, attributes_first_go (false :: stack) (children ++ [EndElement]) = true :=
  fun _ => attributes_first_inside_append _ _ h attributes_first_inside_end _

theorem attributes_first_title (t : oscap_title) :
    attributes_first_inside (oscap_title_export t) := by
  have h := attributes_first_inside_element t.xml.nspace TAG_TITLE_STR
    (write_attribute_if ATTR_XML_LANG_STR t.xml.lang) (write_string_if t.content ++ [EndElement])
    (write_attribute_if_attributes _ _) (attributes_first_text_end _)
  simpa [oscap_title_export] using h

theorem attributes_first_note (t : oscap_title) :
    attributes_first_inside (cpe_note_export t) := by
  have h := attributes_first_inside_element t.xml.nspace TAG_NOTE_STR
    (write_attribute_if ATTR_XML_LANG_STR t.xml.lang) (write_string_if t.content ++ [EndElement])
    (write_attribute_if_attributes _ _) (attributes_first_text_end _)
  simpa [cpe_note_export] using h

theorem attributes_first_check (c : cpe_check) :
    attributes_first_inside (cpe_check_export c) := by
  have h := attributes_first_inside_element c.xml.nspace TAG_CHECK_STR
    (write_attribute_if ATTR_SYSTEM_STR c.system ++ write_attribute_if ATTR_HREF_STR c.href)
    (write_string_if c.identifier ++ [EndElement])
    (attributes_append _ _ (write_attribute_if_attributes _ _)
      (write_attribute_if_attributes _ _)) (attributes_first_text_end _)
  simpa [cpe_check_export] using h

/-- A reference is written with its attributes before its text when it has no
text or no language. -/
theorem attributes_first_reference (r : cpe_reference)
    (h : r.content = none ∨ r.xml.lang = none) :
    attributes_first_inside (cpe_reference_export r) := by
  intro stack
  rcases h with h | h
  · cases hh : r.href <;> cases hl : r.xml.lang <;>
      simp [cpe_reference_export, write_attribute_if, write_string_if, attributes_first_go,
        h, hh, hl]
  · cases hh : r.href <;> cases hc : r.content <;>
      simp [cpe_reference_export, write_attribute_if, write_string_if, attributes_first_go,
        h, hh, hc]

theorem attributes_first_metadata (m : cpe_item_metadata) :
    attributes_first_inside (cpe_item_metadata_export m) := by
  have h := attributes_first_inside_element m.xml.nspace TAG_ITEM_METADATA_STR
    (write_attribute_if ATTR_MODIFICATION_DATE_STR m.modification_date
      ++ write_attribute_if ATTR_STATUS_STR m.status
      ++ write_attribute_if ATTR_NVD_ID_STR m.nvd_id
      ++ write_attribute_if ATTR_DEP_BY_NVDID_STR m.deprecated_by_nvd_id)
    [EndElement]
    (attributes_append _ _ (attributes_append _ _ (attributes_append _ _
      (write_attribute_if_attributes _ _) (write_attribute_if_attributes _ _))
      (write_attribute_if_attributes _ _)) (write_attribute_if_attributes _ _))
    (fun _ => by simp [attributes_first_go])
  simpa [cpe_item_metadata_export] using h

theorem attributes_first_generator_field (nspace : Option String) (tag : String)
    (field : Option String) :
    attributes_first_inside (cpe_generator_export_field nspace tag field) := by
  intro stack
  cases field <;> simp [cpe_generator_export_field, attributes_first_go]

/-- An element written as its start, attribute calls, child elements that
write attributes before text, and its end. -/
theorem attributes_first_inside_wrapper (nspace : Option String) (name : String)
    (attrs children : List xmlTextWriterCall)
    (hattrs : ∀ c ∈ attrs, ∃ n v, c = WriteAttribute n v)
    (hchildren : attributes_first_inside children) :
    attributes_first_inside
      (StartElementNS nspace name :: (attrs ++ (children ++ [EndElement]))) :=
  attributes_first_inside_element nspace name attrs _ hattrs
    (attributes_first_children_end children hchildren)

theorem attributes_first_generator (g : cpe_generator) :
    attributes_first_inside (cpe_generator_export g) := by
  have h := attributes_first_inside_wrapper g.xml.nspace TAG_GENERATOR_STR []
    (cpe_generator_export_field g.xml.nspace TAG_PRODUCT_NAME_STR g.product_name
      ++ cpe_generator_export_field g.xml.nspace TAG_PRODUCT_VERSION_STR g.product_version
      ++ cpe_generator_export_field g.xml.nspace TAG_SCHEMA_VERSION_STR g.schema_version
      ++ cpe_generator_export_field g.xml.nspace TAG_TIMESTAMP_STR g.timestamp)
    (fun _ hc => by simp at hc)
    (attributes_first_inside_append _ _ (attributes_first_inside_append _ _
      (attributes_first_inside_append _ _ (attributes_first_generator_field _ _ _)
        (attributes_first_generator_field _ _ _)) (attributes_first_generator_field _ _ _))
      (attributes_first_generator_field _ _ _))
  simpa [cpe_generator_export, List.append_assoc] using h

theorem attributes_first_language (l : cpe_language) :
    attributes_first_inside (cpe_language_export l) := by
  have h := attributes_first_inside_wrapper l.xml.nspace TAG_LANGUAGE_STR
    (write_attribute_if ATTR_VALUE_STR l.value ++ write_attribute_if ATTR_XML_LANG_STR l.xml.lang)
    []
    (attributes_append _ _ (write_attribute_if_attributes _ _)
      (write_attribute_if_attributes _ _)) attributes_first_inside_nil
  simpa [cpe_language_export, List.append_assoc] using h

theorem attributes_first_edition (e : cpe_edition) :
    attributes_first_inside (cpe_edition_export e) := by
  have h := attributes_first_inside_wrapper e.xml.nspace TAG_EDITION_STR
    (write_attribute_if ATTR_VALUE_STR e.value) (e.languages.map cpe_language_export).flatten
    (write_attribute_if_attributes _ _)
    (attributes_first_inside_flatten _ _ (fun l _ => attributes_first_language l))
  simpa [cpe_edition_export, List.append_assoc] using h

theorem attributes_first_update (u : cpe_update) :
    attributes_first_inside (cpe_update_export u) := by
  have h := attributes_first_inside_wrapper u.xml.nspace TAG_UPDATE_STR
    (write_attribute_if ATTR_VALUE_STR u.value) (u.editions.map cpe_edition_export).flatten
    (write_attribute_if_attributes _ _)
    (attributes_first_inside_flatten _ _ (fun e _ => attributes_first_edition e))
  simpa [cpe_update_export, List.append_assoc] using h

theorem attributes_first_version (v : cpe_version) :
    attributes_first_inside (cpe_version_export v) := by
  have h := attributes_first_inside_wrapper v.xml.nspace TAG_VERSION_STR
    (write_attribute_if ATTR_VALUE_STR v.value) (v.updates.map cpe_update_export).flatten
    (write_attribute_if_attributes _ _)
    (attributes_first_inside_flatten _ _ (fun u _ => attributes_first_update u))
  simpa [cpe_version_export, List.append_assoc] using h

theorem cpe_product_export_part_attributes (p : cpe_product) :
    ∀ c ∈ cpe_product_export_part p, ∃ n v, c = WriteAttribute n v := by
  intro c hc
  unfold cpe_product_export_part at hc
  split at hc
  · rw [List.mem_singleton] at hc
    exact ⟨_, _, hc⟩
  · simp at hc

theorem attributes_first_product (p : cpe_product) :
    attributes_first_inside (cpe_product_export p) := by
  have h := attributes_first_inside_wrapper p.xml.nspace TAG_PRODUCT_STR
    (write_attribute_if ATTR_VALUE_STR p.value ++ cpe_product_export_part p)
    (p.versions.map cpe_version_export).flatten
    (attributes_append _ _ (write_attribute_if_attributes _ _)
      (cpe_product_export_part_attributes p))
    (attributes_first_inside_flatten _ _ (fun v _ => attributes_first_version v))
  simpa [cpe_product_export, List.append_assoc] using h

theorem attributes_first_vendor (v : cpe_vendor) :
    attributes_first_inside (cpe_vendor_export v) := by
  have h := attributes_first_inside_wrapper v.xml.nspace TAG_VENDOR_STR
    (write_attribute_if ATTR_VALUE_STR v.value)
    ((v.titles.map oscap_title_export).flatten ++ (v.products.map cpe_product_export).flatten)
    (write_attribute_if_attributes _ _)
    (attributes_first_inside_append _ _
      (attributes_first_inside_flatten _ _ (fun t _ => attributes_first_title t))
      (attributes_first_inside_flatten _ _ (fun p _ => attributes_first_product p)))
  simpa [cpe_vendor_export, List.append_assoc] using h

theorem cpe_item_export_attributes_attributes (codec : cpe_codec) (item : cpe_item) :
    ∀ c ∈ cpe_item_export_attributes codec item, ∃ n v, c = WriteAttribute n v := by
  intro c hc
  unfold cpe_item_export_attributes at hc
  cases hn : item.name <;> cases hd : item.deprecated <;>
    simp only [hn, hd, List.nil_append, List.append_nil, List.mem_cons, List.mem_singleton,
      List.singleton_append, List.not_mem_nil, or_false] at hc
  all_goals first
    | exact ⟨_, _, hc⟩
    | (rcases hc with h | h | h | h <;> exact ⟨_, _, h⟩)
    | (rcases hc with h | h | h <;> exact ⟨_, _, h⟩)

theorem attributes_first_item_references (item : cpe_item)
    (h : ∀ r ∈ item.references, r.content = none ∨ r.xml.lang = none) :
    attributes_first_inside (cpe_item_export_references item) := by
  unfold cpe_item_export_references
  split
  · have hw := attributes_first_inside_wrapper none TAG_REFERENCES_STR []
      (item.references.map cpe_reference_export).flatten (fun _ hc => by simp at hc)
      (attributes_first_inside_flatten _ _ (fun r hr => attributes_first_reference r (h r hr)))
    simpa [List.append_assoc] using hw
  · exact attributes_first_inside_nil

theorem attributes_first_item_notes (item : cpe_item) :
    attributes_first_inside (cpe_item_export_notes item) := by
  unfold cpe_item_export_notes
  split
  · have hw := attributes_first_inside_wrapper none TAG_NOTES_STR []
      (item.notes.map cpe_note_export).flatten (fun _ hc => by simp at hc)
      (attributes_first_inside_flatten _ _ (fun t _ => attributes_first_note t))
    simpa [List.append_assoc] using hw
  · exact attributes_first_inside_nil

theorem attributes_first_item_metadata (item : cpe_item) :
    attributes_first_inside (cpe_item_export_metadata item) := by
  unfold cpe_item_export_metadata
  cases item.metadata with
  | none => exact attributes_first_inside_nil
  | some m => exact attributes_first_metadata m

theorem attributes_first_item (codec : cpe_codec) (item : cpe_item)
    (h : ∀ r ∈ item.references, r.content = none ∨ r.xml.lang = none) :
    attributes_first_inside (cpe_item_export codec item) := by
  have hw := attributes_first_inside_wrapper item.xml.nspace TAG_CPE_ITEM_STR
    (cpe_item_export_attributes codec item)
    ((item.titles.map oscap_title_export).flatten ++ cpe_item_export_metadata item
      ++ cpe_item_export_references item ++ cpe_item_export_notes item
      ++ (item.checks.map cpe_check_export).flatten)
    (cpe_item_export_attributes_attributes codec item)
    (attributes_first_inside_append _ _ (attributes_first_inside_append _ _
      (attributes_first_inside_append _ _ (attributes_first_inside_append _ _
        (attributes_first_inside_flatten _ _ (fun t _ => attributes_first_title t))
        (attributes_first_item_metadata item)) (attributes_first_item_references item h))
      (attributes_first_item_notes item))
      (attributes_first_inside_flatten _ _ (fun c _ => attributes_first_check c)))
  simpa [cpe_item_export, List.append_assoc] using hw

theorem cpe_dict_export_xmlns_attributes (xmlns : List xml_metadata) :
    ∀ c ∈ (xmlns.map cpe_dict_export_xmlns).flatten, ∃ n v, c = WriteAttribute n v := by
  intro c hc
  rw [List.mem_flatten] at hc
  obtain ⟨l, hl, hcl⟩ := hc
  rw [List.mem_map] at hl
  obtain ⟨xml, _, rfl⟩ := hl
  unfold cpe_dict_export_xmlns at hcl
  cases hu : xml.URI with
  | none => simp [hu] at hcl
  | some uri =>
    simp only [hu, List.mem_singleton] at hcl
    exact ⟨_, _, hcl⟩

/-- Apart from a reference that has both a text and a language, the
serializer writes every attribute of an element before the text of the
element: so do the calls of `cpe_dict_export` for every dictionary in which
each reference lacks a text or a language. -/
theorem cpe_dict_export_attributes_first (codec : cpe_codec) (dict : cpe_dict_model)
    (h : ∀ item ∈ dict.items, ∀ r ∈ item.references, r.content = none ∨ r.xml.lang = none) :
    attributes_first (cpe_dict_export codec dict) = true := by
  have hgen : attributes_first_inside (cpe_dict_export_generator dict) := by
    unfold cpe_dict_export_generator
    cases dict.generator with
    | none => exact attributes_first_inside_nil
    | some g => exact attributes_first_generator g
  have htree := attributes_first_inside_wrapper (some NS_META_STR) TAG_COMPONENT_TREE_STR []
    (dict.vendors.map cpe_vendor_export).flatten (fun _ hc => by simp at hc)
    (attributes_first_inside_flatten _ _ (fun v _ => attributes_first_vendor v))
  have hw := attributes_first_inside_wrapper dict.xml.nspace TAG_CPE_LIST_STR
    (dict.xmlns.map cpe_dict_export_xmlns).flatten
    (cpe_dict_export_generator dict ++ (dict.items.map (cpe_item_export codec)).flatten
      ++ (StartElementNS (some NS_META_STR) TAG_COMPONENT_TREE_STR
          :: ([] ++ ((dict.vendors.map cpe_vendor_export).flatten ++ [EndElement]))))
    (cpe_dict_export_xmlns_attributes dict.xmlns)
    (attributes_first_inside_append _ _ (attributes_first_inside_append _ _ hgen
      (attributes_first_inside_flatten _ _
        (fun item hitem => attributes_first_item codec item (h item hitem)))) htree)
  have := hw []
  simpa [attributes_first, cpe_dict_export, List.append_assoc] using this

/-! ## C34 -/

/-- On a written document whose children of the root are generators, entries
and component trees of vendors in the form the parser stores them, every
vendor with at least one title or product, and whose last child of the root is
no entry, `cpe_dict_model_parse` returns a dictionary and records no
diagnostic. -/
theorem cpe_dict_model_parse_written_no_diagnostic (codec : cpe_codec)
    (nspace : Option String) (attrs : List (String × String)) (cs : List root_child)
    (hcs : cs.all (fun c => c.canonical codec && !c.is_unknown) = true)
    (hend : ends_without_item cs = true) :
    ∃ k, ∀ (fuel : Nat), k ≤ fuel →
      ∃ ret, cpe_dict_model_parse codec fuel
          (parser_state.start (document_nodes codec nspace attrs cs))
        = .done ({ reader := { cur := none, rest := [] }, errors := [] }, some ret) := by
  obtain ⟨k, hk⟩ := cpe_dict_model_parse_document codec nspace attrs cs
    (root_child_all_canonical codec cs hcs) hend
  refine ⟨k, fun fuel hfuel =>
    ⟨cs.foldl root_child.add
      { cpe_dict_model_new with
        xmlns := attrs.map (fun a => { lang := none, nspace := some a.1, URI := some a.2 }) },
     ?_⟩⟩
  rw [hk fuel hfuel, root_child_errors_nil codec cs hcs]

/-- C34, the code at the failing input. The document that `cpe_dict_export`
writes for a dictionary with a generator, an entry and two vendors, the first
without titles and products, `<cpe-list ..><generator><product_name>Tool
</product_name></generator><cpe-item name="cpe:/a:b:c:1"><title>One</title>
</cpe-item><meta:component-tree><vendor value="a"/><vendor value="b"><product
value="p"/></vendor></meta:component-tree></cpe-list>`
(`childless_vendor_written`), has no element that the parser does not know; on
it `cpe_dict_model_parse` records the diagnostic "Unknown XML element in CPE
dictionary", for the product of the second vendor, and returns a dictionary
without that vendor. -/
theorem written_document_false_diagnostic :
    render (cpe_dict_export sample_codec childless_vendor_dict) = some childless_vendor_written
    ∧ ∀ fuel, 6 ≤ fuel →
        cpe_dict_model_parse sample_codec fuel (parser_state.start childless_vendor_written)
          = .done ({ reader := { cur := none, rest := [] }, errors := [ERR_UNKNOWN_ELEMENT] },
              some { childless_vendor_dict with
                vendors := [{ cpe_vendor_new with value := some "a" }] }) := by
  refine ⟨by decide, fun fuel hfuel => ?_⟩
  exact done_of_fuel_le
    (fun n => cpe_dict_model_parse sample_codec n (parser_state.start childless_vendor_written))
    (fun n => cpe_dict_model_parse_mono sample_codec n _) 6 fuel hfuel _ (by decide)

/-! ## C8: a version before the first product -/

theorem crash_of_fuel_le {α : Type} (f : Nat → Res α) (h : ∀ n, Res.le (f n) (f (n + 1)))
    (n m : Nat) (hnm : n ≤ m) (hn : f n = .crash) : f m = .crash := by
  rcases mono_of_step f h n m hnm with h1 | h1
  · rw [hn] at h1; cases h1
  · rw [← h1, hn]

/-- C8, counterexample. A vendor element with a product whose part code is
"x", and before it a version that comes before any product, `<vendor
value="v"><version value="1.0"/><product value="p" part="x"/></vendor>`: the
walk of `cpe_vendor_parse` goes through the pointer to the current product
while it is still NULL (line 1030), so it answers neither a vendor nor NULL,
and neither does `cpe_dict_model_parse` on the document that holds that
vendor. -/
theorem cpe_vendor_parse_part_counterexample :
    (∀ fuel, 2 ≤ fuel → cpe_vendor_parse fuel version_first_vendor_state = .crash)
    ∧ ∀ fuel, 4 ≤ fuel →
        cpe_dict_model_parse sample_codec fuel (parser_state.start version_first_document)
          = .crash := by
  constructor
  · intro fuel hfuel
    exact crash_of_fuel_le (fun n => cpe_vendor_parse n version_first_vendor_state)
      (fun n => cpe_vendor_parse_mono n _) 2 fuel hfuel (by decide)
  · intro fuel hfuel
    exact crash_of_fuel_le
      (fun n => cpe_dict_model_parse sample_codec n (parser_state.start version_first_document))
      (fun n => cpe_dict_model_parse_mono sample_codec n _) 4 fuel hfuel (by decide)

/-! ## The search of the root -/

theorem next_element_loop_element (rest : List xmlNode) (x : xmlNode) (xs : List xmlNode)
    (r : Int) (h : xmlTextReaderNextElement_loop rest = (r, { cur := some x, rest := xs })) :
    x.type = XML_READER_TYPE_ELEMENT ∧ r = 1 ∧ ∃ skipped, rest = skipped ++ x :: xs
      ∧ ∀ n ∈ skipped, n.type ≠ XML_READER_TYPE_ELEMENT := by
  rcases xmlTextReaderNextElement_loop_spec rest with ⟨h0, _⟩ | ⟨skipped, m, ns, hrest, hskip, hm, hres⟩
  · rw [h0] at h
    simp at h
  · rw [hres] at h
    simp only [Prod.mk.injEq, xmlTextReader.mk.injEq, Option.some.injEq] at h
    obtain ⟨h1, h2, h3⟩ := h
    subst h2 h3
    exact ⟨hm, h1.symm, skipped, hrest, hskip⟩

/-- The search of the root from a node with another name, when no start tag
after it is named "cpe-list": it runs to the end of the stream and finds no
root. -/
theorem cpe_dict_model_parse_find_none (fuel : Nat) :
    ∀ (cur : Option xmlNode) (rest : List xmlNode) (errors : List String),
      (∀ c, cur = some c → c.localName ≠ TAG_CPE_LIST_STR) →
      (∀ n ∈ rest, n.type = XML_READER_TYPE_ELEMENT → n.localName ≠ TAG_CPE_LIST_STR) →
      rest.length < fuel →
      cpe_dict_model_parse_find fuel { reader := { cur := cur, rest := rest }, errors := errors } 1
        = .done ({ reader := { cur := none, rest := [] }, errors := errors }, false) := by
  induction fuel with
  | zero => intro _ rest _ _ _ h; simp at h
  | succ fuel ih =>
    intro cur rest errors hcur hrest hfuel
    have hcond : xmlStrcmp (xmlTextReaderConstLocalName
        ({ cur := cur, rest := rest } : xmlTextReader)) TAG_CPE_LIST_STR = true := by
      simp only [xmlStrcmp, xmlTextReaderConstLocalName, decide_eq_true_eq]
      cases cur with
      | none => simp
      | some c => simpa using hcur c rfl
    unfold cpe_dict_model_parse_find
    simp only [hcond, parser_state.next_element, xmlTextReaderNextElement]
    rcases xmlTextReaderNextElement_loop_spec rest with
      ⟨h0, _⟩ | ⟨skipped, m, ns, hsplit, _, hm, hres⟩
    · simp [h0]
    · simp only [hres]
      have := ih (some m) ns errors
        (fun c hc => by
          simp only [Option.some.injEq] at hc
          subst hc
          exact hrest m (by rw [hsplit]; simp) hm)
        (fun n hn => hrest n (by rw [hsplit]; simp [hn]))
        (by
          rw [hsplit] at hfuel
          simp only [List.length_append, List.length_cons] at hfuel
          omega)
      simpa using this

/-- The search of the root from a node with another name, when the first
start tag named "cpe-list" after it is the root: it stops on the root. -/
theorem cpe_dict_model_parse_find_from (root : xmlNode) (post : List xmlNode)
    (hroot : root.localName = TAG_CPE_LIST_STR) (htype : root.type = XML_READER_TYPE_ELEMENT)
    (fuel : Nat) :
    ∀ (cur : Option xmlNode) (pre : List xmlNode) (errors : List String),
      (∀ c, cur = some c → c.localName ≠ TAG_CPE_LIST_STR) →
      (∀ n ∈ pre, n.type = XML_READER_TYPE_ELEMENT → n.localName ≠ TAG_CPE_LIST_STR) →
      pre.length + 1 < fuel →
      cpe_dict_model_parse_find fuel
          { reader := { cur := cur, rest := pre ++ root :: post }, errors := errors } 1
        = .done ({ reader := { cur := some root, rest := post }, errors := errors }, true) := by
  induction fuel with
  | zero => intro _ pre _ _ _ h; simp at h
  | succ fuel ih =>
    intro cur pre errors hcur hpre hfuel
    have hcond : xmlStrcmp (xmlTextReaderConstLocalName
        ({ cur := cur, rest := pre ++ root :: post } : xmlTextReader)) TAG_CPE_LIST_STR
        = true := by
      simp only [xmlStrcmp, xmlTextReaderConstLocalName, decide_eq_true_eq]
      cases cur with
      | none => simp
      | some c => simpa using hcur c rfl
    obtain ⟨skipped, pre2, x, xs, hsplit, hskip, hx, hnext⟩ :=
      xmlTextReaderNextElement_loop_before root post htype pre
    obtain ⟨hxtype, _, _⟩ := next_element_loop_element _ _ _ _ hnext
    unfold cpe_dict_model_parse_find
    simp only [hcond, parser_state.next_element, xmlTextReaderNextElement, hnext]
    simp only [show ((1 : Int) == 0) = false by decide, Bool.and_self, Bool.false_eq_true,
      ↓reduceIte, beq_self_eq_true]
    cases pre2 with
    | nil =>
      simp only [List.nil_append, List.cons.injEq] at hx
      obtain ⟨rfl, rfl⟩ := hx
      obtain ⟨f, rfl⟩ : ∃ f, fuel = f + 1 := ⟨fuel - 1, by omega⟩
      exact cpe_dict_model_parse_find_root f _ 1
        (by simp [xmlTextReaderConstLocalName, hroot])
    | cons y pre3 =>
      simp only [List.cons_append, List.cons.injEq] at hx
      obtain ⟨rfl, rfl⟩ := hx
      exact ih (some x) pre3 errors
        (fun c hc => by
          simp only [Option.some.injEq] at hc
          subst hc
          exact hpre x (by rw [hsplit]; simp) hxtype)
        (fun n hn => hpre n (by rw [hsplit]; simp [hn]))
        (by
          rw [hsplit] at hfuel
          simp only [List.length_append, List.length_cons] at hfuel
          omega)

/-- The search of the root on a document whose root is the first node named
"cpe-list" that the search can stop on: it stops on the root. -/
theorem cpe_dict_model_parse_find_start (root : xmlNode) (pre post : List xmlNode)
    (hroot : root.localName = TAG_CPE_LIST_STR) (htype : root.type = XML_READER_TYPE_ELEMENT)
    (hpre : before_root pre) (fuel : Nat) (hfuel : pre.length + 1 < fuel) :
    cpe_dict_model_parse_find fuel (parser_state.start (pre ++ root :: post)) 1
      = .done ({ reader := { cur := some root, rest := post }, errors := [] }, true) := by
  cases pre with
  | nil =>
    obtain ⟨f, rfl⟩ : ∃ f, fuel = f + 1 := ⟨fuel - 1, by simp at hfuel; omega⟩
    exact cpe_dict_model_parse_find_root f _ 1 (by
      simp [parser_state.start, xmlTextReaderNextNode, xmlTextReaderRead,
        xmlTextReaderConstLocalName, hroot])
  | cons p pre =>
    have h := cpe_dict_model_parse_find_from root post hroot htype fuel (some p) pre []
      (fun c hc => by
        simp only [Option.some.injEq] at hc
        subst hc
        exact hpre.1 p rfl)
      (fun n hn => hpre.2 n (by simp [hn]))
      (by simp only [List.length_cons] at hfuel; omega)
    simpa [parser_state.start, xmlTextReaderNextNode, xmlTextReaderRead] using h

/-- Missing root: on a token stream whose first node is not named "cpe-list"
and that has no start tag named "cpe-list", `cpe_dict_model_parse` answers no
dictionary once the cursor has reported the end of the stream, for every fuel
above the number of nodes. -/
theorem cpe_dict_model_parse_no_root_element (codec : cpe_codec) (fuel : Nat)
    (document : List xmlNode)
    (hfirst : ∀ n, document.head? = some n → n.localName ≠ TAG_CPE_LIST_STR)
    (helements : ∀ n ∈ document, n.type = XML_READER_TYPE_ELEMENT →
      n.localName ≠ TAG_CPE_LIST_STR)
    (hfuel : document.length < fuel) :
    cpe_dict_model_parse codec fuel (parser_state.start document)
      = .done ({ reader := { cur := none, rest := [] }, errors := [] }, none) := by
  have hfind : cpe_dict_model_parse_find fuel (parser_state.start document) 1
      = .done ({ reader := { cur := none, rest := [] }, errors := [] }, false) := by
    cases document with
    | nil =>
      exact cpe_dict_model_parse_find_none fuel none [] [] (by simp) (by simp) hfuel
    | cons p rest =>
      have h := cpe_dict_model_parse_find_none fuel (some p) rest []
        (fun c hc => by
          simp only [Option.some.injEq] at hc
          subst hc
          exact hfirst p rfl)
        (fun n hn => helements n (by simp [hn]))
        (by simp only [List.length_cons] at hfuel; omega)
      simpa [parser_state.start, xmlTextReaderNextNode, xmlTextReaderRead] using h
  unfold cpe_dict_model_parse
  rw [hfind]
  simp

theorem cpe_dict_model_parse_no_root_element_sample :
    cpe_dict_model_parse sample_codec 5
        (parser_state.start [start_tag "cpe-lst" [], instruction_node "cpe-list" "",
          empty_tag "cpe-item" [], end_tag "cpe-lst"])
      = .done ({ reader := { cur := none, rest := [] }, errors := [] }, none) :=
  cpe_dict_model_parse_no_root_element sample_codec 5 _ (by decide) (by decide) (by decide)

/-- C10, the code at the failing input. The document `<!DOCTYPE cpe-list>
<foo/>` has no element named "cpe-list": its only element is `foo`. The
search of the root stops on the node of the document type declaration, whose
local name is "cpe-list", and `cpe_dict_model_parse` answers a dictionary, an
empty one, where it should answer none; the element `foo` is then reported as
unknown. The same happens on `<?cpe-list?><foo/>`. -/
theorem missing_root_accepted :
    (∀ n ∈ doctype_document, n.type = XML_READER_TYPE_ELEMENT →
      n.localName ≠ TAG_CPE_LIST_STR)
    ∧ (∀ fuel, 3 ≤ fuel →
        cpe_dict_model_parse sample_codec fuel (parser_state.start doctype_document)
          = .done ({ reader := { cur := none, rest := [] }, errors := [ERR_UNKNOWN_ELEMENT] },
              some cpe_dict_model_new))
    ∧ (∀ n ∈ instruction_document, n.type = XML_READER_TYPE_ELEMENT →
      n.localName ≠ TAG_CPE_LIST_STR)
    ∧ ∀ fuel, 3 ≤ fuel →
        cpe_dict_model_parse sample_codec fuel (parser_state.start instruction_document)
          = .done ({ reader := { cur := none, rest := [] }, errors := [ERR_UNKNOWN_ELEMENT] },
              some cpe_dict_model_new) := by
  refine ⟨by decide, fun fuel hfuel => ?_, by decide, fun fuel hfuel => ?_⟩
  · exact done_of_fuel_le
      (fun n => cpe_dict_model_parse sample_codec n (parser_state.start doctype_document))
      (fun n => cpe_dict_model_parse_mono sample_codec n _) 3 fuel hfuel _ (by decide)
  · exact done_of_fuel_le
      (fun n => cpe_dict_model_parse sample_codec n (parser_state.start instruction_document))
      (fun n => cpe_dict_model_parse_mono sample_codec n _) 3 fuel hfuel _ (by decide)

/-! ## The entry that the loop of `cpe_item_parse` answers -/

theorem leading_titles_skip (name : String) (n : xmlNode) (children tail : List xmlNode)
    (h : n.starts name = false) :
    leading_titles name (n :: children) tail = leading_titles name children tail := by
  simp [leading_titles, h]

theorem starts_of_not_element (n : xmlNode) (name : String)
    (h : n.type ≠ XML_READER_TYPE_ELEMENT) : n.starts name = false := by
  simp [xmlNode.starts, h]

theorem leading_titles_skipped (name : String) (skipped body tail : List xmlNode)
    (h : ∀ n ∈ skipped, n.type ≠ XML_READER_TYPE_ELEMENT) :
    leading_titles name (skipped ++ body) tail = leading_titles name body tail := by
  induction skipped with
  | nil => rfl
  | cons n skipped ih =>
    have hn := h n (List.mem_cons_self _ _)
    rw [List.cons_append, leading_titles, starts_of_not_element n name hn]
    simp only [Bool.false_eq_true, ↓reduceIte]
    exact ih (fun m hm => h m (List.mem_cons_of_mem _ hm))

theorem leading_titles_nil_of_skipped (name : String) (skipped tail : List xmlNode)
    (h : ∀ n ∈ skipped, n.type ≠ XML_READER_TYPE_ELEMENT) :
    leading_titles name skipped tail = [] := by
  have := leading_titles_skipped name skipped [] tail h
  rw [List.append_nil] at this
  rw [this]
  rfl

theorem passed_nodes_of_all (nodes : List xmlNode) (h : nodes.all passed_node = true) :
    passed_nodes nodes = true := h

theorem parts_nodes_append (xs ys : List root_part) :
    parts_nodes (xs ++ ys) = parts_nodes xs ++ parts_nodes ys := by
  simp [parts_nodes]

theorem insignificant_type (n : xmlNode) (h : n.insignificant = true) :
    n.type ≠ XML_READER_TYPE_ELEMENT ∧ n.type ≠ XML_READER_TYPE_END_ELEMENT
      ∧ n.type ≠ XML_READER_TYPE_TEXT ∧ n.type ≠ XML_READER_TYPE_CDATA := by
  simp only [xmlNode.insignificant, Bool.or_eq_true, Bool.and_eq_true, beq_iff_eq] at h
  rcases h with h | h <;> simp [h.1]

theorem insignificant_name (n : xmlNode) (h : n.insignificant = true) :
    n.localName = "#text" ∨ n.localName = "#comment" := by
  simp only [xmlNode.insignificant, Bool.or_eq_true, Bool.and_eq_true, beq_iff_eq] at h
  rcases h with h | h
  · exact Or.inl h.2
  · exact Or.inr h.2

theorem insignificant_not_tag (n : xmlNode) (h : n.insignificant = true) (name : String)
    (h1 : name ≠ "#text") (h2 : name ≠ "#comment") : n.localName ≠ name := by
  rcases insignificant_name n h with hn | hn <;> rw [hn]
  · exact fun h => h1 h.symm
  · exact fun h => h2 h.symm

theorem significant_of_element (n : xmlNode) (h : n.type = XML_READER_TYPE_ELEMENT) :
    n.insignificant = false := by
  simp [xmlNode.insignificant, h]

theorem flat_texts_tail (n : xmlNode) (rest : List xmlNode) (h : flat_texts (n :: rest) = true) :
    flat_texts rest = true := by
  simp only [flat_texts, Bool.and_eq_true] at h
  exact h.2

theorem flat_texts_append_right (ws rest : List xmlNode) (h : flat_texts (ws ++ rest) = true) :
    flat_texts rest = true := by
  induction ws with
  | nil => exact h
  | cons w ws ih => exact ih (flat_texts_tail _ _ h)

theorem unspaced_cons_significant (n : xmlNode) (rest : List xmlNode)
    (h : n.insignificant = false) : unspaced (n :: rest) = n :: unspaced rest := by
  simp [unspaced, h]

theorem unspaced_cons_insignificant (n : xmlNode) (rest : List xmlNode)
    (h : n.insignificant = true) : unspaced (n :: rest) = unspaced rest := by
  simp [unspaced, h]

theorem unspaced_significant (nodes : List xmlNode) :
    ∀ n ∈ unspaced nodes, n.insignificant = false := by
  intro n hn
  simp only [unspaced, List.mem_filter, Bool.not_eq_true'] at hn
  exact hn.2

/-- A stream with white space and comments whose plain stream begins with a
node: the white space and comments before that node, the node, and the rest. -/
theorem spaces_cons (spaced : List xmlNode) (n : xmlNode) (t : List xmlNode)
    (h : spaces spaced (n :: t)) :
    ∃ ws t1, spaced = ws ++ n :: t1 ∧ (∀ w ∈ ws, w.insignificant = true)
      ∧ n.insignificant = false ∧ spaces t1 t ∧ spaces_at (n :: t1) (n :: t) := by
  obtain ⟨hun, hflat⟩ := h
  have hn : n.insignificant = false :=
    unspaced_significant spaced n (by rw [hun]; exact List.mem_cons_self _ _)
  induction spaced with
  | nil => simp [unspaced] at hun
  | cons a spaced ih =>
    by_cases ha : a.insignificant = true
    · rw [unspaced_cons_insignificant a spaced ha] at hun
      obtain ⟨ws, t1, hsplit, hws, _, ht1, hat⟩ := ih hun (flat_texts_tail _ _ hflat)
      refine ⟨a :: ws, t1, by rw [hsplit]; rfl, ?_, hn, ht1, hat⟩
      intro w hw
      rcases List.mem_cons.mp hw with rfl | hw
      · exact ha
      · exact hws w hw
    · simp only [Bool.not_eq_true] at ha
      rw [unspaced_cons_significant a spaced ha] at hun
      simp only [List.cons.injEq] at hun
      obtain ⟨rfl, ht⟩ := hun
      exact ⟨[], spaced, rfl, by simp, ha, ⟨ht, flat_texts_tail _ _ hflat⟩,
        ⟨⟨by rw [unspaced_cons_significant a spaced ha, ht], hflat⟩, rfl⟩⟩

theorem spaces_nil (spaced : List xmlNode) (h : spaces spaced []) :
    ∀ w ∈ spaced, w.insignificant = true := by
  intro w hw
  by_contra hc
  simp only [Bool.not_eq_true] at hc
  have : w ∈ unspaced spaced := by
    simp only [unspaced, List.mem_filter, Bool.not_eq_true']
    exact ⟨hw, hc⟩
  rw [h.1] at this
  simp at this

/-- Two streams that begin with the same node: the node is no white space, and
what follows it in the one is what follows it in the other, with white space
and comments. -/
theorem spaces_at_cons (spaced : List xmlNode) (n : xmlNode) (t : List xmlNode)
    (h : spaces_at spaced (n :: t)) :
    ∃ t1, spaced = n :: t1 ∧ n.insignificant = false ∧ spaces t1 t := by
  obtain ⟨⟨hun, hflat⟩, hhead⟩ := h
  cases spaced with
  | nil => simp at hhead
  | cons a t1 =>
    simp only [List.head?_cons, Option.some.injEq] at hhead
    subst hhead
    have hn : a.insignificant = false :=
      unspaced_significant (a :: t1) a (by rw [hun]; exact List.mem_cons_self _ _)
    rw [unspaced_cons_significant a t1 hn] at hun
    simp only [List.cons.injEq, true_and] at hun
    exact ⟨t1, rfl, hn, hun, flat_texts_tail _ _ hflat⟩

theorem spaces_at_nil (spaced : List xmlNode) (h : spaces_at spaced []) : spaced = [] := by
  cases spaced with
  | nil => rfl
  | cons a t => exact absurd h.2 (by simp)

theorem spaces_at_refl_nil : spaces_at [] [] := ⟨⟨rfl, rfl⟩, rfl⟩

theorem next_element_on_nodes (errors : List String) (x : List xmlNode) :
    (on_nodes errors x).next_element
      = ((xmlTextReaderNextElement_loop x.tail).1, on_element errors x.tail) := by
  cases x <;> rfl

theorem next_node_on_nodes_tail (errors : List String) (x : List xmlNode) :
    (on_nodes errors x).next_node.2 = on_nodes errors x.tail := by
  cases x with
  | nil => rfl
  | cons n t => exact next_node_on_nodes errors n t

/-- The move to the next start tag on a stream with white space and comments
ends on the same start tag as on the plain stream. -/
theorem next_element_spaced (errors : List String) :
    ∀ (t1 t : List xmlNode), spaces t1 t →
      (xmlTextReaderNextElement_loop t1).1 = (xmlTextReaderNextElement_loop t).1
      ∧ ∃ y1 y, on_element errors t1 = on_nodes errors y1
          ∧ on_element errors t = on_nodes errors y ∧ spaces_at y1 y ∧ at_start_tag y := by
  intro t1
  induction t1 with
  | nil =>
    intro t h
    have ht : t = [] := h.1.symm
    subst ht
    exact ⟨rfl, [], [], rfl, rfl, spaces_at_refl_nil, fun n hn => by simp at hn⟩
  | cons a t1 ih =>
    intro t h
    by_cases ha : a.insignificant = true
    · have htype := (insignificant_type a ha).1
      have h1 : spaces t1 t :=
        ⟨by rw [← h.1, unspaced_cons_insignificant a t1 ha], flat_texts_tail _ _ h.2⟩
      obtain ⟨hnr, y1, y, hy1, hy, hat, hst⟩ := ih t h1
      have hskip : ∀ m ∈ [a], m.type ≠ XML_READER_TYPE_ELEMENT := by
        intro m hm
        rw [List.mem_singleton.mp hm]
        exact htype
      have hne := xmlTextReaderNextElement_loop_skip [a] t1 hskip
      have hon := on_element_skip errors [a] t1 hskip
      simp only [List.singleton_append] at hne hon
      exact ⟨by rw [hne, hnr], y1, y, by rw [hon, hy1], hy, hat, hst⟩
    · simp only [Bool.not_eq_true] at ha
      have ht : t = a :: unspaced t1 := by
        rw [← h.1, unspaced_cons_significant a t1 ha]
      by_cases htype : a.type = XML_READER_TYPE_ELEMENT
      · refine ⟨by rw [ht, next_element_loop_cons _ _ htype, next_element_loop_cons _ _ htype],
          a :: t1, a :: unspaced t1, on_element_cons _ _ _ htype,
          by rw [ht]; exact on_element_cons _ _ _ htype,
          ⟨⟨unspaced_cons_significant a t1 ha, h.2⟩, rfl⟩, ?_⟩
        intro n hn
        simp only [List.head?_cons, Option.some.injEq] at hn
        rw [← hn]
        exact htype
      · have h1 : spaces t1 (unspaced t1) := ⟨rfl, flat_texts_tail _ _ h.2⟩
        obtain ⟨hnr, y1, y, hy1, hy, hat, hst⟩ := ih _ h1
        have hskip : ∀ m ∈ [a], m.type ≠ XML_READER_TYPE_ELEMENT := by
          intro m hm
          rw [List.mem_singleton.mp hm]
          exact htype
        have hne := xmlTextReaderNextElement_loop_skip [a] t1 hskip
        have hon := on_element_skip errors [a] t1 hskip
        have hne2 := xmlTextReaderNextElement_loop_skip [a] (unspaced t1) hskip
        have hon2 := on_element_skip errors [a] (unspaced t1) hskip
        simp only [List.singleton_append] at hne hon hne2 hon2
        exact ⟨by rw [ht, hne, hne2, hnr], y1, y, by rw [hon, hy1], by rw [ht, hon2, hy], hat,
          hst⟩

/-- The text that `xmlTextReaderReadString` reads on the start tag of an
element whose text the parser reads is the same with white space and
comments between the elements. -/
theorem read_string_spaced (n : xmlNode) (t1 t : List xmlNode)
    (h : spaces_at (n :: t1) (n :: t)) (htype : n.type = XML_READER_TYPE_ELEMENT)
    (hname : text_element_name n.localName = true) :
    xmlTextReaderReadString { cur := some n, rest := t1 }
      = xmlTextReaderReadString { cur := some n, rest := t } := by
  obtain ⟨u, hu, hn, hut⟩ := spaces_at_cons _ n t h
  simp only [List.cons.injEq, true_and] at hu
  subst hu
  by_cases hempty : n.isEmpty = true
  · simp [xmlTextReaderReadString, htype, hempty]
  · simp only [Bool.not_eq_true] at hempty
    have hflat := h.1.2
    simp only [flat_texts, htype, decide_True, hempty, Bool.not_false, hname, Bool.and_self,
      Bool.not_true, Bool.false_or, Bool.and_eq_true] at hflat
    obtain ⟨hcontent, _⟩ := hflat
    cases t1 with
    | nil => simp [flat_content] at hcontent
    | cons m r =>
      simp only [flat_content, Bool.or_eq_true, decide_eq_true_eq, Bool.and_eq_true] at hcontent
      rcases hcontent with hend | ⟨htext, hnext⟩
      · have hm : m.insignificant = false := by simp [xmlNode.insignificant, hend]
        rw [← hut.1, unspaced_cons_significant m r hm]
        simp [xmlTextReaderReadString, htype, hempty, hend]
      · have hm : m.insignificant = false := by
          rcases htext with h1 | h1 <;> simp [xmlNode.insignificant, h1]
        cases r with
        | nil => simp at hnext
        | cons e r2 =>
          simp only [decide_eq_true_eq] at hnext
          have he : e.insignificant = false := by simp [xmlNode.insignificant, hnext]
          rw [← hut.1, unspaced_cons_significant m _ hm, unspaced_cons_significant e _ he]
          rcases htext with h1 | h1 <;>
            simp [xmlTextReaderReadString, htype, hempty, h1, collectText, hnext]

/-! ## One pass of a loop of the parser reads the current node and its text -/

theorem text_element_name_false (name : String) (h : text_element_name name = false) :
    name ≠ TAG_TITLE_STR ∧ name ≠ TAG_NOTE_STR ∧ name ≠ TAG_CHECK_STR
      ∧ name ≠ TAG_REFERENCE_STR ∧ name ≠ TAG_PRODUCT_NAME_STR
      ∧ name ≠ TAG_PRODUCT_VERSION_STR ∧ name ≠ TAG_SCHEMA_VERSION_STR
      ∧ name ≠ TAG_TIMESTAMP_STR := by
  simp only [text_element_name, Bool.or_eq_false_iff, beq_eq_false_iff_ne, ne_eq] at h
  obtain ⟨⟨⟨⟨⟨⟨⟨h1, h2⟩, h3⟩, h4⟩, h5⟩, h6⟩, h7⟩, h8⟩ := h
  exact ⟨h1, h2, h3, h4, h5, h6, h7, h8⟩

/-- One pass of the loop of `cpe_generator_parse` depends on the nodes after
the current one only through the text read on a field. -/
theorem cpe_generator_parse_body_rest (c : Option xmlNode) (rest1 rest2 : List xmlNode)
    (errors : List String) (ret : cpe_generator)
    (h : ∀ n, c = some n → n.type = XML_READER_TYPE_ELEMENT →
      text_element_name n.localName = true →
      xmlTextReaderReadString { cur := c, rest := rest1 }
        = xmlTextReaderReadString { cur := c, rest := rest2 }) :
    cpe_generator_parse_body { reader := { cur := c, rest := rest1 }, errors := errors } ret
      = ({ reader := { cur := c, rest := rest1 },
           errors := (cpe_generator_parse_body
             { reader := { cur := c, rest := rest2 }, errors := errors } ret).1.errors },
         (cpe_generator_parse_body
           { reader := { cur := c, rest := rest2 }, errors := errors } ret).2) := by
  cases c with
  | none => simp [cpe_generator_parse_body, xmlTextReaderConstLocalName, xmlTextReaderNodeType,
      xmlStrcmp]
  | some n =>
    by_cases htype : n.type = XML_READER_TYPE_ELEMENT
    · by_cases hname : text_element_name n.localName = true
      · have h1 := h n rfl htype hname
        simp only [cpe_generator_parse_body, xmlTextReaderConstLocalName,
          xmlTextReaderNodeType, Option.map_some', h1]
        split_ifs <;> simp [oscap_seterr]
      · simp only [Bool.not_eq_true] at hname
        obtain ⟨_, _, _, _, h5, h6, h7, h8⟩ := text_element_name_false _ hname
        simp [cpe_generator_parse_body, xmlTextReaderConstLocalName, xmlTextReaderNodeType,
          xmlStrcmp, htype, h5, h6, h7, h8, oscap_seterr]
    · simp [cpe_generator_parse_body, xmlTextReaderNodeType, htype]

/-- One pass of the loop of `cpe_item_parse` depends on the nodes after the
current one only through the text read on a title, a note, a check or a
reference. -/
theorem cpe_item_parse_body_rest (c : Option xmlNode) (rest1 rest2 : List xmlNode)
    (ret : cpe_item)
    (h : ∀ n, c = some n → n.type = XML_READER_TYPE_ELEMENT →
      text_element_name n.localName = true →
      xmlTextReaderReadString { cur := c, rest := rest1 }
        = xmlTextReaderReadString { cur := c, rest := rest2 }) :
    cpe_item_parse_body { cur := c, rest := rest1 } ret
      = cpe_item_parse_body { cur := c, rest := rest2 } ret := by
  cases c with
  | none => simp [cpe_item_parse_body, xmlTextReaderNodeType]
  | some n =>
    by_cases htype : n.type = XML_READER_TYPE_ELEMENT
    · by_cases hname : text_element_name n.localName = true
      · have h1 := h n rfl htype hname
        simp only [cpe_item_parse_body, xmlTextReaderConstLocalName, xmlTextReaderNodeType,
          Option.map_some', oscap_title_parse, cpe_check_parse, cpe_reference_parse,
          cpe_item_metadata_parse, xmlTextReaderConstXmlLang, xmlTextReaderPrefix,
          xmlTextReaderGetAttribute, h1]
      · simp only [Bool.not_eq_true] at hname
        obtain ⟨h1, h2, h3, h4, _, _, _, _⟩ := text_element_name_false _ hname
        simp [cpe_item_parse_body, xmlTextReaderConstLocalName, xmlTextReaderNodeType,
          xmlStrcmp, htype, h1, h2, h3, h4, cpe_item_metadata_parse,
          xmlTextReaderConstXmlLang, xmlTextReaderPrefix, xmlTextReaderGetAttribute]
    · simp [cpe_item_parse_body, xmlTextReaderNodeType, htype]

/-- One pass of the loop of `cpe_vendor_parse` depends on the nodes after the
current one only through the text read on a title. -/
theorem cpe_vendor_parse_body_rest (c : Option xmlNode) (rest1 rest2 : List xmlNode)
    (loc : vendor_locals)
    (h : ∀ n, c = some n → n.type = XML_READER_TYPE_ELEMENT →
      text_element_name n.localName = true →
      xmlTextReaderReadString { cur := c, rest := rest1 }
        = xmlTextReaderReadString { cur := c, rest := rest2 }) :
    cpe_vendor_parse_body { cur := c, rest := rest1 } loc
      = cpe_vendor_parse_body { cur := c, rest := rest2 } loc := by
  cases c with
  | none => simp [cpe_vendor_parse_body, xmlTextReaderNodeType]
  | some n =>
    by_cases htype : n.type = XML_READER_TYPE_ELEMENT
    · by_cases hname : text_element_name n.localName = true
      · have h1 := h n rfl htype hname
        simp only [cpe_vendor_parse_body, xmlTextReaderConstLocalName, xmlTextReaderNodeType,
          Option.map_some', oscap_title_parse, xmlTextReaderConstXmlLang, xmlTextReaderPrefix,
          xmlTextReaderGetAttribute, h1]
      · simp only [Bool.not_eq_true] at hname
        obtain ⟨h1, _, _, _, _, _, _, _⟩ := text_element_name_false _ hname
        simp [cpe_vendor_parse_body, xmlTextReaderConstLocalName, xmlTextReaderNodeType,
          xmlStrcmp, htype, h1, xmlTextReaderConstXmlLang, xmlTextReaderPrefix,
          xmlTextReaderGetAttribute]
    · simp [cpe_vendor_parse_body, xmlTextReaderNodeType, htype]

theorem read_string_spaced_head (n : xmlNode) (t1 t : List xmlNode)
    (h : spaces_at (n :: t1) (n :: t)) :
    ∀ m, some n = some m → m.type = XML_READER_TYPE_ELEMENT →
      text_element_name m.localName = true →
      xmlTextReaderReadString { cur := some n, rest := t1 }
        = xmlTextReaderReadString { cur := some n, rest := t } := by
  intro m hm htype hname
  simp only [Option.some.injEq] at hm
  subst hm
  exact read_string_spaced n t1 t h htype hname

/-! ## The loops of the parser on a stream with white space and comments -/

theorem insignificant_skip (ws : List xmlNode) (hws : ∀ w ∈ ws, w.insignificant = true)
    (name : String) (h1 : name ≠ "#text") (h2 : name ≠ "#comment") :
    ∀ m ∈ ws, m.type ≠ XML_READER_TYPE_ELEMENT ∧ m.localName ≠ name :=
  fun m hm => ⟨(insignificant_type m (hws m hm)).1,
    insignificant_not_tag m (hws m hm) name h1 h2⟩

/-- The loop of `cpe_generator_parse` on a stream with white space and
comments answers what it answers on the plain stream, on the same node. -/
theorem cpe_generator_parse_loop_spaced :
    ∀ (fuel : Nat) (x : List xmlNode) (ret : cpe_generator) (errors : List String)
      (st : parser_state) (r : cpe_generator),
      cpe_generator_parse_loop fuel (on_nodes errors x) ret = .done (st, r) →
      ∀ x1, spaces x1 x →
        ∃ fuel1 y1 y, cpe_generator_parse_loop fuel1 (on_nodes errors x1) ret
            = .done (on_nodes st.errors y1, r)
          ∧ st = on_nodes st.errors y ∧ spaces_at y1 y := by
  intro fuel
  induction fuel with
  | zero => intro x ret errors st r h; simp [cpe_generator_parse_loop] at h
  | succ fuel ih =>
    intro x ret errors st r h x1 hx
    cases x with
    | nil =>
      have hstep : cpe_generator_parse_loop (fuel + 1) (on_nodes errors []) ret
          = cpe_generator_parse_loop fuel (on_nodes errors []) ret := by
        rw [on_nodes_nil, cpe_generator_parse_loop]
        simp [xmlTextReaderConstLocalName, xmlStrcmp, cpe_generator_parse_body,
          xmlTextReaderNodeType, next_node_mk, on_nodes_nil]
      rw [hstep] at h
      exact ih [] ret errors st r h x1 hx
    | cons n t =>
      obtain ⟨ws, t1, hsplit, hws, hn, ht1, hat⟩ := spaces_cons x1 n t hx
      have hskip := insignificant_skip ws hws TAG_GENERATOR_STR (by decide) (by decide)
      subst hsplit
      by_cases hname : n.localName = TAG_GENERATOR_STR
      · rw [on_nodes_cons, cpe_generator_parse_loop] at h
        simp only [xmlTextReaderConstLocalName, Option.map_some', xmlStrcmp, hname, ne_eq,
          not_true_eq_false, decide_False, Bool.false_eq_true, ↓reduceIte, Res.done.injEq,
          Prod.mk.injEq] at h
        obtain ⟨hst, hr⟩ := h
        subst hst hr
        refine ⟨1 + ws.length, n :: t1, n :: t, ?_, rfl, hat⟩
        rw [cpe_generator_parse_loop_skip ws hskip, on_nodes_cons, cpe_generator_parse_loop]
        simp [xmlTextReaderConstLocalName, xmlStrcmp, hname]
      · obtain ⟨e1, ret1, hplain, hspaced⟩ : ∃ e1 ret1,
            cpe_generator_parse_body
                { reader := { cur := some n, rest := t }, errors := errors } ret
              = ({ reader := { cur := some n, rest := t }, errors := e1 }, ret1)
            ∧ cpe_generator_parse_body
                { reader := { cur := some n, rest := t1 }, errors := errors } ret
              = ({ reader := { cur := some n, rest := t1 }, errors := e1 }, ret1) :=
          ⟨_, _, cpe_generator_parse_body_rest (some n) t t errors ret (fun _ _ _ _ => rfl),
            cpe_generator_parse_body_rest (some n) t1 t errors ret
              (read_string_spaced_head n t1 t hat)⟩
        rw [on_nodes_cons, cpe_generator_parse_loop] at h
        simp only [xmlTextReaderConstLocalName, Option.map_some', xmlStrcmp, ne_eq,
          Option.some.injEq, hname, not_false_eq_true, decide_True, ↓reduceIte, hplain,
          next_node_mk] at h
        obtain ⟨fuel1, y1, y, hloop, hst, hy⟩ := ih t ret1 e1 st r h t1 ht1
        refine ⟨(fuel1 + 1) + ws.length, y1, y, ?_, hst, hy⟩
        rw [cpe_generator_parse_loop_skip ws hskip, on_nodes_cons, cpe_generator_parse_loop]
        simp only [xmlTextReaderConstLocalName, Option.map_some', xmlStrcmp, ne_eq,
          Option.some.injEq, hname, not_false_eq_true, decide_True, ↓reduceIte, hspaced,
          next_node_mk]
        exact hloop

/-- The loop of `cpe_vendor_parse` on a stream with white space and comments
answers what it answers on the plain stream, on the same node. -/
theorem cpe_vendor_parse_loop_spaced :
    ∀ (fuel : Nat) (x : List xmlNode) (loc : vendor_locals) (errors : List String)
      (st : parser_state) (r : Option cpe_vendor),
      cpe_vendor_parse_loop fuel (on_nodes errors x) loc = .done (st, r) →
      ∀ x1, spaces x1 x →
        ∃ fuel1 y1 y, cpe_vendor_parse_loop fuel1 (on_nodes errors x1) loc
            = .done (on_nodes st.errors y1, r)
          ∧ st = on_nodes st.errors y ∧ spaces_at y1 y := by
  intro fuel
  induction fuel with
  | zero => intro x loc errors st r h; simp [cpe_vendor_parse_loop] at h
  | succ fuel ih =>
    intro x loc errors st r h x1 hx
    cases x with
    | nil =>
      have hstep : cpe_vendor_parse_loop (fuel + 1) (on_nodes errors []) loc
          = cpe_vendor_parse_loop fuel (on_nodes errors []) loc := by
        rw [on_nodes_nil, cpe_vendor_parse_loop]
        simp [xmlTextReaderConstLocalName, xmlStrcmp, cpe_vendor_parse_body,
          xmlTextReaderNodeType, next_node_mk, on_nodes_nil]
      rw [hstep] at h
      exact ih [] loc errors st r h x1 hx
    | cons n t =>
      obtain ⟨ws, t1, hsplit, hws, hn, ht1, hat⟩ := spaces_cons x1 n t hx
      have hskip := insignificant_skip ws hws TAG_VENDOR_STR (by decide) (by decide)
      subst hsplit
      by_cases hname : n.localName = TAG_VENDOR_STR
      · rw [on_nodes_cons, cpe_vendor_parse_loop] at h
        simp only [xmlTextReaderConstLocalName, Option.map_some', xmlStrcmp, hname, ne_eq,
          not_true_eq_false, decide_False, Bool.false_eq_true, ↓reduceIte, Res.done.injEq,
          Prod.mk.injEq] at h
        obtain ⟨hst, hr⟩ := h
        subst hst hr
        refine ⟨1 + ws.length, n :: t1, n :: t, ?_, rfl, hat⟩
        rw [cpe_vendor_parse_loop_skip ws hskip, on_nodes_cons, cpe_vendor_parse_loop]
        simp [xmlTextReaderConstLocalName, xmlStrcmp, hname]
      · have hbody := cpe_vendor_parse_body_rest (some n) t1 t loc
          (read_string_spaced_head n t1 t hat)
        rw [on_nodes_cons, cpe_vendor_parse_loop] at h
        simp only [xmlTextReaderConstLocalName, Option.map_some', xmlStrcmp, ne_eq,
          Option.some.injEq, hname, not_false_eq_true, decide_True, ↓reduceIte] at h
        cases hstep : cpe_vendor_parse_body { cur := some n, rest := t } loc with
        | next_node loc1 =>
          rw [hstep] at h
          simp only [next_node_mk] at h
          obtain ⟨fuel1, y1, y, hloop, hst, hy⟩ := ih t loc1 errors st r h t1 ht1
          refine ⟨(fuel1 + 1) + ws.length, y1, y, ?_, hst, hy⟩
          rw [cpe_vendor_parse_loop_skip ws hskip, on_nodes_cons, cpe_vendor_parse_loop]
          simp only [xmlTextReaderConstLocalName, Option.map_some', xmlStrcmp, ne_eq,
            Option.some.injEq, hname, not_false_eq_true, decide_True, ↓reduceIte, hbody, hstep,
            next_node_mk]
          exact hloop
        | return_null =>
          rw [hstep] at h
          simp only [Res.done.injEq, Prod.mk.injEq] at h
          obtain ⟨hst, hr⟩ := h
          subst hst hr
          refine ⟨1 + ws.length, n :: t1, n :: t, ?_, rfl, hat⟩
          rw [cpe_vendor_parse_loop_skip ws hskip, on_nodes_cons, cpe_vendor_parse_loop]
          simp only [xmlTextReaderConstLocalName, Option.map_some', xmlStrcmp, ne_eq,
            Option.some.injEq, hname, not_false_eq_true, decide_True, ↓reduceIte, hbody, hstep]
        | null_deref =>
          rw [hstep] at h
          simp at h

/-- The loop of `cpe_item_parse` on a stream with white space and comments
answers what it answers on the plain stream, on the same node. -/
theorem cpe_item_parse_loop_spaced :
    ∀ (fuel : Nat) (x : List xmlNode) (ret : cpe_item) (errors : List String)
      (st : parser_state) (r : Option cpe_item),
      cpe_item_parse_loop fuel (on_nodes errors x) ret = .done (st, r) →
      at_start_tag x →
      ∀ x1, spaces_at x1 x →
        ∃ y1 y, cpe_item_parse_loop fuel (on_nodes errors x1) ret
            = .done (on_nodes st.errors y1, r)
          ∧ st = on_nodes st.errors y ∧ spaces_at y1 y ∧ at_start_tag y := by
  intro fuel
  induction fuel with
  | zero => intro x ret errors st r h; simp [cpe_item_parse_loop] at h
  | succ fuel ih =>
    intro x ret errors st r h hx x1 hx1
    cases x with
    | nil =>
      have hx1nil := spaces_at_nil x1 hx1
      subst hx1nil
      have hstep : cpe_item_parse_loop (fuel + 1) (on_nodes errors []) ret
          = cpe_item_parse_loop fuel (on_nodes errors []) ret := by
        rw [on_nodes_nil, cpe_item_parse_loop]
        simp [xmlTextReaderConstLocalName, xmlStrcmp, cpe_item_parse_body,
          xmlTextReaderNodeType, next_node_mk, on_nodes_nil]
      rw [hstep] at h ⊢
      exact ih [] ret errors st r h hx [] hx1
    | cons n t =>
      have htype : n.type = XML_READER_TYPE_ELEMENT := hx n rfl
      obtain ⟨t1, hsplit, hn, ht1⟩ := spaces_at_cons x1 n t hx1
      subst hsplit
      by_cases hname : n.localName = TAG_CPE_ITEM_STR
      · rw [on_nodes_cons, cpe_item_parse_loop] at h
        simp only [xmlTextReaderConstLocalName, Option.map_some', xmlStrcmp, hname, ne_eq,
          not_true_eq_false, decide_False, Bool.false_eq_true, ↓reduceIte, Res.done.injEq,
          Prod.mk.injEq] at h
        obtain ⟨hst, hr⟩ := h
        subst hst hr
        refine ⟨n :: t1, n :: t, ?_, rfl, hx1, hx⟩
        rw [on_nodes_cons, cpe_item_parse_loop]
        simp [xmlTextReaderConstLocalName, xmlStrcmp, hname]
      · have hbody := cpe_item_parse_body_rest (some n) t1 t ret
          (read_string_spaced_head n t1 t hx1)
        rw [on_nodes_cons, cpe_item_parse_loop] at h
        simp only [xmlTextReaderConstLocalName, Option.map_some', xmlStrcmp, ne_eq,
          Option.some.injEq, hname, not_false_eq_true, decide_True, ↓reduceIte] at h
        rw [on_nodes_cons, cpe_item_parse_loop]
        simp only [xmlTextReaderConstLocalName, Option.map_some', xmlStrcmp, ne_eq,
          Option.some.injEq, hname, not_false_eq_true, decide_True, ↓reduceIte, hbody]
        cases hstep : cpe_item_parse_body { cur := some n, rest := t } ret with
        | next_node ret1 =>
          exact absurd htype (by
            have := cpe_item_parse_body_next_node _ ret ret1 hstep
            simpa [xmlTextReaderNodeType] using this.2)
        | next_element ret1 =>
          rw [hstep] at h
          simp only [next_element_mk] at h ⊢
          obtain ⟨_, y1, y, hy1, hy, hat, hstart⟩ := next_element_spaced errors t1 t ht1
          rw [hy] at h
          rw [hy1]
          exact ih y ret1 errors st r h hstart y1 hat
        | return_null =>
          rw [hstep] at h
          simp only [Res.done.injEq, Prod.mk.injEq] at h
          obtain ⟨hst, hr⟩ := h
          subst hst hr
          exact ⟨n :: t1, n :: t, rfl, rfl, hx1, hx⟩
        | return_ret ret1 =>
          rw [hstep] at h
          simp only [Res.done.injEq, Prod.mk.injEq] at h
          obtain ⟨hst, hr⟩ := h
          subst hst hr
          exact ⟨n :: t1, n :: t, rfl, rfl, hx1, hx⟩

/-! ## The parser on a document with white space and comments -/

theorem spaces_at_tail (y1 y : List xmlNode) (h : spaces_at y1 y) : spaces y1.tail y.tail := by
  cases y with
  | nil =>
    rw [spaces_at_nil y1 h]
    exact ⟨rfl, rfl⟩
  | cons n t =>
    obtain ⟨t1, hsplit, _, ht1⟩ := spaces_at_cons y1 n t h
    rw [hsplit]
    exact ht1

/-- The call of `cpe_generator_parse` on a stream with white space and comments
answers what it answers on the plain stream, on the same node. -/
theorem cpe_generator_parse_spaced (fuel : Nat) (n : xmlNode) (t t1 : List xmlNode)
    (errors : List String) (st : parser_state) (r : Option cpe_generator)
    (h : cpe_generator_parse fuel (on_nodes errors (n :: t)) = .done (st, r))
    (hx : spaces_at (n :: t1) (n :: t)) :
    ∃ fuel1 e1 y1 y, cpe_generator_parse fuel1 (on_nodes errors (n :: t1))
        = .done (on_nodes e1 y1, r)
      ∧ st = on_nodes e1 y ∧ spaces_at y1 y := by
  have ht1 := spaces_at_tail _ _ hx
  simp only [List.tail_cons] at ht1
  by_cases hc : n.localName = TAG_GENERATOR_STR ∧ n.type = XML_READER_TYPE_ELEMENT
  · obtain ⟨_, z1, z, hz1, hz, hat, _⟩ := next_element_spaced errors t1 t ht1
    rw [on_nodes_cons] at h ⊢
    unfold cpe_generator_parse at h
    simp only [xmlTextReaderConstLocalName, Option.map_some', hc.1, xmlStrcmp, ne_eq,
      not_true_eq_false, decide_False, Bool.not_false, xmlTextReaderNodeType, hc.2,
      decide_True, Bool.and_self, ↓reduceIte, next_element_mk, hz] at h
    obtain ⟨out, hloop, hout⟩ := Res.bind_eq_done h
    simp only [Res.done.injEq, Prod.mk.injEq] at hout
    obtain ⟨hst, hr⟩ := hout
    obtain ⟨fuel1, y1, y, hloop1, hy, hyat⟩ :=
      cpe_generator_parse_loop_spaced fuel z _ errors out.1 out.2 hloop z1 hat.1
    refine ⟨fuel1, out.1.errors, y1, y, ?_, by rw [← hst]; exact hy, hyat⟩
    unfold cpe_generator_parse
    simp only [xmlTextReaderConstLocalName, Option.map_some', hc.1, xmlStrcmp, ne_eq,
      not_true_eq_false, decide_False, Bool.not_false, xmlTextReaderNodeType, hc.2,
      decide_True, Bool.and_self, ↓reduceIte, next_element_mk, hz1]
    rw [show xmlTextReaderConstXmlLang { cur := some n, rest := t1 }
        = xmlTextReaderConstXmlLang { cur := some n, rest := t } from rfl,
      show xmlTextReaderPrefix { cur := some n, rest := t1 }
        = xmlTextReaderPrefix { cur := some n, rest := t } from rfl, hloop1, ← hr]
    rfl
  · have hcond : (!xmlStrcmp (some n.localName) TAG_GENERATOR_STR
        && decide (n.type = XML_READER_TYPE_ELEMENT)) = false := by
      simp only [xmlStrcmp, ne_eq, Option.some.injEq, Bool.and_eq_false_iff,
        Bool.not_eq_false', decide_eq_true_eq, decide_eq_false_iff_not]
      by_cases h1 : n.localName = TAG_GENERATOR_STR
      · exact Or.inr (fun h2 => hc ⟨h1, h2⟩)
      · exact Or.inl h1
    rw [on_nodes_cons] at h ⊢
    unfold cpe_generator_parse at h ⊢
    simp only [xmlTextReaderConstLocalName, Option.map_some', xmlTextReaderNodeType, hcond,
      Bool.false_eq_true, ↓reduceIte, Res.done.injEq, Prod.mk.injEq] at h ⊢
    obtain ⟨hst, hr⟩ := h
    exact ⟨0, errors, n :: t1, n :: t, ⟨rfl, hr⟩, hst.symm, hx⟩

/-- The call of `cpe_vendor_parse` on a stream with white space and comments
answers what it answers on the plain stream, on the same node. -/
theorem cpe_vendor_parse_spaced (fuel : Nat) (n : xmlNode) (t t1 : List xmlNode)
    (errors : List String) (st : parser_state) (r : Option cpe_vendor)
    (h : cpe_vendor_parse fuel (on_nodes errors (n :: t)) = .done (st, r))
    (hx : spaces_at (n :: t1) (n :: t)) :
    ∃ fuel1 e1 y1 y, cpe_vendor_parse fuel1 (on_nodes errors (n :: t1))
        = .done (on_nodes e1 y1, r)
      ∧ st = on_nodes e1 y ∧ spaces_at y1 y := by
  have ht1 := spaces_at_tail _ _ hx
  simp only [List.tail_cons] at ht1
  by_cases hc : n.localName = TAG_VENDOR_STR
  · obtain ⟨_, z1, z, hz1, hz, hat, _⟩ := next_element_spaced errors t1 t ht1
    rw [on_nodes_cons] at h ⊢
    unfold cpe_vendor_parse at h
    simp only [xmlTextReaderConstLocalName, Option.map_some', hc, xmlStrcmp, ne_eq,
      not_true_eq_false, decide_False, Bool.false_eq_true, ↓reduceIte, next_element_mk, hz]
      at h
    obtain ⟨fuel1, y1, y, hloop1, hy, hyat⟩ :=
      cpe_vendor_parse_loop_spaced fuel z _ errors st r h z1 hat.1
    refine ⟨fuel1, st.errors, y1, y, ?_, hy, hyat⟩
    unfold cpe_vendor_parse
    simp only [xmlTextReaderConstLocalName, Option.map_some', hc, xmlStrcmp, ne_eq,
      not_true_eq_false, decide_False, Bool.false_eq_true, ↓reduceIte, next_element_mk, hz1]
    exact hloop1
  · rw [on_nodes_cons] at h ⊢
    unfold cpe_vendor_parse at h ⊢
    simp only [xmlTextReaderConstLocalName, Option.map_some', xmlStrcmp, ne_eq,
      Option.some.injEq, hc, not_false_eq_true, decide_True, ↓reduceIte, Res.done.injEq,
      Prod.mk.injEq] at h ⊢
    obtain ⟨hst, hr⟩ := h
    exact ⟨0, errors, n :: t1, n :: t, ⟨rfl, hr⟩, hst.symm, hx⟩

/-- The call of `cpe_item_parse` on a stream with white space and comments
answers what it answers on the plain stream, on the same node. -/
theorem cpe_item_parse_spaced (codec : cpe_codec) (fuel : Nat) (n : xmlNode)
    (t t1 : List xmlNode) (errors : List String) (st : parser_state) (r : Option cpe_item)
    (h : cpe_item_parse codec fuel (on_nodes errors (n :: t)) = .done (st, r))
    (htype : n.type = XML_READER_TYPE_ELEMENT)
    (hx : spaces_at (n :: t1) (n :: t)) :
    ∃ e1 y1 y, cpe_item_parse codec fuel (on_nodes errors (n :: t1))
        = .done (on_nodes e1 y1, r)
      ∧ st = on_nodes e1 y ∧ spaces_at y1 y ∧ at_start_tag y := by
  have ht1 := spaces_at_tail _ _ hx
  simp only [List.tail_cons] at ht1
  have hstart : at_start_tag (n :: t) := by
    intro m hm
    simp only [List.head?_cons, Option.some.injEq] at hm
    rw [← hm]
    exact htype
  have hattrs : cpe_item_parse_attrs codec { cur := some n, rest := t1 }
      = cpe_item_parse_attrs codec { cur := some n, rest := t } :=
    cpe_item_parse_attrs_rest codec _ _ _
  rw [on_nodes_cons] at h ⊢
  unfold cpe_item_parse at h ⊢
  simp only [hattrs]
  simp only [xmlTextReaderConstLocalName, Option.map_some', xmlTextReaderNodeType] at h ⊢
  by_cases hc : (!xmlStrcmp (some n.localName) TAG_CPE_ITEM_STR
      && decide (n.type = XML_READER_TYPE_ELEMENT)) = true
  · cases hattr : cpe_item_parse_attrs codec { cur := some n, rest := t } with
    | none =>
      simp only [hc, hattr, ↓reduceIte, Res.done.injEq, Prod.mk.injEq] at h ⊢
      obtain ⟨hst, hr⟩ := h
      exact ⟨errors, n :: t1, n :: t, ⟨rfl, hr⟩, hst.symm, hx, hstart⟩
    | some ret0 =>
      obtain ⟨_, z1, z, hz1, hz, hat, hzstart⟩ := next_element_spaced errors t1 t ht1
      simp only [hc, hattr, ↓reduceIte, next_element_mk, hz] at h
      obtain ⟨y1, y, hloop1, hy, hyat, hystart⟩ :=
        cpe_item_parse_loop_spaced fuel z ret0 errors st r h hzstart z1 hat
      refine ⟨st.errors, y1, y, ?_, hy, hyat, hystart⟩
      simp only [hc, ↓reduceIte, next_element_mk, hz1]
      exact hloop1
  · simp only [hc, Bool.false_eq_true, ↓reduceIte, Res.done.injEq, Prod.mk.injEq] at h ⊢
    obtain ⟨hst, hr⟩ := h
    exact ⟨errors, n :: t1, n :: t, ⟨rfl, hr⟩, hst.symm, hx, hstart⟩

theorem oscap_seterr_on_nodes (errors : List String) (x : List xmlNode) (msg : String) :
    oscap_seterr (on_nodes errors x) msg = on_nodes (errors ++ [msg]) x := rfl

/-- The main loop of `cpe_dict_model_parse` on a stream with white space and
comments answers the dictionary it answers on the plain stream, with the same
diagnostics. -/
theorem cpe_dict_model_parse_loop_spaced (codec : cpe_codec) :
    ∀ (fuel : Nat) (x : List xmlNode) (ret : cpe_dict_model) (nr : Int)
      (errors : List String) (st : parser_state) (r : Option cpe_dict_model),
      cpe_dict_model_parse_loop codec fuel (on_nodes errors x) ret nr = .done (st, r) →
      at_start_tag x →
      ∀ x1, spaces_at x1 x →
        ∃ fuel1 st1, cpe_dict_model_parse_loop codec fuel1 (on_nodes errors x1) ret nr
            = .done (st1, r)
          ∧ st1.errors = st.errors := by
  intro fuel
  induction fuel with
  | zero => intro x ret nr errors st r h; simp [cpe_dict_model_parse_loop] at h
  | succ fuel ih =>
    intro x ret nr errors st r h hx x1 hx1
    have hnext : ∀ (y1 y : List xmlNode) (e : List String) (ret2 : cpe_dict_model)
        (st : parser_state) (r : Option cpe_dict_model), spaces_at y1 y →
        cpe_dict_model_parse_loop codec fuel (on_nodes e y).next_element.2 ret2
          (on_nodes e y).next_element.1 = .done (st, r) →
        ∃ fuel1 st1, cpe_dict_model_parse_loop codec fuel1 (on_nodes e y1).next_element.2 ret2
            (on_nodes e y1).next_element.1 = .done (st1, r)
          ∧ st1.errors = st.errors := by
      intro y1 y e ret2 st r hy hloop
      obtain ⟨hnr, z1, z, hz1, hz, hat, hzstart⟩ :=
        next_element_spaced e y1.tail y.tail (spaces_at_tail y1 y hy)
      rw [next_element_on_nodes] at hloop ⊢
      simp only [hz] at hloop
      simp only [hz1, hnr]
      exact ih z ret2 _ e st r hloop hzstart z1 hat
    by_cases hnr : nr = 0
    · subst hnr
      rw [cpe_dict_model_parse_loop_eof] at h
      simp only [Res.done.injEq, Prod.mk.injEq] at h
      obtain ⟨hst, hr⟩ := h
      exact ⟨1, on_nodes errors x1, by rw [cpe_dict_model_parse_loop_eof, hr],
        by rw [← hst]; rfl⟩
    · cases x with
      | nil =>
        rw [spaces_at_nil x1 hx1]
        exact ⟨fuel + 1, st, h, rfl⟩
      | cons n t =>
        have htype : n.type = XML_READER_TYPE_ELEMENT := hx n rfl
        obtain ⟨t1, hsplit, hn, ht1⟩ := spaces_at_cons x1 n t hx1
        subst hsplit
        have hlocal : ∀ rest : List xmlNode, xmlTextReaderConstLocalName
            (on_nodes errors (n :: rest)).reader = some n.localName := fun _ => rfl
        by_cases hg : n.localName = TAG_GENERATOR_STR
        · rw [cpe_dict_model_parse_loop_generator _ _ _ _ _ hnr (by rw [hlocal, hg])] at h
          obtain ⟨out, hparse, hcont⟩ := Res.bind_eq_done h
          obtain ⟨fuel_g, e1, y1, y, hparse1, hout, hy⟩ :=
            cpe_generator_parse_spaced fuel n t t1 errors out.1 out.2 hparse hx1
          rw [hout] at hcont
          obtain ⟨fuel_m, st1, hloop1, herr⟩ := hnext y1 y e1 _ st r hy hcont
          refine ⟨max fuel_g fuel_m + 1, st1, ?_, herr⟩
          rw [cpe_dict_model_parse_loop_generator _ _ _ _ _ hnr (by rw [hlocal, hg]),
            done_of_fuel_le (fun k => cpe_generator_parse k (on_nodes errors (n :: t1)))
              (fun k => cpe_generator_parse_mono k _) fuel_g _ (Nat.le_max_left _ _) _ hparse1]
          simp only [Res.bind_done]
          exact done_of_fuel_le
            (fun k => cpe_dict_model_parse_loop codec k (on_nodes e1 y1).next_element.2
              { ret with generator := out.2 } (on_nodes e1 y1).next_element.1)
            (fun k => cpe_dict_model_parse_loop_mono codec k _ _ _) fuel_m _
            (Nat.le_max_right _ _) _ hloop1
        · by_cases hi : n.localName = TAG_CPE_ITEM_STR
          · rw [cpe_dict_model_parse_loop_item _ _ _ _ _ hnr (by rw [hlocal, hi])] at h
            obtain ⟨out, hparse, hcont⟩ := Res.bind_eq_done h
            obtain ⟨e1, y1, y, hparse1, hout, hy, hystart⟩ :=
              cpe_item_parse_spaced codec fuel n t t1 errors out.1 out.2 hparse htype hx1
            rw [hout] at hcont
            cases hitem : out.2 with
            | none =>
              rw [hitem] at hcont hparse1
              simp only at hcont
              obtain ⟨fuel_m, st1, hloop1, herr⟩ := hnext y1 y e1 _ st r hy hcont
              refine ⟨max fuel fuel_m + 1, st1, ?_, herr⟩
              rw [cpe_dict_model_parse_loop_item _ _ _ _ _ hnr (by rw [hlocal, hi]),
                done_of_fuel_le
                  (fun k => cpe_item_parse codec k (on_nodes errors (n :: t1)))
                  (fun k => cpe_item_parse_mono codec k _) fuel _ (Nat.le_max_left _ _) _
                  hparse1]
              simp only [Res.bind_done]
              exact done_of_fuel_le
                (fun k => cpe_dict_model_parse_loop codec k (on_nodes e1 y1).next_element.2
                  ret (on_nodes e1 y1).next_element.1)
                (fun k => cpe_dict_model_parse_loop_mono codec k _ _ _) fuel_m _
                (Nat.le_max_right _ _) _ hloop1
            | some item =>
              rw [hitem] at hcont hparse1
              simp only at hcont
              obtain ⟨fuel_m, st1, hloop1, herr⟩ := ih y _ nr e1 st r hcont hystart y1 hy
              refine ⟨max fuel fuel_m + 1, st1, ?_, herr⟩
              rw [cpe_dict_model_parse_loop_item _ _ _ _ _ hnr (by rw [hlocal, hi]),
                done_of_fuel_le
                  (fun k => cpe_item_parse codec k (on_nodes errors (n :: t1)))
                  (fun k => cpe_item_parse_mono codec k _) fuel _ (Nat.le_max_left _ _) _
                  hparse1]
              simp only [Res.bind_done]
              exact done_of_fuel_le
                (fun k => cpe_dict_model_parse_loop codec k (on_nodes e1 y1)
                  { ret with items := ret.items ++ [item] } nr)
                (fun k => cpe_dict_model_parse_loop_mono codec k _ _ _) fuel_m _
                (Nat.le_max_right _ _) _ hloop1
          · by_cases hv : n.localName = TAG_VENDOR_STR
            · rw [cpe_dict_model_parse_loop_vendor _ _ _ _ _ hnr (by rw [hlocal, hv])] at h
              obtain ⟨out, hparse, hcont⟩ := Res.bind_eq_done h
              obtain ⟨fuel_v, e1, y1, y, hparse1, hout, hy⟩ :=
                cpe_vendor_parse_spaced fuel n t t1 errors out.1 out.2 hparse hx1
              rw [hout] at hcont
              obtain ⟨fuel_m, st1, hloop1, herr⟩ := hnext y1 y e1 _ st r hy hcont
              refine ⟨max fuel_v fuel_m + 1, st1, ?_, herr⟩
              rw [cpe_dict_model_parse_loop_vendor _ _ _ _ _ hnr (by rw [hlocal, hv]),
                done_of_fuel_le (fun k => cpe_vendor_parse k (on_nodes errors (n :: t1)))
                  (fun k => cpe_vendor_parse_mono k _) fuel_v _ (Nat.le_max_left _ _) _
                  hparse1]
              simp only [Res.bind_done]
              exact done_of_fuel_le
                (fun k => cpe_dict_model_parse_loop codec k (on_nodes e1 y1).next_element.2
                  (match out.2 with
                   | some vendor => { ret with vendors := ret.vendors ++ [vendor] }
                   | none => ret) (on_nodes e1 y1).next_element.1)
                (fun k => cpe_dict_model_parse_loop_mono codec k _ _ _) fuel_m _
                (Nat.le_max_right _ _) _ hloop1
            · by_cases hc : n.localName = TAG_COMPONENT_TREE_STR
              · rw [cpe_dict_model_parse_loop_component_tree _ _ _ _ _ hnr
                  (by rw [hlocal, hc])] at h
                obtain ⟨fuel_m, st1, hloop1, herr⟩ := hnext (n :: t1) (n :: t) errors _ st r
                  hx1 h
                refine ⟨fuel_m + 1, st1, ?_, herr⟩
                rw [cpe_dict_model_parse_loop_component_tree _ _ _ _ _ hnr
                  (by rw [hlocal, hc])]
                exact hloop1
              · rw [cpe_dict_model_parse_loop_unknown codec _ _ ret nr n hnr rfl htype hg hi
                  hv hc, oscap_seterr_on_nodes] at h
                have h0 : (on_nodes errors (n :: t)).next_element.1
                    = (on_nodes (errors ++ [ERR_UNKNOWN_ELEMENT]) (n :: t)).next_element.1 :=
                  rfl
                rw [h0] at h
                obtain ⟨fuel_m, st1, hloop1, herr⟩ := hnext (n :: t1) (n :: t)
                  (errors ++ [ERR_UNKNOWN_ELEMENT]) _ st r hx1 h
                refine ⟨fuel_m + 1, st1, ?_, herr⟩
                rw [cpe_dict_model_parse_loop_unknown codec _ _ ret nr n hnr rfl htype hg hi
                  hv hc, oscap_seterr_on_nodes]
                exact hloop1

/-- The parse of a document with white space and comments around and between
its elements, whose plain document starts with the root:
`cpe_dict_model_parse` returns, for every fuel that is large enough, the
dictionary it returns on the plain document, with the same diagnostics. -/
theorem cpe_dict_model_parse_spaced (codec : cpe_codec) (root : xmlNode)
    (rest document : List xmlNode) (hroot : root.starts TAG_CPE_LIST_STR = true)
    (hdoc : spaces document (root :: rest)) (fuel : Nat) (st : parser_state)
    (r : Option cpe_dict_model)
    (h : cpe_dict_model_parse codec fuel (parser_state.start (root :: rest)) = .done (st, r)) :
    ∃ k, ∀ (fuel1 : Nat), k ≤ fuel1 →
      ∃ st1, cpe_dict_model_parse codec fuel1 (parser_state.start document) = .done (st1, r)
        ∧ st1.errors = st.errors := by
  obtain ⟨htype, hname⟩ := (starts_iff root TAG_CPE_LIST_STR).mp hroot
  obtain ⟨ws, rest1, hsplit, hws, _, hrest1, _⟩ := spaces_cons document root rest hdoc
  subst hsplit
  have hpre : before_root ws := by
    refine ⟨fun n hn => ?_, fun n hn ht => ?_⟩
    · have hmem : n ∈ ws := List.mem_of_mem_head? hn
      exact insignificant_not_tag n (hws n hmem) _ (by decide) (by decide)
    · exact absurd ht (insignificant_type n (hws n hn)).1
  obtain ⟨f, rfl⟩ : ∃ f, fuel = f + 1 := by
    cases fuel with
    | zero => simp [cpe_dict_model_parse, cpe_dict_model_parse_find] at h
    | succ f => exact ⟨f, rfl⟩
  have hfind0 : cpe_dict_model_parse_find (f + 1) (parser_state.start (root :: rest)) 1
      = .done ({ reader := { cur := some root, rest := rest }, errors := [] }, true) :=
    cpe_dict_model_parse_find_root f _ 1 (by
      simp [parser_state.start, xmlTextReaderNextNode, xmlTextReaderRead,
        xmlTextReaderConstLocalName, hname])
  rw [cpe_dict_model_parse, hfind0] at h
  simp only [Res.bind_done, ↓reduceIte, next_element_mk, cpe_dict_model_parse_xmlns] at h
  obtain ⟨hnr, z1, z, hz1, hz, hat, hzstart⟩ := next_element_spaced [] rest1 rest hrest1
  rw [hz] at h
  obtain ⟨fuel_m, st1, hloop1, herr⟩ :=
    cpe_dict_model_parse_loop_spaced codec (f + 1) z _ _ [] st r h hzstart z1 hat
  refine ⟨max fuel_m (ws.length + 2), fun fuel1 hfuel => ⟨st1, ?_, herr⟩⟩
  rw [cpe_dict_model_parse,
    cpe_dict_model_parse_find_start root ws rest1 hname htype hpre fuel1
      (by have := Nat.le_max_right fuel_m (ws.length + 2); omega)]
  simp only [Res.bind_done, ↓reduceIte, next_element_mk, cpe_dict_model_parse_xmlns, hz1, hnr]
  exact done_of_fuel_le
    (fun k => cpe_dict_model_parse_loop codec k (on_nodes [] z1)
      { cpe_dict_model_new with
        xmlns := root.attrs.map (fun a => { lang := none, nspace := some a.1, URI := some a.2 }) }
      (xmlTextReaderNextElement_loop rest).1)
    (fun k => cpe_dict_model_parse_loop_mono codec k _ _ _) fuel_m fuel1
    (by have := Nat.le_max_left fuel_m (ws.length + 2); omega) _ hloop1

/-! ## The structure that the serializer emits -/

theorem document_structure_append (a b : List xmlNode) :
    document_structure (a ++ b) = document_structure a ++ document_structure b := by
  simp [document_structure]

theorem document_structure_cons (n : xmlNode) (rest : List xmlNode) :
    document_structure (n :: rest) = node_structure n ++ document_structure rest := by
  simp [document_structure]

theorem document_structure_nil : document_structure [] = [] := rfl

theorem node_structure_insignificant (n : xmlNode) (h : n.insignificant = true) :
    node_structure n = [] := by
  simp only [xmlNode.insignificant, Bool.or_eq_true, Bool.and_eq_true, beq_iff_eq] at h
  rcases h with h | h <;> simp [node_structure, h.1]

/-- White space and comments are no part of the structure of a document. -/
theorem document_structure_unspaced (nodes : List xmlNode) :
    document_structure (unspaced nodes) = document_structure nodes := by
  induction nodes with
  | nil => rfl
  | cons n nodes ih =>
    by_cases h : n.insignificant = true
    · rw [unspaced_cons_insignificant n nodes h, document_structure_cons,
        node_structure_insignificant n h, ih]
      rfl
    · simp only [Bool.not_eq_true] at h
      rw [unspaced_cons_significant n nodes h, document_structure_cons,
        document_structure_cons, ih]

theorem written_structure_start (p : Option String) (name : String)
    (rest : List xmlTextWriterCall) :
    written_structure (StartElementNS p name :: rest)
      = .start p name (cursor_attributes (leading_attributes rest))
        :: written_structure rest := rfl

theorem written_structure_end (rest : List xmlTextWriterCall) :
    written_structure (EndElement :: rest) = .stop :: written_structure rest := rfl

theorem written_structure_attribute_if (name : String) (value : Option String)
    (rest : List xmlTextWriterCall) :
    written_structure (write_attribute_if name value ++ rest) = written_structure rest := by
  cases value <;> rfl

theorem leading_attributes_end (rest : List xmlTextWriterCall) :
    leading_attributes (EndElement :: rest) = [] := rfl

theorem leading_attributes_start (p : Option String) (name : String)
    (rest : List xmlTextWriterCall) :
    leading_attributes (StartElementNS p name :: rest) = [] := rfl

theorem lang_attribute_optional (lang : Option String) :
    lang_attribute lang = optional_attribute ATTR_XML_LANG_STR lang := by
  cases lang <;> rfl

theorem document_structure_text_nodes (lang : Option String) (s : String) :
    document_structure (text_nodes lang s) = if s.data.all isspace then [] else [.text s] := by
  by_cases hs : s = ""
  · subst hs
    simp [text_nodes, document_structure]
  · by_cases hall : s.data.all isspace = true
    · simp [text_nodes, hs, document_structure, node_structure, text_type, hall]
    · simp [text_nodes, hs, document_structure, node_structure, text_type, hall]

theorem written_structure_string_if (lang : Option String) (text : Option String)
    (rest : List xmlTextWriterCall) :
    written_structure (write_string_if text ++ rest)
      = (match text with
         | some s => document_structure (text_nodes lang s)
         | none => []) ++ written_structure rest := by
  cases text with
  | none => rfl
  | some s =>
    simp only [document_structure_text_nodes]
    rfl

theorem document_structure_element_nodes (name : String) (nspace lang : Option String)
    (attrs : List (String × String)) (children : List xmlNode) :
    document_structure (element_nodes name nspace lang attrs children)
      = .start nspace name (cursor_attributes attrs)
        :: (document_structure children ++ [.stop]) := by
  cases children with
  | nil => simp [element_nodes, document_structure, node_structure, xml_element]
  | cons c cs =>
    simp [element_nodes, document_structure, node_structure, xml_element, xml_end]

theorem document_structure_text_element_nodes (name : String) (nspace lang : Option String)
    (attrs : List (String × String)) (text : Option String) :
    document_structure (text_element_nodes name nspace lang attrs text)
      = .start nspace name (cursor_attributes attrs)
        :: ((match text with
             | some s => document_structure (text_nodes lang s)
             | none => []) ++ [.stop]) := by
  cases text with
  | none => simp [text_element_nodes, document_structure, node_structure, xml_element]
  | some s =>
    simp [text_element_nodes, document_structure, node_structure, xml_element, xml_end]

theorem written_structure_flatten {α : Type} (write : α → List xmlTextWriterCall)
    (nodes : α → List xmlNode) (xs : List α)
    (h : ∀ x ∈ xs, ∀ rest, written_structure (write x ++ rest)
      = document_structure (nodes x) ++ written_structure rest)
    (rest : List xmlTextWriterCall) :
    written_structure ((xs.map write).flatten ++ rest)
      = document_structure (xs.map nodes).flatten ++ written_structure rest := by
  induction xs with
  | nil => rfl
  | cons x xs ih =>
    simp only [List.map_cons, List.flatten_cons, List.append_assoc,
      h x (List.mem_cons_self _ _), ih (fun y hy => h y (List.mem_cons_of_mem _ hy)),
      document_structure_append]

theorem written_structure_title (t : oscap_title) (rest : List xmlTextWriterCall) :
    written_structure (oscap_title_export t ++ rest)
      = document_structure (t.nodes TAG_TITLE_STR) ++ written_structure rest := by
  simp only [oscap_title_export, oscap_title.nodes, List.append_assoc, List.singleton_append,
    List.cons_append, List.nil_append, written_structure_start,
    leading_attributes_attribute_if, leading_attributes_string_if_end, List.append_nil,
    written_structure_attribute_if, written_structure_string_if t.xml.lang,
    written_structure_end, document_structure_text_element_nodes, lang_attribute,
    optional_attribute, ATTR_XML_LANG_STR]

theorem written_structure_note (t : oscap_title) (rest : List xmlTextWriterCall) :
    written_structure (cpe_note_export t ++ rest)
      = document_structure (t.nodes TAG_NOTE_STR) ++ written_structure rest := by
  simp only [cpe_note_export, oscap_title.nodes, List.append_assoc, List.singleton_append,
    List.cons_append, List.nil_append, written_structure_start,
    leading_attributes_attribute_if, leading_attributes_string_if_end, List.append_nil,
    written_structure_attribute_if, written_structure_string_if t.xml.lang,
    written_structure_end, document_structure_text_element_nodes, lang_attribute,
    optional_attribute, ATTR_XML_LANG_STR]

theorem written_structure_check (c : cpe_check) (rest : List xmlTextWriterCall) :
    written_structure (cpe_check_export c ++ rest)
      = document_structure c.nodes ++ written_structure rest := by
  simp only [cpe_check_export, cpe_check.nodes, List.append_assoc, List.singleton_append,
    List.cons_append, List.nil_append, written_structure_start,
    leading_attributes_attribute_if, leading_attributes_string_if_end, List.append_nil,
    written_structure_attribute_if, written_structure_string_if none,
    written_structure_end, document_structure_text_element_nodes, optional_attribute,
    lang_attribute]

theorem written_structure_reference (r : cpe_reference) (hr : r.canonical = true)
    (rest : List xmlTextWriterCall) :
    written_structure (cpe_reference_export r ++ rest)
      = document_structure r.nodes ++ written_structure rest := by
  simp only [cpe_reference.canonical, Bool.and_eq_true, Bool.or_eq_true, decide_eq_true_eq]
    at hr
  obtain ⟨_, hlang⟩ := hr
  have hattrs : leading_attributes (write_string_if r.content
      ++ (write_attribute_if ATTR_XML_LANG_STR r.xml.lang ++ EndElement :: rest))
      = lang_attribute r.xml.lang := by
    rcases hlang with h | h
    · rw [h]
      cases r.content <;> rfl
    · rw [h]
      cases r.xml.lang <;> rfl
  simp only [cpe_reference_export, cpe_reference.nodes, List.append_assoc,
    List.singleton_append, List.cons_append, List.nil_append, written_structure_start,
    leading_attributes_attribute_if, hattrs,
    written_structure_attribute_if, written_structure_string_if r.xml.lang,
    written_structure_end, document_structure_text_element_nodes, optional_attribute,
    lang_attribute]

theorem written_structure_metadata (m : cpe_item_metadata) (rest : List xmlTextWriterCall) :
    written_structure (cpe_item_metadata_export m ++ rest)
      = document_structure m.nodes ++ written_structure rest := by
  simp only [cpe_item_metadata_export, cpe_item_metadata.nodes, List.append_assoc,
    List.singleton_append, List.cons_append, List.nil_append, written_structure_start,
    leading_attributes_attribute_if, leading_attributes_end, List.append_nil,
    written_structure_attribute_if, written_structure_end]
  simp [document_structure, node_structure, xml_element, optional_attribute]

theorem written_structure_language (l : cpe_language) (rest : List xmlTextWriterCall) :
    written_structure (cpe_language_export l ++ rest)
      = document_structure l.nodes ++ written_structure rest := by
  simp only [cpe_language_export, cpe_language.nodes, List.append_assoc,
    List.singleton_append, List.cons_append, List.nil_append, written_structure_start,
    leading_attributes_attribute_if, leading_attributes_end, List.append_nil,
    written_structure_attribute_if, written_structure_end]
  simp [document_structure, node_structure, xml_element, optional_attribute, lang_attribute]

theorem leading_attributes_elements {α : Type} (write : α → List xmlTextWriterCall)
    (h : ∀ x, ∃ p name calls, write x = StartElementNS p name :: calls) (xs : List α)
    (rest : List xmlTextWriterCall) :
    leading_attributes ((xs.map write).flatten ++ EndElement :: rest) = [] := by
  cases xs with
  | nil => rfl
  | cons x xs =>
    obtain ⟨p, name, calls, hx⟩ := h x
    simp only [List.map_cons, List.flatten_cons, hx, List.cons_append, List.append_assoc]
    rfl

theorem written_structure_edition (e : cpe_edition) (rest : List xmlTextWriterCall) :
    written_structure (cpe_edition_export e ++ rest)
      = document_structure e.nodes ++ written_structure rest := by
  have hl := leading_attributes_elements cpe_language_export
    (fun x => ⟨_, _, _, rfl⟩) e.languages rest
  simp only [cpe_edition_export, cpe_edition.nodes, List.append_assoc,
    List.singleton_append, List.cons_append, List.nil_append, written_structure_start,
    leading_attributes_attribute_if, hl, List.append_nil,
    written_structure_attribute_if,
    written_structure_flatten _ _ _ (fun x _ => written_structure_language x), written_structure_end,
    document_structure_element_nodes, optional_attribute]

theorem written_structure_update (u : cpe_update) (rest : List xmlTextWriterCall) :
    written_structure (cpe_update_export u ++ rest)
      = document_structure u.nodes ++ written_structure rest := by
  have hl := leading_attributes_elements cpe_edition_export
    (fun x => ⟨_, _, _, rfl⟩) u.editions rest
  simp only [cpe_update_export, cpe_update.nodes, List.append_assoc,
    List.singleton_append, List.cons_append, List.nil_append, written_structure_start,
    leading_attributes_attribute_if, hl, List.append_nil,
    written_structure_attribute_if,
    written_structure_flatten _ _ _ (fun x _ => written_structure_edition x), written_structure_end,
    document_structure_element_nodes, optional_attribute]

theorem written_structure_version (v : cpe_version) (rest : List xmlTextWriterCall) :
    written_structure (cpe_version_export v ++ rest)
      = document_structure v.nodes ++ written_structure rest := by
  have hl := leading_attributes_elements cpe_update_export
    (fun x => ⟨_, _, _, rfl⟩) v.updates rest
  simp only [cpe_version_export, cpe_version.nodes, List.append_assoc,
    List.singleton_append, List.cons_append, List.nil_append, written_structure_start,
    leading_attributes_attribute_if, hl, List.append_nil,
    written_structure_attribute_if,
    written_structure_flatten _ _ _ (fun x _ => written_structure_update x), written_structure_end,
    document_structure_element_nodes, optional_attribute]

theorem written_structure_product (p : cpe_product) (rest : List xmlTextWriterCall) :
    written_structure (cpe_product_export p ++ rest)
      = document_structure p.nodes ++ written_structure rest := by
  have hl := leading_attributes_elements cpe_version_export
    (fun x => ⟨_, _, _, rfl⟩) p.versions rest
  have hpart : ∀ calls, leading_attributes (cpe_product_export_part p ++ calls)
      = optional_attribute ATTR_PART_STR (PART_TO_CHAR p.part) ++ leading_attributes calls := by
    intro calls
    cases hp : p.part <;> simp [cpe_product_export_part, hp, PART_TO_CHAR, optional_attribute,
      leading_attributes]
  have hpart2 : ∀ calls, written_structure (cpe_product_export_part p ++ calls)
      = written_structure calls := by
    intro calls
    cases hp : p.part <;> simp [cpe_product_export_part, hp, written_structure]
  simp only [cpe_product_export, cpe_product.nodes, List.append_assoc,
    List.singleton_append, List.cons_append, List.nil_append, written_structure_start,
    leading_attributes_attribute_if, hpart, hpart2, hl, List.append_nil,
    written_structure_attribute_if,
    written_structure_flatten _ _ _ (fun x _ => written_structure_version x), written_structure_end,
    document_structure_element_nodes, optional_attribute]

theorem written_structure_vendor (v : cpe_vendor) (rest : List xmlTextWriterCall) :
    written_structure (cpe_vendor_export v ++ rest)
      = document_structure v.nodes ++ written_structure rest := by
  simp only [cpe_vendor_export, cpe_vendor.nodes, List.append_assoc,
    List.singleton_append, List.cons_append, List.nil_append, written_structure_start,
    leading_attributes_attribute_if, leading_attributes_vendor_children, List.append_nil,
    written_structure_attribute_if,
    written_structure_flatten _ _ _ (fun x _ => written_structure_title x),
    written_structure_flatten _ _ _ (fun x _ => written_structure_product x), written_structure_end,
    document_structure_element_nodes, document_structure_append, optional_attribute]

theorem written_structure_generator_field (nspace : Option String) (tag : String)
    (field : Option String) (rest : List xmlTextWriterCall) :
    written_structure (cpe_generator_export_field nspace tag field ++ rest)
      = document_structure (generator_field_nodes nspace tag field)
        ++ written_structure rest := by
  cases field with
  | none => rfl
  | some s =>
    have h := document_structure_text_nodes none s
    simp only [cpe_generator_export_field, generator_field_nodes, List.cons_append,
      List.nil_append, written_structure_start, document_structure_cons,
      document_structure_append, h]
    simp [written_structure, leading_attributes, node_structure, xml_element, xml_end,
      cursor_attributes, document_structure]

theorem leading_attributes_generator_fields (g : cpe_generator)
    (rest : List xmlTextWriterCall) :
    leading_attributes
      (cpe_generator_export_field g.xml.nspace TAG_PRODUCT_NAME_STR g.product_name
        ++ (cpe_generator_export_field g.xml.nspace TAG_PRODUCT_VERSION_STR g.product_version
        ++ (cpe_generator_export_field g.xml.nspace TAG_SCHEMA_VERSION_STR g.schema_version
        ++ (cpe_generator_export_field g.xml.nspace TAG_TIMESTAMP_STR g.timestamp
        ++ EndElement :: rest)))) = [] := by
  rcases g with ⟨xml, a, b, c, d⟩
  cases a <;> cases b <;> cases c <;> cases d <;> rfl

theorem written_structure_generator (g : cpe_generator) (rest : List xmlTextWriterCall) :
    written_structure (cpe_generator_export g ++ rest)
      = document_structure g.nodes ++ written_structure rest := by
  simp only [cpe_generator_export, cpe_generator.nodes, cpe_generator.child_nodes,
    List.append_assoc, List.singleton_append, List.cons_append, List.nil_append,
    written_structure_start, leading_attributes_generator_fields,
    written_structure_generator_field, written_structure_end,
    document_structure_element_nodes, document_structure_append]

theorem leading_attributes_item_attributes (codec : cpe_codec) (item : cpe_item)
    (hpair : (item.deprecated.isSome == item.deprecation_date.isSome) = true)
    (rest : List xmlTextWriterCall) :
    leading_attributes (cpe_item_export_attributes codec item ++ rest)
      = item.attributes codec ++ leading_attributes rest := by
  unfold cpe_item_export_attributes cpe_item.attributes
  cases hn : item.name <;> cases hd : item.deprecated <;> cases hdate : item.deprecation_date <;>
    simp [hd, hdate] at hpair <;>
    simp [leading_attributes, optional_attribute]

theorem written_structure_item_attributes (codec : cpe_codec) (item : cpe_item)
    (rest : List xmlTextWriterCall) :
    written_structure (cpe_item_export_attributes codec item ++ rest)
      = written_structure rest := by
  unfold cpe_item_export_attributes
  cases item.name <;> cases item.deprecated <;> rfl

theorem flatten_nodes_eq_nil {α : Type} (nodes : α → List xmlNode) (h : ∀ x, nodes x ≠ [])
    (xs : List α) : (xs.map nodes).flatten = [] ↔ xs = [] := by
  cases xs with
  | nil => simp
  | cons x xs => simp [h x]

theorem document_structure_wrapped_nodes (name : String) (children : List xmlNode) :
    document_structure (wrapped_nodes name children)
      = if children = [] then []
        else .start none name [] :: (document_structure children ++ [.stop]) := by
  cases children with
  | nil => rfl
  | cons c cs =>
    simp [wrapped_nodes, document_structure, node_structure, xml_element, xml_end,
      cursor_attributes]

theorem written_structure_item_references (item : cpe_item)
    (h : item.references.all cpe_reference.canonical = true) (rest : List xmlTextWriterCall) :
    written_structure (cpe_item_export_references item ++ rest)
      = document_structure
          (wrapped_nodes TAG_REFERENCES_STR (item.references.map cpe_reference.nodes).flatten)
        ++ written_structure rest := by
  have hnil := flatten_nodes_eq_nil cpe_reference.nodes
    (fun r => text_element_nodes_ne_nil _ _ _ _ _) item.references
  rw [document_structure_wrapped_nodes]
  by_cases hr : item.references = []
  · simp [cpe_item_export_references, hr]
  · have hne : (item.references.map cpe_reference.nodes).flatten ≠ [] := fun hc => hr (hnil.mp hc)
    have hl := leading_attributes_elements cpe_reference_export (fun x => ⟨_, _, _, rfl⟩)
      item.references rest
    simp only [cpe_item_export_references, ne_eq, hr, not_false_eq_true, ↓reduceIte,
      List.append_assoc, List.singleton_append, List.cons_append, List.nil_append,
      written_structure_start, hl, hne,
      written_structure_flatten cpe_reference_export cpe_reference.nodes item.references
        (fun r hr1 => written_structure_reference r (List.all_eq_true.mp h r hr1)),
      written_structure_end]
    rfl

theorem written_structure_item_notes (item : cpe_item) (rest : List xmlTextWriterCall) :
    written_structure (cpe_item_export_notes item ++ rest)
      = document_structure
          (wrapped_nodes TAG_NOTES_STR
            (item.notes.map (oscap_title.nodes TAG_NOTE_STR)).flatten)
        ++ written_structure rest := by
  have hnil := flatten_nodes_eq_nil (oscap_title.nodes TAG_NOTE_STR)
    (fun r => text_element_nodes_ne_nil _ _ _ _ _) item.notes
  rw [document_structure_wrapped_nodes]
  by_cases hr : item.notes = []
  · simp [cpe_item_export_notes, hr]
  · have hne : (item.notes.map (oscap_title.nodes TAG_NOTE_STR)).flatten ≠ [] :=
      fun hc => hr (hnil.mp hc)
    have hl := leading_attributes_elements cpe_note_export (fun x => ⟨_, _, _, rfl⟩)
      item.notes rest
    simp only [cpe_item_export_notes, ne_eq, hr, not_false_eq_true, ↓reduceIte,
      List.append_assoc, List.singleton_append, List.cons_append, List.nil_append,
      written_structure_start, hl, hne,
      written_structure_flatten cpe_note_export (oscap_title.nodes TAG_NOTE_STR) item.notes
        (fun t _ => written_structure_note t),
      written_structure_end]
    rfl

theorem written_structure_item_metadata (item : cpe_item) (rest : List xmlTextWriterCall) :
    written_structure (cpe_item_export_metadata item ++ rest)
      = document_structure (match item.metadata with
          | some m => m.nodes
          | none => []) ++ written_structure rest := by
  unfold cpe_item_export_metadata
  cases item.metadata with
  | none => rfl
  | some m => exact written_structure_metadata m rest

/-- The structure that `cpe_item_export` emits for an entry is the structure of
the nodes of the entry. -/
theorem written_structure_item (codec : cpe_codec) (item : cpe_item)
    (h : item.canonical codec = true) (rest : List xmlTextWriterCall) :
    written_structure (cpe_item_export codec item ++ rest)
      = document_structure (item.nodes codec) ++ written_structure rest := by
  simp only [cpe_item.canonical, Bool.and_eq_true] at h
  obtain ⟨⟨⟨⟨⟨⟨_, hpair⟩, _⟩, _⟩, hrefs⟩, _⟩, _⟩ := h
  simp only [cpe_item_export, cpe_item.nodes, cpe_item.child_nodes, List.append_assoc,
    List.singleton_append, List.cons_append, List.nil_append, written_structure_start,
    leading_attributes_item_attributes codec item hpair, leading_attributes_item_children,
    List.append_nil, written_structure_item_attributes,
    written_structure_flatten oscap_title_export (oscap_title.nodes TAG_TITLE_STR) item.titles
      (fun t _ => written_structure_title t),
    written_structure_item_metadata, written_structure_item_references item hrefs,
    written_structure_item_notes,
    written_structure_flatten cpe_check_export cpe_check.nodes item.checks
      (fun c _ => written_structure_check c),
    written_structure_end, document_structure_element_nodes, document_structure_append]

theorem written_structure_component_tree (vendors : List cpe_vendor)
    (rest : List xmlTextWriterCall) :
    written_structure (component_tree_export vendors ++ rest)
      = document_structure
          (element_nodes TAG_COMPONENT_TREE_STR (some NS_META_STR) none []
            (vendors.map cpe_vendor.nodes).flatten)
        ++ written_structure rest := by
  have hl := leading_attributes_elements cpe_vendor_export (fun x => ⟨_, _, _, rfl⟩)
    vendors rest
  simp only [component_tree_export, List.append_assoc, List.singleton_append,
    List.cons_append, List.nil_append, written_structure_start, hl,
    written_structure_flatten cpe_vendor_export cpe_vendor.nodes vendors
      (fun v _ => written_structure_vendor v),
    written_structure_end, document_structure_element_nodes]

theorem written_structure_root_child (codec : cpe_codec) (c : root_child)
    (h : c.canonical codec = true) (hknown : c.is_unknown = false)
    (rest : List xmlTextWriterCall) :
    written_structure (c.export codec ++ rest)
      = document_structure (c.nodes codec) ++ written_structure rest := by
  cases c with
  | generator g => exact written_structure_generator g rest
  | item it => exact written_structure_item codec it h rest
  | component_tree vs => exact written_structure_component_tree vs rest
  | unknown u => simp [root_child.is_unknown] at hknown

theorem leading_attributes_xmlns_pairs (xmlns : List xml_metadata)
    (rest : List xmlTextWriterCall) :
    leading_attributes ((xmlns.map cpe_dict_export_xmlns).flatten ++ rest)
      = xmlns_attributes xmlns ++ leading_attributes rest := by
  induction xmlns with
  | nil => rfl
  | cons x xs ih =>
    rcases x with ⟨lang, nspace, uri⟩
    cases nspace <;> cases uri <;>
      simp [cpe_dict_export_xmlns, xmlns_attributes, leading_attributes] <;>
      simpa [xmlns_attributes] using ih

theorem written_structure_xmlns_pairs (xmlns : List xml_metadata)
    (rest : List xmlTextWriterCall) :
    written_structure ((xmlns.map cpe_dict_export_xmlns).flatten ++ rest)
      = written_structure rest := by
  induction xmlns with
  | nil => rfl
  | cons x xs ih =>
    rcases x with ⟨lang, nspace, uri⟩
    cases uri <;> simp [cpe_dict_export_xmlns, written_structure, ih]

theorem root_child_export_start (codec : cpe_codec) (c : root_child) :
    ∃ p name calls, c.export codec = StartElementNS p name :: calls := by
  cases c with
  | generator g => exact ⟨_, _, _, rfl⟩
  | item it => exact ⟨_, _, _, rfl⟩
  | component_tree vs => exact ⟨_, _, _, rfl⟩
  | unknown u => exact ⟨_, _, _, rfl⟩

/-- The structure that `cpe_dict_export` emits for a dictionary in the form the
parser stores it is the structure of the document of its root, its namespace
pairs and its children. -/
theorem written_structure_dict (codec : cpe_codec) (dict : cpe_dict_model)
    (h : dict.children.all (root_child.canonical codec) = true) :
    written_structure (cpe_dict_export codec dict)
      = document_structure
          (document_nodes codec dict.xml.nspace (xmlns_attributes dict.xmlns) dict.children) := by
  have hknown : ∀ c ∈ dict.children, c.is_unknown = false := by
    intro c hc
    simp only [cpe_dict_model.children, List.mem_append, List.mem_map, List.mem_singleton]
      at hc
    rcases hc with (hc | ⟨it, _, rfl⟩) | rfl
    · cases hg : dict.generator with
      | none => simp [hg] at hc
      | some g =>
        simp only [hg, List.mem_singleton] at hc
        rw [hc]
        rfl
    · rfl
    · rfl
  have hl := leading_attributes_elements (root_child.export codec)
    (root_child_export_start codec) dict.children []
  rw [cpe_dict_export_eq_root_export]
  simp only [root_export, document_nodes, List.append_assoc, List.singleton_append,
    List.cons_append, List.nil_append, written_structure_start,
    leading_attributes_xmlns_pairs, hl, List.append_nil, written_structure_xmlns_pairs,
    written_structure_flatten (root_child.export codec) (root_child.nodes codec) dict.children
      (fun c hc => written_structure_root_child codec c (List.all_eq_true.mp h c hc)
        (hknown c hc)),
    written_structure_end, document_structure_cons, document_structure_append]
  simp [node_structure, xml_element, xml_end, written_structure, document_structure]

/-! ## C1 -/

/-- C1, counterexample. Three documents on which `cpe_dict_model_parse`
returns a dictionary and for which `cpe_dict_export` emits another structure
than that of the document. The document of an empty `cpe-list` root that
declares the prefix `meta`: the serializer emits a `meta:component-tree`
element, absent from the input. A document whose entry has its check before
its title: the serializer emits the title first. A document with an element
`foo` under the root: the serializer emits no such element. -/
theorem round_trip_counterexample :
    (cpe_dict_model_parse sample_codec 2 (parser_state.start empty_root_document)
        = .done ({ reader := { cur := none, rest := [] }, errors := [] }, some empty_root_dict)
      ∧ document_structure empty_root_document
        = [.start none "cpe-list"
             [("xmlns:meta", "http://scap.nist.gov/schema/cpe-dictionary-metadata/0.2")],
           .stop]
      ∧ written_structure (cpe_dict_export sample_codec empty_root_dict)
        = [.start none "cpe-list"
             [("xmlns:meta", "http://scap.nist.gov/schema/cpe-dictionary-metadata/0.2")],
           .start (some "meta") "component-tree" [], .stop, .stop])
    ∧ (cpe_dict_model_parse sample_codec 6 (parser_state.start check_first_document)
        = .done ({ reader := { cur := none, rest := [] }, errors := [] }, some check_first_dict)
      ∧ written_structure (cpe_dict_export sample_codec check_first_dict)
        ≠ document_structure check_first_document)
    ∧ (cpe_dict_model_parse sample_codec 4 (parser_state.start unknown_child_document)
        = .done ({ reader := { cur := none, rest := [] }, errors := [ERR_UNKNOWN_ELEMENT] },
            some empty_root_dict)
      ∧ written_structure (cpe_dict_export sample_codec empty_root_dict)
        ≠ document_structure unknown_child_document) := by
  refine ⟨⟨by decide, by decide, by decide⟩, ⟨by decide, by decide⟩, ⟨by decide, by decide⟩⟩

/-- C1, amended. Round trip on the documents in the layout of the serializer,
white space and comments apart: take a dictionary in the form the parser
stores it, whose namespace pairs declare the prefixes of its elements, and a
document that, without its white space and its comments, is the document
that `cpe_dict_export` writes for that dictionary, as the cursor reads it,
with no white space and no comment inside an element whose text the parser
reads. Then, for every fuel that is large enough, `cpe_dict_model_parse`
returns on the document that dictionary and records no diagnostic, and the
element and attribute structure that `cpe_dict_export` emits for the returned
dictionary is the structure of the document, white space apart: every
element, attribute and text of the one is in the other, in the same order. -/
theorem cpe_dict_export_round_trip (codec : cpe_codec) (dict : cpe_dict_model)
    (document : List xmlNode) (hd : dict.canonical codec = true)
    (hdoc : unspaced document
      = document_nodes codec dict.xml.nspace (xmlns_attributes dict.xmlns) dict.children)
    (hflat : flat_texts document = true) :
    ∃ k, ∀ (fuel : Nat), k ≤ fuel →
      ∃ st ret, cpe_dict_model_parse codec fuel (parser_state.start document)
          = .done (st, some ret)
        ∧ st.errors = [] ∧ ret = dict
        ∧ written_structure (cpe_dict_export codec ret) = document_structure document := by
  simp only [cpe_dict_model.canonical, Bool.and_eq_true, decide_eq_true_eq] at hd
  obtain ⟨⟨⟨hxml, hxmlns⟩, hcs⟩, _⟩ := hd
  have hall : dict.xmlns.all xml_metadata.canonical = true := by
    simp only [xmlns_canonical, Bool.and_eq_true] at hxmlns
    exact hxmlns.1
  have hend : ends_without_item dict.children = true := by
    rw [cpe_dict_model.children, ends_without_item_append]
    rfl
  have herrors : (dict.children.map root_child.errors).flatten = [] := by
    cases hg : dict.generator <;>
      simp [cpe_dict_model.children, hg, root_child.errors, List.map_map, Function.comp_def]
  obtain ⟨k0, hk0⟩ := cpe_dict_model_parse_document codec dict.xml.nspace
    (xmlns_attributes dict.xmlns) dict.children hcs hend
  have hplain := hk0 k0 (Nat.le_refl _)
  rw [herrors, xmlns_attributes_map dict.xmlns hall, cpe_dict_model_children_fold dict hxml]
    at hplain
  obtain ⟨k, hk⟩ := cpe_dict_model_parse_spaced codec
    (xml_element TAG_CPE_LIST_STR dict.xml.nspace none (xmlns_attributes dict.xmlns) false)
    ((dict.children.map (root_child.nodes codec)).flatten
      ++ [xml_end TAG_CPE_LIST_STR dict.xml.nspace none])
    document (by simp [xmlNode.starts, xml_element]) ⟨hdoc, hflat⟩ k0 _ _ hplain
  refine ⟨k, fun fuel hfuel => ?_⟩
  obtain ⟨st1, hparse, herr⟩ := hk fuel hfuel
  refine ⟨st1, dict, hparse, herr, rfl, ?_⟩
  rw [written_structure_dict codec dict hcs, ← hdoc, document_structure_unspaced]

/-- The round trip at `sample_dict`, on its written document with white space and
comments. -/
theorem cpe_dict_export_round_trip_witness :
    (sample_dict.canonical sample_codec = true
      ∧ unspaced sample_spaced_document
        = document_nodes sample_codec sample_dict.xml.nspace
            (xmlns_attributes sample_dict.xmlns) sample_dict.children
      ∧ flat_texts sample_spaced_document = true)
    ∧ ∃ k, ∀ (fuel : Nat), k ≤ fuel →
      ∃ st ret, cpe_dict_model_parse sample_codec fuel
            (parser_state.start sample_spaced_document)
          = .done (st, some ret)
        ∧ st.errors = [] ∧ ret = sample_dict
        ∧ written_structure (cpe_dict_export sample_codec ret)
          = document_structure sample_spaced_document :=
  ⟨⟨by decide, by decide, by decide⟩,
   cpe_dict_export_round_trip sample_codec sample_dict sample_spaced_document (by decide)
    (by decide) (by decide)⟩

end CpeDict
